import Mathlib

/-!
# MOS legalizer: a shallow embedding of `MOSLegalizerInfo.cpp`

Generic machine instructions are lists of operands over virtual registers, the
`MachineIRBuilder` is a state that is threaded explicitly, every custom
legalization routine is a function from the builder and the instruction to the
builder it leaves behind, and the instructions it emitted are given a value
semantics by `execInstrs`.
-/

namespace MOS

/-! ## Low-level types, operands, instructions -/

/-- The low-level type of a virtual register (`LLT`). -/
inductive LLT where
  | invalid
  | scalar (SizeInBits : Nat)
  | pointer (AddressSpace SizeInBits : Nat)
deriving DecidableEq, Repr

namespace LLT

def getSizeInBits : LLT → Nat
  | invalid => 0
  | scalar n => n
  | pointer _ n => n

def isPointer : LLT → Bool
  | pointer _ _ => true
  | _ => false

def isScalar : LLT → Bool
  | scalar _ => true
  | _ => false

def getSizeInBytes (Ty : LLT) : Nat := (Ty.getSizeInBits + 7) / 8

def isByteSized (Ty : LLT) : Bool := Ty.getSizeInBits % 8 == 0

end LLT

def S1 : LLT := LLT.scalar 1
def S8 : LLT := LLT.scalar 8
def S16 : LLT := LLT.scalar 16
def P : LLT := LLT.pointer 0 16

/-- Virtual registers are numbered in creation order. -/
abbrev Register := Nat

/-- The integer predicates of `CmpInst::Predicate`. -/
inductive Predicate where
  | ICMP_EQ | ICMP_NE
  | ICMP_UGT | ICMP_UGE | ICMP_ULT | ICMP_ULE
  | ICMP_SGT | ICMP_SGE | ICMP_SLT | ICMP_SLE
deriving DecidableEq, Repr

/-- The opcodes that occur in the legality table and in the custom legalization
routines. Modelled from the spec: the last one, `LIBCALL`, stands for the call
to a runtime helper that the library-call bridge emits; the call lowering is
outside the given sources. -/
inductive Opcode where
  | COPY | G_CONSTANT | G_IMPLICIT_DEF | G_FRAME_INDEX | G_GLOBAL_VALUE
  | G_ANYEXT | G_TRUNC | G_SEXT | G_ZEXT | G_INTTOPTR | G_PTRTOINT
  | G_MERGE_VALUES | G_UNMERGE_VALUES | G_BSWAP
  | G_ADD | G_SUB | G_AND | G_OR | G_XOR
  | G_LSHR | G_SHL | G_ASHR | G_ROTL | G_ROTR
  | G_ICMP | G_SELECT | G_PTR_ADD
  | G_UADDO | G_SADDO | G_USUBO | G_SSUBO
  | G_UADDE | G_SADDE | G_USUBE | G_SSUBE
  | G_LOAD | G_STORE | G_PHI | G_BRCOND
  | G_VASTART | G_VAARG | G_DYN_STACKALLOC
  | G_SBC | G_LSHRE | G_SHLE | G_INDEX | G_BRCOND_IMM | SetSPHi | SetSPLo
  | G_FREEZE | G_SEXT_INREG | G_EXTRACT | G_INSERT | G_BITREVERSE | G_BITCAST | G_BR
  | G_MUL | G_SDIV | G_SREM | G_UDIV | G_UREM | G_SDIVREM | G_UDIVREM
  | G_SADDSAT | G_UADDSAT | G_SSUBSAT | G_USUBSAT | G_SSHLSAT | G_USHLSAT
  | G_SMIN | G_SMAX | G_UMIN | G_UMAX | G_ABS
  | G_SMULO | G_UMULO | G_UMULH | G_SMULH | G_FSHL | G_FSHR
  | G_CTLZ | G_CTTZ | G_CTPOP | G_CTLZ_ZERO_UNDEF | G_CTTZ_ZERO_UNDEF
  | G_FADD | G_FSUB | G_FMUL | G_FDIV | G_FMA | G_FPOW | G_FREM | G_FCOS | G_FSIN
  | G_FLOG10 | G_FLOG | G_FLOG2 | G_FEXP | G_FEXP2 | G_FCEIL | G_FFLOOR
  | G_FMINNUM | G_FMAXNUM | G_FSQRT | G_FRINT | G_FNEARBYINT | G_INTRINSIC_ROUNDEVEN
  | G_FPEXT | G_FPTRUNC | G_FPTOSI | G_FPTOUI | G_SITOFP | G_UITOFP
  | G_SEXTLOAD | G_ZEXTLOAD | G_MEMCPY | G_MEMMOVE | G_MEMSET
  | LIBCALL
deriving DecidableEq, Repr

/-- One operand of a machine instruction. A `cimm` holds the bits of the
`ConstantInt` of a `G_CONSTANT`, read as an unsigned number. -/
inductive MachineOperand where
  | reg (Reg : Register)
  | cimm (Val : Nat)
  | imm (Val : Int)
  | predicate (Pred : Predicate)
  | mbb (Block : Nat)
  | globalAddress (Global : Nat) (Offset : Int)
  | frameIndex (Index : Int)
deriving DecidableEq, Repr

/-- A machine instruction: an opcode and its operands, definitions first. -/
structure MachineInstr where
  Opcode : Opcode
  Operands : List MachineOperand
deriving DecidableEq, Repr

namespace MachineInstr

def getOperand (MI : MachineInstr) (Idx : Nat) : MachineOperand :=
  MI.Operands.getD Idx (MachineOperand.reg 0)

def getNumOperands (MI : MachineInstr) : Nat := MI.Operands.length

/-- The register of operand `Idx` (`getOperand(Idx).getReg()`, also
`MachineInstrBuilder::getReg(Idx)`). -/
def getReg (MI : MachineInstr) (Idx : Nat) : Register :=
  match MI.getOperand Idx with
  | MachineOperand.reg r => r
  | _ => 0

def getPredicate (MI : MachineInstr) (Idx : Nat) : Predicate :=
  match MI.getOperand Idx with
  | MachineOperand.predicate p => p
  | _ => Predicate.ICMP_EQ

def setReg (MI : MachineInstr) (Idx : Nat) (Reg : Register) : MachineInstr :=
  { MI with Operands := MI.Operands.set Idx (MachineOperand.reg Reg) }

def setPredicate (MI : MachineInstr) (Idx : Nat) (Pred : Predicate) : MachineInstr :=
  { MI with Operands := MI.Operands.set Idx (MachineOperand.predicate Pred) }

def setDesc (MI : MachineInstr) (Opc : MOS.Opcode) : MachineInstr :=
  { MI with Opcode := Opc }

end MachineInstr

/-- The register information of a function: the type of every virtual
register, and the instructions of the function as they stand when a
legalization routine is entered, through which the definition of a register
is found. -/
structure MachineRegisterInfo where
  VRegInfo : List LLT
  Insts : List MachineInstr
deriving DecidableEq, Repr

namespace MachineRegisterInfo

def getNumVirtRegs (MRI : MachineRegisterInfo) : Nat := MRI.VRegInfo.length

def getType (MRI : MachineRegisterInfo) (Reg : Register) : LLT :=
  MRI.VRegInfo.getD Reg LLT.invalid

def createGenericVirtualRegister (MRI : MachineRegisterInfo) (Ty : LLT) :
    MachineRegisterInfo × Register :=
  ({ MRI with VRegInfo := MRI.VRegInfo ++ [Ty] }, MRI.VRegInfo.length)

end MachineRegisterInfo

/-! ## The instruction builder -/

/-- The state of a `MachineIRBuilder` during the legalization of one
instruction `MI`: the register information, the instructions inserted before
`MI` (the insertion point on entry), the instructions inserted after it, and
whether the insertion point has been advanced past `MI`. -/
structure MachineIRBuilder where
  MRI : MachineRegisterInfo
  Before : List MachineInstr
  After : List MachineInstr
  PastMI : Bool
deriving DecidableEq, Repr

/-- A destination operand handed to the builder: a type, for which the builder
creates a register, or an existing register. -/
inductive DstOp where
  | ty (Ty : LLT)
  | reg (Reg : Register)
deriving DecidableEq, Repr

namespace DstOp

def getLLTTy (Op : DstOp) (MRI : MachineRegisterInfo) : LLT :=
  match Op with
  | ty Ty => Ty
  | reg Reg => MRI.getType Reg

/-- The register the definition goes to (`DstOp::addDefToMIB`). -/
def addDef (Op : DstOp) (MRI : MachineRegisterInfo) : MachineRegisterInfo × Register :=
  match Op with
  | ty Ty => MRI.createGenericVirtualRegister Ty
  | reg Reg => (MRI, Reg)

/-- The registers of a list of destinations, created left to right. -/
def addDefs : List DstOp → MachineRegisterInfo → MachineRegisterInfo × List Register
  | [], MRI => (MRI, [])
  | Op :: Ops, MRI =>
    let (MRI1, Reg) := Op.addDef MRI
    let (MRI2, Regs) := addDefs Ops MRI1
    (MRI2, Reg :: Regs)

end DstOp

/-- The bits of the `ConstantInt` that `ConstantInt::get(IntN, Val, true)` makes
for a type of `Width` bits. -/
def constantBits (Width : Nat) (Val : Int) : Nat := (Val % (2 : Int) ^ Width).toNat

namespace MachineIRBuilder

/-- Insert an instruction at the insertion point. -/
def insert (B : MachineIRBuilder) (MI : MachineInstr) : MachineIRBuilder :=
  if B.PastMI then { B with After := B.After ++ [MI] }
  else { B with Before := B.Before ++ [MI] }

/-- The call `setInsertPt(getMBB(), std::next(getInsertPt()))`: from here on
instructions go after the instruction being legalized. -/
def setInsertPtNext (B : MachineIRBuilder) : MachineIRBuilder :=
  { B with PastMI := true }

def buildInstr (B : MachineIRBuilder) (Opc : Opcode) (DstOps : List DstOp)
    (SrcOps : List MachineOperand) : MachineIRBuilder × MachineInstr :=
  let (MRI, Dsts) := DstOp.addDefs DstOps B.MRI
  let MI : MachineInstr := ⟨Opc, Dsts.map MachineOperand.reg ++ SrcOps⟩
  (insert { B with MRI := MRI } MI, MI)

def buildConstant (B : MachineIRBuilder) (Res : DstOp) (Val : Int) :
    MachineIRBuilder × MachineInstr :=
  let Width := (Res.getLLTTy B.MRI).getSizeInBits
  B.buildInstr Opcode.G_CONSTANT [Res] [MachineOperand.cimm (constantBits Width Val)]

def buildCopy (B : MachineIRBuilder) (Res : DstOp) (Op : Register) :
    MachineIRBuilder × MachineInstr :=
  B.buildInstr Opcode.COPY [Res] [MachineOperand.reg Op]

def buildXor (B : MachineIRBuilder) (Dst : DstOp) (Src0 Src1 : Register) :
    MachineIRBuilder × MachineInstr :=
  B.buildInstr Opcode.G_XOR [Dst] [MachineOperand.reg Src0, MachineOperand.reg Src1]

def buildAnd (B : MachineIRBuilder) (Dst : DstOp) (Src0 Src1 : Register) :
    MachineIRBuilder × MachineInstr :=
  B.buildInstr Opcode.G_AND [Dst] [MachineOperand.reg Src0, MachineOperand.reg Src1]

/-- The call `buildNot(Dst, Src0)`: an all-ones constant of the destination
type, then the exclusive or with it. -/
def buildNot (B : MachineIRBuilder) (Dst : DstOp) (Src0 : Register) :
    MachineIRBuilder × MachineInstr :=
  let (B1, NegOne) := B.buildConstant (DstOp.ty (Dst.getLLTTy B.MRI)) (-1)
  B1.buildInstr Opcode.G_XOR [Dst] [MachineOperand.reg Src0, MachineOperand.reg (NegOne.getReg 0)]

def buildSelect (B : MachineIRBuilder) (Res : DstOp) (Tst Op0 Op1 : Register) :
    MachineIRBuilder × MachineInstr :=
  B.buildInstr Opcode.G_SELECT [Res]
    [MachineOperand.reg Tst, MachineOperand.reg Op0, MachineOperand.reg Op1]

def buildICmp (B : MachineIRBuilder) (Pred : Predicate) (Res : DstOp) (Op0 Op1 : Register) :
    MachineIRBuilder × MachineInstr :=
  let (MRI, Dst) := Res.addDef B.MRI
  let MI : MachineInstr := ⟨Opcode.G_ICMP,
    [MachineOperand.reg Dst, MachineOperand.predicate Pred,
     MachineOperand.reg Op0, MachineOperand.reg Op1]⟩
  (insert { B with MRI := MRI } MI, MI)

/-- The call `buildUnmerge(Res, Op)` with a type `Res`: as many fresh registers
of that type as fit in the source, then the source. -/
def buildUnmerge (B : MachineIRBuilder) (Res : LLT) (Op : Register) :
    MachineIRBuilder × MachineInstr :=
  let NumReg := (B.MRI.getType Op).getSizeInBits / Res.getSizeInBits
  B.buildInstr Opcode.G_UNMERGE_VALUES (List.replicate NumReg (DstOp.ty Res))
    [MachineOperand.reg Op]

/-- The call `buildMerge(Res, Ops)` on two or more sources, as the routines
call it. -/
def buildMerge (B : MachineIRBuilder) (Res : DstOp) (Ops : List Register) :
    MachineIRBuilder × MachineInstr :=
  B.buildInstr Opcode.G_MERGE_VALUES [Res] (Ops.map MachineOperand.reg)

end MachineIRBuilder

/-- What a custom legalization routine leaves behind: the builder, the
instruction itself unless it was erased from its parent, and the return value
of the routine. -/
structure LegalizeResult where
  B : MachineIRBuilder
  MI : Option MachineInstr
  Legalized : Bool
deriving DecidableEq, Repr

/-- The instructions that stand in the place of the legalized instruction, in
block order. -/
def LegalizeResult.insts (R : LegalizeResult) : List MachineInstr :=
  R.B.Before ++ R.MI.toList ++ R.B.After

/-- A builder positioned at the instruction to legalize, as the legalizer sets
it up before it calls `legalizeCustom`. -/
def MachineIRBuilder.atInstr (MRI : MachineRegisterInfo) : MachineIRBuilder :=
  { MRI := MRI, Before := [], After := [], PastMI := false }

/-! ## Values of instructions -/

/-- An assignment of a value to every register; a value of an `n`-bit type is
a number below `2 ^ n`, and a 1-bit value is `1` for true. -/
abbrev Env := Register → Nat

def Env.set (env : Env) (Reg : Register) (Val : Nat) : Env :=
  fun r => if r = Reg then Val else env r

/-- The two's-complement reading of a `Width`-bit value. -/
def toSigned (Width : Nat) (v : Nat) : Int :=
  if v < 2 ^ (Width - 1) then (v : Int) else (v : Int) - (2 : Int) ^ Width

/-- Whether an integer is outside the range of a signed `Width`-bit number. -/
def signedOverflow (Width : Nat) (s : Int) : Bool :=
  decide (s < -((2 : Int) ^ (Width - 1))) || decide ((2 : Int) ^ (Width - 1) - 1 < s)

def boolBit (b : Bool) : Nat := if b then 1 else 0

/-- The five results of the subtract primitive, in the order of its
definitions: the difference, then carry, sign, overflow and zero. -/
structure SBCResult where
  A : Nat
  C : Nat
  N : Nat
  V : Nat
  Z : Nat
deriving DecidableEq, Repr

/-- Modelled from the spec: the value of the subtract primitive `G_SBC`, whose
definition is outside the given sources, as the spec's carry-correctness
property states it for 8-bit `a`, `b` and carry-in `c`:
result = (a - b - (1 - c)) mod 256, carry-out = (a - b - (1 - c)) >= 0,
zero-out = (result == 0), sign-out = bit 7 of the result and
overflow-out = signed overflow of a - b - (1 - c), `a` and `b` being
read as two's-complement numbers for the overflow. -/
def evalSBC (a b c : Nat) : SBCResult :=
  let d : Int := (a : Int) - (b : Int) - (1 - (c : Int))
  let r : Nat := (d % 256).toNat
  { A := r
    C := boolBit (decide (0 ≤ d))
    N := r / 128 % 2
    V := boolBit (signedOverflow 8 (toSigned 8 a - toSigned 8 b - (1 - (c : Int))))
    Z := boolBit (decide (r = 0)) }

/-- Modelled from the spec: the value of a generic integer comparison
`G_ICMP`, whose definition is outside the given sources: the direct
comparison of the operands, read as unsigned numbers or as two's-complement
numbers of `Width` bits as the predicate says. -/
def evalICmp (Width : Nat) (Pred : Predicate) (a b : Nat) : Bool :=
  match Pred with
  | Predicate.ICMP_EQ => decide (a = b)
  | Predicate.ICMP_NE => decide (a ≠ b)
  | Predicate.ICMP_UGT => decide (b < a)
  | Predicate.ICMP_UGE => decide (b ≤ a)
  | Predicate.ICMP_ULT => decide (a < b)
  | Predicate.ICMP_ULE => decide (a ≤ b)
  | Predicate.ICMP_SGT => decide (toSigned Width b < toSigned Width a)
  | Predicate.ICMP_SGE => decide (toSigned Width b ≤ toSigned Width a)
  | Predicate.ICMP_SLT => decide (toSigned Width a < toSigned Width b)
  | Predicate.ICMP_SLE => decide (toSigned Width a ≤ toSigned Width b)

/-- The value of a merge: the first part is the least significant. -/
def mergeValues (Width : Nat) : List Nat → Nat
  | [] => 0
  | v :: vs => v + 2 ^ Width * mergeValues Width vs

/-- The environment after an unmerge: the first destination takes the least
significant `Width` bits. -/
def unmergeInto (Width : Nat) : Env → Nat → List Register → Env
  | env, _, [] => env
  | env, v, d :: ds => unmergeInto Width (env.set d (v % 2 ^ Width)) (v / 2 ^ Width) ds

/-- The registers of a list of operands, when all of them are registers. -/
def regsOf : List MachineOperand → Option (List Register)
  | [] => some []
  | MachineOperand.reg r :: Ops => (regsOf Ops).map (fun rs => r :: rs)
  | _ :: _ => none

/-- Modelled from the spec: the one-bit shift-right-with-carry `G_LSHRE` of the
target, whose definition is outside the given sources. For a byte `x` and a
carry-in `cin` it yields `(x >> 1) | (cin << 7)` and the carry-out bit 0 of
`x`. -/
def evalLSHRE (x cin : Nat) : Nat × Nat := ((x >>> 1) ||| (cin <<< 7), x &&& 1)

/-- Modelled from the spec: the one-bit shift-left-with-carry `G_SHLE` of the
target, whose definition is outside the given sources. For a byte `x` and a
carry-in `cin` it yields `((x << 1) | cin) mod 256` and the carry-out bit 7 of
`x`. -/
def evalSHLE (x cin : Nat) : Nat × Nat := (((x <<< 1) ||| cin) % 256, (x >>> 7) &&& 1)

/-- The rotation of a `Width`-bit value to the left by `Amt` bits. -/
def rotl (Width v Amt : Nat) : Nat :=
  ((v <<< (Amt % Width)) ||| (v >>> (Width - Amt % Width))) % 2 ^ Width

/-- The rotation of a `Width`-bit value to the right by `Amt` bits. -/
def rotr (Width v Amt : Nat) : Nat :=
  ((v >>> (Amt % Width)) ||| (v <<< (Width - Amt % Width))) % 2 ^ Width

/-- Modelled from the spec: the effect of one instruction on the values of the
registers. The generic opcodes and the target's pseudo instructions are
defined outside the given sources; they get the meaning the spec relies on:
constants, copies, bitwise and/xor, two-way select, direct comparison,
sign and zero extension, merge and split into pieces (least significant
first), add and subtract producing or consuming a carry, borrow or signed
overflow, the subtract primitive of `evalSBC`, the shifts with carry of
`evalLSHRE` and `evalSHLE`, rotation, the casts between pointers and
integers, addition, subtraction, and the addition of an offset or of an index
to a pointer. An undefined value is whatever the register happens to hold. An
instruction of another shape has no value. -/
def execInstr (MRI : MachineRegisterInfo) (env : Env) (MI : MachineInstr) : Option Env :=
  let W : Register → Nat := fun r => (MRI.getType r).getSizeInBits
  match MI.Opcode, MI.Operands with
  | Opcode.G_CONSTANT, [MachineOperand.reg d, MachineOperand.cimm v] =>
    some (env.set d v)
  | Opcode.G_IMPLICIT_DEF, [MachineOperand.reg d] =>
    some (env.set d (env d % 2 ^ W d))
  | Opcode.COPY, [MachineOperand.reg d, MachineOperand.reg s] =>
    some (env.set d (env s))
  | Opcode.G_XOR, [MachineOperand.reg d, MachineOperand.reg a, MachineOperand.reg b] =>
    some (env.set d ((env a ^^^ env b) % 2 ^ W d))
  | Opcode.G_AND, [MachineOperand.reg d, MachineOperand.reg a, MachineOperand.reg b] =>
    some (env.set d ((env a &&& env b) % 2 ^ W d))
  | Opcode.G_SELECT, [MachineOperand.reg d, MachineOperand.reg t, MachineOperand.reg a,
      MachineOperand.reg b] =>
    some (env.set d (if env t = 0 then env b else env a))
  | Opcode.G_ICMP, [MachineOperand.reg d, MachineOperand.predicate p, MachineOperand.reg a,
      MachineOperand.reg b] =>
    some (env.set d (boolBit (evalICmp (W a) p (env a) (env b))))
  | Opcode.G_ZEXT, [MachineOperand.reg d, MachineOperand.reg s] =>
    some (env.set d (env s))
  | Opcode.G_SEXT, [MachineOperand.reg d, MachineOperand.reg s] =>
    some (env.set d ((toSigned (W s) (env s) % (2 : Int) ^ W d).toNat))
  | Opcode.G_UADDO, [MachineOperand.reg d, MachineOperand.reg o, MachineOperand.reg a,
      MachineOperand.reg b] =>
    some ((env.set d ((env a + env b) % 2 ^ W d)).set o
      (boolBit (decide (2 ^ W d ≤ env a + env b))))
  | Opcode.G_SADDO, [MachineOperand.reg d, MachineOperand.reg o, MachineOperand.reg a,
      MachineOperand.reg b] =>
    some ((env.set d ((env a + env b) % 2 ^ W d)).set o
      (boolBit (signedOverflow (W d) (toSigned (W d) (env a) + toSigned (W d) (env b)))))
  | Opcode.G_USUBO, [MachineOperand.reg d, MachineOperand.reg o, MachineOperand.reg a,
      MachineOperand.reg b] =>
    some ((env.set d ((((env a : Int) - (env b : Int)) % (2 : Int) ^ W d).toNat)).set o
      (boolBit (decide (env a < env b))))
  | Opcode.G_SSUBO, [MachineOperand.reg d, MachineOperand.reg o, MachineOperand.reg a,
      MachineOperand.reg b] =>
    some ((env.set d ((((env a : Int) - (env b : Int)) % (2 : Int) ^ W d).toNat)).set o
      (boolBit (signedOverflow (W d) (toSigned (W d) (env a) - toSigned (W d) (env b)))))
  | Opcode.G_UADDE, [MachineOperand.reg d, MachineOperand.reg o, MachineOperand.reg a,
      MachineOperand.reg b, MachineOperand.reg c] =>
    some ((env.set d ((env a + env b + env c) % 2 ^ W d)).set o
      (boolBit (decide (2 ^ W d ≤ env a + env b + env c))))
  | Opcode.G_SADDE, [MachineOperand.reg d, MachineOperand.reg o, MachineOperand.reg a,
      MachineOperand.reg b, MachineOperand.reg c] =>
    some ((env.set d ((env a + env b + env c) % 2 ^ W d)).set o
      (boolBit (signedOverflow (W d)
        (toSigned (W d) (env a) + toSigned (W d) (env b) + (env c : Int)))))
  | Opcode.G_USUBE, [MachineOperand.reg d, MachineOperand.reg o, MachineOperand.reg a,
      MachineOperand.reg b, MachineOperand.reg c] =>
    some ((env.set d ((((env a : Int) - (env b : Int) - (env c : Int)) %
        (2 : Int) ^ W d).toNat)).set o
      (boolBit (decide (env a < env b + env c))))
  | Opcode.G_SSUBE, [MachineOperand.reg d, MachineOperand.reg o, MachineOperand.reg a,
      MachineOperand.reg b, MachineOperand.reg c] =>
    some ((env.set d ((((env a : Int) - (env b : Int) - (env c : Int)) %
        (2 : Int) ^ W d).toNat)).set o
      (boolBit (signedOverflow (W d)
        (toSigned (W d) (env a) - toSigned (W d) (env b) - (env c : Int)))))
  | Opcode.G_SBC, [MachineOperand.reg d, MachineOperand.reg c, MachineOperand.reg n,
      MachineOperand.reg v, MachineOperand.reg z, MachineOperand.reg a, MachineOperand.reg b,
      MachineOperand.reg ci] =>
    let R := evalSBC (env a) (env b) (env ci)
    some (((((env.set d R.A).set c R.C).set n R.N).set v R.V).set z R.Z)
  | Opcode.G_LSHRE, [MachineOperand.reg d, MachineOperand.reg co, MachineOperand.reg s,
      MachineOperand.reg ci] =>
    some ((env.set d (evalLSHRE (env s) (env ci)).1).set co (evalLSHRE (env s) (env ci)).2)
  | Opcode.G_SHLE, [MachineOperand.reg d, MachineOperand.reg co, MachineOperand.reg s,
      MachineOperand.reg ci] =>
    some ((env.set d (evalSHLE (env s) (env ci)).1).set co (evalSHLE (env s) (env ci)).2)
  | Opcode.G_ROTL, [MachineOperand.reg d, MachineOperand.reg s, MachineOperand.reg a] =>
    some (env.set d (rotl (W d) (env s) (env a)))
  | Opcode.G_ROTR, [MachineOperand.reg d, MachineOperand.reg s, MachineOperand.reg a] =>
    some (env.set d (rotr (W d) (env s) (env a)))
  | Opcode.G_PTRTOINT, [MachineOperand.reg d, MachineOperand.reg s] =>
    some (env.set d (env s % 2 ^ W d))
  | Opcode.G_INTTOPTR, [MachineOperand.reg d, MachineOperand.reg s] =>
    some (env.set d (env s % 2 ^ W d))
  | Opcode.G_ADD, [MachineOperand.reg d, MachineOperand.reg a, MachineOperand.reg b] =>
    some (env.set d ((env a + env b) % 2 ^ W d))
  | Opcode.G_SUB, [MachineOperand.reg d, MachineOperand.reg a, MachineOperand.reg b] =>
    some (env.set d ((((env a : Int) - (env b : Int)) % (2 : Int) ^ W d).toNat))
  | Opcode.G_PTR_ADD, [MachineOperand.reg d, MachineOperand.reg a, MachineOperand.reg b] =>
    some (env.set d ((env a + env b) % 2 ^ W d))
  | Opcode.G_INDEX, [MachineOperand.reg d, MachineOperand.reg a, MachineOperand.reg b] =>
    some (env.set d ((env a + env b) % 2 ^ W d))
  | Opcode.G_MERGE_VALUES, MachineOperand.reg d :: Srcs =>
    match regsOf Srcs with
    | some (s :: ss) => some (env.set d (mergeValues (W s) ((s :: ss).map env)))
    | _ => none
  | Opcode.G_UNMERGE_VALUES, Ops =>
    match regsOf Ops with
    | some (r :: rs) =>
      let Dsts := (r :: rs).dropLast
      let Src := (r :: rs).getLast (List.cons_ne_nil r rs)
      some (unmergeInto (W r) env (env Src) Dsts)
    | _ => none
  | _, _ => none

/-- The values after a sequence of instructions, executed in order. -/
def execInstrs (MRI : MachineRegisterInfo) : Env → List MachineInstr → Option Env
  | env, [] => some env
  | env, MI :: Rest => (execInstr MRI env MI).bind (fun env1 => execInstrs MRI env1 Rest)

/-! ## Matching on definitions -/

/-- The number of leading operands that are definitions, per opcode. -/
def MachineInstr.getNumDefs (MI : MachineInstr) : Nat :=
  match MI.Opcode with
  | Opcode.G_STORE | Opcode.G_BRCOND | Opcode.G_BRCOND_IMM | Opcode.G_VASTART
  | Opcode.SetSPHi | Opcode.SetSPLo => 0
  | Opcode.G_UADDO | Opcode.G_SADDO | Opcode.G_USUBO | Opcode.G_SSUBO
  | Opcode.G_UADDE | Opcode.G_SADDE | Opcode.G_USUBE | Opcode.G_SSUBE
  | Opcode.G_LSHRE | Opcode.G_SHLE => 2
  | Opcode.G_SBC => 5
  | Opcode.G_UNMERGE_VALUES => MI.Operands.length - 1
  | _ => 1

/-- Whether the instruction defines the register. -/
def MachineInstr.definesRegister (MI : MachineInstr) (Reg : Register) : Bool :=
  (MI.Operands.take MI.getNumDefs).contains (MachineOperand.reg Reg)

/-- The instruction that defines a register (`MachineRegisterInfo::getVRegDef`). -/
def MachineRegisterInfo.getVRegDef (MRI : MachineRegisterInfo) (Reg : Register) :
    Option MachineInstr :=
  MRI.Insts.find? (fun MI => MI.definesRegister Reg)

/-- The bits of the constant that defines a register, when a `G_CONSTANT`
defines it (`getConstantVRegVal`). -/
def getConstantVRegVal (VReg : Register) (MRI : MachineRegisterInfo) : Option Nat :=
  match MRI.getVRegDef VReg with
  | some ⟨Opcode.G_CONSTANT, [MachineOperand.reg _, MachineOperand.cimm Val]⟩ => some Val
  | _ => none

/-- The matcher `mi_match(Reg, MRI, m_SpecificICst(RequestedVal))`: the register
is defined by a constant whose sign-extended value is the requested one. -/
def mi_match_SpecificICst (Reg : Register) (MRI : MachineRegisterInfo) (RequestedVal : Int) :
    Bool :=
  match getConstantVRegVal Reg MRI with
  | some Val => decide (toSigned (MRI.getType Reg).getSizeInBits Val = RequestedVal)
  | none => false

/-! ## Integer comparison -/

namespace CmpInst

def getInversePredicate : Predicate → Predicate
  | Predicate.ICMP_EQ => Predicate.ICMP_NE
  | Predicate.ICMP_NE => Predicate.ICMP_EQ
  | Predicate.ICMP_UGT => Predicate.ICMP_ULE
  | Predicate.ICMP_ULT => Predicate.ICMP_UGE
  | Predicate.ICMP_UGE => Predicate.ICMP_ULT
  | Predicate.ICMP_ULE => Predicate.ICMP_UGT
  | Predicate.ICMP_SGT => Predicate.ICMP_SLE
  | Predicate.ICMP_SLT => Predicate.ICMP_SGE
  | Predicate.ICMP_SGE => Predicate.ICMP_SLT
  | Predicate.ICMP_SLE => Predicate.ICMP_SGT

def getSwappedPredicate : Predicate → Predicate
  | Predicate.ICMP_EQ => Predicate.ICMP_EQ
  | Predicate.ICMP_NE => Predicate.ICMP_NE
  | Predicate.ICMP_SGT => Predicate.ICMP_SLT
  | Predicate.ICMP_SLT => Predicate.ICMP_SGT
  | Predicate.ICMP_SGE => Predicate.ICMP_SLE
  | Predicate.ICMP_SLE => Predicate.ICMP_SGE
  | Predicate.ICMP_UGT => Predicate.ICMP_ULT
  | Predicate.ICMP_ULT => Predicate.ICMP_UGT
  | Predicate.ICMP_UGE => Predicate.ICMP_ULE
  | Predicate.ICMP_ULE => Predicate.ICMP_UGE

def isSigned : Predicate → Bool
  | Predicate.ICMP_SGT | Predicate.ICMP_SLT | Predicate.ICMP_SGE | Predicate.ICMP_SLE => true
  | _ => false

def getUnsignedPredicate : Predicate → Predicate
  | Predicate.ICMP_SLT => Predicate.ICMP_ULT
  | Predicate.ICMP_SLE => Predicate.ICMP_ULE
  | Predicate.ICMP_SGT => Predicate.ICMP_UGT
  | Predicate.ICMP_SGE => Predicate.ICMP_UGE
  | Pred => Pred

end CmpInst

/-- The helper `negateInverseComparison`: the comparison is changed in place to
the inverse predicate into a fresh 1-bit register, and the old destination is
defined after it as the NOT of that register. -/
def negateInverseComparison (B : MachineIRBuilder) (MI : MachineInstr) :
    MachineIRBuilder × MachineInstr :=
  let Dst := MI.getReg 0
  let Pred := MI.getPredicate 1
  let (MRI, Not) := B.MRI.createGenericVirtualRegister (LLT.scalar 1)
  let B := { B with MRI := MRI }
  let MI := MI.setReg 0 Not
  let MI := MI.setPredicate 1 (CmpInst.getInversePredicate Pred)
  let B := B.setInsertPtNext
  let (B, _) := B.buildNot (DstOp.reg Dst) Not
  (B, MI)

/-- The helper `swapComparison`: the swapped predicate on swapped operands, in
place. -/
def swapComparison (MI : MachineInstr) : MachineInstr :=
  let LHS := MI.getReg 2
  let RHS := MI.getReg 3
  let Pred := MI.getPredicate 1
  let MI := MI.setPredicate 1 (CmpInst.getSwappedPredicate Pred)
  let MI := MI.setReg 2 RHS
  let MI := MI.setReg 3 LHS
  MI

/-- The helper `splitHighRest`: the most significant byte of a register and
the rest of it, the rest merged again when it has more than one byte. -/
def splitHighRest (Reg : Register) (B : MachineIRBuilder) :
    MachineIRBuilder × Register × Register :=
  let (B, Unmerge) := B.buildUnmerge S8 Reg
  let High := Unmerge.getReg (Unmerge.getNumOperands - 2)
  let RestParts := (List.range (Unmerge.getNumOperands - 2)).map (fun Idx => Unmerge.getReg Idx)
  if RestParts.length > 1 then
    let (B, Merge) := B.buildMerge (DstOp.ty (LLT.scalar (RestParts.length * 8))) RestParts
    (B, High, Merge.getReg 0)
  else
    (B, High, RestParts.getD 0 0)

/-- The loop of `legalizeICmp` over the bytes below the most significant one:
one `G_SBC` per byte, the carry of each fed to the next. -/
def sbcChain (LHSUnmerge RHSUnmerge : MachineInstr) (End : Nat) (B : MachineIRBuilder)
    (CIn : Register) : MachineIRBuilder × Register :=
  (List.range End).foldl
    (fun (Acc : MachineIRBuilder × Register) Idx =>
      let (B, Sbc) := Acc.1.buildInstr Opcode.G_SBC
        [DstOp.ty S8, DstOp.ty S1, DstOp.ty S1, DstOp.ty S1, DstOp.ty S1]
        [LHSUnmerge.getOperand Idx, RHSUnmerge.getOperand Idx, MachineOperand.reg Acc.2]
      (B, Sbc.getReg 1))
    (B, CIn)

/-- The routine `MOSLegalizerInfo::legalizeICmp`. A failed assertion and the
unreachable default are errors. -/
def legalizeICmp (B : MachineIRBuilder) (MI : MachineInstr) : Except String LegalizeResult :=
  let Dst := MI.getReg 0
  let Pred := MI.getPredicate 1
  let LHS := MI.getReg 2
  let RHS := MI.getReg 3
  match Pred with
  | Predicate.ICMP_NE | Predicate.ICMP_ULT | Predicate.ICMP_SGE =>
    let (B, MI) := negateInverseComparison B MI
    Except.ok { B := B, MI := some MI, Legalized := true }
  | Predicate.ICMP_ULE | Predicate.ICMP_UGT | Predicate.ICMP_SLE | Predicate.ICMP_SGT =>
    Except.ok { B := B, MI := some (swapComparison MI), Legalized := true }
  | _ =>
  let Ty := B.MRI.getType LHS
  if Ty.isPointer then
    let (B, L) := B.buildInstr Opcode.G_PTRTOINT [DstOp.ty S16] [MachineOperand.reg LHS]
    let MI := MI.setReg 2 (L.getReg 0)
    let (B, R) := B.buildInstr Opcode.G_PTRTOINT [DstOp.ty S16] [MachineOperand.reg RHS]
    let MI := MI.setReg 3 (R.getReg 0)
    Except.ok { B := B, MI := some MI, Legalized := true }
  else
  let RHSIsZero := mi_match_SpecificICst RHS B.MRI 0
  if Ty ≠ S8 ∧ Pred ≠ Predicate.ICMP_SLT then
    let (B, LHSHigh, LHSRest) := splitHighRest LHS B
    let (B, RHSHigh, RHSRest) := splitHighRest RHS B
    let (B, EqHigh) := B.buildICmp Predicate.ICMP_EQ (DstOp.ty S1) LHSHigh RHSHigh
    let (B, CmpHigh) :=
      if Pred = Predicate.ICMP_EQ then B.buildConstant (DstOp.ty S1) 0
      else B.buildICmp Pred (DstOp.ty S1) LHSHigh RHSHigh
    let RestPred := if CmpInst.isSigned Pred then CmpInst.getUnsignedPredicate Pred else Pred
    let (B, CmpRest) := B.buildICmp RestPred (DstOp.ty S1) LHSRest RHSRest
    let (B, _) := B.buildSelect (DstOp.reg Dst) (EqHigh.getReg 0) (CmpRest.getReg 0)
      (CmpHigh.getReg 0)
    Except.ok { B := B, MI := none, Legalized := true }
  else
  let Narrowed : Except String (MachineIRBuilder × LLT × Register × Register × Register) :=
    if Ty ≠ S8 then
      let (B, LHSUnmerge) := B.buildUnmerge S8 LHS
      let (B, RHSUnmerge) := B.buildUnmerge S8 RHS
      if LHSUnmerge.getNumOperands ≠ RHSUnmerge.getNumOperands then
        Except.error "LHSUnmerge->getNumOperands() == RHSUnmerge->getNumOperands()"
      else if LHSUnmerge.getNumOperands < 2 then
        Except.error "getOperand() out of range!"
      else
        let (B, One) := B.buildConstant (DstOp.ty S1) 1
        let (B, CIn) := sbcChain LHSUnmerge RHSUnmerge (LHSUnmerge.getNumOperands - 2) B
          (One.getReg 0)
        Except.ok (B, S8, LHSUnmerge.getReg (LHSUnmerge.getNumOperands - 2),
          RHSUnmerge.getReg (LHSUnmerge.getNumOperands - 2), CIn)
    else
      let (B, One) := B.buildConstant (DstOp.ty S1) 1
      Except.ok (B, Ty, LHS, RHS, One.getReg 0)
  match Narrowed with
  | Except.error e => Except.error e
  | Except.ok (B, Ty, LHS, RHS, CIn) =>
  if Ty ≠ S8 then Except.error "Type == S8" else
  let SbcDsts := [DstOp.ty S8, DstOp.ty S1, DstOp.ty S1, DstOp.ty S1, DstOp.ty S1]
  let SbcSrcs := [MachineOperand.reg LHS, MachineOperand.reg RHS, MachineOperand.reg CIn]
  match Pred with
  | Predicate.ICMP_EQ =>
    let (B, Sbc) := B.buildInstr Opcode.G_SBC SbcDsts SbcSrcs
    let (B, _) := B.buildCopy (DstOp.reg Dst) (Sbc.getReg 4)
    Except.ok { B := B, MI := none, Legalized := true }
  | Predicate.ICMP_UGE =>
    let (B, Sbc) := B.buildInstr Opcode.G_SBC SbcDsts SbcSrcs
    let (B, _) := B.buildCopy (DstOp.reg Dst) (Sbc.getReg 1)
    Except.ok { B := B, MI := none, Legalized := true }
  | Predicate.ICMP_SLT =>
    if RHSIsZero then
      let (B, Sbc) := B.buildInstr Opcode.G_SBC SbcDsts SbcSrcs
      let (B, _) := B.buildCopy (DstOp.reg Dst) (Sbc.getReg 2)
      Except.ok { B := B, MI := none, Legalized := true }
    else
      let (B, Sbc) := B.buildInstr Opcode.G_SBC SbcDsts SbcSrcs
      let (B, C80) := B.buildConstant (DstOp.ty S8) 0x80
      let (B, Eor) := B.buildXor (DstOp.ty S8) (Sbc.getReg 0) (C80.getReg 0)
      let (B, Zero) := B.buildConstant (DstOp.ty S8) 0
      let (B, One) := B.buildConstant (DstOp.ty S1) 1
      let (B, Sel) := B.buildSelect (DstOp.ty S8) (Sbc.getReg 3) (Eor.getReg 0) (Sbc.getReg 0)
      let (B, _) := B.buildInstr Opcode.G_SBC
        [DstOp.ty S8, DstOp.ty S1, DstOp.reg Dst, DstOp.ty S1, DstOp.ty S1]
        [MachineOperand.reg (Sel.getReg 0), MachineOperand.reg (Zero.getReg 0),
         MachineOperand.reg (One.getReg 0)]
      Except.ok { B := B, MI := none, Legalized := true }
  | _ => Except.error "Unexpected integer comparison type."

/-! ## Overflow-to-carry conversion -/

/-- The routine `MOSLegalizerInfo::legalizeAddSubO`. -/
def legalizeAddSubO (B : MachineIRBuilder) (MI : MachineInstr) : Except String LegalizeResult :=
  let Opc : Except String Opcode :=
    match MI.Opcode with
    | Opcode.G_UADDO => Except.ok Opcode.G_UADDE
    | Opcode.G_SADDO => Except.ok Opcode.G_SADDE
    | Opcode.G_USUBO => Except.ok Opcode.G_USUBE
    | Opcode.G_SSUBO => Except.ok Opcode.G_SSUBE
    | _ => Except.error "Unexpected opcode"
  match Opc with
  | Except.error e => Except.error e
  | Except.ok Opc =>
    let (B, Zero) := B.buildConstant (DstOp.ty S1) 0
    let (B, _) := B.buildInstr Opc [DstOp.reg (MI.getReg 0), DstOp.reg (MI.getReg 1)]
      [MI.getOperand 2, MI.getOperand 3, MachineOperand.reg (Zero.getReg 0)]
    Except.ok { B := B, MI := none, Legalized := true }

/-- The routine `MOSLegalizerInfo::legalizeSubE`. -/
def legalizeSubE (B : MachineIRBuilder) (MI : MachineInstr) : Except String LegalizeResult :=
  let (B, CarryIn) := B.buildNot (DstOp.ty S1) (MI.getReg 4)
  if MI.Opcode = Opcode.G_USUBE then
    let (B, Sbc) := B.buildInstr Opcode.G_SBC
      [DstOp.ty S8, DstOp.ty S1, DstOp.ty S1, DstOp.ty S1, DstOp.ty S1]
      [MI.getOperand 2, MI.getOperand 3, MachineOperand.reg (CarryIn.getReg 0)]
    let B := B.setInsertPtNext
    let (B, _) := B.buildCopy (DstOp.reg (MI.getReg 0)) (Sbc.getReg 0)
    let (B, _) := B.buildNot (DstOp.reg (MI.getReg 1)) (Sbc.getReg 1)
    Except.ok { B := B, MI := none, Legalized := true }
  else if MI.Opcode ≠ Opcode.G_SSUBE then
    Except.error "MI.getOpcode() == MOS::G_SSUBE"
  else
    let (B, Sbc) := B.buildInstr Opcode.G_SBC
      [DstOp.ty S8, DstOp.ty S1, DstOp.ty S1, DstOp.ty S1, DstOp.ty S1]
      [MI.getOperand 2, MI.getOperand 3, MachineOperand.reg (CarryIn.getReg 0)]
    let B := B.setInsertPtNext
    let (B, _) := B.buildCopy (DstOp.reg (MI.getReg 0)) (Sbc.getReg 0)
    let (B, _) := B.buildCopy (DstOp.reg (MI.getReg 1)) (Sbc.getReg 3)
    Except.ok { B := B, MI := none, Legalized := true }

/-! ## Sign extension -/

/-- The sign mask `APInt::getSignMask(BitWidth)`: only the top bit set. -/
def getSignMask (BitWidth : Nat) : Nat := 2 ^ (BitWidth - 1)

/-- The loop `while (Bits < DstTy.getSizeInBits())` of `legalizeSExt`, which
appends the fill register and counts eight more bits; the first argument
bounds the number of iterations. -/
def pushFill (Fill : Register) (DstBits : Nat) : Nat → List Register → Nat → List Register
  | 0, Parts, _ => Parts
  | Fuel + 1, Parts, Bits =>
    if Bits < DstBits then pushFill Fill DstBits Fuel (Parts ++ [Fill]) (Bits + 8) else Parts

/-- The routine `MOSLegalizerInfo::legalizeSExt`. -/
def legalizeSExt (B : MachineIRBuilder) (MI : MachineInstr) : Except String LegalizeResult :=
  let Dst := MI.getReg 0
  let Src := MI.getReg 1
  let DstTy := B.MRI.getType Dst
  let SrcTy := B.MRI.getType Src
  if SrcTy = S1 then
    let (B, NegOne) := B.buildConstant (DstOp.ty DstTy) (-1)
    let (B, Zero) := B.buildConstant (DstOp.ty DstTy) 0
    let (B, _) := B.buildSelect (DstOp.reg Dst) Src (NegOne.getReg 0) (Zero.getReg 0)
    Except.ok { B := B, MI := none, Legalized := true }
  else
    let SignMask := getSignMask SrcTy.getSizeInBits
    let (B, Mask) := B.buildConstant (DstOp.ty SrcTy) SignMask
    let (B, Sign) := B.buildAnd (DstOp.ty SrcTy) Src (Mask.getReg 0)
    let (B, SrcZero) := B.buildConstant (DstOp.ty SrcTy) 0
    let (B, Pos) := B.buildICmp Predicate.ICMP_EQ (DstOp.ty S1) (Sign.getReg 0) (SrcZero.getReg 0)
    let (B, NegOne) := B.buildConstant (DstOp.ty S8) (-1)
    let (B, Zero) := B.buildConstant (DstOp.ty S8) 0
    let (B, FillMI) := B.buildSelect (DstOp.ty S8) (Pos.getReg 0) (Zero.getReg 0) (NegOne.getReg 0)
    let Fill := FillMI.getReg 0
    let (B, Parts, Bits) : MachineIRBuilder × List Register × Nat :=
      if SrcTy = S8 then (B, [Src], 8)
      else
        let (B, Unmerge) := B.buildUnmerge S8 Src
        let End := Unmerge.getNumOperands - 1
        (B, (List.range End).map (fun Idx => Unmerge.getReg Idx), 8 * End)
    let Parts := pushFill Fill DstTy.getSizeInBits DstTy.getSizeInBits Parts Bits
    let (B, _) := B.buildMerge (DstOp.reg Dst) Parts
    Except.ok { B := B, MI := none, Legalized := true }

/-! ## Re-submission of new comparisons -/

/-- Modelled from the spec: the work-list of the legalizer, which is outside
the given sources, restricted to integer comparisons. The spec has every
newly produced operation re-submitted until none is left to rewrite: the
first operation of the list is taken; a `G_ICMP` is handed to `legalizeICmp`
and what stands in its place afterwards is put back in front of the list, in
block order; any other operation is final. The first argument bounds the
number of operations that are taken. -/
def legalizeWorkList :
    Nat → MachineRegisterInfo → List MachineInstr →
      Except String (MachineRegisterInfo × List MachineInstr)
  | _, MRI, [] => Except.ok (MRI, [])
  | 0, _, _ :: _ => Except.error "out of fuel"
  | Fuel + 1, MRI, MI :: Rest =>
    if MI.Opcode = Opcode.G_ICMP then
      match legalizeICmp (MachineIRBuilder.atInstr MRI) MI with
      | Except.error e => Except.error e
      | Except.ok Out => legalizeWorkList Fuel Out.B.MRI (Out.insts ++ Rest)
    else
      (legalizeWorkList Fuel MRI Rest).map (fun p => (p.1, MI :: p.2))

/-- The work-list turns the operations `Is` at the head of the list into the
operations `L` in `Steps` steps, and leaves the register information `MRI1`,
whatever follows them and however much fuel is left. -/
def LoweredTo (MRI : MachineRegisterInfo) (Is : List MachineInstr) (Steps : Nat)
    (L : List MachineInstr) (MRI1 : MachineRegisterInfo) : Prop :=
  ∀ (Fuel : Nat) (Rest : List MachineInstr),
    legalizeWorkList (Fuel + Steps) MRI (Is ++ Rest) =
      (legalizeWorkList Fuel MRI1 Rest).map (fun p => (p.1, L ++ p.2))

/-! ## The emitted sequences in closed form -/

/-- The carry-in register of the `i`-th `G_SBC` of the chain that `sbcChain`
builds, when the first fresh register is `c` and the first carry-in is
`CIn`: the carry-out of the previous `G_SBC`. -/
def chainCarry (c CIn : Nat) : Nat → Nat
  | 0 => CIn
  | i + 1 => c + 5 * i + 1

/-- The `i`-th `G_SBC` of the chain, on byte `i` of both operands, whose
pieces start at the registers `bL` and `bR`. -/
def chainInst (bL bR c CIn : Nat) (i : Nat) : MachineInstr :=
  ⟨Opcode.G_SBC,
    [MachineOperand.reg (c + 5 * i), MachineOperand.reg (c + 5 * i + 1),
     MachineOperand.reg (c + 5 * i + 2), MachineOperand.reg (c + 5 * i + 3),
     MachineOperand.reg (c + 5 * i + 4), MachineOperand.reg (bL + i),
     MachineOperand.reg (bR + i), MachineOperand.reg (chainCarry c CIn i)]⟩

/-- The instructions that `sbcChain` builds for `End` bytes. -/
def chainInsts (bL bR c CIn : Nat) (End : Nat) : List MachineInstr :=
  (List.range End).map (chainInst bL bR c CIn)

/-- The types of the registers that `sbcChain` creates for `End` bytes. -/
def chainTypes : Nat → List LLT
  | 0 => []
  | End + 1 => chainTypes End ++ [S8, S1, S1, S1, S1]

/-- The last instructions of `legalizeICmp` for signed less-than when the right
operand is not matched as zero, with first fresh register `c`. -/
def sltFinalInsts (c Dst LHS RHS CIn : Nat) : List MachineInstr :=
  [⟨Opcode.G_SBC,
     [MachineOperand.reg c, MachineOperand.reg (c + 1), MachineOperand.reg (c + 2),
      MachineOperand.reg (c + 3), MachineOperand.reg (c + 4), MachineOperand.reg LHS,
      MachineOperand.reg RHS, MachineOperand.reg CIn]⟩,
   ⟨Opcode.G_CONSTANT, [MachineOperand.reg (c + 5), MachineOperand.cimm 128]⟩,
   ⟨Opcode.G_XOR,
     [MachineOperand.reg (c + 6), MachineOperand.reg c, MachineOperand.reg (c + 5)]⟩,
   ⟨Opcode.G_CONSTANT, [MachineOperand.reg (c + 7), MachineOperand.cimm 0]⟩,
   ⟨Opcode.G_CONSTANT, [MachineOperand.reg (c + 8), MachineOperand.cimm 1]⟩,
   ⟨Opcode.G_SELECT,
     [MachineOperand.reg (c + 9), MachineOperand.reg (c + 3), MachineOperand.reg (c + 6),
      MachineOperand.reg c]⟩,
   ⟨Opcode.G_SBC,
     [MachineOperand.reg (c + 10), MachineOperand.reg (c + 11), MachineOperand.reg Dst,
      MachineOperand.reg (c + 12), MachineOperand.reg (c + 13), MachineOperand.reg (c + 9),
      MachineOperand.reg (c + 7), MachineOperand.reg (c + 8)]⟩]

/-- The last instructions of `legalizeICmp` for signed less-than when the right
operand is matched as zero, with first fresh register `c`. -/
def sltZeroInsts (c Dst LHS RHS CIn : Nat) : List MachineInstr :=
  [⟨Opcode.G_SBC,
     [MachineOperand.reg c, MachineOperand.reg (c + 1), MachineOperand.reg (c + 2),
      MachineOperand.reg (c + 3), MachineOperand.reg (c + 4), MachineOperand.reg LHS,
      MachineOperand.reg RHS, MachineOperand.reg CIn]⟩,
   ⟨Opcode.COPY, [MachineOperand.reg Dst, MachineOperand.reg (c + 2)]⟩]

/-- The carry that the chain hands to byte `i`, for operands `a` and `b`: the
carry-in `1` for byte 0, then the carry-out of the subtraction of the bytes
below. -/
def carryVal (a b : Nat) : Nat → Nat
  | 0 => 1
  | i + 1 => (evalSBC (a / 256 ^ i % 256) (b / 256 ^ i % 256) (carryVal a b i)).C

/-- The types of the registers that `splitHighRest` creates for a register of
`N` bytes: the bytes, and the merged rest when it has more than one byte. -/
def splitTypes (N : Nat) : List LLT :=
  List.replicate N S8 ++ (if N = 2 then [] else [LLT.scalar ((N - 1) * 8)])

/-- The instructions that `splitHighRest` builds for a register of `N` bytes,
with first fresh register `b`. -/
def splitInsts (b N Reg : Nat) : List MachineInstr :=
  ⟨Opcode.G_UNMERGE_VALUES,
      (List.range' b N).map MachineOperand.reg ++ [MachineOperand.reg Reg]⟩ ::
    (if N = 2 then [] else
      [⟨Opcode.G_MERGE_VALUES, MachineOperand.reg (b + N) ::
        (List.range' b (N - 1)).map MachineOperand.reg⟩])

/-- The register that `splitHighRest` returns for the rest. -/
def splitRest (b N : Nat) : Nat := if N = 2 then b else b + N

/-- A comparison instruction. -/
def mkICmp (Pred : Predicate) (Dst LHS RHS : Nat) : MachineInstr :=
  ⟨Opcode.G_ICMP, [MachineOperand.reg Dst, MachineOperand.predicate Pred,
    MachineOperand.reg LHS, MachineOperand.reg RHS]⟩

/-- The operations `L`, run over registers of types `V ++ Tys` and whatever
registers there are beyond those, give `Dst` the value `val` from every
environment that satisfies `pre`, and leave every other register of `V` as it
was. -/
def Computes (V Tys : List LLT) (I L : List MachineInstr) (Dst : Nat) (pre : Env → Prop)
    (val : Env → Nat) : Prop :=
  ∀ (More : List LLT) (env : Env), pre env →
    ∃ env1, execInstrs ⟨V ++ (Tys ++ More), I⟩ env L = some env1 ∧ env1 Dst = val env ∧
      ∀ r, r < V.length → r ≠ Dst → env1 r = env r

/-! ## Calls into the legalizer -/

/-- A call that a routine makes into the legalizer or the call lowering, whose
definitions are outside the given sources, with the arguments it is given. -/
inductive HelperCall where
  | createLibcall (Opc : Opcode) (Size : Nat) (Result : Register)
      (Args : List (Register × Nat))
  | narrowScalarShiftByConstant (MI : MachineInstr) (Amt : Nat) (HalfTy AmtTy : LLT)
  | lowerRotate (MI : MachineInstr)
  | widenScalar (MI : MachineInstr) (TypeIdx : Nat) (WideTy : LLT)
deriving DecidableEq, Repr

/-- What a routine does with an instruction: it rewrites it itself, or it
returns what a helper of the legalizer makes of it. -/
inductive Outcome where
  | rewritten (R : LegalizeResult)
  | helper (Call : HelperCall)
deriving DecidableEq, Repr

/-- The call `buildUndef(Res)`. -/
def MachineIRBuilder.buildUndef (B : MachineIRBuilder) (Res : DstOp) :
    MachineIRBuilder × MachineInstr :=
  B.buildInstr Opcode.G_IMPLICIT_DEF [Res] []

/-! ## Rotation -/

/-- The routine `MOSLegalizerInfo::legalizeRotl`. -/
def legalizeRotl (B : MachineIRBuilder) (MI : MachineInstr) : Outcome :=
  let RotateAmt := MI.getReg 2
  if !mi_match_SpecificICst RotateAmt B.MRI 7 then
    Outcome.helper (HelperCall.lowerRotate MI)
  else
    let (B, One) := B.buildConstant (DstOp.ty S8) 1
    let MI := MI.setDesc Opcode.G_ROTR
    let MI := MI.setReg 2 (One.getReg 0)
    Outcome.rewritten { B := B, MI := some MI, Legalized := true }

/-- The routine `MOSLegalizerInfo::legalizeRotr`. The undefined carry-in is
built before the first shift, whose operand it is. -/
def legalizeRotr (B : MachineIRBuilder) (MI : MachineInstr) : Outcome :=
  let Dst := MI.getReg 0
  let Src := MI.getReg 1
  let RotateAmt := MI.getReg 2
  if !mi_match_SpecificICst RotateAmt B.MRI 1 then
    Outcome.helper (HelperCall.lowerRotate MI)
  else
    let (B, Undef) := B.buildUndef (DstOp.ty S1)
    let (B, First) := B.buildInstr Opcode.G_LSHRE [DstOp.ty S8, DstOp.ty S1]
      [MachineOperand.reg Src, MachineOperand.reg (Undef.getReg 0)]
    let LSB := First.getReg 1
    let (B, _) := B.buildInstr Opcode.G_LSHRE [DstOp.reg Dst, DstOp.ty S1]
      [MachineOperand.reg Src, MachineOperand.reg LSB]
    Outcome.rewritten { B := B, MI := none, Legalized := true }

/-! ## Shifts -/

/-- Modelled from the spec: the search for a known constant behind a register,
`getConstantVRegValWithLookThrough`, which is outside the given sources. The
spec speaks of a constant amount or offset: the register is defined by a
`G_CONSTANT`, directly, or through copies, truncations and sign or zero
extensions, whose effect on the bits of the constant is applied. The result
has the width of the register. The first argument bounds the number of
definitions that are looked through. -/
def lookThroughConstant : Nat → Register → MachineRegisterInfo → Option Nat
  | 0, _, _ => none
  | Fuel + 1, VReg, MRI =>
    match MRI.getVRegDef VReg with
    | some ⟨Opcode.G_CONSTANT, [MachineOperand.reg _, MachineOperand.cimm Val]⟩ => some Val
    | some ⟨Opcode.COPY, [MachineOperand.reg _, MachineOperand.reg Src]⟩ =>
      lookThroughConstant Fuel Src MRI
    | some ⟨Opcode.G_ZEXT, [MachineOperand.reg _, MachineOperand.reg Src]⟩ =>
      lookThroughConstant Fuel Src MRI
    | some ⟨Opcode.G_TRUNC, [MachineOperand.reg _, MachineOperand.reg Src]⟩ =>
      (lookThroughConstant Fuel Src MRI).map
        (fun Val => Val % 2 ^ (MRI.getType VReg).getSizeInBits)
    | some ⟨Opcode.G_SEXT, [MachineOperand.reg _, MachineOperand.reg Src]⟩ =>
      (lookThroughConstant Fuel Src MRI).map
        (fun Val => (toSigned (MRI.getType Src).getSizeInBits Val %
          (2 : Int) ^ (MRI.getType VReg).getSizeInBits).toNat)
    | _ => none

/-- The bits of the known constant behind a register, if there is one. No
chain of definitions is longer than the function. -/
def getConstantVRegValWithLookThrough (VReg : Register) (MRI : MachineRegisterInfo) :
    Option Nat :=
  lookThroughConstant MRI.Insts.length VReg MRI

/-- The routine `MOSLegalizerInfo::shiftLibcall`: the library call for the
opcode and the size of the result, on the shifted value at that size and the
amount as a byte. -/
def shiftLibcall (MRI : MachineRegisterInfo) (MI : MachineInstr) : Outcome :=
  let Size := (MRI.getType (MI.getReg 0)).getSizeInBits
  Outcome.helper (HelperCall.createLibcall MI.Opcode Size (MI.getReg 0)
    [(MI.getReg 1, Size), (MI.getReg 2, 8)])

/-- The loop of `legalizeLshrShl` over the bytes of the source: a fresh byte
and a fresh carry per byte, and one shift with carry that takes the carry of
the byte before. -/
def shiftChain (Opc : Opcode) (Defs : List Register) (B : MachineIRBuilder)
    (Carry : Register) : MachineIRBuilder × List Register × Register :=
  Defs.foldl
    (fun (Acc : MachineIRBuilder × List Register × Register) SrcPart =>
      let (MRI, Part) := Acc.1.MRI.createGenericVirtualRegister S8
      let (MRI, NewCarry) := MRI.createGenericVirtualRegister S1
      let (B, _) := MachineIRBuilder.buildInstr { Acc.1 with MRI := MRI } Opc
        [DstOp.reg Part, DstOp.reg NewCarry]
        [MachineOperand.reg SrcPart, MachineOperand.reg Acc.2.2]
      (B, Acc.2.1 ++ [Part], NewCarry))
    (B, [], Carry)

/-- The routine `MOSLegalizerInfo::legalizeLshrShl`. A failed assertion is an
error. -/
def legalizeLshrShl (B : MachineIRBuilder) (MI : MachineInstr) : Except String Outcome :=
  let Dst := MI.getReg 0
  let Src := MI.getReg 1
  let Amt := MI.getReg 2
  let Ty := B.MRI.getType Dst
  if Ty ≠ B.MRI.getType Src then Except.error "Ty == MRI.getType(Src)"
  else if !Ty.isByteSized then Except.error "Ty.isByteSized()"
  else
  match getConstantVRegValWithLookThrough Amt B.MRI with
  | none => Except.ok (shiftLibcall B.MRI MI)
  | some ConstantAmt =>
  if Ty ≠ S8 ∧ ConstantAmt % 8 = 0 then
    Except.ok (Outcome.helper (HelperCall.narrowScalarShiftByConstant MI ConstantAmt
      (LLT.scalar ((B.MRI.getType Src).getSizeInBits / 2)) (B.MRI.getType Amt)))
  else if ConstantAmt ≠ 1 then Except.ok (shiftLibcall B.MRI MI)
  else
    let (B, Zero) := B.buildConstant (DstOp.ty S1) 0
    let Carry := Zero.getReg 0
    let Opc := if MI.Opcode = Opcode.G_LSHR then Opcode.G_LSHRE else Opcode.G_SHLE
    if Ty = S8 then
      let (B, _) := B.buildInstr Opc [DstOp.reg Dst, DstOp.ty S1]
        [MachineOperand.reg Src, MachineOperand.reg Carry]
      Except.ok (Outcome.rewritten { B := B, MI := none, Legalized := true })
    else
      let (B, Unmerge) := B.buildUnmerge S8 Src
      let Defs := (List.range Unmerge.getNumDefs).map (fun Idx => Unmerge.getReg Idx)
      let Defs := if MI.Opcode = Opcode.G_LSHR then Defs.reverse else Defs
      let (B, Parts, _) := shiftChain Opc Defs B Carry
      let Parts := if MI.Opcode = Opcode.G_LSHR then Parts.reverse else Parts
      let (B, _) := B.buildMerge (DstOp.reg Dst) Parts
      Except.ok (Outcome.rewritten { B := B, MI := none, Legalized := true })

/-- The cases `G_LSHR`, `G_SHL` and `G_ASHR` of the switch of
`MOSLegalizerInfo::legalizeCustom`; it is not defined here for an opcode that
is not a shift. -/
def legalizeCustomShift (B : MachineIRBuilder) (MI : MachineInstr) : Except String Outcome :=
  match MI.Opcode with
  | Opcode.G_LSHR | Opcode.G_SHL => legalizeLshrShl B MI
  | Opcode.G_ASHR => Except.ok (shiftLibcall B.MRI MI)
  | _ => Except.error "not a shift"

/-- The carry-in register of the `j`-th shift of the chain that `shiftChain`
builds, when the first fresh register is `c` and the first carry-in is `CIn`:
the carry-out of the shift before. -/
def shiftCarry (c CIn : Nat) : Nat → Nat
  | 0 => CIn
  | j + 1 => c + 2 * j + 1

/-- The `j`-th shift of the chain, on the register `src j`. -/
def shiftInst (Opc : Opcode) (src : Nat → Nat) (c CIn : Nat) (j : Nat) : MachineInstr :=
  ⟨Opc, [MachineOperand.reg (c + 2 * j), MachineOperand.reg (c + 2 * j + 1),
    MachineOperand.reg (src j), MachineOperand.reg (shiftCarry c CIn j)]⟩

/-- The instructions that `shiftChain` builds for `N` bytes. -/
def shiftInsts (Opc : Opcode) (src : Nat → Nat) (c CIn : Nat) (N : Nat) : List MachineInstr :=
  (List.range N).map (shiftInst Opc src c CIn)

/-- The types of the registers that `shiftChain` creates for `N` bytes. -/
def shiftTypes : Nat → List LLT
  | 0 => []
  | N + 1 => shiftTypes N ++ [S8, S1]

/-- The result bytes of the chain, in the order in which it makes them. -/
def shiftParts (c N : Nat) : List Nat := (List.range N).map (fun j => c + 2 * j)

/-- Whether an outcome is the call of a runtime library routine. -/
def Outcome.isLibcall : Outcome → Bool
  | Outcome.helper (HelperCall.createLibcall _ _ _ _) => true
  | _ => false

/-- The routing of a shift as the specification states it, for every shift
alike: the shift goes to the library call if and only if its amount is not a
known constant, or is a constant that is neither a multiple of 8 nor 1. -/
def ShiftRoutingAsStated (MRI : MachineRegisterInfo) (MI : MachineInstr) : Prop :=
  ∃ O, legalizeCustomShift (MachineIRBuilder.atInstr MRI) MI = Except.ok O ∧
    (O.isLibcall = true ↔
      (getConstantVRegValWithLookThrough (MI.getReg 2) MRI = none ∨
        ∃ c, getConstantVRegValWithLookThrough (MI.getReg 2) MRI = some c ∧
          c % 8 ≠ 0 ∧ c ≠ 1))

/-! ## Boolean NOT: branches and selects -/

namespace MachineInstr

/-- Whether the instruction uses the register: it is among the operands after
the definitions. -/
def usesRegister (MI : MachineInstr) (Reg : Register) : Bool :=
  (MI.Operands.drop MI.getNumDefs).contains (MachineOperand.reg Reg)

def addOperand (MI : MachineInstr) (Op : MachineOperand) : MachineInstr :=
  { MI with Operands := MI.Operands ++ [Op] }

def RemoveOperand (MI : MachineInstr) (Idx : Nat) : MachineInstr :=
  { MI with Operands := MI.Operands.eraseIdx Idx }

def getImm (MI : MachineInstr) (Idx : Nat) : Int :=
  match MI.getOperand Idx with
  | MachineOperand.imm Val => Val
  | _ => 0

def setImm (MI : MachineInstr) (Idx : Nat) (Val : Int) : MachineInstr :=
  { MI with Operands := MI.Operands.set Idx (MachineOperand.imm Val) }

end MachineInstr

/-- The matcher `mi_match(Reg, MRI, m_Not(m_Reg(Not)))`: the register is
defined by a `G_XOR` of three operands, one of whose sources matches the
all-ones constant; the other source is bound. The second source is tried as
the constant first. -/
def mi_match_Not (Reg : Register) (MRI : MachineRegisterInfo) : Option Register :=
  match MRI.getVRegDef Reg with
  | some TmpMI =>
    if TmpMI.Opcode = Opcode.G_XOR ∧ TmpMI.getNumOperands = 3 then
      if mi_match_SpecificICst (TmpMI.getReg 2) MRI (-1) then some (TmpMI.getReg 1)
      else if mi_match_SpecificICst (TmpMI.getReg 1) MRI (-1) then some (TmpMI.getReg 2)
      else none
    else none
  | none => none

/-- Modelled from the spec: `isTriviallyDead`, which is outside the given
sources. The spec deletes the xor when its result becomes dead: no
instruction of the function uses a register that the instruction defines. -/
def isTriviallyDead (MI : MachineInstr) (MRI : MachineRegisterInfo) : Bool :=
  (MI.Operands.take MI.getNumDefs).all (fun Op =>
    match Op with
    | MachineOperand.reg r => !(MRI.Insts.any (fun U => U.usesRegister r))
    | _ => true)

/-- The routine `MOSLegalizerInfo::legalizeBrCond`. -/
def legalizeBrCond (B : MachineIRBuilder) (MI : MachineInstr) : LegalizeResult :=
  let Tst := MI.getReg 0
  let (Val, Tst) : Int × Register :=
    match mi_match_Not Tst B.MRI with
    | some Not => (0, Not)
    | none => (1, Tst)
  let MI := MI.setDesc Opcode.G_BRCOND_IMM
  let MI := MI.setReg 0 Tst
  let MI := MI.addOperand (MachineOperand.imm Val)
  { B := B, MI := some MI, Legalized := true }

/-- The loop of `legalizeXor` over the instructions that use `Dst`, the NOT of
`Not`. The use list of a register is outside the given sources: its members
are taken to be the instructions of the function that have the register among
their uses, in the order of the function. The loop is a range-for over that
list and it changes the list as it goes: `setReg` takes the operand that the
iteration stands on out of the list of `Dst` and makes it the last use of
`Not`, so that the iteration finds no next use and the loop ends with the
first user that it rewrites. A user that it does not rewrite is passed over.
`Done` are the instructions already passed over, and the matchers see the
function as it stands. A failed assertion is an error. -/
def foldNotIntoUses (Dst Not : Register) (V : List LLT) :
    List MachineInstr → List MachineInstr → Except String (List MachineInstr)
  | Done, [] => Except.ok Done
  | Done, UseMI :: Todo =>
    if !UseMI.usesRegister Dst then foldNotIntoUses Dst Not V (Done ++ [UseMI]) Todo
    else if UseMI.Opcode = Opcode.G_BRCOND_IMM then
      if UseMI.getReg 0 ≠ Dst then Except.error "UseMI.getOperand(0).getReg() == Dst"
      else
        let NewMI := UseMI.setReg 0 Not
        let NewMI := NewMI.setImm 2 (if UseMI.getImm 2 = 0 then 1 else 0)
        Except.ok (Done ++ NewMI :: Todo)
    else if UseMI.Opcode = Opcode.G_SELECT ∧
        mi_match_SpecificICst (UseMI.getReg 2) ⟨V, Done ++ UseMI :: Todo⟩ 0 = true ∧
        mi_match_SpecificICst (UseMI.getReg 3) ⟨V, Done ++ UseMI :: Todo⟩ (-1) = true then
      let NewMI := UseMI.setReg 1 Not
      let NewMI := NewMI.RemoveOperand 3
      let NewMI := NewMI.RemoveOperand 2
      let NewMI := NewMI.setDesc Opcode.COPY
      Except.ok (Done ++ NewMI :: Todo)
    else foldNotIntoUses Dst Not V (Done ++ [UseMI]) Todo

/-- The routine `MOSLegalizerInfo::legalizeXor`. The register information it
leaves behind has the instructions of the function as the loop over the users
left them. A failed assertion is an error. -/
def legalizeXor (B : MachineIRBuilder) (MI : MachineInstr) : Except String Outcome :=
  let Dst := MI.getReg 0
  if B.MRI.getType Dst ≠ S1 then Except.error "MRI.getType(Dst) == S1" else
  match mi_match_Not Dst B.MRI with
  | some Not =>
    match foldNotIntoUses Dst Not B.MRI.VRegInfo [] B.MRI.Insts with
    | Except.error e => Except.error e
    | Except.ok Insts =>
      let B := { B with MRI := { B.MRI with Insts := Insts } }
      if !isTriviallyDead MI B.MRI then
        let (B, Zero) := B.buildConstant (DstOp.ty S1) 0
        let (B, One) := B.buildConstant (DstOp.ty S1) 1
        let (B, _) := B.buildSelect (DstOp.reg Dst) Not (Zero.getReg 0) (One.getReg 0)
        Except.ok (Outcome.rewritten { B := B, MI := none, Legalized := true })
      else
        Except.ok (Outcome.rewritten { B := B, MI := none, Legalized := true })
  | none =>
    if isTriviallyDead MI B.MRI then
      Except.ok (Outcome.rewritten { B := B, MI := none, Legalized := true })
    else
      Except.ok (Outcome.helper (HelperCall.widenScalar MI 0 (LLT.scalar 8)))

/-- Modelled from the spec: whether a conditional branch is taken, which the
given sources do not define. A `G_BRCOND` on a 1-bit test is taken when the
test is true; a branch with polarity immediate `G_BRCOND_IMM` is taken when
the truth of its test is the polarity. -/
def branchTaken (env : Env) (MI : MachineInstr) : Option Bool :=
  match MI.Opcode, MI.Operands with
  | Opcode.G_BRCOND, [MachineOperand.reg t, MachineOperand.mbb _] =>
    some (decide (env t ≠ 0))
  | Opcode.G_BRCOND_IMM, [MachineOperand.reg t, MachineOperand.mbb _, MachineOperand.imm v] =>
    some (decide (env t ≠ 0 ↔ v ≠ 0))
  | _, _ => none

/-- Whether all operands of an instruction are registers. -/
def MachineInstr.allRegs (MI : MachineInstr) : Bool :=
  MI.Operands.all (fun Op =>
    match Op with
    | MachineOperand.reg _ => true
    | _ => false)

/-- Whether the environment agrees with the definitions of the function: an
instruction of the function that has a value gives each of its registers the
value that the environment already has for it. -/
def Env.agreesOn (env : Env) (MRI : MachineRegisterInfo) : Bool :=
  MRI.Insts.all (fun MI =>
    match execInstr MRI env MI with
    | some env1 =>
      MI.Operands.all (fun Op =>
        match Op with
        | MachineOperand.reg r => env1 r == env r
        | _ => true)
    | none => true)

/-! ## Pointer plus offset -/

/-- Modelled from the spec: the definition of a register seen through copies,
`getDefIgnoringCopies`, which is outside the given sources: the base of a
pointer addition may be a copy of a global address. A copy is followed to the
definition of its source as long as the source has a type. The first argument
bounds the number of copies. -/
def getDefIgnoringCopies : Nat → Register → MachineRegisterInfo → Option MachineInstr
  | 0, Reg, MRI => MRI.getVRegDef Reg
  | Fuel + 1, Reg, MRI =>
    match MRI.getVRegDef Reg with
    | some ⟨Opcode.COPY, [MachineOperand.reg d, MachineOperand.reg Src]⟩ =>
      if MRI.getType Src = LLT.invalid then
        some ⟨Opcode.COPY, [MachineOperand.reg d, MachineOperand.reg Src]⟩
      else getDefIgnoringCopies Fuel Src MRI
    | Def => Def

/-- The helper `getOpcodeDef`: the definition of the register, seen through
copies, when it has the opcode. -/
def getOpcodeDef (Opc : Opcode) (Reg : Register) (MRI : MachineRegisterInfo) :
    Option MachineInstr :=
  match getDefIgnoringCopies MRI.Insts.length Reg MRI with
  | some Def => if Def.Opcode = Opc then some Def else none
  | none => none

namespace MachineOperand

def getGlobal : MachineOperand → Nat
  | globalAddress Global _ => Global
  | _ => 0

def getOffset : MachineOperand → Int
  | globalAddress _ Offset => Offset
  | _ => 0

end MachineOperand

/-- The number of bits needed for a value (`APInt::getActiveBits`). -/
def getActiveBits (Val : Nat) : Nat := if Val = 0 then 0 else Nat.log2 Val + 1

/-- A sum of 64-bit signed offsets, as a 64-bit signed number. -/
def addInt64 (a b : Int) : Int := (a + b + 2 ^ 63) % 2 ^ 64 - 2 ^ 63

namespace MachineIRBuilder

def buildZExt (B : MachineIRBuilder) (Res : DstOp) (Op : Register) :
    MachineIRBuilder × MachineInstr :=
  B.buildInstr Opcode.G_ZEXT [Res] [MachineOperand.reg Op]

def buildPtrToInt (B : MachineIRBuilder) (Res : DstOp) (Op : Register) :
    MachineIRBuilder × MachineInstr :=
  B.buildInstr Opcode.G_PTRTOINT [Res] [MachineOperand.reg Op]

def buildIntToPtr (B : MachineIRBuilder) (Res : DstOp) (Op : Register) :
    MachineIRBuilder × MachineInstr :=
  B.buildInstr Opcode.G_INTTOPTR [Res] [MachineOperand.reg Op]

def buildAdd (B : MachineIRBuilder) (Res : DstOp) (Src0 Src1 : Register) :
    MachineIRBuilder × MachineInstr :=
  B.buildInstr Opcode.G_ADD [Res] [MachineOperand.reg Src0, MachineOperand.reg Src1]

end MachineIRBuilder

/-- The routine `MOSLegalizerInfo::legalizePtrAdd`. The known constant has the
width of the offset register. -/
def legalizePtrAdd (B : MachineIRBuilder) (MI : MachineInstr) : LegalizeResult :=
  let Result := MI.getOperand 0
  let Base := MI.getReg 1
  let Offset := MI.getReg 2
  let Width := (B.MRI.getType Offset).getSizeInBits
  let GlobalBase := getOpcodeDef Opcode.G_GLOBAL_VALUE Base B.MRI
  let ConstOffset := getConstantVRegValWithLookThrough Offset B.MRI
  match GlobalBase, ConstOffset with
  | some GlobalDef, some Val =>
    let Op := GlobalDef.getOperand 1
    let B := B.insert ⟨Opcode.G_GLOBAL_VALUE,
      [Result, MachineOperand.globalAddress Op.getGlobal
        (addInt64 Op.getOffset (toSigned Width Val))]⟩
    { B := B, MI := none, Legalized := true }
  | _, _ =>
  match getOpcodeDef Opcode.G_ZEXT Offset B.MRI with
  | some ZExtOffset =>
    let Src := ZExtOffset.getReg 1
    let SrcTy := B.MRI.getType Src
    let (B, Src) : MachineIRBuilder × Register :=
      if SrcTy.getSizeInBits < 8 then
        let (B, ZExt) := B.buildZExt (DstOp.ty S8) Src
        (B, ZExt.getReg 0)
      else (B, Src)
    let MI := MI.setDesc Opcode.G_INDEX
    let MI := MI.setReg 2 Src
    { B := B, MI := some MI, Legalized := true }
  | none =>
  let Small : Option Nat :=
    match ConstOffset with
    | some Val =>
      if 0 ≤ toSigned Width Val ∧ getActiveBits Val ≤ 8 then some (Val % 2 ^ 8) else none
    | none => none
  match Small with
  | some Trunc =>
    let (B, Const) := B.buildConstant (DstOp.ty S8) (Trunc : Int)
    let MI := MI.setDesc Opcode.G_INDEX
    let MI := MI.setReg 2 (Const.getReg 0)
    { B := B, MI := some MI, Legalized := true }
  | none =>
    let (B, PtrVal) := B.buildPtrToInt (DstOp.ty S16) Base
    let (B, Sum) := B.buildAdd (DstOp.ty S16) (PtrVal.getReg 0) Offset
    let (B, _) := B.buildIntToPtr (DstOp.reg (MI.getReg 0)) (Sum.getReg 0)
    { B := B, MI := none, Legalized := true }

/-! ## The order of the carry in a shift chain -/

/-- Whether an instruction is a one-bit shift with carry. -/
def MachineInstr.isShiftWithCarry (MI : MachineInstr) : Bool :=
  MI.Opcode == Opcode.G_SHLE || MI.Opcode == Opcode.G_LSHRE

/-- Whether, in a sequence of instructions, a carry goes from byte `i` to byte
`j` of a value that is split into bytes, the least significant byte being byte
0: a shift with carry whose source is definition `i` of a `G_UNMERGE_VALUES`
hands its carry-out to the shift with carry whose source is definition `j`. -/
def carryFromTo (Is : List MachineInstr) (i j : Nat) : Bool :=
  Is.any (fun U =>
    U.Opcode == Opcode.G_UNMERGE_VALUES && decide (i < U.getNumDefs) &&
    decide (j < U.getNumDefs) &&
    Is.any (fun S =>
      S.isShiftWithCarry && S.getOperand 2 == U.getOperand i &&
      Is.any (fun T =>
        T.isShiftWithCarry && T.getOperand 2 == U.getOperand j &&
        T.getOperand 3 == S.getOperand 1)))

/-- The order of the carry as the specification states it: in what stands in
the place of a left shift every carry goes from a more significant byte to a
less significant one, and in what stands in the place of a right shift every
carry goes from a less significant byte to a more significant one. -/
def CarryOrderAsStated (MI : MachineInstr) (Is : List MachineInstr) : Prop :=
  ∀ i j, carryFromTo Is i j = true → if MI.Opcode = Opcode.G_SHL then j < i else i < j

/-! ## The measure of a comparison -/

/-- The rank of a predicate: 0 for the three predicates that `legalizeICmp`
lowers itself, 1 for those that one negation or one exchange of the operands
takes to rank 0, and 2 for those that need an exchange and then a negation. -/
def predicateRank : Predicate → Nat
  | Predicate.ICMP_EQ | Predicate.ICMP_UGE | Predicate.ICMP_SLT => 0
  | Predicate.ICMP_NE | Predicate.ICMP_ULT | Predicate.ICMP_SGE
  | Predicate.ICMP_ULE | Predicate.ICMP_SGT => 1
  | Predicate.ICMP_UGT | Predicate.ICMP_SLE => 2

/-- The order on operand types: an integer is smaller than a pointer, and of
two integers the one of fewer bytes is the smaller. -/
def typeLt (a b : LLT) : Prop :=
  a.isScalar = true ∧
    (b.isPointer = true ∨ (b.isScalar = true ∧ a.getSizeInBytes < b.getSizeInBytes))

/-- The lexicographic order on the operand type and the rank of the predicate
of a comparison. -/
def icmpLt (x y : LLT × Predicate) : Prop :=
  typeLt x.1 y.1 ∨ (x.1 = y.1 ∧ predicateRank x.2 < predicateRank y.2)

/-- The operand type and the predicate of a comparison instruction. -/
def icmpKey (MRI : MachineRegisterInfo) (MI : MachineInstr) : LLT × Predicate :=
  (MRI.getType (MI.getReg 2), MI.getPredicate 1)

/-! ## The legality table -/

/-- The actions that a rule of the table assigns
(`LegalizeActions::LegalizeAction`). -/
inductive LegalizeAction where
  | Legal | NarrowScalar | WidenScalar | FewerElements | MoreElements | Bitcast
  | Lower | Libcall | Custom | Unsupported | NotFound | UseLegacyRules
deriving DecidableEq, Repr

/-- The predicates on the types of a query that the rules of the table use
(`LegalityPredicates`); `notByteSized` is the predicate that the constructor
writes out for `G_ICMP`. -/
inductive LegalityPredicate where
  | always
  | typeInSet (TypeIdx : Nat) (Types : List LLT)
  | typePairInSet (TypeIdx0 TypeIdx1 : Nat) (Types : List (LLT × LLT))
  | typeIs (TypeIdx : Nat) (Ty : LLT)
  | scalarNarrowerThan (TypeIdx Size : Nat)
  | scalarWiderThan (TypeIdx Size : Nat)
  | sizeNotPow2 (TypeIdx : Nat)
  | notByteSized (TypeIdx : Nat)
  | all (P0 P1 : LegalityPredicate)
deriving DecidableEq, Repr

/-- Whether a number is a power of two (`isPowerOf2_32`). -/
def isPowerOf2_32 (Value : Nat) : Bool := Value != 0 && (Value &&& (Value - 1)) == 0

/-- Modelled from the spec: whether a predicate holds of the types of a query;
the predicates are defined outside the given sources, and the table is a rule
set on the operand type shape. The type at an index that the query does not
have is the invalid type. The predicate written out for `G_ICMP` asserts that
the type is a scalar; the failed assertion is an error. -/
def LegalityPredicate.eval : LegalityPredicate → List LLT → Except String Bool
  | always, _ => Except.ok true
  | typeInSet TypeIdx Types, Q => Except.ok (Types.contains (Q.getD TypeIdx LLT.invalid))
  | typePairInSet TypeIdx0 TypeIdx1 Types, Q =>
    Except.ok (Types.contains (Q.getD TypeIdx0 LLT.invalid, Q.getD TypeIdx1 LLT.invalid))
  | typeIs TypeIdx Ty, Q => Except.ok (Q.getD TypeIdx LLT.invalid == Ty)
  | scalarNarrowerThan TypeIdx Size, Q =>
    Except.ok ((Q.getD TypeIdx LLT.invalid).isScalar &&
      decide ((Q.getD TypeIdx LLT.invalid).getSizeInBits < Size))
  | scalarWiderThan TypeIdx Size, Q =>
    Except.ok ((Q.getD TypeIdx LLT.invalid).isScalar &&
      decide (Size < (Q.getD TypeIdx LLT.invalid).getSizeInBits))
  | sizeNotPow2 TypeIdx, Q =>
    Except.ok ((Q.getD TypeIdx LLT.invalid).isScalar &&
      !isPowerOf2_32 (Q.getD TypeIdx LLT.invalid).getSizeInBits)
  | notByteSized TypeIdx, Q =>
    if (Q.getD TypeIdx LLT.invalid).isScalar then
      Except.ok (!(Q.getD TypeIdx LLT.invalid).isByteSized)
    else Except.error "Query.Types[1].isScalar()"
  | all P0 P1, Q =>
    match P0.eval Q with
    | Except.ok true => P1.eval Q
    | Res => Res

/-- One rule of the table: a predicate on the types and the action for the
queries that satisfy it. The change of type that a widening or narrowing rule
also names is not part of the model. -/
structure LegalizeRule where
  Predicate : LegalityPredicate
  Action : LegalizeAction
deriving DecidableEq, Repr

/-- The rules of one opcode, in the order in which they were added
(`LegalizeRuleSet`). -/
structure LegalizeRuleSet where
  Rules : List LegalizeRule
deriving DecidableEq, Repr

namespace LegalizeRuleSet

def actionIf (RS : LegalizeRuleSet) (Action : LegalizeAction) (Predicate : LegalityPredicate) :
    LegalizeRuleSet :=
  ⟨RS.Rules ++ [⟨Predicate, Action⟩]⟩

/-- The call `legalFor({Ty, ...})`. -/
def legalFor (RS : LegalizeRuleSet) (Types : List LLT) : LegalizeRuleSet :=
  RS.actionIf LegalizeAction.Legal (LegalityPredicate.typeInSet 0 Types)

/-- The call `legalFor({{Ty0, Ty1}, ...})`. -/
def legalForPairs (RS : LegalizeRuleSet) (Types : List (LLT × LLT)) : LegalizeRuleSet :=
  RS.actionIf LegalizeAction.Legal (LegalityPredicate.typePairInSet 0 1 Types)

def legalForCartesianProduct (RS : LegalizeRuleSet) (Types0 Types1 : List LLT) :
    LegalizeRuleSet :=
  RS.actionIf LegalizeAction.Legal
    (LegalityPredicate.all (LegalityPredicate.typeInSet 0 Types0)
      (LegalityPredicate.typeInSet 1 Types1))

/-- The call `customFor({Ty, ...})`. -/
def customFor (RS : LegalizeRuleSet) (Types : List LLT) : LegalizeRuleSet :=
  RS.actionIf LegalizeAction.Custom (LegalityPredicate.typeInSet 0 Types)

/-- The call `customFor({{Ty0, Ty1}, ...})`. -/
def customForPairs (RS : LegalizeRuleSet) (Types : List (LLT × LLT)) : LegalizeRuleSet :=
  RS.actionIf LegalizeAction.Custom (LegalityPredicate.typePairInSet 0 1 Types)

def customIf (RS : LegalizeRuleSet) (Predicate : LegalityPredicate) : LegalizeRuleSet :=
  RS.actionIf LegalizeAction.Custom Predicate

def custom (RS : LegalizeRuleSet) : LegalizeRuleSet :=
  RS.actionIf LegalizeAction.Custom LegalityPredicate.always

def lower (RS : LegalizeRuleSet) : LegalizeRuleSet :=
  RS.actionIf LegalizeAction.Lower LegalityPredicate.always

def libcall (RS : LegalizeRuleSet) : LegalizeRuleSet :=
  RS.actionIf LegalizeAction.Libcall LegalityPredicate.always

def unsupported (RS : LegalizeRuleSet) : LegalizeRuleSet :=
  RS.actionIf LegalizeAction.Unsupported LegalityPredicate.always

def unsupportedIf (RS : LegalizeRuleSet) (Predicate : LegalityPredicate) : LegalizeRuleSet :=
  RS.actionIf LegalizeAction.Unsupported Predicate

def widenScalarIf (RS : LegalizeRuleSet) (Predicate : LegalityPredicate) : LegalizeRuleSet :=
  RS.actionIf LegalizeAction.WidenScalar Predicate

def widenScalarToNextPow2 (RS : LegalizeRuleSet) (TypeIdx : Nat) : LegalizeRuleSet :=
  RS.actionIf LegalizeAction.WidenScalar (LegalityPredicate.sizeNotPow2 TypeIdx)

def minScalar (RS : LegalizeRuleSet) (TypeIdx : Nat) (Ty : LLT) : LegalizeRuleSet :=
  RS.actionIf LegalizeAction.WidenScalar
    (LegalityPredicate.scalarNarrowerThan TypeIdx Ty.getSizeInBits)

def maxScalar (RS : LegalizeRuleSet) (TypeIdx : Nat) (Ty : LLT) : LegalizeRuleSet :=
  RS.actionIf LegalizeAction.NarrowScalar
    (LegalityPredicate.scalarWiderThan TypeIdx Ty.getSizeInBits)

def clampScalar (RS : LegalizeRuleSet) (TypeIdx : Nat) (MinTy MaxTy : LLT) : LegalizeRuleSet :=
  (RS.minScalar TypeIdx MinTy).maxScalar TypeIdx MaxTy

/-- The first rule whose predicate holds decides. -/
def applyRules : List LegalizeRule → List LLT → Except String LegalizeAction
  | [], _ => Except.ok LegalizeAction.Unsupported
  | Rule :: Rest, Q =>
    match Rule.Predicate.eval Q with
    | Except.error e => Except.error e
    | Except.ok true => Except.ok Rule.Action
    | Except.ok false => applyRules Rest Q

/-- Modelled from the spec: the action of a rule set for the types of a query
(`LegalizeRuleSet::apply`, outside the given sources): the rules are tried in
first-match order; an opcode without rules is left to the legacy tables, and a
query that no rule matches is unsupported. -/
def apply (RS : LegalizeRuleSet) (Q : List LLT) : Except String LegalizeAction :=
  if RS.Rules.isEmpty then Except.ok LegalizeAction.UseLegacyRules else applyRules RS.Rules Q

end LegalizeRuleSet

/-- The constructor `MOSLegalizerInfo::MOSLegalizerInfo`: the rules that it
gives each opcode through `getActionDefinitionsBuilder`. An opcode that the
constructor does not name has no rules. -/
def MOSLegalizerInfo (Opc : Opcode) : LegalizeRuleSet :=
  let RS : LegalizeRuleSet := ⟨[]⟩
  match Opc with
  -- Constants
  | Opcode.G_CONSTANT =>
    RS.legalFor [S1, S8, S16, P] |>.widenScalarToNextPow2 0 |>.clampScalar 0 S8 S8
      |>.unsupported
  | Opcode.G_IMPLICIT_DEF | Opcode.G_FREEZE =>
    RS.legalFor [S1, S8, P] |>.widenScalarToNextPow2 0 |>.clampScalar 0 S8 S8 |>.unsupported
  | Opcode.G_FRAME_INDEX | Opcode.G_GLOBAL_VALUE => RS.legalFor [P] |>.unsupported
  -- Integer Extension and Truncation
  | Opcode.G_ANYEXT => RS.legalForPairs [(S8, S1), (S16, S1), (S16, S8)] |>.unsupported
  | Opcode.G_TRUNC => RS.legalForPairs [(S1, S8), (S1, S16), (S8, S16)] |>.unsupported
  | Opcode.G_SEXT => RS.custom
  | Opcode.G_SEXT_INREG => RS.lower
  | Opcode.G_ZEXT =>
    RS.customIf (LegalityPredicate.typeIs 1 S1) |>.maxScalar 0 S8 |>.unsupported
  -- Type Conversions
  | Opcode.G_INTTOPTR =>
    RS.legalForPairs [(P, S16)] |>.widenScalarToNextPow2 1 |>.clampScalar 1 S16 S16
      |>.unsupported
  | Opcode.G_PTRTOINT =>
    RS.legalForPairs [(S16, P)] |>.widenScalarToNextPow2 0 |>.clampScalar 0 S16 S16
      |>.unsupported
  -- Scalar Operations
  | Opcode.G_EXTRACT | Opcode.G_INSERT => RS.lower
  | Opcode.G_MERGE_VALUES => RS.legalForCartesianProduct [S16, P] [S8] |>.unsupported
  | Opcode.G_UNMERGE_VALUES => RS.legalForCartesianProduct [S8] [S16, P] |>.unsupported
  | Opcode.G_BSWAP =>
    RS.customFor [S8] |>.unsupportedIf (LegalityPredicate.scalarNarrowerThan 0 8)
      |>.widenScalarToNextPow2 0 |>.maxScalar 0 S8
  | Opcode.G_BITREVERSE => RS.lower
  -- Integer Operations
  | Opcode.G_ADD | Opcode.G_SUB | Opcode.G_AND | Opcode.G_OR =>
    RS.legalFor [S8] |>.widenScalarToNextPow2 0 |>.clampScalar 0 S8 S8 |>.unsupported
  | Opcode.G_XOR =>
    RS.legalFor [S8] |>.customFor [S1] |>.widenScalarToNextPow2 0 |>.clampScalar 0 S8 S8
      |>.unsupported
  | Opcode.G_MUL | Opcode.G_SDIV | Opcode.G_SREM | Opcode.G_UDIV | Opcode.G_UREM => RS.libcall
  | Opcode.G_SDIVREM | Opcode.G_UDIVREM => RS.lower
  | Opcode.G_SADDSAT | Opcode.G_UADDSAT | Opcode.G_SSUBSAT | Opcode.G_USUBSAT
  | Opcode.G_SSHLSAT | Opcode.G_USHLSAT => RS.lower
  | Opcode.G_LSHR | Opcode.G_SHL =>
    RS.widenScalarToNextPow2 0 |>.clampScalar 0 S8 (LLT.scalar 64) |>.maxScalar 1 S8 |>.custom
  | Opcode.G_ASHR =>
    RS.widenScalarToNextPow2 0 |>.clampScalar 0 S8 (LLT.scalar 64) |>.maxScalar 1 S8 |>.custom
  | Opcode.G_ROTL => RS.customFor [S8] |>.lower
  | Opcode.G_ROTR => RS.customFor [S8] |>.lower
  | Opcode.G_ICMP =>
    RS.customForPairs [(S1, P), (S1, S8)] |>.minScalar 1 S8
      |>.widenScalarIf (LegalityPredicate.notByteSized 1) |>.custom
  | Opcode.G_SELECT =>
    RS.customFor [P] |>.legalFor [S1, S8] |>.widenScalarToNextPow2 0 |>.clampScalar 0 S8 S8
      |>.unsupported
  | Opcode.G_PTR_ADD => RS.customForPairs [(P, S16)] |>.unsupported
  | Opcode.G_SMIN | Opcode.G_SMAX | Opcode.G_UMIN | Opcode.G_UMAX => RS.lower
  | Opcode.G_ABS => RS.lower
  | Opcode.G_UADDO | Opcode.G_SADDO | Opcode.G_USUBO | Opcode.G_SSUBO =>
    RS.customFor [S8] |>.widenScalarToNextPow2 0 |>.clampScalar 0 S8 S8 |>.unsupported
  | Opcode.G_SMULO | Opcode.G_UMULO => RS.lower
  | Opcode.G_UADDE | Opcode.G_SADDE =>
    RS.legalFor [S8] |>.widenScalarToNextPow2 0 |>.clampScalar 0 S8 S8 |>.unsupported
  | Opcode.G_USUBE | Opcode.G_SSUBE =>
    RS.customFor [S8] |>.widenScalarToNextPow2 0 |>.clampScalar 0 S8 S8 |>.unsupported
  | Opcode.G_UMULH | Opcode.G_SMULH => RS.lower
  | Opcode.G_FSHL | Opcode.G_FSHR => RS.lower
  | Opcode.G_CTLZ | Opcode.G_CTTZ | Opcode.G_CTPOP | Opcode.G_CTLZ_ZERO_UNDEF
  | Opcode.G_CTTZ_ZERO_UNDEF => RS.lower
  -- Floating Point Operations
  | Opcode.G_FADD | Opcode.G_FSUB | Opcode.G_FMUL | Opcode.G_FDIV | Opcode.G_FMA
  | Opcode.G_FPOW | Opcode.G_FREM | Opcode.G_FCOS | Opcode.G_FSIN | Opcode.G_FLOG10
  | Opcode.G_FLOG | Opcode.G_FLOG2 | Opcode.G_FEXP | Opcode.G_FEXP2 | Opcode.G_FCEIL
  | Opcode.G_FFLOOR | Opcode.G_FMINNUM | Opcode.G_FMAXNUM | Opcode.G_FSQRT | Opcode.G_FRINT
  | Opcode.G_FNEARBYINT | Opcode.G_INTRINSIC_ROUNDEVEN | Opcode.G_FPEXT | Opcode.G_FPTRUNC
  | Opcode.G_FPTOSI | Opcode.G_FPTOUI | Opcode.G_SITOFP | Opcode.G_UITOFP => RS.unsupported
  -- Memory Operations
  | Opcode.G_LOAD | Opcode.G_STORE =>
    RS.legalForPairs [(S8, P)] |>.customForPairs [(P, P)] |>.clampScalar 0 S8 S8 |>.unsupported
  | Opcode.G_SEXTLOAD | Opcode.G_ZEXTLOAD => RS.lower
  | Opcode.G_MEMCPY | Opcode.G_MEMMOVE | Opcode.G_MEMSET => RS.libcall
  -- Control Flow
  | Opcode.G_PHI =>
    RS.customFor [P] |>.legalFor [S1, S8] |>.widenScalarToNextPow2 0 |>.clampScalar 0 S8 S8
      |>.unsupported
  | Opcode.G_BRCOND => RS.customFor [S1] |>.unsupported
  -- Variadic Arguments
  | Opcode.G_VASTART | Opcode.G_VAARG => RS.custom
  -- Other Operations
  | Opcode.G_DYN_STACKALLOC => RS.custom
  | _ => RS

/-- The action of the table for an opcode and the types of its type indices
(`LegalizerInfo::getAction`). -/
def getAction (Opc : Opcode) (Types : List LLT) : Except String LegalizeAction :=
  (MOSLegalizerInfo Opc).apply Types

/-- The type tuples that a predicate lists. -/
def LegalityPredicate.tuples : LegalityPredicate → List (List LLT)
  | typeInSet _ Types => Types.map (fun Ty => [Ty])
  | typePairInSet _ _ Types => Types.map (fun p => [p.1, p.2])
  | all (typeInSet _ Types0) (typeInSet _ Types1) =>
    Types0.flatMap (fun Ty0 => Types1.map (fun Ty1 => [Ty0, Ty1]))
  | _ => []

/-- The type tuples that the table marks legal for an opcode: the tuples that
the rules with the action `Legal` list and for which the table gives that
action. -/
def legalTuples (Opc : Opcode) : List (List LLT) :=
  (((MOSLegalizerInfo Opc).Rules.filter
      (fun Rule => Rule.Action == LegalizeAction.Legal)).flatMap
    (fun Rule => Rule.Predicate.tuples)).filter
      (fun Types =>
        match getAction Opc Types with
        | Except.ok LegalizeAction.Legal => true
        | _ => false)

/-- Whether a predicate looks only at the types at indices below `n`. -/
def LegalityPredicate.usesBelow (n : Nat) : LegalityPredicate → Bool
  | always => true
  | typeInSet TypeIdx _ => decide (TypeIdx < n)
  | typePairInSet TypeIdx0 TypeIdx1 _ => decide (TypeIdx0 < n) && decide (TypeIdx1 < n)
  | typeIs TypeIdx _ => decide (TypeIdx < n)
  | scalarNarrowerThan TypeIdx _ => decide (TypeIdx < n)
  | scalarWiderThan TypeIdx _ => decide (TypeIdx < n)
  | sizeNotPow2 TypeIdx => decide (TypeIdx < n)
  | notByteSized TypeIdx => decide (TypeIdx < n)
  | all P0 P1 => P0.usesBelow n && P1.usesBelow n

/-- Whether a predicate lists type tuples of length `n` for the type indices
from 0 on, none of them with the invalid type. -/
def LegalityPredicate.listsTuples (n : Nat) : LegalityPredicate → Bool
  | typeInSet 0 Types => decide (n = 1) && !Types.contains LLT.invalid
  | typePairInSet 0 1 Types =>
    decide (n = 2) && Types.all (fun p => p.1 != LLT.invalid && p.2 != LLT.invalid)
  | all (typeInSet 0 Types0) (typeInSet 1 Types1) =>
    decide (n = 2) && !Types0.contains LLT.invalid && !Types1.contains LLT.invalid
  | _ => false

/-- Whether every rule with the action `Legal` among `Rest` lists type tuples,
and the rules before it, `Pre` and the rules of `Rest` before it, look only at
the types that its tuples give. -/
def legalRulesListTuples : List LegalizeRule → List LegalizeRule → Bool
  | _, [] => true
  | Pre, Rule :: Rest =>
    (Rule.Action != LegalizeAction.Legal ||
      [1, 2].any (fun n => Rule.Predicate.listsTuples n &&
        Pre.all (fun R => R.Predicate.usesBelow n))) &&
    legalRulesListTuples (Pre ++ [Rule]) Rest

/-! ## Zero extension, byte swap, pointer select -/

/-- The routine `MOSLegalizerInfo::legalizeZExt`. A failed assertion is an
error. -/
def legalizeZExt (B : MachineIRBuilder) (MI : MachineInstr) : Except String LegalizeResult :=
  let Dst := MI.getReg 0
  let Src := MI.getReg 1
  let DstTy := B.MRI.getType Dst
  let SrcTy := B.MRI.getType Src
  if SrcTy ≠ LLT.scalar 1 then Except.error "SrcTy == LLT::scalar(1)" else
  let (B, One) := B.buildConstant (DstOp.ty DstTy) 1
  let (B, Zero) := B.buildConstant (DstOp.ty DstTy) 0
  let (B, _) := B.buildSelect (DstOp.reg Dst) Src (One.getReg 0) (Zero.getReg 0)
  Except.ok { B := B, MI := none, Legalized := true }

/-- The routine `MOSLegalizerInfo::legalizeBSwap`. A failed assertion is an
error. -/
def legalizeBSwap (B : MachineIRBuilder) (MI : MachineInstr) : Except String LegalizeResult :=
  if B.MRI.getType (MI.getReg 0) ≠ S8 then
    Except.error "MRI.getType(MI.getOperand(0).getReg()) == S8"
  else if B.MRI.getType (MI.getReg 1) ≠ S8 then
    Except.error "MRI.getType(MI.getOperand(1).getReg()) == S8"
  else
    Except.ok { B := B, MI := some (MI.setDesc Opcode.COPY), Legalized := true }

/-- The routine `MOSLegalizerInfo::legalizeSelect`. A failed assertion is an
error. -/
def legalizeSelect (B : MachineIRBuilder) (MI : MachineInstr) : Except String LegalizeResult :=
  let Dst := MI.getReg 0
  let Test := MI.getReg 1
  let LHS := MI.getReg 2
  let RHS := MI.getReg 3
  if B.MRI.getType Dst ≠ P then Except.error "MRI.getType(Dst) == P"
  else if B.MRI.getType Test ≠ LLT.scalar 1 then
    Except.error "MRI.getType(Test) == LLT::scalar(1)"
  else if B.MRI.getType LHS ≠ P then Except.error "MRI.getType(LHS) == P"
  else if B.MRI.getType RHS ≠ P then Except.error "MRI.getType(RHS) == P"
  else
  let (B, L) := B.buildPtrToInt (DstOp.ty S16) LHS
  let MI := MI.setReg 2 (L.getReg 0)
  let (B, R) := B.buildPtrToInt (DstOp.ty S16) RHS
  let MI := MI.setReg 3 (R.getReg 0)
  let (MRI, Tmp) := B.MRI.createGenericVirtualRegister S16
  let B := { B with MRI := MRI }
  let MI := MI.setReg 0 Tmp
  let B := B.setInsertPtNext
  let (B, _) := B.buildIntToPtr (DstOp.reg Dst) Tmp
  Except.ok { B := B, MI := some MI, Legalized := true }

/-! ## Memory operations -/

/-- A memory operand: its flags and the size of the access in bytes. An
instruction that accesses memory carries them as two immediates after its
register operands. -/
structure MachineMemOperand where
  Flags : Nat
  Size : Nat
deriving DecidableEq, Repr

namespace MachineMemOperand

def MOLoad : Nat := 1
def MOStore : Nat := 2
def MOInvariant : Nat := 32

def toOperands (MMO : MachineMemOperand) : List MachineOperand :=
  [MachineOperand.imm MMO.Flags, MachineOperand.imm MMO.Size]

end MachineMemOperand

/-- The memory operand that an instruction carries from operand `Idx` on. -/
def MachineInstr.memoperand (MI : MachineInstr) (Idx : Nat) : MachineMemOperand :=
  ⟨(MI.getImm Idx).toNat, (MI.getImm (Idx + 1)).toNat⟩

def MachineOperand.getMBB : MachineOperand → Nat
  | MachineOperand.mbb Block => Block
  | _ => 0

namespace MachineIRBuilder

def buildLoad (B : MachineIRBuilder) (Res : DstOp) (Addr : Register) (MMO : MachineMemOperand) :
    MachineIRBuilder × MachineInstr :=
  B.buildInstr Opcode.G_LOAD [Res] (MachineOperand.reg Addr :: MMO.toOperands)

def buildStore (B : MachineIRBuilder) (Val Addr : Register) (MMO : MachineMemOperand) :
    MachineIRBuilder × MachineInstr :=
  B.buildInstr Opcode.G_STORE []
    (MachineOperand.reg Val :: MachineOperand.reg Addr :: MMO.toOperands)

def buildPtrAdd (B : MachineIRBuilder) (Res : DstOp) (Op0 Op1 : Register) :
    MachineIRBuilder × MachineInstr :=
  B.buildInstr Opcode.G_PTR_ADD [Res] [MachineOperand.reg Op0, MachineOperand.reg Op1]

def buildFrameIndex (B : MachineIRBuilder) (Res : DstOp) (Idx : Int) :
    MachineIRBuilder × MachineInstr :=
  B.buildInstr Opcode.G_FRAME_INDEX [Res] [MachineOperand.frameIndex Idx]

def buildSub (B : MachineIRBuilder) (Res : DstOp) (Src0 Src1 : Register) :
    MachineIRBuilder × MachineInstr :=
  B.buildInstr Opcode.G_SUB [Res] [MachineOperand.reg Src0, MachineOperand.reg Src1]

/-- The call `buildCast(Dst, Src)`: a copy between equal types, a cast between
a pointer and a scalar, a bitcast otherwise. -/
def buildCast (B : MachineIRBuilder) (Dst : DstOp) (Src : Register) :
    MachineIRBuilder × MachineInstr :=
  let SrcTy := B.MRI.getType Src
  let DstTy := Dst.getLLTTy B.MRI
  if SrcTy = DstTy then B.buildCopy Dst Src
  else if SrcTy.isPointer ∧ DstTy.isScalar then
    B.buildInstr Opcode.G_PTRTOINT [Dst] [MachineOperand.reg Src]
  else if DstTy.isPointer ∧ SrcTy.isScalar then
    B.buildInstr Opcode.G_INTTOPTR [Dst] [MachineOperand.reg Src]
  else B.buildInstr Opcode.G_BITCAST [Dst] [MachineOperand.reg Src]

end MachineIRBuilder

/-- The routine `MOSLegalizerInfo::legalizeLoad`. -/
def legalizeLoad (B : MachineIRBuilder) (MI : MachineInstr) : LegalizeResult :=
  let (MRI, Tmp) := B.MRI.createGenericVirtualRegister (LLT.scalar 16)
  let B := { B with MRI := MRI }
  let B := B.setInsertPtNext
  let (B, _) := B.buildIntToPtr (DstOp.reg (MI.getReg 0)) Tmp
  let MI := MI.setReg 0 Tmp
  { B := B, MI := some MI, Legalized := true }

/-- The routine `MOSLegalizerInfo::legalizeStore`. -/
def legalizeStore (B : MachineIRBuilder) (MI : MachineInstr) : LegalizeResult :=
  let (B, Cast) := B.buildPtrToInt (DstOp.ty (LLT.scalar 16)) (MI.getReg 0)
  let Tmp := Cast.getReg 0
  let MI := MI.setReg 0 Tmp
  { B := B, MI := some MI, Legalized := true }

/-! ## Variadic arguments -/

/-- The routine `MOSLegalizerInfo::legalizeVAArg`. The constant of the size is
built before the pointer addition whose operand it is. -/
def legalizeVAArg (B : MachineIRBuilder) (MI : MachineInstr) : LegalizeResult :=
  let Dst := MI.getReg 0
  let VaListPtr := MI.getReg 1
  let AddrLoadMMO : MachineMemOperand :=
    ⟨MachineMemOperand.MOLoad ||| MachineMemOperand.MOInvariant, 2⟩
  let (B, AddrLoad) := B.buildLoad (DstOp.ty P) VaListPtr AddrLoadMMO
  let Addr := AddrLoad.getReg 0
  let Size := (B.MRI.getType Dst).getSizeInBytes
  let ValueMMO : MachineMemOperand :=
    ⟨MachineMemOperand.MOLoad ||| MachineMemOperand.MOInvariant, Size⟩
  let (B, _) := B.buildLoad (DstOp.reg Dst) Addr ValueMMO
  let (B, SizeCst) := B.buildConstant (DstOp.ty S16) Size
  let (B, NextAddr) := B.buildPtrAdd (DstOp.ty P) Addr (SizeCst.getReg 0)
  let AddrStoreMMO : MachineMemOperand := ⟨MachineMemOperand.MOStore, 2⟩
  let (B, _) := B.buildStore (NextAddr.getReg 0) VaListPtr AddrStoreMMO
  { B := B, MI := none, Legalized := true }

/-- The routine `MOSLegalizerInfo::legalizeVAStart`; the stack index of the
variable arguments is kept by the function information, outside the given
sources, and is a parameter. -/
def legalizeVAStart (VarArgsStackIndex : Int) (B : MachineIRBuilder) (MI : MachineInstr) :
    LegalizeResult :=
  let (B, FI) := B.buildFrameIndex (DstOp.ty P) VarArgsStackIndex
  let (B, _) := B.buildStore (FI.getReg 0) (MI.getReg 0) (MI.memoperand 1)
  { B := B, MI := none, Legalized := true }

/-! ## Dynamic stack allocation -/

/-- Whether a number is a power of two (`isPowerOf2_64`). -/
def isPowerOf2_64 (Value : Nat) : Bool := Value != 0 && (Value &&& (Value - 1)) == 0

/-- Modelled from the spec: `assumeAligned`, outside the given sources: the
requested alignment, 0 standing for 1; an alignment that is not a power of two
fails the assertion of `Align`. -/
def assumeAligned (Value : Int) : Except String Nat :=
  let V := (Value % 2 ^ 64).toNat
  if V = 0 then Except.ok 1
  else if isPowerOf2_64 V then Except.ok V
  else Except.error "Alignment is not a power of 2"

/-- The routine `MOSLegalizerInfo::legalizeDynStackAlloc`. The register `RS0`
of the stack pointer is a constant of the target, outside the given sources,
and is a parameter; register classes are not part of the model. -/
def legalizeDynStackAlloc (RS0 : Register) (B : MachineIRBuilder) (MI : MachineInstr) :
    Except String LegalizeResult :=
  let Dst := MI.getReg 0
  let AllocSize := MI.getReg 1
  match assumeAligned (MI.getImm 2) with
  | Except.error e => Except.error e
  | Except.ok Alignment =>
  let PtrTy := B.MRI.getType Dst
  let IntPtrTy := LLT.scalar PtrTy.getSizeInBits
  let (B, SPTmp) := B.buildCopy (DstOp.ty PtrTy) RS0
  let (B, SPTmp) := B.buildCast (DstOp.ty IntPtrTy) (SPTmp.getReg 0)
  let (B, Alloc) := B.buildSub (DstOp.ty IntPtrTy) (SPTmp.getReg 0) AllocSize
  let (B, Alloc) :=
    if Alignment > 1 then
      let AlignMask := constantBits IntPtrTy.getSizeInBits
        (-(constantBits IntPtrTy.getSizeInBits Alignment : Int))
      let (B, AlignCst) := B.buildConstant (DstOp.ty IntPtrTy) AlignMask
      B.buildAnd (DstOp.ty IntPtrTy) (Alloc.getReg 0) (AlignCst.getReg 0)
    else (B, Alloc)
  let (B, SPTmp) := B.buildCast (DstOp.ty PtrTy) (Alloc.getReg 0)
  let (B, Unmerge) := B.buildUnmerge (LLT.scalar 8) (SPTmp.getReg 0)
  let Lo := Unmerge.getReg 0
  let Hi := Unmerge.getReg 1
  let (B, _) := B.buildInstr Opcode.SetSPHi [] [MachineOperand.reg Hi]
  let (B, _) := B.buildInstr Opcode.SetSPLo [] [MachineOperand.reg Lo]
  let (B, _) := B.buildCopy (DstOp.reg Dst) (SPTmp.getReg 0)
  Except.ok { B := B, MI := none, Legalized := true }

/-! ## Control flow: phi -/

/-- A basic block: its instructions in order. -/
structure MachineBasicBlock where
  Insts : List MachineInstr
deriving DecidableEq, Repr

/-- Whether an instruction ends a block: the branches. -/
def MachineInstr.isTerminator (MI : MachineInstr) : Bool :=
  MI.Opcode == Opcode.G_BR || MI.Opcode == Opcode.G_BRCOND || MI.Opcode == Opcode.G_BRCOND_IMM

def MachineInstr.isPHI (MI : MachineInstr) : Bool := MI.Opcode == Opcode.G_PHI

namespace MachineBasicBlock

/-- Modelled from the spec: `getFirstTerminator`, outside the given sources: the
position of the first of the terminators that end the block, the end of the
block if it has none; a value is converted at the end of its predecessor
block. -/
def getFirstTerminator (MBB : MachineBasicBlock) : Nat :=
  MBB.Insts.length - (MBB.Insts.reverse.takeWhile MachineInstr.isTerminator).length

/-- Modelled from the spec: `getFirstNonPHI`, outside the given sources: the
position after the phis at the head of the block. -/
def getFirstNonPHI (MBB : MachineBasicBlock) : Nat :=
  (MBB.Insts.takeWhile MachineInstr.isPHI).length

/-- Insert an instruction before the position. -/
def insert (MBB : MachineBasicBlock) (Pos : Nat) (MI : MachineInstr) : MachineBasicBlock :=
  ⟨MBB.Insts.take Pos ++ MI :: MBB.Insts.drop Pos⟩

end MachineBasicBlock

/-- Insert an instruction into a block of a function. -/
def insertInBlock (Blocks : List MachineBasicBlock) (Block Pos : Nat) (MI : MachineInstr) :
    List MachineBasicBlock :=
  Blocks.set Block ((Blocks.getD Block ⟨[]⟩).insert Pos MI)

/-- What `legalizePhi` leaves behind: the register information, the blocks of
the function, the phi as it stands, and the return value. -/
structure PhiResult where
  MRI : MachineRegisterInfo
  Blocks : List MachineBasicBlock
  MI : MachineInstr
  Legalized : Bool
deriving DecidableEq, Repr

/-- One turn of the loop of `legalizePhi`, for the incoming value at operand
`I`: its cast to a 16-bit integer is built before the first terminator of the
block of operand `I + 1`, and operand `I` is set to the cast. The state is the
register information, the blocks, the position of the phi in its block
`Parent`, and the phi as it stands. -/
def phiCast (Parent : Nat)
    (S : MachineRegisterInfo × List MachineBasicBlock × Nat × MachineInstr) (I : Nat) :
    MachineRegisterInfo × List MachineBasicBlock × Nat × MachineInstr :=
  let Reg := S.2.2.2.getReg I
  let Block := (S.2.2.2.getOperand (I + 1)).getMBB
  let Pos := (S.2.1.getD Block ⟨[]⟩).getFirstTerminator
  let (B, Cast) := (MachineIRBuilder.atInstr S.1).buildPtrToInt (DstOp.ty S16) Reg
  (B.MRI, insertInBlock S.2.1 Block Pos Cast,
    (if Block = Parent ∧ Pos ≤ S.2.2.1 then S.2.2.1 + 1 else S.2.2.1),
    S.2.2.2.setReg I (Cast.getReg 0))

/-- The routine `MOSLegalizerInfo::legalizePhi`, for the phi at position `Idx`
of block `Parent`. The changes of the operands are written to the block at the
end: the positions that the routine looks up do not depend on them. -/
def legalizePhi (MRI : MachineRegisterInfo) (Blocks : List MachineBasicBlock)
    (Parent Idx : Nat) (MI : MachineInstr) : PhiResult :=
  let S := ((List.range (MI.getNumOperands / 2)).map (fun k => 2 * k + 1)).foldl
    (phiCast Parent) (MRI, Blocks, Idx, MI)
  let (MRI, Tmp) := S.1.createGenericVirtualRegister S16
  let Pos := (S.2.1.getD Parent ⟨[]⟩).getFirstNonPHI
  let (B, Cast) := (MachineIRBuilder.atInstr MRI).buildIntToPtr (DstOp.reg (S.2.2.2.getReg 0)) Tmp
  let Blocks := insertInBlock S.2.1 Parent Pos Cast
  let Idx := if Pos ≤ S.2.2.1 then S.2.2.1 + 1 else S.2.2.1
  let MI := S.2.2.2.setReg 0 Tmp
  let Blocks := Blocks.set Parent ⟨(Blocks.getD Parent ⟨[]⟩).Insts.set Idx MI⟩
  { MRI := B.MRI, Blocks := Blocks, MI := MI, Legalized := true }

/-! ## The dispatcher -/

/-- What the dispatcher returns: the outcome of a routine that works at the
instruction, or what `legalizePhi` leaves of the function. -/
inductive CustomOutcome where
  | atInstr (O : Outcome)
  | inFunction (R : PhiResult)
deriving DecidableEq, Repr

/-- The routine `MOSLegalizerInfo::legalizeCustom`, for the instruction at
position `Idx` of block `Parent`. The unreachable default is an error. -/
def legalizeCustom (RS0 : Register) (VarArgsStackIndex : Int)
    (Blocks : List MachineBasicBlock) (Parent Idx : Nat)
    (B : MachineIRBuilder) (MI : MachineInstr) : Except String CustomOutcome :=
  let rewritten : LegalizeResult → CustomOutcome :=
    fun R => CustomOutcome.atInstr (Outcome.rewritten R)
  match MI.Opcode with
  | Opcode.G_SEXT => (legalizeSExt B MI).map rewritten
  | Opcode.G_ZEXT => (legalizeZExt B MI).map rewritten
  | Opcode.G_BSWAP => (legalizeBSwap B MI).map rewritten
  | Opcode.G_XOR => (legalizeXor B MI).map CustomOutcome.atInstr
  | Opcode.G_LSHR | Opcode.G_SHL => (legalizeLshrShl B MI).map CustomOutcome.atInstr
  | Opcode.G_ASHR => Except.ok (CustomOutcome.atInstr (shiftLibcall B.MRI MI))
  | Opcode.G_ROTL => Except.ok (CustomOutcome.atInstr (legalizeRotl B MI))
  | Opcode.G_ROTR => Except.ok (CustomOutcome.atInstr (legalizeRotr B MI))
  | Opcode.G_ICMP => (legalizeICmp B MI).map rewritten
  | Opcode.G_SELECT => (legalizeSelect B MI).map rewritten
  | Opcode.G_PTR_ADD => Except.ok (rewritten (legalizePtrAdd B MI))
  | Opcode.G_UADDO | Opcode.G_SADDO | Opcode.G_USUBO | Opcode.G_SSUBO =>
    (legalizeAddSubO B MI).map rewritten
  | Opcode.G_USUBE | Opcode.G_SSUBE => (legalizeSubE B MI).map rewritten
  | Opcode.G_LOAD => Except.ok (rewritten (legalizeLoad B MI))
  | Opcode.G_STORE => Except.ok (rewritten (legalizeStore B MI))
  | Opcode.G_PHI => Except.ok (CustomOutcome.inFunction (legalizePhi B.MRI Blocks Parent Idx MI))
  | Opcode.G_BRCOND => Except.ok (rewritten (legalizeBrCond B MI))
  | Opcode.G_VAARG => Except.ok (rewritten (legalizeVAArg B MI))
  | Opcode.G_VASTART => Except.ok (rewritten (legalizeVAStart VarArgsStackIndex B MI))
  | Opcode.G_DYN_STACKALLOC => (legalizeDynStackAlloc RS0 B MI).map rewritten
  | _ => Except.error "Invalid opcode for custom legalization."

/-! ## Memory and the stack pointer -/

/-- The value of `Size` bytes of memory from an address on, the least
significant byte first; addresses have 16 bits. -/
def loadBytes (Mem : Nat → Nat) (Addr : Nat) : Nat → Nat
  | 0 => 0
  | Size + 1 => Mem (Addr % 2 ^ 16) % 256 + 256 * loadBytes Mem (Addr + 1) Size

/-- Memory after `Size` bytes of a value have been stored from an address on,
the least significant byte first. -/
def storeBytes (Mem : Nat → Nat) (Addr : Nat) : Nat → Nat → Nat → Nat
  | 0, _ => Mem
  | Size + 1, Val =>
    storeBytes (fun a => if a = Addr % 2 ^ 16 then Val % 256 else Mem a) (Addr + 1) Size
      (Val / 256)

/-- The state of the machine: the values of the registers, the stack pointer
being the value of its register, and the bytes of memory. -/
structure MachineState where
  Regs : Env
  Mem : Nat → Nat

/-- Modelled from the spec: the meaning of the instructions that access memory
or write the stack pointer, which are defined outside the given sources: a
load reads as many bytes as its memory operand says from the address, a store
writes them, `SetSPHi` writes the high byte of the stack pointer and `SetSPLo`
its low byte, the other byte staying as it is. Every other instruction has the
meaning of `execInstr` and leaves memory alone. -/
def execStep (RS0 : Register) (MRI : MachineRegisterInfo) (S : MachineState)
    (MI : MachineInstr) : Option MachineState :=
  match MI.Opcode, MI.Operands with
  | Opcode.G_LOAD, [MachineOperand.reg d, MachineOperand.reg a, MachineOperand.imm _,
      MachineOperand.imm Size] =>
    some { S with Regs := S.Regs.set d (loadBytes S.Mem (S.Regs a) Size.toNat) }
  | Opcode.G_STORE, [MachineOperand.reg v, MachineOperand.reg a, MachineOperand.imm _,
      MachineOperand.imm Size] =>
    some { S with Mem := storeBytes S.Mem (S.Regs a) Size.toNat (S.Regs v) }
  | Opcode.SetSPHi, [MachineOperand.reg h] =>
    some { S with Regs := S.Regs.set RS0 (S.Regs h % 256 * 256 + S.Regs RS0 % 256) }
  | Opcode.SetSPLo, [MachineOperand.reg l] =>
    some { S with Regs := S.Regs.set RS0 (S.Regs RS0 / 256 % 256 * 256 + S.Regs l % 256) }
  | _, _ => (execInstr MRI S.Regs MI).map (fun env => { S with Regs := env })

/-- The states after each instruction of a sequence, in order. -/
def execTrace (RS0 : Register) (MRI : MachineRegisterInfo) :
    MachineState → List MachineInstr → Option (List MachineState)
  | _, [] => some []
  | S, MI :: Rest =>
    (execStep RS0 MRI S MI).bind (fun S1 =>
      (execTrace RS0 MRI S1 Rest).map (fun Tr => S1 :: Tr))

/-- The state after a sequence of instructions, executed in order. -/
def execSteps (RS0 : Register) (MRI : MachineRegisterInfo) :
    MachineState → List MachineInstr → Option MachineState
  | S, [] => some S
  | S, MI :: Rest => (execStep RS0 MRI S MI).bind (fun S1 => execSteps RS0 MRI S1 Rest)

/-- The types of a query for which the table gives the opcode the action
`Custom`, for the opcodes that have such types. -/
def customTypes : Opcode → List LLT
  | Opcode.G_SEXT | Opcode.G_ZEXT => [S8, S1]
  | Opcode.G_LSHR | Opcode.G_SHL | Opcode.G_ASHR => [S8, S8]
  | Opcode.G_ICMP => [S1, S8]
  | Opcode.G_SELECT | Opcode.G_PHI | Opcode.G_VASTART => [P]
  | Opcode.G_XOR | Opcode.G_BRCOND => [S1]
  | Opcode.G_PTR_ADD | Opcode.G_DYN_STACKALLOC => [P, S16]
  | Opcode.G_LOAD | Opcode.G_STORE => [P, P]
  | Opcode.G_VAARG => [S8, P]
  | _ => [S8]

/-- The opcodes that have a case in the switch of `legalizeCustom`. -/
def customCases : List Opcode :=
  [Opcode.G_SEXT, Opcode.G_ZEXT, Opcode.G_BSWAP, Opcode.G_XOR, Opcode.G_LSHR, Opcode.G_SHL,
   Opcode.G_ASHR, Opcode.G_ROTL, Opcode.G_ROTR, Opcode.G_ICMP, Opcode.G_SELECT,
   Opcode.G_PTR_ADD, Opcode.G_UADDO, Opcode.G_SADDO, Opcode.G_USUBO, Opcode.G_SSUBO,
   Opcode.G_USUBE, Opcode.G_SSUBE, Opcode.G_LOAD, Opcode.G_STORE, Opcode.G_PHI,
   Opcode.G_BRCOND, Opcode.G_VAARG, Opcode.G_VASTART, Opcode.G_DYN_STACKALLOC]

/-! ## What a routine leaves behind -/

/-- Modelled from the spec: the types that the legalizer hands to the table for
an instruction, one for each type index of its opcode; the opcode definitions
are outside the given sources, and the table is a rule set on the operand type
shape. The first type is that of the first operand; the second type, for the
opcodes that have one, is that of the shift or rotate amount, of the compared
operands and of the offset of a pointer addition (operand 2), of the source of
an unmerge (the last operand), and of operand 1 for the other opcodes. -/
def getTypes (MRI : MachineRegisterInfo) (MI : MachineInstr) : List LLT :=
  let Ty : Nat → LLT := fun Idx => MRI.getType (MI.getReg Idx)
  match MI.Opcode with
  | Opcode.G_LSHR | Opcode.G_SHL | Opcode.G_ASHR | Opcode.G_ROTL | Opcode.G_ROTR
  | Opcode.G_ICMP | Opcode.G_PTR_ADD => [Ty 0, Ty 2]
  | Opcode.G_SEXT | Opcode.G_ZEXT | Opcode.G_ANYEXT | Opcode.G_TRUNC | Opcode.G_INTTOPTR
  | Opcode.G_PTRTOINT | Opcode.G_SELECT | Opcode.G_LOAD | Opcode.G_STORE | Opcode.G_VAARG
  | Opcode.G_DYN_STACKALLOC | Opcode.G_UADDO | Opcode.G_SADDO | Opcode.G_USUBO
  | Opcode.G_SSUBO | Opcode.G_UADDE | Opcode.G_SADDE | Opcode.G_USUBE | Opcode.G_SSUBE
  | Opcode.G_MERGE_VALUES => [Ty 0, Ty 1]
  | Opcode.G_UNMERGE_VALUES => [Ty 0, Ty (MI.getNumOperands - 1)]
  | _ => [Ty 0]

/-- Modelled from the spec: the shape of an instruction as far as the routines
that change an instruction in place and the helpers of the legalizer rely on
it; the machine verifier is outside the given sources. A comparison has a
destination, a predicate and two operands of one type; the result of a shift
is a register of an integer type; the first operand of any other instruction
is a register. -/
def MachineInstr.wellFormed (MRI : MachineRegisterInfo) (MI : MachineInstr) : Bool :=
  match MI.Opcode with
  | Opcode.G_ICMP =>
    match MI.Operands with
    | [MachineOperand.reg _, MachineOperand.predicate _, MachineOperand.reg a,
        MachineOperand.reg b] => MRI.getType a == MRI.getType b
    | _ => false
  | Opcode.G_LSHR | Opcode.G_SHL | Opcode.G_ASHR =>
    match MI.Operands with
    | MachineOperand.reg Dst :: _ => (MRI.getType Dst).isScalar
    | _ => false
  | _ =>
    match MI.Operands with
    | MachineOperand.reg _ :: _ => true
    | _ => false

/-- The statement of the specification on the table: if the table marks the
type tuple of an instruction legal, every type of the tuple is the 1-bit
scalar, the 8-bit scalar or the 16-bit pointer. -/
def LegalTypesAsStated : Prop :=
  ∀ (MRI : MachineRegisterInfo) (MI : MachineInstr),
    getAction MI.Opcode (getTypes MRI MI) = Except.ok LegalizeAction.Legal →
    ∀ Ty, Ty ∈ getTypes MRI MI → Ty ∈ [S1, S8, P]

/-- The operand widths of an instruction: the widths in bits of the types of
its type indices, which are what the table is asked about. -/
def operandWidths (MRI : MachineRegisterInfo) (MI : MachineInstr) : List Nat :=
  (getTypes MRI MI).map LLT.getSizeInBits

/-- Modelled from the spec: what `createLibcall` leaves, which is outside the
given sources. The library-call bridge emits a call to the runtime helper for
the operation and the width: one call, on the result and the arguments. Where
no call can be made the routine returns false and the legalization ends with
an error, which is no rewrite step. -/
def createLibcall (B : MachineIRBuilder) (Result : Register)
    (Args : List (Register × Nat)) : LegalizeResult :=
  let (B, _) := B.buildInstr Opcode.LIBCALL [DstOp.reg Result]
    (Args.map (fun Arg => MachineOperand.reg Arg.1))
  { B := B, MI := none, Legalized := true }

/-- A shift of `Src` at the type `Ty` by a constant of the type `AmtTy`: the
constant, which is an argument of the call that builds the shift, is built
first. -/
def MachineIRBuilder.buildShiftByConstant (B : MachineIRBuilder) (Opc : Opcode)
    (Ty AmtTy : LLT) (Src : Register) (Amt : Nat) : MachineIRBuilder × MachineInstr :=
  let (B, C) := B.buildConstant (DstOp.ty AmtTy) (Int.ofNat Amt)
  B.buildInstr Opc [DstOp.ty Ty] [MachineOperand.reg Src, MachineOperand.reg (C.getReg 0)]

/-- Modelled from the spec: what `LegalizerHelper::narrowScalarShiftByConstant`
leaves for a `G_SHL` or a `G_LSHR`, which is outside the given sources. A shift
by whole bytes is reduced to shifts of the same kind over half the bytes: the
source is split into a low and a high half of the type `HalfTy`; the halves of
the result are zero, a half of the source, a shift of a half of the source, or
the bits of both halves of the source put together, as the amount compares
with the width of a half; and the halves of the result are merged. -/
def narrowScalarShiftByConstant (B : MachineIRBuilder) (MI : MachineInstr) (Amt : Nat)
    (HalfTy AmtTy : LLT) : LegalizeResult :=
  let (B, Unmerge) := B.buildInstr Opcode.G_UNMERGE_VALUES [DstOp.ty HalfTy, DstOp.ty HalfTy]
    [MachineOperand.reg (MI.getReg 1)]
  let InL := Unmerge.getReg 0
  let InH := Unmerge.getReg 1
  let NVTBits := HalfTy.getSizeInBits
  let VTBits := 2 * NVTBits
  if Amt = 0 then
    let (B, _) := B.buildMerge (DstOp.reg (MI.getReg 0)) [InL, InH]
    { B := B, MI := none, Legalized := true }
  else
    let (B, Lo, Hi) : MachineIRBuilder × Register × Register :=
      if Amt > VTBits then
        let (B, Zero) := B.buildConstant (DstOp.ty HalfTy) 0
        (B, Zero.getReg 0, Zero.getReg 0)
      else if Amt > NVTBits then
        if MI.Opcode = Opcode.G_SHL then
          let (B, Zero) := B.buildConstant (DstOp.ty HalfTy) 0
          let (B, Sh) := B.buildShiftByConstant Opcode.G_SHL HalfTy AmtTy InL (Amt - NVTBits)
          (B, Zero.getReg 0, Sh.getReg 0)
        else
          let (B, Sh) := B.buildShiftByConstant Opcode.G_LSHR HalfTy AmtTy InH (Amt - NVTBits)
          let (B, Zero) := B.buildConstant (DstOp.ty HalfTy) 0
          (B, Sh.getReg 0, Zero.getReg 0)
      else if Amt = NVTBits then
        let (B, Zero) := B.buildConstant (DstOp.ty HalfTy) 0
        if MI.Opcode = Opcode.G_SHL then (B, Zero.getReg 0, InL)
        else (B, InH, Zero.getReg 0)
      else
        if MI.Opcode = Opcode.G_SHL then
          let (B, Lo) := B.buildShiftByConstant Opcode.G_SHL HalfTy AmtTy InL Amt
          let (B, OrLHS) := B.buildShiftByConstant Opcode.G_SHL HalfTy AmtTy InH Amt
          let (B, OrRHS) := B.buildShiftByConstant Opcode.G_LSHR HalfTy AmtTy InL
            (NVTBits - Amt)
          let (B, Hi) := B.buildInstr Opcode.G_OR [DstOp.ty HalfTy]
            [MachineOperand.reg (OrLHS.getReg 0), MachineOperand.reg (OrRHS.getReg 0)]
          (B, Lo.getReg 0, Hi.getReg 0)
        else
          let (B, ShiftAmtConst) := B.buildConstant (DstOp.ty AmtTy) Amt
          let (B, OrLHS) := B.buildInstr Opcode.G_LSHR [DstOp.ty HalfTy]
            [MachineOperand.reg InL, MachineOperand.reg (ShiftAmtConst.getReg 0)]
          let (B, OrRHS) := B.buildShiftByConstant Opcode.G_SHL HalfTy AmtTy InH
            (NVTBits - Amt)
          let (B, Lo) := B.buildInstr Opcode.G_OR [DstOp.ty HalfTy]
            [MachineOperand.reg (OrLHS.getReg 0), MachineOperand.reg (OrRHS.getReg 0)]
          let (B, Hi) := B.buildInstr Opcode.G_LSHR [DstOp.ty HalfTy]
            [MachineOperand.reg InH, MachineOperand.reg (ShiftAmtConst.getReg 0)]
          (B, Lo.getReg 0, Hi.getReg 0)
    let (B, _) := B.buildMerge (DstOp.reg (MI.getReg 0)) [Lo, Hi]
    { B := B, MI := none, Legalized := true }

/-- Modelled from the spec: what `LegalizerHelper::lowerRotate` leaves, which
is outside the given sources. The generic fallback matches no hardware rotate:
where the table has the rotate in the other direction legal or custom at a
width that is a power of two, it is that rotate by the negated amount, which
the table routes on; elsewhere it is the bits shifted one way by the amount
and the other way by the negated amount, both amounts taken within the width,
and put together. -/
def lowerRotate (B : MachineIRBuilder) (MI : MachineInstr) : LegalizeResult :=
  let Dst := MI.getReg 0
  let Src := MI.getReg 1
  let Amt := MI.getReg 2
  let DstTy := B.MRI.getType Dst
  let AmtTy := B.MRI.getType Amt
  let EltSizeInBits := DstTy.getSizeInBits
  let IsLeft := MI.Opcode = Opcode.G_ROTL
  let RevRot := if IsLeft then Opcode.G_ROTR else Opcode.G_ROTL
  let isLegalOrCustom : Bool :=
    match getAction RevRot [DstTy, DstTy] with
    | Except.ok LegalizeAction.Legal | Except.ok LegalizeAction.Custom => true
    | _ => false
  if isLegalOrCustom && isPowerOf2_32 EltSizeInBits then
    let (B, Zero) := B.buildConstant (DstOp.ty AmtTy) 0
    let (B, Neg) := B.buildInstr Opcode.G_SUB [DstOp.ty AmtTy]
      [MachineOperand.reg (Zero.getReg 0), MachineOperand.reg Amt]
    let (B, _) := B.buildInstr RevRot [DstOp.reg Dst]
      [MachineOperand.reg Src, MachineOperand.reg (Neg.getReg 0)]
    { B := B, MI := none, Legalized := true }
  else
    let ShOpc := if IsLeft then Opcode.G_SHL else Opcode.G_LSHR
    let RevShiftOpc := if IsLeft then Opcode.G_LSHR else Opcode.G_SHL
    let (B, Zero) := B.buildConstant (DstOp.ty AmtTy) 0
    let (B, BitWidthMinusOneC) := B.buildConstant (DstOp.ty AmtTy)
      (Int.ofNat (EltSizeInBits - 1))
    let (B, NegAmt) := B.buildInstr Opcode.G_SUB [DstOp.ty AmtTy]
      [MachineOperand.reg (Zero.getReg 0), MachineOperand.reg Amt]
    let (B, ShAmt) := B.buildAnd (DstOp.ty AmtTy) Amt (BitWidthMinusOneC.getReg 0)
    let (B, ShVal) := B.buildInstr ShOpc [DstOp.ty DstTy]
      [MachineOperand.reg Src, MachineOperand.reg (ShAmt.getReg 0)]
    let (B, RevAmt) := B.buildAnd (DstOp.ty AmtTy) (NegAmt.getReg 0)
      (BitWidthMinusOneC.getReg 0)
    let (B, RevShiftVal) := B.buildInstr RevShiftOpc [DstOp.ty DstTy]
      [MachineOperand.reg Src, MachineOperand.reg (RevAmt.getReg 0)]
    let (B, _) := B.buildInstr Opcode.G_OR [DstOp.reg Dst]
      [MachineOperand.reg (ShVal.getReg 0), MachineOperand.reg (RevShiftVal.getReg 0)]
    { B := B, MI := none, Legalized := true }

/-- Modelled from the spec: what `LegalizerHelper::widenScalar` leaves for an
operation on two sources, which is outside the given sources. A logical
operation is widened and clamped: its two sources are extended to the wide
type before the instruction, the instruction is kept on the extended sources
and on a fresh result of the wide type, and the result is truncated to the
register of the instruction after it. -/
def widenScalar (B : MachineIRBuilder) (MI : MachineInstr) (WideTy : LLT) : LegalizeResult :=
  let (B, Ext1) := B.buildInstr Opcode.G_ANYEXT [DstOp.ty WideTy]
    [MachineOperand.reg (MI.getReg 1)]
  let NewMI := MI.setReg 1 (Ext1.getReg 0)
  let (B, Ext2) := B.buildInstr Opcode.G_ANYEXT [DstOp.ty WideTy]
    [MachineOperand.reg (MI.getReg 2)]
  let NewMI := NewMI.setReg 2 (Ext2.getReg 0)
  let (MRI, DstExt) := B.MRI.createGenericVirtualRegister WideTy
  let B := MachineIRBuilder.setInsertPtNext { B with MRI := MRI }
  let (B, _) := B.buildInstr Opcode.G_TRUNC [DstOp.reg (MI.getReg 0)]
    [MachineOperand.reg DstExt]
  let NewMI := NewMI.setReg 0 DstExt
  { B := B, MI := some NewMI, Legalized := true }

/-- What the helper that a routine calls leaves in the place of the
instruction, from the register information on entry of the routine: the
routines call a helper before they build anything. -/
def HelperCall.result (MRI : MachineRegisterInfo) : HelperCall → LegalizeResult
  | HelperCall.createLibcall _ _ Result Args =>
    MOS.createLibcall (MachineIRBuilder.atInstr MRI) Result Args
  | HelperCall.narrowScalarShiftByConstant MI Amt HalfTy AmtTy =>
    MOS.narrowScalarShiftByConstant (MachineIRBuilder.atInstr MRI) MI Amt HalfTy AmtTy
  | HelperCall.lowerRotate MI => MOS.lowerRotate (MachineIRBuilder.atInstr MRI) MI
  | HelperCall.widenScalar MI _ WideTy =>
    MOS.widenScalar (MachineIRBuilder.atInstr MRI) MI WideTy

namespace CustomOutcome

/-- The instructions that a routine leaves in the place of the instruction it
was given: what it built and the instruction itself if it is kept, what the
helper it called left, and for a phi the instructions of the function that
were not there before. -/
def insts (MRI : MachineRegisterInfo) (Blocks : List MachineBasicBlock) :
    CustomOutcome → List MachineInstr
  | atInstr (Outcome.rewritten R) => R.insts
  | atInstr (Outcome.helper Call) => (Call.result MRI).insts
  | inFunction R =>
    (R.Blocks.flatMap (fun MBB => MBB.Insts)).filter
      (fun C => !(Blocks.flatMap (fun MBB => MBB.Insts)).contains C)

/-- The register information after the routine. -/
def regInfo (MRI : MachineRegisterInfo) : CustomOutcome → MachineRegisterInfo
  | atInstr (Outcome.rewritten R) => R.B.MRI
  | atInstr (Outcome.helper Call) => (Call.result MRI).B.MRI
  | inFunction R => R.MRI

end CustomOutcome

/-- The statement of the specification on a rewrite step: the routine leaves no
operation with the opcode of the instruction it was given at the same operand
widths. -/
def LeavesNoSameOperation (MRI : MachineRegisterInfo) (MI : MachineInstr)
    (Blocks : List MachineBasicBlock) (O : CustomOutcome) : Prop :=
  ∀ C, C ∈ O.insts MRI Blocks →
    ¬ (C.Opcode = MI.Opcode ∧ operandWidths (O.regInfo MRI) C = operandWidths MRI MI)

/-- How an operation that a routine leaves with the opcode and the operand
widths of its input differs from the input: it is a comparison whose predicate
has a lower rank, or one of its operands is an integer where the input has a
pointer. -/
def ChangedInKind (MRI : MachineRegisterInfo) (MI : MachineInstr)
    (MRI1 : MachineRegisterInfo) (C : MachineInstr) : Prop :=
  (C.Opcode = Opcode.G_ICMP ∧
    predicateRank (C.getPredicate 1) < predicateRank (MI.getPredicate 1)) ∨
  ∃ i, (MRI.getType (MI.getReg i)).isPointer = true ∧
    (MRI1.getType (C.getReg i)).isScalar = true

/-- Every instruction that the builder has inserted has one of the opcodes. -/
def MachineIRBuilder.OpcodesIn (L : List Opcode) (B : MachineIRBuilder) : Prop :=
  ∀ C, C ∈ B.Before ++ B.After → C.Opcode ∈ L

/-! ## Dynamic stack allocation -/

/-- The instructions that `legalizeDynStackAlloc` builds when the alignment is
above 1, the first fresh register being `c`. -/
def dynStackAllocAligned (RS0 Dst AllocSize c Mask : Nat) : List MachineInstr :=
  [⟨Opcode.COPY, [.reg c, .reg RS0]⟩,
   ⟨Opcode.G_PTRTOINT, [.reg (c + 1), .reg c]⟩,
   ⟨Opcode.G_SUB, [.reg (c + 2), .reg (c + 1), .reg AllocSize]⟩,
   ⟨Opcode.G_CONSTANT, [.reg (c + 3), .cimm Mask]⟩,
   ⟨Opcode.G_AND, [.reg (c + 4), .reg (c + 2), .reg (c + 3)]⟩,
   ⟨Opcode.G_INTTOPTR, [.reg (c + 5), .reg (c + 4)]⟩,
   ⟨Opcode.G_UNMERGE_VALUES, [.reg (c + 6), .reg (c + 7), .reg (c + 5)]⟩,
   ⟨Opcode.SetSPHi, [.reg (c + 7)]⟩,
   ⟨Opcode.SetSPLo, [.reg (c + 6)]⟩,
   ⟨Opcode.COPY, [.reg Dst, .reg (c + 5)]⟩]

/-- The instructions that `legalizeDynStackAlloc` builds when the alignment is
1, the first fresh register being `c`. -/
def dynStackAllocPlain (RS0 Dst AllocSize c : Nat) : List MachineInstr :=
  [⟨Opcode.COPY, [.reg c, .reg RS0]⟩,
   ⟨Opcode.G_PTRTOINT, [.reg (c + 1), .reg c]⟩,
   ⟨Opcode.G_SUB, [.reg (c + 2), .reg (c + 1), .reg AllocSize]⟩,
   ⟨Opcode.G_INTTOPTR, [.reg (c + 3), .reg (c + 2)]⟩,
   ⟨Opcode.G_UNMERGE_VALUES, [.reg (c + 4), .reg (c + 5), .reg (c + 3)]⟩,
   ⟨Opcode.SetSPHi, [.reg (c + 5)]⟩,
   ⟨Opcode.SetSPLo, [.reg (c + 4)]⟩,
   ⟨Opcode.COPY, [.reg Dst, .reg (c + 3)]⟩]

/-- The instruction `%Dst = G_DYN_STACKALLOC %AllocSize, Align`. -/
def mkDynStackAlloc (Dst AllocSize : Nat) (Align : Int) : MachineInstr :=
  ⟨Opcode.G_DYN_STACKALLOC, [.reg Dst, .reg AllocSize, .imm Align]⟩

/-- The value that the specification gives the new stack pointer: the old one
minus the size, in 16 bits, and the bits of `2^16 - A`, for the alignment `A`. -/
def allocAsStated (SP n A : Nat) : Nat :=
  (((SP : Int) - (n : Int)) % (2 : Int) ^ 16).toNat &&& (2 ^ 16 - A)

/-- The statement of the specification on the two writes of the stack pointer:
the stack pointer after the write of its high byte is not below the stack
pointer that the whole sequence leaves. -/
def SPNeverBelowFinal (RS0 : Register) (MRI : MachineRegisterInfo) (S : MachineState)
    (Is : List MachineInstr) : Prop :=
  ∀ (Pre Rest : List MachineInstr) (hi : Register) (Sm S1 : MachineState),
    Is = Pre ++ ⟨Opcode.SetSPHi, [MachineOperand.reg hi]⟩ :: Rest →
    execSteps RS0 MRI S (Pre ++ [⟨Opcode.SetSPHi, [MachineOperand.reg hi]⟩]) = some Sm →
    execSteps RS0 MRI S Is = some S1 → S1.Regs RS0 ≤ Sm.Regs RS0

/-! ## A sequence of variadic argument reads -/

/-- The instruction `%Dst = G_VAARG %VaListPtr`. -/
def mkVAArg (Dst VaListPtr : Nat) : MachineInstr :=
  ⟨Opcode.G_VAARG, [.reg Dst, .reg VaListPtr]⟩

/-- The instructions that `legalizeVAArg` builds for a value of `Size` bytes,
the first fresh register being `c`. -/
def vaArgInsts (c Dst VaListPtr Size : Nat) : List MachineInstr :=
  [⟨Opcode.G_LOAD, [.reg c, .reg VaListPtr, .imm 33, .imm 2]⟩,
   ⟨Opcode.G_LOAD, [.reg Dst, .reg c, .imm 33, .imm Size]⟩,
   ⟨Opcode.G_CONSTANT, [.reg (c + 1), .cimm (constantBits 16 Size)]⟩,
   ⟨Opcode.G_PTR_ADD, [.reg (c + 2), .reg c, .reg (c + 1)]⟩,
   ⟨Opcode.G_STORE, [.reg (c + 2), .reg VaListPtr, .imm 2, .imm 2]⟩]

/-- The legalization of a sequence of `G_VAARG` instructions on one va-list
pointer, each by `legalizeVAArg`, one after the other: the register
information at the end and what the routine builds for them, in order. -/
def legalizeVAArgs (VaListPtr : Register) :
    MachineRegisterInfo → List Register → MachineRegisterInfo × List MachineInstr
  | MRI, [] => (MRI, [])
  | MRI, Dst :: Rest =>
    let R := legalizeVAArg (MachineIRBuilder.atInstr MRI) (mkVAArg Dst VaListPtr)
    ((legalizeVAArgs VaListPtr R.B.MRI Rest).1,
      R.insts ++ (legalizeVAArgs VaListPtr R.B.MRI Rest).2)

/-- The cursor of a va-list: the 16 bits in the cell that the va-list pointer
points to. -/
def vaCursor (VaListPtr : Register) (S : MachineState) : Nat :=
  loadBytes S.Mem (S.Regs VaListPtr) 2

/-- One read of a variadic argument as the specification states it: the value
of `Size` bytes at the address in the cursor goes to the destination, and the
cursor plus `Size`, as a 16-bit pointer, is stored back. -/
def vaArgAsStated (VaListPtr : Register) (S : MachineState) (Dst : Register) (Size : Nat) :
    MachineState :=
  ⟨S.Regs.set Dst (loadBytes S.Mem (vaCursor VaListPtr S) Size),
    storeBytes S.Mem (S.Regs VaListPtr) 2 ((vaCursor VaListPtr S + Size) % 2 ^ 16)⟩

/-- A sequence of reads as the specification states it, for destinations with
the sizes of their types. -/
def vaArgsAsStated (VaListPtr : Register) (MRI : MachineRegisterInfo) :
    MachineState → List Register → MachineState
  | S, [] => S
  | S, Dst :: Rest =>
    vaArgsAsStated VaListPtr MRI
      (vaArgAsStated VaListPtr S Dst (MRI.getType Dst).getSizeInBytes) Rest

/-! ## A phi of pointers -/

/-- The operands of a phi after its destination: the incoming value `v k` and
its predecessor block `b k`, for `k` below `n`. -/
def phiPairs (n : Nat) (v b : Nat → Nat) : List MachineOperand :=
  (List.range n).flatMap (fun k => [MachineOperand.reg (v k), MachineOperand.mbb (b k)])

/-- The instruction `%Dst = G_PHI %v0, %bb.b0, ..., %v(n-1), %bb.b(n-1)`. -/
def mkPhi (Dst n : Nat) (v b : Nat → Nat) : MachineInstr :=
  ⟨Opcode.G_PHI, MachineOperand.reg Dst :: phiPairs n v b⟩

/-! ## The assertions at the entry of the routines -/

/-- Modelled from the spec: the operands of a generic instruction that have
one type index have one type, and a shifted value is an integer; the opcode
definitions and the machine verifier are outside the given sources. A byte
swap and a shift have the type of their source, a select the type of its two
values. -/
def MachineInstr.typesAgree (MRI : MachineRegisterInfo) (MI : MachineInstr) : Bool :=
  let Ty : Nat → LLT := fun Idx => MRI.getType (MI.getReg Idx)
  match MI.Opcode with
  | Opcode.G_BSWAP => Ty 1 == Ty 0
  | Opcode.G_LSHR | Opcode.G_SHL | Opcode.G_ASHR => Ty 1 == Ty 0 && (Ty 0).isScalar
  | Opcode.G_SELECT => Ty 2 == Ty 0 && Ty 3 == Ty 0
  | _ => true

/-- Every shift that the builder has inserted defines a register of the type. -/
def MachineIRBuilder.ShiftsAt (Ty : LLT) (B : MachineIRBuilder) : Prop :=
  ∀ C, C ∈ B.Before ++ B.After → C.Opcode = Opcode.G_SHL ∨ C.Opcode = Opcode.G_LSHR →
    B.MRI.VRegInfo[C.getReg 0]? = some Ty

/-! ## Concrete functions for worked instances -/

/-- The environment that gives register `i` the `i`-th value of a list. -/
def envOf (Vals : List Nat) : Env := fun r => Vals.getD r 0

/-- Registers `%0:s8, %1:s1, %2:s8, %3:s8, %4:s1`, for an add or subtract with
carry `%0, %1 = op %2, %3, %4`. -/
def addSubMRI : MachineRegisterInfo := ⟨[S8, S1, S8, S8, S1], []⟩

/-! ## Lemmas on environments and register types -/

theorem Env.set_eq (env : Env) (r v : Nat) : (env.set r v) r = v := by
  simp [Env.set]

theorem Env.set_ne (env : Env) {r x : Nat} (v : Nat) (h : x ≠ r) : (env.set r v) x = env x := by
  simp [Env.set, h]

theorem getType_old (V : List LLT) (I : List MachineInstr) (l : List LLT) (r : Nat)
    (h : r < V.length) :
    (MachineRegisterInfo.mk (V ++ l) I).getType r = (MachineRegisterInfo.mk V I).getType r := by
  simp [MachineRegisterInfo.getType, List.getD_eq_getElem?_getD, List.getElem?_append_left h]

theorem getType_new (V : List LLT) (I : List MachineInstr) (l : List LLT) (i : Nat) :
    (MachineRegisterInfo.mk (V ++ l) I).getType (V.length + i) = l.getD i LLT.invalid := by
  simp [MachineRegisterInfo.getType, List.getD_eq_getElem?_getD, List.getElem?_append_right]

theorem getType_new_zero (V : List LLT) (I : List MachineInstr) (l : List LLT) :
    (MachineRegisterInfo.mk (V ++ l) I).getType V.length = l.getD 0 LLT.invalid :=
  getType_new V I l 0

theorem execInstr_CONSTANT (MRI : MachineRegisterInfo) (env : Env) (d v : Nat) :
    execInstr MRI env ⟨Opcode.G_CONSTANT, [.reg d, .cimm v]⟩ = some (env.set d v) := rfl

theorem execInstr_COPY (MRI : MachineRegisterInfo) (env : Env) (d s : Nat) :
    execInstr MRI env ⟨Opcode.COPY, [.reg d, .reg s]⟩ = some (env.set d (env s)) := rfl

theorem execInstr_XOR (MRI : MachineRegisterInfo) (env : Env) (d a b : Nat) :
    execInstr MRI env ⟨Opcode.G_XOR, [.reg d, .reg a, .reg b]⟩ =
      some (env.set d ((env a ^^^ env b) % 2 ^ (MRI.getType d).getSizeInBits)) := rfl

theorem execInstr_SBC (MRI : MachineRegisterInfo) (env : Env) (d c n v z a b ci : Nat) :
    execInstr MRI env
        ⟨Opcode.G_SBC, [.reg d, .reg c, .reg n, .reg v, .reg z, .reg a, .reg b, .reg ci]⟩ =
      some (((((env.set d (evalSBC (env a) (env b) (env ci)).A).set c
        (evalSBC (env a) (env b) (env ci)).C).set n
        (evalSBC (env a) (env b) (env ci)).N).set v
        (evalSBC (env a) (env b) (env ci)).V).set z
        (evalSBC (env a) (env b) (env ci)).Z) := rfl

theorem xor_one_bit (x : Nat) (h : x < 2) : (x ^^^ 1) % 2 = 1 - x := by
  interval_cases x <;> rfl

theorem constantBits_one_negOne : constantBits 1 (-1) = 1 := by decide

/-- What `legalizeSubE` emits for `G_USUBE`. -/
theorem legalizeSubE_USUBE_insts (V : List LLT) (I : List MachineInstr) (Res BOut L R BIn : Nat)
    (hBOut : BOut < V.length) (hTy : (MachineRegisterInfo.mk V I).getType BOut = S1) :
    legalizeSubE (MachineIRBuilder.atInstr ⟨V, I⟩)
        ⟨Opcode.G_USUBE, [.reg Res, .reg BOut, .reg L, .reg R, .reg BIn]⟩ =
      Except.ok
        { B := { MRI := ⟨V ++ [S1, S1, S8, S1, S1, S1, S1, S1], I⟩
                 Before := [⟨Opcode.G_CONSTANT, [.reg V.length, .cimm 1]⟩,
                   ⟨Opcode.G_XOR, [.reg (V.length + 1), .reg BIn, .reg V.length]⟩,
                   ⟨Opcode.G_SBC, [.reg (V.length + 2), .reg (V.length + 3), .reg (V.length + 4),
                     .reg (V.length + 5), .reg (V.length + 6), .reg L, .reg R,
                     .reg (V.length + 1)]⟩]
                 After := [⟨Opcode.COPY, [.reg Res, .reg (V.length + 2)]⟩,
                   ⟨Opcode.G_CONSTANT, [.reg (V.length + 7), .cimm 1]⟩,
                   ⟨Opcode.G_XOR, [.reg BOut, .reg (V.length + 3), .reg (V.length + 7)]⟩]
                 PastMI := true }
          MI := none
          Legalized := true } := by
  simp [legalizeSubE, MachineIRBuilder.atInstr, MachineIRBuilder.buildNot,
    MachineIRBuilder.buildConstant, MachineIRBuilder.buildInstr, MachineIRBuilder.buildCopy,
    MachineIRBuilder.insert, MachineIRBuilder.setInsertPtNext, DstOp.addDefs, DstOp.addDef,
    DstOp.getLLTTy, MachineRegisterInfo.createGenericVirtualRegister, MachineInstr.getReg,
    MachineInstr.getOperand, hTy, S1, S8, LLT.getSizeInBits,
    getType_old _ _ _ _ hBOut, constantBits_one_negOne]

/-- C1: for 8-bit `a`, `b` and a borrow-in `bin` in {0,1}, `legalizeSubE` replaces
`G_USUBE` by a `G_SBC` whose carry-in is the NOT of `bin`, followed by a copy of
the difference and the NOT of the carry; the result is `(a - b - bin) mod 256`
and the borrow-out is the NOT of the carry-out, `1` exactly when
`a < b + bin`. -/
theorem legalizeSubE_USUBE_spec (MRI : MachineRegisterInfo) (Res BOut L R BIn : Nat) (env : Env)
    (hRes : Res < MRI.getNumVirtRegs) (hBOut : BOut < MRI.getNumVirtRegs)
    (hL : L < MRI.getNumVirtRegs) (hR : R < MRI.getNumVirtRegs)
    (hBIn : BIn < MRI.getNumVirtRegs) (hne : Res ≠ BOut) (hTy : MRI.getType BOut = S1)
    (_ha : env L < 256) (_hb : env R < 256) (hbin : env BIn < 2) :
    ∃ Out,
      legalizeSubE (MachineIRBuilder.atInstr MRI)
        ⟨Opcode.G_USUBE, [.reg Res, .reg BOut, .reg L, .reg R, .reg BIn]⟩ = Except.ok Out ∧
      Out.MI = none ∧
      Out.insts =
        [⟨Opcode.G_CONSTANT, [.reg MRI.getNumVirtRegs, .cimm 1]⟩,
         ⟨Opcode.G_XOR, [.reg (MRI.getNumVirtRegs + 1), .reg BIn, .reg MRI.getNumVirtRegs]⟩,
         ⟨Opcode.G_SBC, [.reg (MRI.getNumVirtRegs + 2), .reg (MRI.getNumVirtRegs + 3),
           .reg (MRI.getNumVirtRegs + 4), .reg (MRI.getNumVirtRegs + 5),
           .reg (MRI.getNumVirtRegs + 6), .reg L, .reg R, .reg (MRI.getNumVirtRegs + 1)]⟩,
         ⟨Opcode.COPY, [.reg Res, .reg (MRI.getNumVirtRegs + 2)]⟩,
         ⟨Opcode.G_CONSTANT, [.reg (MRI.getNumVirtRegs + 7), .cimm 1]⟩,
         ⟨Opcode.G_XOR, [.reg BOut, .reg (MRI.getNumVirtRegs + 3),
           .reg (MRI.getNumVirtRegs + 7)]⟩] ∧
      ∃ env1, execInstrs Out.B.MRI env Out.insts = some env1 ∧
      env1 (MRI.getNumVirtRegs + 1) = 1 - env BIn ∧
      env1 (MRI.getNumVirtRegs + 2) = (evalSBC (env L) (env R) (1 - env BIn)).A ∧
      env1 (MRI.getNumVirtRegs + 3) = (evalSBC (env L) (env R) (1 - env BIn)).C ∧
      (env1 Res : Int) = ((env L : Int) - (env R : Int) - (env BIn : Int)) % 256 ∧
      env1 BOut = 1 - env1 (MRI.getNumVirtRegs + 3) ∧
      (env1 BOut = 1 ↔ env L < env R + env BIn) ∧
      (env1 BOut = 0 ↔ ¬ env L < env R + env BIn) := by
  obtain ⟨V, I⟩ := MRI
  simp only [MachineRegisterInfo.getNumVirtRegs] at *
  refine ⟨_, legalizeSubE_USUBE_insts V I Res BOut L R BIn hBOut hTy, rfl, rfl, ?_⟩
  simp only [LegalizeResult.insts, Option.toList, List.append_nil, List.cons_append,
    List.nil_append, execInstrs, execInstr_CONSTANT, execInstr_COPY, execInstr_XOR,
    execInstr_SBC, Option.some_bind]
  refine ⟨_, rfl, ?_⟩
  simp (disch := omega) only [Env.set_eq, Env.set_ne, getType_old, getType_new,
    getType_new_zero, hTy]
  simp only [S1, LLT.getSizeInBits, List.getD_cons_succ, List.getD_cons_zero, pow_one,
    xor_one_bit (env BIn) hbin, evalSBC, boolBit, decide_eq_true_eq]
  refine ⟨trivial, trivial, trivial, by omega, ?_⟩
  split_ifs with h <;> simp <;> omega

theorem legalizeSubE_USUBE_spec_witness :
    ∃ Out, legalizeSubE (MachineIRBuilder.atInstr addSubMRI)
        ⟨Opcode.G_USUBE, [.reg 0, .reg 1, .reg 2, .reg 3, .reg 4]⟩ = Except.ok Out ∧
      ∃ env1, execInstrs Out.B.MRI (envOf [0, 0, 5, 7, 1]) Out.insts = some env1 ∧
        (env1 0 : Int) = 253 ∧ env1 1 = 1 := by
  obtain ⟨Out, h1, _, _, env1, h2, _, _, _, h3, _, h4, _⟩ :=
    legalizeSubE_USUBE_spec addSubMRI 0 1 2 3 4 (envOf [0, 0, 5, 7, 1])
      (by decide) (by decide) (by decide) (by decide) (by decide) (by decide) (by decide)
      (by decide) (by decide) (by decide)
  exact ⟨Out, h1, env1, h2, h3, h4.mpr (by decide)⟩

/-- What `legalizeSubE` emits for `G_SSUBE`. -/
theorem legalizeSubE_SSUBE_insts (V : List LLT) (I : List MachineInstr) (Res Ov L R BIn : Nat) :
    legalizeSubE (MachineIRBuilder.atInstr ⟨V, I⟩)
        ⟨Opcode.G_SSUBE, [.reg Res, .reg Ov, .reg L, .reg R, .reg BIn]⟩ =
      Except.ok
        { B := { MRI := ⟨V ++ [S1, S1, S8, S1, S1, S1, S1], I⟩
                 Before := [⟨Opcode.G_CONSTANT, [.reg V.length, .cimm 1]⟩,
                   ⟨Opcode.G_XOR, [.reg (V.length + 1), .reg BIn, .reg V.length]⟩,
                   ⟨Opcode.G_SBC, [.reg (V.length + 2), .reg (V.length + 3), .reg (V.length + 4),
                     .reg (V.length + 5), .reg (V.length + 6), .reg L, .reg R,
                     .reg (V.length + 1)]⟩]
                 After := [⟨Opcode.COPY, [.reg Res, .reg (V.length + 2)]⟩,
                   ⟨Opcode.COPY, [.reg Ov, .reg (V.length + 5)]⟩]
                 PastMI := true }
          MI := none
          Legalized := true } := by
  simp [legalizeSubE, MachineIRBuilder.atInstr, MachineIRBuilder.buildNot,
    MachineIRBuilder.buildConstant, MachineIRBuilder.buildInstr, MachineIRBuilder.buildCopy,
    MachineIRBuilder.insert, MachineIRBuilder.setInsertPtNext, DstOp.addDefs, DstOp.addDef,
    DstOp.getLLTTy, MachineRegisterInfo.createGenericVirtualRegister, MachineInstr.getReg,
    MachineInstr.getOperand, S1, S8, LLT.getSizeInBits, constantBits_one_negOne]

/-- C2: for 8-bit `a`, `b` and a borrow-in `bin` in {0,1}, `legalizeSubE` replaces
`G_SSUBE` by a `G_SBC` whose carry-in is the NOT of `bin`, followed by a copy of
the difference and a copy of the overflow flag; the result is
`(a - b - bin) mod 256` and the overflow output is the overflow flag itself,
`1` exactly when `a - b - bin`, on the two's-complement readings of `a` and
`b`, is outside `[-128, 127]`. -/
theorem legalizeSubE_SSUBE_spec (MRI : MachineRegisterInfo) (Res Ov L R BIn : Nat) (env : Env)
    (hRes : Res < MRI.getNumVirtRegs) (hOv : Ov < MRI.getNumVirtRegs)
    (hL : L < MRI.getNumVirtRegs) (hR : R < MRI.getNumVirtRegs)
    (hBIn : BIn < MRI.getNumVirtRegs) (hne : Res ≠ Ov)
    (_ha : env L < 256) (_hb : env R < 256) (hbin : env BIn < 2) :
    ∃ Out,
      legalizeSubE (MachineIRBuilder.atInstr MRI)
        ⟨Opcode.G_SSUBE, [.reg Res, .reg Ov, .reg L, .reg R, .reg BIn]⟩ = Except.ok Out ∧
      Out.MI = none ∧
      Out.insts =
        [⟨Opcode.G_CONSTANT, [.reg MRI.getNumVirtRegs, .cimm 1]⟩,
         ⟨Opcode.G_XOR, [.reg (MRI.getNumVirtRegs + 1), .reg BIn, .reg MRI.getNumVirtRegs]⟩,
         ⟨Opcode.G_SBC, [.reg (MRI.getNumVirtRegs + 2), .reg (MRI.getNumVirtRegs + 3),
           .reg (MRI.getNumVirtRegs + 4), .reg (MRI.getNumVirtRegs + 5),
           .reg (MRI.getNumVirtRegs + 6), .reg L, .reg R, .reg (MRI.getNumVirtRegs + 1)]⟩,
         ⟨Opcode.COPY, [.reg Res, .reg (MRI.getNumVirtRegs + 2)]⟩,
         ⟨Opcode.COPY, [.reg Ov, .reg (MRI.getNumVirtRegs + 5)]⟩] ∧
      ∃ env1, execInstrs Out.B.MRI env Out.insts = some env1 ∧
        env1 (MRI.getNumVirtRegs + 1) = 1 - env BIn ∧
        env1 (MRI.getNumVirtRegs + 2) = (evalSBC (env L) (env R) (1 - env BIn)).A ∧
        env1 (MRI.getNumVirtRegs + 5) = (evalSBC (env L) (env R) (1 - env BIn)).V ∧
        (env1 Res : Int) = ((env L : Int) - (env R : Int) - (env BIn : Int)) % 256 ∧
        env1 Ov = env1 (MRI.getNumVirtRegs + 5) ∧
        (env1 Ov = 1 ↔
          (toSigned 8 (env L) - toSigned 8 (env R) - (env BIn : Int) < -128 ∨
           127 < toSigned 8 (env L) - toSigned 8 (env R) - (env BIn : Int))) ∧
        (env1 Ov = 0 ↔
          (-128 ≤ toSigned 8 (env L) - toSigned 8 (env R) - (env BIn : Int) ∧
           toSigned 8 (env L) - toSigned 8 (env R) - (env BIn : Int) ≤ 127)) := by
  obtain ⟨V, I⟩ := MRI
  simp only [MachineRegisterInfo.getNumVirtRegs] at *
  refine ⟨_, legalizeSubE_SSUBE_insts V I Res Ov L R BIn, rfl, rfl, ?_⟩
  simp only [LegalizeResult.insts, Option.toList, List.append_nil, List.cons_append,
    List.nil_append, execInstrs, execInstr_CONSTANT, execInstr_COPY, execInstr_XOR,
    execInstr_SBC, Option.some_bind]
  refine ⟨_, rfl, ?_⟩
  simp (disch := omega) only [Env.set_eq, Env.set_ne, getType_old, getType_new,
    getType_new_zero]
  simp only [S1, LLT.getSizeInBits, List.getD_cons_succ, List.getD_cons_zero, pow_one,
    xor_one_bit (env BIn) hbin, evalSBC, boolBit, signedOverflow, decide_eq_true_eq,
    Bool.or_eq_true]
  refine ⟨trivial, trivial, trivial, by omega, trivial, ?_⟩
  generalize toSigned 8 (env L) = sa
  generalize toSigned 8 (env R) = sb
  norm_num
  omega

theorem legalizeSubE_SSUBE_spec_witness :
    ∃ Out, legalizeSubE (MachineIRBuilder.atInstr addSubMRI)
        ⟨Opcode.G_SSUBE, [.reg 0, .reg 1, .reg 2, .reg 3, .reg 4]⟩ = Except.ok Out ∧
      ∃ env1, execInstrs Out.B.MRI (envOf [0, 0, 128, 1, 0]) Out.insts = some env1 ∧
        (env1 0 : Int) = 127 ∧ env1 1 = 1 := by
  obtain ⟨Out, h1, _, _, env1, h2, _, _, _, h3, _, h4, _⟩ :=
    legalizeSubE_SSUBE_spec addSubMRI 0 1 2 3 4 (envOf [0, 0, 128, 1, 0])
      (by decide) (by decide) (by decide) (by decide) (by decide) (by decide) (by decide)
      (by decide) (by decide)
  exact ⟨Out, h1, env1, h2, h3, h4.mpr (by decide)⟩

theorem execInstr_addSubO (MRI : MachineRegisterInfo) (env : Env) (d o a b : Nat) :
    execInstr MRI env ⟨Opcode.G_UADDO, [.reg d, .reg o, .reg a, .reg b]⟩ =
      some ((env.set d ((env a + env b) % 2 ^ (MRI.getType d).getSizeInBits)).set o
        (boolBit (decide (2 ^ (MRI.getType d).getSizeInBits ≤ env a + env b)))) ∧
    execInstr MRI env ⟨Opcode.G_SADDO, [.reg d, .reg o, .reg a, .reg b]⟩ =
      some ((env.set d ((env a + env b) % 2 ^ (MRI.getType d).getSizeInBits)).set o
        (boolBit (signedOverflow (MRI.getType d).getSizeInBits
          (toSigned (MRI.getType d).getSizeInBits (env a) +
            toSigned (MRI.getType d).getSizeInBits (env b))))) ∧
    execInstr MRI env ⟨Opcode.G_USUBO, [.reg d, .reg o, .reg a, .reg b]⟩ =
      some ((env.set d ((((env a : Int) - (env b : Int)) %
          (2 : Int) ^ (MRI.getType d).getSizeInBits).toNat)).set o
        (boolBit (decide (env a < env b)))) ∧
    execInstr MRI env ⟨Opcode.G_SSUBO, [.reg d, .reg o, .reg a, .reg b]⟩ =
      some ((env.set d ((((env a : Int) - (env b : Int)) %
          (2 : Int) ^ (MRI.getType d).getSizeInBits).toNat)).set o
        (boolBit (signedOverflow (MRI.getType d).getSizeInBits
          (toSigned (MRI.getType d).getSizeInBits (env a) -
            toSigned (MRI.getType d).getSizeInBits (env b))))) :=
  ⟨rfl, rfl, rfl, rfl⟩

theorem execInstr_addSubE (MRI : MachineRegisterInfo) (env : Env) (d o a b c : Nat) :
    execInstr MRI env ⟨Opcode.G_UADDE, [.reg d, .reg o, .reg a, .reg b, .reg c]⟩ =
      some ((env.set d ((env a + env b + env c) % 2 ^ (MRI.getType d).getSizeInBits)).set o
        (boolBit (decide (2 ^ (MRI.getType d).getSizeInBits ≤ env a + env b + env c)))) ∧
    execInstr MRI env ⟨Opcode.G_SADDE, [.reg d, .reg o, .reg a, .reg b, .reg c]⟩ =
      some ((env.set d ((env a + env b + env c) % 2 ^ (MRI.getType d).getSizeInBits)).set o
        (boolBit (signedOverflow (MRI.getType d).getSizeInBits
          (toSigned (MRI.getType d).getSizeInBits (env a) +
            toSigned (MRI.getType d).getSizeInBits (env b) + (env c : Int))))) ∧
    execInstr MRI env ⟨Opcode.G_USUBE, [.reg d, .reg o, .reg a, .reg b, .reg c]⟩ =
      some ((env.set d ((((env a : Int) - (env b : Int) - (env c : Int)) %
          (2 : Int) ^ (MRI.getType d).getSizeInBits).toNat)).set o
        (boolBit (decide (env a < env b + env c)))) ∧
    execInstr MRI env ⟨Opcode.G_SSUBE, [.reg d, .reg o, .reg a, .reg b, .reg c]⟩ =
      some ((env.set d ((((env a : Int) - (env b : Int) - (env c : Int)) %
          (2 : Int) ^ (MRI.getType d).getSizeInBits).toNat)).set o
        (boolBit (signedOverflow (MRI.getType d).getSizeInBits
          (toSigned (MRI.getType d).getSizeInBits (env a) -
            toSigned (MRI.getType d).getSizeInBits (env b) - (env c : Int))))) :=
  ⟨rfl, rfl, rfl, rfl⟩

/-- What `legalizeAddSubO` emits for each of the four opcodes. -/
theorem legalizeAddSubO_insts (V : List LLT) (I : List MachineInstr) (Res C L R : Nat)
    (p : Opcode × Opcode)
    (hp : p ∈ [(Opcode.G_UADDO, Opcode.G_UADDE), (Opcode.G_SADDO, Opcode.G_SADDE),
      (Opcode.G_USUBO, Opcode.G_USUBE), (Opcode.G_SSUBO, Opcode.G_SSUBE)]) :
    legalizeAddSubO (MachineIRBuilder.atInstr ⟨V, I⟩)
        ⟨p.1, [.reg Res, .reg C, .reg L, .reg R]⟩ =
      Except.ok
        { B := { MRI := ⟨V ++ [S1], I⟩
                 Before := [⟨Opcode.G_CONSTANT, [.reg V.length, .cimm 0]⟩,
                   ⟨p.2, [.reg Res, .reg C, .reg L, .reg R, .reg V.length]⟩]
                 After := []
                 PastMI := false }
          MI := none
          Legalized := true } := by
  have e0 : constantBits 1 0 = 0 := by decide
  simp only [List.mem_cons, List.mem_singleton, List.not_mem_nil, or_false] at hp
  rcases hp with rfl | rfl | rfl | rfl <;>
  simp [legalizeAddSubO, MachineIRBuilder.atInstr,
    MachineIRBuilder.buildConstant, MachineIRBuilder.buildInstr,
    MachineIRBuilder.insert, DstOp.addDefs, DstOp.addDef,
    DstOp.getLLTTy, MachineRegisterInfo.createGenericVirtualRegister, MachineInstr.getReg,
    MachineInstr.getOperand, S1, LLT.getSizeInBits, e0]

/-- C3: `legalizeAddSubO` replaces `G_UADDO`, `G_SADDO`, `G_USUBO`, `G_SSUBO` by
`G_UADDE`, `G_SADDE`, `G_USUBE`, `G_SSUBE` with the same result register, the
same carry or overflow register and the same two operands in the same order,
after a constant 0 of one bit that is the added carry-in; the replacement
gives the result and the carry or overflow register the values the original
instruction gives them. -/
theorem legalizeAddSubO_spec (MRI : MachineRegisterInfo) (Res C L R : Nat) (env : Env)
    (hRes : Res < MRI.getNumVirtRegs) (hC : C < MRI.getNumVirtRegs)
    (hL : L < MRI.getNumVirtRegs) (hR : R < MRI.getNumVirtRegs) :
    ∀ p ∈ [(Opcode.G_UADDO, Opcode.G_UADDE), (Opcode.G_SADDO, Opcode.G_SADDE),
        (Opcode.G_USUBO, Opcode.G_USUBE), (Opcode.G_SSUBO, Opcode.G_SSUBE)],
      ∃ Out,
        legalizeAddSubO (MachineIRBuilder.atInstr MRI)
          ⟨p.1, [.reg Res, .reg C, .reg L, .reg R]⟩ = Except.ok Out ∧
        Out.MI = none ∧
        Out.insts =
          [⟨Opcode.G_CONSTANT, [.reg MRI.getNumVirtRegs, .cimm 0]⟩,
           ⟨p.2, [.reg Res, .reg C, .reg L, .reg R, .reg MRI.getNumVirtRegs]⟩] ∧
        Out.B.MRI.getType MRI.getNumVirtRegs = S1 ∧
        ∃ env0 env1,
          execInstr MRI env ⟨p.1, [.reg Res, .reg C, .reg L, .reg R]⟩ = some env0 ∧
          execInstrs Out.B.MRI env Out.insts = some env1 ∧
          env1 Res = env0 Res ∧ env1 C = env0 C := by
  intro p hp
  obtain ⟨V, I⟩ := MRI
  simp only [MachineRegisterInfo.getNumVirtRegs] at *
  refine ⟨_, legalizeAddSubO_insts V I Res C L R p hp, rfl, rfl, ?_, ?_⟩
  · exact getType_new_zero V I [S1]
  simp only [List.mem_cons, List.mem_singleton, List.not_mem_nil, or_false] at hp
  rcases hp with rfl | rfl | rfl | rfl <;>
  · simp only [LegalizeResult.insts, Option.toList, List.append_nil, List.cons_append,
      List.nil_append, execInstrs, execInstr_CONSTANT, Option.some_bind,
      (execInstr_addSubO _ _ _ _ _ _).1, (execInstr_addSubO _ _ _ _ _ _).2.1,
      (execInstr_addSubO _ _ _ _ _ _).2.2.1, (execInstr_addSubO _ _ _ _ _ _).2.2.2,
      (execInstr_addSubE _ _ _ _ _ _ _).1, (execInstr_addSubE _ _ _ _ _ _ _).2.1,
      (execInstr_addSubE _ _ _ _ _ _ _).2.2.1, (execInstr_addSubE _ _ _ _ _ _ _).2.2.2]
    refine ⟨_, _, rfl, rfl, ?_⟩
    simp (disch := omega) only [Env.set_eq, Env.set_ne, getType_old]
    simp [Env.set]

theorem legalizeAddSubO_spec_witness :
    ∃ Out, legalizeAddSubO (MachineIRBuilder.atInstr ⟨[S8, S1, S8, S8], []⟩)
        ⟨Opcode.G_UADDO, [.reg 0, .reg 1, .reg 2, .reg 3]⟩ = Except.ok Out ∧
      Out.insts = [⟨Opcode.G_CONSTANT, [.reg 4, .cimm 0]⟩,
        ⟨Opcode.G_UADDE, [.reg 0, .reg 1, .reg 2, .reg 3, .reg 4]⟩] ∧
      ∃ env1, execInstrs Out.B.MRI (envOf [0, 0, 250, 10]) Out.insts = some env1 ∧
        env1 0 = 4 ∧ env1 1 = 1 := by
  obtain ⟨Out, h1, _, h2, _, env0, env1, h3, h4, h5, h6⟩ :=
    legalizeAddSubO_spec ⟨[S8, S1, S8, S8], []⟩ 0 1 2 3 (envOf [0, 0, 250, 10])
      (by decide) (by decide) (by decide) (by decide) (Opcode.G_UADDO, Opcode.G_UADDE)
      (by decide)
  have h7 : env0 = ((envOf [0, 0, 250, 10]).set 0 4).set 1 1 :=
    (Option.some.inj h3).symm
  subst h7
  exact ⟨Out, h1, h2, env1, h4, h5, h6⟩

theorem execInstr_ICMP (MRI : MachineRegisterInfo) (env : Env) (d a b : Nat) (p : Predicate) :
    execInstr MRI env ⟨Opcode.G_ICMP, [.reg d, .predicate p, .reg a, .reg b]⟩ =
      some (env.set d (boolBit (evalICmp (MRI.getType a).getSizeInBits p (env a) (env b)))) :=
  rfl

theorem xor_one_boolBit (b : Bool) : (boolBit b ^^^ 1) % 2 = 1 - boolBit b := by
  cases b <;> rfl

/-- What `legalizeICmp` does with a predicate that it negates. -/
theorem legalizeICmp_negate_insts (V : List LLT) (I : List MachineInstr) (Dst LHS RHS : Nat)
    (hDst : Dst < V.length) (hTy : (MachineRegisterInfo.mk V I).getType Dst = S1)
    (p : Predicate × Predicate)
    (hp : p ∈ [(Predicate.ICMP_NE, Predicate.ICMP_EQ), (Predicate.ICMP_ULT, Predicate.ICMP_UGE),
      (Predicate.ICMP_SGE, Predicate.ICMP_SLT)]) :
    legalizeICmp (MachineIRBuilder.atInstr ⟨V, I⟩)
        ⟨Opcode.G_ICMP, [.reg Dst, .predicate p.1, .reg LHS, .reg RHS]⟩ =
      Except.ok
        { B := { MRI := ⟨V ++ [S1, S1], I⟩
                 Before := []
                 After := [⟨Opcode.G_CONSTANT, [.reg (V.length + 1), .cimm 1]⟩,
                   ⟨Opcode.G_XOR, [.reg Dst, .reg V.length, .reg (V.length + 1)]⟩]
                 PastMI := true }
          MI := some ⟨Opcode.G_ICMP, [.reg V.length, .predicate p.2, .reg LHS, .reg RHS]⟩
          Legalized := true } := by
  simp only [List.mem_cons, List.mem_singleton, List.not_mem_nil, or_false] at hp
  rcases hp with rfl | rfl | rfl <;>
  simp [legalizeICmp, negateInverseComparison, CmpInst.getInversePredicate,
    MachineIRBuilder.atInstr, MachineIRBuilder.buildNot, MachineInstr.getPredicate,
    MachineInstr.setReg, MachineInstr.setPredicate,
    MachineIRBuilder.buildConstant, MachineIRBuilder.buildInstr,
    MachineIRBuilder.insert, MachineIRBuilder.setInsertPtNext, DstOp.addDefs, DstOp.addDef,
    DstOp.getLLTTy, MachineRegisterInfo.createGenericVirtualRegister, MachineInstr.getReg,
    MachineInstr.getOperand, hTy, S1, LLT.getSizeInBits,
    getType_old _ _ _ _ hDst, constantBits_one_negOne]

/-- C8: for not-equal, unsigned-less-than and signed-greater-or-equal,
`legalizeICmp` changes the comparison in place to the inverse predicate
(equal, unsigned-greater-or-equal, signed-less-than) on the same operands in
the same order, writing a fresh 1-bit register, and defines the original
destination after it as the NOT of that register; the destination has the
value the original comparison gives it, whatever the operands hold. -/
theorem legalizeICmp_negate_spec (MRI : MachineRegisterInfo) (Dst LHS RHS : Nat) (env : Env)
    (hDst : Dst < MRI.getNumVirtRegs) (hL : LHS < MRI.getNumVirtRegs)
    (hR : RHS < MRI.getNumVirtRegs) (hTy : MRI.getType Dst = S1) :
    ∀ p ∈ [(Predicate.ICMP_NE, Predicate.ICMP_EQ), (Predicate.ICMP_ULT, Predicate.ICMP_UGE),
        (Predicate.ICMP_SGE, Predicate.ICMP_SLT)],
      ∃ Out,
        legalizeICmp (MachineIRBuilder.atInstr MRI)
          ⟨Opcode.G_ICMP, [.reg Dst, .predicate p.1, .reg LHS, .reg RHS]⟩ = Except.ok Out ∧
        p.2 = CmpInst.getInversePredicate p.1 ∧
        Out.MI = some ⟨Opcode.G_ICMP,
          [.reg MRI.getNumVirtRegs, .predicate p.2, .reg LHS, .reg RHS]⟩ ∧
        Out.B.MRI.getType MRI.getNumVirtRegs = S1 ∧
        Out.B.Before = [] ∧
        Out.B.After =
          [⟨Opcode.G_CONSTANT, [.reg (MRI.getNumVirtRegs + 1), .cimm 1]⟩,
           ⟨Opcode.G_XOR, [.reg Dst, .reg MRI.getNumVirtRegs,
             .reg (MRI.getNumVirtRegs + 1)]⟩] ∧
        ∃ env0 env1,
          execInstr MRI env
            ⟨Opcode.G_ICMP, [.reg Dst, .predicate p.1, .reg LHS, .reg RHS]⟩ = some env0 ∧
          execInstrs Out.B.MRI env Out.insts = some env1 ∧
          env1 MRI.getNumVirtRegs =
            boolBit (evalICmp (MRI.getType LHS).getSizeInBits p.2 (env LHS) (env RHS)) ∧
          env1 Dst = 1 - env1 MRI.getNumVirtRegs ∧
          env1 Dst = env0 Dst := by
  intro p hp
  obtain ⟨V, I⟩ := MRI
  simp only [MachineRegisterInfo.getNumVirtRegs] at *
  refine ⟨_, legalizeICmp_negate_insts V I Dst LHS RHS hDst hTy p hp, ?_, rfl, ?_, rfl, rfl, ?_⟩
  · simp only [List.mem_cons, List.mem_singleton, List.not_mem_nil, or_false] at hp
    rcases hp with rfl | rfl | rfl <;> rfl
  · exact getType_new_zero V I [S1, S1]
  simp only [LegalizeResult.insts, Option.toList, List.append_nil, List.cons_append,
    List.nil_append, execInstrs, execInstr_CONSTANT, execInstr_XOR, execInstr_ICMP,
    Option.some_bind]
  refine ⟨_, _, rfl, rfl, ?_⟩
  simp (disch := omega) only [Env.set_eq, Env.set_ne, getType_old, hTy]
  simp only [S1, LLT.getSizeInBits, pow_one, xor_one_boolBit, true_and]
  simp only [List.mem_cons, List.mem_singleton, List.not_mem_nil, or_false] at hp
  rcases hp with rfl | rfl | rfl <;>
  · simp only [evalICmp, boolBit]
    split_ifs <;> simp_all <;> omega

theorem legalizeICmp_negate_spec_witness :
    ∃ Out, legalizeICmp (MachineIRBuilder.atInstr ⟨[S1, S8, S8], []⟩)
        ⟨Opcode.G_ICMP, [.reg 0, .predicate Predicate.ICMP_SGE, .reg 1, .reg 2]⟩ =
          Except.ok Out ∧
      Out.MI = some ⟨Opcode.G_ICMP, [.reg 3, .predicate Predicate.ICMP_SLT, .reg 1, .reg 2]⟩ ∧
      ∃ env1, execInstrs Out.B.MRI (envOf [0, 255, 1]) Out.insts = some env1 ∧
        env1 3 = 1 ∧ env1 0 = 0 := by
  obtain ⟨Out, h1, _, h2, _, _, _, env0, env1, _, h4, h5, h6, _⟩ :=
    legalizeICmp_negate_spec ⟨[S1, S8, S8], []⟩ 0 1 2 (envOf [0, 255, 1])
      (by decide) (by decide) (by decide) (by decide) (Predicate.ICMP_SGE, Predicate.ICMP_SLT)
      (by decide)
  have h7 : env1 3 = 1 := h5.trans (by decide)
  have h8 : env1 0 = 1 - env1 3 := h6
  exact ⟨Out, h1, h2, env1, h4, h7, by rw [h8, h7]⟩

/-- What `legalizeICmp` does with a predicate that it swaps. -/
theorem legalizeICmp_swap_insts (MRI : MachineRegisterInfo) (Dst LHS RHS : Nat)
    (p : Predicate × Predicate)
    (hp : p ∈ [(Predicate.ICMP_ULE, Predicate.ICMP_UGE), (Predicate.ICMP_UGT, Predicate.ICMP_ULT),
      (Predicate.ICMP_SLE, Predicate.ICMP_SGE), (Predicate.ICMP_SGT, Predicate.ICMP_SLT)]) :
    legalizeICmp (MachineIRBuilder.atInstr MRI)
        ⟨Opcode.G_ICMP, [.reg Dst, .predicate p.1, .reg LHS, .reg RHS]⟩ =
      Except.ok
        { B := MachineIRBuilder.atInstr MRI
          MI := some ⟨Opcode.G_ICMP, [.reg Dst, .predicate p.2, .reg RHS, .reg LHS]⟩
          Legalized := true } := by
  simp only [List.mem_cons, List.mem_singleton, List.not_mem_nil, or_false] at hp
  rcases hp with rfl | rfl | rfl | rfl <;>
  simp [legalizeICmp, swapComparison, CmpInst.getSwappedPredicate,
    MachineInstr.getPredicate, MachineInstr.setReg, MachineInstr.setPredicate,
    MachineInstr.getReg, MachineInstr.getOperand]

/-- C9: for unsigned-less-or-equal, unsigned-greater-than, signed-less-or-equal
and signed-greater-than, `legalizeICmp` exchanges the two operands and replaces
the predicate by its mirror (unsigned-greater-or-equal, unsigned-less-than,
signed-greater-or-equal, signed-less-than), in place and with the same
destination register, building nothing; the destination has the value the
original comparison gives it, whatever the operands hold. -/
theorem legalizeICmp_swap_spec (MRI : MachineRegisterInfo) (Dst LHS RHS : Nat) (env : Env)
    (hTy : MRI.getType LHS = MRI.getType RHS) :
    ∀ p ∈ [(Predicate.ICMP_ULE, Predicate.ICMP_UGE), (Predicate.ICMP_UGT, Predicate.ICMP_ULT),
        (Predicate.ICMP_SLE, Predicate.ICMP_SGE), (Predicate.ICMP_SGT, Predicate.ICMP_SLT)],
      ∃ Out,
        legalizeICmp (MachineIRBuilder.atInstr MRI)
          ⟨Opcode.G_ICMP, [.reg Dst, .predicate p.1, .reg LHS, .reg RHS]⟩ = Except.ok Out ∧
        p.2 = CmpInst.getSwappedPredicate p.1 ∧
        Out.MI = some ⟨Opcode.G_ICMP, [.reg Dst, .predicate p.2, .reg RHS, .reg LHS]⟩ ∧
        Out.B = MachineIRBuilder.atInstr MRI ∧
        Out.insts = [⟨Opcode.G_ICMP, [.reg Dst, .predicate p.2, .reg RHS, .reg LHS]⟩] ∧
        ∃ env0 env1,
          execInstr MRI env
            ⟨Opcode.G_ICMP, [.reg Dst, .predicate p.1, .reg LHS, .reg RHS]⟩ = some env0 ∧
          execInstrs Out.B.MRI env Out.insts = some env1 ∧
          env1 Dst = env0 Dst ∧
          env1 Dst =
            boolBit (evalICmp (MRI.getType LHS).getSizeInBits p.1 (env LHS) (env RHS)) := by
  intro p hp
  refine ⟨_, legalizeICmp_swap_insts MRI Dst LHS RHS p hp, ?_, rfl, rfl, rfl, ?_⟩
  · simp only [List.mem_cons, List.mem_singleton, List.not_mem_nil, or_false] at hp
    rcases hp with rfl | rfl | rfl | rfl <;> rfl
  simp only [LegalizeResult.insts, Option.toList, List.append_nil, List.cons_append,
    List.nil_append, execInstrs, execInstr_ICMP, Option.some_bind, MachineIRBuilder.atInstr]
  refine ⟨_, _, rfl, rfl, ?_⟩
  simp only [Env.set_eq, ← hTy, and_self]
  simp only [List.mem_cons, List.mem_singleton, List.not_mem_nil, or_false] at hp
  rcases hp with rfl | rfl | rfl | rfl <;> rfl

theorem legalizeICmp_swap_spec_witness :
    ∃ Out, legalizeICmp (MachineIRBuilder.atInstr ⟨[S1, S8, S8], []⟩)
        ⟨Opcode.G_ICMP, [.reg 0, .predicate Predicate.ICMP_SGT, .reg 1, .reg 2]⟩ =
          Except.ok Out ∧
      Out.insts = [⟨Opcode.G_ICMP, [.reg 0, .predicate Predicate.ICMP_SLT, .reg 2, .reg 1]⟩] ∧
      ∃ env1, execInstrs Out.B.MRI (envOf [0, 1, 255]) Out.insts = some env1 ∧ env1 0 = 1 := by
  obtain ⟨Out, h1, _, _, _, h2, env0, env1, _, h4, _, h6⟩ :=
    legalizeICmp_swap_spec ⟨[S1, S8, S8], []⟩ 0 1 2 (envOf [0, 1, 255]) (by decide)
      (Predicate.ICMP_SGT, Predicate.ICMP_SLT) (by decide)
  exact ⟨Out, h1, h2, env1, h4, h6.trans (by decide)⟩

theorem constantBits_one_one : constantBits 1 1 = 1 := by decide

/-- What the 8-bit base case of `legalizeICmp` emits for equality and for
unsigned greater-or-equal: the flag that is copied is the register at the given
offset from the first fresh register. -/
theorem legalizeICmp_S8_flag_insts (V : List LLT) (I : List MachineInstr) (Dst LHS RHS : Nat)
    (hTy : (MachineRegisterInfo.mk V I).getType LHS = S8)
    (p : Predicate × Nat) (hp : p ∈ [(Predicate.ICMP_EQ, 5), (Predicate.ICMP_UGE, 2)]) :
    legalizeICmp (MachineIRBuilder.atInstr ⟨V, I⟩)
        ⟨Opcode.G_ICMP, [.reg Dst, .predicate p.1, .reg LHS, .reg RHS]⟩ =
      Except.ok
        { B := { MRI := ⟨V ++ [S1, S8, S1, S1, S1, S1], I⟩
                 Before := [⟨Opcode.G_CONSTANT, [.reg V.length, .cimm 1]⟩,
                   ⟨Opcode.G_SBC, [.reg (V.length + 1), .reg (V.length + 2), .reg (V.length + 3),
                     .reg (V.length + 4), .reg (V.length + 5), .reg LHS, .reg RHS,
                     .reg V.length]⟩,
                   ⟨Opcode.COPY, [.reg Dst, .reg (V.length + p.2)]⟩]
                 After := []
                 PastMI := false }
          MI := none
          Legalized := true } := by
  simp only [List.mem_cons, List.mem_singleton, List.not_mem_nil, or_false] at hp
  rcases hp with rfl | rfl <;>
  simp [legalizeICmp, MachineIRBuilder.atInstr, MachineInstr.getPredicate,
    MachineIRBuilder.buildConstant, MachineIRBuilder.buildInstr, MachineIRBuilder.buildCopy,
    MachineIRBuilder.insert, DstOp.addDefs, DstOp.addDef,
    DstOp.getLLTTy, MachineRegisterInfo.createGenericVirtualRegister, MachineInstr.getReg,
    MachineInstr.getOperand, hTy, S1, S8, LLT.getSizeInBits, LLT.isPointer,
    constantBits_one_one]

/-- C6: for 8-bit `a`, `b` the base case of `legalizeICmp` emits a constant 1,
one `G_SBC` of `(a, b)` with that constant as carry-in, and a copy of the zero
flag for equality, of the carry flag for unsigned greater-or-equal; the zero
flag is `a == b` and the carry flag is `a >= b`, so the destination has the
value of the comparison. -/
theorem legalizeICmp_S8_flag_spec (MRI : MachineRegisterInfo) (Dst LHS RHS : Nat) (env : Env)
    (hDst : Dst < MRI.getNumVirtRegs) (hL : LHS < MRI.getNumVirtRegs)
    (hR : RHS < MRI.getNumVirtRegs) (hTy : MRI.getType LHS = S8)
    (ha : env LHS < 256) (hb : env RHS < 256) :
    ∀ p ∈ [(Predicate.ICMP_EQ, 5), (Predicate.ICMP_UGE, 2)],
      ∃ Out,
        legalizeICmp (MachineIRBuilder.atInstr MRI)
          ⟨Opcode.G_ICMP, [.reg Dst, .predicate p.1, .reg LHS, .reg RHS]⟩ = Except.ok Out ∧
        Out.MI = none ∧
        Out.insts =
          [⟨Opcode.G_CONSTANT, [.reg MRI.getNumVirtRegs, .cimm 1]⟩,
           ⟨Opcode.G_SBC, [.reg (MRI.getNumVirtRegs + 1), .reg (MRI.getNumVirtRegs + 2),
             .reg (MRI.getNumVirtRegs + 3), .reg (MRI.getNumVirtRegs + 4),
             .reg (MRI.getNumVirtRegs + 5), .reg LHS, .reg RHS, .reg MRI.getNumVirtRegs]⟩,
           ⟨Opcode.COPY, [.reg Dst, .reg (MRI.getNumVirtRegs + p.2)]⟩] ∧
        ∃ env1, execInstrs Out.B.MRI env Out.insts = some env1 ∧
          env1 MRI.getNumVirtRegs = 1 ∧
          env1 (MRI.getNumVirtRegs + 2) = (evalSBC (env LHS) (env RHS) 1).C ∧
          env1 (MRI.getNumVirtRegs + 5) = (evalSBC (env LHS) (env RHS) 1).Z ∧
          env1 (MRI.getNumVirtRegs + 5) = boolBit (decide (env LHS = env RHS)) ∧
          env1 (MRI.getNumVirtRegs + 2) = boolBit (decide (env RHS ≤ env LHS)) ∧
          env1 Dst = env1 (MRI.getNumVirtRegs + p.2) ∧
          env1 Dst = boolBit (evalICmp 8 p.1 (env LHS) (env RHS)) := by
  intro p hp
  obtain ⟨V, I⟩ := MRI
  simp only [MachineRegisterInfo.getNumVirtRegs] at *
  refine ⟨_, legalizeICmp_S8_flag_insts V I Dst LHS RHS hTy p hp, rfl, rfl, ?_⟩
  simp only [LegalizeResult.insts, Option.toList, List.append_nil, List.cons_append,
    List.nil_append, execInstrs, execInstr_CONSTANT, execInstr_COPY, execInstr_SBC,
    Option.some_bind]
  refine ⟨_, rfl, ?_⟩
  simp only [List.mem_cons, List.mem_singleton, List.not_mem_nil, or_false] at hp
  rcases hp with rfl | rfl <;>
  · simp (disch := omega) only [Env.set_eq, Env.set_ne]
    simp only [evalSBC, evalICmp, boolBit, decide_eq_true_eq, true_and]
    split_ifs <;> omega

theorem legalizeICmp_S8_flag_spec_witness :
    ∃ Out, legalizeICmp (MachineIRBuilder.atInstr ⟨[S1, S8, S8], []⟩)
        ⟨Opcode.G_ICMP, [.reg 0, .predicate Predicate.ICMP_UGE, .reg 1, .reg 2]⟩ =
          Except.ok Out ∧
      ∃ env1, execInstrs Out.B.MRI (envOf [0, 7, 200]) Out.insts = some env1 ∧ env1 0 = 0 := by
  obtain ⟨Out, h1, _, _, env1, h2, _, _, _, _, _, _, h3⟩ :=
    legalizeICmp_S8_flag_spec ⟨[S1, S8, S8], []⟩ 0 1 2 (envOf [0, 7, 200])
      (by decide) (by decide) (by decide) (by decide) (by decide) (by decide)
      (Predicate.ICMP_UGE, 2) (by decide)
  exact ⟨Out, h1, env1, h2, h3.trans (by decide)⟩

set_option maxRecDepth 100000 in
theorem xor_128 : ∀ r < 256, (r ^^^ 128) % 2 ^ 8 = if r < 128 then r + 128 else r - 128 := by
  decide

theorem constantBits_small (Width : Nat) (v : Nat) (h : v < 2 ^ Width) :
    constantBits Width (v : Int) = v := by
  unfold constantBits
  have h1 : ((v : Int)) % (2 : Int) ^ Width = v := by
    apply Int.emod_eq_of_lt (by omega)
    exact_mod_cast h
  rw [h1]; rfl

theorem execInstr_SELECT (MRI : MachineRegisterInfo) (env : Env) (d t a b : Nat) :
    execInstr MRI env ⟨Opcode.G_SELECT, [.reg d, .reg t, .reg a, .reg b]⟩ =
      some (env.set d (if env t = 0 then env b else env a)) := rfl

/-- A register that matches the constant 0 holds 0, when the environment
gives every register defined by a constant the unsigned value of the constant
and that value fits the register's width. -/
theorem mi_match_zero_sound (MRI : MachineRegisterInfo) (Reg : Nat) (env : Env)
    (hConst : ∀ v, getConstantVRegVal Reg MRI = some v → env Reg = v)
    (hlt : env Reg < 2 ^ (MRI.getType Reg).getSizeInBits)
    (h : mi_match_SpecificICst Reg MRI 0 = true) : env Reg = 0 := by
  unfold mi_match_SpecificICst at h
  cases hc : getConstantVRegVal Reg MRI with
  | none => simp [hc] at h
  | some v =>
    have hv := hConst v hc
    simp only [hc, decide_eq_true_eq, toSigned] at h
    rw [hv] at hlt ⊢
    split_ifs at h with h2
    · exact_mod_cast h
    · have : (v : Int) < (2 : Int) ^ (MRI.getType Reg).getSizeInBits := by exact_mod_cast hlt
      omega

theorem evalSBC_A_lt (a b c : Nat) : (evalSBC a b c).A < 256 := by
  simp only [evalSBC]; omega

theorem evalSBC_V_cases (a b c : Nat) : (evalSBC a b c).V = 0 ∨ (evalSBC a b c).V = 1 := by
  simp only [evalSBC, boolBit]; split_ifs <;> simp

theorem evalSBC_N (a b c : Nat) : (evalSBC a b c).N = (evalSBC a b c).A / 128 % 2 := rfl

theorem evalSBC_zero_one_N (x : Nat) (h : x < 256) : (evalSBC x 0 1).N = x / 128 % 2 := by
  simp only [evalSBC]; norm_num; omega

/-- The sign flag XOR the overflow flag of a subtraction tells whether the
signed difference, with the borrow, is negative. -/
theorem evalSBC_N_xor_V (a b c : Nat) (ha : a < 256) (hb : b < 256) (hc : c < 2) :
    ((evalSBC a b c).N + (evalSBC a b c).V) % 2 =
      boolBit (decide (toSigned 8 a - toSigned 8 b - (1 - (c : Int)) < 0)) := by
  simp only [evalSBC, boolBit, signedOverflow, toSigned, decide_eq_true_eq, Bool.or_eq_true]
  norm_num
  split_ifs <;> omega

/-- What the 8-bit base case of `legalizeICmp` emits for signed less-than. -/
theorem legalizeICmp_S8_SLT_insts (V : List LLT) (I : List MachineInstr) (Dst LHS RHS : Nat)
    (hTy : (MachineRegisterInfo.mk V I).getType LHS = S8) :
    legalizeICmp (MachineIRBuilder.atInstr ⟨V, I⟩)
        ⟨Opcode.G_ICMP, [.reg Dst, .predicate Predicate.ICMP_SLT, .reg LHS, .reg RHS]⟩ =
      if mi_match_SpecificICst RHS ⟨V, I⟩ 0 = true then
        Except.ok
          { B := { MRI := ⟨V ++ [S1, S8, S1, S1, S1, S1], I⟩
                   Before := [⟨Opcode.G_CONSTANT, [.reg V.length, .cimm 1]⟩,
                     ⟨Opcode.G_SBC, [.reg (V.length + 1), .reg (V.length + 2),
                       .reg (V.length + 3), .reg (V.length + 4), .reg (V.length + 5),
                       .reg LHS, .reg RHS, .reg V.length]⟩,
                     ⟨Opcode.COPY, [.reg Dst, .reg (V.length + 3)]⟩]
                   After := []
                   PastMI := false }
            MI := none
            Legalized := true }
      else
        Except.ok
          { B := { MRI := ⟨V ++ [S1, S8, S1, S1, S1, S1, S8, S8, S8, S1, S8, S8, S1, S1, S1], I⟩
                   Before := [⟨Opcode.G_CONSTANT, [.reg V.length, .cimm 1]⟩,
                     ⟨Opcode.G_SBC, [.reg (V.length + 1), .reg (V.length + 2),
                       .reg (V.length + 3), .reg (V.length + 4), .reg (V.length + 5),
                       .reg LHS, .reg RHS, .reg V.length]⟩,
                     ⟨Opcode.G_CONSTANT, [.reg (V.length + 6), .cimm 128]⟩,
                     ⟨Opcode.G_XOR, [.reg (V.length + 7), .reg (V.length + 1),
                       .reg (V.length + 6)]⟩,
                     ⟨Opcode.G_CONSTANT, [.reg (V.length + 8), .cimm 0]⟩,
                     ⟨Opcode.G_CONSTANT, [.reg (V.length + 9), .cimm 1]⟩,
                     ⟨Opcode.G_SELECT, [.reg (V.length + 10), .reg (V.length + 4),
                       .reg (V.length + 7), .reg (V.length + 1)]⟩,
                     ⟨Opcode.G_SBC, [.reg (V.length + 11), .reg (V.length + 12), .reg Dst,
                       .reg (V.length + 13), .reg (V.length + 14), .reg (V.length + 10),
                       .reg (V.length + 8), .reg (V.length + 9)]⟩]
                   After := []
                   PastMI := false }
            MI := none
            Legalized := true } := by
  have e80 : constantBits 8 128 = 128 := by decide
  have e0 : constantBits 8 0 = 0 := by decide
  split_ifs with h <;>
  simp [legalizeICmp, MachineIRBuilder.atInstr, MachineInstr.getPredicate,
    MachineIRBuilder.buildConstant, MachineIRBuilder.buildInstr, MachineIRBuilder.buildCopy,
    MachineIRBuilder.buildXor, MachineIRBuilder.buildSelect,
    MachineIRBuilder.insert, DstOp.addDefs, DstOp.addDef,
    DstOp.getLLTTy, MachineRegisterInfo.createGenericVirtualRegister, MachineInstr.getReg,
    MachineInstr.getOperand, hTy, S1, S8, LLT.getSizeInBits, LLT.isPointer,
    constantBits_one_one, e80, e0, h]

/-- C7: for 8-bit `a`, `b` the signed less-than lowering gives the destination
`1` exactly when `a < b` on the two's-complement readings. When the right
operand is matched as the constant 0, the sign flag of `G_SBC(a, 0, 1)` is
copied, and it is bit 7 of `a`. Otherwise the difference is replaced by its
exclusive or with `0x80` exactly when the overflow flag is set, and the sign
flag of a second `G_SBC` of that value, `0` and carry-in `1` is the
destination; it is the sign flag XOR the overflow flag of the first
subtraction. -/
theorem legalizeICmp_S8_SLT_spec (MRI : MachineRegisterInfo) (Dst LHS RHS : Nat) (env : Env)
    (hDst : Dst < MRI.getNumVirtRegs) (hL : LHS < MRI.getNumVirtRegs)
    (hR : RHS < MRI.getNumVirtRegs) (hTy : MRI.getType LHS = S8) (hTyR : MRI.getType RHS = S8)
    (ha : env LHS < 256) (hb : env RHS < 256)
    (hConst : ∀ v, getConstantVRegVal RHS MRI = some v → env RHS = v) :
    ∃ Out,
      legalizeICmp (MachineIRBuilder.atInstr MRI)
        ⟨Opcode.G_ICMP, [.reg Dst, .predicate Predicate.ICMP_SLT, .reg LHS, .reg RHS]⟩ =
          Except.ok Out ∧
      Out.MI = none ∧
      (mi_match_SpecificICst RHS MRI 0 = true →
        env RHS = 0 ∧
        Out.insts =
          [⟨Opcode.G_CONSTANT, [.reg MRI.getNumVirtRegs, .cimm 1]⟩,
           ⟨Opcode.G_SBC, [.reg (MRI.getNumVirtRegs + 1), .reg (MRI.getNumVirtRegs + 2),
             .reg (MRI.getNumVirtRegs + 3), .reg (MRI.getNumVirtRegs + 4),
             .reg (MRI.getNumVirtRegs + 5), .reg LHS, .reg RHS, .reg MRI.getNumVirtRegs]⟩,
           ⟨Opcode.COPY, [.reg Dst, .reg (MRI.getNumVirtRegs + 3)]⟩] ∧
        ∃ env1, execInstrs Out.B.MRI env Out.insts = some env1 ∧
          env1 (MRI.getNumVirtRegs + 3) = (evalSBC (env LHS) 0 1).N ∧
          env1 Dst = env1 (MRI.getNumVirtRegs + 3) ∧
          env1 Dst = env LHS / 128 % 2 ∧
          env1 Dst = boolBit (decide (toSigned 8 (env LHS) < toSigned 8 (env RHS)))) ∧
      (mi_match_SpecificICst RHS MRI 0 = false →
        Out.insts =
          [⟨Opcode.G_CONSTANT, [.reg MRI.getNumVirtRegs, .cimm 1]⟩,
           ⟨Opcode.G_SBC, [.reg (MRI.getNumVirtRegs + 1), .reg (MRI.getNumVirtRegs + 2),
             .reg (MRI.getNumVirtRegs + 3), .reg (MRI.getNumVirtRegs + 4),
             .reg (MRI.getNumVirtRegs + 5), .reg LHS, .reg RHS, .reg MRI.getNumVirtRegs]⟩,
           ⟨Opcode.G_CONSTANT, [.reg (MRI.getNumVirtRegs + 6), .cimm 128]⟩,
           ⟨Opcode.G_XOR, [.reg (MRI.getNumVirtRegs + 7), .reg (MRI.getNumVirtRegs + 1),
             .reg (MRI.getNumVirtRegs + 6)]⟩,
           ⟨Opcode.G_CONSTANT, [.reg (MRI.getNumVirtRegs + 8), .cimm 0]⟩,
           ⟨Opcode.G_CONSTANT, [.reg (MRI.getNumVirtRegs + 9), .cimm 1]⟩,
           ⟨Opcode.G_SELECT, [.reg (MRI.getNumVirtRegs + 10), .reg (MRI.getNumVirtRegs + 4),
             .reg (MRI.getNumVirtRegs + 7), .reg (MRI.getNumVirtRegs + 1)]⟩,
           ⟨Opcode.G_SBC, [.reg (MRI.getNumVirtRegs + 11), .reg (MRI.getNumVirtRegs + 12),
             .reg Dst, .reg (MRI.getNumVirtRegs + 13), .reg (MRI.getNumVirtRegs + 14),
             .reg (MRI.getNumVirtRegs + 10), .reg (MRI.getNumVirtRegs + 8),
             .reg (MRI.getNumVirtRegs + 9)]⟩] ∧
        ∃ env1, execInstrs Out.B.MRI env Out.insts = some env1 ∧
          env1 (MRI.getNumVirtRegs + 10) =
            (if (evalSBC (env LHS) (env RHS) 1).V = 1
             then ((evalSBC (env LHS) (env RHS) 1).A ^^^ 128) % 256
             else (evalSBC (env LHS) (env RHS) 1).A) ∧
          env1 Dst = (evalSBC (env1 (MRI.getNumVirtRegs + 10)) 0 1).N ∧
          env1 Dst = ((evalSBC (env LHS) (env RHS) 1).N + (evalSBC (env LHS) (env RHS) 1).V) % 2 ∧
          env1 Dst = boolBit (decide (toSigned 8 (env LHS) < toSigned 8 (env RHS)))) := by
  obtain ⟨V, I⟩ := MRI
  simp only [MachineRegisterInfo.getNumVirtRegs] at *
  have hins := legalizeICmp_S8_SLT_insts V I Dst LHS RHS hTy
  by_cases hz : mi_match_SpecificICst RHS ⟨V, I⟩ 0 = true
  · rw [if_pos hz] at hins
    have hb0 : env RHS = 0 :=
      mi_match_zero_sound ⟨V, I⟩ RHS env hConst (by rw [hTyR]; exact hb) hz
    refine ⟨_, hins, rfl, fun _ => ⟨hb0, rfl, ?_⟩, fun hf => ?_⟩
    · simp only [LegalizeResult.insts, Option.toList, List.append_nil, List.cons_append,
        List.nil_append, execInstrs, execInstr_CONSTANT, execInstr_COPY, execInstr_SBC,
        Option.some_bind]
      refine ⟨_, rfl, ?_⟩
      simp (disch := omega) only [Env.set_eq, Env.set_ne]
      simp only [hb0, evalSBC, boolBit, toSigned, decide_eq_true_eq, true_and]
      norm_num
      split_ifs <;> omega
    · rw [hz] at hf; exact absurd hf (by decide)
  · rw [if_neg hz] at hins
    refine ⟨_, hins, rfl, fun ht => absurd ht hz, fun _ => ⟨rfl, ?_⟩⟩
    simp only [LegalizeResult.insts, Option.toList, List.append_nil, List.cons_append,
      List.nil_append, execInstrs, execInstr_CONSTANT, execInstr_COPY, execInstr_SBC,
      execInstr_XOR, execInstr_SELECT, Option.some_bind]
    refine ⟨_, rfl, ?_⟩
    simp (disch := omega) only [Env.set_eq, Env.set_ne, getType_new]
    simp only [S8, LLT.getSizeInBits, List.getD_cons_succ, List.getD_cons_zero]
    have hA := evalSBC_A_lt (env LHS) (env RHS) 1
    have hx := xor_128 _ hA
    have hNV := evalSBC_N_xor_V (env LHS) (env RHS) 1 ha hb (by norm_num)
    have hN := evalSBC_N (env LHS) (env RHS) 1
    have hcmp : decide (toSigned 8 (env LHS) - toSigned 8 (env RHS) - (1 - ((1 : Nat) : Int)) < 0)
        = decide (toSigned 8 (env LHS) < toSigned 8 (env RHS)) := by
      apply decide_eq_decide.mpr; omega
    rw [hcmp] at hNV
    have h28 : (2 : Nat) ^ 8 = 256 := by norm_num
    rw [h28] at hx ⊢
    rw [← hNV]
    rcases evalSBC_V_cases (env LHS) (env RHS) 1 with hV | hV
    · simp only [hV, if_true, true_and, and_true, evalSBC_zero_one_N _ hA]
      simp
      omega
    · have hx2 : ((evalSBC (env LHS) (env RHS) 1).A ^^^ 128) % 256 < 256 :=
        Nat.mod_lt _ (by norm_num)
      simp only [hV, if_true, true_and, and_true, evalSBC_zero_one_N _ hx2]
      simp
      rw [hx, evalSBC_zero_one_N _ (by split_ifs <;> omega), hN]
      split_ifs <;> omega

theorem legalizeICmp_S8_SLT_spec_witness :
    ∃ Out, legalizeICmp
        (MachineIRBuilder.atInstr ⟨[S1, S8, S8], [⟨Opcode.G_CONSTANT, [.reg 2, .cimm 0]⟩]⟩)
        ⟨Opcode.G_ICMP, [.reg 0, .predicate Predicate.ICMP_SLT, .reg 1, .reg 2]⟩ =
          Except.ok Out ∧
      ∃ env1, execInstrs Out.B.MRI (envOf [0, 200, 0]) Out.insts = some env1 ∧ env1 0 = 1 := by
  obtain ⟨Out, h1, _, h2, _⟩ :=
    legalizeICmp_S8_SLT_spec ⟨[S1, S8, S8], [⟨Opcode.G_CONSTANT, [.reg 2, .cimm 0]⟩]⟩ 0 1 2
      (envOf [0, 200, 0]) (by decide) (by decide) (by decide) (by decide) (by decide)
      (by decide) (by decide) (fun v h => Option.some.inj h)
  obtain ⟨_, _, env1, h3, _, _, h4, _⟩ := h2 (by decide)
  exact ⟨Out, h1, env1, h3, h4.trans (by decide)⟩

/-! ## Lemmas on splitting into pieces and merging -/

theorem addDefs_replicate (Ty : LLT) (k : Nat) (V : List LLT) (I : List MachineInstr) :
    DstOp.addDefs (List.replicate k (DstOp.ty Ty)) ⟨V, I⟩ =
      (⟨V ++ List.replicate k Ty, I⟩, List.range' V.length k) := by
  induction k generalizing V with
  | zero => simp [DstOp.addDefs]
  | succ k ih =>
    simp only [List.replicate_succ, DstOp.addDefs, DstOp.addDef,
      MachineRegisterInfo.createGenericVirtualRegister, ih, List.length_append,
      List.length_singleton, List.append_assoc, List.singleton_append, List.range'_succ]

theorem regsOf_map_reg (l : List Nat) : regsOf (l.map MachineOperand.reg) = some l := by
  induction l with
  | nil => rfl
  | cons a l ih => simp [regsOf, ih]

theorem regsOf_map_reg_append (l : List Nat) (s : Nat) :
    regsOf (l.map MachineOperand.reg ++ [MachineOperand.reg s]) = some (l ++ [s]) := by
  have := regsOf_map_reg (l ++ [s])
  simpa using this

theorem getReg_map_reg_append (Opc : Opcode) (l : List Nat) (rest : List MachineOperand)
    (i : Nat) (h : i < l.length) :
    MachineInstr.getReg ⟨Opc, l.map MachineOperand.reg ++ rest⟩ i = l.getD i 0 := by
  simp [MachineInstr.getReg, MachineInstr.getOperand, List.getD_eq_getElem?_getD,
    List.getElem?_append_left, h]

theorem getOperand_map_reg_append (Opc : Opcode) (l : List Nat) (rest : List MachineOperand)
    (i : Nat) (h : i < l.length) :
    MachineInstr.getOperand ⟨Opc, l.map MachineOperand.reg ++ rest⟩ i =
      MachineOperand.reg (l.getD i 0) := by
  simp [MachineInstr.getOperand, List.getD_eq_getElem?_getD,
    List.getElem?_append_left, h]

theorem getD_range' (b k i : Nat) (h : i < k) : (List.range' b k).getD i 0 = b + i := by
  simp [List.getD_eq_getElem?_getD, List.getElem?_range', h]

theorem map_getReg_range (Opc : Opcode) (b k : Nat) (rest : List MachineOperand) :
    (List.range k).map
        (fun Idx => MachineInstr.getReg
          ⟨Opc, (List.range' b k).map MachineOperand.reg ++ rest⟩ Idx) =
      List.range' b k := by
  rw [List.range'_eq_map_range]
  apply List.map_congr_left
  intro i hi
  have hi' : i < k := List.mem_range.mp hi
  rw [getReg_map_reg_append _ _ _ _ (by simpa using hi'), ← List.range'_eq_map_range,
    getD_range' _ _ _ hi']

theorem unmergeInto_range' (w : Nat) (k : Nat) (env : Env) (v b r : Nat) :
    unmergeInto w env v (List.range' b k) r =
      if b ≤ r ∧ r < b + k then v / 2 ^ (w * (r - b)) % 2 ^ w else env r := by
  induction k generalizing env v b with
  | zero =>
    simp only [List.range'_zero, unmergeInto]
    rw [if_neg (by omega)]
  | succ k ih =>
    simp only [List.range'_succ, unmergeInto, ih]
    by_cases h1 : b + 1 ≤ r ∧ r < b + 1 + k
    · have h2 : b ≤ r ∧ r < b + (k + 1) := by omega
      rw [if_pos h1, if_pos h2]
      have h3 : r - b = (r - (b + 1)) + 1 := by omega
      rw [h3, Nat.mul_add, Nat.mul_one, Nat.pow_add, Nat.div_div_eq_div_mul,
        Nat.mul_comm (2 ^ w)]
    · rw [if_neg h1]
      by_cases h4 : r = b
      · subst h4
        simp [Env.set]
      · have h2 : ¬ (b ≤ r ∧ r < b + (k + 1)) := by omega
        rw [if_neg h2, Env.set_ne _ _ h4]

theorem execInstr_UNMERGE (MRI : MachineRegisterInfo) (env : Env) (b k s : Nat) (hk : 0 < k) :
    execInstr MRI env
        ⟨Opcode.G_UNMERGE_VALUES, (List.range' b k).map MachineOperand.reg ++
          [MachineOperand.reg s]⟩ =
      some (unmergeInto (MRI.getType b).getSizeInBits env (env s) (List.range' b k)) := by
  obtain ⟨k, rfl⟩ : ∃ j, k = j + 1 := ⟨k - 1, by omega⟩
  have h1 : regsOf ((List.range' b (k + 1)).map MachineOperand.reg ++ [MachineOperand.reg s]) =
      some (b :: (List.range' (b + 1) k ++ [s])) := by
    rw [regsOf_map_reg_append, List.range'_succ, List.cons_append]
  have h2 : (b :: (List.range' (b + 1) k ++ [s])).dropLast = List.range' b (k + 1) := by
    rw [← List.cons_append, List.dropLast_concat, List.range'_succ]
  have h3 : ∀ h, (b :: (List.range' (b + 1) k ++ [s])).getLast h = s := by
    intro h
    simp [List.getLast_cons, List.getLast_append]
  simp only [execInstr, h1, h2, h3]

theorem execInstr_MERGE (MRI : MachineRegisterInfo) (env : Env) (d p : Nat) (ps : List Nat) :
    execInstr MRI env
        ⟨Opcode.G_MERGE_VALUES, MachineOperand.reg d :: (p :: ps).map MachineOperand.reg⟩ =
      some (env.set d (mergeValues (MRI.getType p).getSizeInBits ((p :: ps).map env))) := by
  simp only [execInstr, regsOf_map_reg]

theorem mergeValues_append (w : Nat) (l1 l2 : List Nat) :
    mergeValues w (l1 ++ l2) = mergeValues w l1 + 2 ^ (w * l1.length) * mergeValues w l2 := by
  induction l1 with
  | nil => simp [mergeValues]
  | cons a l ih =>
    rw [List.cons_append]
    simp only [mergeValues, ih, List.length_cons]
    rw [Nat.mul_succ, Nat.pow_add]
    ring

theorem mergeValues_replicate_zero (w m : Nat) : mergeValues w (List.replicate m 0) = 0 := by
  induction m with
  | zero => rfl
  | succ m ih => simp [List.replicate_succ, mergeValues, ih]

theorem mergeValues_replicate_ones (w m : Nat) :
    mergeValues w (List.replicate m (2 ^ w - 1)) = 2 ^ (w * m) - 1 := by
  induction m with
  | zero => simp [mergeValues]
  | succ m ih =>
    simp only [List.replicate_succ, mergeValues, ih]
    have h1 : 0 < 2 ^ w := Nat.pow_pos (by norm_num)
    have h2 : 0 < 2 ^ (w * m) := Nat.pow_pos (by norm_num)
    have h3 : 2 ^ (w * (m + 1)) = 2 ^ w * 2 ^ (w * m) := by
      rw [Nat.mul_succ, Nat.pow_add, Nat.mul_comm]
    rw [h3, Nat.mul_sub, Nat.mul_one]
    have h4 : 2 ^ w ≤ 2 ^ w * 2 ^ (w * m) := Nat.le_mul_of_pos_right _ h2
    omega

theorem mergeValues_unmerged (w k : Nat) (v b : Nat) :
    mergeValues w ((List.range' b k).map (fun r => v / 2 ^ (w * (r - b)) % 2 ^ w)) =
      v % 2 ^ (w * k) := by
  induction k generalizing v b with
  | zero => simp [mergeValues, Nat.mod_one]
  | succ k ih =>
    have h1 : (List.range' (b + 1) k).map (fun r => v / 2 ^ (w * (r - b)) % 2 ^ w) =
        (List.range' (b + 1) k).map (fun r => v / 2 ^ w / 2 ^ (w * (r - (b + 1))) % 2 ^ w) := by
      apply List.map_congr_left
      intro r hr
      have hr' := (List.mem_range'_1.mp hr).1
      have h3 : r - b = (r - (b + 1)) + 1 := by omega
      rw [h3, Nat.mul_add, Nat.mul_one, Nat.pow_add, Nat.div_div_eq_div_mul,
        Nat.mul_comm (2 ^ w)]
    simp only [List.range'_succ, List.map_cons, mergeValues, h1, ih, Nat.sub_self,
      Nat.mul_zero, Nat.pow_zero, Nat.div_one]
    rw [Nat.mul_succ, Nat.add_comm (w * k) w, Nat.pow_add, Nat.mod_mul]

theorem pushFill_eq (Fill n : Nat) (Fuel k : Nat) (Parts : List Nat) (hk : k ≤ n)
    (hF : n - k ≤ Fuel) :
    pushFill Fill (8 * n) Fuel Parts (8 * k) = Parts ++ List.replicate (n - k) Fill := by
  induction Fuel generalizing k Parts with
  | zero =>
    have : n - k = 0 := by omega
    simp [pushFill, this]
  | succ Fuel ih =>
    unfold pushFill
    by_cases h : 8 * k < 8 * n
    · rw [if_pos h]
      have h1 : 8 * k + 8 = 8 * (k + 1) := by ring
      rw [h1, ih (k + 1) _ (by omega) (by omega)]
      have h2 : n - k = (n - (k + 1)) + 1 := by omega
      rw [h2, List.replicate_succ, List.append_assoc, List.singleton_append]
    · rw [if_neg h]
      have : n - k = 0 := by omega
      simp [this]

/-! ## Sign extension -/

theorem and_two_pow_eq_zero_iff (v m : Nat) (hv : v < 2 ^ (m + 1)) :
    v &&& 2 ^ m = 0 ↔ v < 2 ^ m := by
  constructor
  · intro h
    by_contra hge
    have hge' : 2 ^ m ≤ v := Nat.le_of_not_lt hge
    have hdiv : v / 2 ^ m = 1 := by
      have h1 : v / 2 ^ m < 2 := by
        rw [Nat.div_lt_iff_lt_mul (Nat.pow_pos (by norm_num))]
        rw [Nat.pow_succ] at hv; omega
      have h2 : 0 < v / 2 ^ m := Nat.div_pos hge' (Nat.pow_pos (by norm_num))
      omega
    have hb : v.testBit m = true := by
      rw [Nat.testBit_to_div_mod, hdiv]; rfl
    have h3 : (v &&& 2 ^ m).testBit m = true := by
      rw [Nat.testBit_and, hb, Nat.testBit_two_pow_self]; rfl
    rw [h] at h3
    simp at h3
  · intro h
    apply Nat.eq_of_testBit_eq
    intro i
    rw [Nat.testBit_and, Nat.testBit_two_pow, Nat.zero_testBit]
    by_cases hi : m = i
    · subst hi
      rw [Nat.testBit_lt_two_pow h]; rfl
    · simp [hi]

theorem and_two_pow_lt (v m : Nat) : v &&& 2 ^ m < 2 ^ (m + 1) := by
  have h1 : v &&& 2 ^ m ≤ 2 ^ m := Nat.and_le_right
  have h2 : 2 ^ m < 2 ^ (m + 1) := Nat.pow_lt_pow_right (by norm_num) (by omega)
  omega

theorem constantBits_negOne (Width : Nat) : constantBits Width (-1) = 2 ^ Width - 1 := by
  unfold constantBits
  have h1 : (0 : Int) < (2 : Int) ^ Width := by positivity
  have h2 : (-1 : Int) % (2 : Int) ^ Width = (2 : Int) ^ Width - 1 := by
    rw [← Int.add_mul_emod_self (b := 1), Int.emod_eq_of_lt (by omega) (by omega)]
    ring
  rw [h2]
  have h3 : ((2 : Int) ^ Width - 1) = ((2 ^ Width - 1 : Nat) : Int) := by
    have : 1 ≤ 2 ^ Width := Nat.one_le_two_pow
    push_cast [Nat.cast_sub this]
    ring
  rw [h3]; rfl

theorem constantBits_zero (Width : Nat) : constantBits Width 0 = 0 := by
  simp [constantBits]

/-- The values of sign extension: a value without its top bit is unchanged, a
value with its top bit gets all the bits above set. -/
theorem signExtend_value (s d v : Nat) (hsd : s ≤ d) (hv : v < 2 ^ s) :
    (toSigned s v % (2 : Int) ^ d).toNat =
      if v < 2 ^ (s - 1) then v else v + (2 ^ d - 2 ^ s) := by
  have hpow : 2 ^ s ≤ 2 ^ d := Nat.pow_le_pow_right (by norm_num) hsd
  have hpowI : ((2 : Int) ^ s) ≤ (2 : Int) ^ d := by exact_mod_cast hpow
  have hvI : (v : Int) < (2 : Int) ^ s := by exact_mod_cast hv
  unfold toSigned
  split_ifs with h
  · rw [Int.emod_eq_of_lt (by omega) (by omega)]; rfl
  · have h1 : ((v : Int) - (2 : Int) ^ s) % (2 : Int) ^ d = (v : Int) - 2 ^ s + 2 ^ d := by
      have h0 : (0 : Int) ≤ (2 : Int) ^ (s - 1) := by positivity
      have hge : (2 : Int) ^ (s - 1) ≤ (v : Int) := by exact_mod_cast Nat.le_of_not_lt h
      rw [← Int.add_mul_emod_self (b := 1), Int.emod_eq_of_lt (by omega) (by omega)]
      ring
    rw [h1]
    have h2 : (v : Int) - 2 ^ s + 2 ^ d = ((v + (2 ^ d - 2 ^ s) : Nat) : Int) := by
      push_cast [Nat.cast_sub hpow]
      ring
    rw [h2]; rfl

theorem getType_eq_scalar_lt (MRI : MachineRegisterInfo) (r b : Nat)
    (h : MRI.getType r = LLT.scalar b) : r < MRI.VRegInfo.length := by
  by_contra hge
  have : MRI.getType r = LLT.invalid := by
    simp [MachineRegisterInfo.getType, List.getD_eq_getElem?_getD,
      List.getElem?_eq_none (Nat.le_of_not_lt hge)]
  rw [this] at h
  exact LLT.noConfusion h

theorem getReg_cons_zero (Opc : Opcode) (r : Nat) (l : List MachineOperand) :
    MachineInstr.getReg ⟨Opc, MachineOperand.reg r :: l⟩ 0 = r := rfl

theorem getReg_cons_succ (Opc : Opcode) (x : MachineOperand) (l : List MachineOperand)
    (i : Nat) :
    MachineInstr.getReg ⟨Opc, x :: l⟩ (i + 1) = MachineInstr.getReg ⟨Opc, l⟩ i := rfl

theorem buildUnmerge_eq (V : List LLT) (I : List MachineInstr) (Bf Af : List MachineInstr)
    (Ty : LLT) (Src : Nat) :
    MachineIRBuilder.buildUnmerge ⟨⟨V, I⟩, Bf, Af, false⟩ Ty Src =
      (⟨⟨V ++ List.replicate
            (((MachineRegisterInfo.mk V I).getType Src).getSizeInBits / Ty.getSizeInBits) Ty, I⟩,
          Bf ++ [⟨Opcode.G_UNMERGE_VALUES,
            (List.range' V.length
              (((MachineRegisterInfo.mk V I).getType Src).getSizeInBits / Ty.getSizeInBits)).map
              MachineOperand.reg ++ [MachineOperand.reg Src]⟩], Af, false⟩,
        ⟨Opcode.G_UNMERGE_VALUES,
          (List.range' V.length
            (((MachineRegisterInfo.mk V I).getType Src).getSizeInBits / Ty.getSizeInBits)).map
            MachineOperand.reg ++ [MachineOperand.reg Src]⟩) := by
  simp [MachineIRBuilder.buildUnmerge, MachineIRBuilder.buildInstr, addDefs_replicate,
    MachineIRBuilder.insert]

theorem getNumOperands_unmerge (Opc : Opcode) (b k s : Nat) :
    MachineInstr.getNumOperands
      ⟨Opc, (List.range' b k).map MachineOperand.reg ++ [MachineOperand.reg s]⟩ = k + 1 := by
  simp [MachineInstr.getNumOperands]

/-- What `legalizeSExt` emits for a source of `k` bytes, at least two, and a
destination of `n` bytes. -/
theorem legalizeSExt_bytes_insts (V : List LLT) (I : List MachineInstr) (Dst Src k n : Nat)
    (hk : 2 ≤ k) (hkn : k ≤ n)
    (hSrcTy : (MachineRegisterInfo.mk V I).getType Src = LLT.scalar (8 * k))
    (hDstTy : (MachineRegisterInfo.mk V I).getType Dst = LLT.scalar (8 * n)) :
    legalizeSExt (MachineIRBuilder.atInstr ⟨V, I⟩)
        ⟨Opcode.G_SEXT, [.reg Dst, .reg Src]⟩ =
      Except.ok
        { B := { MRI := ⟨V ++ ([LLT.scalar (8 * k), LLT.scalar (8 * k), LLT.scalar (8 * k),
                    S1, S8, S8, S8] ++ List.replicate k S8), I⟩
                 Before := [⟨Opcode.G_CONSTANT, [.reg V.length, .cimm (2 ^ (8 * k - 1))]⟩,
                   ⟨Opcode.G_AND, [.reg (V.length + 1), .reg Src, .reg V.length]⟩,
                   ⟨Opcode.G_CONSTANT, [.reg (V.length + 2), .cimm 0]⟩,
                   ⟨Opcode.G_ICMP, [.reg (V.length + 3), .predicate Predicate.ICMP_EQ,
                     .reg (V.length + 1), .reg (V.length + 2)]⟩,
                   ⟨Opcode.G_CONSTANT, [.reg (V.length + 4), .cimm 255]⟩,
                   ⟨Opcode.G_CONSTANT, [.reg (V.length + 5), .cimm 0]⟩,
                   ⟨Opcode.G_SELECT, [.reg (V.length + 6), .reg (V.length + 3),
                     .reg (V.length + 5), .reg (V.length + 4)]⟩,
                   ⟨Opcode.G_UNMERGE_VALUES,
                     (List.range' (V.length + 7) k).map MachineOperand.reg ++ [.reg Src]⟩,
                   ⟨Opcode.G_MERGE_VALUES, .reg Dst ::
                     (List.range' (V.length + 7) k ++
                       List.replicate (n - k) (V.length + 6)).map MachineOperand.reg⟩]
                 After := []
                 PastMI := false }
          MI := none
          Legalized := true } := by
  have hS1 : ¬ 8 * k = 1 := by omega
  have hS8 : ¬ k = 1 := by omega
  have hmask : constantBits (8 * k) ((getSignMask (8 * k) : Nat) : Int) = 2 ^ (8 * k - 1) :=
    constantBits_small _ _ (Nat.pow_lt_pow_right (by norm_num) (by omega))
  have e255 : constantBits 8 (-1) = 255 := by decide
  have hdiv : 8 * k / 8 = k := by omega
  have hSrcLt : Src < V.length := getType_eq_scalar_lt _ _ _ hSrcTy
  simp [legalizeSExt, MachineIRBuilder.atInstr, getReg_cons_zero, getReg_cons_succ,
    hSrcTy, hDstTy, hS1, hS8, LLT.getSizeInBits,
    MachineIRBuilder.buildConstant, MachineIRBuilder.buildInstr, MachineIRBuilder.buildAnd,
    MachineIRBuilder.buildICmp, MachineIRBuilder.buildSelect, buildUnmerge_eq,
    MachineIRBuilder.buildMerge, getType_old _ _ _ _ hSrcLt, hdiv, getNumOperands_unmerge,
    map_getReg_range,
    pushFill_eq (V.length + 6) n (8 * n) k (List.range' (V.length + 7) k) hkn (by omega),
    MachineIRBuilder.insert, DstOp.addDefs, DstOp.addDef, DstOp.getLLTTy,
    MachineRegisterInfo.createGenericVirtualRegister, hmask, e255, constantBits_zero, S1, S8]

theorem execInstr_AND (MRI : MachineRegisterInfo) (env : Env) (d a b : Nat) :
    execInstr MRI env ⟨Opcode.G_AND, [.reg d, .reg a, .reg b]⟩ =
      some (env.set d ((env a &&& env b) % 2 ^ (MRI.getType d).getSizeInBits)) := rfl

theorem execInstrs_append (MRI : MachineRegisterInfo) (env : Env) (l1 l2 : List MachineInstr) :
    execInstrs MRI env (l1 ++ l2) =
      (execInstrs MRI env l1).bind (fun env1 => execInstrs MRI env1 l2) := by
  induction l1 generalizing env with
  | nil => rfl
  | cons a l ih =>
    simp only [List.cons_append, execInstrs]
    cases execInstr MRI env a with
    | none => rfl
    | some e => exact ih e

/-- The value of the pieces that `legalizeSExt` merges: the source below, the
fill byte `0x00` or `0xFF` above. -/
theorem mergeValues_fill (k n v : Nat) (f : Nat) (hkn : k ≤ n) (hv : v < 2 ^ (8 * k))
    (hf : f = if v < 2 ^ (8 * k - 1) then 0 else 255) :
    v + 2 ^ (8 * k) * mergeValues 8 (List.replicate (n - k) f) =
      (toSigned (8 * k) v % (2 : Int) ^ (8 * n)).toNat := by
  rw [signExtend_value (8 * k) (8 * n) v (by omega) hv, hf]
  split_ifs with h
  · rw [mergeValues_replicate_zero]; simp
  · have h255 : (255 : Nat) = 2 ^ 8 - 1 := by norm_num
    rw [h255, mergeValues_replicate_ones, Nat.mul_sub, Nat.mul_one, ← Nat.pow_add]
    have : 8 * k + 8 * (n - k) = 8 * n := by omega
    rw [this]

theorem getType_new_replicate (V : List LLT) (I : List MachineInstr) (l : List LLT) (Ty : LLT)
    (k i : Nat) (hi : i < k) :
    (MachineRegisterInfo.mk (V ++ (l ++ List.replicate k Ty)) I).getType
      (V.length + l.length + i) = Ty := by
  rw [← List.append_assoc]
  have h := getType_new (V ++ l) I (List.replicate k Ty) i
  rw [List.length_append] at h
  rw [h]
  simp [List.getD_eq_getElem?_getD, List.getElem?_replicate, hi]

/-- The values of the first seven instructions that `legalizeSExt` emits for a
source that is not one bit wide: the fill register gets `0x00` when the sign
bit of the source is clear and `0xFF` otherwise. -/
theorem legalizeSExt_fill_exec (MRI : MachineRegisterInfo) (env : Env) (N Src m : Nat)
    (hSrc : Src < N) (hv : env Src < 2 ^ (m + 1))
    (hT1 : (MRI.getType (N + 1)).getSizeInBits = m + 1) :
    ∃ env1,
      execInstrs MRI env
        [⟨Opcode.G_CONSTANT, [.reg N, .cimm (2 ^ m)]⟩,
         ⟨Opcode.G_AND, [.reg (N + 1), .reg Src, .reg N]⟩,
         ⟨Opcode.G_CONSTANT, [.reg (N + 2), .cimm 0]⟩,
         ⟨Opcode.G_ICMP, [.reg (N + 3), .predicate Predicate.ICMP_EQ,
           .reg (N + 1), .reg (N + 2)]⟩,
         ⟨Opcode.G_CONSTANT, [.reg (N + 4), .cimm 255]⟩,
         ⟨Opcode.G_CONSTANT, [.reg (N + 5), .cimm 0]⟩,
         ⟨Opcode.G_SELECT, [.reg (N + 6), .reg (N + 3), .reg (N + 5), .reg (N + 4)]⟩] =
        some env1 ∧
      (∀ r, r < N → env1 r = env r) ∧
      env1 (N + 1) = env Src &&& 2 ^ m ∧
      env1 (N + 3) = boolBit (decide (env Src &&& 2 ^ m = 0)) ∧
      env1 (N + 6) = (if env Src &&& 2 ^ m = 0 then 0 else 255) ∧
      env1 (N + 6) = (if env Src < 2 ^ m then 0 else 255) := by
  simp only [execInstrs, execInstr_CONSTANT, execInstr_AND, execInstr_ICMP, execInstr_SELECT,
    Option.some_bind]
  refine ⟨_, rfl, ?_, ?_⟩
  · intro r hr
    simp (disch := omega) only [Env.set_ne]
  simp (disch := omega) only [Env.set_eq, Env.set_ne, hT1]
  rw [Nat.mod_eq_of_lt (and_two_pow_lt _ _)]
  have hiff := and_two_pow_eq_zero_iff (env Src) m hv
  simp only [evalICmp, boolBit, decide_eq_true_eq, true_and]
  by_cases h : env Src &&& 2 ^ m = 0
  · have h' := hiff.mp h
    simp [h, h']
  · have h' : ¬ env Src < 2 ^ m := fun hh => h (hiff.mpr hh)
    simp [h, h']

/-- What `legalizeSExt` emits for a source of one bit. -/
theorem legalizeSExt_S1_insts (V : List LLT) (I : List MachineInstr) (Dst Src w : Nat)
    (hSrcTy : (MachineRegisterInfo.mk V I).getType Src = S1)
    (hDstTy : (MachineRegisterInfo.mk V I).getType Dst = LLT.scalar w) :
    legalizeSExt (MachineIRBuilder.atInstr ⟨V, I⟩)
        ⟨Opcode.G_SEXT, [.reg Dst, .reg Src]⟩ =
      Except.ok
        { B := { MRI := ⟨V ++ [LLT.scalar w, LLT.scalar w], I⟩
                 Before := [⟨Opcode.G_CONSTANT, [.reg V.length, .cimm (2 ^ w - 1)]⟩,
                   ⟨Opcode.G_CONSTANT, [.reg (V.length + 1), .cimm 0]⟩,
                   ⟨Opcode.G_SELECT, [.reg Dst, .reg Src, .reg V.length,
                     .reg (V.length + 1)]⟩]
                 After := []
                 PastMI := false }
          MI := none
          Legalized := true } := by
  simp [legalizeSExt, MachineIRBuilder.atInstr, getReg_cons_zero, getReg_cons_succ,
    hSrcTy, hDstTy, LLT.getSizeInBits,
    MachineIRBuilder.buildConstant, MachineIRBuilder.buildInstr,
    MachineIRBuilder.buildSelect,
    MachineIRBuilder.insert, DstOp.addDefs, DstOp.addDef, DstOp.getLLTTy,
    MachineRegisterInfo.createGenericVirtualRegister, constantBits_negOne, constantBits_zero]

/-- What `legalizeSExt` emits for a source of one byte and a destination of `n`
bytes. -/
theorem legalizeSExt_S8_insts (V : List LLT) (I : List MachineInstr) (Dst Src n : Nat)
    (hn : 1 ≤ n)
    (hSrcTy : (MachineRegisterInfo.mk V I).getType Src = LLT.scalar 8)
    (hDstTy : (MachineRegisterInfo.mk V I).getType Dst = LLT.scalar (8 * n)) :
    legalizeSExt (MachineIRBuilder.atInstr ⟨V, I⟩)
        ⟨Opcode.G_SEXT, [.reg Dst, .reg Src]⟩ =
      Except.ok
        { B := { MRI := ⟨V ++ [S8, S8, S8, S1, S8, S8, S8], I⟩
                 Before := [⟨Opcode.G_CONSTANT, [.reg V.length, .cimm (2 ^ 7)]⟩,
                   ⟨Opcode.G_AND, [.reg (V.length + 1), .reg Src, .reg V.length]⟩,
                   ⟨Opcode.G_CONSTANT, [.reg (V.length + 2), .cimm 0]⟩,
                   ⟨Opcode.G_ICMP, [.reg (V.length + 3), .predicate Predicate.ICMP_EQ,
                     .reg (V.length + 1), .reg (V.length + 2)]⟩,
                   ⟨Opcode.G_CONSTANT, [.reg (V.length + 4), .cimm 255]⟩,
                   ⟨Opcode.G_CONSTANT, [.reg (V.length + 5), .cimm 0]⟩,
                   ⟨Opcode.G_SELECT, [.reg (V.length + 6), .reg (V.length + 3),
                     .reg (V.length + 5), .reg (V.length + 4)]⟩,
                   ⟨Opcode.G_MERGE_VALUES, .reg Dst ::
                     ([Src] ++ List.replicate (n - 1) (V.length + 6)).map MachineOperand.reg⟩]
                 After := []
                 PastMI := false }
          MI := none
          Legalized := true } := by
  have hmask : constantBits 8 ((getSignMask 8 : Nat) : Int) = 2 ^ 7 := by decide
  have e255 : constantBits 8 (-1) = 255 := by decide
  have hpf := pushFill_eq (V.length + 6) n (8 * n) 1 [Src] hn (by omega)
  rw [Nat.mul_one] at hpf
  simp [legalizeSExt, MachineIRBuilder.atInstr, getReg_cons_zero, getReg_cons_succ,
    hSrcTy, hDstTy, LLT.getSizeInBits,
    MachineIRBuilder.buildConstant, MachineIRBuilder.buildInstr, MachineIRBuilder.buildAnd,
    MachineIRBuilder.buildICmp, MachineIRBuilder.buildSelect,
    MachineIRBuilder.buildMerge, hpf,
    MachineIRBuilder.insert, DstOp.addDefs, DstOp.addDef, DstOp.getLLTTy,
    MachineRegisterInfo.createGenericVirtualRegister, hmask, e255, constantBits_zero, S1, S8]

theorem map_bytes_range' (b k v : Nat) :
    (List.range' b k).map (fun r => v / 2 ^ (8 * (r - b)) % 2 ^ 8) =
      (List.range k).map (fun i => v / 256 ^ i % 256) := by
  rw [List.range'_eq_map_range, List.map_map]
  apply List.map_congr_left
  intro i _
  simp only [Function.comp, Nat.add_sub_cancel_left, Nat.pow_mul]
  norm_num

theorem execInstr_MERGE_cons (MRI : MachineRegisterInfo) (env : Env) (d p : Nat)
    (ps : List Nat) :
    execInstr MRI env
        ⟨Opcode.G_MERGE_VALUES,
          MachineOperand.reg d :: MachineOperand.reg p :: ps.map MachineOperand.reg⟩ =
      some (env.set d (mergeValues (MRI.getType p).getSizeInBits (env p :: ps.map env))) :=
  execInstr_MERGE MRI env d p ps

theorem execInstr_MERGE_head (MRI : MachineRegisterInfo) (env : Env) (d : Nat)
    (Parts : List Nat) (w : Nat)
    (hw : ∀ p, Parts.head? = some p → (MRI.getType p).getSizeInBits = w)
    (hne : Parts ≠ []) :
    execInstr MRI env
        ⟨Opcode.G_MERGE_VALUES, MachineOperand.reg d :: Parts.map MachineOperand.reg⟩ =
      some (env.set d (mergeValues w (Parts.map env))) := by
  cases Parts with
  | nil => exact absurd rfl hne
  | cons p ps => rw [execInstr_MERGE, hw p rfl]

theorem map_unmergeInto_range' (w k : Nat) (env : Env) (v b : Nat) :
    (List.range' b k).map (unmergeInto w env v (List.range' b k)) =
      (List.range' b k).map (fun r => v / 2 ^ (w * (r - b)) % 2 ^ w) := by
  apply List.map_congr_left
  intro r hr
  have h := List.mem_range'_1.mp hr
  rw [unmergeInto_range', if_pos h]

theorem unmergeInto_range'_of_lt (w k : Nat) (env : Env) (v b r : Nat) (h : r < b) :
    unmergeInto w env v (List.range' b k) r = env r := by
  rw [unmergeInto_range', if_neg (by omega)]

theorem map_set_range' (env : Env) (d x b k : Nat) (h : d < b) :
    (List.range' b k).map (env.set d x) = (List.range' b k).map env := by
  apply List.map_congr_left
  intro r hr
  have h1 := (List.mem_range'_1.mp hr).1
  rw [Env.set_ne _ _ (by omega)]

theorem sext_merge_value (k n v f : Nat) (hkn : k ≤ n) (hv : v < 2 ^ (8 * k))
    (hf : f = if v < 2 ^ (8 * k - 1) then 0 else 255) :
    mergeValues 8 ((List.range k).map (fun i => v / 256 ^ i % 256) ++ List.replicate (n - k) f) =
      (toSigned (8 * k) v % (2 : Int) ^ (8 * n)).toNat := by
  rw [mergeValues_append, ← map_bytes_range' 0 k v, mergeValues_unmerged, Nat.mod_eq_of_lt hv,
    List.length_map, List.length_range', mergeValues_fill k n v f hkn hv hf]

/-- C10: `legalizeSExt` computes the two's-complement sign extension. A 1-bit
source selects between the all-ones constant and the zero constant of the
destination type, for every destination width. A source of `k` bytes and a
destination of `n > k` bytes are merged from the `k` bytes of the source in
order followed by `n - k` copies of a fill byte, which is `0x00` when the
source AND its sign mask is zero and `0xFF` otherwise. -/
theorem legalizeSExt_spec (MRI : MachineRegisterInfo) (Dst Src : Nat) (env : Env)
    (hDst : Dst < MRI.getNumVirtRegs) (hSrc : Src < MRI.getNumVirtRegs) (hne : Dst ≠ Src) :
    (∀ w, MRI.getType Src = S1 → MRI.getType Dst = LLT.scalar w → env Src < 2 →
      ∃ Out,
        legalizeSExt (MachineIRBuilder.atInstr MRI) ⟨Opcode.G_SEXT, [.reg Dst, .reg Src]⟩ =
          Except.ok Out ∧
        Out.MI = none ∧
        Out.insts =
          [⟨Opcode.G_CONSTANT, [.reg MRI.getNumVirtRegs, .cimm (2 ^ w - 1)]⟩,
           ⟨Opcode.G_CONSTANT, [.reg (MRI.getNumVirtRegs + 1), .cimm 0]⟩,
           ⟨Opcode.G_SELECT, [.reg Dst, .reg Src, .reg MRI.getNumVirtRegs,
             .reg (MRI.getNumVirtRegs + 1)]⟩] ∧
        ∃ env0 env1,
          execInstr MRI env ⟨Opcode.G_SEXT, [.reg Dst, .reg Src]⟩ = some env0 ∧
          execInstrs Out.B.MRI env Out.insts = some env1 ∧
          env1 Dst = (if env Src = 0 then 0 else 2 ^ w - 1) ∧
          env1 Dst = (toSigned 1 (env Src) % (2 : Int) ^ w).toNat ∧
          env1 Dst = env0 Dst) ∧
    (∀ k n, 1 ≤ k → k < n → MRI.getType Src = LLT.scalar (8 * k) →
      MRI.getType Dst = LLT.scalar (8 * n) → env Src < 2 ^ (8 * k) →
      ∃ Out,
        legalizeSExt (MachineIRBuilder.atInstr MRI) ⟨Opcode.G_SEXT, [.reg Dst, .reg Src]⟩ =
          Except.ok Out ∧
        Out.MI = none ∧
        Out.insts.getLast? = some ⟨Opcode.G_MERGE_VALUES, .reg Dst ::
          ((if k = 1 then [Src] else List.range' (MRI.getNumVirtRegs + 7) k) ++
            List.replicate (n - k) (MRI.getNumVirtRegs + 6)).map MachineOperand.reg⟩ ∧
        ∃ env0 env1,
          execInstr MRI env ⟨Opcode.G_SEXT, [.reg Dst, .reg Src]⟩ = some env0 ∧
          execInstrs Out.B.MRI env Out.insts = some env1 ∧
          env1 (MRI.getNumVirtRegs + 6) =
            (if env Src &&& getSignMask (8 * k) = 0 then 0 else 255) ∧
          (if k = 1 then [Src] else List.range' (MRI.getNumVirtRegs + 7) k).map env1 =
            (List.range k).map (fun i => env Src / 256 ^ i % 256) ∧
          env1 Dst = mergeValues 8 ((List.range k).map (fun i => env Src / 256 ^ i % 256) ++
            List.replicate (n - k) (env1 (MRI.getNumVirtRegs + 6))) ∧
          env1 Dst = (toSigned (8 * k) (env Src) % (2 : Int) ^ (8 * n)).toNat ∧
          env1 Dst = env0 Dst) := by
  obtain ⟨V, I⟩ := MRI
  simp only [MachineRegisterInfo.getNumVirtRegs] at *
  have hexec0 : ∀ (s d : Nat), (MachineRegisterInfo.mk V I).getType Src = LLT.scalar s →
      (MachineRegisterInfo.mk V I).getType Dst = LLT.scalar d →
      execInstr ⟨V, I⟩ env ⟨Opcode.G_SEXT, [.reg Dst, .reg Src]⟩ =
        some (env.set Dst ((toSigned s (env Src) % (2 : Int) ^ d).toNat)) := by
    intro s d hs hd
    simp only [execInstr, hs, hd, LLT.getSizeInBits]
  constructor
  · intro w hSrcTy hDstTy hv
    refine ⟨_, legalizeSExt_S1_insts V I Dst Src w hSrcTy hDstTy, rfl, rfl, ?_⟩
    simp only [LegalizeResult.insts, Option.toList, List.append_nil, execInstrs,
      execInstr_CONSTANT, execInstr_SELECT, Option.some_bind]
    refine ⟨_, _, hexec0 1 w hSrcTy hDstTy, rfl, ?_⟩
    simp (disch := omega) only [Env.set_eq, Env.set_ne]
    have h1 : env Src = 0 ∨ env Src = 1 := by omega
    rcases h1 with h1 | h1
    · simp [h1, toSigned]
    · have hneg : toSigned 1 1 = -1 := by decide
      have hc := constantBits_negOne w
      unfold constantBits at hc
      simp [h1, hneg, hc]
  · intro k n hk hkn hSrcTy hDstTy hv
    have hm : 8 * k - 1 + 1 = 8 * k := by omega
    have hfv : ∀ f : Nat, f = (if env Src < 2 ^ (8 * k - 1) then 0 else 255) →
        mergeValues 8 ((List.range k).map (fun i => env Src / 256 ^ i % 256) ++
          List.replicate (n - k) f) =
        (toSigned (8 * k) (env Src) % (2 : Int) ^ (8 * n)).toNat :=
      fun f hf => sext_merge_value k n (env Src) f (by omega) hv hf
    by_cases hk1 : k = 1
    · subst hk1
      rw [Nat.mul_one] at hSrcTy
      refine ⟨_, legalizeSExt_S8_insts V I Dst Src n (by omega) hSrcTy hDstTy, rfl, ?_, ?_⟩
      · simp [LegalizeResult.insts]
      obtain ⟨envp, hp, hframe, -, -, hfill1, hfill2⟩ :=
        legalizeSExt_fill_exec ⟨V ++ [S8, S8, S8, S1, S8, S8, S8], I⟩ env V.length Src 7 hSrc
          (by simpa using hv) (by rw [getType_new]; rfl)
      have hW : ((MachineRegisterInfo.mk (V ++ [S8, S8, S8, S1, S8, S8, S8]) I).getType
          Src).getSizeInBits = 8 := by
        rw [getType_old _ _ _ _ hSrc, hSrcTy]; rfl
      refine ⟨_, envp.set Dst (mergeValues 8
        (envp Src :: List.replicate (n - 1) (envp (V.length + 6)))),
        hexec0 8 (8 * n) hSrcTy hDstTy, ?_, ?_⟩
      · show execInstrs _ env ([_, _, _, _, _, _, _] ++ [_]) = _
        rw [execInstrs_append, hp]
        simp only [Option.some_bind, execInstrs, List.singleton_append, List.map_cons,
          execInstr_MERGE_cons, hW]
        simp only [List.map_replicate]
      · have hS : envp Src = env Src := hframe Src hSrc
        have hb : [env Src] = (List.range 1).map (fun i => env Src / 256 ^ i % 256) := by
          simp [List.range_succ]; omega
        have hval := hfv _ hfill2
        rw [← hb, List.singleton_append] at hval
        simp (disch := omega) only [Env.set_eq, Env.set_ne, if_true, List.map_cons, List.map_nil,
          hS, getSignMask, ← hb, List.singleton_append]
        exact ⟨hfill1, trivial, trivial, hval, hval⟩
    · have hk2 : 2 ≤ k := by omega
      refine ⟨_, legalizeSExt_bytes_insts V I Dst Src k n hk2 (by omega) hSrcTy hDstTy, rfl,
        ?_, ?_⟩
      · simp [LegalizeResult.insts, hk1]
      obtain ⟨envp, hp, hframe, -, -, hfill1, hfill2⟩ :=
        legalizeSExt_fill_exec ⟨V ++ ([LLT.scalar (8 * k), LLT.scalar (8 * k),
          LLT.scalar (8 * k), S1, S8, S8, S8] ++ List.replicate k S8), I⟩ env V.length Src
          (8 * k - 1) hSrc (by rw [hm]; exact hv) (by rw [getType_new]; simp [LLT.getSizeInBits]; omega)
      have hW : ((MachineRegisterInfo.mk (V ++ ([LLT.scalar (8 * k), LLT.scalar (8 * k),
          LLT.scalar (8 * k), S1, S8, S8, S8] ++ List.replicate k S8)) I).getType
          (V.length + 7)).getSizeInBits = 8 := by
        have h := getType_new_replicate V I [LLT.scalar (8 * k), LLT.scalar (8 * k),
          LLT.scalar (8 * k), S1, S8, S8, S8] S8 k 0 (by omega)
        simp only [List.length_cons, List.length_nil, Nat.add_zero] at h
        rw [h]; rfl
      have hS : envp Src = env Src := hframe Src hSrc
      have hparts : List.range' (V.length + 7) k ++ List.replicate (n - k) (V.length + 6) ≠ [] := by
        intro h
        have := congrArg List.length h
        simp at this
        omega
      refine ⟨_, (unmergeInto 8 envp (envp Src) (List.range' (V.length + 7) k)).set Dst
          (mergeValues 8 ((List.range' (V.length + 7) k ++
            List.replicate (n - k) (V.length + 6)).map
            (unmergeInto 8 envp (envp Src) (List.range' (V.length + 7) k)))),
        hexec0 (8 * k) (8 * n) hSrcTy hDstTy, ?_, ?_⟩
      · show execInstrs _ env ([_, _, _, _, _, _, _] ++ [_, _]) = _
        rw [execInstrs_append, hp]
        simp only [Option.some_bind, execInstrs]
        rw [execInstr_UNMERGE _ _ _ _ _ (by omega), hW]
        simp only [Option.some_bind]
        rw [execInstr_MERGE_head _ _ _ _ 8 _ hparts]
        · rfl
        · intro p hp'
          have hr : List.range' (V.length + 7) k =
              (V.length + 7) :: List.range' (V.length + 7 + 1) (k - 1) := by
            obtain ⟨j, rfl⟩ : ∃ j, k = j + 1 := ⟨k - 1, by omega⟩
            rw [List.range'_succ]; rfl
          rw [hr] at hp'
          simp at hp'
          rw [← hp']; exact hW
      · have hval := hfv _ hfill2
        simp only [if_neg hk1, getSignMask]
        rw [Env.set_ne _ _ (by omega : V.length + 6 ≠ Dst), Env.set_eq,
          map_set_range' _ _ _ _ _ (by omega), List.map_append, map_unmergeInto_range',
          List.map_replicate, unmergeInto_range'_of_lt _ _ _ _ _ _ (by omega), hS,
          map_bytes_range']
        exact ⟨hfill1, rfl, rfl, hval, hval.trans (Env.set_eq _ _ _).symm⟩


theorem legalizeSExt_spec_witness :
    (∃ Out, legalizeSExt (MachineIRBuilder.atInstr ⟨[LLT.scalar 13, S1], []⟩)
        ⟨Opcode.G_SEXT, [.reg 0, .reg 1]⟩ = Except.ok Out ∧
      ∃ env1, execInstrs Out.B.MRI (envOf [0, 1]) Out.insts = some env1 ∧ env1 0 = 8191) ∧
    (∃ Out, legalizeSExt (MachineIRBuilder.atInstr ⟨[S16, S8], []⟩)
        ⟨Opcode.G_SEXT, [.reg 0, .reg 1]⟩ = Except.ok Out ∧
      ∃ env1, execInstrs Out.B.MRI (envOf [0, 0x80]) Out.insts = some env1 ∧
        env1 0 = 0xFF80) ∧
    (∃ Out, legalizeSExt (MachineIRBuilder.atInstr ⟨[LLT.scalar 32, S16], []⟩)
        ⟨Opcode.G_SEXT, [.reg 0, .reg 1]⟩ = Except.ok Out ∧
      ∃ env1, execInstrs Out.B.MRI (envOf [0, 0x8001]) Out.insts = some env1 ∧
        env1 0 = 0xFFFF8001) := by
  refine ⟨?_, ?_, ?_⟩
  · obtain ⟨Out, h1, _, _, env0, env1, _, h2, h3, _⟩ :=
      (legalizeSExt_spec ⟨[LLT.scalar 13, S1], []⟩ 0 1 (envOf [0, 1])
        (by decide) (by decide) (by decide)).1 13 (by decide) (by decide) (by decide)
    exact ⟨Out, h1, env1, h2, h3.trans (by decide)⟩
  · obtain ⟨Out, h1, _, _, env0, env1, _, h2, _, _, _, h3, _⟩ :=
      (legalizeSExt_spec ⟨[S16, S8], []⟩ 0 1 (envOf [0, 0x80])
        (by decide) (by decide) (by decide)).2 1 2 (by decide) (by decide) (by decide)
        (by decide) (by decide)
    exact ⟨Out, h1, env1, h2, h3.trans (by decide)⟩
  · obtain ⟨Out, h1, _, _, env0, env1, _, h2, _, _, _, h3, _⟩ :=
      (legalizeSExt_spec ⟨[LLT.scalar 32, S16], []⟩ 0 1 (envOf [0, 0x8001])
        (by decide) (by decide) (by decide)).2 2 4 (by decide) (by decide) (by decide)
        (by decide) (by decide)
    exact ⟨Out, h1, env1, h2, h3.trans (by decide)⟩

/-! ## Multi-byte signed less-than -/

theorem chainTypes_length (End : Nat) : (chainTypes End).length = 5 * End := by
  induction End with
  | zero => rfl
  | succ End ih => simp [chainTypes, ih]; omega

theorem chainInsts_succ (bL bR c CIn End : Nat) :
    chainInsts bL bR c CIn (End + 1) =
      chainInsts bL bR c CIn End ++ [chainInst bL bR c CIn End] := by
  simp [chainInsts, List.range_succ]

/-- What the loop of `legalizeICmp` builds. -/
theorem sbcChain_eq (LU RU : MachineInstr) (bL bR End : Nat)
    (hL : ∀ i, i < End → LU.getOperand i = MachineOperand.reg (bL + i))
    (hR : ∀ i, i < End → RU.getOperand i = MachineOperand.reg (bR + i))
    (V : List LLT) (I Bf Af : List MachineInstr) (CIn : Nat) :
    sbcChain LU RU End ⟨⟨V, I⟩, Bf, Af, false⟩ CIn =
      (⟨⟨V ++ chainTypes End, I⟩, Bf ++ chainInsts bL bR V.length CIn End, Af, false⟩,
        chainCarry V.length CIn End) := by
  induction End with
  | zero => simp [sbcChain, chainTypes, chainInsts, chainCarry]
  | succ End ih =>
    have ih' := ih (fun i hi => hL i (by omega)) (fun i hi => hR i (by omega))
    unfold sbcChain at ih' ⊢
    rw [List.range_succ, List.foldl_append, ih']
    simp only [List.foldl_cons, List.foldl_nil, hL End (by omega), hR End (by omega)]
    simp [MachineIRBuilder.buildInstr, DstOp.addDefs, DstOp.addDef,
      MachineRegisterInfo.createGenericVirtualRegister, MachineIRBuilder.insert,
      getReg_cons_zero, getReg_cons_succ, chainTypes, chainTypes_length, chainInsts_succ,
      chainInst, chainCarry]
    refine ⟨⟨?_, ?_, ?_, ?_⟩, ?_⟩ <;> exact (Nat.add_assoc _ _ _).symm

theorem chainCarry_lt (c CIn End : Nat) (h : CIn < c) : chainCarry c CIn End < c + 5 * End := by
  cases End with
  | zero => simp only [chainCarry]; omega
  | succ n => simp only [chainCarry]; omega

/-- The values after the chain: registers below the first fresh one keep their
values, and the carry handed on is the carry-out of the last subtraction. -/
theorem chainInsts_exec (MRI : MachineRegisterInfo) (bL bR c CIn a b End : Nat)
    (hbL : bL + End ≤ c) (hbR : bR + End ≤ c) (hC : CIn < c) (env : Env)
    (hLv : ∀ i, i < End → env (bL + i) = a / 256 ^ i % 256)
    (hRv : ∀ i, i < End → env (bR + i) = b / 256 ^ i % 256)
    (hCv : env CIn = 1) :
    ∃ env1, execInstrs MRI env (chainInsts bL bR c CIn End) = some env1 ∧
      (∀ r, r < c → env1 r = env r) ∧
      (∀ r, c + 5 * End ≤ r → env1 r = env r) ∧
      env1 (chainCarry c CIn End) = carryVal a b End := by
  induction End with
  | zero =>
    exact ⟨env, rfl, fun _ _ => rfl, fun _ _ => rfl, hCv⟩
  | succ End ih =>
    obtain ⟨env1, h1, hfr, hhi, hcar⟩ := ih (by omega) (by omega)
      (fun i hi => hLv i (by omega)) (fun i hi => hRv i (by omega))
    have hcl := chainCarry_lt c CIn End hC
    rw [chainInsts_succ, execInstrs_append, h1]
    simp only [Option.some_bind, execInstrs, chainInst, execInstr_SBC]
    refine ⟨_, rfl, ?_, ?_, ?_⟩
    · intro r hr
      simp (disch := omega) only [Env.set_ne]
      exact hfr r hr
    · intro r hr
      simp (disch := omega) only [Env.set_ne]
      exact hhi r (by omega)
    · have hcc : chainCarry c CIn (End + 1) = c + 5 * End + 1 := rfl
      rw [hcc]
      simp (disch := omega) only [carryVal, Env.set_eq, Env.set_ne]
      rw [hfr _ (by omega), hfr _ (by omega), hLv End (by omega), hRv End (by omega), hcar]

theorem le_digits_iff (P al bl x y : Nat) (hal : al < P) (hbl : bl < P) :
    bl + P * y ≤ al + P * x ↔ (y < x ∨ (y = x ∧ bl ≤ al)) := by
  constructor
  · intro h
    by_contra hc
    have hxy : x < y ∨ (x = y ∧ al < bl) := by omega
    rcases hxy with hxy | ⟨rfl, hlt⟩
    · have : P * (x + 1) ≤ P * y := Nat.mul_le_mul_left P hxy
      rw [Nat.mul_add, Nat.mul_one] at this
      omega
    · omega
  · rintro (h | ⟨rfl, h⟩)
    · have : P * (y + 1) ≤ P * x := Nat.mul_le_mul_left P h
      rw [Nat.mul_add, Nat.mul_one] at this
      omega
    · omega

theorem evalSBC_C_digits (P al bl x y : Nat) (hal : al < P) (hbl : bl < P) :
    (evalSBC x y (boolBit (decide (bl ≤ al)))).C =
      boolBit (decide (bl + P * y ≤ al + P * x)) := by
  have hiff := le_digits_iff P al bl x y hal hbl
  simp only [evalSBC, boolBit]
  by_cases h1 : bl ≤ al <;> by_cases h2 : bl + P * y ≤ al + P * x
  · have := hiff.mp h2
    simp only [h1, h2, decide_True, if_true]
    rw [if_pos (by simp; omega)]
  · have : ¬ (y < x ∨ (y = x ∧ bl ≤ al)) := fun hh => h2 (hiff.mpr hh)
    simp only [h1, h2, decide_True, decide_False, if_true]
    rw [if_neg (by simp; omega)]
    rfl
  · have := hiff.mp h2
    simp only [h1, h2, decide_True, decide_False, if_true]
    rw [if_pos (by simp; omega)]
  · have : ¬ (y < x ∨ (y = x ∧ bl ≤ al)) := fun hh => h2 (hiff.mpr hh)
    simp only [h1, h2, decide_False]
    rw [if_neg (by simp; omega)]
    rfl

/-- The carry handed to byte `i` tells whether the bytes below of `a` are at
least those of `b`, as unsigned numbers. -/
theorem carryVal_eq (a b i : Nat) :
    carryVal a b i = boolBit (decide (b % 256 ^ i ≤ a % 256 ^ i)) := by
  induction i with
  | zero => simp [carryVal, boolBit, Nat.mod_one]
  | succ i ih =>
    have hP : 0 < 256 ^ i := Nat.pow_pos (by norm_num)
    have ha : a % 256 ^ (i + 1) = a % 256 ^ i + 256 ^ i * (a / 256 ^ i % 256) := by
      rw [Nat.pow_succ, Nat.mod_mul]
    have hb : b % 256 ^ (i + 1) = b % 256 ^ i + 256 ^ i * (b / 256 ^ i % 256) := by
      rw [Nat.pow_succ, Nat.mod_mul]
    rw [ha, hb]
    simp only [carryVal, ih]
    exact evalSBC_C_digits _ _ _ _ _ (Nat.mod_lt _ hP) (Nat.mod_lt _ hP)

/-- The two's-complement reading of an `N`-byte value, from its most
significant byte `h` and the `N - 1` bytes `l` below it. -/
theorem toSigned_bytes (N l h : Nat) (hN : 1 ≤ N) (hl : l < 256 ^ (N - 1)) (hh : h < 256) :
    toSigned (8 * N) (l + 256 ^ (N - 1) * h) = (l : Int) + (256 : Int) ^ (N - 1) * toSigned 8 h := by
  have hP : 0 < 256 ^ (N - 1) := Nat.pow_pos (by norm_num)
  have h1 : 2 ^ (8 * N - 1) = 256 ^ (N - 1) * 128 := by
    have : 8 * N - 1 = 8 * (N - 1) + 7 := by omega
    rw [this, Nat.pow_add, Nat.pow_mul]
  have h2 : (2 : Int) ^ (8 * N) = (256 : Int) ^ (N - 1) * 256 := by
    have : 8 * N = 8 * (N - 1) + 8 := by omega
    rw [this, pow_add, pow_mul]
    norm_num
  unfold toSigned
  rw [h1, h2]
  have h8 : (2 : Nat) ^ (8 - 1) = 128 := by norm_num
  have h8' : (2 : Int) ^ 8 = 256 := by norm_num
  rw [h8, h8']
  generalize hPdef : 256 ^ (N - 1) = P at *
  have hPI : ((256 : Int) ^ (N - 1)) = (P : Int) := by rw [← hPdef]; push_cast; rfl
  rw [hPI]
  by_cases hh128 : h < 128
  · have hm : P * h + P ≤ P * 128 := by
      have := Nat.mul_le_mul_left P (show h + 1 ≤ 128 by omega)
      rw [Nat.mul_add, Nat.mul_one] at this
      exact this
    rw [if_pos (by omega), if_pos hh128]
    push_cast
    ring
  · have hm : P * 128 ≤ P * h := Nat.mul_le_mul_left P (by omega)
    rw [if_neg (by omega), if_neg hh128]
    push_cast
    ring

/-- Signed less-than of two `N`-byte values from the subtraction of the most
significant bytes with the borrow of the bytes below. -/
theorem slt_bytes (N la ha lb hb : Nat) (hN : 1 ≤ N) (hla : la < 256 ^ (N - 1))
    (hlb : lb < 256 ^ (N - 1)) (hha : ha < 256) (hhb : hb < 256) :
    (toSigned 8 ha - toSigned 8 hb - (1 - ((boolBit (decide (lb ≤ la)) : Nat) : Int)) < 0) ↔
      toSigned (8 * N) (la + 256 ^ (N - 1) * ha) < toSigned (8 * N) (lb + 256 ^ (N - 1) * hb) := by
  rw [toSigned_bytes N la ha hN hla hha, toSigned_bytes N lb hb hN hlb hhb]
  generalize toSigned 8 ha = sa
  generalize toSigned 8 hb = sb
  have hP : (0 : Int) < (256 : Int) ^ (N - 1) := by positivity
  have hlaI : (la : Int) < (256 : Int) ^ (N - 1) := by exact_mod_cast hla
  have hlbI : (lb : Int) < (256 : Int) ^ (N - 1) := by exact_mod_cast hlb
  generalize (256 : Int) ^ (N - 1) = P at *
  have hcases : sa - sb ≤ -1 ∨ sa - sb = 0 ∨ 1 ≤ sa - sb := by omega
  have hmul : P * sa - P * sb = P * (sa - sb) := by ring
  simp only [boolBit]
  rcases hcases with h | h | h
  · have : P * (sa - sb) ≤ P * (-1) := Int.mul_le_mul_of_nonneg_left h (le_of_lt hP)
    split_ifs <;> constructor <;> intro _ <;> push_cast at * <;> omega
  · rw [h] at hmul
    split_ifs with h1 <;> simp only [decide_eq_true_eq] at h1 <;> constructor <;> intro _ <;>
      push_cast at * <;> omega
  · have : P * 1 ≤ P * (sa - sb) := Int.mul_le_mul_of_nonneg_left h (le_of_lt hP)
    split_ifs <;> constructor <;> intro _ <;> push_cast at * <;> omega

theorem getOperand_unmerge (Opc : Opcode) (b k s i : Nat) (h : i < k) :
    MachineInstr.getOperand
      ⟨Opc, (List.range' b k).map MachineOperand.reg ++ [MachineOperand.reg s]⟩ i =
      MachineOperand.reg (b + i) := by
  rw [getOperand_map_reg_append _ _ _ _ (by simpa using h), getD_range' _ _ _ h]

theorem getReg_unmerge (Opc : Opcode) (b k s i : Nat) (h : i < k) :
    MachineInstr.getReg
      ⟨Opc, (List.range' b k).map MachineOperand.reg ++ [MachineOperand.reg s]⟩ i = b + i := by
  rw [getReg_map_reg_append _ _ _ _ (by simpa using h), getD_range' _ _ _ h]

/-- What `legalizeICmp` emits for signed less-than on `N` bytes, at least two. -/
theorem legalizeICmp_bytes_SLT_insts (V : List LLT) (I : List MachineInstr)
    (Dst LHS RHS N : Nat) (hN : 2 ≤ N)
    (hTyL : (MachineRegisterInfo.mk V I).getType LHS = LLT.scalar (8 * N))
    (hTyR : (MachineRegisterInfo.mk V I).getType RHS = LLT.scalar (8 * N)) :
    ∃ Out,
      legalizeICmp (MachineIRBuilder.atInstr ⟨V, I⟩)
        ⟨Opcode.G_ICMP, [.reg Dst, .predicate Predicate.ICMP_SLT, .reg LHS, .reg RHS]⟩ =
          Except.ok Out ∧
      Out.MI = none ∧
      Out.B.After = [] ∧
      Out.B.Before =
        [⟨Opcode.G_UNMERGE_VALUES,
            (List.range' V.length N).map MachineOperand.reg ++ [.reg LHS]⟩,
         ⟨Opcode.G_UNMERGE_VALUES,
            (List.range' (V.length + N) N).map MachineOperand.reg ++ [.reg RHS]⟩,
         ⟨Opcode.G_CONSTANT, [.reg (V.length + 2 * N), .cimm 1]⟩] ++
        chainInsts V.length (V.length + N) (V.length + 2 * N + 1) (V.length + 2 * N) (N - 1) ++
        (if mi_match_SpecificICst RHS ⟨V, I⟩ 0 = true then
          sltZeroInsts (V.length + 2 * N + 1 + 5 * (N - 1)) Dst (V.length + (N - 1))
            (V.length + N + (N - 1))
            (chainCarry (V.length + 2 * N + 1) (V.length + 2 * N) (N - 1))
         else
          sltFinalInsts (V.length + 2 * N + 1 + 5 * (N - 1)) Dst (V.length + (N - 1))
            (V.length + N + (N - 1))
            (chainCarry (V.length + 2 * N + 1) (V.length + 2 * N) (N - 1))) ∧
      ∃ Tys, Out.B.MRI = ⟨V ++ (List.replicate (N + N) S8 ++ Tys), I⟩ ∧
        (mi_match_SpecificICst RHS ⟨V, I⟩ 0 = false →
          Tys.getD (1 + 5 * (N - 1) + 6) LLT.invalid = S8) := by
  have hLlt : LHS < V.length := getType_eq_scalar_lt _ _ _ hTyL
  have hRlt : RHS < V.length := getType_eq_scalar_lt _ _ _ hTyR
  have hS8 : ¬ N = 1 := by omega
  have hdiv : 8 * N / 8 = N := by omega
  have hchain := sbcChain_eq
    ⟨Opcode.G_UNMERGE_VALUES, (List.range' V.length N).map MachineOperand.reg ++ [.reg LHS]⟩
    ⟨Opcode.G_UNMERGE_VALUES, (List.range' (V.length + N) N).map MachineOperand.reg ++
      [.reg RHS]⟩ V.length (V.length + N) (N - 1)
    (fun i hi => getOperand_unmerge _ _ _ _ _ (by omega))
    (fun i hi => getOperand_unmerge _ _ _ _ _ (by omega))
  have hgL := getReg_unmerge Opcode.G_UNMERGE_VALUES V.length N LHS (N - 1) (by omega)
  have hgR := getReg_unmerge Opcode.G_UNMERGE_VALUES (V.length + N) N RHS (N - 1) (by omega)
  have e80 : constantBits 8 128 = 128 := by decide
  have e0 : constantBits 8 0 = 0 := by decide
  have a1 : V.length + (N + N + 1) = V.length + 2 * N + 1 := by omega
  have a2 : V.length + (N + N) = V.length + 2 * N := by omega
  have a3 : ∀ j, V.length + (N + N + (5 * (N - 1) + j + 1)) =
      V.length + 2 * N + 1 + 5 * (N - 1) + j := by intro j; omega
  have a4 : V.length + (N + N + (5 * (N - 1) + 1)) = V.length + 2 * N + 1 + 5 * (N - 1) := by
    omega
  by_cases hz : mi_match_SpecificICst RHS ⟨V, I⟩ 0 = true
  · simp [legalizeICmp, MachineIRBuilder.atInstr, MachineInstr.getPredicate,
      MachineInstr.getOperand, getReg_cons_zero, getReg_cons_succ, hTyL, hTyR, hS8, hz,
      LLT.isPointer, LLT.getSizeInBits, S1, S8, buildUnmerge_eq,
      getType_old _ _ _ _ hRlt, hdiv, getNumOperands_unmerge,
      MachineIRBuilder.buildConstant, DstOp.getLLTTy, constantBits_one_one,
      MachineIRBuilder.buildInstr, MachineIRBuilder.buildCopy, DstOp.addDefs, DstOp.addDef,
      MachineRegisterInfo.createGenericVirtualRegister, MachineIRBuilder.insert, hchain,
      hgL, hgR, if_neg (by omega : ¬ (N + 1 < 2)), sltZeroInsts, chainTypes_length,
      a1, a2, a3, a4]
  · have hzf : mi_match_SpecificICst RHS ⟨V, I⟩ 0 = false := by simpa using hz
    simp [legalizeICmp, MachineIRBuilder.atInstr, MachineInstr.getPredicate,
      MachineInstr.getOperand, getReg_cons_zero, getReg_cons_succ, hTyL, hTyR, hS8, hzf,
      LLT.isPointer, LLT.getSizeInBits, S1, S8, buildUnmerge_eq,
      getType_old _ _ _ _ hRlt, hdiv, getNumOperands_unmerge,
      MachineIRBuilder.buildConstant, DstOp.getLLTTy, constantBits_one_one, e80, e0,
      MachineIRBuilder.buildInstr, MachineIRBuilder.buildCopy, MachineIRBuilder.buildXor,
      MachineIRBuilder.buildSelect, DstOp.addDefs, DstOp.addDef,
      MachineRegisterInfo.createGenericVirtualRegister, MachineIRBuilder.insert, hchain,
      hgL, hgR, if_neg (by omega : ¬ (N + 1 < 2)), sltFinalInsts, chainTypes_length,
      a1, a2, a3, a4]
    rw [List.getElem?_append_right (by rw [chainTypes_length]; omega), chainTypes_length,
      (by omega : 1 + 5 * (N - 1) + 5 - 5 * (N - 1) = 6)]
    rfl

/-- The value of the last instructions for signed less-than: the sign flag XOR
the overflow flag of the subtraction of the two bytes with the carry-in. -/
theorem sltFinalInsts_exec (MRI : MachineRegisterInfo) (c Dst LHS RHS CIn : Nat) (env : Env)
    (hDst : Dst < c) (hW : (MRI.getType (c + 6)).getSizeInBits = 8)
    (ha : env LHS < 256) (hb : env RHS < 256) (hc : env CIn < 2) :
    ∃ env1, execInstrs MRI env (sltFinalInsts c Dst LHS RHS CIn) = some env1 ∧
      env1 Dst = ((evalSBC (env LHS) (env RHS) (env CIn)).N +
        (evalSBC (env LHS) (env RHS) (env CIn)).V) % 2 ∧
      env1 Dst = boolBit (decide
        (toSigned 8 (env LHS) - toSigned 8 (env RHS) - (1 - (env CIn : Int)) < 0)) := by
  simp only [sltFinalInsts, execInstrs, execInstr_CONSTANT, execInstr_SBC, execInstr_XOR,
    execInstr_SELECT, Option.some_bind]
  refine ⟨_, rfl, ?_⟩
  simp (disch := omega) only [Env.set_eq, Env.set_ne, hW]
  have hA := evalSBC_A_lt (env LHS) (env RHS) (env CIn)
  have hx := xor_128 _ hA
  have hNV := evalSBC_N_xor_V (env LHS) (env RHS) (env CIn) ha hb hc
  have hN := evalSBC_N (env LHS) (env RHS) (env CIn)
  rw [← hNV, and_self]
  rcases evalSBC_V_cases (env LHS) (env RHS) (env CIn) with hV | hV
  · simp only [hV, if_true, evalSBC_zero_one_N _ hA]
    omega
  · have hx2 : ((evalSBC (env LHS) (env RHS) (env CIn)).A ^^^ 128) % 2 ^ 8 < 256 :=
      Nat.mod_lt _ (by norm_num)
    simp only [hV, if_false, one_ne_zero, evalSBC_zero_one_N _ hx2]
    rw [hx]
    split_ifs <;> omega

/-- The value of the last instructions for signed less-than against zero: the
sign flag of the subtraction. -/
theorem sltZeroInsts_exec (MRI : MachineRegisterInfo) (c Dst LHS RHS CIn : Nat) (env : Env) :
    ∃ env1, execInstrs MRI env (sltZeroInsts c Dst LHS RHS CIn) = some env1 ∧
      env1 Dst = (evalSBC (env LHS) (env RHS) (env CIn)).N := by
  simp only [sltZeroInsts, execInstrs, execInstr_COPY, execInstr_SBC, Option.some_bind]
  refine ⟨_, rfl, ?_⟩
  simp (disch := omega) only [Env.set_eq, Env.set_ne]

theorem getType_new_replicate_left (V : List LLT) (I : List MachineInstr) (Ty : LLT)
    (k : Nat) (l : List LLT) (i : Nat) (hi : i < k) :
    (MachineRegisterInfo.mk (V ++ (List.replicate k Ty ++ l)) I).getType (V.length + i) = Ty := by
  rw [getType_new]
  simp [List.getD_eq_getElem?_getD, List.getElem?_append_left, List.getElem?_replicate, hi]

/-- The values after the two unmerges and the constant that start the
multi-byte signed less-than. -/
theorem sltPrefix_exec (MRI : MachineRegisterInfo) (n0 N LHS RHS : Nat) (env : Env)
    (hN : 1 ≤ N) (hR : RHS < n0)
    (hWL : (MRI.getType n0).getSizeInBits = 8) (hWR : (MRI.getType (n0 + N)).getSizeInBits = 8) :
    ∃ env1,
      execInstrs MRI env
        [⟨Opcode.G_UNMERGE_VALUES,
            (List.range' n0 N).map MachineOperand.reg ++ [MachineOperand.reg LHS]⟩,
         ⟨Opcode.G_UNMERGE_VALUES,
            (List.range' (n0 + N) N).map MachineOperand.reg ++ [MachineOperand.reg RHS]⟩,
         ⟨Opcode.G_CONSTANT, [MachineOperand.reg (n0 + 2 * N), MachineOperand.cimm 1]⟩] =
        some env1 ∧
      (∀ r, r < n0 → env1 r = env r) ∧
      (∀ i, i < N → env1 (n0 + i) = env LHS / 256 ^ i % 256) ∧
      (∀ i, i < N → env1 (n0 + N + i) = env RHS / 256 ^ i % 256) ∧
      env1 (n0 + 2 * N) = 1 := by
  have hpow : ∀ i, 2 ^ (8 * i) = 256 ^ i := by
    intro i; rw [Nat.pow_mul]
  simp only [execInstrs, execInstr_CONSTANT, Option.some_bind]
  rw [execInstr_UNMERGE _ _ _ _ _ hN, hWL]
  simp only [Option.some_bind]
  rw [execInstr_UNMERGE _ _ _ _ _ hN, hWR]
  simp only [Option.some_bind]
  refine ⟨_, rfl, ?_, ?_, ?_, ?_⟩
  · intro r hr
    rw [Env.set_ne _ _ (by omega), unmergeInto_range'_of_lt _ _ _ _ _ _ (by omega),
      unmergeInto_range'_of_lt _ _ _ _ _ _ (by omega)]
  · intro i hi
    rw [Env.set_ne _ _ (by omega), unmergeInto_range'_of_lt _ _ _ _ _ _ (by omega),
      unmergeInto_range', if_pos (by omega), Nat.add_sub_cancel_left, hpow]
    norm_num
  · intro i hi
    rw [Env.set_ne _ _ (by omega), unmergeInto_range', if_pos (by omega),
      Nat.add_sub_cancel_left, hpow, unmergeInto_range'_of_lt _ _ _ _ _ _ (by omega)]
    norm_num
  · rw [Env.set_eq]

theorem evalSBC_zero_N_signed (x : Nat) (hx : x < 256) :
    (evalSBC x 0 1).N =
      boolBit (decide (toSigned 8 x - toSigned 8 0 - (1 - ((1 : Nat) : Int)) < 0)) := by
  rw [evalSBC_zero_one_N x hx]
  simp only [toSigned, boolBit]
  norm_num
  split_ifs <;> omega

/-- C4: for every `N >= 2` and all `N`-byte `a`, `b`, the sequence that
`legalizeICmp` emits for signed less-than gives the destination `1` exactly when
`a < b` as two's-complement numbers. The sequence splits both operands into
bytes, subtracts bytes `0 .. N-2` by a chain of `G_SBC` that starts from the
carry-in `1` and feeds each carry-out to the next byte, and ends with the
subtraction of the most significant bytes, overflow-corrected unless the
right operand is matched as the constant 0. -/
theorem legalizeICmp_bytes_SLT_spec (MRI : MachineRegisterInfo) (Dst LHS RHS N : Nat)
    (env : Env) (hDst : Dst < MRI.getNumVirtRegs) (hN : 2 ≤ N)
    (hTyL : MRI.getType LHS = LLT.scalar (8 * N)) (hTyR : MRI.getType RHS = LLT.scalar (8 * N))
    (ha : env LHS < 256 ^ N) (hb : env RHS < 256 ^ N)
    (hConst : ∀ v, getConstantVRegVal RHS MRI = some v → env RHS = v) :
    ∃ Out,
      legalizeICmp (MachineIRBuilder.atInstr MRI)
        ⟨Opcode.G_ICMP, [.reg Dst, .predicate Predicate.ICMP_SLT, .reg LHS, .reg RHS]⟩ =
          Except.ok Out ∧
      Out.MI = none ∧
      Out.insts =
        [⟨Opcode.G_UNMERGE_VALUES,
            (List.range' MRI.getNumVirtRegs N).map MachineOperand.reg ++ [.reg LHS]⟩,
         ⟨Opcode.G_UNMERGE_VALUES,
            (List.range' (MRI.getNumVirtRegs + N) N).map MachineOperand.reg ++ [.reg RHS]⟩,
         ⟨Opcode.G_CONSTANT, [.reg (MRI.getNumVirtRegs + 2 * N), .cimm 1]⟩] ++
        chainInsts MRI.getNumVirtRegs (MRI.getNumVirtRegs + N) (MRI.getNumVirtRegs + 2 * N + 1)
          (MRI.getNumVirtRegs + 2 * N) (N - 1) ++
        (if mi_match_SpecificICst RHS MRI 0 = true then
          sltZeroInsts (MRI.getNumVirtRegs + 2 * N + 1 + 5 * (N - 1)) Dst
            (MRI.getNumVirtRegs + (N - 1)) (MRI.getNumVirtRegs + N + (N - 1))
            (chainCarry (MRI.getNumVirtRegs + 2 * N + 1) (MRI.getNumVirtRegs + 2 * N) (N - 1))
         else
          sltFinalInsts (MRI.getNumVirtRegs + 2 * N + 1 + 5 * (N - 1)) Dst
            (MRI.getNumVirtRegs + (N - 1)) (MRI.getNumVirtRegs + N + (N - 1))
            (chainCarry (MRI.getNumVirtRegs + 2 * N + 1) (MRI.getNumVirtRegs + 2 * N)
              (N - 1))) ∧
      ∃ env1, execInstrs Out.B.MRI env Out.insts = some env1 ∧
        env1 Dst = boolBit (decide (toSigned (8 * N) (env LHS) < toSigned (8 * N) (env RHS))) := by
  obtain ⟨V, I⟩ := MRI
  simp only [MachineRegisterInfo.getNumVirtRegs] at *
  have hLlt : LHS < V.length := getType_eq_scalar_lt _ _ _ hTyL
  have hRlt : RHS < V.length := getType_eq_scalar_lt _ _ _ hTyR
  obtain ⟨Out, hOut, hMI, hAfter, hBefore, Tys, hMRI, hTy6⟩ :=
    legalizeICmp_bytes_SLT_insts V I Dst LHS RHS N hN hTyL hTyR
  have hinsts : Out.insts = Out.B.Before := by
    simp [LegalizeResult.insts, hMI, hAfter]
  refine ⟨Out, hOut, hMI, by rw [hinsts, hBefore], ?_⟩
  rw [hinsts, hBefore, hMRI, execInstrs_append, execInstrs_append]
  -- the two unmerges and the constant
  obtain ⟨envA, hA, hAfr, hAL, hAR, hAC⟩ :=
    sltPrefix_exec ⟨V ++ (List.replicate (N + N) S8 ++ Tys), I⟩ V.length N LHS RHS env
      (by omega) hRlt
      (by rw [← Nat.add_zero V.length, getType_new_replicate_left _ _ _ _ _ _ (by omega)]; rfl)
      (by rw [getType_new_replicate_left _ _ _ _ _ _ (by omega)]; rfl)
  rw [hA]
  simp only [Option.some_bind]
  -- the chain
  obtain ⟨envB, hB, hBfr, -, hBC⟩ :=
    chainInsts_exec ⟨V ++ (List.replicate (N + N) S8 ++ Tys), I⟩ V.length (V.length + N)
      (V.length + 2 * N + 1) (V.length + 2 * N) (env LHS) (env RHS) (N - 1)
      (by omega) (by omega) (by omega) envA
      (fun i hi => hAL i (by omega)) (fun i hi => hAR i (by omega)) hAC
  rw [hB]
  simp only [Option.some_bind]
  have hcl := chainCarry_lt (V.length + 2 * N + 1) (V.length + 2 * N) (N - 1) (by omega)
  have hvL : envB (V.length + (N - 1)) = env LHS / 256 ^ (N - 1) % 256 := by
    rw [hBfr _ (by omega), hAL _ (by omega)]
  have hvR : envB (V.length + N + (N - 1)) = env RHS / 256 ^ (N - 1) % 256 := by
    rw [hBfr _ (by omega), hAR _ (by omega)]
  have hvC : envB (chainCarry (V.length + 2 * N + 1) (V.length + 2 * N) (N - 1)) =
      boolBit (decide (env RHS % 256 ^ (N - 1) ≤ env LHS % 256 ^ (N - 1))) := by
    rw [hBC, carryVal_eq]
  -- the arithmetic of the most significant bytes
  have hP : 0 < 256 ^ (N - 1) := Nat.pow_pos (by norm_num)
  have hpowN : 256 ^ N = 256 ^ (N - 1) * 256 := by
    rw [← Nat.pow_succ]; congr 1; omega
  have hdivL : env LHS / 256 ^ (N - 1) < 256 := by
    rw [Nat.div_lt_iff_lt_mul hP, Nat.mul_comm, ← hpowN]; exact ha
  have hdivR : env RHS / 256 ^ (N - 1) < 256 := by
    rw [Nat.div_lt_iff_lt_mul hP, Nat.mul_comm, ← hpowN]; exact hb
  have hslt := slt_bytes N (env LHS % 256 ^ (N - 1)) (env LHS / 256 ^ (N - 1))
    (env RHS % 256 ^ (N - 1)) (env RHS / 256 ^ (N - 1)) (by omega) (Nat.mod_lt _ hP)
    (Nat.mod_lt _ hP) hdivL hdivR
  rw [Nat.mod_add_div, Nat.mod_add_div] at hslt
  rw [Nat.mod_eq_of_lt hdivL] at hvL
  rw [Nat.mod_eq_of_lt hdivR] at hvR
  by_cases hz : mi_match_SpecificICst RHS ⟨V, I⟩ 0 = true
  · rw [if_pos hz]
    have hb0 : env RHS = 0 :=
      mi_match_zero_sound ⟨V, I⟩ RHS env hConst (by
        rw [hTyR]; simp only [LLT.getSizeInBits]; rw [Nat.pow_mul]; exact hb) hz
    obtain ⟨env1, h1, hD⟩ := sltZeroInsts_exec
      ⟨V ++ (List.replicate (N + N) S8 ++ Tys), I⟩ (V.length + 2 * N + 1 + 5 * (N - 1)) Dst
      (V.length + (N - 1)) (V.length + N + (N - 1))
      (chainCarry (V.length + 2 * N + 1) (V.length + 2 * N) (N - 1)) envB
    refine ⟨env1, h1, ?_⟩
    rw [hD, hvL, hvR, hvC]
    rw [hb0] at hslt ⊢
    simp only [Nat.zero_mod, Nat.zero_div, Nat.zero_le, decide_True] at hslt ⊢
    have hone : boolBit true = 1 := rfl
    rw [hone] at hslt ⊢
    rw [evalSBC_zero_N_signed _ hdivL]
    exact congrArg boolBit (decide_eq_decide.mpr hslt)
  · rw [if_neg hz]
    have hzf : mi_match_SpecificICst RHS ⟨V, I⟩ 0 = false := by simpa using hz
    obtain ⟨env1, h1, -, hD⟩ := sltFinalInsts_exec
      ⟨V ++ (List.replicate (N + N) S8 ++ Tys), I⟩ (V.length + 2 * N + 1 + 5 * (N - 1)) Dst
      (V.length + (N - 1)) (V.length + N + (N - 1))
      (chainCarry (V.length + 2 * N + 1) (V.length + 2 * N) (N - 1)) envB (by omega)
      (by
        have h := getType_new V I (List.replicate (N + N) S8 ++ Tys)
          (N + N + (1 + 5 * (N - 1) + 6))
        rw [List.getD_eq_getElem?_getD, List.getElem?_append_right (by simp),
          List.length_replicate, Nat.add_sub_cancel_left, ← List.getD_eq_getElem?_getD,
          hTy6 hzf] at h
        have e : V.length + 2 * N + 1 + 5 * (N - 1) + 6 =
            V.length + (N + N + (1 + 5 * (N - 1) + 6)) := by omega
        rw [e, h]; rfl)
      (by rw [hvL]; exact hdivL) (by rw [hvR]; exact hdivR)
      (by rw [hvC]; simp only [boolBit]; split_ifs <;> omega)
    refine ⟨env1, h1, ?_⟩
    rw [hD, hvL, hvR, hvC]
    exact congrArg boolBit (decide_eq_decide.mpr hslt)

theorem legalizeICmp_bytes_SLT_spec_witness :
    (∃ Out, legalizeICmp (MachineIRBuilder.atInstr ⟨[S1, S16, S16], []⟩)
        ⟨Opcode.G_ICMP, [.reg 0, .predicate Predicate.ICMP_SLT, .reg 1, .reg 2]⟩ =
          Except.ok Out ∧
      (∃ env1, execInstrs Out.B.MRI (envOf [0, 0xFFFF, 0x0001]) Out.insts = some env1 ∧
        env1 0 = 1) ∧
      (∃ env1, execInstrs Out.B.MRI (envOf [0, 0x0001, 0xFFFF]) Out.insts = some env1 ∧
        env1 0 = 0) ∧
      (∃ env1, execInstrs Out.B.MRI (envOf [0, 0xFFFF, 0xFFFF]) Out.insts = some env1 ∧
        env1 0 = 0)) ∧
    (∃ Out, legalizeICmp
        (MachineIRBuilder.atInstr ⟨[S1, S16, S16], [⟨Opcode.G_CONSTANT, [.reg 2, .cimm 0]⟩]⟩)
        ⟨Opcode.G_ICMP, [.reg 0, .predicate Predicate.ICMP_SLT, .reg 1, .reg 2]⟩ =
          Except.ok Out ∧
      ∃ env1, execInstrs Out.B.MRI (envOf [0, 0x8000, 0]) Out.insts = some env1 ∧
        env1 0 = 1) := by
  constructor
  · obtain ⟨Out, h1, _, _, env1, h2, h3⟩ :=
      legalizeICmp_bytes_SLT_spec ⟨[S1, S16, S16], []⟩ 0 1 2 2 (envOf [0, 0xFFFF, 0x0001])
        (by decide) (by decide) (by decide) (by decide) (by decide) (by decide)
        (fun v h => nomatch h)
    obtain ⟨Out2, h1', _, _, env2, h2', h3'⟩ :=
      legalizeICmp_bytes_SLT_spec ⟨[S1, S16, S16], []⟩ 0 1 2 2 (envOf [0, 0x0001, 0xFFFF])
        (by decide) (by decide) (by decide) (by decide) (by decide) (by decide)
        (fun v h => nomatch h)
    obtain ⟨Out3, h1'', _, _, env3, h2'', h3''⟩ :=
      legalizeICmp_bytes_SLT_spec ⟨[S1, S16, S16], []⟩ 0 1 2 2 (envOf [0, 0xFFFF, 0xFFFF])
        (by decide) (by decide) (by decide) (by decide) (by decide) (by decide)
        (fun v h => nomatch h)
    have e2 : Out2 = Out := Except.ok.inj (h1'.symm.trans h1)
    have e3 : Out3 = Out := Except.ok.inj (h1''.symm.trans h1)
    subst e2 e3
    exact ⟨_, h1, ⟨env1, h2, h3.trans (by decide)⟩, ⟨env2, h2', h3'.trans (by decide)⟩,
      ⟨env3, h2'', h3''.trans (by decide)⟩⟩
  · obtain ⟨Out, h1, _, _, env1, h2, h3⟩ :=
      legalizeICmp_bytes_SLT_spec
        ⟨[S1, S16, S16], [⟨Opcode.G_CONSTANT, [.reg 2, .cimm 0]⟩]⟩ 0 1 2 2
        (envOf [0, 0x8000, 0])
        (by decide) (by decide) (by decide) (by decide) (by decide) (by decide)
        (fun v h => Option.some.inj h)
    exact ⟨Out, h1, env1, h2, h3.trans (by decide)⟩

/-! ## Multi-byte equality and unsigned greater-or-equal -/

/-- What `splitHighRest` builds for a register of `N` bytes, at least two. -/
theorem splitHighRest_eq (V : List LLT) (I Bf Af : List MachineInstr) (Reg N : Nat)
    (hN : 2 ≤ N) (hTy : (MachineRegisterInfo.mk V I).getType Reg = LLT.scalar (8 * N)) :
    splitHighRest Reg ⟨⟨V, I⟩, Bf, Af, false⟩ =
      (⟨⟨V ++ splitTypes N, I⟩, Bf ++ splitInsts V.length N Reg, Af, false⟩,
        V.length + (N - 1), splitRest V.length N) := by
  unfold splitTypes splitInsts splitRest
  have hdiv : 8 * N / 8 = N := by omega
  have hg := getReg_unmerge Opcode.G_UNMERGE_VALUES V.length N Reg (N - 1) (by omega)
  have hm : (List.range (N - 1)).map (fun Idx => MachineInstr.getReg
      ⟨Opcode.G_UNMERGE_VALUES,
        (List.range' V.length N).map MachineOperand.reg ++ [MachineOperand.reg Reg]⟩ Idx) =
      List.range' V.length (N - 1) := by
    rw [List.range'_eq_map_range (V.length) (N - 1)]
    apply List.map_congr_left
    intro i hi
    rw [getReg_unmerge _ _ _ _ _ (by have := List.mem_range.mp hi; omega)]
  by_cases h2 : N = 2
  · subst h2
    simp [splitHighRest, buildUnmerge_eq, hTy, LLT.getSizeInBits, S8, getNumOperands_unmerge,
      getReg_unmerge, List.range_succ]
  · have h3 : 1 < N - 1 := by omega
    simp [splitHighRest, buildUnmerge_eq, hTy, LLT.getSizeInBits, S8, hdiv,
      getNumOperands_unmerge, hg, hm, h2, h3, MachineIRBuilder.buildMerge,
      MachineIRBuilder.buildInstr, DstOp.addDefs, DstOp.addDef, getReg_cons_zero,
      MachineRegisterInfo.createGenericVirtualRegister, MachineIRBuilder.insert]

theorem splitTypes_length (N : Nat) :
    (splitTypes N).length = N + (if N = 2 then 0 else 1) := by
  unfold splitTypes
  split_ifs <;> simp

/-- What `legalizeICmp` emits for equality and unsigned greater-or-equal on `N`
bytes, at least two. -/
theorem legalizeICmp_bytes_split_insts (V : List LLT) (I : List MachineInstr)
    (Dst LHS RHS N : Nat) (hN : 2 ≤ N)
    (hTyL : (MachineRegisterInfo.mk V I).getType LHS = LLT.scalar (8 * N))
    (hTyR : (MachineRegisterInfo.mk V I).getType RHS = LLT.scalar (8 * N))
    (p : Predicate) (hp : p = Predicate.ICMP_EQ ∨ p = Predicate.ICMP_UGE) :
    legalizeICmp (MachineIRBuilder.atInstr ⟨V, I⟩) (mkICmp p Dst LHS RHS) =
      Except.ok
        { B := { MRI := ⟨V ++ (splitTypes N ++ (splitTypes N ++ [S1, S1, S1])), I⟩
                 Before := splitInsts V.length N LHS ++
                   (splitInsts (V.length + (splitTypes N).length) N RHS ++
                   [mkICmp Predicate.ICMP_EQ (V.length + 2 * (splitTypes N).length)
                      (V.length + (N - 1)) (V.length + (splitTypes N).length + (N - 1)),
                    (if p = Predicate.ICMP_EQ then
                      ⟨Opcode.G_CONSTANT,
                        [.reg (V.length + 2 * (splitTypes N).length + 1), .cimm 0]⟩
                     else mkICmp p (V.length + 2 * (splitTypes N).length + 1)
                      (V.length + (N - 1)) (V.length + (splitTypes N).length + (N - 1))),
                    mkICmp p (V.length + 2 * (splitTypes N).length + 2)
                      (splitRest V.length N) (splitRest (V.length + (splitTypes N).length) N),
                    ⟨Opcode.G_SELECT, [.reg Dst,
                      .reg (V.length + 2 * (splitTypes N).length),
                      .reg (V.length + 2 * (splitTypes N).length + 2),
                      .reg (V.length + 2 * (splitTypes N).length + 1)]⟩])
                 After := []
                 PastMI := false }
          MI := none
          Legalized := true } := by
  have hLlt : LHS < V.length := getType_eq_scalar_lt _ _ _ hTyL
  have hRlt : RHS < V.length := getType_eq_scalar_lt _ _ _ hTyR
  have hS8 : ¬ N = 1 := by omega
  have hs1 := splitHighRest_eq V I [] [] LHS N hN hTyL
  have hs2 := splitHighRest_eq (V ++ splitTypes N) I (splitInsts V.length N LHS) [] RHS N hN
    (by rw [getType_old _ _ _ _ hRlt]; exact hTyR)
  rw [List.length_append] at hs2
  have e0 : constantBits 1 0 = 0 := by decide
  have a1 : V.length + (splitTypes N).length + (splitTypes N).length =
      V.length + 2 * (splitTypes N).length := by omega
  rcases hp with rfl | rfl
  · simp [legalizeICmp, mkICmp, MachineIRBuilder.atInstr, MachineInstr.getPredicate,
      MachineInstr.getOperand, getReg_cons_zero, getReg_cons_succ, hTyL, hS8,
      LLT.isPointer, LLT.getSizeInBits, S1, S8, hs1, hs2,
      MachineIRBuilder.buildConstant, DstOp.getLLTTy, e0, MachineIRBuilder.buildICmp,
      MachineIRBuilder.buildInstr, MachineIRBuilder.buildSelect, DstOp.addDefs, DstOp.addDef,
      MachineRegisterInfo.createGenericVirtualRegister, MachineIRBuilder.insert, a1,
      CmpInst.isSigned]
    refine ⟨?_, ?_, ?_, ?_, ?_, ?_⟩ <;> first | omega | ring
  · simp [legalizeICmp, mkICmp, MachineIRBuilder.atInstr, MachineInstr.getPredicate,
      MachineInstr.getOperand, getReg_cons_zero, getReg_cons_succ, hTyL, hS8,
      LLT.isPointer, LLT.getSizeInBits, S1, S8, hs1, hs2,
      MachineIRBuilder.buildConstant, DstOp.getLLTTy, e0, MachineIRBuilder.buildICmp,
      MachineIRBuilder.buildInstr, MachineIRBuilder.buildSelect, DstOp.addDefs, DstOp.addDef,
      MachineRegisterInfo.createGenericVirtualRegister, MachineIRBuilder.insert, a1,
      CmpInst.isSigned]
    refine ⟨?_, ?_, ?_, ?_, ?_, ?_⟩ <;> first | omega | ring

theorem Except.map_map_pair (x : Except String (MachineRegisterInfo × List MachineInstr))
    (L1 L2 : List MachineInstr) :
    (x.map (fun p => (p.1, L2 ++ p.2))).map (fun p => (p.1, L1 ++ p.2)) =
      x.map (fun p => (p.1, (L1 ++ L2) ++ p.2)) := by
  cases x with
  | error e => rfl
  | ok p => simp [Except.map]

theorem LoweredTo_nil (MRI : MachineRegisterInfo) : LoweredTo MRI [] 0 [] MRI := by
  intro Fuel Rest
  cases h : legalizeWorkList Fuel MRI Rest with
  | error e => simp [h, Except.map]
  | ok p => simp [h, Except.map]

theorem LoweredTo_append (MRI MRI1 MRI2 : MachineRegisterInfo) (Is1 Is2 L1 L2 : List MachineInstr)
    (s1 s2 : Nat) (h1 : LoweredTo MRI Is1 s1 L1 MRI1) (h2 : LoweredTo MRI1 Is2 s2 L2 MRI2) :
    LoweredTo MRI (Is1 ++ Is2) (s2 + s1) (L1 ++ L2) MRI2 := by
  intro Fuel Rest
  rw [List.append_assoc, ← Nat.add_assoc, h1 (Fuel + s2) (Is2 ++ Rest), h2 Fuel Rest,
    Except.map_map_pair]

theorem LoweredTo_final (MRI : MachineRegisterInfo) (MI : MachineInstr)
    (h : MI.Opcode ≠ Opcode.G_ICMP) : LoweredTo MRI [MI] 1 [MI] MRI := by
  intro Fuel Rest
  simp only [List.singleton_append, legalizeWorkList, if_neg h]
  rfl

theorem LoweredTo_finals (MRI : MachineRegisterInfo) (L : List MachineInstr)
    (h : ∀ MI, MI ∈ L → MI.Opcode ≠ Opcode.G_ICMP) : LoweredTo MRI L L.length L MRI := by
  induction L with
  | nil => exact LoweredTo_nil MRI
  | cons MI L ih =>
    have h1 := LoweredTo_final MRI MI (h MI (List.mem_cons_self _ _))
    have h2 := ih (fun M hM => h M (List.mem_cons_of_mem _ hM))
    exact LoweredTo_append MRI MRI MRI [MI] L [MI] L 1 L.length h1 h2

theorem LoweredTo_icmp (MRI MRI1 : MachineRegisterInfo) (MI : MachineInstr)
    (Out : LegalizeResult) (s : Nat) (L : List MachineInstr)
    (hop : MI.Opcode = Opcode.G_ICMP)
    (hleg : legalizeICmp (MachineIRBuilder.atInstr MRI) MI = Except.ok Out)
    (h : LoweredTo Out.B.MRI Out.insts s L MRI1) : LoweredTo MRI [MI] (s + 1) L MRI1 := by
  intro Fuel Rest
  rw [← Nat.add_assoc]
  simp only [List.singleton_append, legalizeWorkList, if_pos hop, hleg]
  exact h Fuel Rest

theorem splitInsts_not_icmp (b N Reg : Nat) :
    ∀ MI, MI ∈ splitInsts b N Reg → MI.Opcode ≠ Opcode.G_ICMP := by
  intro MI hMI
  unfold splitInsts at hMI
  split_ifs at hMI <;> simp at hMI
  · subst hMI; simp
  · rcases hMI with rfl | rfl <;> simp

theorem splitRest_lt (b N : Nat) : splitRest b N < b + (splitTypes N).length := by
  rw [splitTypes_length]
  unfold splitRest
  split_ifs <;> omega

/-- The values after the instructions of `splitHighRest`: the bytes, the most
significant byte and the rest of the register, the registers below the fresh
ones being unchanged. -/
theorem splitInsts_exec (MRI : MachineRegisterInfo) (b N Reg : Nat) (env : Env)
    (hN : 2 ≤ N) (hv : env Reg < 256 ^ N)
    (hW : (MRI.getType b).getSizeInBits = 8) :
    ∃ env1, execInstrs MRI env (splitInsts b N Reg) = some env1 ∧
      (∀ r, r < b → env1 r = env r) ∧
      (∀ r, b + (splitTypes N).length ≤ r → env1 r = env r) ∧
      env1 (b + (N - 1)) = env Reg / 256 ^ (N - 1) ∧
      env1 (splitRest b N) = env Reg % 256 ^ (N - 1) := by
  have hpow : ∀ i, 2 ^ (8 * i) = 256 ^ i := by
    intro i; rw [Nat.pow_mul]
  have hP : 0 < 256 ^ (N - 1) := Nat.pow_pos (by norm_num)
  have hpowN : 256 ^ N = 256 ^ (N - 1) * 256 := by
    rw [← Nat.pow_succ]; congr 1; omega
  have hdiv : env Reg / 256 ^ (N - 1) < 256 := by
    rw [Nat.div_lt_iff_lt_mul hP, Nat.mul_comm, ← hpowN]; exact hv
  have hlen := splitTypes_length N
  unfold splitInsts splitRest
  by_cases h2 : N = 2
  · subst h2
    simp only [if_true, execInstrs, Option.some_bind] at hlen ⊢
    rw [execInstr_UNMERGE _ _ _ _ _ (by omega), hW]
    simp only [Option.some_bind]
    refine ⟨_, rfl, ?_, ?_, ?_, ?_⟩
    · intro r hr
      rw [unmergeInto_range'_of_lt _ _ _ _ _ _ hr]
    · intro r hr
      rw [unmergeInto_range', if_neg (by omega)]
    · rw [unmergeInto_range', if_pos (by omega), Nat.add_sub_cancel_left, hpow,
        Nat.mod_eq_of_lt (by simpa using hdiv)]
    · rw [unmergeInto_range', if_pos (by omega), Nat.sub_self, Nat.mul_zero, Nat.pow_zero,
        Nat.div_one]
      norm_num
  · simp only [if_neg h2, execInstrs, Option.some_bind] at hlen ⊢
    rw [execInstr_UNMERGE _ _ _ _ _ (by omega), hW]
    simp only [Option.some_bind]
    have hne : List.range' b (N - 1) ≠ [] := by
      intro h
      have := congrArg List.length h
      simp at this
      omega
    rw [execInstr_MERGE_head _ _ _ _ 8 _ hne]
    · simp only [Option.some_bind]
      refine ⟨_, rfl, ?_, ?_, ?_, ?_⟩
      · intro r hr
        rw [Env.set_ne _ _ (by omega), unmergeInto_range'_of_lt _ _ _ _ _ _ hr]
      · intro r hr
        rw [Env.set_ne _ _ (by omega), unmergeInto_range', if_neg (by omega)]
      · rw [Env.set_ne _ _ (by omega), unmergeInto_range', if_pos (by omega),
          Nat.add_sub_cancel_left, hpow, Nat.mod_eq_of_lt (by simpa using hdiv)]
      · rw [Env.set_eq]
        have hsub : List.range' b N = List.range' b (N - 1) ++ [b + (N - 1)] := by
          obtain ⟨j, rfl⟩ : ∃ j, N = j + 1 := ⟨N - 1, by omega⟩
          rw [List.range'_concat]; simp
        have hm : (List.range' b (N - 1)).map
            (unmergeInto 8 env (env Reg) (List.range' b N)) =
            (List.range' b (N - 1)).map (fun r => env Reg / 2 ^ (8 * (r - b)) % 2 ^ 8) := by
          apply List.map_congr_left
          intro r hr
          have h := List.mem_range'_1.mp hr
          rw [unmergeInto_range', if_pos (by omega)]
        rw [hm, mergeValues_unmerged, hpow]
    · intro p hp
      have hr : List.range' b (N - 1) = b :: List.range' (b + 1) (N - 1 - 1) := by
        obtain ⟨j, hj⟩ : ∃ j, N - 1 = j + 1 := ⟨N - 2, by omega⟩
        rw [hj, List.range'_succ]; rfl
      rw [hr] at hp
      simp at hp
      rw [← hp]; exact hW

/-- The 8-bit equality and unsigned greater-or-equal are lowered in one step
to a constant, a `G_SBC` and a copy, which compute the comparison. -/
theorem lowerICmp_S8 (V : List LLT) (I : List MachineInstr) (Dst LHS RHS : Nat)
    (hTy : (MachineRegisterInfo.mk V I).getType LHS = S8)
    (hTyR : (MachineRegisterInfo.mk V I).getType RHS = S8)
    (p : Predicate) (hp : p = Predicate.ICMP_EQ ∨ p = Predicate.ICMP_UGE) :
    ∃ s L Tys, LoweredTo ⟨V, I⟩ [mkICmp p Dst LHS RHS] s L ⟨V ++ Tys, I⟩ ∧
      (∀ MI, MI ∈ L → MI.Opcode ≠ Opcode.G_ICMP) ∧
      Computes V Tys I L Dst (fun env => env LHS < 256 ∧ env RHS < 256)
        (fun env => boolBit (evalICmp 8 p (env LHS) (env RHS))) := by
  obtain ⟨q, hq, rfl⟩ : ∃ q : Predicate × Nat,
      q ∈ [(Predicate.ICMP_EQ, 5), (Predicate.ICMP_UGE, 2)] ∧ q.1 = p := by
    rcases hp with rfl | rfl
    · exact ⟨(Predicate.ICMP_EQ, 5), by simp, rfl⟩
    · exact ⟨(Predicate.ICMP_UGE, 2), by simp, rfl⟩
  have hleg := legalizeICmp_S8_flag_insts V I Dst LHS RHS hTy q hq
  have hL : LHS < V.length := getType_eq_scalar_lt ⟨V, I⟩ LHS 8 hTy
  have hR : RHS < V.length := getType_eq_scalar_lt ⟨V, I⟩ RHS 8 hTyR
  refine ⟨_, _, _, LoweredTo_icmp _ _ _ _ _ _ rfl hleg (LoweredTo_finals _ _ ?_), ?_, ?_⟩
  · intro MI hMI
    simp [LegalizeResult.insts] at hMI
    rcases hMI with rfl | rfl | rfl <;> simp
  · intro MI hMI
    simp [LegalizeResult.insts] at hMI
    rcases hMI with rfl | rfl | rfl <;> simp
  · intro More env hpre
    obtain ⟨ha, hb⟩ := hpre
    simp only [LegalizeResult.insts, Option.toList, List.append_nil, List.cons_append,
      List.nil_append, execInstrs, execInstr_CONSTANT, execInstr_COPY, execInstr_SBC,
      Option.some_bind]
    refine ⟨_, rfl, ?_, ?_⟩
    · simp only [List.mem_cons, List.mem_singleton, List.not_mem_nil, or_false] at hq
      rcases hq with rfl | rfl <;>
      · simp (disch := omega) only [Env.set_eq, Env.set_ne]
        simp only [evalSBC, evalICmp, boolBit, decide_eq_true_eq]
        split_ifs <;> omega
    · intro r hr hne
      simp (disch := omega) only [Env.set_ne]

/-- The select of the split comparison: equality, or an unsigned
greater-or-equal, of two numbers from the comparisons of their high and low
parts. -/
theorem icmp_split (p : Predicate) (hp : p = Predicate.ICMP_EQ ∨ p = Predicate.ICMP_UGE)
    (W1 W2 W3 P a b : Nat) (hP : 0 < P) :
    (if boolBit (evalICmp W1 Predicate.ICMP_EQ (a / P) (b / P)) = 0 then
        (if p = Predicate.ICMP_EQ then 0 else boolBit (evalICmp W1 p (a / P) (b / P)))
      else boolBit (evalICmp W2 p (a % P) (b % P))) = boolBit (evalICmp W3 p a b) := by
  have ha := Nat.mod_add_div a P
  have hb := Nat.mod_add_div b P
  rcases hp with rfl | rfl
  · have hiff : a = b ↔ (a / P = b / P ∧ a % P = b % P) := by
      constructor
      · rintro rfl; exact ⟨rfl, rfl⟩
      · rintro ⟨h1, h2⟩; rw [← ha, ← hb, h1, h2]
    simp only [evalICmp, boolBit, if_true]
    by_cases h1 : a / P = b / P <;> by_cases h2 : a % P = b % P <;>
      simp [h1, h2, hiff]
  · have hiff := le_digits_iff P (a % P) (b % P) (a / P) (b / P) (Nat.mod_lt _ hP)
      (Nat.mod_lt _ hP)
    rw [ha, hb] at hiff
    simp only [evalICmp, boolBit]
    by_cases h1 : a / P = b / P
    · by_cases h2 : b % P ≤ a % P
      · have : b ≤ a := hiff.mpr (Or.inr ⟨h1.symm, h2⟩)
        simp [h1, h2, this]
      · have : ¬ b ≤ a := fun h => by
          rcases hiff.mp h with h3 | ⟨_, h3⟩
          · omega
          · exact h2 h3
        simp [h1, h2, this]
    · by_cases h2 : b / P ≤ a / P
      · have : b ≤ a := hiff.mpr (Or.inl (by omega))
        simp [h1, h2, this]
      · have : ¬ b ≤ a := fun h => by
          rcases hiff.mp h with h3 | ⟨h3, _⟩
          · omega
          · omega
        simp [h1, h2, this]

theorem getType_split_byte (V : List LLT) (I : List MachineInstr) (N i : Nat) (X : List LLT)
    (h : i < N) :
    (MachineRegisterInfo.mk (V ++ (splitTypes N ++ X)) I).getType (V.length + i) = S8 := by
  rw [getType_new]
  unfold splitTypes
  rw [List.append_assoc, List.getD_eq_getElem?_getD,
    List.getElem?_append_left (by simpa using h)]
  simp [h]

theorem getType_split_rest (V : List LLT) (I : List MachineInstr) (N : Nat) (X : List LLT)
    (h : 2 ≤ N) :
    (MachineRegisterInfo.mk (V ++ (splitTypes N ++ X)) I).getType (splitRest V.length N) =
      LLT.scalar (8 * (N - 1)) := by
  unfold splitRest
  by_cases h2 : N = 2
  · subst h2
    rw [if_pos rfl]
    exact getType_split_byte V I 2 0 X (by omega)
  · rw [if_neg h2, getType_new]
    unfold splitTypes
    rw [if_neg h2, List.append_assoc, List.getD_eq_getElem?_getD,
      List.getElem?_append_right (by simp)]
    simp [Nat.mul_comm]

/-- The equality and the unsigned greater-or-equal of `N` bytes are lowered,
through the comparisons that each step builds anew, to operations without any
comparison, which compute the comparison of the whole values. -/
theorem lowerICmp_bytes (p : Predicate)
    (hp : p = Predicate.ICMP_EQ ∨ p = Predicate.ICMP_UGE) :
    ∀ N, 1 ≤ N → ∀ (V : List LLT) (I : List MachineInstr) (Dst LHS RHS : Nat),
      (MachineRegisterInfo.mk V I).getType LHS = LLT.scalar (8 * N) →
      (MachineRegisterInfo.mk V I).getType RHS = LLT.scalar (8 * N) →
      ∃ s L Tys, LoweredTo ⟨V, I⟩ [mkICmp p Dst LHS RHS] s L ⟨V ++ Tys, I⟩ ∧
        (∀ MI, MI ∈ L → MI.Opcode ≠ Opcode.G_ICMP) ∧
        Computes V Tys I L Dst (fun env => env LHS < 256 ^ N ∧ env RHS < 256 ^ N)
          (fun env => boolBit (evalICmp (8 * N) p (env LHS) (env RHS))) := by
  intro N
  induction N using Nat.strong_induction_on with
  | _ N ih =>
  intro hN V I Dst LHS RHS hTyL hTyR
  by_cases h1 : N = 1
  · subst h1
    exact lowerICmp_S8 V I Dst LHS RHS hTyL hTyR p hp
  have hN2 : 2 ≤ N := by omega
  have hLlt : LHS < V.length := getType_eq_scalar_lt ⟨V, I⟩ _ _ hTyL
  have hRlt : RHS < V.length := getType_eq_scalar_lt ⟨V, I⟩ _ _ hTyR
  have hleg := legalizeICmp_bytes_split_insts V I Dst LHS RHS N hN2 hTyL hTyR p hp
  have hklen := splitTypes_length N
  have hkN : N ≤ (splitTypes N).length := by rw [hklen]; omega
  generalize hk : (splitTypes N).length = k at hleg hklen hkN
  have hrL := splitRest_lt V.length N
  have hrR := splitRest_lt (V.length + k) N
  rw [hk] at hrL hrR
  have hrR0 : V.length + k ≤ splitRest (V.length + k) N := by
    unfold splitRest; split_ifs <;> omega
  obtain ⟨V1, hV1⟩ : ∃ V1, V1 = V ++ (splitTypes N ++ (splitTypes N ++ [S1, S1, S1])) :=
    ⟨_, rfl⟩
  have hV1len : V1.length = V.length + 2 * k + 3 := by
    rw [hV1]; simp only [List.length_append, hk]; simp; omega
  have hV1R : V1 = (V ++ splitTypes N) ++ (splitTypes N ++ [S1, S1, S1]) := by
    rw [hV1, List.append_assoc]
  have hlenR : (V ++ splitTypes N).length = V.length + k := by
    rw [List.length_append, hk]
  have hTyHiL : (MachineRegisterInfo.mk V1 I).getType (V.length + (N - 1)) = S8 := by
    rw [hV1]; exact getType_split_byte V I N (N - 1) _ (by omega)
  have hTyHiR : (MachineRegisterInfo.mk V1 I).getType (V.length + k + (N - 1)) = S8 := by
    rw [hV1R, ← hlenR]; exact getType_split_byte _ I N (N - 1) _ (by omega)
  have hTyReL : (MachineRegisterInfo.mk V1 I).getType (splitRest V.length N) =
      LLT.scalar (8 * (N - 1)) := by
    rw [hV1]; exact getType_split_rest V I N _ hN2
  have hTyReR : (MachineRegisterInfo.mk V1 I).getType (splitRest (V.length + k) N) =
      LLT.scalar (8 * (N - 1)) := by
    rw [hV1R, ← hlenR]; exact getType_split_rest _ I N _ hN2
  -- the comparison of the high bytes for equality
  obtain ⟨sA, LA, TysA, hA1, hA2, hA3⟩ := lowerICmp_S8 V1 I (V.length + 2 * k)
    (V.length + (N - 1)) (V.length + k + (N - 1)) hTyHiL hTyHiR Predicate.ICMP_EQ (Or.inl rfl)
  -- the comparison of the high bytes for the predicate, or the constant
  have hB : ∃ sB LB TysB,
      LoweredTo ⟨V1 ++ TysA, I⟩
        [if p = Predicate.ICMP_EQ then
            ⟨Opcode.G_CONSTANT, [.reg (V.length + 2 * k + 1), .cimm 0]⟩
          else mkICmp p (V.length + 2 * k + 1) (V.length + (N - 1)) (V.length + k + (N - 1))]
        sB LB ⟨(V1 ++ TysA) ++ TysB, I⟩ ∧
      (∀ MI, MI ∈ LB → MI.Opcode ≠ Opcode.G_ICMP) ∧
      Computes (V1 ++ TysA) TysB I LB (V.length + 2 * k + 1)
        (fun env => env (V.length + (N - 1)) < 256 ∧ env (V.length + k + (N - 1)) < 256)
        (fun env => if p = Predicate.ICMP_EQ then 0 else
          boolBit (evalICmp 8 p (env (V.length + (N - 1))) (env (V.length + k + (N - 1))))) := by
    by_cases hpe : p = Predicate.ICMP_EQ
    · simp only [if_pos hpe]
      refine ⟨1, [⟨Opcode.G_CONSTANT, [.reg (V.length + 2 * k + 1), .cimm 0]⟩], [], ?_, ?_, ?_⟩
      · rw [List.append_nil]; exact LoweredTo_final _ _ (by simp)
      · intro MI hMI
        simp at hMI
        subst hMI; simp
      · intro More env _
        simp only [execInstrs, execInstr_CONSTANT, Option.some_bind]
        refine ⟨_, rfl, Env.set_eq _ _ _, ?_⟩
        intro r _ hne
        exact Env.set_ne _ _ hne
    · simp only [if_neg hpe]
      exact lowerICmp_S8 (V1 ++ TysA) I (V.length + 2 * k + 1)
        (V.length + (N - 1)) (V.length + k + (N - 1))
        ((getType_old V1 I TysA _ (by omega)).trans hTyHiL)
        ((getType_old V1 I TysA _ (by omega)).trans hTyHiR) p hp
  obtain ⟨sB, LB, TysB, hB1, hB2, hB3⟩ := hB
  -- the comparison of the rests
  have hV2 : (V1 ++ TysA) ++ TysB = V1 ++ (TysA ++ TysB) := List.append_assoc _ _ _
  obtain ⟨sC, LC, TysC, hC1, hC2, hC3⟩ := ih (N - 1) (by omega) (by omega)
    ((V1 ++ TysA) ++ TysB) I (V.length + 2 * k + 2)
    (splitRest V.length N) (splitRest (V.length + k) N)
    (by rw [hV2]; exact (getType_old V1 I _ _ (by omega)).trans hTyReL)
    (by rw [hV2]; exact (getType_old V1 I _ _ (by omega)).trans hTyReR)
  have hTys : V ++ ((((splitTypes N ++ (splitTypes N ++ [S1, S1, S1])) ++ TysA) ++ TysB) ++ TysC)
      = ((V1 ++ TysA) ++ TysB) ++ TysC := by
    rw [hV1]; simp only [List.append_assoc]
  refine ⟨(((1 + sC) + sB) + sA) +
      (splitInsts V.length N LHS ++ splitInsts (V.length + k) N RHS).length + 1,
    (splitInsts V.length N LHS ++ splitInsts (V.length + k) N RHS) ++
      (LA ++ (LB ++ (LC ++ [⟨Opcode.G_SELECT, [.reg Dst, .reg (V.length + 2 * k),
        .reg (V.length + 2 * k + 2), .reg (V.length + 2 * k + 1)]⟩]))),
    (((splitTypes N ++ (splitTypes N ++ [S1, S1, S1])) ++ TysA) ++ TysB) ++ TysC, ?_, ?_, ?_⟩
  · rw [hTys]
    refine LoweredTo_icmp _ _ _ _ _ _ rfl hleg ?_
    have hins : LegalizeResult.insts
        { B := { MRI := ⟨V ++ (splitTypes N ++ (splitTypes N ++ [S1, S1, S1])), I⟩
                 Before := splitInsts V.length N LHS ++
                   (splitInsts (V.length + k) N RHS ++
                   [mkICmp Predicate.ICMP_EQ (V.length + 2 * k)
                      (V.length + (N - 1)) (V.length + k + (N - 1)),
                    (if p = Predicate.ICMP_EQ then
                      ⟨Opcode.G_CONSTANT,
                        [.reg (V.length + 2 * k + 1), .cimm 0]⟩
                     else mkICmp p (V.length + 2 * k + 1)
                      (V.length + (N - 1)) (V.length + k + (N - 1))),
                    mkICmp p (V.length + 2 * k + 2)
                      (splitRest V.length N) (splitRest (V.length + k) N),
                    ⟨Opcode.G_SELECT, [.reg Dst,
                      .reg (V.length + 2 * k),
                      .reg (V.length + 2 * k + 2),
                      .reg (V.length + 2 * k + 1)]⟩])
                 After := []
                 PastMI := false }
          MI := none
          Legalized := true } =
        (splitInsts V.length N LHS ++ splitInsts (V.length + k) N RHS) ++
          ([mkICmp Predicate.ICMP_EQ (V.length + 2 * k)
              (V.length + (N - 1)) (V.length + k + (N - 1))] ++
           ([if p = Predicate.ICMP_EQ then
                ⟨Opcode.G_CONSTANT, [.reg (V.length + 2 * k + 1), .cimm 0]⟩
              else mkICmp p (V.length + 2 * k + 1)
                (V.length + (N - 1)) (V.length + k + (N - 1))] ++
            ([mkICmp p (V.length + 2 * k + 2)
                (splitRest V.length N) (splitRest (V.length + k) N)] ++
             [⟨Opcode.G_SELECT, [.reg Dst, .reg (V.length + 2 * k),
                .reg (V.length + 2 * k + 2), .reg (V.length + 2 * k + 1)]⟩]))) := by
      simp [LegalizeResult.insts]
    rw [hins]
    simp only [← hV1]
    refine LoweredTo_append _ _ _ _ _ _ _ _ _ (LoweredTo_finals _ _ ?_)
      (LoweredTo_append _ _ _ _ _ _ _ _ _ hA1
        (LoweredTo_append _ _ _ _ _ _ _ _ _ hB1
          (LoweredTo_append _ _ _ _ _ _ _ _ _ hC1 (LoweredTo_final _ _ (by simp)))))
    intro MI hMI
    rcases List.mem_append.mp hMI with h | h
    · exact splitInsts_not_icmp _ _ _ MI h
    · exact splitInsts_not_icmp _ _ _ MI h
  · intro MI hMI
    simp only [List.mem_append, List.mem_singleton] at hMI
    rcases hMI with (h | h) | h | h | h | h
    · exact splitInsts_not_icmp _ _ _ MI h
    · exact splitInsts_not_icmp _ _ _ MI h
    · exact hA2 MI h
    · exact hB2 MI h
    · exact hC2 MI h
    · subst h; simp
  · intro More env hpre
    obtain ⟨ha, hb⟩ := hpre
    obtain ⟨Mf, hMf⟩ : ∃ Mf, Mf = V ++ (((((splitTypes N ++ (splitTypes N ++ [S1, S1, S1])) ++
        TysA) ++ TysB) ++ TysC) ++ More) := ⟨_, rfl⟩
    rw [← hMf]
    have hMA : Mf = V1 ++ (TysA ++ (TysB ++ (TysC ++ More))) := by
      rw [hMf, hV1]; simp only [List.append_assoc]
    have hMB : Mf = (V1 ++ TysA) ++ (TysB ++ (TysC ++ More)) := by
      rw [hMf, hV1]; simp only [List.append_assoc]
    have hMC : Mf = ((V1 ++ TysA) ++ TysB) ++ (TysC ++ More) := by
      rw [hMf, hV1]; simp only [List.append_assoc]
    have hM0 : Mf = V ++ (splitTypes N ++
        (splitTypes N ++ ([S1, S1, S1] ++ (TysA ++ (TysB ++ (TysC ++ More)))))) := by
      rw [hMf]; simp only [List.append_assoc]
    have hM0R : Mf = (V ++ splitTypes N) ++
        (splitTypes N ++ ([S1, S1, S1] ++ (TysA ++ (TysB ++ (TysC ++ More))))) := by
      rw [hMf]; simp only [List.append_assoc]
    have hWL : ((MachineRegisterInfo.mk Mf I).getType V.length).getSizeInBits = 8 := by
      have h := getType_split_byte V I N 0
        (splitTypes N ++ ([S1, S1, S1] ++ (TysA ++ (TysB ++ (TysC ++ More))))) (by omega)
      rw [Nat.add_zero, ← hM0] at h
      rw [h]; rfl
    have hWR : ((MachineRegisterInfo.mk Mf I).getType (V.length + k)).getSizeInBits = 8 := by
      have h := getType_split_byte (V ++ splitTypes N) I N 0
        ([S1, S1, S1] ++ (TysA ++ (TysB ++ (TysC ++ More)))) (by omega)
      rw [Nat.add_zero, ← hM0R, hlenR] at h
      rw [h]; rfl
    have hP : 0 < 256 ^ (N - 1) := Nat.pow_pos (by norm_num)
    have hpowN : 256 ^ N = 256 ^ (N - 1) * 256 := by
      rw [← Nat.pow_succ]; congr 1; omega
    have hdivL : env LHS / 256 ^ (N - 1) < 256 := by
      rw [Nat.div_lt_iff_lt_mul hP, Nat.mul_comm, ← hpowN]; exact ha
    have hdivR : env RHS / 256 ^ (N - 1) < 256 := by
      rw [Nat.div_lt_iff_lt_mul hP, Nat.mul_comm, ← hpowN]; exact hb
    obtain ⟨ea, hea, hea1, -, hea3, hea4⟩ :=
      splitInsts_exec ⟨Mf, I⟩ V.length N LHS env hN2 ha hWL
    obtain ⟨eb, heb, heb1, -, heb3, heb4⟩ :=
      splitInsts_exec ⟨Mf, I⟩ (V.length + k) N RHS ea hN2
        (by rw [hea1 RHS hRlt]; exact hb) hWR
    rw [hea1 RHS hRlt] at heb3 heb4
    have hbHiL : eb (V.length + (N - 1)) = env LHS / 256 ^ (N - 1) := by
      rw [heb1 _ (by omega), hea3]
    have hbReL : eb (splitRest V.length N) = env LHS % 256 ^ (N - 1) := by
      rw [heb1 _ hrL, hea4]
    obtain ⟨ec, hec, hec1, hec2⟩ := hA3 (TysB ++ (TysC ++ More)) eb
      ⟨by rw [hbHiL]; exact hdivL, by rw [heb3]; exact hdivR⟩
    rw [← hMA] at hec
    beta_reduce at hec1
    have hcHiL : ec (V.length + (N - 1)) = env LHS / 256 ^ (N - 1) := by
      rw [hec2 (V.length + (N - 1)) (by omega) (by omega), hbHiL]
    have hcHiR : ec (V.length + k + (N - 1)) = env RHS / 256 ^ (N - 1) := by
      rw [hec2 (V.length + k + (N - 1)) (by omega) (by omega), heb3]
    have hlenA : (V1 ++ TysA).length = V1.length + TysA.length := List.length_append _ _
    have hlenB : ((V1 ++ TysA) ++ TysB).length = V1.length + TysA.length + TysB.length := by
      rw [List.length_append, List.length_append]
    obtain ⟨ed, hed, hed1, hed2⟩ := hB3 (TysC ++ More) ec
      ⟨by rw [hcHiL]; exact hdivL, by rw [hcHiR]; exact hdivR⟩
    rw [← hMB] at hed
    beta_reduce at hed1
    have hdReL : ed (splitRest V.length N) = env LHS % 256 ^ (N - 1) := by
      rw [hed2 (splitRest V.length N) (by omega) (by omega), hec2 (splitRest V.length N) (by omega) (by omega), hbReL]
    have hdReR : ed (splitRest (V.length + k) N) = env RHS % 256 ^ (N - 1) := by
      rw [hed2 (splitRest (V.length + k) N) (by omega) (by omega), hec2 (splitRest (V.length + k) N) (by omega) (by omega), heb4]
    obtain ⟨ee, hee, hee1, hee2⟩ := hC3 More ed
      ⟨by rw [hdReL]; exact Nat.mod_lt _ hP, by rw [hdReR]; exact Nat.mod_lt _ hP⟩
    rw [← hMC] at hee
    beta_reduce at hee1
    refine ⟨ee.set Dst (if ee (V.length + 2 * k) = 0 then ee (V.length + 2 * k + 1)
      else ee (V.length + 2 * k + 2)), ?_, ?_, ?_⟩
    · rw [execInstrs_append, execInstrs_append, hea, Option.some_bind, heb, Option.some_bind,
        execInstrs_append, hec, Option.some_bind, execInstrs_append, hed, Option.some_bind,
        execInstrs_append, hee, Option.some_bind]
      simp only [execInstrs, execInstr_SELECT, Option.some_bind]
    · rw [Env.set_eq, hee2 (V.length + 2 * k) (by omega) (by omega), hed2 (V.length + 2 * k) (by omega) (by omega), hec1,
        hee2 (V.length + 2 * k + 1) (by omega) (by omega), hed1, hee1, hcHiL, hcHiR, hdReL,
        hdReR, hbHiL, heb3]
      exact icmp_split p hp 8 (8 * (N - 1)) (8 * N) (256 ^ (N - 1)) (env LHS) (env RHS) hP
    · intro r hr hne
      rw [Env.set_ne _ _ hne, hee2 r (by omega) (by omega), hed2 r (by omega) (by omega),
        hec2 r (by omega) (by omega), heb1 r (by omega), hea1 r hr]

/-- C5: for `N >= 2` bytes, `legalizeICmp` lowers equality and unsigned
greater-or-equal to a select on the equality of the most significant bytes,
which takes the same comparison of the remaining `N - 1` bytes when they are
equal and otherwise the comparison of the most significant bytes (the constant
0 for equality); legalizing the comparisons so built in turn, down to 8 bits,
ends with operations free of comparisons, whose result is the direct
comparison `a == b`, respectively `a >= b` unsigned, of the `N`-byte values. -/
theorem legalizeICmp_bytes_EQ_UGE_spec (N : Nat) (hN : 2 ≤ N) (p : Predicate)
    (hp : p = Predicate.ICMP_EQ ∨ p = Predicate.ICMP_UGE)
    (V : List LLT) (I : List MachineInstr) (Dst LHS RHS : Nat)
    (hTyL : (MachineRegisterInfo.mk V I).getType LHS = LLT.scalar (8 * N))
    (hTyR : (MachineRegisterInfo.mk V I).getType RHS = LLT.scalar (8 * N)) :
    (∃ Out, legalizeICmp (MachineIRBuilder.atInstr ⟨V, I⟩) (mkICmp p Dst LHS RHS) =
        Except.ok Out ∧ Out.MI = none ∧
      Out.insts = splitInsts V.length N LHS ++
        (splitInsts (V.length + (splitTypes N).length) N RHS ++
          [mkICmp Predicate.ICMP_EQ (V.length + 2 * (splitTypes N).length)
              (V.length + (N - 1)) (V.length + (splitTypes N).length + (N - 1)),
            (if p = Predicate.ICMP_EQ then
              ⟨Opcode.G_CONSTANT, [.reg (V.length + 2 * (splitTypes N).length + 1), .cimm 0]⟩
            else mkICmp p (V.length + 2 * (splitTypes N).length + 1)
              (V.length + (N - 1)) (V.length + (splitTypes N).length + (N - 1))),
            mkICmp p (V.length + 2 * (splitTypes N).length + 2)
              (splitRest V.length N) (splitRest (V.length + (splitTypes N).length) N),
            ⟨Opcode.G_SELECT, [.reg Dst, .reg (V.length + 2 * (splitTypes N).length),
              .reg (V.length + 2 * (splitTypes N).length + 2),
              .reg (V.length + 2 * (splitTypes N).length + 1)]⟩])) ∧
    ∃ Steps L Tys,
      (∀ Fuel, legalizeWorkList (Fuel + Steps) ⟨V, I⟩ [mkICmp p Dst LHS RHS] =
        Except.ok (⟨V ++ Tys, I⟩, L)) ∧
      (∀ MI, MI ∈ L → MI.Opcode ≠ Opcode.G_ICMP) ∧
      ∀ env : Env, env LHS < 256 ^ N → env RHS < 256 ^ N →
        ∃ env1, execInstrs ⟨V ++ Tys, I⟩ env L = some env1 ∧
          env1 Dst = boolBit (evalICmp (8 * N) p (env LHS) (env RHS)) ∧
          (p = Predicate.ICMP_EQ → env1 Dst = boolBit (decide (env LHS = env RHS))) ∧
          (p = Predicate.ICMP_UGE → env1 Dst = boolBit (decide (env RHS ≤ env LHS))) ∧
          ∀ r, r < V.length → r ≠ Dst → env1 r = env r := by
  refine ⟨⟨_, legalizeICmp_bytes_split_insts V I Dst LHS RHS N hN hTyL hTyR p hp, rfl,
    by simp [LegalizeResult.insts]⟩, ?_⟩
  obtain ⟨s, L, Tys, h1, h2, h3⟩ :=
    lowerICmp_bytes p hp N (by omega) V I Dst LHS RHS hTyL hTyR
  refine ⟨s, L, Tys, ?_, h2, ?_⟩
  · intro Fuel
    have h := h1 Fuel []
    rw [List.append_nil] at h
    rw [h]
    cases Fuel <;> simp [legalizeWorkList, Except.map]
  · intro env ha hb
    obtain ⟨env1, he, hv, hf⟩ := h3 [] env ⟨ha, hb⟩
    rw [List.append_nil] at he
    refine ⟨env1, he, hv, ?_, ?_, hf⟩
    · rintro rfl; exact hv
    · rintro rfl; exact hv

theorem legalizeICmp_bytes_EQ_UGE_spec_witness :
    ∃ Steps L Tys,
      legalizeWorkList Steps ⟨[S1, S16, S16], []⟩ [mkICmp Predicate.ICMP_UGE 0 1 2] =
        Except.ok (⟨[S1, S16, S16] ++ Tys, []⟩, L) ∧
      ∀ ab ∈ [((0, 0), 1), ((0, 1), 0), ((0xFF, 0x100), 0), ((0xFFFF, 0xFFFF), 1),
          ((0x00FF, 0x0100), 0)],
        ∃ env1, execInstrs ⟨[S1, S16, S16] ++ Tys, []⟩ (envOf [0, ab.1.1, ab.1.2]) L =
            some env1 ∧ env1 0 = ab.2 := by
  obtain ⟨-, Steps, L, Tys, hW, -, hE⟩ :=
    legalizeICmp_bytes_EQ_UGE_spec 2 (by decide) Predicate.ICMP_UGE (Or.inr rfl)
      [S1, S16, S16] [] 0 1 2 (by decide) (by decide)
  refine ⟨Steps, L, Tys, by simpa using hW 0, ?_⟩
  intro ab hab
  simp only [List.mem_cons, List.mem_singleton, List.not_mem_nil, or_false] at hab
  rcases hab with rfl | rfl | rfl | rfl | rfl
  · obtain ⟨env1, h1, h2, -⟩ := hE (envOf [0, 0, 0]) (by decide) (by decide)
    exact ⟨env1, h1, h2.trans (by decide)⟩
  · obtain ⟨env1, h1, h2, -⟩ := hE (envOf [0, 0, 1]) (by decide) (by decide)
    exact ⟨env1, h1, h2.trans (by decide)⟩
  · obtain ⟨env1, h1, h2, -⟩ := hE (envOf [0, 0xFF, 0x100]) (by decide) (by decide)
    exact ⟨env1, h1, h2.trans (by decide)⟩
  · obtain ⟨env1, h1, h2, -⟩ := hE (envOf [0, 0xFFFF, 0xFFFF]) (by decide) (by decide)
    exact ⟨env1, h1, h2.trans (by decide)⟩
  · obtain ⟨env1, h1, h2, -⟩ := hE (envOf [0, 0x00FF, 0x0100]) (by decide) (by decide)
    exact ⟨env1, h1, h2.trans (by decide)⟩

/-! ## Rotation by one bit -/

theorem execInstr_IMPLICIT_DEF (MRI : MachineRegisterInfo) (env : Env) (d : Nat) :
    execInstr MRI env ⟨Opcode.G_IMPLICIT_DEF, [.reg d]⟩ =
      some (env.set d (env d % 2 ^ (MRI.getType d).getSizeInBits)) := rfl

theorem execInstr_LSHRE (MRI : MachineRegisterInfo) (env : Env) (d co s ci : Nat) :
    execInstr MRI env ⟨Opcode.G_LSHRE, [.reg d, .reg co, .reg s, .reg ci]⟩ =
      some ((env.set d (evalLSHRE (env s) (env ci)).1).set co (evalLSHRE (env s) (env ci)).2) :=
  rfl

theorem execInstr_SHLE (MRI : MachineRegisterInfo) (env : Env) (d co s ci : Nat) :
    execInstr MRI env ⟨Opcode.G_SHLE, [.reg d, .reg co, .reg s, .reg ci]⟩ =
      some ((env.set d (evalSHLE (env s) (env ci)).1).set co (evalSHLE (env s) (env ci)).2) :=
  rfl

theorem execInstr_ROTR (MRI : MachineRegisterInfo) (env : Env) (d s a : Nat) :
    execInstr MRI env ⟨Opcode.G_ROTR, [.reg d, .reg s, .reg a]⟩ =
      some (env.set d (rotr (MRI.getType d).getSizeInBits (env s) (env a))) := rfl

theorem execInstr_ROTL (MRI : MachineRegisterInfo) (env : Env) (d s a : Nat) :
    execInstr MRI env ⟨Opcode.G_ROTL, [.reg d, .reg s, .reg a]⟩ =
      some (env.set d (rotl (MRI.getType d).getSizeInBits (env s) (env a))) := rfl

set_option maxRecDepth 100000 in
theorem rotr_one : ∀ v < 256, rotr 8 v 1 = (v >>> 1) ||| ((v &&& 1) <<< 7) := by
  decide

set_option maxRecDepth 100000 in
theorem rotl_seven : ∀ v < 256, rotl 8 v 7 = rotr 8 v 1 := by
  decide

/-- What `legalizeRotr` emits for a rotation by the constant 1. -/
theorem legalizeRotr_insts (V : List LLT) (I : List MachineInstr) (Dst Src Amt : Nat)
    (hAmt : mi_match_SpecificICst Amt ⟨V, I⟩ 1 = true) :
    legalizeRotr (MachineIRBuilder.atInstr ⟨V, I⟩)
        ⟨Opcode.G_ROTR, [.reg Dst, .reg Src, .reg Amt]⟩ =
      Outcome.rewritten
        { B := { MRI := ⟨V ++ [S1, S8, S1, S1], I⟩
                 Before := [⟨Opcode.G_IMPLICIT_DEF, [.reg V.length]⟩,
                   ⟨Opcode.G_LSHRE, [.reg (V.length + 1), .reg (V.length + 2), .reg Src,
                     .reg V.length]⟩,
                   ⟨Opcode.G_LSHRE, [.reg Dst, .reg (V.length + 3), .reg Src,
                     .reg (V.length + 2)]⟩]
                 After := []
                 PastMI := false }
          MI := none
          Legalized := true } := by
  simp [legalizeRotr, MachineIRBuilder.atInstr, MachineIRBuilder.buildUndef,
    MachineIRBuilder.buildInstr, MachineIRBuilder.insert, DstOp.addDefs, DstOp.addDef,
    MachineRegisterInfo.createGenericVirtualRegister, MachineInstr.getReg,
    MachineInstr.getOperand, hAmt]

/-- C11: for a rotate-right of a byte `v` by the constant 1, `legalizeRotr`
emits an undefined 1-bit value and two shift-right-with-carry operations: the
first on `v` with the undefined value as carry-in, the second on `v` with the
carry-out of the first as carry-in; whatever the undefined value `u` is, the
destination gets `(v >> 1) | ((v & 1) << 7)`, the rotation of `v` by one bit. -/
theorem legalizeRotr_spec (V : List LLT) (I : List MachineInstr) (Dst Src Amt : Nat)
    (env : Env) (hAmt : mi_match_SpecificICst Amt ⟨V, I⟩ 1 = true)
    (hDst : Dst < V.length) (hSrc : Src < V.length) (hv : env Src < 256) :
    ∃ Out,
      legalizeRotr (MachineIRBuilder.atInstr ⟨V, I⟩)
          ⟨Opcode.G_ROTR, [.reg Dst, .reg Src, .reg Amt]⟩ = Outcome.rewritten Out ∧
      Out.MI = none ∧
      Out.insts =
        [⟨Opcode.G_IMPLICIT_DEF, [.reg V.length]⟩,
         ⟨Opcode.G_LSHRE, [.reg (V.length + 1), .reg (V.length + 2), .reg Src,
           .reg V.length]⟩,
         ⟨Opcode.G_LSHRE, [.reg Dst, .reg (V.length + 3), .reg Src, .reg (V.length + 2)]⟩] ∧
      ∀ u : Nat, ∃ env1,
        execInstrs Out.B.MRI (env.set V.length u) Out.insts = some env1 ∧
        env1 V.length = u % 2 ∧
        env1 (V.length + 2) = env Src &&& 1 ∧
        env1 Dst = (env Src >>> 1) ||| ((env Src &&& 1) <<< 7) ∧
        env1 Dst = rotr 8 (env Src) 1 := by
  refine ⟨_, legalizeRotr_insts V I Dst Src Amt hAmt, rfl, rfl, ?_⟩
  intro u
  simp only [LegalizeResult.insts, Option.toList, List.append_nil, execInstrs,
    execInstr_IMPLICIT_DEF, execInstr_LSHRE, Option.some_bind]
  refine ⟨_, rfl, ?_⟩
  simp (disch := omega) only [Env.set_eq, Env.set_ne, getType_new_zero]
  refine ⟨by simp [S1, LLT.getSizeInBits], rfl, rfl, ?_⟩
  exact (rotr_one _ hv).symm

theorem legalizeRotr_spec_witness :
    ∃ Out,
      legalizeRotr (MachineIRBuilder.atInstr
          ⟨[S8, S8, S8], [⟨Opcode.G_CONSTANT, [.reg 2, .cimm 1]⟩]⟩)
          ⟨Opcode.G_ROTR, [.reg 0, .reg 1, .reg 2]⟩ = Outcome.rewritten Out ∧
      ∀ u : Nat, ∃ env1,
        execInstrs Out.B.MRI ((envOf [0, 0x81, 1]).set 3 u) Out.insts = some env1 ∧
        env1 0 = 0xC0 := by
  obtain ⟨Out, h1, -, -, h2⟩ :=
    legalizeRotr_spec [S8, S8, S8] [⟨Opcode.G_CONSTANT, [.reg 2, .cimm 1]⟩] 0 1 2
      (envOf [0, 0x81, 1]) (by decide) (by decide) (by decide) (by decide)
  refine ⟨Out, h1, fun u => ?_⟩
  obtain ⟨env1, h3, -, -, h4, -⟩ := h2 u
  exact ⟨env1, h3, h4.trans (by decide)⟩

theorem constantBits_eight_one : constantBits 8 1 = 1 := by decide

/-- What `legalizeRotl` does with a rotation by the constant 7. -/
theorem legalizeRotl_insts (V : List LLT) (I : List MachineInstr) (Dst Src Amt : Nat)
    (hAmt : mi_match_SpecificICst Amt ⟨V, I⟩ 7 = true) :
    legalizeRotl (MachineIRBuilder.atInstr ⟨V, I⟩)
        ⟨Opcode.G_ROTL, [.reg Dst, .reg Src, .reg Amt]⟩ =
      Outcome.rewritten
        { B := { MRI := ⟨V ++ [S8], I⟩
                 Before := [⟨Opcode.G_CONSTANT, [.reg V.length, .cimm 1]⟩]
                 After := []
                 PastMI := false }
          MI := some ⟨Opcode.G_ROTR, [.reg Dst, .reg Src, .reg V.length]⟩
          Legalized := true } := by
  simp [legalizeRotl, MachineIRBuilder.atInstr, MachineIRBuilder.buildConstant,
    MachineIRBuilder.buildInstr, MachineIRBuilder.insert, DstOp.addDefs, DstOp.addDef,
    DstOp.getLLTTy, MachineRegisterInfo.createGenericVirtualRegister, MachineInstr.getReg,
    MachineInstr.getOperand, MachineInstr.setDesc, MachineInstr.setReg, hAmt, S8,
    LLT.getSizeInBits, constantBits_eight_one]

/-- C12: a rotate-left of a byte by the constant 7 is rewritten in place by
`legalizeRotl` into a rotate-right of the same source into the same
destination, by a new 8-bit constant 1; the destination has the value it had:
`rotl(v, 7) = rotr(v, 1)` for every byte `v`. -/
theorem legalizeRotl_spec (V : List LLT) (I : List MachineInstr) (Dst Src Amt : Nat)
    (env : Env) (hAmt : mi_match_SpecificICst Amt ⟨V, I⟩ 7 = true)
    (hTy : (MachineRegisterInfo.mk V I).getType Dst = S8)
    (hSrc : Src < V.length) (hv : env Src < 256) (hc : env Amt = 7) :
    ∃ Out,
      legalizeRotl (MachineIRBuilder.atInstr ⟨V, I⟩)
          ⟨Opcode.G_ROTL, [.reg Dst, .reg Src, .reg Amt]⟩ = Outcome.rewritten Out ∧
      Out.B.Before = [⟨Opcode.G_CONSTANT, [.reg V.length, .cimm 1]⟩] ∧
      Out.MI = some ⟨Opcode.G_ROTR, [.reg Dst, .reg Src, .reg V.length]⟩ ∧
      Out.B.After = [] ∧
      ∃ env0 env1,
        execInstr ⟨V, I⟩ env ⟨Opcode.G_ROTL, [.reg Dst, .reg Src, .reg Amt]⟩ = some env0 ∧
        execInstrs Out.B.MRI env Out.insts = some env1 ∧
        env0 Dst = rotl 8 (env Src) 7 ∧
        env1 Dst = rotr 8 (env Src) 1 ∧
        env1 Dst = env0 Dst := by
  have hDst : Dst < V.length := getType_eq_scalar_lt ⟨V, I⟩ Dst 8 hTy
  refine ⟨_, legalizeRotl_insts V I Dst Src Amt hAmt, rfl, rfl, rfl, ?_⟩
  simp only [LegalizeResult.insts, Option.toList, List.append_nil, List.cons_append,
    List.nil_append, execInstrs, execInstr_CONSTANT, execInstr_ROTR, execInstr_ROTL,
    Option.some_bind]
  refine ⟨_, _, rfl, rfl, ?_⟩
  simp (disch := omega) only [Env.set_eq, Env.set_ne, getType_old, hTy, hc]
  refine ⟨rfl, rfl, ?_⟩
  exact (rotl_seven _ hv).symm

theorem legalizeRotl_spec_witness :
    ∃ Out,
      legalizeRotl (MachineIRBuilder.atInstr
          ⟨[S8, S8, S8], [⟨Opcode.G_CONSTANT, [.reg 2, .cimm 7]⟩]⟩)
          ⟨Opcode.G_ROTL, [.reg 0, .reg 1, .reg 2]⟩ = Outcome.rewritten Out ∧
      Out.MI = some ⟨Opcode.G_ROTR, [.reg 0, .reg 1, .reg 3]⟩ ∧
      ∃ env1, execInstrs Out.B.MRI (envOf [0, 0x81, 7]) Out.insts = some env1 ∧
        env1 0 = 0xC0 := by
  obtain ⟨Out, h1, -, h2, -, env0, env1, -, h3, -, h4, -⟩ :=
    legalizeRotl_spec [S8, S8, S8] [⟨Opcode.G_CONSTANT, [.reg 2, .cimm 7]⟩] 0 1 2
      (envOf [0, 0x81, 7]) (by decide) (by decide) (by decide) (by decide) (by decide)
  exact ⟨Out, h1, h2, env1, h3, h4.trans (by decide)⟩

/-! ## Shift by one bit -/

theorem shiftTypes_length (N : Nat) : (shiftTypes N).length = 2 * N := by
  induction N with
  | zero => rfl
  | succ N ih => simp only [shiftTypes, List.length_append, ih]; simp; omega

theorem shiftInsts_succ (Opc : Opcode) (src : Nat → Nat) (c CIn N : Nat) :
    shiftInsts Opc src c CIn (N + 1) =
      shiftInsts Opc src c CIn N ++ [shiftInst Opc src c CIn N] := by
  simp [shiftInsts, List.range_succ]

theorem shiftParts_succ (c N : Nat) : shiftParts c (N + 1) = shiftParts c N ++ [c + 2 * N] := by
  simp [shiftParts, List.range_succ]

/-- What the loop of `legalizeLshrShl` builds. -/
theorem shiftChain_eq (Opc : Opcode) (src : Nat → Nat) (N : Nat)
    (V : List LLT) (I Bf Af : List MachineInstr) (CIn : Nat) :
    shiftChain Opc ((List.range N).map src) ⟨⟨V, I⟩, Bf, Af, false⟩ CIn =
      (⟨⟨V ++ shiftTypes N, I⟩, Bf ++ shiftInsts Opc src V.length CIn N, Af, false⟩,
        shiftParts V.length N, shiftCarry V.length CIn N) := by
  induction N with
  | zero => simp [shiftChain, shiftTypes, shiftInsts, shiftParts, shiftCarry]
  | succ N ih =>
    unfold shiftChain at ih ⊢
    rw [List.range_succ, List.map_append, List.foldl_append, ih]
    simp [MachineIRBuilder.buildInstr, DstOp.addDefs, DstOp.addDef,
      MachineRegisterInfo.createGenericVirtualRegister, MachineIRBuilder.insert,
      shiftTypes, shiftTypes_length, shiftInsts_succ, shiftInst, shiftParts_succ, shiftCarry]

theorem reverse_range'_eq_map (b N : Nat) :
    (List.range' b N).reverse = (List.range N).map (fun j => b + (N - 1 - j)) := by
  apply List.ext_getElem
  · simp
  · intro i h1 h2
    simp at h1 h2
    simp [List.getElem_reverse]

theorem getNumDefs_unmerge (b k s : Nat) :
    MachineInstr.getNumDefs
      ⟨Opcode.G_UNMERGE_VALUES,
        (List.range' b k).map MachineOperand.reg ++ [MachineOperand.reg s]⟩ = k := by
  simp [MachineInstr.getNumDefs]

theorem constantBits_one_zero : constantBits 1 0 = 0 := by decide

/-- What `legalizeLshrShl` emits for a left shift of `N` bytes, at least two, by
the constant 1. -/
theorem legalizeLshrShl_SHL_insts (V : List LLT) (I : List MachineInstr)
    (Dst Src Amt N : Nat) (hN : 2 ≤ N)
    (hTyD : (MachineRegisterInfo.mk V I).getType Dst = LLT.scalar (8 * N))
    (hTyS : (MachineRegisterInfo.mk V I).getType Src = LLT.scalar (8 * N))
    (hAmt : getConstantVRegValWithLookThrough Amt ⟨V, I⟩ = some 1) :
    ∃ Out,
      legalizeLshrShl (MachineIRBuilder.atInstr ⟨V, I⟩)
        ⟨Opcode.G_SHL, [.reg Dst, .reg Src, .reg Amt]⟩ = Except.ok (Outcome.rewritten Out) ∧
      Out.MI = none ∧
      Out.B.After = [] ∧
      Out.B.Before =
        [⟨Opcode.G_CONSTANT, [.reg V.length, .cimm 0]⟩,
         ⟨Opcode.G_UNMERGE_VALUES,
            (List.range' (V.length + 1) N).map MachineOperand.reg ++ [.reg Src]⟩] ++
        shiftInsts Opcode.G_SHLE (fun j => V.length + 1 + j) (V.length + 1 + N) V.length N ++
        [⟨Opcode.G_MERGE_VALUES,
          .reg Dst :: (shiftParts (V.length + 1 + N) N).map MachineOperand.reg⟩] ∧
      Out.B.MRI = ⟨V ++ (S1 :: (List.replicate N S8 ++ shiftTypes N)), I⟩ := by
  have hSlt : Src < V.length := getType_eq_scalar_lt _ _ _ hTyS
  have hS8 : ¬ N = 1 := by omega
  have hdiv : 8 * N / 8 = N := by omega
  have hmod : 8 * N % 8 = 0 := by omega
  have hchain := shiftChain_eq Opcode.G_SHLE (fun j => V.length + 1 + j) N
  have hr : List.range' (V.length + 1) N = (List.range N).map (fun j => V.length + 1 + j) :=
    List.range'_eq_map_range _ _
  simp [legalizeLshrShl, MachineIRBuilder.atInstr, MachineInstr.getOperand,
    getReg_cons_zero, getReg_cons_succ, hTyD, hTyS, hS8, hAmt, LLT.isByteSized,
    LLT.getSizeInBits, S1, S8, hmod, buildUnmerge_eq, getType_old _ _ _ _ hSlt, hdiv,
    getNumDefs_unmerge, map_getReg_range, MachineIRBuilder.buildConstant, DstOp.getLLTTy,
    constantBits_one_zero, MachineIRBuilder.buildInstr, MachineIRBuilder.buildMerge,
    DstOp.addDefs, DstOp.addDef, MachineRegisterInfo.createGenericVirtualRegister,
    MachineIRBuilder.insert]
  simp only [hr, hchain]
  simp [(by omega : V.length + (N + 1) = V.length + 1 + N)]

/-- What `legalizeLshrShl` emits for a logical right shift of `N` bytes, at least
two, by the constant 1: the bytes are taken from the most significant down, and
the result bytes are put back in the order of the source. -/
theorem legalizeLshrShl_LSHR_insts (V : List LLT) (I : List MachineInstr)
    (Dst Src Amt N : Nat) (hN : 2 ≤ N)
    (hTyD : (MachineRegisterInfo.mk V I).getType Dst = LLT.scalar (8 * N))
    (hTyS : (MachineRegisterInfo.mk V I).getType Src = LLT.scalar (8 * N))
    (hAmt : getConstantVRegValWithLookThrough Amt ⟨V, I⟩ = some 1) :
    ∃ Out,
      legalizeLshrShl (MachineIRBuilder.atInstr ⟨V, I⟩)
        ⟨Opcode.G_LSHR, [.reg Dst, .reg Src, .reg Amt]⟩ = Except.ok (Outcome.rewritten Out) ∧
      Out.MI = none ∧
      Out.B.After = [] ∧
      Out.B.Before =
        [⟨Opcode.G_CONSTANT, [.reg V.length, .cimm 0]⟩,
         ⟨Opcode.G_UNMERGE_VALUES,
            (List.range' (V.length + 1) N).map MachineOperand.reg ++ [.reg Src]⟩] ++
        shiftInsts Opcode.G_LSHRE (fun j => V.length + 1 + (N - 1 - j)) (V.length + 1 + N)
          V.length N ++
        [⟨Opcode.G_MERGE_VALUES,
          .reg Dst :: (shiftParts (V.length + 1 + N) N).reverse.map MachineOperand.reg⟩] ∧
      Out.B.MRI = ⟨V ++ (S1 :: (List.replicate N S8 ++ shiftTypes N)), I⟩ := by
  have hSlt : Src < V.length := getType_eq_scalar_lt _ _ _ hTyS
  have hS8 : ¬ N = 1 := by omega
  have hdiv : 8 * N / 8 = N := by omega
  have hmod : 8 * N % 8 = 0 := by omega
  have hchain := shiftChain_eq Opcode.G_LSHRE (fun j => V.length + 1 + (N - 1 - j)) N
  have hr := reverse_range'_eq_map (V.length + 1) N
  simp [legalizeLshrShl, MachineIRBuilder.atInstr, MachineInstr.getOperand,
    getReg_cons_zero, getReg_cons_succ, hTyD, hTyS, hS8, hAmt, LLT.isByteSized,
    LLT.getSizeInBits, S1, S8, hmod, buildUnmerge_eq, getType_old _ _ _ _ hSlt, hdiv,
    getNumDefs_unmerge, map_getReg_range, MachineIRBuilder.buildConstant, DstOp.getLLTTy,
    constantBits_one_zero, MachineIRBuilder.buildInstr, MachineIRBuilder.buildMerge,
    DstOp.addDefs, DstOp.addDef, MachineRegisterInfo.createGenericVirtualRegister,
    MachineIRBuilder.insert]
  simp only [hr, hchain]
  simp [(by omega : V.length + (N + 1) = V.length + 1 + N)]

/-- What `legalizeLshrShl` emits for a shift of one byte by the constant 1. -/
theorem legalizeLshrShl_S8_insts (V : List LLT) (I : List MachineInstr)
    (Dst Src Amt : Nat)
    (hTyD : (MachineRegisterInfo.mk V I).getType Dst = S8)
    (hTyS : (MachineRegisterInfo.mk V I).getType Src = S8)
    (hAmt : getConstantVRegValWithLookThrough Amt ⟨V, I⟩ = some 1)
    (p : Opcode × Opcode)
    (hp : p ∈ [(Opcode.G_SHL, Opcode.G_SHLE), (Opcode.G_LSHR, Opcode.G_LSHRE)]) :
    legalizeLshrShl (MachineIRBuilder.atInstr ⟨V, I⟩)
        ⟨p.1, [.reg Dst, .reg Src, .reg Amt]⟩ =
      Except.ok (Outcome.rewritten
        { B := { MRI := ⟨V ++ [S1, S1], I⟩
                 Before := [⟨Opcode.G_CONSTANT, [.reg V.length, .cimm 0]⟩,
                   ⟨p.2, [.reg Dst, .reg (V.length + 1), .reg Src, .reg V.length]⟩]
                 After := []
                 PastMI := false }
          MI := none
          Legalized := true }) := by
  simp only [List.mem_cons, List.mem_singleton, List.not_mem_nil, or_false] at hp
  rcases hp with rfl | rfl <;>
  simp [legalizeLshrShl, MachineIRBuilder.atInstr, MachineInstr.getOperand,
    getReg_cons_zero, getReg_cons_succ, hTyD, hTyS, hAmt, LLT.isByteSized,
    LLT.getSizeInBits, S1, S8, MachineIRBuilder.buildConstant, DstOp.getLLTTy,
    constantBits_one_zero, MachineIRBuilder.buildInstr,
    DstOp.addDefs, DstOp.addDef, MachineRegisterInfo.createGenericVirtualRegister,
    MachineIRBuilder.insert]

set_option maxRecDepth 100000 in
theorem evalSHLE_eq : ∀ x < 256, ∀ c < 2, evalSHLE x c = ((2 * x + c) % 256, x / 128) := by
  decide

set_option maxRecDepth 100000 in
theorem evalLSHRE_eq : ∀ x < 256, ∀ c < 2, evalLSHRE x c = (x / 2 + 128 * c, x % 2) := by
  decide

theorem shiftCarry_lt (c CIn N : Nat) (h : CIn < c) : shiftCarry c CIn N < c + 2 * N := by
  cases N with
  | zero => simp only [shiftCarry]; omega
  | succ n => simp only [shiftCarry]; omega

/-- The values after the chain of shifts with carry, for either opcode, whose
value is `ev`: registers outside the fresh ones keep their values, and every
shift has the value of `ev` on its source byte and the carry handed to it. -/
theorem shiftInsts_exec (Opc : Opcode) (ev : Nat → Nat → Nat × Nat)
    (hexec : ∀ (MRI : MachineRegisterInfo) (env : Env) (d co s ci : Nat),
      execInstr MRI env ⟨Opc, [.reg d, .reg co, .reg s, .reg ci]⟩ =
        some ((env.set d (ev (env s) (env ci)).1).set co (ev (env s) (env ci)).2))
    (MRI : MachineRegisterInfo) (src : Nat → Nat) (c CIn N : Nat)
    (hsrc : ∀ j, j < N → src j < c) (hC : CIn < c) (env : Env) :
    ∃ env1, execInstrs MRI env (shiftInsts Opc src c CIn N) = some env1 ∧
      (∀ r, r < c → env1 r = env r) ∧
      (∀ r, c + 2 * N ≤ r → env1 r = env r) ∧
      (∀ j, j < N → env1 (c + 2 * j) = (ev (env (src j)) (env1 (shiftCarry c CIn j))).1) ∧
      (∀ j, j < N →
        env1 (c + 2 * j + 1) = (ev (env (src j)) (env1 (shiftCarry c CIn j))).2) := by
  induction N with
  | zero =>
    exact ⟨env, rfl, fun _ _ => rfl, fun _ _ => rfl, fun j hj => absurd hj (by omega),
      fun j hj => absurd hj (by omega)⟩
  | succ N ih =>
    obtain ⟨env1, h1, hfr, hhi, hres, hcar⟩ := ih (fun j hj => hsrc j (by omega))
    have hcl := shiftCarry_lt c CIn N hC
    have hsN := hsrc N (by omega)
    rw [shiftInsts_succ, execInstrs_append, h1]
    simp only [Option.some_bind, execInstrs, shiftInst, hexec]
    refine ⟨_, rfl, ?_, ?_, ?_, ?_⟩
    · intro r hr
      rw [Env.set_ne _ _ (by omega), Env.set_ne _ _ (by omega), hfr r hr]
    · intro r hr
      rw [Env.set_ne _ _ (by omega), Env.set_ne _ _ (by omega), hhi r (by omega)]
    · intro j hj
      have hcj := shiftCarry_lt c CIn j hC
      by_cases hjN : j = N
      · subst hjN
        rw [Env.set_ne _ _ (by omega), Env.set_eq, Env.set_ne _ _ (by omega),
          Env.set_ne _ _ (by omega), hfr _ hsN]
      · rw [Env.set_ne _ _ (by omega), Env.set_ne _ _ (by omega), Env.set_ne _ _ (by omega),
          Env.set_ne _ _ (by omega), hres j (by omega)]
    · intro j hj
      have hcj := shiftCarry_lt c CIn j hC
      by_cases hjN : j = N
      · subst hjN
        rw [Env.set_eq, Env.set_ne _ _ (by omega),
          Env.set_ne _ _ (by omega), hfr _ hsN]
      · rw [Env.set_ne _ _ (by omega), Env.set_ne _ _ (by omega), Env.set_ne _ _ (by omega),
          Env.set_ne _ _ (by omega), hcar j (by omega)]

set_option maxRecDepth 100000 in
theorem evalSHLE_snd_aux : ∀ x < 256, (x >>> 7) &&& 1 = x / 128 := by decide

theorem evalSHLE_snd (x c : Nat) (hx : x < 256) : (evalSHLE x c).2 = x / 128 :=
  evalSHLE_snd_aux x hx

set_option maxRecDepth 100000 in
theorem evalLSHRE_snd_aux : ∀ x < 256, x &&& 1 = x % 2 := by decide

theorem evalLSHRE_snd (x c : Nat) (hx : x < 256) : (evalLSHRE x c).2 = x % 2 :=
  evalLSHRE_snd_aux x hx

/-- Byte `j` of twice a number, from byte `j` of the number and the top bit of
the byte below. -/
theorem shl_byte (v j : Nat) :
    (2 * (v / 256 ^ j % 256) +
        (if j = 0 then 0 else v / 256 ^ (j - 1) % 256 / 128)) % 256 =
      (2 * v) / 256 ^ j % 256 := by
  cases j with
  | zero => simp
  | succ k =>
    have h1 : v / 256 ^ (k + 1) = v / 256 ^ k / 256 := by
      rw [Nat.pow_succ, Nat.div_div_eq_div_mul]
    have h2 : 2 * v / 256 ^ (k + 1) = v / 256 ^ k / 128 := by
      rw [Nat.div_div_eq_div_mul, Nat.pow_succ,
        (by ring : 256 ^ k * 256 = 2 * (256 ^ k * 128)),
        Nat.mul_div_mul_left _ _ (by norm_num : 0 < 2)]
    rw [h1, h2, if_neg (by omega), Nat.add_sub_cancel]
    generalize v / 256 ^ k = u
    omega

/-- Byte `i` of half a number of `N` bytes, from byte `i` of the number and the
lowest bit of the byte above. -/
theorem lshr_byte (v N i : Nat) (hv : v < 256 ^ N) (hi : i < N) :
    v / 256 ^ i % 256 / 2 +
        128 * (if i + 1 = N then 0 else v / 256 ^ (i + 1) % 256 % 2) =
      (v / 2) / 256 ^ i % 256 := by
  have h1 : v / 256 ^ (i + 1) = v / 256 ^ i / 256 := by
    rw [Nat.pow_succ, Nat.div_div_eq_div_mul]
  have h2 : v / 2 / 256 ^ i = v / 256 ^ i / 2 := by
    rw [Nat.div_div_eq_div_mul, Nat.div_div_eq_div_mul, Nat.mul_comm]
  rw [h1, h2]
  by_cases hN : i + 1 = N
  · have hlt : v / 256 ^ i < 256 := by
      rw [Nat.div_lt_iff_lt_mul (Nat.pow_pos (by norm_num)), Nat.mul_comm, ← Nat.pow_succ]
      subst hN
      exact hv
    rw [if_pos hN]
    generalize v / 256 ^ i = u at hlt ⊢
    omega
  · rw [if_neg hN]
    generalize v / 256 ^ i = u
    omega

theorem mergeValues_bytes (k x : Nat) :
    mergeValues 8 ((List.range k).map (fun i => x / 256 ^ i % 256)) = x % 256 ^ k := by
  rw [← map_bytes_range' 0 k x, mergeValues_unmerged, Nat.pow_mul]

theorem shiftTypes_getElem_even (N j : Nat) (h : j < N) :
    (shiftTypes N)[2 * j]? = some S8 := by
  induction N with
  | zero => omega
  | succ N ih =>
    simp only [shiftTypes]
    by_cases hj : j = N
    · subst hj
      rw [List.getElem?_append_right (by rw [shiftTypes_length]), shiftTypes_length,
        Nat.sub_self]
      rfl
    · rw [List.getElem?_append_left (by rw [shiftTypes_length]; omega)]
      exact ih (by omega)

theorem shiftParts_ne_nil (c N : Nat) (hN : 1 ≤ N) : shiftParts c N ≠ [] := by
  intro h
  have := congrArg List.length h
  simp [shiftParts] at this
  omega

/-- The value of the instructions that `legalizeLshrShl` emits for a left shift
of `N` bytes by one bit: twice the source, modulo `256 ^ N`. -/
theorem shlChain_exec (MRI : MachineRegisterInfo) (n0 N Dst Src : Nat) (env : Env)
    (hN : 1 ≤ N) (hSrc : Src < n0)
    (hW : (MRI.getType (n0 + 1)).getSizeInBits = 8)
    (hWp : (MRI.getType (n0 + 1 + N)).getSizeInBits = 8) :
    ∃ env1,
      execInstrs MRI env
        ([⟨Opcode.G_CONSTANT, [.reg n0, .cimm 0]⟩,
          ⟨Opcode.G_UNMERGE_VALUES,
            (List.range' (n0 + 1) N).map MachineOperand.reg ++ [.reg Src]⟩] ++
         shiftInsts Opcode.G_SHLE (fun j => n0 + 1 + j) (n0 + 1 + N) n0 N ++
         [⟨Opcode.G_MERGE_VALUES,
           .reg Dst :: (shiftParts (n0 + 1 + N) N).map MachineOperand.reg⟩]) = some env1 ∧
      env1 Dst = (2 * env Src) % 256 ^ N ∧
      ∀ r, r < n0 → r ≠ Dst → env1 r = env r := by
  obtain ⟨ea, hea⟩ : ∃ ea, ea = unmergeInto 8 (env.set n0 0) (env Src)
    (List.range' (n0 + 1) N) := ⟨_, rfl⟩
  have hbyte : ∀ j, j < N → ea (n0 + 1 + j) = env Src / 256 ^ j % 256 := by
    intro j hj
    rw [hea, unmergeInto_range', if_pos (by omega), Nat.add_sub_cancel_left, Nat.pow_mul]
    norm_num
  have hea0 : ea n0 = 0 := by
    rw [hea, unmergeInto_range'_of_lt _ _ _ _ _ _ (by omega), Env.set_eq]
  have heaf : ∀ r, r < n0 → ea r = env r := by
    intro r hr
    rw [hea, unmergeInto_range'_of_lt _ _ _ _ _ _ (by omega), Env.set_ne _ _ (by omega)]
  obtain ⟨eb, heb, hfr, -, hres, hcar⟩ := shiftInsts_exec Opcode.G_SHLE evalSHLE
    execInstr_SHLE MRI (fun j => n0 + 1 + j) (n0 + 1 + N) n0 N
    (fun j hj => by show n0 + 1 + j < n0 + 1 + N; omega) (by omega) ea
  have hblt : ∀ j, env Src / 256 ^ j % 256 < 256 := fun j => Nat.mod_lt _ (by norm_num)
  have hcin : ∀ j, j < N → eb (shiftCarry (n0 + 1 + N) n0 j) =
      if j = 0 then 0 else env Src / 256 ^ (j - 1) % 256 / 128 := by
    intro j hj
    cases j with
    | zero => simp only [shiftCarry, if_true]; rw [hfr n0 (by omega), hea0]
    | succ k =>
      simp only [shiftCarry]
      rw [hcar k (by omega), hbyte k (by omega), evalSHLE_snd _ _ (hblt k),
        if_neg (by omega), Nat.add_sub_cancel]
  have hpart : ∀ j, j < N → eb (n0 + 1 + N + 2 * j) = (2 * env Src) / 256 ^ j % 256 := by
    intro j hj
    have hc2 : (if j = 0 then 0 else env Src / 256 ^ (j - 1) % 256 / 128) < 2 := by
      have := hblt (j - 1)
      split_ifs <;> omega
    rw [hres j hj, hbyte j hj, hcin j hj, evalSHLE_eq _ (hblt j) _ hc2, shl_byte]
  have hmap : (shiftParts (n0 + 1 + N) N).map eb =
      (List.range N).map (fun j => (2 * env Src) / 256 ^ j % 256) := by
    unfold shiftParts
    rw [List.map_map]
    apply List.map_congr_left
    intro j hj
    exact hpart j (List.mem_range.mp hj)
  rw [List.append_assoc, List.cons_append, List.cons_append, List.nil_append]
  rw [execInstrs, execInstr_CONSTANT, Option.some_bind, execInstrs,
    execInstr_UNMERGE _ _ _ _ _ (by omega), hW, Option.some_bind,
    Env.set_ne _ _ (by omega : Src ≠ n0), ← hea, execInstrs_append, heb]
  simp only [Option.some_bind, execInstrs]
  rw [execInstr_MERGE_head _ _ _ _ 8 (fun p hp => ?_) (shiftParts_ne_nil _ _ hN)]
  · simp only [Option.some_bind]
    refine ⟨_, rfl, ?_, ?_⟩
    · rw [Env.set_eq, hmap, mergeValues_bytes]
    · intro r hr hne
      rw [Env.set_ne _ _ hne, hfr r (by omega), heaf r hr]
  · obtain ⟨k, rfl⟩ : ∃ k, N = k + 1 := ⟨N - 1, by omega⟩
    simp [shiftParts, List.range_succ_eq_map] at hp
    rw [← hp]; exact hWp

theorem shiftParts_reverse (c N : Nat) :
    (shiftParts c N).reverse = (List.range N).map (fun i => c + 2 * (N - 1 - i)) := by
  apply List.ext_getElem
  · simp [shiftParts]
  · intro i h1 h2
    simp [shiftParts] at h1 h2
    simp [shiftParts, List.getElem_reverse]

/-- The value of the instructions that `legalizeLshrShl` emits for a logical
right shift of `N` bytes by one bit: half the source. -/
theorem lshrChain_exec (MRI : MachineRegisterInfo) (n0 N Dst Src : Nat) (env : Env)
    (hN : 1 ≤ N) (hSrc : Src < n0) (hv : env Src < 256 ^ N)
    (hW : (MRI.getType (n0 + 1)).getSizeInBits = 8)
    (hWp : (MRI.getType (n0 + 1 + N + 2 * (N - 1))).getSizeInBits = 8) :
    ∃ env1,
      execInstrs MRI env
        ([⟨Opcode.G_CONSTANT, [.reg n0, .cimm 0]⟩,
          ⟨Opcode.G_UNMERGE_VALUES,
            (List.range' (n0 + 1) N).map MachineOperand.reg ++ [.reg Src]⟩] ++
         shiftInsts Opcode.G_LSHRE (fun j => n0 + 1 + (N - 1 - j)) (n0 + 1 + N) n0 N ++
         [⟨Opcode.G_MERGE_VALUES,
           .reg Dst :: (shiftParts (n0 + 1 + N) N).reverse.map MachineOperand.reg⟩]) =
        some env1 ∧
      env1 Dst = env Src / 2 ∧
      ∀ r, r < n0 → r ≠ Dst → env1 r = env r := by
  obtain ⟨ea, hea⟩ : ∃ ea, ea = unmergeInto 8 (env.set n0 0) (env Src)
    (List.range' (n0 + 1) N) := ⟨_, rfl⟩
  have hbyte : ∀ j, j < N → ea (n0 + 1 + j) = env Src / 256 ^ j % 256 := by
    intro j hj
    rw [hea, unmergeInto_range', if_pos (by omega), Nat.add_sub_cancel_left, Nat.pow_mul]
    norm_num
  have hea0 : ea n0 = 0 := by
    rw [hea, unmergeInto_range'_of_lt _ _ _ _ _ _ (by omega), Env.set_eq]
  have heaf : ∀ r, r < n0 → ea r = env r := by
    intro r hr
    rw [hea, unmergeInto_range'_of_lt _ _ _ _ _ _ (by omega), Env.set_ne _ _ (by omega)]
  obtain ⟨eb, heb, hfr, -, hres, hcar⟩ := shiftInsts_exec Opcode.G_LSHRE evalLSHRE
    execInstr_LSHRE MRI (fun j => n0 + 1 + (N - 1 - j)) (n0 + 1 + N) n0 N
    (fun j hj => by show n0 + 1 + (N - 1 - j) < n0 + 1 + N; omega) (by omega) ea
  have hblt : ∀ j, env Src / 256 ^ j % 256 < 256 := fun j => Nat.mod_lt _ (by norm_num)
  have hcin : ∀ j, j < N → eb (shiftCarry (n0 + 1 + N) n0 j) =
      if j = 0 then 0 else env Src / 256 ^ (N - 1 - (j - 1)) % 256 % 2 := by
    intro j hj
    cases j with
    | zero => simp only [shiftCarry, if_true]; rw [hfr n0 (by omega), hea0]
    | succ k =>
      simp only [shiftCarry]
      rw [hcar k (by omega), hbyte _ (by omega), evalLSHRE_snd _ _ (hblt _),
        if_neg (by omega), Nat.add_sub_cancel]
  have hpart : ∀ i, i < N →
      eb (n0 + 1 + N + 2 * (N - 1 - i)) = (env Src / 2) / 256 ^ i % 256 := by
    intro i hi
    have hidx : N - 1 - (N - 1 - i) = i := by omega
    have hc2 : (if N - 1 - i = 0 then 0
        else env Src / 256 ^ (N - 1 - (N - 1 - i - 1)) % 256 % 2) < 2 := by
      split_ifs <;> omega
    rw [hres (N - 1 - i) (by omega), hidx, hbyte i hi, hcin (N - 1 - i) (by omega),
      evalLSHRE_eq _ (hblt i) _ hc2, ← lshr_byte _ N i hv hi]
    by_cases hiN : i + 1 = N
    · rw [if_pos hiN, if_pos (by omega)]
    · rw [if_neg hiN, if_neg (by omega), (by omega : N - 1 - (N - 1 - i - 1) = i + 1)]
  have hmap : ((shiftParts (n0 + 1 + N) N).reverse).map eb =
      (List.range N).map (fun i => (env Src / 2) / 256 ^ i % 256) := by
    rw [shiftParts_reverse, List.map_map]
    apply List.map_congr_left
    intro i hi
    exact hpart i (List.mem_range.mp hi)
  rw [List.append_assoc, List.cons_append, List.cons_append, List.nil_append]
  rw [execInstrs, execInstr_CONSTANT, Option.some_bind, execInstrs,
    execInstr_UNMERGE _ _ _ _ _ (by omega), hW, Option.some_bind,
    Env.set_ne _ _ (by omega : Src ≠ n0), ← hea, execInstrs_append, heb]
  simp only [Option.some_bind, execInstrs]
  rw [execInstr_MERGE_head _ _ _ _ 8 (fun p hp => ?_)
    (by simpa using shiftParts_ne_nil _ _ hN)]
  · simp only [Option.some_bind]
    refine ⟨_, rfl, ?_, ?_⟩
    · rw [Env.set_eq, hmap, mergeValues_bytes, Nat.mod_eq_of_lt (by omega)]
    · intro r hr hne
      rw [Env.set_ne _ _ hne, hfr r (by omega), heaf r hr]
  · obtain ⟨k, rfl⟩ : ∃ k, N = k + 1 := ⟨N - 1, by omega⟩
    rw [shiftParts_reverse] at hp
    simp [List.range_succ_eq_map] at hp
    rw [← hp]; exact hWp

theorem getType_shift_byte (V : List LLT) (I : List MachineInstr) (N i : Nat) (X : List LLT)
    (h : i < N) :
    (MachineRegisterInfo.mk (V ++ (S1 :: (List.replicate N S8 ++ X))) I).getType
      (V.length + 1 + i) = S8 := by
  rw [Nat.add_assoc, getType_new, List.getD_eq_getElem?_getD, Nat.add_comm 1 i,
    List.getElem?_cons_succ, List.getElem?_append_left (by simpa using h)]
  simp [h]

theorem getType_shift_part (V : List LLT) (I : List MachineInstr) (N j : Nat) (h : j < N) :
    (MachineRegisterInfo.mk (V ++ (S1 :: (List.replicate N S8 ++ shiftTypes N))) I).getType
      (V.length + 1 + N + 2 * j) = S8 := by
  rw [Nat.add_assoc, Nat.add_assoc, getType_new, List.getD_eq_getElem?_getD,
    (by omega : 1 + (N + 2 * j) = (N + 2 * j) + 1), List.getElem?_cons_succ,
    List.getElem?_append_right (by simp), List.length_replicate, Nat.add_sub_cancel_left,
    shiftTypes_getElem_even N j h]
  rfl

/-- C13: for a value `v` of `N` bytes (in particular `N` in 1, 2, 4, 8) and a
shift amount that is the constant 1, `legalizeLshrShl` emits a constant 0, one
shift with carry per byte, the first with that constant as carry-in and each
with the carry-out of the one before, and merges the result bytes in the
positions of their source bytes (for one byte the single shift writes the
destination); for a left shift the destination gets `(v << 1) mod 2^(8N)`,
for a logical right shift `v >> 1`. -/
theorem legalizeLshrShl_spec (V : List LLT) (I : List MachineInstr)
    (Dst Src Amt N : Nat) (env : Env) (hN : 1 ≤ N)
    (hTyD : (MachineRegisterInfo.mk V I).getType Dst = LLT.scalar (8 * N))
    (hTyS : (MachineRegisterInfo.mk V I).getType Src = LLT.scalar (8 * N))
    (hAmt : getConstantVRegValWithLookThrough Amt ⟨V, I⟩ = some 1)
    (hv : env Src < 256 ^ N) :
    (∃ Out,
      legalizeLshrShl (MachineIRBuilder.atInstr ⟨V, I⟩)
        ⟨Opcode.G_SHL, [.reg Dst, .reg Src, .reg Amt]⟩ = Except.ok (Outcome.rewritten Out) ∧
      Out.MI = none ∧
      Out.insts =
        (if N = 1 then
          [⟨Opcode.G_CONSTANT, [.reg V.length, .cimm 0]⟩,
           ⟨Opcode.G_SHLE, [.reg Dst, .reg (V.length + 1), .reg Src, .reg V.length]⟩]
         else
          [⟨Opcode.G_CONSTANT, [.reg V.length, .cimm 0]⟩,
           ⟨Opcode.G_UNMERGE_VALUES,
              (List.range' (V.length + 1) N).map MachineOperand.reg ++ [.reg Src]⟩] ++
          shiftInsts Opcode.G_SHLE (fun j => V.length + 1 + j) (V.length + 1 + N)
            V.length N ++
          [⟨Opcode.G_MERGE_VALUES,
            .reg Dst :: (shiftParts (V.length + 1 + N) N).map MachineOperand.reg⟩]) ∧
      ∃ env1, execInstrs Out.B.MRI env Out.insts = some env1 ∧
        env1 Dst = (2 * env Src) % 2 ^ (8 * N) ∧
        ∀ r, r < V.length → r ≠ Dst → env1 r = env r) ∧
    (∃ Out,
      legalizeLshrShl (MachineIRBuilder.atInstr ⟨V, I⟩)
        ⟨Opcode.G_LSHR, [.reg Dst, .reg Src, .reg Amt]⟩ = Except.ok (Outcome.rewritten Out) ∧
      Out.MI = none ∧
      Out.insts =
        (if N = 1 then
          [⟨Opcode.G_CONSTANT, [.reg V.length, .cimm 0]⟩,
           ⟨Opcode.G_LSHRE, [.reg Dst, .reg (V.length + 1), .reg Src, .reg V.length]⟩]
         else
          [⟨Opcode.G_CONSTANT, [.reg V.length, .cimm 0]⟩,
           ⟨Opcode.G_UNMERGE_VALUES,
              (List.range' (V.length + 1) N).map MachineOperand.reg ++ [.reg Src]⟩] ++
          shiftInsts Opcode.G_LSHRE (fun j => V.length + 1 + (N - 1 - j)) (V.length + 1 + N)
            V.length N ++
          [⟨Opcode.G_MERGE_VALUES,
            .reg Dst :: (shiftParts (V.length + 1 + N) N).reverse.map MachineOperand.reg⟩]) ∧
      ∃ env1, execInstrs Out.B.MRI env Out.insts = some env1 ∧
        env1 Dst = env Src / 2 ∧
        ∀ r, r < V.length → r ≠ Dst → env1 r = env r) := by
  have hDlt : Dst < V.length := getType_eq_scalar_lt ⟨V, I⟩ _ _ hTyD
  have hSlt : Src < V.length := getType_eq_scalar_lt ⟨V, I⟩ _ _ hTyS
  have hpow : 2 ^ (8 * N) = 256 ^ N := by rw [Nat.pow_mul]
  by_cases h1 : N = 1
  · subst h1
    have hv1 : env Src < 256 := by simpa using hv
    constructor
    · refine ⟨_, legalizeLshrShl_S8_insts V I Dst Src Amt hTyD hTyS hAmt
        (Opcode.G_SHL, Opcode.G_SHLE) (by simp), rfl, rfl, ?_⟩
      simp only [LegalizeResult.insts, Option.toList, List.append_nil, execInstrs,
        execInstr_CONSTANT, execInstr_SHLE, Option.some_bind]
      refine ⟨_, rfl, ?_, ?_⟩
      · simp (disch := omega) only [Env.set_eq, Env.set_ne]
        rw [evalSHLE_eq _ hv1 0 (by omega)]
        rfl
      · intro r hr hne
        simp (disch := omega) only [Env.set_ne]
    · refine ⟨_, legalizeLshrShl_S8_insts V I Dst Src Amt hTyD hTyS hAmt
        (Opcode.G_LSHR, Opcode.G_LSHRE) (by simp), rfl, rfl, ?_⟩
      simp only [LegalizeResult.insts, Option.toList, List.append_nil, execInstrs,
        execInstr_CONSTANT, execInstr_LSHRE, Option.some_bind]
      refine ⟨_, rfl, ?_, ?_⟩
      · simp (disch := omega) only [Env.set_eq, Env.set_ne]
        rw [evalLSHRE_eq _ hv1 0 (by omega)]
        simp
      · intro r hr hne
        simp (disch := omega) only [Env.set_ne]
  · have hN2 : 2 ≤ N := by omega
    constructor
    · obtain ⟨Out, ho, h2, h3, h4, h5⟩ :=
        legalizeLshrShl_SHL_insts V I Dst Src Amt N hN2 hTyD hTyS hAmt
      have hins : Out.insts = Out.B.Before := by
        simp [LegalizeResult.insts, h2, h3]
      refine ⟨Out, ho, h2, by rw [hins, h4, if_neg h1], ?_⟩
      rw [hins, h4, h5, hpow]
      have hW := getType_shift_byte V I N 0 (shiftTypes N) (by omega)
      have hWp := getType_shift_part V I N 0 (by omega)
      rw [Nat.add_zero] at hW
      rw [Nat.mul_zero, Nat.add_zero] at hWp
      obtain ⟨env1, he, hval, hfr⟩ := shlChain_exec
        ⟨V ++ (S1 :: (List.replicate N S8 ++ shiftTypes N)), I⟩ V.length N Dst Src env hN
        hSlt (by rw [hW]; rfl) (by rw [hWp]; rfl)
      exact ⟨env1, he, hval, hfr⟩
    · obtain ⟨Out, ho, h2, h3, h4, h5⟩ :=
        legalizeLshrShl_LSHR_insts V I Dst Src Amt N hN2 hTyD hTyS hAmt
      have hins : Out.insts = Out.B.Before := by
        simp [LegalizeResult.insts, h2, h3]
      refine ⟨Out, ho, h2, by rw [hins, h4, if_neg h1], ?_⟩
      rw [hins, h4, h5]
      have hW := getType_shift_byte V I N 0 (shiftTypes N) (by omega)
      have hWp := getType_shift_part V I N (N - 1) (by omega)
      rw [Nat.add_zero] at hW
      obtain ⟨env1, he, hval, hfr⟩ := lshrChain_exec
        ⟨V ++ (S1 :: (List.replicate N S8 ++ shiftTypes N)), I⟩ V.length N Dst Src env hN
        hSlt hv (by rw [hW]; rfl) (by rw [hWp]; rfl)
      exact ⟨env1, he, hval, hfr⟩

theorem legalizeLshrShl_spec_witness :
    (∃ Out,
      legalizeLshrShl (MachineIRBuilder.atInstr
          ⟨[S16, S16, S8], [⟨Opcode.G_CONSTANT, [.reg 2, .cimm 1]⟩]⟩)
        ⟨Opcode.G_SHL, [.reg 0, .reg 1, .reg 2]⟩ = Except.ok (Outcome.rewritten Out) ∧
      ∃ env1, execInstrs Out.B.MRI (envOf [0, 0x8181, 1]) Out.insts = some env1 ∧
        env1 0 = 0x0302) ∧
    (∃ Out,
      legalizeLshrShl (MachineIRBuilder.atInstr
          ⟨[S16, S16, S8], [⟨Opcode.G_CONSTANT, [.reg 2, .cimm 1]⟩]⟩)
        ⟨Opcode.G_LSHR, [.reg 0, .reg 1, .reg 2]⟩ = Except.ok (Outcome.rewritten Out) ∧
      ∃ env1, execInstrs Out.B.MRI (envOf [0, 0x8181, 1]) Out.insts = some env1 ∧
        env1 0 = 0x40C0) := by
  obtain ⟨⟨O1, h1, -, -, e1, h2, h3, -⟩, ⟨O2, h4, -, -, e2, h5, h6, -⟩⟩ :=
    legalizeLshrShl_spec [S16, S16, S8] [⟨Opcode.G_CONSTANT, [.reg 2, .cimm 1]⟩] 0 1 2 2
      (envOf [0, 0x8181, 1]) (by decide) (by decide) (by decide) (by decide) (by decide)
  exact ⟨⟨O1, h1, e1, h2, h3.trans (by decide)⟩, ⟨O2, h4, e2, h5, h6.trans (by decide)⟩⟩

/-! ## Routing of shifts -/

/-- The routing of `legalizeLshrShl` when the amount is not a known constant. -/
theorem legalizeLshrShl_none (V : List LLT) (I : List MachineInstr) (MI : MachineInstr)
    (N : Nat)
    (hTyD : (MachineRegisterInfo.mk V I).getType (MI.getReg 0) = LLT.scalar (8 * N))
    (hTyS : (MachineRegisterInfo.mk V I).getType (MI.getReg 1) = LLT.scalar (8 * N))
    (hAmt : getConstantVRegValWithLookThrough (MI.getReg 2) ⟨V, I⟩ = none) :
    legalizeLshrShl (MachineIRBuilder.atInstr ⟨V, I⟩) MI =
      Except.ok (shiftLibcall ⟨V, I⟩ MI) := by
  have hmod : 8 * N % 8 = 0 := by omega
  simp [legalizeLshrShl, MachineIRBuilder.atInstr, hTyD, hTyS, hAmt, LLT.isByteSized,
    LLT.getSizeInBits, hmod]

/-- The routing of `legalizeLshrShl` when the amount is a known constant other
than 1. -/
theorem legalizeLshrShl_const (V : List LLT) (I : List MachineInstr) (MI : MachineInstr)
    (N c : Nat)
    (hTyD : (MachineRegisterInfo.mk V I).getType (MI.getReg 0) = LLT.scalar (8 * N))
    (hTyS : (MachineRegisterInfo.mk V I).getType (MI.getReg 1) = LLT.scalar (8 * N))
    (hAmt : getConstantVRegValWithLookThrough (MI.getReg 2) ⟨V, I⟩ = some c) (hc : c ≠ 1) :
    legalizeLshrShl (MachineIRBuilder.atInstr ⟨V, I⟩) MI =
      Except.ok (if N ≠ 1 ∧ c % 8 = 0 then
        Outcome.helper (HelperCall.narrowScalarShiftByConstant MI c (LLT.scalar (8 * N / 2))
          ((MachineRegisterInfo.mk V I).getType (MI.getReg 2)))
        else shiftLibcall ⟨V, I⟩ MI) := by
  have hmod : 8 * N % 8 = 0 := by omega
  have hS8 : LLT.scalar (8 * N) = S8 ↔ N = 1 := by
    simp only [S8, LLT.scalar.injEq]; omega
  by_cases h : N ≠ 1 ∧ c % 8 = 0
  · simp [legalizeLshrShl, MachineIRBuilder.atInstr, hTyD, hTyS, hAmt, LLT.isByteSized,
      LLT.getSizeInBits, hmod, hS8, h]
  · simp only [if_neg h]
    simp [legalizeLshrShl, MachineIRBuilder.atInstr, hTyD, hTyS, hAmt, LLT.isByteSized,
      LLT.getSizeInBits, hmod, hS8, h, hc]

/-- The instructions for a shift by the constant 1, for either opcode: the
instruction is erased, and a constant 0 and the chain of shifts with carry
stand in its place. -/
theorem legalizeLshrShl_one (V : List LLT) (I : List MachineInstr) (Dst Src Amt N : Nat)
    (hN : 1 ≤ N)
    (hTyD : (MachineRegisterInfo.mk V I).getType Dst = LLT.scalar (8 * N))
    (hTyS : (MachineRegisterInfo.mk V I).getType Src = LLT.scalar (8 * N))
    (hAmt : getConstantVRegValWithLookThrough Amt ⟨V, I⟩ = some 1)
    (p : Opcode × Opcode)
    (hp : p ∈ [(Opcode.G_SHL, Opcode.G_SHLE), (Opcode.G_LSHR, Opcode.G_LSHRE)]) :
    ∃ Out,
      legalizeLshrShl (MachineIRBuilder.atInstr ⟨V, I⟩) ⟨p.1, [.reg Dst, .reg Src, .reg Amt]⟩ =
        Except.ok (Outcome.rewritten Out) ∧
      Out.MI = none ∧
      if N = 1 then
        Out.insts = [⟨Opcode.G_CONSTANT, [.reg V.length, .cimm 0]⟩,
          ⟨p.2, [.reg Dst, .reg (V.length + 1), .reg Src, .reg V.length]⟩]
      else
        ∃ (src : Nat → Nat) (Parts : List Nat), Out.insts =
          [⟨Opcode.G_CONSTANT, [.reg V.length, .cimm 0]⟩,
           ⟨Opcode.G_UNMERGE_VALUES,
              (List.range' (V.length + 1) N).map MachineOperand.reg ++ [.reg Src]⟩] ++
          shiftInsts p.2 src (V.length + 1 + N) V.length N ++
          [⟨Opcode.G_MERGE_VALUES, .reg Dst :: Parts.map MachineOperand.reg⟩] := by
  by_cases h1 : N = 1
  · subst h1
    exact ⟨_, legalizeLshrShl_S8_insts V I Dst Src Amt hTyD hTyS hAmt p hp, rfl, by
      rw [if_pos rfl]; rfl⟩
  · simp only [List.mem_cons, List.mem_singleton, List.not_mem_nil, or_false] at hp
    rcases hp with rfl | rfl
    · obtain ⟨Out, ho, h2, h3, h4, -⟩ :=
        legalizeLshrShl_SHL_insts V I Dst Src Amt N (by omega) hTyD hTyS hAmt
      refine ⟨Out, ho, h2, ?_⟩
      rw [if_neg h1]
      exact ⟨fun j => V.length + 1 + j, shiftParts (V.length + 1 + N) N, by
        simp [LegalizeResult.insts, h2, h3, h4]⟩
    · obtain ⟨Out, ho, h2, h3, h4, -⟩ :=
        legalizeLshrShl_LSHR_insts V I Dst Src Amt N (by omega) hTyD hTyS hAmt
      refine ⟨Out, ho, h2, ?_⟩
      rw [if_neg h1]
      exact ⟨fun j => V.length + 1 + (N - 1 - j), (shiftParts (V.length + 1 + N) N).reverse, by
        simp [LegalizeResult.insts, h2, h3, h4]⟩

theorem shiftLibcall_isLibcall (MRI : MachineRegisterInfo) (MI : MachineInstr) :
    (shiftLibcall MRI MI).isLibcall = true := rfl

/-- C14, as the code has it: a left shift or logical right shift of `N` bytes
goes to the library call if and only if its amount is not a known constant, or
is a constant other than 1 that is not a multiple of 8 or that shifts a single
byte; a constant multiple of 8 on more than one byte is handed on as a shift
over half the width; the constant 1 is decomposed into the chain of shifts
with carry. An arithmetic right shift always goes to the library call. -/
theorem legalizeCustomShift_spec (V : List LLT) (I : List MachineInstr)
    (Dst Src Amt N : Nat) (hN : 1 ≤ N)
    (hTyD : (MachineRegisterInfo.mk V I).getType Dst = LLT.scalar (8 * N))
    (hTyS : (MachineRegisterInfo.mk V I).getType Src = LLT.scalar (8 * N)) :
    (∃ O, legalizeCustomShift (MachineIRBuilder.atInstr ⟨V, I⟩)
        ⟨Opcode.G_ASHR, [.reg Dst, .reg Src, .reg Amt]⟩ = Except.ok O ∧
      O.isLibcall = true) ∧
    ∀ p ∈ [(Opcode.G_SHL, Opcode.G_SHLE), (Opcode.G_LSHR, Opcode.G_LSHRE)],
      ∃ O, legalizeCustomShift (MachineIRBuilder.atInstr ⟨V, I⟩)
          ⟨p.1, [.reg Dst, .reg Src, .reg Amt]⟩ = Except.ok O ∧
        (O.isLibcall = true ↔
          (getConstantVRegValWithLookThrough Amt ⟨V, I⟩ = none ∨
            ∃ c, getConstantVRegValWithLookThrough Amt ⟨V, I⟩ = some c ∧ c ≠ 1 ∧
              (N = 1 ∨ c % 8 ≠ 0))) ∧
        (∀ c, getConstantVRegValWithLookThrough Amt ⟨V, I⟩ = some c → N ≠ 1 → c % 8 = 0 →
          O = Outcome.helper (HelperCall.narrowScalarShiftByConstant
            ⟨p.1, [.reg Dst, .reg Src, .reg Amt]⟩ c (LLT.scalar (8 * N / 2))
            ((MachineRegisterInfo.mk V I).getType Amt))) ∧
        (getConstantVRegValWithLookThrough Amt ⟨V, I⟩ = some 1 →
          ∃ Out, O = Outcome.rewritten Out ∧ Out.MI = none ∧
            if N = 1 then
              Out.insts = [⟨Opcode.G_CONSTANT, [.reg V.length, .cimm 0]⟩,
                ⟨p.2, [.reg Dst, .reg (V.length + 1), .reg Src, .reg V.length]⟩]
            else
              ∃ (src : Nat → Nat) (Parts : List Nat), Out.insts =
                [⟨Opcode.G_CONSTANT, [.reg V.length, .cimm 0]⟩,
                 ⟨Opcode.G_UNMERGE_VALUES,
                    (List.range' (V.length + 1) N).map MachineOperand.reg ++ [.reg Src]⟩] ++
                shiftInsts p.2 src (V.length + 1 + N) V.length N ++
                [⟨Opcode.G_MERGE_VALUES, .reg Dst :: Parts.map MachineOperand.reg⟩]) := by
  refine ⟨⟨_, rfl, rfl⟩, ?_⟩
  intro p hp
  have hcs : legalizeCustomShift (MachineIRBuilder.atInstr ⟨V, I⟩)
      ⟨p.1, [.reg Dst, .reg Src, .reg Amt]⟩ =
      legalizeLshrShl (MachineIRBuilder.atInstr ⟨V, I⟩)
        ⟨p.1, [.reg Dst, .reg Src, .reg Amt]⟩ := by
    simp only [List.mem_cons, List.mem_singleton, List.not_mem_nil, or_false] at hp
    rcases hp with rfl | rfl <;> rfl
  rw [hcs]
  cases hc : getConstantVRegValWithLookThrough Amt ⟨V, I⟩ with
  | none =>
    refine ⟨_, legalizeLshrShl_none V I ⟨p.1, [.reg Dst, .reg Src, .reg Amt]⟩ N hTyD hTyS hc,
      ?_, ?_, ?_⟩
    · simp [shiftLibcall_isLibcall]
    · intro c h; exact absurd h (by simp)
    · intro h; exact absurd h (by simp)
  | some c =>
    by_cases h1 : c = 1
    · subst h1
      obtain ⟨Out, ho, h2, h3⟩ := legalizeLshrShl_one V I Dst Src Amt N hN hTyD hTyS hc p hp
      refine ⟨_, ho, ?_, ?_, ?_⟩
      · simp [Outcome.isLibcall]
      · intro c h _ h8
        simp only [Option.some.injEq] at h
        subst h
        omega
      · intro _
        exact ⟨Out, rfl, h2, h3⟩
    · refine ⟨_, legalizeLshrShl_const V I ⟨p.1, [.reg Dst, .reg Src, .reg Amt]⟩ N c hTyD hTyS
        hc h1, ?_, ?_, ?_⟩
      · by_cases h : N ≠ 1 ∧ c % 8 = 0
        · rw [if_pos h]
          simp only [Outcome.isLibcall, Bool.false_eq_true, false_iff, not_or, not_exists,
            not_and]
          refine ⟨by simp, ?_⟩
          intro c' hc' _
          simp only [Option.some.injEq] at hc'
          subst hc'
          omega
        · rw [if_neg h]
          simp only [shiftLibcall_isLibcall, true_iff]
          right
          exact ⟨c, rfl, h1, by omega⟩
      · intro c' hc' hN1 h8
        simp only [Option.some.injEq] at hc'
        subst hc'
        rw [if_pos ⟨hN1, h8⟩]
        rfl
      · intro h
        simp only [Option.some.injEq] at h
        exact absurd h h1

theorem legalizeCustomShift_spec_witness :
    ∃ O, legalizeCustomShift (MachineIRBuilder.atInstr
          ⟨[S16, S16, S8], [⟨Opcode.G_CONSTANT, [.reg 2, .cimm 8]⟩]⟩)
        ⟨Opcode.G_SHL, [.reg 0, .reg 1, .reg 2]⟩ = Except.ok O ∧
      O = Outcome.helper (HelperCall.narrowScalarShiftByConstant
        ⟨Opcode.G_SHL, [.reg 0, .reg 1, .reg 2]⟩ 8 S8 S8) := by
  obtain ⟨-, h⟩ := legalizeCustomShift_spec [S16, S16, S8]
    [⟨Opcode.G_CONSTANT, [.reg 2, .cimm 8]⟩] 0 1 2 2 (by decide) (by decide) (by decide)
  obtain ⟨O, hO, -, hn, -⟩ := h (Opcode.G_SHL, Opcode.G_SHLE) (by simp)
  exact ⟨O, hO, hn 8 (by decide) (by decide) (by decide)⟩

/-- C14 as it is stated fails on the code: an arithmetic right shift of 16 bits
by the constant 1 goes to the library call, and so does a left shift of 8 bits
by the constant 8, although neither amount is both a non-multiple of 8 and
different from 1. -/
theorem legalizeCustomShift_counterexample :
    ¬ ShiftRoutingAsStated ⟨[S16, S16, S8], [⟨Opcode.G_CONSTANT, [.reg 2, .cimm 1]⟩]⟩
        ⟨Opcode.G_ASHR, [.reg 0, .reg 1, .reg 2]⟩ ∧
    ¬ ShiftRoutingAsStated ⟨[S8, S8, S8], [⟨Opcode.G_CONSTANT, [.reg 2, .cimm 8]⟩]⟩
        ⟨Opcode.G_SHL, [.reg 0, .reg 1, .reg 2]⟩ := by
  constructor
  · rintro ⟨O, hO, hiff⟩
    have h1 : legalizeCustomShift (MachineIRBuilder.atInstr
        ⟨[S16, S16, S8], [⟨Opcode.G_CONSTANT, [.reg 2, .cimm 1]⟩]⟩)
        ⟨Opcode.G_ASHR, [.reg 0, .reg 1, .reg 2]⟩ =
        Except.ok (Outcome.helper
          (HelperCall.createLibcall Opcode.G_ASHR 16 0 [(1, 16), (2, 8)])) := rfl
    rw [h1] at hO
    injection hO with hO
    subst hO
    have hc : getConstantVRegValWithLookThrough
        (MachineInstr.getReg ⟨Opcode.G_ASHR, [.reg 0, .reg 1, .reg 2]⟩ 2)
        ⟨[S16, S16, S8], [⟨Opcode.G_CONSTANT, [.reg 2, .cimm 1]⟩]⟩ = some 1 := by decide
    rcases hiff.mp rfl with h | ⟨c, h, -, hne⟩
    · rw [hc] at h; exact absurd h (by simp)
    · rw [hc] at h
      injection h with h
      exact hne h.symm
  · rintro ⟨O, hO, hiff⟩
    have h1 : legalizeCustomShift (MachineIRBuilder.atInstr
        ⟨[S8, S8, S8], [⟨Opcode.G_CONSTANT, [.reg 2, .cimm 8]⟩]⟩)
        ⟨Opcode.G_SHL, [.reg 0, .reg 1, .reg 2]⟩ =
        Except.ok (Outcome.helper
          (HelperCall.createLibcall Opcode.G_SHL 8 0 [(1, 8), (2, 8)])) := rfl
    rw [h1] at hO
    injection hO with hO
    subst hO
    have hc : getConstantVRegValWithLookThrough
        (MachineInstr.getReg ⟨Opcode.G_SHL, [.reg 0, .reg 1, .reg 2]⟩ 2)
        ⟨[S8, S8, S8], [⟨Opcode.G_CONSTANT, [.reg 2, .cimm 8]⟩]⟩ = some 8 := by decide
    rcases hiff.mp rfl with h | ⟨c, h, h8, -⟩
    · rw [hc] at h; exact absurd h (by simp)
    · rw [hc] at h
      injection h with h
      subst h
      exact h8 (by decide)

/-! ## Branches on a boolean NOT -/

theorem getVRegDef_mem (MRI : MachineRegisterInfo) (Reg : Nat) (MI : MachineInstr)
    (h : MRI.getVRegDef Reg = some MI) : MI ∈ MRI.Insts ∧ MI.definesRegister Reg = true := by
  unfold MachineRegisterInfo.getVRegDef at h
  exact ⟨List.mem_of_find?_eq_some h, List.find?_some (p := fun M : MachineInstr => M.definesRegister Reg) h⟩

/-- An environment that agrees with the function is unchanged, on the registers
of an instruction of the function, by that instruction. -/
theorem agreesOn_sound (env : Env) (MRI : MachineRegisterInfo) (h : env.agreesOn MRI = true)
    (MI : MachineInstr) (hMI : MI ∈ MRI.Insts) (env1 : Env)
    (he : execInstr MRI env MI = some env1) (r : Nat)
    (hr : MachineOperand.reg r ∈ MI.Operands) : env1 r = env r := by
  unfold Env.agreesOn at h
  rw [List.all_eq_true] at h
  have h1 := h MI hMI
  rw [he] at h1
  simp only [List.all_eq_true] at h1
  have h2 := h1 _ hr
  simpa using h2

/-- A register that the function defines by a constant holds the bits of the
constant. -/
theorem getConstantVRegVal_sound (env : Env) (MRI : MachineRegisterInfo)
    (h : env.agreesOn MRI = true) (Reg v : Nat)
    (hc : getConstantVRegVal Reg MRI = some v) : env Reg = v := by
  unfold getConstantVRegVal at hc
  split at hc
  · rename_i d Val hdef
    injection hc with hc
    subst hc
    obtain ⟨hmem, hdefs⟩ := getVRegDef_mem MRI Reg _ hdef
    have hd : d = Reg := by
      simpa [MachineInstr.definesRegister, MachineInstr.getNumDefs, eq_comm] using hdefs
    subst hd
    have := agreesOn_sound env MRI h _ hmem _ (execInstr_CONSTANT MRI env d Val) d (by simp)
    rw [Env.set_eq] at this
    exact this.symm
  · exact absurd hc (by simp)

theorem toSigned_eq_neg_one (W v : Nat) (h : toSigned W v = -1) : v % 2 = 1 := by
  unfold toSigned at h
  split_ifs at h with hlt
  have hW : 1 ≤ W := by
    by_contra hc
    have : W = 0 := by omega
    subst this
    simp at h
    omega
  obtain ⟨k, rfl⟩ : ∃ k, W = k + 1 := ⟨W - 1, by omega⟩
  have hp : (2 : Int) ^ (k + 1) = 2 * 2 ^ k := by ring
  rw [hp] at h
  have hnn : (0 : Int) ≤ 2 ^ k := by positivity
  obtain ⟨m, hm⟩ := Int.eq_ofNat_of_zero_le hnn
  rw [hm] at h
  omega

/-- A register that matches the all-ones constant holds an odd number. -/
theorem mi_match_allOnes_sound (env : Env) (MRI : MachineRegisterInfo)
    (h : env.agreesOn MRI = true) (Reg : Nat)
    (hm : mi_match_SpecificICst Reg MRI (-1) = true) : env Reg % 2 = 1 := by
  unfold mi_match_SpecificICst at hm
  split at hm
  · rename_i Val hc
    rw [getConstantVRegVal_sound env MRI h Reg Val hc]
    exact toSigned_eq_neg_one _ _ (by simpa using hm)
  · exact absurd hm (by simp)

theorem three_regs (MI : MachineInstr) (h3 : MI.getNumOperands = 3)
    (hr : MI.allRegs = true) :
    ∃ d a b, MI.Operands = [.reg d, .reg a, .reg b] := by
  obtain ⟨Opc, Ops⟩ := MI
  simp only [MachineInstr.getNumOperands] at h3
  simp only [MachineInstr.allRegs, List.all_eq_true] at hr
  match Ops, h3, hr with
  | [o0, o1, o2], _, hr =>
    have h0 := hr o0 (by simp)
    have h1 := hr o1 (by simp)
    have h2 := hr o2 (by simp)
    cases o0 <;> cases o1 <;> cases o2 <;> simp at h0 h1 h2
    exact ⟨_, _, _, rfl⟩

/-- What a match of `m_Not` means. -/
theorem mi_match_Not_some (MRI : MachineRegisterInfo) (t x : Nat)
    (hm : mi_match_Not t MRI = some x) :
    ∃ TmpMI, MRI.getVRegDef t = some TmpMI ∧ TmpMI.Opcode = Opcode.G_XOR ∧
      TmpMI.getNumOperands = 3 ∧
      ((mi_match_SpecificICst (TmpMI.getReg 2) MRI (-1) = true ∧ x = TmpMI.getReg 1) ∨
       (mi_match_SpecificICst (TmpMI.getReg 1) MRI (-1) = true ∧ x = TmpMI.getReg 2)) := by
  unfold mi_match_Not at hm
  split at hm
  · rename_i TmpMI hdef
    split_ifs at hm with h1 h2 h3
    · injection hm with hm
      exact ⟨TmpMI, hdef, h1.1, h1.2, Or.inl ⟨h2, hm.symm⟩⟩
    · injection hm with hm
      exact ⟨TmpMI, hdef, h1.1, h1.2, Or.inr ⟨h3, hm.symm⟩⟩
  · exact absurd hm (by simp)

/-- A 1-bit register that matches `m_Not` holds the negation of the register
that the match binds, in an environment that agrees with the function, when
the operands of the exclusive or are registers and the bound register holds a
boolean. -/
theorem mi_match_Not_sound (env : Env) (MRI : MachineRegisterInfo)
    (h : env.agreesOn MRI = true) (t x : Nat) (hTy : MRI.getType t = S1)
    (hWF : ∀ MI, MI ∈ MRI.Insts → MI.Opcode = Opcode.G_XOR → MI.allRegs = true)
    (hm : mi_match_Not t MRI = some x) (hx : env x < 2) : env t = 1 - env x := by
  obtain ⟨TmpMI, hdef, hopc, h3, hcase⟩ := mi_match_Not_some MRI t x hm
  obtain ⟨hmem, hdefs⟩ := getVRegDef_mem MRI t _ hdef
  obtain ⟨d, a, b, hops⟩ := three_regs TmpMI h3 (hWF _ hmem hopc)
  obtain ⟨Opc, Ops⟩ := TmpMI
  simp only at hopc hops
  subst hopc hops
  have hd : d = t := by
    simpa [MachineInstr.definesRegister, MachineInstr.getNumDefs, eq_comm] using hdefs
  subst hd
  have hag := agreesOn_sound env MRI h _ hmem _ (execInstr_XOR MRI env d a b) d (by simp)
  rw [Env.set_eq, hTy] at hag
  have hval : env d = (env a + env b) % 2 := by
    rw [← hag, ← Nat.xor_mod_two_eq]; rfl
  rcases hcase with ⟨hc, hxa⟩ | ⟨hc, hxb⟩
  · have hodd := mi_match_allOnes_sound env MRI h _ hc
    have e1 : MachineInstr.getReg ⟨Opcode.G_XOR, [.reg d, .reg a, .reg b]⟩ 1 = a := rfl
    have e2 : MachineInstr.getReg ⟨Opcode.G_XOR, [.reg d, .reg a, .reg b]⟩ 2 = b := rfl
    rw [e2] at hodd
    rw [e1] at hxa
    subst hxa
    omega
  · have hodd := mi_match_allOnes_sound env MRI h _ hc
    have e1 : MachineInstr.getReg ⟨Opcode.G_XOR, [.reg d, .reg a, .reg b]⟩ 1 = a := rfl
    have e2 : MachineInstr.getReg ⟨Opcode.G_XOR, [.reg d, .reg a, .reg b]⟩ 2 = b := rfl
    rw [e1] at hodd
    rw [e2] at hxb
    subst hxb
    omega

theorem legalizeBrCond_none (MRI : MachineRegisterInfo) (t T : Nat)
    (h : mi_match_Not t MRI = none) :
    legalizeBrCond (MachineIRBuilder.atInstr MRI) ⟨Opcode.G_BRCOND, [.reg t, .mbb T]⟩ =
      { B := MachineIRBuilder.atInstr MRI
        MI := some ⟨Opcode.G_BRCOND_IMM, [.reg t, .mbb T, .imm 1]⟩
        Legalized := true } := by
  simp [legalizeBrCond, MachineIRBuilder.atInstr, MachineInstr.getReg, MachineInstr.getOperand,
    h, MachineInstr.setDesc, MachineInstr.setReg, MachineInstr.addOperand]

theorem legalizeBrCond_some (MRI : MachineRegisterInfo) (t T x : Nat)
    (h : mi_match_Not t MRI = some x) :
    legalizeBrCond (MachineIRBuilder.atInstr MRI) ⟨Opcode.G_BRCOND, [.reg t, .mbb T]⟩ =
      { B := MachineIRBuilder.atInstr MRI
        MI := some ⟨Opcode.G_BRCOND_IMM, [.reg x, .mbb T, .imm 0]⟩
        Legalized := true } := by
  simp [legalizeBrCond, MachineIRBuilder.atInstr, MachineInstr.getReg, MachineInstr.getOperand,
    h, MachineInstr.setDesc, MachineInstr.setReg, MachineInstr.addOperand]

/-- C15: `legalizeBrCond` turns a conditional branch on a 1-bit test `t` into a
branch with polarity immediate, in place and without building anything: on
`(t, 1)` when `t` does not match as a NOT, on `(x, 0)` when `t` matches as the
NOT of `x`. The target is the same, and in an environment that agrees with the
definitions of the function the new branch is taken exactly when the old one
is, that is when `t` is true. -/
theorem legalizeBrCond_spec (MRI : MachineRegisterInfo) (t T : Nat) (env : Env)
    (hAg : env.agreesOn MRI = true) (hTy : MRI.getType t = S1)
    (hWF : ∀ MI, MI ∈ MRI.Insts → MI.Opcode = Opcode.G_XOR → MI.allRegs = true)
    (hx : ∀ x, mi_match_Not t MRI = some x → env x < 2) :
    (legalizeBrCond (MachineIRBuilder.atInstr MRI) ⟨Opcode.G_BRCOND, [.reg t, .mbb T]⟩).B =
      MachineIRBuilder.atInstr MRI ∧
    (mi_match_Not t MRI = none →
      (legalizeBrCond (MachineIRBuilder.atInstr MRI) ⟨Opcode.G_BRCOND, [.reg t, .mbb T]⟩).MI =
        some ⟨Opcode.G_BRCOND_IMM, [.reg t, .mbb T, .imm 1]⟩) ∧
    (∀ x, mi_match_Not t MRI = some x →
      (legalizeBrCond (MachineIRBuilder.atInstr MRI) ⟨Opcode.G_BRCOND, [.reg t, .mbb T]⟩).MI =
        some ⟨Opcode.G_BRCOND_IMM, [.reg x, .mbb T, .imm 0]⟩) ∧
    ∃ NewMI,
      (legalizeBrCond (MachineIRBuilder.atInstr MRI) ⟨Opcode.G_BRCOND, [.reg t, .mbb T]⟩).MI =
        some NewMI ∧
      NewMI.Opcode = Opcode.G_BRCOND_IMM ∧
      NewMI.getOperand 1 = MachineOperand.mbb T ∧
      branchTaken env NewMI = branchTaken env ⟨Opcode.G_BRCOND, [.reg t, .mbb T]⟩ ∧
      branchTaken env NewMI = some (decide (env t ≠ 0)) := by
  cases hm : mi_match_Not t MRI with
  | none =>
    rw [legalizeBrCond_none MRI t T hm]
    refine ⟨rfl, fun _ => rfl, fun x h => absurd h (by simp), _, rfl, rfl, rfl, ?_, ?_⟩ <;>
      simp [branchTaken]
  | some x =>
    rw [legalizeBrCond_some MRI t T x hm]
    have hval := mi_match_Not_sound env MRI hAg t x hTy hWF hm (hx x hm)
    have hlt := hx x hm
    refine ⟨rfl, fun h => absurd h (by simp), fun y hy => ?_, _, rfl, rfl, rfl, ?_, ?_⟩
    · injection hy with hy; subst hy; rfl
    · simp only [branchTaken, Option.some.injEq, decide_eq_decide]
      constructor <;> intro h <;> simp at h ⊢ <;> omega
    · simp only [branchTaken, Option.some.injEq, decide_eq_decide]
      constructor <;> intro h <;> simp at h ⊢ <;> omega

theorem legalizeBrCond_spec_witness :
    (legalizeBrCond (MachineIRBuilder.atInstr
        ⟨[S1, S1, S1], [⟨Opcode.G_CONSTANT, [.reg 2, .cimm 1]⟩,
          ⟨Opcode.G_XOR, [.reg 0, .reg 1, .reg 2]⟩]⟩)
      ⟨Opcode.G_BRCOND, [.reg 0, .mbb 3]⟩).MI =
        some ⟨Opcode.G_BRCOND_IMM, [.reg 1, .mbb 3, .imm 0]⟩ ∧
    branchTaken (envOf [1, 0, 1]) ⟨Opcode.G_BRCOND_IMM, [.reg 1, .mbb 3, .imm 0]⟩ =
      some true := by
  obtain ⟨-, -, h1, NewMI, h2, -, -, -, h3⟩ := legalizeBrCond_spec
    ⟨[S1, S1, S1], [⟨Opcode.G_CONSTANT, [.reg 2, .cimm 1]⟩,
      ⟨Opcode.G_XOR, [.reg 0, .reg 1, .reg 2]⟩]⟩ 0 3 (envOf [1, 0, 1])
    (by decide) (by decide) (by decide) (by decide)
  have h4 := h1 1 (by decide)
  rw [h4] at h2
  injection h2 with h2
  subst h2
  exact ⟨h4, h3.trans (by decide)⟩

/-! ## Folding a NOT into the branches that test it -/

/-- The loop of `legalizeXor` over the users passes over the instructions that
do not use the register and over the users that are neither a branch with
polarity immediate nor a select, rewrites the first branch with polarity
immediate on the register that it comes to, and ends there: what follows that
branch is left as it is. -/
theorem foldNotIntoUses_first_branch (Dst Not : Nat) (V : List LLT) (T : Nat) (p : Int)
    (Post : List MachineInstr) (Pre : List MachineInstr) :
    ∀ Done : List MachineInstr,
    (∀ U, U ∈ Pre → U.usesRegister Dst = false ∨
      (U.Opcode ≠ Opcode.G_BRCOND_IMM ∧ U.Opcode ≠ Opcode.G_SELECT)) →
    foldNotIntoUses Dst Not V Done
        (Pre ++ ⟨Opcode.G_BRCOND_IMM, [.reg Dst, .mbb T, .imm p]⟩ :: Post) =
      Except.ok (Done ++ (Pre ++
        ⟨Opcode.G_BRCOND_IMM, [.reg Not, .mbb T, .imm (if p = 0 then 1 else 0)]⟩ :: Post)) := by
  induction Pre with
  | nil =>
    intro Done _
    simp [foldNotIntoUses, MachineInstr.usesRegister, MachineInstr.getNumDefs,
      MachineInstr.getReg, MachineInstr.getOperand, MachineInstr.setReg,
      MachineInstr.setImm, MachineInstr.getImm]
  | cons U0 Pre ih =>
    intro Done hPre
    have h0 := hPre U0 (List.mem_cons_self _ _)
    have hstep : foldNotIntoUses Dst Not V Done
        (U0 :: (Pre ++ ⟨Opcode.G_BRCOND_IMM, [.reg Dst, .mbb T, .imm p]⟩ :: Post)) =
        foldNotIntoUses Dst Not V (Done ++ [U0])
          (Pre ++ ⟨Opcode.G_BRCOND_IMM, [.reg Dst, .mbb T, .imm p]⟩ :: Post) := by
      rw [foldNotIntoUses]
      rcases h0 with h0 | ⟨hb, hs⟩
      · simp [h0]
      · simp [hb, hs]
    rw [List.cons_append, hstep, ih (Done ++ [U0])
      (fun U hU => hPre U (List.mem_cons_of_mem _ hU))]
    simp

/-- What `legalizeXor` does with the NOT of `x`: the function's instructions
are what the loop over the users leaves, and the exclusive or is erased. -/
theorem legalizeXor_not (V : List LLT) (I : List MachineInstr) (MI : MachineInstr) (x : Nat)
    (hTy : (MachineRegisterInfo.mk V I).getType (MI.getReg 0) = S1)
    (hm : mi_match_Not (MI.getReg 0) ⟨V, I⟩ = some x) (Res : List MachineInstr)
    (hR : foldNotIntoUses (MI.getReg 0) x V [] I = Except.ok Res) :
    ∃ Out, legalizeXor (MachineIRBuilder.atInstr ⟨V, I⟩) MI =
        Except.ok (Outcome.rewritten Out) ∧
      Out.MI = none ∧ Out.B.MRI.Insts = Res := by
  by_cases hd : isTriviallyDead MI ⟨V, Res⟩ = true
  · exact ⟨{ B := { MRI := ⟨V, Res⟩, Before := [], After := [], PastMI := false }
             MI := none, Legalized := true },
      by simp [legalizeXor, MachineIRBuilder.atInstr, hTy, hm, hR, hd], rfl, rfl⟩
  · exact ⟨{ B := { MRI := ⟨V ++ [S1, S1], Res⟩
                    Before := [⟨Opcode.G_CONSTANT, [.reg V.length, .cimm 0]⟩,
                      ⟨Opcode.G_CONSTANT, [.reg (V.length + 1), .cimm 1]⟩,
                      ⟨Opcode.G_SELECT, [.reg (MI.getReg 0), .reg x, .reg V.length,
                        .reg (V.length + 1)]⟩]
                    After := [], PastMI := false }
             MI := none, Legalized := true },
      by
        simp only [legalizeXor, MachineIRBuilder.atInstr, hTy, hm, hR, hd]
        simp [MachineIRBuilder.buildConstant, MachineIRBuilder.buildSelect,
          MachineIRBuilder.buildInstr, MachineIRBuilder.insert, DstOp.addDefs, DstOp.addDef,
          DstOp.getLLTTy, MachineRegisterInfo.createGenericVirtualRegister,
          MachineInstr.getReg, MachineInstr.getOperand, S1, LLT.getSizeInBits,
          constantBits_one_zero, constantBits_one_one],
      rfl, rfl⟩

/-- What `legalizeXor` does with the first branch on the NOT: when it takes a
1-bit exclusive or whose result `d` matches as the NOT of `x`, and the first
user of `d` that is a branch with polarity immediate or a select is the branch
on `d` with polarity `p` in 0, 1, that branch is rewritten in place to the
branch on `x` with polarity `1 - p` and the same target, which is taken
exactly when the old one is in an environment that agrees with the definitions
of the function; every other instruction of the function is left as it is,
the later users of `d` among them. -/
theorem legalizeXor_first_branch (V : List LLT) (Pre Post : List MachineInstr)
    (MI : MachineInstr) (d x T : Nat) (p : Int) (env : Env) (hd : MI.getReg 0 = d)
    (hTy : (MachineRegisterInfo.mk V
      (Pre ++ ⟨Opcode.G_BRCOND_IMM, [.reg d, .mbb T, .imm p]⟩ :: Post)).getType d = S1)
    (hm : mi_match_Not d
      ⟨V, Pre ++ ⟨Opcode.G_BRCOND_IMM, [.reg d, .mbb T, .imm p]⟩ :: Post⟩ = some x)
    (hPre : ∀ U, U ∈ Pre → U.usesRegister d = false ∨
      (U.Opcode ≠ Opcode.G_BRCOND_IMM ∧ U.Opcode ≠ Opcode.G_SELECT))
    (hp : p = 0 ∨ p = 1)
    (hAg : env.agreesOn
      ⟨V, Pre ++ ⟨Opcode.G_BRCOND_IMM, [.reg d, .mbb T, .imm p]⟩ :: Post⟩ = true)
    (hWF : ∀ U, U ∈ Pre ++ ⟨Opcode.G_BRCOND_IMM, [.reg d, .mbb T, .imm p]⟩ :: Post →
      U.Opcode = Opcode.G_XOR → U.allRegs = true)
    (hx : env x < 2) :
    ∃ Out, legalizeXor (MachineIRBuilder.atInstr
          ⟨V, Pre ++ ⟨Opcode.G_BRCOND_IMM, [.reg d, .mbb T, .imm p]⟩ :: Post⟩) MI =
        Except.ok (Outcome.rewritten Out) ∧
      Out.MI = none ∧
      Out.B.MRI.Insts =
        Pre ++ ⟨Opcode.G_BRCOND_IMM, [.reg x, .mbb T, .imm (1 - p)]⟩ :: Post ∧
      branchTaken env ⟨Opcode.G_BRCOND_IMM, [.reg x, .mbb T, .imm (1 - p)]⟩ =
        branchTaken env ⟨Opcode.G_BRCOND_IMM, [.reg d, .mbb T, .imm p]⟩ := by
  subst hd
  have hR := foldNotIntoUses_first_branch (MI.getReg 0) x V T p Post Pre [] hPre
  rw [List.nil_append] at hR
  obtain ⟨Out, hO, hMI, hI⟩ := legalizeXor_not V _ MI x hTy hm _ hR
  have hval := mi_match_Not_sound env ⟨V, _⟩ hAg _ x hTy hWF hm hx
  refine ⟨Out, hO, hMI, ?_, ?_⟩
  · rw [hI]
    rcases hp with rfl | rfl <;> rfl
  · simp only [branchTaken, Option.some.injEq, decide_eq_decide]
    rcases hp with rfl | rfl <;> constructor <;> intro h <;> simp at h ⊢ <;> omega

/-- C16, failing input: `%0` is the NOT of `%1` and two branches with polarity
immediate test `%0`. `legalizeXor` rewrites the first of them to test `%1`
with the other polarity and leaves the second as it is, a branch on `%0`; as
`%0` is still in use, it also builds the select that defines `%0` again. It is
so in either order of the two branches. -/
theorem legalizeXor_second_branch_kept :
    legalizeXor (MachineIRBuilder.atInstr
        ⟨[S1, S1, S1],
          [⟨Opcode.G_CONSTANT, [.reg 2, .cimm 1]⟩,
           ⟨Opcode.G_XOR, [.reg 0, .reg 1, .reg 2]⟩,
           ⟨Opcode.G_BRCOND_IMM, [.reg 0, .mbb 7, .imm 1]⟩,
           ⟨Opcode.G_BRCOND_IMM, [.reg 0, .mbb 8, .imm 0]⟩]⟩)
        ⟨Opcode.G_XOR, [.reg 0, .reg 1, .reg 2]⟩ =
      Except.ok (Outcome.rewritten
        { B := { MRI := ⟨[S1, S1, S1, S1, S1],
                   [⟨Opcode.G_CONSTANT, [.reg 2, .cimm 1]⟩,
                    ⟨Opcode.G_XOR, [.reg 0, .reg 1, .reg 2]⟩,
                    ⟨Opcode.G_BRCOND_IMM, [.reg 1, .mbb 7, .imm 0]⟩,
                    ⟨Opcode.G_BRCOND_IMM, [.reg 0, .mbb 8, .imm 0]⟩]⟩
                 Before := [⟨Opcode.G_CONSTANT, [.reg 3, .cimm 0]⟩,
                   ⟨Opcode.G_CONSTANT, [.reg 4, .cimm 1]⟩,
                   ⟨Opcode.G_SELECT, [.reg 0, .reg 1, .reg 3, .reg 4]⟩]
                 After := []
                 PastMI := false }
          MI := none
          Legalized := true }) ∧
    legalizeXor (MachineIRBuilder.atInstr
        ⟨[S1, S1, S1],
          [⟨Opcode.G_CONSTANT, [.reg 2, .cimm 1]⟩,
           ⟨Opcode.G_XOR, [.reg 0, .reg 1, .reg 2]⟩,
           ⟨Opcode.G_BRCOND_IMM, [.reg 0, .mbb 8, .imm 0]⟩,
           ⟨Opcode.G_BRCOND_IMM, [.reg 0, .mbb 7, .imm 1]⟩]⟩)
        ⟨Opcode.G_XOR, [.reg 0, .reg 1, .reg 2]⟩ =
      Except.ok (Outcome.rewritten
        { B := { MRI := ⟨[S1, S1, S1, S1, S1],
                   [⟨Opcode.G_CONSTANT, [.reg 2, .cimm 1]⟩,
                    ⟨Opcode.G_XOR, [.reg 0, .reg 1, .reg 2]⟩,
                    ⟨Opcode.G_BRCOND_IMM, [.reg 1, .mbb 8, .imm 1]⟩,
                    ⟨Opcode.G_BRCOND_IMM, [.reg 0, .mbb 7, .imm 1]⟩]⟩
                 Before := [⟨Opcode.G_CONSTANT, [.reg 3, .cimm 0]⟩,
                   ⟨Opcode.G_CONSTANT, [.reg 4, .cimm 1]⟩,
                   ⟨Opcode.G_SELECT, [.reg 0, .reg 1, .reg 3, .reg 4]⟩]
                 After := []
                 PastMI := false }
          MI := none
          Legalized := true }) ∧
    (MachineInstr.mk Opcode.G_BRCOND_IMM [.reg 0, .mbb 8, .imm 0]).usesRegister 0 = true ∧
    (MachineInstr.mk Opcode.G_BRCOND_IMM [.reg 0, .mbb 7, .imm 1]).usesRegister 0 = true := by
  refine ⟨rfl, rfl, by decide, by decide⟩

/-- C17: the copy does not have the value of the select for every result type.
With `%0 = NOT %1` and the 8-bit select `%3 = %0 ? 0 : 255`, `legalizeXor`
rewrites the select to `%3 = COPY %1`; in the environment where `%1` is true,
which agrees with the definitions of the function, the select has the value
255 and the copy has the value 1. -/
theorem legalizeXor_select_S8_diverges :
    legalizeXor (MachineIRBuilder.atInstr
        ⟨[S1, S1, S1, S8, S8, S8],
          [⟨Opcode.G_CONSTANT, [.reg 2, .cimm 1]⟩,
           ⟨Opcode.G_XOR, [.reg 0, .reg 1, .reg 2]⟩,
           ⟨Opcode.G_CONSTANT, [.reg 4, .cimm 0]⟩,
           ⟨Opcode.G_CONSTANT, [.reg 5, .cimm 255]⟩,
           ⟨Opcode.G_SELECT, [.reg 3, .reg 0, .reg 4, .reg 5]⟩]⟩)
        ⟨Opcode.G_XOR, [.reg 0, .reg 1, .reg 2]⟩ =
      Except.ok (Outcome.rewritten
        { B := MachineIRBuilder.atInstr
            ⟨[S1, S1, S1, S8, S8, S8],
              [⟨Opcode.G_CONSTANT, [.reg 2, .cimm 1]⟩,
               ⟨Opcode.G_XOR, [.reg 0, .reg 1, .reg 2]⟩,
               ⟨Opcode.G_CONSTANT, [.reg 4, .cimm 0]⟩,
               ⟨Opcode.G_CONSTANT, [.reg 5, .cimm 255]⟩,
               ⟨Opcode.COPY, [.reg 3, .reg 1]⟩]⟩
          MI := none
          Legalized := true }) ∧
    (envOf [0, 1, 1, 255, 0, 255]).agreesOn
        ⟨[S1, S1, S1, S8, S8, S8],
          [⟨Opcode.G_CONSTANT, [.reg 2, .cimm 1]⟩,
           ⟨Opcode.G_XOR, [.reg 0, .reg 1, .reg 2]⟩,
           ⟨Opcode.G_CONSTANT, [.reg 4, .cimm 0]⟩,
           ⟨Opcode.G_CONSTANT, [.reg 5, .cimm 255]⟩,
           ⟨Opcode.G_SELECT, [.reg 3, .reg 0, .reg 4, .reg 5]⟩]⟩ = true ∧
    (execInstr ⟨[S1, S1, S1, S8, S8, S8], []⟩ (envOf [0, 1, 1, 255, 0, 255])
        ⟨Opcode.G_SELECT, [.reg 3, .reg 0, .reg 4, .reg 5]⟩).map (fun e => e 3) = some 255 ∧
    (execInstr ⟨[S1, S1, S1, S8, S8, S8], []⟩ (envOf [0, 1, 1, 255, 0, 255])
        ⟨Opcode.COPY, [.reg 3, .reg 1]⟩).map (fun e => e 3) = some 1 := by
  refine ⟨rfl, by decide, by decide, by decide⟩

/-! ## Pointer plus offset -/

theorem addInt64_eq (a b : Int) (h1 : -(2 : Int) ^ 63 ≤ a + b) (h2 : a + b < (2 : Int) ^ 63) :
    addInt64 a b = a + b := by
  unfold addInt64
  rw [Int.emod_eq_of_lt (by omega) (by omega)]
  omega

theorem getActiveBits_le (v k : Nat) : getActiveBits v ≤ k ↔ v < 2 ^ k := by
  unfold getActiveBits
  split_ifs with h
  · subst h
    simp
  · rw [Nat.succ_le_iff, Nat.log2_lt h]

/-- What `legalizePtrAdd` does when the base is a global address and the offset
a known constant. -/
theorem legalizePtrAdd_global (MRI : MachineRegisterInfo) (Res Base Off : Nat)
    (GlobalDef : MachineInstr) (g : Nat) (o : Int) (c : Nat)
    (hG : getOpcodeDef Opcode.G_GLOBAL_VALUE Base MRI = some GlobalDef)
    (hOp : GlobalDef.getOperand 1 = MachineOperand.globalAddress g o)
    (hC : getConstantVRegValWithLookThrough Off MRI = some c) :
    legalizePtrAdd (MachineIRBuilder.atInstr MRI)
        ⟨Opcode.G_PTR_ADD, [.reg Res, .reg Base, .reg Off]⟩ =
      { B := { MRI := MRI
               Before := [⟨Opcode.G_GLOBAL_VALUE, [.reg Res, .globalAddress g
                 (addInt64 o (toSigned (MRI.getType Off).getSizeInBits c))]⟩]
               After := []
               PastMI := false }
        MI := none
        Legalized := true } := by
  have hOp' : GlobalDef.Operands[1]?.getD (MachineOperand.reg 0) =
      MachineOperand.globalAddress g o := by
    simpa [MachineInstr.getOperand] using hOp
  simp [legalizePtrAdd, MachineIRBuilder.atInstr, MachineInstr.getReg, MachineInstr.getOperand,
    hG, hC, hOp', MachineIRBuilder.insert, MachineOperand.getGlobal, MachineOperand.getOffset]

/-- C18: when the base of a pointer addition is, through copies, a global
address of symbol `g` with offset `o`, and the offset register is a known
constant `c`, `legalizePtrAdd` erases the addition and builds in its place a
global address of `g` into the same result register with offset `o + c`, `c`
read as a signed number of the width of the offset register (the sum being a
64-bit offset). Nothing else is asked of the offset: the fold is made also
when the offset is defined by a zero extension or fits in 8 bits. -/
theorem legalizePtrAdd_global_spec (MRI : MachineRegisterInfo) (Res Base Off : Nat)
    (GlobalDef : MachineInstr) (g : Nat) (o : Int) (c : Nat)
    (hG : getOpcodeDef Opcode.G_GLOBAL_VALUE Base MRI = some GlobalDef)
    (hOp : GlobalDef.getOperand 1 = MachineOperand.globalAddress g o)
    (hC : getConstantVRegValWithLookThrough Off MRI = some c) :
    (legalizePtrAdd (MachineIRBuilder.atInstr MRI)
        ⟨Opcode.G_PTR_ADD, [.reg Res, .reg Base, .reg Off]⟩).MI = none ∧
    (legalizePtrAdd (MachineIRBuilder.atInstr MRI)
        ⟨Opcode.G_PTR_ADD, [.reg Res, .reg Base, .reg Off]⟩).B.MRI = MRI ∧
    (legalizePtrAdd (MachineIRBuilder.atInstr MRI)
        ⟨Opcode.G_PTR_ADD, [.reg Res, .reg Base, .reg Off]⟩).insts =
      [⟨Opcode.G_GLOBAL_VALUE, [.reg Res, .globalAddress g
        (addInt64 o (toSigned (MRI.getType Off).getSizeInBits c))]⟩] ∧
    (-(2 : Int) ^ 63 ≤ o + toSigned (MRI.getType Off).getSizeInBits c →
      o + toSigned (MRI.getType Off).getSizeInBits c < (2 : Int) ^ 63 →
      (legalizePtrAdd (MachineIRBuilder.atInstr MRI)
          ⟨Opcode.G_PTR_ADD, [.reg Res, .reg Base, .reg Off]⟩).insts =
        [⟨Opcode.G_GLOBAL_VALUE, [.reg Res, .globalAddress g
          (o + toSigned (MRI.getType Off).getSizeInBits c)]⟩]) := by
  rw [legalizePtrAdd_global MRI Res Base Off GlobalDef g o c hG hOp hC]
  refine ⟨rfl, rfl, rfl, ?_⟩
  intro h1 h2
  rw [← addInt64_eq _ _ h1 h2]
  rfl

theorem legalizePtrAdd_global_spec_witness :
    (legalizePtrAdd (MachineIRBuilder.atInstr
        ⟨[P, P, S16, P, S8],
          [⟨Opcode.G_GLOBAL_VALUE, [.reg 3, .globalAddress 9 4]⟩,
           ⟨Opcode.COPY, [.reg 1, .reg 3]⟩,
           ⟨Opcode.G_CONSTANT, [.reg 4, .cimm 5]⟩,
           ⟨Opcode.G_ZEXT, [.reg 2, .reg 4]⟩]⟩)
        ⟨Opcode.G_PTR_ADD, [.reg 0, .reg 1, .reg 2]⟩).insts =
      [⟨Opcode.G_GLOBAL_VALUE, [.reg 0, .globalAddress 9 9]⟩] := by
  obtain ⟨-, -, -, h⟩ := legalizePtrAdd_global_spec
    ⟨[P, P, S16, P, S8],
      [⟨Opcode.G_GLOBAL_VALUE, [.reg 3, .globalAddress 9 4]⟩,
       ⟨Opcode.COPY, [.reg 1, .reg 3]⟩,
       ⟨Opcode.G_CONSTANT, [.reg 4, .cimm 5]⟩,
       ⟨Opcode.G_ZEXT, [.reg 2, .reg 4]⟩]⟩ 0 1 2
    ⟨Opcode.G_GLOBAL_VALUE, [.reg 3, .globalAddress 9 4]⟩ 9 4 5 (by decide) rfl (by decide)
  exact h (by decide) (by decide)

/-- C19: the index is not always 8 bits wide. For an offset that is the zero
extension of a 12-bit register, `legalizePtrAdd` rewrites the addition to
indexed addressing whose index operand is that 12-bit register itself, and
builds nothing; a source of 3 bits is widened to 8 bits first. -/
theorem legalizePtrAdd_zext_wide_index :
    legalizePtrAdd (MachineIRBuilder.atInstr
        ⟨[P, P, S16, LLT.scalar 12], [⟨Opcode.G_ZEXT, [.reg 2, .reg 3]⟩]⟩)
        ⟨Opcode.G_PTR_ADD, [.reg 0, .reg 1, .reg 2]⟩ =
      { B := MachineIRBuilder.atInstr
          ⟨[P, P, S16, LLT.scalar 12], [⟨Opcode.G_ZEXT, [.reg 2, .reg 3]⟩]⟩
        MI := some ⟨Opcode.G_INDEX, [.reg 0, .reg 1, .reg 3]⟩
        Legalized := true } ∧
    (MachineRegisterInfo.mk [P, P, S16, LLT.scalar 12]
      [⟨Opcode.G_ZEXT, [.reg 2, .reg 3]⟩]).getType 3 = LLT.scalar 12 ∧
    legalizePtrAdd (MachineIRBuilder.atInstr
        ⟨[P, P, S16, LLT.scalar 3], [⟨Opcode.G_ZEXT, [.reg 2, .reg 3]⟩]⟩)
        ⟨Opcode.G_PTR_ADD, [.reg 0, .reg 1, .reg 2]⟩ =
      { B := { MRI := ⟨[P, P, S16, LLT.scalar 3, S8], [⟨Opcode.G_ZEXT, [.reg 2, .reg 3]⟩]⟩
               Before := [⟨Opcode.G_ZEXT, [.reg 4, .reg 3]⟩]
               After := []
               PastMI := false }
        MI := some ⟨Opcode.G_INDEX, [.reg 0, .reg 1, .reg 4]⟩
        Legalized := true } := by
  decide

/-- What `legalizePtrAdd` does with a known constant offset that is not
negative and has at most 8 bits, when neither of the first two rewrites
applies. -/
theorem legalizePtrAdd_small (V : List LLT) (I : List MachineInstr) (Res Base Off c : Nat)
    (hG : getOpcodeDef Opcode.G_GLOBAL_VALUE Base ⟨V, I⟩ = none)
    (hZ : getOpcodeDef Opcode.G_ZEXT Off ⟨V, I⟩ = none)
    (hC : getConstantVRegValWithLookThrough Off ⟨V, I⟩ = some c)
    (hs : 0 ≤ toSigned ((MachineRegisterInfo.mk V I).getType Off).getSizeInBits c)
    (hc : c < 256) :
    legalizePtrAdd (MachineIRBuilder.atInstr ⟨V, I⟩)
        ⟨Opcode.G_PTR_ADD, [.reg Res, .reg Base, .reg Off]⟩ =
      { B := { MRI := ⟨V ++ [S8], I⟩
               Before := [⟨Opcode.G_CONSTANT, [.reg V.length, .cimm c]⟩]
               After := []
               PastMI := false }
        MI := some ⟨Opcode.G_INDEX, [.reg Res, .reg Base, .reg V.length]⟩
        Legalized := true } := by
  have ha : getActiveBits c ≤ 8 := (getActiveBits_le c 8).mpr hc
  have hm : c % 256 = c := Nat.mod_eq_of_lt hc
  have hb : constantBits 8 (c : Int) = c := constantBits_small 8 c hc
  have h8 : S8.getSizeInBits = 8 := rfl
  simp [legalizePtrAdd, MachineIRBuilder.atInstr, MachineInstr.getReg, MachineInstr.getOperand,
    hG, hZ, hC, hs, ha, hm, hb, h8, MachineIRBuilder.buildConstant, MachineIRBuilder.buildInstr,
    MachineIRBuilder.insert, DstOp.addDefs, DstOp.addDef, DstOp.getLLTTy,
    MachineRegisterInfo.createGenericVirtualRegister, MachineInstr.setDesc,
    MachineInstr.setReg]

/-- What `legalizePtrAdd` does when none of the three rewrites applies: the
offset is not a known constant, or it is one that is negative or has more
than 8 bits. -/
theorem legalizePtrAdd_general (V : List LLT) (I : List MachineInstr) (Res Base Off : Nat)
    (hG : getOpcodeDef Opcode.G_GLOBAL_VALUE Base ⟨V, I⟩ = none ∨
      getConstantVRegValWithLookThrough Off ⟨V, I⟩ = none)
    (hZ : getOpcodeDef Opcode.G_ZEXT Off ⟨V, I⟩ = none)
    (hC : ∀ c, getConstantVRegValWithLookThrough Off ⟨V, I⟩ = some c →
      toSigned ((MachineRegisterInfo.mk V I).getType Off).getSizeInBits c < 0 ∨ 256 ≤ c) :
    legalizePtrAdd (MachineIRBuilder.atInstr ⟨V, I⟩)
        ⟨Opcode.G_PTR_ADD, [.reg Res, .reg Base, .reg Off]⟩ =
      { B := { MRI := ⟨V ++ [S16, S16], I⟩
               Before := [⟨Opcode.G_PTRTOINT, [.reg V.length, .reg Base]⟩,
                 ⟨Opcode.G_ADD, [.reg (V.length + 1), .reg V.length, .reg Off]⟩,
                 ⟨Opcode.G_INTTOPTR, [.reg Res, .reg (V.length + 1)]⟩]
               After := []
               PastMI := false }
        MI := none
        Legalized := true } := by
  cases hc : getConstantVRegValWithLookThrough Off ⟨V, I⟩ with
  | none =>
    simp [legalizePtrAdd, MachineIRBuilder.atInstr, MachineInstr.getReg,
      MachineInstr.getOperand, hZ, hc, MachineIRBuilder.buildPtrToInt,
      MachineIRBuilder.buildAdd, MachineIRBuilder.buildIntToPtr, MachineIRBuilder.buildInstr,
      MachineIRBuilder.insert, DstOp.addDefs, DstOp.addDef,
      MachineRegisterInfo.createGenericVirtualRegister]
  | some c =>
    have hG' : getOpcodeDef Opcode.G_GLOBAL_VALUE Base ⟨V, I⟩ = none := by
      rcases hG with h | h
      · exact h
      · rw [hc] at h; exact absurd h (by simp)
    have hn : ¬ (0 ≤ toSigned ((MachineRegisterInfo.mk V I).getType Off).getSizeInBits c ∧
        getActiveBits c ≤ 8) := by
      rw [getActiveBits_le]
      rcases hC c hc with h | h
      · intro hh; omega
      · intro hh; have := hh.2; norm_num at this; omega
    simp [legalizePtrAdd, MachineIRBuilder.atInstr, MachineInstr.getReg,
      MachineInstr.getOperand, hG', hZ, hc, hn, MachineIRBuilder.buildPtrToInt,
      MachineIRBuilder.buildAdd, MachineIRBuilder.buildIntToPtr, MachineIRBuilder.buildInstr,
      MachineIRBuilder.insert, DstOp.addDefs, DstOp.addDef,
      MachineRegisterInfo.createGenericVirtualRegister]

theorem execInstr_PTRTOINT (MRI : MachineRegisterInfo) (env : Env) (d s : Nat) :
    execInstr MRI env ⟨Opcode.G_PTRTOINT, [.reg d, .reg s]⟩ =
      some (env.set d (env s % 2 ^ (MRI.getType d).getSizeInBits)) := rfl

theorem execInstr_INTTOPTR (MRI : MachineRegisterInfo) (env : Env) (d s : Nat) :
    execInstr MRI env ⟨Opcode.G_INTTOPTR, [.reg d, .reg s]⟩ =
      some (env.set d (env s % 2 ^ (MRI.getType d).getSizeInBits)) := rfl

theorem execInstr_ADD (MRI : MachineRegisterInfo) (env : Env) (d a b : Nat) :
    execInstr MRI env ⟨Opcode.G_ADD, [.reg d, .reg a, .reg b]⟩ =
      some (env.set d ((env a + env b) % 2 ^ (MRI.getType d).getSizeInBits)) := rfl

theorem execInstr_INDEX (MRI : MachineRegisterInfo) (env : Env) (d a b : Nat) :
    execInstr MRI env ⟨Opcode.G_INDEX, [.reg d, .reg a, .reg b]⟩ =
      some (env.set d ((env a + env b) % 2 ^ (MRI.getType d).getSizeInBits)) := rfl

theorem toSigned_16_small (c : Nat) (hc : c < 2 ^ 16) :
    (0 ≤ toSigned 16 c ∧ toSigned 16 c ≤ 255) ↔ c < 256 := by
  unfold toSigned
  norm_num at hc ⊢
  split_ifs <;> omega

/-- C20: when neither the fold into a global address nor the rewrite of a zero
extension applies, a known 16-bit constant offset `c` is rewritten to indexed
addressing with an 8-bit constant if and only if `c` is not negative as a
signed number and is at most 255; the constant built has the bits of `c`, of
type 8 bits, and the indexed address is base plus `c`. Otherwise, and when the
offset is not a known constant, the addition is lowered to pointer-to-integer,
a 16-bit add and integer-to-pointer, whose result is
`(base + offset) mod 2^16`. -/
theorem legalizePtrAdd_const_spec (V : List LLT) (I : List MachineInstr)
    (Res Base Off : Nat) (env : Env)
    (hG : getOpcodeDef Opcode.G_GLOBAL_VALUE Base ⟨V, I⟩ = none ∨
      getConstantVRegValWithLookThrough Off ⟨V, I⟩ = none)
    (hZ : getOpcodeDef Opcode.G_ZEXT Off ⟨V, I⟩ = none)
    (hTyO : (MachineRegisterInfo.mk V I).getType Off = S16)
    (hTyR : (MachineRegisterInfo.mk V I).getType Res = P)
    (hTyB : (MachineRegisterInfo.mk V I).getType Base = P) :
    (∀ c, getConstantVRegValWithLookThrough Off ⟨V, I⟩ = some c → c < 2 ^ 16 →
      ((0 ≤ toSigned 16 c ∧ toSigned 16 c ≤ 255) →
        legalizePtrAdd (MachineIRBuilder.atInstr ⟨V, I⟩)
            ⟨Opcode.G_PTR_ADD, [.reg Res, .reg Base, .reg Off]⟩ =
          { B := { MRI := ⟨V ++ [S8], I⟩
                   Before := [⟨Opcode.G_CONSTANT, [.reg V.length, .cimm c]⟩]
                   After := []
                   PastMI := false }
            MI := some ⟨Opcode.G_INDEX, [.reg Res, .reg Base, .reg V.length]⟩
            Legalized := true } ∧
        c < 2 ^ 8 ∧ (c : Int) = toSigned 16 c ∧
        ∃ env1, execInstrs ⟨V ++ [S8], I⟩ env
            [⟨Opcode.G_CONSTANT, [.reg V.length, .cimm c]⟩,
             ⟨Opcode.G_INDEX, [.reg Res, .reg Base, .reg V.length]⟩] = some env1 ∧
          env1 Res = (env Base + c) % 2 ^ 16) ∧
      (¬ (0 ≤ toSigned 16 c ∧ toSigned 16 c ≤ 255) →
        legalizePtrAdd (MachineIRBuilder.atInstr ⟨V, I⟩)
            ⟨Opcode.G_PTR_ADD, [.reg Res, .reg Base, .reg Off]⟩ =
          { B := { MRI := ⟨V ++ [S16, S16], I⟩
                   Before := [⟨Opcode.G_PTRTOINT, [.reg V.length, .reg Base]⟩,
                     ⟨Opcode.G_ADD, [.reg (V.length + 1), .reg V.length, .reg Off]⟩,
                     ⟨Opcode.G_INTTOPTR, [.reg Res, .reg (V.length + 1)]⟩]
                   After := []
                   PastMI := false }
            MI := none
            Legalized := true })) ∧
    (getConstantVRegValWithLookThrough Off ⟨V, I⟩ = none →
      legalizePtrAdd (MachineIRBuilder.atInstr ⟨V, I⟩)
          ⟨Opcode.G_PTR_ADD, [.reg Res, .reg Base, .reg Off]⟩ =
        { B := { MRI := ⟨V ++ [S16, S16], I⟩
                 Before := [⟨Opcode.G_PTRTOINT, [.reg V.length, .reg Base]⟩,
                   ⟨Opcode.G_ADD, [.reg (V.length + 1), .reg V.length, .reg Off]⟩,
                   ⟨Opcode.G_INTTOPTR, [.reg Res, .reg (V.length + 1)]⟩]
                 After := []
                 PastMI := false }
          MI := none
          Legalized := true }) ∧
    ∃ env1, execInstrs ⟨V ++ [S16, S16], I⟩ env
        [⟨Opcode.G_PTRTOINT, [.reg V.length, .reg Base]⟩,
         ⟨Opcode.G_ADD, [.reg (V.length + 1), .reg V.length, .reg Off]⟩,
         ⟨Opcode.G_INTTOPTR, [.reg Res, .reg (V.length + 1)]⟩] = some env1 ∧
      env1 Res = (env Base + env Off) % 2 ^ 16 := by
  have hR : Res < V.length := by
    by_contra hge
    have : (MachineRegisterInfo.mk V I).getType Res = LLT.invalid := by
      simp [MachineRegisterInfo.getType, List.getD_eq_getElem?_getD,
        List.getElem?_eq_none (Nat.le_of_not_lt hge)]
    rw [this] at hTyR
    exact LLT.noConfusion hTyR
  have hB : Base < V.length := by
    by_contra hge
    have : (MachineRegisterInfo.mk V I).getType Base = LLT.invalid := by
      simp [MachineRegisterInfo.getType, List.getD_eq_getElem?_getD,
        List.getElem?_eq_none (Nat.le_of_not_lt hge)]
    rw [this] at hTyB
    exact LLT.noConfusion hTyB
  have hO : Off < V.length := getType_eq_scalar_lt ⟨V, I⟩ Off 16 hTyO
  have hW : ((MachineRegisterInfo.mk V I).getType Off).getSizeInBits = 16 := by
    rw [hTyO]; rfl
  refine ⟨fun c hc hlt => ⟨fun hs => ?_, fun hs => ?_⟩, fun hc => ?_, ?_⟩
  · have hc8 : c < 256 := (toSigned_16_small c hlt).mp hs
    refine ⟨legalizePtrAdd_small V I Res Base Off c ?_ hZ hc (by rw [hW]; exact hs.1) hc8,
      by norm_num; exact hc8, ?_, ?_⟩
    · rcases hG with h | h
      · exact h
      · rw [hc] at h; exact absurd h (by simp)
    · unfold toSigned
      rw [if_pos (by norm_num; omega)]
    · simp only [execInstrs, execInstr_CONSTANT, execInstr_INDEX, Option.some_bind]
      refine ⟨_, rfl, ?_⟩
      simp (disch := omega) only [Env.set_eq, Env.set_ne, getType_old, hTyR]
      rfl
  · refine legalizePtrAdd_general V I Res Base Off hG hZ (fun c' hc' => ?_)
    rw [hc] at hc'
    injection hc' with hc'
    subst hc'
    rw [hW]
    by_cases hneg : toSigned 16 c < 0
    · exact Or.inl hneg
    · right
      by_contra hlt8
      exact hs ((toSigned_16_small c hlt).mpr (by omega))
  · exact legalizePtrAdd_general V I Res Base Off (Or.inr hc) hZ
      (fun c' hc' => by rw [hc] at hc'; exact absurd hc' (by simp))
  · simp only [execInstrs, execInstr_PTRTOINT, execInstr_ADD, execInstr_INTTOPTR,
      Option.some_bind]
    refine ⟨_, rfl, ?_⟩
    simp (disch := omega) only [Env.set_eq, Env.set_ne, getType_old, getType_new_zero,
      getType_new, hTyR]
    simp [S16, P, LLT.getSizeInBits]

theorem legalizePtrAdd_const_spec_witness :
    (legalizePtrAdd (MachineIRBuilder.atInstr
        ⟨[P, P, S16], [⟨Opcode.G_CONSTANT, [.reg 2, .cimm 255]⟩]⟩)
        ⟨Opcode.G_PTR_ADD, [.reg 0, .reg 1, .reg 2]⟩).insts =
      [⟨Opcode.G_CONSTANT, [.reg 3, .cimm 255]⟩, ⟨Opcode.G_INDEX, [.reg 0, .reg 1, .reg 3]⟩] ∧
    ∃ env1, execInstrs ⟨[P, P, S16, S16, S16], [⟨Opcode.G_CONSTANT, [.reg 2, .cimm 255]⟩]⟩
        (envOf [0, 0xFFFE, 255])
        [⟨Opcode.G_PTRTOINT, [.reg 3, .reg 1]⟩, ⟨Opcode.G_ADD, [.reg 4, .reg 3, .reg 2]⟩,
         ⟨Opcode.G_INTTOPTR, [.reg 0, .reg 4]⟩] = some env1 ∧
      env1 0 = 0xFD := by
  obtain ⟨h1, -, env1, h2, h3⟩ := legalizePtrAdd_const_spec [P, P, S16]
    [⟨Opcode.G_CONSTANT, [.reg 2, .cimm 255]⟩] 0 1 2 (envOf [0, 0xFFFE, 255])
    (Or.inl (by decide)) (by decide) (by decide) (by decide) (by decide)
  obtain ⟨h4, -⟩ := (h1 255 (by decide) (by decide)).1 (by decide)
  exact ⟨by rw [h4]; rfl, env1, h2, h3.trans (by decide)⟩

/-! ## The order of the carry in a shift chain -/

theorem mem_shiftInsts (Opc : Opcode) (src : Nat → Nat) (c CIn N : Nat) (S : MachineInstr) :
    S ∈ shiftInsts Opc src c CIn N ↔ ∃ a, a < N ∧ S = shiftInst Opc src c CIn a := by
  simp only [shiftInsts, List.mem_map, List.mem_range]
  constructor
  · rintro ⟨a, ha, rfl⟩; exact ⟨a, ha, rfl⟩
  · rintro ⟨a, ha, rfl⟩; exact ⟨a, ha, rfl⟩

/-- The carry links of the sequence that `legalizeLshrShl` emits for `N` bytes,
when the `a`-th shift of the chain is on byte `p a` of the source. -/
theorem carryFromTo_chain (Opc : Opcode) (hOpc : Opc = Opcode.G_SHLE ∨ Opc = Opcode.G_LSHRE)
    (p : Nat → Nat) (b N c CIn Src : Nat) (Merge : MachineInstr)
    (hM : Merge.Opcode = Opcode.G_MERGE_VALUES)
    (hp : ∀ a, a < N → p a < N) (hCIn : CIn < c) (i j : Nat) :
    carryFromTo
      ([⟨Opcode.G_CONSTANT, [.reg CIn, .cimm 0]⟩,
        ⟨Opcode.G_UNMERGE_VALUES,
          (List.range' b N).map MachineOperand.reg ++ [.reg Src]⟩] ++
        shiftInsts Opc (fun a => b + p a) c CIn N ++ [Merge]) i j = true ↔
      ∃ a, a + 1 < N ∧ p a = i ∧ p (a + 1) = j := by
  have hOpc1 : Opc ≠ Opcode.G_UNMERGE_VALUES := by rcases hOpc with h | h <;> rw [h] <;> decide
  have hsw : ∀ a, (shiftInst Opc (fun a => b + p a) c CIn a).isShiftWithCarry = true := by
    intro a; rcases hOpc with h | h <;> simp [MachineInstr.isShiftWithCarry, shiftInst, h]
  have hMs : Merge.isShiftWithCarry = false := by
    simp [MachineInstr.isShiftWithCarry, hM]
  constructor
  · intro h
    simp only [carryFromTo, List.any_eq_true, Bool.and_eq_true, decide_eq_true_eq,
      beq_iff_eq] at h
    obtain ⟨U, hU, ⟨⟨⟨hUo, hi⟩, hj⟩, S, hS, ⟨hSs, hS2⟩, T, hT, ⟨hTs, hT2⟩, hT3⟩⟩ := h
    have hUeq : U = ⟨Opcode.G_UNMERGE_VALUES,
          (List.range' b N).map MachineOperand.reg ++ [.reg Src]⟩ := by
      simp only [List.mem_append, List.mem_cons, List.mem_singleton, List.not_mem_nil,
        or_false, mem_shiftInsts] at hU
      rcases hU with ((hU | hU) | ⟨a, -, hU⟩) | hU
      · rw [hU] at hUo; simp at hUo
      · exact hU
      · rw [hU] at hUo; exact absurd hUo (by simpa [shiftInst] using hOpc1)
      · rw [hU, hM] at hUo; exact absurd hUo (by decide)
    subst hUeq
    rw [getNumDefs_unmerge] at hi hj
    rw [getOperand_unmerge _ _ _ _ _ hi] at hS2
    rw [getOperand_unmerge _ _ _ _ _ hj] at hT2
    have hmemS : ∀ X : MachineInstr, X ∈ ([⟨Opcode.G_CONSTANT, [.reg CIn, .cimm 0]⟩,
        ⟨Opcode.G_UNMERGE_VALUES,
          (List.range' b N).map MachineOperand.reg ++ [.reg Src]⟩] ++
        shiftInsts Opc (fun a => b + p a) c CIn N ++ [Merge]) →
        X.isShiftWithCarry = true → ∃ a, a < N ∧ X = shiftInst Opc (fun a => b + p a) c CIn a := by
      intro X hX hXs
      simp only [List.mem_append, List.mem_cons, List.mem_singleton, List.not_mem_nil,
        or_false, mem_shiftInsts] at hX
      rcases hX with ((hX | hX) | hX) | hX
      · rw [hX] at hXs; simp [MachineInstr.isShiftWithCarry] at hXs
      · rw [hX] at hXs; simp [MachineInstr.isShiftWithCarry] at hXs
      · exact hX
      · rw [hX, hMs] at hXs; exact absurd hXs (by decide)
    obtain ⟨a, ha, rfl⟩ := hmemS S hS hSs
    obtain ⟨a', ha', rfl⟩ := hmemS T hT hTs
    simp only [shiftInst, MachineInstr.getOperand, List.getD_cons_succ, List.getD_cons_zero,
      MachineOperand.reg.injEq] at hS2 hT2 hT3
    have hS2n : (b + p a : Nat) = b + i := hS2
    have hT2n : (b + p a' : Nat) = b + j := hT2
    have hpa : p a = i := by omega
    have hpa' : p a' = j := by omega
    cases a' with
    | zero =>
      have hT3n : (CIn : Nat) = c + 2 * a + 1 := hT3
      omega
    | succ k =>
      have hT3n : (c + 2 * k + 1 : Nat) = c + 2 * a + 1 := hT3
      have hk : k = a := by omega
      subst hk
      exact ⟨k, ha', hpa, hpa'⟩
  · rintro ⟨a, ha, rfl, rfl⟩
    have h1 := hp a (by omega)
    have h2 := hp (a + 1) ha
    simp only [carryFromTo, List.any_eq_true, Bool.and_eq_true, decide_eq_true_eq,
      beq_iff_eq]
    refine ⟨⟨Opcode.G_UNMERGE_VALUES,
          (List.range' b N).map MachineOperand.reg ++ [.reg Src]⟩, by simp, ⟨⟨rfl, ?_⟩, ?_⟩,
      shiftInst Opc (fun a => b + p a) c CIn a, ?_, ⟨hsw a, ?_⟩,
      shiftInst Opc (fun a => b + p a) c CIn (a + 1), ?_, ⟨hsw (a + 1), ?_⟩, ?_⟩
    · rw [getNumDefs_unmerge]; exact h1
    · rw [getNumDefs_unmerge]; exact h2
    · simp only [List.mem_append, mem_shiftInsts]
      exact Or.inl (Or.inr ⟨a, by omega, rfl⟩)
    · rw [getOperand_unmerge _ _ _ _ _ h1]
      simp [shiftInst, MachineInstr.getOperand]
    · simp only [List.mem_append, mem_shiftInsts]
      exact Or.inl (Or.inr ⟨a + 1, ha, rfl⟩)
    · rw [getOperand_unmerge _ _ _ _ _ h2]
      simp [shiftInst, MachineInstr.getOperand]
    · simp [shiftInst, MachineInstr.getOperand, shiftCarry]

/-- C28 (amended): in the chain that `legalizeLshrShl` emits for a shift by one
bit over `N` bytes, at least two, the carry goes from each byte to the next
more significant one for a left shift, so from the least significant byte to
the most significant, and from each byte to the next less significant one for
a right shift, so from the most significant byte to the least significant; no
other carry is handed on. -/
theorem legalizeLshrShl_carry_spec (V : List LLT) (I : List MachineInstr)
    (Dst Src Amt N : Nat) (hN : 2 ≤ N)
    (hTyD : (MachineRegisterInfo.mk V I).getType Dst = LLT.scalar (8 * N))
    (hTyS : (MachineRegisterInfo.mk V I).getType Src = LLT.scalar (8 * N))
    (hAmt : getConstantVRegValWithLookThrough Amt ⟨V, I⟩ = some 1) :
    (∃ Out,
      legalizeLshrShl (MachineIRBuilder.atInstr ⟨V, I⟩)
        ⟨Opcode.G_SHL, [.reg Dst, .reg Src, .reg Amt]⟩ = Except.ok (Outcome.rewritten Out) ∧
      ∀ i j, carryFromTo Out.insts i j = true ↔ (j = i + 1 ∧ j < N)) ∧
    (∃ Out,
      legalizeLshrShl (MachineIRBuilder.atInstr ⟨V, I⟩)
        ⟨Opcode.G_LSHR, [.reg Dst, .reg Src, .reg Amt]⟩ = Except.ok (Outcome.rewritten Out) ∧
      ∀ i j, carryFromTo Out.insts i j = true ↔ (i = j + 1 ∧ i < N)) := by
  constructor
  · obtain ⟨Out, ho, h2, h3, h4, -⟩ :=
      legalizeLshrShl_SHL_insts V I Dst Src Amt N hN hTyD hTyS hAmt
    have hins : Out.insts = Out.B.Before := by
      simp [LegalizeResult.insts, h2, h3]
    refine ⟨Out, ho, ?_⟩
    intro i j
    rw [hins, h4]
    have key := carryFromTo_chain Opcode.G_SHLE (Or.inl rfl) (fun a => a) (V.length + 1) N
      (V.length + 1 + N) V.length Src
      ⟨Opcode.G_MERGE_VALUES,
        .reg Dst :: (shiftParts (V.length + 1 + N) N).map MachineOperand.reg⟩ rfl
      (fun a ha => ha) (by omega) i j
    rw [key]
    constructor
    · rintro ⟨a, ha, rfl, rfl⟩; exact ⟨rfl, ha⟩
    · rintro ⟨rfl, hj⟩; exact ⟨i, hj, rfl, rfl⟩
  · obtain ⟨Out, ho, h2, h3, h4, -⟩ :=
      legalizeLshrShl_LSHR_insts V I Dst Src Amt N hN hTyD hTyS hAmt
    have hins : Out.insts = Out.B.Before := by
      simp [LegalizeResult.insts, h2, h3]
    refine ⟨Out, ho, ?_⟩
    intro i j
    rw [hins, h4]
    have key := carryFromTo_chain Opcode.G_LSHRE (Or.inr rfl) (fun a => N - 1 - a)
      (V.length + 1) N (V.length + 1 + N) V.length Src
      ⟨Opcode.G_MERGE_VALUES,
        .reg Dst :: (shiftParts (V.length + 1 + N) N).reverse.map MachineOperand.reg⟩ rfl
      (fun a _ => by show N - 1 - a < N; omega) (by omega) i j
    rw [key]
    constructor
    · rintro ⟨a, ha, h1, h2⟩
      have h1n : N - 1 - a = i := h1
      have h2n : N - 1 - (a + 1) = j := h2
      omega
    · rintro ⟨rfl, hi⟩
      refine ⟨N - 1 - (j + 1), by omega, ?_, ?_⟩
      · show N - 1 - (N - 1 - (j + 1)) = j + 1; omega
      · show N - 1 - (N - 1 - (j + 1) + 1) = j; omega

theorem legalizeLshrShl_carry_spec_witness :
    (∃ Out,
      legalizeLshrShl (MachineIRBuilder.atInstr
          ⟨[S16, S16, S8], [⟨Opcode.G_CONSTANT, [.reg 2, .cimm 1]⟩]⟩)
        ⟨Opcode.G_SHL, [.reg 0, .reg 1, .reg 2]⟩ = Except.ok (Outcome.rewritten Out) ∧
      ∀ i j, carryFromTo Out.insts i j = true ↔ (j = i + 1 ∧ j < 2)) ∧
    (∃ Out,
      legalizeLshrShl (MachineIRBuilder.atInstr
          ⟨[S16, S16, S8], [⟨Opcode.G_CONSTANT, [.reg 2, .cimm 1]⟩]⟩)
        ⟨Opcode.G_LSHR, [.reg 0, .reg 1, .reg 2]⟩ = Except.ok (Outcome.rewritten Out) ∧
      ∀ i j, carryFromTo Out.insts i j = true ↔ (i = j + 1 ∧ i < 2)) :=
  legalizeLshrShl_carry_spec [S16, S16, S8] [⟨Opcode.G_CONSTANT, [.reg 2, .cimm 1]⟩] 0 1 2 2
    (by decide) (by decide) (by decide) (by decide)

/-- C28 as it is stated fails on the code: in what `legalizeLshrShl` emits for a
left shift of 16 bits by the constant 1 the carry goes from byte 0, the least
significant, to byte 1, the most significant, and for a right shift it goes
from byte 1 to byte 0. -/
theorem legalizeLshrShl_carry_counterexample :
    (∃ Out,
      legalizeLshrShl (MachineIRBuilder.atInstr
          ⟨[S16, S16, S8], [⟨Opcode.G_CONSTANT, [.reg 2, .cimm 1]⟩]⟩)
        ⟨Opcode.G_SHL, [.reg 0, .reg 1, .reg 2]⟩ = Except.ok (Outcome.rewritten Out) ∧
      carryFromTo Out.insts 0 1 = true ∧
      ¬ CarryOrderAsStated ⟨Opcode.G_SHL, [.reg 0, .reg 1, .reg 2]⟩ Out.insts) ∧
    (∃ Out,
      legalizeLshrShl (MachineIRBuilder.atInstr
          ⟨[S16, S16, S8], [⟨Opcode.G_CONSTANT, [.reg 2, .cimm 1]⟩]⟩)
        ⟨Opcode.G_LSHR, [.reg 0, .reg 1, .reg 2]⟩ = Except.ok (Outcome.rewritten Out) ∧
      carryFromTo Out.insts 1 0 = true ∧
      ¬ CarryOrderAsStated ⟨Opcode.G_LSHR, [.reg 0, .reg 1, .reg 2]⟩ Out.insts) := by
  constructor
  · refine ⟨_, rfl, by decide, fun h => ?_⟩
    exact absurd (h 0 1 (by decide)) (by decide)
  · refine ⟨_, rfl, by decide, fun h => ?_⟩
    exact absurd (h 1 0 (by decide)) (by decide)

/-! ## The NOT that stays in use -/

/-- C29: when `legalizeXor` takes a 1-bit exclusive or whose result `d` matches
as the NOT of `x`, the exclusive or is erased in every case. If, after the
loop over the users, which ends with the first user that it rewrites, an
instruction of the function still uses `d`, the routine builds the 1-bit
constants 0 and 1 and the select of `d` on `x` between them, the constant 0
for `x` true and the constant 1 for `x` false; executed,
`d` is 1 - `x` for both values of `x`, and no other register of the function
changes. If no instruction uses `d` any more, nothing is built. -/
theorem legalizeXor_select_spec (V : List LLT) (I : List MachineInstr)
    (Dst a b x : Nat) (Res : List MachineInstr)
    (hTy : (MachineRegisterInfo.mk V I).getType Dst = S1)
    (hx : x < V.length)
    (hm : mi_match_Not Dst ⟨V, I⟩ = some x)
    (hR : foldNotIntoUses Dst x V [] I = Except.ok Res) :
    ∃ Out, legalizeXor (MachineIRBuilder.atInstr ⟨V, I⟩)
        ⟨Opcode.G_XOR, [.reg Dst, .reg a, .reg b]⟩ = Except.ok (Outcome.rewritten Out) ∧
      Out.MI = none ∧
      (Res.any (fun U => U.usesRegister Dst) = false → Out.insts = []) ∧
      (Res.any (fun U => U.usesRegister Dst) = true →
        Out.insts =
          [⟨Opcode.G_CONSTANT, [.reg V.length, .cimm 0]⟩,
           ⟨Opcode.G_CONSTANT, [.reg (V.length + 1), .cimm 1]⟩,
           ⟨Opcode.G_SELECT, [.reg Dst, .reg x, .reg V.length, .reg (V.length + 1)]⟩] ∧
        ∀ env : Env, env x < 2 →
          ∃ env1, execInstrs Out.B.MRI env Out.insts = some env1 ∧
            env1 Dst = 1 - env x ∧
            ∀ r, r < V.length → r ≠ Dst → env1 r = env r) := by
  have hDlt : Dst < V.length := getType_eq_scalar_lt ⟨V, I⟩ _ _ hTy
  have hdead : isTriviallyDead ⟨Opcode.G_XOR, [.reg Dst, .reg a, .reg b]⟩ ⟨V, Res⟩ =
      !(Res.any (fun U => U.usesRegister Dst)) := by
    simp [isTriviallyDead, MachineInstr.getNumDefs]
  have hTy' : (MachineRegisterInfo.mk V I).getType
      (MachineInstr.getReg ⟨Opcode.G_XOR, [.reg Dst, .reg a, .reg b]⟩ 0) = S1 := hTy
  have hm' : mi_match_Not (MachineInstr.getReg ⟨Opcode.G_XOR, [.reg Dst, .reg a, .reg b]⟩ 0)
      ⟨V, I⟩ = some x := hm
  have hR' : foldNotIntoUses (MachineInstr.getReg ⟨Opcode.G_XOR, [.reg Dst, .reg a, .reg b]⟩ 0)
      x V [] I = Except.ok Res := hR
  cases hu : Res.any (fun U => U.usesRegister Dst) with
  | false =>
    rw [hu] at hdead
    refine ⟨{ B := { MRI := ⟨V, Res⟩, Before := [], After := [], PastMI := false }
              MI := none, Legalized := true }, ?_, rfl, fun _ => rfl, fun h => by simp at h⟩
    simp [legalizeXor, MachineIRBuilder.atInstr, hTy', hm', hR', hdead]
  | true =>
    rw [hu] at hdead
    refine ⟨{ B := { MRI := ⟨V ++ [S1, S1], Res⟩
                     Before := [⟨Opcode.G_CONSTANT, [.reg V.length, .cimm 0]⟩,
                       ⟨Opcode.G_CONSTANT, [.reg (V.length + 1), .cimm 1]⟩,
                       ⟨Opcode.G_SELECT, [.reg Dst, .reg x, .reg V.length,
                         .reg (V.length + 1)]⟩]
                     After := [], PastMI := false }
              MI := none, Legalized := true }, ?_, rfl, fun h => by simp at h,
      fun _ => ⟨rfl, ?_⟩⟩
    · simp only [legalizeXor, MachineIRBuilder.atInstr, hTy', hm', hR', hdead]
      simp [MachineIRBuilder.buildConstant, MachineIRBuilder.buildSelect,
        MachineIRBuilder.buildInstr, MachineIRBuilder.insert, DstOp.addDefs, DstOp.addDef,
        DstOp.getLLTTy, MachineRegisterInfo.createGenericVirtualRegister,
        MachineInstr.getReg, MachineInstr.getOperand, S1, LLT.getSizeInBits,
        constantBits_one_zero, constantBits_one_one]
    · intro env hxv
      simp only [LegalizeResult.insts, Option.toList, List.append_nil, execInstrs,
        execInstr_CONSTANT, execInstr_SELECT, Option.some_bind]
      refine ⟨_, rfl, ?_, ?_⟩
      · simp (disch := omega) only [Env.set_eq, Env.set_ne]
        split_ifs with h0
        · omega
        · omega
      · intro r hr hne
        simp (disch := omega) only [Env.set_ne]

theorem legalizeXor_select_spec_witness :
    (∃ Out, legalizeXor (MachineIRBuilder.atInstr
          ⟨[S1, S1, S1, S1], [⟨Opcode.G_CONSTANT, [.reg 2, .cimm 1]⟩,
            ⟨Opcode.G_XOR, [.reg 0, .reg 1, .reg 2]⟩,
            ⟨Opcode.COPY, [.reg 3, .reg 0]⟩]⟩)
        ⟨Opcode.G_XOR, [.reg 0, .reg 1, .reg 2]⟩ = Except.ok (Outcome.rewritten Out) ∧
      Out.MI = none ∧
      Out.insts =
        [⟨Opcode.G_CONSTANT, [.reg 4, .cimm 0]⟩,
         ⟨Opcode.G_CONSTANT, [.reg 5, .cimm 1]⟩,
         ⟨Opcode.G_SELECT, [.reg 0, .reg 1, .reg 4, .reg 5]⟩] ∧
      ∃ env1, execInstrs Out.B.MRI (envOf [0, 1, 1, 0]) Out.insts = some env1 ∧
        env1 0 = 0) ∧
    (∃ Out, legalizeXor (MachineIRBuilder.atInstr
          ⟨[S1, S1, S1], [⟨Opcode.G_CONSTANT, [.reg 2, .cimm 1]⟩,
            ⟨Opcode.G_XOR, [.reg 0, .reg 1, .reg 2]⟩,
            ⟨Opcode.G_BRCOND_IMM, [.reg 0, .mbb 7, .imm 1]⟩,
            ⟨Opcode.G_BRCOND_IMM, [.reg 0, .mbb 8, .imm 0]⟩]⟩)
        ⟨Opcode.G_XOR, [.reg 0, .reg 1, .reg 2]⟩ = Except.ok (Outcome.rewritten Out) ∧
      Out.MI = none ∧
      Out.insts =
        [⟨Opcode.G_CONSTANT, [.reg 3, .cimm 0]⟩,
         ⟨Opcode.G_CONSTANT, [.reg 4, .cimm 1]⟩,
         ⟨Opcode.G_SELECT, [.reg 0, .reg 1, .reg 3, .reg 4]⟩] ∧
      ∃ env1, execInstrs Out.B.MRI (envOf [0, 0, 1]) Out.insts = some env1 ∧
        env1 0 = 1) ∧
    (∃ Out, legalizeXor (MachineIRBuilder.atInstr
          ⟨[S1, S1, S1], [⟨Opcode.G_CONSTANT, [.reg 2, .cimm 1]⟩,
            ⟨Opcode.G_XOR, [.reg 0, .reg 1, .reg 2]⟩,
            ⟨Opcode.G_BRCOND_IMM, [.reg 0, .mbb 7, .imm 1]⟩]⟩)
        ⟨Opcode.G_XOR, [.reg 0, .reg 1, .reg 2]⟩ = Except.ok (Outcome.rewritten Out) ∧
      Out.MI = none ∧ Out.insts = []) := by
  refine ⟨?_, ?_, ?_⟩
  · obtain ⟨Out, h1, h2, -, h3⟩ := legalizeXor_select_spec [S1, S1, S1, S1]
      [⟨Opcode.G_CONSTANT, [.reg 2, .cimm 1]⟩, ⟨Opcode.G_XOR, [.reg 0, .reg 1, .reg 2]⟩,
        ⟨Opcode.COPY, [.reg 3, .reg 0]⟩] 0 1 2 1
      [⟨Opcode.G_CONSTANT, [.reg 2, .cimm 1]⟩, ⟨Opcode.G_XOR, [.reg 0, .reg 1, .reg 2]⟩,
        ⟨Opcode.COPY, [.reg 3, .reg 0]⟩]
      (by decide) (by decide) (by decide) rfl
    obtain ⟨h4, h5⟩ := h3 (by decide)
    obtain ⟨env1, h6, h7, -⟩ := h5 (envOf [0, 1, 1, 0]) (by decide)
    exact ⟨Out, h1, h2, h4, env1, h6, h7.trans (by decide)⟩
  · obtain ⟨Out, h1, h2, -, h3⟩ := legalizeXor_select_spec [S1, S1, S1]
      [⟨Opcode.G_CONSTANT, [.reg 2, .cimm 1]⟩, ⟨Opcode.G_XOR, [.reg 0, .reg 1, .reg 2]⟩,
        ⟨Opcode.G_BRCOND_IMM, [.reg 0, .mbb 7, .imm 1]⟩,
        ⟨Opcode.G_BRCOND_IMM, [.reg 0, .mbb 8, .imm 0]⟩] 0 1 2 1
      [⟨Opcode.G_CONSTANT, [.reg 2, .cimm 1]⟩, ⟨Opcode.G_XOR, [.reg 0, .reg 1, .reg 2]⟩,
        ⟨Opcode.G_BRCOND_IMM, [.reg 1, .mbb 7, .imm 0]⟩,
        ⟨Opcode.G_BRCOND_IMM, [.reg 0, .mbb 8, .imm 0]⟩]
      (by decide) (by decide) (by decide) rfl
    obtain ⟨h4, h5⟩ := h3 (by decide)
    obtain ⟨env1, h6, h7, -⟩ := h5 (envOf [0, 0, 1]) (by decide)
    exact ⟨Out, h1, h2, h4, env1, h6, h7.trans (by decide)⟩
  · obtain ⟨Out, h1, h2, h3, -⟩ := legalizeXor_select_spec [S1, S1, S1]
      [⟨Opcode.G_CONSTANT, [.reg 2, .cimm 1]⟩, ⟨Opcode.G_XOR, [.reg 0, .reg 1, .reg 2]⟩,
        ⟨Opcode.G_BRCOND_IMM, [.reg 0, .mbb 7, .imm 1]⟩] 0 1 2 1
      [⟨Opcode.G_CONSTANT, [.reg 2, .cimm 1]⟩, ⟨Opcode.G_XOR, [.reg 0, .reg 1, .reg 2]⟩,
        ⟨Opcode.G_BRCOND_IMM, [.reg 1, .mbb 7, .imm 0]⟩]
      (by decide) (by decide) (by decide) rfl
    exact ⟨Out, h1, h2, h3 (by decide)⟩

/-! ## The measure of a comparison -/

/-- The order on comparisons is well founded. -/
theorem icmpLt_wf : WellFounded icmpLt := by
  have hwf : WellFounded (InvImage (Prod.Lex (· < ·) (Prod.Lex (· < ·) (· < ·)))
      (fun x : LLT × Predicate =>
        ((if x.1.isPointer then 1 else 0 : Nat), (x.1.getSizeInBytes, predicateRank x.2)))) :=
    InvImage.wf _ (WellFounded.prod_lex Nat.lt_wfRel.wf (WellFounded.prod_lex Nat.lt_wfRel.wf Nat.lt_wfRel.wf))
  refine Subrelation.wf ?_ hwf
  intro x y h
  obtain ⟨a, p⟩ := x
  obtain ⟨b, q⟩ := y
  simp only [InvImage]
  rcases h with ⟨ha, hb⟩ | ⟨hab, hr⟩
  · have hap : a.isPointer = false := by cases a <;> simp_all [LLT.isScalar, LLT.isPointer]
    rcases hb with hb | ⟨hb, hlt⟩
    · apply Prod.Lex.left
      simp [hap, hb]
    · have hbp : b.isPointer = false := by cases b <;> simp_all [LLT.isScalar, LLT.isPointer]
      simp only [hap, hbp]
      exact Prod.Lex.right _ (Prod.Lex.left _ _ hlt)
  · simp only at hab hr
    subst hab
    exact Prod.Lex.right _ (Prod.Lex.right _ hr)

theorem getType_append_old (V Tys : List LLT) (I : List MachineInstr) (r : Nat)
    (h : r < V.length) :
    (MachineRegisterInfo.mk (V ++ Tys) I).getType r = (MachineRegisterInfo.mk V I).getType r := by
  simp [MachineRegisterInfo.getType, List.getD_eq_getElem?_getD, List.getElem?_append_left h]

theorem getType_lt_of_ne_invalid (V : List LLT) (I : List MachineInstr) (r : Nat)
    (h : (MachineRegisterInfo.mk V I).getType r ≠ LLT.invalid) : r < V.length := by
  by_contra hn
  apply h
  simp [MachineRegisterInfo.getType, List.getD_eq_getElem?_getD,
    List.getElem?_eq_none (Nat.le_of_not_lt hn)]

/-- What the negation case of `legalizeICmp` leaves: the comparison in place
with the inverse predicate on the same operands, and no other comparison. -/
theorem legalizeICmp_negate_shape (V : List LLT) (I : List MachineInstr) (Dst LHS RHS : Nat)
    (p : Predicate)
    (hp : p = Predicate.ICMP_NE ∨ p = Predicate.ICMP_ULT ∨ p = Predicate.ICMP_SGE) :
    ∃ R Tys, legalizeICmp (MachineIRBuilder.atInstr ⟨V, I⟩) (mkICmp p Dst LHS RHS) =
        Except.ok R ∧
      R.MI = some (mkICmp (CmpInst.getInversePredicate p) V.length LHS RHS) ∧
      R.B.MRI = ⟨V ++ Tys, I⟩ ∧
      ∀ C, C ∈ R.B.Before ++ R.B.After → C.Opcode ≠ Opcode.G_ICMP := by
  rcases hp with rfl | rfl | rfl <;>
  · refine ⟨_, [S1, (MachineRegisterInfo.mk (V ++ [S1]) I).getType Dst], rfl, ?_, ?_, ?_⟩
    · simp [negateInverseComparison, mkICmp, MachineInstr.setReg, MachineInstr.setPredicate,
        MachineInstr.getPredicate, MachineInstr.getOperand, MachineInstr.getReg,
        MachineIRBuilder.atInstr, MachineRegisterInfo.createGenericVirtualRegister,
        CmpInst.getInversePredicate]
    · simp [negateInverseComparison, mkICmp, MachineInstr.setReg, MachineInstr.setPredicate,
        MachineInstr.getPredicate, MachineInstr.getOperand, MachineInstr.getReg,
        MachineIRBuilder.atInstr, MachineRegisterInfo.createGenericVirtualRegister,
        MachineIRBuilder.buildNot, MachineIRBuilder.buildConstant, MachineIRBuilder.buildInstr,
        MachineIRBuilder.insert, MachineIRBuilder.setInsertPtNext, DstOp.addDefs, DstOp.addDef,
        DstOp.getLLTTy, S1]
    · simp [negateInverseComparison, mkICmp, MachineInstr.setReg, MachineInstr.setPredicate,
        MachineInstr.getPredicate, MachineInstr.getOperand, MachineInstr.getReg,
        MachineIRBuilder.atInstr, MachineRegisterInfo.createGenericVirtualRegister,
        MachineIRBuilder.buildNot, MachineIRBuilder.buildConstant, MachineIRBuilder.buildInstr,
        MachineIRBuilder.insert, MachineIRBuilder.setInsertPtNext, DstOp.addDefs, DstOp.addDef,
        DstOp.getLLTTy]

/-- What the pointer case of `legalizeICmp` leaves: the comparison in place on
two fresh 16-bit integers, the casts of the operands. -/
theorem legalizeICmp_pointer_shape (V : List LLT) (I : List MachineInstr) (Dst LHS RHS : Nat)
    (p : Predicate)
    (hp : p = Predicate.ICMP_EQ ∨ p = Predicate.ICMP_UGE ∨ p = Predicate.ICMP_SLT)
    (hTy : ((MachineRegisterInfo.mk V I).getType LHS).isPointer = true) :
    legalizeICmp (MachineIRBuilder.atInstr ⟨V, I⟩) (mkICmp p Dst LHS RHS) =
      Except.ok
        { B := { MRI := ⟨V ++ [S16, S16], I⟩
                 Before := [⟨Opcode.G_PTRTOINT, [.reg V.length, .reg LHS]⟩,
                   ⟨Opcode.G_PTRTOINT, [.reg (V.length + 1), .reg RHS]⟩]
                 After := []
                 PastMI := false }
          MI := some (mkICmp p Dst V.length (V.length + 1))
          Legalized := true } := by
  rcases hp with rfl | rfl | rfl <;>
  simp [legalizeICmp, mkICmp, MachineIRBuilder.atInstr, MachineInstr.getPredicate,
    MachineIRBuilder.buildInstr, MachineIRBuilder.insert, DstOp.addDefs, DstOp.addDef,
    MachineRegisterInfo.createGenericVirtualRegister, MachineInstr.getReg,
    MachineInstr.getOperand, MachineInstr.setReg, hTy]

theorem getSizeInBytes_scalar (N : Nat) : (LLT.scalar (8 * N)).getSizeInBytes = N := by
  simp only [LLT.getSizeInBytes, LLT.getSizeInBits]
  omega

theorem chainInsts_not_icmp (bL bR c CIn End : Nat) :
    ∀ MI, MI ∈ chainInsts bL bR c CIn End → MI.Opcode ≠ Opcode.G_ICMP := by
  intro MI hMI
  simp only [chainInsts, List.mem_map, List.mem_range] at hMI
  obtain ⟨i, -, rfl⟩ := hMI
  simp [chainInst]

/-- Every predicate reaches rank 0 after at most two rewrites in place. -/
theorem legalizeICmp_two_rewrites (MRI : MachineRegisterInfo) (Dst LHS RHS : Nat)
    (p : Predicate) :
    predicateRank p = 0 ∨
    ∃ R1 MI1, legalizeICmp (MachineIRBuilder.atInstr MRI) (mkICmp p Dst LHS RHS) =
        Except.ok R1 ∧ R1.MI = some MI1 ∧
      (predicateRank (MI1.getPredicate 1) = 0 ∨
        ∃ R2 MI2, legalizeICmp (MachineIRBuilder.atInstr R1.B.MRI) MI1 = Except.ok R2 ∧
          R2.MI = some MI2 ∧ predicateRank (MI2.getPredicate 1) = 0) := by
  cases p
  case ICMP_EQ => exact Or.inl rfl
  case ICMP_UGE => exact Or.inl rfl
  case ICMP_SLT => exact Or.inl rfl
  case ICMP_NE => exact Or.inr ⟨_, _, rfl, rfl, Or.inl rfl⟩
  case ICMP_ULT => exact Or.inr ⟨_, _, rfl, rfl, Or.inl rfl⟩
  case ICMP_SGE => exact Or.inr ⟨_, _, rfl, rfl, Or.inl rfl⟩
  case ICMP_ULE => exact Or.inr ⟨_, _, rfl, rfl, Or.inl rfl⟩
  case ICMP_SGT => exact Or.inr ⟨_, _, rfl, rfl, Or.inl rfl⟩
  case ICMP_UGT => exact Or.inr ⟨_, _, rfl, rfl, Or.inr ⟨_, _, rfl, rfl, rfl⟩⟩
  case ICMP_SLE => exact Or.inr ⟨_, _, rfl, rfl, Or.inr ⟨_, _, rfl, rfl, rfl⟩⟩

theorem legalizeICmp_decreases_negate (V : List LLT) (I : List MachineInstr)
    (Dst LHS RHS : Nat) (p : Predicate) (Ty : LLT)
    (hp : p = Predicate.ICMP_NE ∨ p = Predicate.ICMP_ULT ∨ p = Predicate.ICMP_SGE)
    (hTyL : (MachineRegisterInfo.mk V I).getType LHS = Ty) (hL : LHS < V.length) :
    ∃ R, legalizeICmp (MachineIRBuilder.atInstr ⟨V, I⟩) (mkICmp p Dst LHS RHS) = Except.ok R ∧
      ∀ C, C ∈ R.insts → C.Opcode = Opcode.G_ICMP → icmpLt (icmpKey R.B.MRI C) (Ty, p) := by
  obtain ⟨R, Tys, h1, h2, h3, h4⟩ := legalizeICmp_negate_shape V I Dst LHS RHS p hp
  refine ⟨R, h1, ?_⟩
  intro C hC hop
  simp only [LegalizeResult.insts, h2, Option.toList, List.mem_append, List.mem_singleton] at hC
  rcases hC with (hC | hC) | hC
  · exact absurd hop (h4 C (List.mem_append_left _ hC))
  · subst hC
    right
    simp only [icmpKey, mkICmp, getReg_cons_succ, getReg_cons_zero, h3,
      getType_append_old V Tys I LHS hL, hTyL, MachineInstr.getPredicate,
      MachineInstr.getOperand, List.getD_cons_succ, List.getD_cons_zero, true_and]
    rcases hp with rfl | rfl | rfl <;> decide
  · exact absurd hop (h4 C (List.mem_append_right _ hC))

theorem legalizeICmp_decreases_swap (MRI : MachineRegisterInfo)
    (Dst LHS RHS : Nat) (p : Predicate) (Ty : LLT)
    (hp : p = Predicate.ICMP_ULE ∨ p = Predicate.ICMP_UGT ∨ p = Predicate.ICMP_SLE ∨
      p = Predicate.ICMP_SGT)
    (hTyR : MRI.getType RHS = Ty) :
    ∃ R, legalizeICmp (MachineIRBuilder.atInstr MRI) (mkICmp p Dst LHS RHS) = Except.ok R ∧
      ∀ C, C ∈ R.insts → C.Opcode = Opcode.G_ICMP → icmpLt (icmpKey R.B.MRI C) (Ty, p) := by
  rcases hp with rfl | rfl | rfl | rfl <;>
  · refine ⟨_, rfl, ?_⟩
    intro C hC hop
    simp only [swapComparison, LegalizeResult.insts, MachineIRBuilder.atInstr, Option.toList,
      List.nil_append, List.append_nil, List.mem_singleton] at hC
    subst hC
    right
    refine ⟨?_, ?_⟩
    · simpa [icmpKey, mkICmp, MachineInstr.setPredicate, MachineInstr.setReg,
        MachineInstr.getReg, MachineInstr.getOperand] using hTyR
    · simp [icmpKey, mkICmp, MachineInstr.setPredicate, MachineInstr.setReg,
        MachineInstr.getPredicate, MachineInstr.getOperand, MachineInstr.getReg,
        CmpInst.getSwappedPredicate, predicateRank]

theorem legalizeICmp_decreases_pointer (V : List LLT) (I : List MachineInstr)
    (Dst LHS RHS : Nat) (p : Predicate) (Ty : LLT)
    (hp : p = Predicate.ICMP_EQ ∨ p = Predicate.ICMP_UGE ∨ p = Predicate.ICMP_SLT)
    (hTyL : (MachineRegisterInfo.mk V I).getType LHS = Ty) (hTy : Ty.isPointer = true) :
    ∃ R, legalizeICmp (MachineIRBuilder.atInstr ⟨V, I⟩) (mkICmp p Dst LHS RHS) = Except.ok R ∧
      ∀ C, C ∈ R.insts → C.Opcode = Opcode.G_ICMP → icmpLt (icmpKey R.B.MRI C) (Ty, p) := by
  refine ⟨_, legalizeICmp_pointer_shape V I Dst LHS RHS p hp (by rw [hTyL]; exact hTy), ?_⟩
  intro C hC hop
  simp only [LegalizeResult.insts, Option.toList, List.append_nil, List.mem_append,
    List.mem_cons, List.mem_singleton, List.not_mem_nil, or_false] at hC
  rcases hC with (rfl | rfl) | rfl
  · simp at hop
  · simp at hop
  · left
    simp only [icmpKey, mkICmp, getReg_cons_succ, getReg_cons_zero]
    rw [getType_new_zero]
    exact ⟨rfl, Or.inl hTy⟩

theorem legalizeICmp_decreases_scalar (V : List LLT) (I : List MachineInstr)
    (Dst LHS RHS N : Nat) (p : Predicate) (hN : 1 ≤ N)
    (hp : p = Predicate.ICMP_EQ ∨ p = Predicate.ICMP_UGE ∨ p = Predicate.ICMP_SLT)
    (hTyL : (MachineRegisterInfo.mk V I).getType LHS = LLT.scalar (8 * N))
    (hTyR : (MachineRegisterInfo.mk V I).getType RHS = LLT.scalar (8 * N)) :
    ∃ R, legalizeICmp (MachineIRBuilder.atInstr ⟨V, I⟩) (mkICmp p Dst LHS RHS) = Except.ok R ∧
      ∀ C, C ∈ R.insts → C.Opcode = Opcode.G_ICMP →
        icmpLt (icmpKey R.B.MRI C) (LLT.scalar (8 * N), p) := by
  by_cases h1 : N = 1
  · subst h1
    have hS8 : (MachineRegisterInfo.mk V I).getType LHS = S8 := hTyL
    rcases hp with rfl | rfl | rfl
    · refine ⟨_, legalizeICmp_S8_flag_insts V I Dst LHS RHS hS8 (Predicate.ICMP_EQ, 5)
        (by simp), ?_⟩
      intro C hC hop
      simp [LegalizeResult.insts] at hC
      rcases hC with rfl | rfl | rfl <;> simp at hop
    · refine ⟨_, legalizeICmp_S8_flag_insts V I Dst LHS RHS hS8 (Predicate.ICMP_UGE, 2)
        (by simp), ?_⟩
      intro C hC hop
      simp [LegalizeResult.insts] at hC
      rcases hC with rfl | rfl | rfl <;> simp at hop
    · have h := legalizeICmp_S8_SLT_insts V I Dst LHS RHS hS8
      split_ifs at h
      · refine ⟨_, h, ?_⟩
        intro C hC hop
        simp [LegalizeResult.insts] at hC
        rcases hC with rfl | rfl | rfl <;> simp at hop
      · refine ⟨_, h, ?_⟩
        intro C hC hop
        simp [LegalizeResult.insts] at hC
        rcases hC with rfl | rfl | rfl | rfl | rfl | rfl | rfl | rfl <;> simp at hop
  · have hN2 : 2 ≤ N := by omega
    have hsplit : ∀ q, q = Predicate.ICMP_EQ ∨ q = Predicate.ICMP_UGE →
        ∃ R, legalizeICmp (MachineIRBuilder.atInstr ⟨V, I⟩) (mkICmp q Dst LHS RHS) =
            Except.ok R ∧
          ∀ C, C ∈ R.insts → C.Opcode = Opcode.G_ICMP →
            icmpLt (icmpKey R.B.MRI C) (LLT.scalar (8 * N), q) := by
      intro q hq
      refine ⟨_, legalizeICmp_bytes_split_insts V I Dst LHS RHS N hN2 hTyL hTyR q hq, ?_⟩
      intro C hC hop
      have hbyte : (MachineRegisterInfo.mk
          (V ++ (splitTypes N ++ (splitTypes N ++ [S1, S1, S1]))) I).getType
            (V.length + (N - 1)) = S8 := getType_split_byte V I N (N - 1) _ (by omega)
      have hrest : (MachineRegisterInfo.mk
          (V ++ (splitTypes N ++ (splitTypes N ++ [S1, S1, S1]))) I).getType
            (splitRest V.length N) = LLT.scalar (8 * (N - 1)) := getType_split_rest V I N _ hN2
      have hlt8 : typeLt S8 (LLT.scalar (8 * N)) := by
        refine ⟨rfl, Or.inr ⟨rfl, ?_⟩⟩
        rw [getSizeInBytes_scalar]
        show (8 + 7) / 8 < N
        omega
      have hltr : typeLt (LLT.scalar (8 * (N - 1))) (LLT.scalar (8 * N)) := by
        refine ⟨rfl, Or.inr ⟨rfl, ?_⟩⟩
        rw [getSizeInBytes_scalar, getSizeInBytes_scalar]
        omega
      simp only [LegalizeResult.insts, Option.toList, List.append_nil, List.mem_append,
        List.mem_cons, List.mem_singleton, List.not_mem_nil, or_false] at hC
      rcases hC with hC | hC | hC | hC | hC | hC
      · exact absurd hop (splitInsts_not_icmp _ _ _ C hC)
      · exact absurd hop (splitInsts_not_icmp _ _ _ C hC)
      · subst hC
        left
        simp only [icmpKey, mkICmp, getReg_cons_succ, getReg_cons_zero, hbyte]
        exact hlt8
      · split_ifs at hC
        · subst hC; simp at hop
        · subst hC
          left
          simp only [icmpKey, mkICmp, getReg_cons_succ, getReg_cons_zero, hbyte]
          exact hlt8
      · subst hC
        left
        simp only [icmpKey, mkICmp, getReg_cons_succ, getReg_cons_zero, hrest]
        exact hltr
      · subst hC; simp at hop
    rcases hp with rfl | rfl | rfl
    · exact hsplit _ (Or.inl rfl)
    · exact hsplit _ (Or.inr rfl)
    · obtain ⟨Out, h1, h2, h3, h4, -⟩ :=
        legalizeICmp_bytes_SLT_insts V I Dst LHS RHS N hN2 hTyL hTyR
      refine ⟨Out, h1, ?_⟩
      intro C hC hop
      simp only [LegalizeResult.insts, h2, h3, h4, Option.toList, List.append_nil,
        List.mem_append, List.mem_cons, List.mem_singleton, List.not_mem_nil, or_false] at hC
      rcases hC with ((hC | hC | hC) | hC) | hC
      · subst hC; simp at hop
      · subst hC; simp at hop
      · subst hC; simp at hop
      · exact absurd hop (chainInsts_not_icmp _ _ _ _ _ C hC)
      · split_ifs at hC
        · simp only [sltZeroInsts, List.mem_cons, List.mem_singleton, List.not_mem_nil,
            or_false] at hC
          rcases hC with rfl | rfl <;> simp at hop
        · simp only [sltFinalInsts, List.mem_cons, List.mem_singleton, List.not_mem_nil,
            or_false] at hC
          rcases hC with rfl | rfl | rfl | rfl | rfl | rfl | rfl <;> simp at hop

/-- C30: `legalizeICmp` returns for every predicate on operands of one type, a
pointer or an integer of whole bytes, and every comparison among the
instructions it leaves, in place or built, is strictly smaller than the
comparison it was given in the lexicographic order on the operand type (an
integer below a pointer, integers by byte count) and the rank of the predicate
(0 for EQ, UGE, SLT, 1 for NE, ULT, SGE, ULE, SGT, 2 for UGT, SLE). The order
is well founded, so repeated legalization of comparisons terminates, and
every predicate is EQ, UGE or SLT after at most two rewrites in place. -/
theorem legalizeICmp_measure_spec (V : List LLT) (I : List MachineInstr)
    (Dst LHS RHS : Nat) (p : Predicate) (Ty : LLT)
    (hTyL : (MachineRegisterInfo.mk V I).getType LHS = Ty)
    (hTyR : (MachineRegisterInfo.mk V I).getType RHS = Ty)
    (hTy : Ty.isPointer = true ∨ ∃ N, 1 ≤ N ∧ Ty = LLT.scalar (8 * N)) :
    (∃ R, legalizeICmp (MachineIRBuilder.atInstr ⟨V, I⟩) (mkICmp p Dst LHS RHS) =
        Except.ok R ∧
      ∀ C, C ∈ R.insts → C.Opcode = Opcode.G_ICMP →
        icmpLt (icmpKey R.B.MRI C) (icmpKey ⟨V, I⟩ (mkICmp p Dst LHS RHS))) ∧
    WellFounded icmpLt ∧
    (∀ q, predicateRank q = 0 ↔
      q = Predicate.ICMP_EQ ∨ q = Predicate.ICMP_UGE ∨ q = Predicate.ICMP_SLT) ∧
    (predicateRank p = 0 ∨
      ∃ R1 MI1, legalizeICmp (MachineIRBuilder.atInstr ⟨V, I⟩) (mkICmp p Dst LHS RHS) =
          Except.ok R1 ∧ R1.MI = some MI1 ∧
        (predicateRank (MI1.getPredicate 1) = 0 ∨
          ∃ R2 MI2, legalizeICmp (MachineIRBuilder.atInstr R1.B.MRI) MI1 = Except.ok R2 ∧
            R2.MI = some MI2 ∧ predicateRank (MI2.getPredicate 1) = 0)) := by
  refine ⟨?_, icmpLt_wf, ?_, legalizeICmp_two_rewrites ⟨V, I⟩ Dst LHS RHS p⟩
  · have hkey : icmpKey ⟨V, I⟩ (mkICmp p Dst LHS RHS) = (Ty, p) := by
      simp only [icmpKey, mkICmp, getReg_cons_succ, getReg_cons_zero, hTyL,
        MachineInstr.getPredicate, MachineInstr.getOperand, List.getD_cons_succ,
        List.getD_cons_zero]
    rw [hkey]
    have hL : LHS < V.length := by
      apply getType_lt_of_ne_invalid V I
      rw [hTyL]
      rcases hTy with h | ⟨N, -, rfl⟩
      · intro h0; rw [h0] at h; simp [LLT.isPointer] at h
      · simp
    have hcls : (p = Predicate.ICMP_NE ∨ p = Predicate.ICMP_ULT ∨ p = Predicate.ICMP_SGE) ∨
        (p = Predicate.ICMP_ULE ∨ p = Predicate.ICMP_UGT ∨ p = Predicate.ICMP_SLE ∨
          p = Predicate.ICMP_SGT) ∨
        (p = Predicate.ICMP_EQ ∨ p = Predicate.ICMP_UGE ∨ p = Predicate.ICMP_SLT) := by
      cases p <;> simp
    rcases hcls with hp | hp | hp
    · exact legalizeICmp_decreases_negate V I Dst LHS RHS p Ty hp hTyL hL
    · exact legalizeICmp_decreases_swap ⟨V, I⟩ Dst LHS RHS p Ty hp hTyR
    · rcases hTy with h | ⟨N, hN, rfl⟩
      · exact legalizeICmp_decreases_pointer V I Dst LHS RHS p Ty hp hTyL h
      · exact legalizeICmp_decreases_scalar V I Dst LHS RHS N p hN hp hTyL hTyR
  · intro q
    cases q <;> simp [predicateRank]

theorem legalizeICmp_measure_spec_witness :
    (∃ R, legalizeICmp (MachineIRBuilder.atInstr ⟨[S1, S16, S16], []⟩)
        (mkICmp Predicate.ICMP_UGT 0 1 2) = Except.ok R ∧
      ∀ C, C ∈ R.insts → C.Opcode = Opcode.G_ICMP →
        icmpLt (icmpKey R.B.MRI C)
          (icmpKey ⟨[S1, S16, S16], []⟩ (mkICmp Predicate.ICMP_UGT 0 1 2))) ∧
    WellFounded icmpLt ∧
    (∀ q, predicateRank q = 0 ↔
      q = Predicate.ICMP_EQ ∨ q = Predicate.ICMP_UGE ∨ q = Predicate.ICMP_SLT) ∧
    (predicateRank Predicate.ICMP_UGT = 0 ∨
      ∃ R1 MI1, legalizeICmp (MachineIRBuilder.atInstr ⟨[S1, S16, S16], []⟩)
          (mkICmp Predicate.ICMP_UGT 0 1 2) = Except.ok R1 ∧ R1.MI = some MI1 ∧
        (predicateRank (MI1.getPredicate 1) = 0 ∨
          ∃ R2 MI2, legalizeICmp (MachineIRBuilder.atInstr R1.B.MRI) MI1 = Except.ok R2 ∧
            R2.MI = some MI2 ∧ predicateRank (MI2.getPredicate 1) = 0)) :=
  legalizeICmp_measure_spec [S1, S16, S16] [] 0 1 2 Predicate.ICMP_UGT S16 (by decide)
    (by decide) (Or.inr ⟨2, by decide, rfl⟩)

/-! ## The legality table -/

/-- The facts about the table that are checked opcode by opcode: the rules with
the action `Legal` list type tuples, the types of the tuples that the table
marks legal, and the opcodes for which a 16-bit scalar is among them. -/
theorem MOSLegalizerInfo_legal (Opc : Opcode) :
    legalRulesListTuples [] (MOSLegalizerInfo Opc).Rules = true ∧
    ∀ T ∈ legalTuples Opc, (∀ Ty ∈ T, Ty ∈ [S1, S8, S16, P]) ∧
      (S16 ∈ T → Opc ∈ [Opcode.G_CONSTANT, Opcode.G_ANYEXT, Opcode.G_TRUNC, Opcode.G_INTTOPTR,
        Opcode.G_PTRTOINT, Opcode.G_MERGE_VALUES, Opcode.G_UNMERGE_VALUES]) := by
  cases Opc <;> decide

theorem getD_of_prefix (T Q : List LLT) (h : T <+: Q) (i : Nat) (hi : i < T.length) :
    Q.getD i LLT.invalid = T.getD i LLT.invalid := by
  obtain ⟨S, rfl⟩ := h
  simp [List.getD_eq_getElem?_getD, List.getElem?_append_left hi]

theorem eval_of_initial (Pd : LegalityPredicate) (T Q : List LLT) (h : T <+: Q)
    (hu : Pd.usesBelow T.length = true) : Pd.eval T = Pd.eval Q := by
  induction Pd with
  | always => rfl
  | typeInSet i Ts =>
    simp only [LegalityPredicate.usesBelow, decide_eq_true_eq] at hu
    simp only [LegalityPredicate.eval, getD_of_prefix T Q h i hu]
  | typePairInSet i j Ts =>
    simp only [LegalityPredicate.usesBelow, Bool.and_eq_true, decide_eq_true_eq] at hu
    simp only [LegalityPredicate.eval, getD_of_prefix T Q h i hu.1, getD_of_prefix T Q h j hu.2]
  | typeIs i Ty =>
    simp only [LegalityPredicate.usesBelow, decide_eq_true_eq] at hu
    simp only [LegalityPredicate.eval, getD_of_prefix T Q h i hu]
  | scalarNarrowerThan i n =>
    simp only [LegalityPredicate.usesBelow, decide_eq_true_eq] at hu
    simp only [LegalityPredicate.eval, getD_of_prefix T Q h i hu]
  | scalarWiderThan i n =>
    simp only [LegalityPredicate.usesBelow, decide_eq_true_eq] at hu
    simp only [LegalityPredicate.eval, getD_of_prefix T Q h i hu]
  | sizeNotPow2 i =>
    simp only [LegalityPredicate.usesBelow, decide_eq_true_eq] at hu
    simp only [LegalityPredicate.eval, getD_of_prefix T Q h i hu]
  | notByteSized i =>
    simp only [LegalityPredicate.usesBelow, decide_eq_true_eq] at hu
    simp only [LegalityPredicate.eval, getD_of_prefix T Q h i hu]
  | all P0 P1 ih0 ih1 =>
    simp only [LegalityPredicate.usesBelow, Bool.and_eq_true] at hu
    simp only [LegalityPredicate.eval, ih0 hu.1, ih1 hu.2]

theorem cons_prefix_of_getD (Q : List LLT) (Ty : LLT) (hTy : Ty ≠ LLT.invalid)
    (h : Q.getD 0 LLT.invalid = Ty) : ∃ Rest, Q = Ty :: Rest := by
  cases Q with
  | nil => exact absurd h.symm hTy
  | cons a Rest => exact ⟨Rest, by simpa using h⟩

theorem pair_prefix_of_getD (Q : List LLT) (Ty0 Ty1 : LLT) (h0 : Ty0 ≠ LLT.invalid)
    (h1 : Ty1 ≠ LLT.invalid) (e0 : Q.getD 0 LLT.invalid = Ty0)
    (e1 : Q.getD 1 LLT.invalid = Ty1) : [Ty0, Ty1] <+: Q := by
  obtain ⟨R0, rfl⟩ := cons_prefix_of_getD Q Ty0 h0 e0
  have e1' : R0.getD 0 LLT.invalid = Ty1 := by simpa using e1
  obtain ⟨R1, rfl⟩ := cons_prefix_of_getD R0 Ty1 h1 e1'
  exact ⟨R1, rfl⟩

theorem contains_true_iff {α : Type} [BEq α] [LawfulBEq α] (l : List α) (a : α) :
    l.contains a = true ↔ a ∈ l := by simp

theorem contains_false_iff {α : Type} [BEq α] [LawfulBEq α] (l : List α) (a : α) :
    l.contains a = false ↔ a ∉ l := by simp

theorem eval_all_typeInSet (i j : Nat) (Ts0 Ts1 : List LLT) (Q : List LLT) :
    (LegalityPredicate.all (LegalityPredicate.typeInSet i Ts0)
      (LegalityPredicate.typeInSet j Ts1)).eval Q =
      Except.ok (Ts0.contains (Q.getD i LLT.invalid) && Ts1.contains (Q.getD j LLT.invalid)) := by
  simp only [LegalityPredicate.eval]
  cases Ts0.contains (Q.getD i LLT.invalid) <;> rfl

/-- A predicate that lists tuples holds of a query only if one of its tuples
begins the query. -/
theorem tuples_of_eval (Pd : LegalityPredicate) (n : Nat) (Q : List LLT)
    (hl : Pd.listsTuples n = true) (he : Pd.eval Q = Except.ok true) :
    Pd.usesBelow n = true ∧ ∃ T, T ∈ Pd.tuples ∧ T <+: Q ∧ T.length = n := by
  unfold LegalityPredicate.listsTuples at hl
  split at hl
  · rename_i Types
    simp only [Bool.and_eq_true, decide_eq_true_eq, Bool.not_eq_true',
      contains_false_iff] at hl
    obtain ⟨rfl, hinv⟩ := hl
    simp only [LegalityPredicate.eval, Except.ok.injEq, contains_true_iff] at he
    have hne : Q.getD 0 LLT.invalid ≠ LLT.invalid := fun h0 => hinv (h0 ▸ he)
    obtain ⟨Rest, hQ⟩ := cons_prefix_of_getD Q _ hne rfl
    refine ⟨by simp [LegalityPredicate.usesBelow], [Q.getD 0 LLT.invalid], ?_, ?_, rfl⟩
    · simp only [LegalityPredicate.tuples, List.mem_map]
      exact ⟨_, he, rfl⟩
    · exact ⟨Rest, hQ.symm⟩
  · rename_i Types
    simp only [Bool.and_eq_true, decide_eq_true_eq, List.all_eq_true, bne_iff_ne, ne_eq] at hl
    obtain ⟨rfl, hinv⟩ := hl
    simp only [LegalityPredicate.eval, Except.ok.injEq, contains_true_iff] at he
    obtain ⟨h0, h1⟩ := hinv _ he
    refine ⟨by simp [LegalityPredicate.usesBelow],
      [Q.getD 0 LLT.invalid, Q.getD 1 LLT.invalid], ?_, ?_, rfl⟩
    · simp only [LegalityPredicate.tuples, List.mem_map]
      exact ⟨_, he, rfl⟩
    · exact pair_prefix_of_getD Q _ _ h0 h1 rfl rfl
  · rename_i Types0 Types1
    simp only [Bool.and_eq_true, decide_eq_true_eq, Bool.not_eq_true',
      contains_false_iff] at hl
    obtain ⟨⟨rfl, hinv0⟩, hinv1⟩ := hl
    rw [eval_all_typeInSet] at he
    simp only [Except.ok.injEq, Bool.and_eq_true, contains_true_iff] at he
    obtain ⟨he0, he1⟩ := he
    have h0 : Q.getD 0 LLT.invalid ≠ LLT.invalid := fun h => hinv0 (h ▸ he0)
    have h1 : Q.getD 1 LLT.invalid ≠ LLT.invalid := fun h => hinv1 (h ▸ he1)
    refine ⟨by simp [LegalityPredicate.usesBelow],
      [Q.getD 0 LLT.invalid, Q.getD 1 LLT.invalid], ?_, ?_, rfl⟩
    · simp only [LegalityPredicate.tuples, List.mem_flatMap, List.mem_map]
      exact ⟨_, he0, _, he1, rfl⟩
    · exact pair_prefix_of_getD Q _ _ h0 h1 rfl rfl
  · exact absurd hl (by simp)

theorem applyRules_append_false (Pre Rest : List LegalizeRule) (Q : List LLT)
    (h : ∀ R ∈ Pre, R.Predicate.eval Q = Except.ok false) :
    LegalizeRuleSet.applyRules (Pre ++ Rest) Q = LegalizeRuleSet.applyRules Rest Q := by
  induction Pre with
  | nil => rfl
  | cons R Pre ih =>
    rw [List.cons_append, LegalizeRuleSet.applyRules, h R (List.mem_cons_self _ _)]
    exact ih (fun R' hR' => h R' (List.mem_cons_of_mem _ hR'))

/-- A query that a rule list marks legal begins with a tuple that a rule of the
list with the action `Legal` lists, and the list marks that tuple legal. -/
theorem applyRules_legal (Rest : List LegalizeRule) :
    ∀ (Pre : List LegalizeRule) (Q : List LLT),
      (∀ R ∈ Pre, R.Predicate.eval Q = Except.ok false) →
      legalRulesListTuples Pre Rest = true →
      LegalizeRuleSet.applyRules Rest Q = Except.ok LegalizeAction.Legal →
      ∃ T Rule, Rule ∈ Rest ∧ Rule.Action = LegalizeAction.Legal ∧
        T ∈ Rule.Predicate.tuples ∧ T <+: Q ∧
        LegalizeRuleSet.applyRules (Pre ++ Rest) T = Except.ok LegalizeAction.Legal := by
  induction Rest with
  | nil =>
    intro Pre Q _ _ h
    simp [LegalizeRuleSet.applyRules] at h
  | cons Rule Rest ih =>
    intro Pre Q hPre hOK h
    simp only [legalRulesListTuples, Bool.and_eq_true, Bool.or_eq_true, bne_iff_ne, ne_eq,
      List.any_eq_true, List.all_eq_true] at hOK
    obtain ⟨hRule, hRest⟩ := hOK
    rw [LegalizeRuleSet.applyRules] at h
    cases he : Rule.Predicate.eval Q with
    | error e => rw [he] at h; simp at h
    | ok b =>
      cases b with
      | true =>
        rw [he] at h
        have hA : Rule.Action = LegalizeAction.Legal := by simpa using h
        rcases hRule with hRule | ⟨n, -, hl, hu⟩
        · exact absurd hA hRule
        · obtain ⟨hub, T, hT, hpre, hlen⟩ := tuples_of_eval Rule.Predicate n Q hl he
          refine ⟨T, Rule, List.mem_cons_self _ _, hA, hT, hpre, ?_⟩
          rw [applyRules_append_false Pre _ T, LegalizeRuleSet.applyRules,
            eval_of_initial _ T Q hpre (by rw [hlen]; exact hub), he, hA]
          intro R hR
          rw [eval_of_initial _ T Q hpre (by rw [hlen]; exact hu R hR)]
          exact hPre R hR
      | false =>
        rw [he] at h
        obtain ⟨T, R, hR, hA, hT, hpre, happ⟩ := ih (Pre ++ [Rule]) Q
          (by
            intro R hR
            rcases List.mem_append.mp hR with hR | hR
            · exact hPre R hR
            · rw [List.mem_singleton.mp hR]; exact he)
          hRest h
        refine ⟨T, R, List.mem_cons_of_mem _ hR, hA, hT, hpre, ?_⟩
        rw [List.append_assoc, List.singleton_append] at happ
        exact happ

/-- Every query that the table marks legal begins with one of the type tuples
that the table marks legal for the opcode. -/
theorem legalTuples_complete (Opc : Opcode) (Q : List LLT)
    (h : getAction Opc Q = Except.ok LegalizeAction.Legal) :
    ∃ T, T ∈ legalTuples Opc ∧ T <+: Q := by
  have hOK := (MOSLegalizerInfo_legal Opc).1
  unfold getAction LegalizeRuleSet.apply at h
  split_ifs at h with hemp
  · simp at h
  · obtain ⟨T, R, hR, hA, hT, hpre, happ⟩ :=
      applyRules_legal _ [] Q (by simp) hOK h
    refine ⟨T, ?_, hpre⟩
    simp only [legalTuples, List.mem_filter, List.mem_flatMap, beq_iff_eq]
    refine ⟨⟨R, ⟨hR, hA⟩, hT⟩, ?_⟩
    have hg : getAction Opc T = Except.ok LegalizeAction.Legal := by
      unfold getAction LegalizeRuleSet.apply
      rw [if_neg hemp]
      exact happ
    rw [hg]

theorem legalTuples_sound (Opc : Opcode) (T : List LLT) (h : T ∈ legalTuples Opc) :
    getAction Opc T = Except.ok LegalizeAction.Legal := by
  simp only [legalTuples, List.mem_filter] at h
  obtain ⟨-, h⟩ := h
  split at h
  · assumption
  · exact absurd h (by simp)

/-- The number of types in the query for an instruction depends on its opcode
alone. -/
theorem getTypes_length (MRI : MachineRegisterInfo) (MI : MachineInstr) :
    (getTypes MRI MI).length = (getTypes ⟨[], []⟩ ⟨MI.Opcode, []⟩).length := by
  obtain ⟨Opc, Ops⟩ := MI
  cases Opc <;> rfl

/-- The shape of the tuples that the table marks legal, opcode by opcode: a
tuple has a type for every type index of the opcode, but for the select and
the additions with carry-in, whose rule lists the first type alone. -/
theorem MOSLegalizerInfo_legal_shape (Opc : Opcode) :
    ∀ T ∈ legalTuples Opc,
      (Opc ∉ [Opcode.G_SELECT, Opcode.G_UADDE, Opcode.G_SADDE] ∧
        T.length = (getTypes ⟨[], []⟩ ⟨Opc, []⟩).length) ∨
      (Opc ∈ [Opcode.G_SELECT, Opcode.G_UADDE, Opcode.G_SADDE] ∧ T ∈ [[S1], [S8]]) := by
  cases Opc <;> decide

/-- C25 (amended): if the table of the constructor marks the type tuple of an
instruction legal, every type of the tuple is the 1-bit scalar, the 8-bit
scalar, the 16-bit scalar or the 16-bit pointer, and the 16-bit scalar occurs
only for `G_CONSTANT`, `G_ANYEXT`, `G_TRUNC`, `G_INTTOPTR`, `G_PTRTOINT`,
`G_MERGE_VALUES` and `G_UNMERGE_VALUES`; but for `G_SELECT`, `G_UADDE` and
`G_SADDE` this holds of the first type alone, which is 1 or 8 bits: their rule
`legalFor` lists one type, and the table marks them legal whatever the second
type, of the test or of the carry, is. The tuples that the rules with the
action `Legal` list are marked legal, and every query that is marked legal
begins with one of them. -/
theorem MOSLegalizerInfo_legal_types (MRI : MachineRegisterInfo) (MI : MachineInstr)
    (h : getAction MI.Opcode (getTypes MRI MI) = Except.ok LegalizeAction.Legal) :
    (MI.Opcode ∉ [Opcode.G_SELECT, Opcode.G_UADDE, Opcode.G_SADDE] →
      (∀ Ty, Ty ∈ getTypes MRI MI → Ty ∈ [S1, S8, S16, P]) ∧
      (S16 ∈ getTypes MRI MI →
        MI.Opcode ∈ [Opcode.G_CONSTANT, Opcode.G_ANYEXT, Opcode.G_TRUNC, Opcode.G_INTTOPTR,
          Opcode.G_PTRTOINT, Opcode.G_MERGE_VALUES, Opcode.G_UNMERGE_VALUES])) ∧
    (MI.Opcode ∈ [Opcode.G_SELECT, Opcode.G_UADDE, Opcode.G_SADDE] →
      getTypes MRI MI = [MRI.getType (MI.getReg 0), MRI.getType (MI.getReg 1)] ∧
      MRI.getType (MI.getReg 0) ∈ [S1, S8]) ∧
    (∀ Ty, getAction Opcode.G_SELECT [S1, Ty] = Except.ok LegalizeAction.Legal ∧
      getAction Opcode.G_SELECT [S8, Ty] = Except.ok LegalizeAction.Legal ∧
      getAction Opcode.G_UADDE [S8, Ty] = Except.ok LegalizeAction.Legal ∧
      getAction Opcode.G_SADDE [S8, Ty] = Except.ok LegalizeAction.Legal) ∧
    (∀ Opc T, T ∈ legalTuples Opc →
      getAction Opc T = Except.ok LegalizeAction.Legal ∧
      (∀ Ty, Ty ∈ T → Ty ∈ [S1, S8, S16, P]) ∧
      (S16 ∈ T → Opc ∈ [Opcode.G_CONSTANT, Opcode.G_ANYEXT, Opcode.G_TRUNC, Opcode.G_INTTOPTR,
        Opcode.G_PTRTOINT, Opcode.G_MERGE_VALUES, Opcode.G_UNMERGE_VALUES])) ∧
    (∀ Opc Q, getAction Opc Q = Except.ok LegalizeAction.Legal →
      ∃ T, T ∈ legalTuples Opc ∧ T <+: Q) := by
  obtain ⟨T, hT, hpre⟩ := legalTuples_complete _ _ h
  have hfacts := (MOSLegalizerInfo_legal MI.Opcode).2 T hT
  have hshape := MOSLegalizerInfo_legal_shape MI.Opcode T hT
  have hlen := getTypes_length MRI MI
  refine ⟨fun hop => ?_, fun hop => ?_, fun Ty => ⟨rfl, rfl, rfl, rfl⟩,
    fun Opc T hT => ⟨legalTuples_sound Opc T hT, ((MOSLegalizerInfo_legal Opc).2 T hT).1,
      ((MOSLegalizerInfo_legal Opc).2 T hT).2⟩,
    legalTuples_complete⟩
  · have hl : T.length = (getTypes MRI MI).length := by
      rcases hshape with ⟨-, hl⟩ | ⟨h3, -⟩
      · rw [hl, hlen]
      · exact absurd h3 hop
    have hTQ : T = getTypes MRI MI := hpre.eq_of_length hl
    rw [← hTQ]
    exact hfacts
  · have hQ : getTypes MRI MI = [MRI.getType (MI.getReg 0), MRI.getType (MI.getReg 1)] := by
      simp only [List.mem_cons, List.mem_singleton, List.not_mem_nil, or_false] at hop
      rcases hop with hop | hop | hop <;> simp [getTypes, hop]
    refine ⟨hQ, ?_⟩
    rcases hshape with ⟨h3, -⟩ | ⟨-, hT2⟩
    · exact absurd hop h3
    · rw [hQ] at hpre
      simp only [List.mem_cons, List.mem_singleton, List.not_mem_nil, or_false] at hT2
      obtain ⟨Rest, hRest⟩ := hpre
      rcases hT2 with rfl | rfl
      · simp only [List.singleton_append, List.cons.injEq] at hRest
        rw [← hRest.1]
        simp
      · simp only [List.singleton_append, List.cons.injEq] at hRest
        rw [← hRest.1]
        simp

theorem MOSLegalizerInfo_legal_types_witness :
    getAction Opcode.G_PTRTOINT (getTypes ⟨[S16, P], []⟩
      ⟨Opcode.G_PTRTOINT, [.reg 0, .reg 1]⟩) = Except.ok LegalizeAction.Legal ∧
    getTypes ⟨[S16, P], []⟩ ⟨Opcode.G_PTRTOINT, [.reg 0, .reg 1]⟩ = [S16, P] ∧
    (∀ Ty, Ty ∈ getTypes ⟨[S16, P], []⟩ ⟨Opcode.G_PTRTOINT, [.reg 0, .reg 1]⟩ →
      Ty ∈ [S1, S8, S16, P]) :=
  ⟨rfl, rfl,
    ((MOSLegalizerInfo_legal_types ⟨[S16, P], []⟩ ⟨Opcode.G_PTRTOINT, [.reg 0, .reg 1]⟩
      rfl).1 (by decide)).1⟩

/-- C25 as it is stated fails on the code: the table marks a `G_CONSTANT` of the
16-bit scalar type legal, and a `G_ANYEXT` from 1 bit to 16 bits, and the
16-bit scalar is none of the three types of the statement. It also marks a
`G_SELECT` of 8 bits with a test of 32 bits legal, and a `G_UADDE` of 8 bits
with a carry of 32 bits: the rule of these opcodes lists the first type
alone. -/
theorem MOSLegalizerInfo_legal_types_counterexample :
    getTypes ⟨[S16], []⟩ ⟨Opcode.G_CONSTANT, [.reg 0, .cimm 5]⟩ = [S16] ∧
    getAction Opcode.G_CONSTANT [S16] = Except.ok LegalizeAction.Legal ∧
    [S16] ∈ legalTuples Opcode.G_CONSTANT ∧
    getTypes ⟨[S16, S1], []⟩ ⟨Opcode.G_ANYEXT, [.reg 0, .reg 1]⟩ = [S16, S1] ∧
    getAction Opcode.G_ANYEXT [S16, S1] = Except.ok LegalizeAction.Legal ∧
    [S16, S1] ∈ legalTuples Opcode.G_ANYEXT ∧
    S16 ∉ [S1, S8, P] ∧
    getTypes ⟨[S8, LLT.scalar 32, S8, S8], []⟩
      ⟨Opcode.G_SELECT, [.reg 0, .reg 1, .reg 2, .reg 3]⟩ = [S8, LLT.scalar 32] ∧
    getAction Opcode.G_SELECT [S8, LLT.scalar 32] = Except.ok LegalizeAction.Legal ∧
    getTypes ⟨[S8, LLT.scalar 32, S8, S8, LLT.scalar 32], []⟩
      ⟨Opcode.G_UADDE, [.reg 0, .reg 1, .reg 2, .reg 3, .reg 4]⟩ = [S8, LLT.scalar 32] ∧
    getAction Opcode.G_UADDE [S8, LLT.scalar 32] = Except.ok LegalizeAction.Legal ∧
    LLT.scalar 32 ∉ [S1, S8, S16, P] ∧
    ¬ LegalTypesAsStated := by
  refine ⟨rfl, rfl, by decide, rfl, rfl, by decide, by decide, rfl, rfl, rfl, rfl,
    by decide, fun h => ?_⟩
  exact absurd (h ⟨[S16], []⟩ ⟨Opcode.G_CONSTANT, [.reg 0, .cimm 5]⟩ rfl S16
    (List.mem_singleton.mpr rfl)) (by decide)

/-! ## The dispatcher and the table -/

theorem legalizeICmp_error (B : MachineIRBuilder) (MI : MachineInstr) :
    legalizeICmp B MI ≠ Except.error "Invalid opcode for custom legalization." := by
  unfold legalizeICmp
  generalize MI.getPredicate 1 = p
  cases p <;> dsimp only <;> (repeat' split) <;>
    first
    | (simp_all; done)
    | (rename_i heq
       split_ifs at heq <;>
        first
        | (simp at heq; done)
        | (have he := Except.error.inj heq; subst he
           exact fun hc => absurd (Except.error.inj hc) (by decide)))

theorem legalizeSExt_error (B : MachineIRBuilder) (MI : MachineInstr) :
    legalizeSExt B MI ≠ Except.error "Invalid opcode for custom legalization." := by
  unfold legalizeSExt
  dsimp only
  split_ifs <;> simp

theorem legalizeZExt_error (B : MachineIRBuilder) (MI : MachineInstr) :
    legalizeZExt B MI ≠ Except.error "Invalid opcode for custom legalization." := by
  unfold legalizeZExt
  dsimp only
  split_ifs <;> simp

theorem legalizeBSwap_error (B : MachineIRBuilder) (MI : MachineInstr) :
    legalizeBSwap B MI ≠ Except.error "Invalid opcode for custom legalization." := by
  unfold legalizeBSwap
  split_ifs <;> simp

theorem legalizeSelect_error (B : MachineIRBuilder) (MI : MachineInstr) :
    legalizeSelect B MI ≠ Except.error "Invalid opcode for custom legalization." := by
  unfold legalizeSelect
  dsimp only
  split_ifs <;> simp

theorem legalizeAddSubO_error (B : MachineIRBuilder) (MI : MachineInstr) :
    legalizeAddSubO B MI ≠ Except.error "Invalid opcode for custom legalization." := by
  unfold legalizeAddSubO
  dsimp only
  repeat' split
  all_goals first
    | (simp_all; done)
    | (rename_i heq
       split at heq <;>
        first
        | (simp at heq; done)
        | (have he := Except.error.inj heq; subst he
           exact fun hc => absurd (Except.error.inj hc) (by decide)))

theorem legalizeSubE_error (B : MachineIRBuilder) (MI : MachineInstr) :
    legalizeSubE B MI ≠ Except.error "Invalid opcode for custom legalization." := by
  unfold legalizeSubE
  dsimp only
  split_ifs <;> simp

theorem legalizeDynStackAlloc_error (RS0 : Nat) (B : MachineIRBuilder) (MI : MachineInstr) :
    legalizeDynStackAlloc RS0 B MI ≠ Except.error "Invalid opcode for custom legalization." := by
  unfold legalizeDynStackAlloc assumeAligned
  dsimp only
  repeat' split
  all_goals first
    | (simp_all; done)
    | (rename_i heq
       split_ifs at heq <;>
        first
        | (simp at heq; done)
        | (have he := Except.error.inj heq; subst he
           exact fun hc => absurd (Except.error.inj hc) (by decide)))

theorem legalizeLshrShl_error (B : MachineIRBuilder) (MI : MachineInstr) :
    legalizeLshrShl B MI ≠ Except.error "Invalid opcode for custom legalization." := by
  unfold legalizeLshrShl
  dsimp only
  repeat' split
  all_goals simp_all

theorem foldNotIntoUses_error (Dst Not : Nat) (V : List LLT) (Todo : List MachineInstr) :
    ∀ Done : List MachineInstr,
      foldNotIntoUses Dst Not V Done Todo ≠
        Except.error "Invalid opcode for custom legalization." := by
  induction Todo with
  | nil => intro Done; simp [foldNotIntoUses]
  | cons U Todo ih =>
    intro Done
    rw [foldNotIntoUses]
    split_ifs <;>
      first
      | exact ih _
      | exact fun hc => Except.noConfusion hc
      | exact fun hc => absurd (Except.error.inj hc) (by decide)

theorem legalizeXor_error (B : MachineIRBuilder) (MI : MachineInstr) :
    legalizeXor B MI ≠ Except.error "Invalid opcode for custom legalization." := by
  unfold legalizeXor
  dsimp only
  repeat' split
  all_goals first
    | (simp; done)
    | exact fun hc => absurd (Except.error.inj hc) (by decide)
    | (rename_i heq
       intro hc
       have he := Except.error.inj hc
       subst he
       exact foldNotIntoUses_error _ _ _ _ _ heq)

theorem map_ne_error {α β : Type} (f : α → β) (x : Except String α) (s : String)
    (h : x ≠ Except.error s) : x.map f ≠ Except.error s := by
  cases x with
  | error e =>
    intro hc
    apply h
    simpa [Except.map] using hc
  | ok a => simp [Except.map]

/-- Whether an action of the table is `Custom`. -/
theorem applyRules_custom (Rules : List LegalizeRule) (Q : List LLT)
    (h : LegalizeRuleSet.applyRules Rules Q = Except.ok LegalizeAction.Custom) :
    ∃ Rule, Rule ∈ Rules ∧ Rule.Action = LegalizeAction.Custom := by
  induction Rules with
  | nil => simp [LegalizeRuleSet.applyRules] at h
  | cons R Rest ih =>
    rw [LegalizeRuleSet.applyRules] at h
    split at h
    · simp at h
    · exact ⟨R, List.mem_cons_self _ _, by simpa using h⟩
    · obtain ⟨Rule, hR, hA⟩ := ih h
      exact ⟨Rule, List.mem_cons_of_mem _ hR, hA⟩

/-- The facts about the action `Custom` that are checked opcode by opcode: an
opcode with a case in the dispatcher gets the action for the types of
`customTypes`, and the rules of every other opcode do not have the action. -/
theorem MOSLegalizerInfo_custom (Opc : Opcode) :
    (Opc ∈ customCases →
      (LegalizeRuleSet.applyRules (MOSLegalizerInfo Opc).Rules (customTypes Opc)).toOption =
        some LegalizeAction.Custom ∧ (MOSLegalizerInfo Opc).Rules.isEmpty = false) ∧
    (Opc ∉ customCases →
      (MOSLegalizerInfo Opc).Rules.all (fun Rule => Rule.Action != LegalizeAction.Custom) =
        true) := by
  cases Opc <;> decide

/-- The table gives an opcode the action `Custom` for some types exactly if the
opcode has a case in the dispatcher. -/
theorem getAction_custom_iff (Opc : Opcode) :
    (∃ Types, getAction Opc Types = Except.ok LegalizeAction.Custom) ↔ Opc ∈ customCases := by
  constructor
  · rintro ⟨Types, h⟩
    by_contra hn
    have hall := (MOSLegalizerInfo_custom Opc).2 hn
    unfold getAction LegalizeRuleSet.apply at h
    split_ifs at h
    · simp at h
    · obtain ⟨Rule, hR, hA⟩ := applyRules_custom _ _ h
      have := List.all_eq_true.mp hall Rule hR
      simp [hA] at this
  · intro h
    obtain ⟨h1, h2⟩ := (MOSLegalizerInfo_custom Opc).1 h
    refine ⟨customTypes Opc, ?_⟩
    unfold getAction LegalizeRuleSet.apply
    rw [h2]
    cases hx : LegalizeRuleSet.applyRules (MOSLegalizerInfo Opc).Rules (customTypes Opc) with
    | error e => rw [hx] at h1; simp [Except.toOption] at h1
    | ok a =>
      rw [hx] at h1
      simp only [Except.toOption, Option.some.injEq] at h1
      simp [h1]

/-- An opcode with a case in the switch of `legalizeCustom` does not reach the
default. -/
theorem legalizeCustom_of_case (RS0 : Nat) (VarArgsStackIndex : Int)
    (Blocks : List MachineBasicBlock) (Parent Idx : Nat) (B : MachineIRBuilder)
    (MI : MachineInstr) (h : MI.Opcode ∈ customCases) :
    legalizeCustom RS0 VarArgsStackIndex Blocks Parent Idx B MI ≠
      Except.error "Invalid opcode for custom legalization." := by
  unfold legalizeCustom
  simp only [customCases, List.mem_cons, List.mem_singleton, List.not_mem_nil, or_false] at h
  rcases h with h | h | h | h | h | h | h | h | h | h | h | h | h | h | h | h | h | h | h | h |
    h | h | h | h | h <;> rw [h] <;> dsimp only <;>
    first
    | exact map_ne_error _ _ _ (legalizeSExt_error B MI)
    | exact map_ne_error _ _ _ (legalizeZExt_error B MI)
    | exact map_ne_error _ _ _ (legalizeBSwap_error B MI)
    | exact map_ne_error _ _ _ (legalizeXor_error B MI)
    | exact map_ne_error _ _ _ (legalizeLshrShl_error B MI)
    | exact map_ne_error _ _ _ (legalizeICmp_error B MI)
    | exact map_ne_error _ _ _ (legalizeSelect_error B MI)
    | exact map_ne_error _ _ _ (legalizeAddSubO_error B MI)
    | exact map_ne_error _ _ _ (legalizeSubE_error B MI)
    | exact map_ne_error _ _ _ (legalizeDynStackAlloc_error RS0 B MI)
    | exact fun hc => Except.noConfusion hc

/-- An opcode without a case in the switch of `legalizeCustom` reaches the
default. -/
theorem legalizeCustom_default (Opc : Opcode) (h : Opc ∉ customCases) :
    legalizeCustom 0 0 [] 0 0 (MachineIRBuilder.atInstr ⟨[], []⟩) ⟨Opc, []⟩ =
      Except.error "Invalid opcode for custom legalization." := by
  cases Opc <;> first | rfl | exact absurd (by decide) h

/-- C27: the table of the constructor gives an opcode the action `Custom` for
at least one choice of types if and only if the switch of `legalizeCustom` has
a case for the opcode, that is, `legalizeCustom` does not end in the default
'Invalid opcode for custom legalization.' for any instruction with that
opcode. -/
theorem legalizeCustom_cases (Opc : Opcode) :
    (∃ Types, getAction Opc Types = Except.ok LegalizeAction.Custom) ↔
    (∀ (RS0 : Nat) (VarArgsStackIndex : Int) (Blocks : List MachineBasicBlock)
      (Parent Idx : Nat) (B : MachineIRBuilder) (MI : MachineInstr), MI.Opcode = Opc →
      legalizeCustom RS0 VarArgsStackIndex Blocks Parent Idx B MI ≠
        Except.error "Invalid opcode for custom legalization.") := by
  rw [getAction_custom_iff]
  constructor
  · intro h RS0 VA Blocks Parent Idx B MI hOpc
    exact legalizeCustom_of_case RS0 VA Blocks Parent Idx B MI (hOpc ▸ h)
  · intro h
    by_contra hn
    exact h 0 0 [] 0 0 (MachineIRBuilder.atInstr ⟨[], []⟩) ⟨Opc, []⟩ rfl
      (legalizeCustom_default Opc hn)

/-! ## What a routine leaves behind -/

theorem opcodesIn_atInstr (L : List Opcode) (MRI : MachineRegisterInfo) :
    (MachineIRBuilder.atInstr MRI).OpcodesIn L := by
  intro C hC
  simp [MachineIRBuilder.atInstr] at hC

theorem opcodesIn_mk (L : List Opcode) (B : MachineIRBuilder) (MRI : MachineRegisterInfo)
    (p : Bool) (h : B.OpcodesIn L) :
    MachineIRBuilder.OpcodesIn L ⟨MRI, B.Before, B.After, p⟩ := h

theorem opcodesIn_insert (L : List Opcode) (B : MachineIRBuilder) (X : MachineInstr)
    (h : B.OpcodesIn L) (hX : X.Opcode ∈ L) : (B.insert X).OpcodesIn L := by
  intro C hC
  unfold MachineIRBuilder.insert at hC
  split_ifs at hC
  · simp only [List.mem_append, List.mem_singleton] at hC
    rcases hC with hC | hC | hC
    · exact h C (List.mem_append_left _ hC)
    · exact h C (List.mem_append_right _ hC)
    · rw [hC]; exact hX
  · simp only [List.mem_append, List.mem_singleton] at hC
    rcases hC with (hC | hC) | hC
    · exact h C (List.mem_append_left _ hC)
    · rw [hC]; exact hX
    · exact h C (List.mem_append_right _ hC)

theorem opcodesIn_buildInstr (L : List Opcode) (B : MachineIRBuilder) (Opc : Opcode)
    (D : List DstOp) (S : List MachineOperand) (h : B.OpcodesIn L) (hO : Opc ∈ L) :
    (B.buildInstr Opc D S).1.OpcodesIn L := by
  unfold MachineIRBuilder.buildInstr
  exact opcodesIn_insert L _ _ (opcodesIn_mk L B _ _ h) hO

theorem opcode_buildInstr (B : MachineIRBuilder) (Opc : Opcode)
    (D : List DstOp) (S : List MachineOperand) : (B.buildInstr Opc D S).2.Opcode = Opc := rfl

theorem opcodesIn_buildICmp (L : List Opcode) (B : MachineIRBuilder) (Pred : Predicate)
    (Res : DstOp) (Op0 Op1 : Nat) (h : B.OpcodesIn L) (hO : Opcode.G_ICMP ∈ L) :
    (B.buildICmp Pred Res Op0 Op1).1.OpcodesIn L := by
  unfold MachineIRBuilder.buildICmp
  exact opcodesIn_insert L _ _ (opcodesIn_mk L B _ _ h) hO

theorem opcodesIn_buildConstant (L : List Opcode) (B : MachineIRBuilder) (Res : DstOp)
    (Val : Int) (h : B.OpcodesIn L) (hO : Opcode.G_CONSTANT ∈ L) :
    (B.buildConstant Res Val).1.OpcodesIn L :=
  opcodesIn_buildInstr L B _ _ _ h hO

theorem opcodesIn_buildCopy (L : List Opcode) (B : MachineIRBuilder) (Res : DstOp)
    (Op : Nat) (h : B.OpcodesIn L) (hO : Opcode.COPY ∈ L) :
    (B.buildCopy Res Op).1.OpcodesIn L :=
  opcodesIn_buildInstr L B _ _ _ h hO

theorem opcodesIn_buildXor (L : List Opcode) (B : MachineIRBuilder) (Res : DstOp)
    (a b : Nat) (h : B.OpcodesIn L) (hO : Opcode.G_XOR ∈ L) :
    (B.buildXor Res a b).1.OpcodesIn L :=
  opcodesIn_buildInstr L B _ _ _ h hO

theorem opcodesIn_buildAnd (L : List Opcode) (B : MachineIRBuilder) (Res : DstOp)
    (a b : Nat) (h : B.OpcodesIn L) (hO : Opcode.G_AND ∈ L) :
    (B.buildAnd Res a b).1.OpcodesIn L :=
  opcodesIn_buildInstr L B _ _ _ h hO

theorem opcodesIn_buildNot (L : List Opcode) (B : MachineIRBuilder) (Res : DstOp)
    (a : Nat) (h : B.OpcodesIn L) (hC : Opcode.G_CONSTANT ∈ L) (hO : Opcode.G_XOR ∈ L) :
    (B.buildNot Res a).1.OpcodesIn L := by
  unfold MachineIRBuilder.buildNot
  exact opcodesIn_buildInstr L _ _ _ _
    (opcodesIn_buildConstant L B (DstOp.ty (Res.getLLTTy B.MRI)) (-1) h hC) hO

theorem opcodesIn_buildSelect (L : List Opcode) (B : MachineIRBuilder) (Res : DstOp)
    (t a b : Nat) (h : B.OpcodesIn L) (hO : Opcode.G_SELECT ∈ L) :
    (B.buildSelect Res t a b).1.OpcodesIn L :=
  opcodesIn_buildInstr L B _ _ _ h hO

theorem opcodesIn_buildUnmerge (L : List Opcode) (B : MachineIRBuilder) (Res : LLT)
    (Op : Nat) (h : B.OpcodesIn L) (hO : Opcode.G_UNMERGE_VALUES ∈ L) :
    (B.buildUnmerge Res Op).1.OpcodesIn L :=
  opcodesIn_buildInstr L B _ _ _ h hO

theorem opcodesIn_buildMerge (L : List Opcode) (B : MachineIRBuilder) (Res : DstOp)
    (Ops : List Nat) (h : B.OpcodesIn L) (hO : Opcode.G_MERGE_VALUES ∈ L) :
    (B.buildMerge Res Ops).1.OpcodesIn L :=
  opcodesIn_buildInstr L B _ _ _ h hO

theorem opcodesIn_buildUndef (L : List Opcode) (B : MachineIRBuilder) (Res : DstOp)
    (h : B.OpcodesIn L) (hO : Opcode.G_IMPLICIT_DEF ∈ L) :
    (B.buildUndef Res).1.OpcodesIn L :=
  opcodesIn_buildInstr L B _ _ _ h hO

theorem opcodesIn_buildZExt (L : List Opcode) (B : MachineIRBuilder) (Res : DstOp)
    (Op : Nat) (h : B.OpcodesIn L) (hO : Opcode.G_ZEXT ∈ L) :
    (B.buildZExt Res Op).1.OpcodesIn L :=
  opcodesIn_buildInstr L B _ _ _ h hO

theorem opcodesIn_buildPtrToInt (L : List Opcode) (B : MachineIRBuilder) (Res : DstOp)
    (Op : Nat) (h : B.OpcodesIn L) (hO : Opcode.G_PTRTOINT ∈ L) :
    (B.buildPtrToInt Res Op).1.OpcodesIn L :=
  opcodesIn_buildInstr L B _ _ _ h hO

theorem opcodesIn_buildIntToPtr (L : List Opcode) (B : MachineIRBuilder) (Res : DstOp)
    (Op : Nat) (h : B.OpcodesIn L) (hO : Opcode.G_INTTOPTR ∈ L) :
    (B.buildIntToPtr Res Op).1.OpcodesIn L :=
  opcodesIn_buildInstr L B _ _ _ h hO

theorem opcodesIn_buildAdd (L : List Opcode) (B : MachineIRBuilder) (Res : DstOp)
    (a b : Nat) (h : B.OpcodesIn L) (hO : Opcode.G_ADD ∈ L) :
    (B.buildAdd Res a b).1.OpcodesIn L :=
  opcodesIn_buildInstr L B _ _ _ h hO

theorem opcodesIn_buildSub (L : List Opcode) (B : MachineIRBuilder) (Res : DstOp)
    (a b : Nat) (h : B.OpcodesIn L) (hO : Opcode.G_SUB ∈ L) :
    (B.buildSub Res a b).1.OpcodesIn L :=
  opcodesIn_buildInstr L B _ _ _ h hO

theorem opcodesIn_buildLoad (L : List Opcode) (B : MachineIRBuilder) (Res : DstOp)
    (a : Nat) (MMO : MachineMemOperand) (h : B.OpcodesIn L) (hO : Opcode.G_LOAD ∈ L) :
    (B.buildLoad Res a MMO).1.OpcodesIn L :=
  opcodesIn_buildInstr L B _ _ _ h hO

theorem opcodesIn_buildStore (L : List Opcode) (B : MachineIRBuilder)
    (v a : Nat) (MMO : MachineMemOperand) (h : B.OpcodesIn L) (hO : Opcode.G_STORE ∈ L) :
    (B.buildStore v a MMO).1.OpcodesIn L :=
  opcodesIn_buildInstr L B _ _ _ h hO

theorem opcodesIn_buildPtrAdd (L : List Opcode) (B : MachineIRBuilder) (Res : DstOp)
    (a b : Nat) (h : B.OpcodesIn L) (hO : Opcode.G_PTR_ADD ∈ L) :
    (B.buildPtrAdd Res a b).1.OpcodesIn L :=
  opcodesIn_buildInstr L B _ _ _ h hO

theorem opcodesIn_buildFrameIndex (L : List Opcode) (B : MachineIRBuilder) (Res : DstOp)
    (Idx : Int) (h : B.OpcodesIn L) (hO : Opcode.G_FRAME_INDEX ∈ L) :
    (B.buildFrameIndex Res Idx).1.OpcodesIn L :=
  opcodesIn_buildInstr L B _ _ _ h hO

theorem opcodesIn_buildCast (L : List Opcode) (B : MachineIRBuilder) (Res : DstOp)
    (Op : Nat) (h : B.OpcodesIn L) (h1 : Opcode.COPY ∈ L) (h2 : Opcode.G_PTRTOINT ∈ L)
    (h3 : Opcode.G_INTTOPTR ∈ L) (h4 : Opcode.G_BITCAST ∈ L) :
    (B.buildCast Res Op).1.OpcodesIn L := by
  unfold MachineIRBuilder.buildCast
  dsimp only
  split_ifs
  · exact opcodesIn_buildCopy L B _ _ h h1
  · exact opcodesIn_buildInstr L B _ _ _ h h2
  · exact opcodesIn_buildInstr L B _ _ _ h h3
  · exact opcodesIn_buildInstr L B _ _ _ h h4

theorem opcodesIn_setInsertPtNext (L : List Opcode) (B : MachineIRBuilder)
    (h : B.OpcodesIn L) : B.setInsertPtNext.OpcodesIn L := h

/-- No instruction that a routine leaves has an opcode outside the opcodes of
what it built and of what it made of the instruction itself. -/
theorem insts_opcodes (R : LegalizeResult) (L : List Opcode) (hB : R.B.OpcodesIn L)
    (hMI : ∀ M, R.MI = some M → M.Opcode ∈ L) : ∀ C, C ∈ R.insts → C.Opcode ∈ L := by
  intro C hC
  simp only [LegalizeResult.insts, List.mem_append, Option.mem_toList, Option.mem_def] at hC
  rcases hC with (hC | hC) | hC
  · exact hB C (List.mem_append_left _ hC)
  · exact hMI C hC
  · exact hB C (List.mem_append_right _ hC)

theorem opcodesIn_shiftChain (L : List Opcode) (Opc : Opcode) (hO : Opc ∈ L)
    (Defs : List Register) :
    ∀ (B : MachineIRBuilder) (Parts : List Register) (Carry : Register), B.OpcodesIn L →
      (Defs.foldl
        (fun (Acc : MachineIRBuilder × List Register × Register) SrcPart =>
          let (MRI, Part) := Acc.1.MRI.createGenericVirtualRegister S8
          let (MRI, NewCarry) := MRI.createGenericVirtualRegister S1
          let (B, _) := MachineIRBuilder.buildInstr { Acc.1 with MRI := MRI } Opc
            [DstOp.reg Part, DstOp.reg NewCarry]
            [MachineOperand.reg SrcPart, MachineOperand.reg Acc.2.2]
          (B, Acc.2.1 ++ [Part], NewCarry))
        (B, Parts, Carry)).1.OpcodesIn L := by
  induction Defs with
  | nil => intro B Parts Carry h; exact h
  | cons D Ds ih =>
    intro B Parts Carry h
    rw [List.foldl_cons]
    apply ih
    dsimp only
    exact opcodesIn_insert L _ _ (opcodesIn_mk L B _ _ h) hO

theorem opcodesIn_shiftChain_1 (L : List Opcode) (Opc : Opcode) (Defs : List Register)
    (B : MachineIRBuilder) (Carry : Register) (h : B.OpcodesIn L) (hO : Opc ∈ L) :
    (shiftChain Opc Defs B Carry).1.OpcodesIn L :=
  opcodesIn_shiftChain L Opc hO Defs B [] Carry h

/-- The opcodes of what `legalizeSExt` leaves. -/
theorem legalizeSExt_opcodes (MRI : MachineRegisterInfo) (MI : MachineInstr) :
    ∀ R, legalizeSExt (MachineIRBuilder.atInstr MRI) MI = Except.ok R →
      ∀ C, C ∈ R.insts → C.Opcode ∈ [Opcode.G_CONSTANT, Opcode.G_SELECT, Opcode.G_AND, Opcode.G_ICMP,
      Opcode.G_UNMERGE_VALUES, Opcode.G_MERGE_VALUES] := by
  unfold legalizeSExt
  dsimp only
  split_ifs
  all_goals
    intro R h
    first
    | exact False.elim h
    | exact Except.noConfusion h
    | exact Outcome.noConfusion h
    | exact Outcome.noConfusion (Except.ok.inj h)
    | (have h1 := Except.ok.inj h
       subst h1
       clear h
       apply insts_opcodes
       · dsimp only
         repeat (first
           | (with_reducible exact opcodesIn_atInstr _ _)
           | (with_reducible apply opcodesIn_buildConstant)
           | (with_reducible apply opcodesIn_buildSelect)
           | (with_reducible apply opcodesIn_buildAnd)
           | (with_reducible apply opcodesIn_buildICmp)
           | (with_reducible apply opcodesIn_buildUnmerge)
           | (with_reducible apply opcodesIn_buildMerge)
           | decide
           | (with_reducible exact List.mem_cons_self _ _)
           | (with_reducible apply List.mem_cons_of_mem))
       · intro M hM
         cases hM <;> simp [MachineInstr.setDesc, MachineInstr.setReg, MachineInstr.addOperand])

/-- The opcodes of what `legalizeZExt` leaves. -/
theorem legalizeZExt_opcodes (MRI : MachineRegisterInfo) (MI : MachineInstr) :
    ∀ R, legalizeZExt (MachineIRBuilder.atInstr MRI) MI = Except.ok R →
      ∀ C, C ∈ R.insts → C.Opcode ∈ [Opcode.G_CONSTANT, Opcode.G_SELECT] := by
  unfold legalizeZExt
  dsimp only
  split_ifs
  all_goals
    intro R h
    first
    | exact False.elim h
    | exact Except.noConfusion h
    | exact Outcome.noConfusion h
    | exact Outcome.noConfusion (Except.ok.inj h)
    | (have h1 := Except.ok.inj h
       subst h1
       clear h
       apply insts_opcodes
       · dsimp only
         repeat (first
           | (with_reducible exact opcodesIn_atInstr _ _)
           | (with_reducible apply opcodesIn_buildConstant)
           | (with_reducible apply opcodesIn_buildSelect)
           | decide
           | (with_reducible exact List.mem_cons_self _ _)
           | (with_reducible apply List.mem_cons_of_mem))
       · intro M hM
         cases hM <;> simp [MachineInstr.setDesc, MachineInstr.setReg, MachineInstr.addOperand])

/-- The opcodes of what `legalizeSubE` leaves. -/
theorem legalizeSubE_opcodes (MRI : MachineRegisterInfo) (MI : MachineInstr) :
    ∀ R, legalizeSubE (MachineIRBuilder.atInstr MRI) MI = Except.ok R →
      ∀ C, C ∈ R.insts → C.Opcode ∈ [Opcode.G_CONSTANT, Opcode.G_XOR, Opcode.G_SBC, Opcode.COPY] := by
  unfold legalizeSubE
  dsimp only
  split_ifs
  all_goals
    intro R h
    first
    | exact False.elim h
    | exact Except.noConfusion h
    | exact Outcome.noConfusion h
    | exact Outcome.noConfusion (Except.ok.inj h)
    | (have h1 := Except.ok.inj h
       subst h1
       clear h
       apply insts_opcodes
       · dsimp only
         repeat (first
           | (with_reducible exact opcodesIn_atInstr _ _)
           | (with_reducible apply opcodesIn_setInsertPtNext)
           | (with_reducible apply opcodesIn_buildNot)
           | (with_reducible apply opcodesIn_buildCopy)
           | (with_reducible apply opcodesIn_buildInstr)
           | decide
           | (with_reducible exact List.mem_cons_self _ _)
           | (with_reducible apply List.mem_cons_of_mem))
       · intro M hM
         cases hM <;> simp [MachineInstr.setDesc, MachineInstr.setReg, MachineInstr.addOperand])

/-- The opcodes of what `legalizeVAArg` leaves. -/
theorem legalizeVAArg_opcodes (MRI : MachineRegisterInfo) (MI : MachineInstr) :
    ∀ R, legalizeVAArg (MachineIRBuilder.atInstr MRI) MI = R →
      ∀ C, C ∈ R.insts → C.Opcode ∈ [Opcode.G_LOAD, Opcode.G_CONSTANT, Opcode.G_PTR_ADD, Opcode.G_STORE] := by
  unfold legalizeVAArg
  dsimp only
  all_goals
    intro R h
    subst h
    apply insts_opcodes
    · dsimp only
      repeat (first
        | (with_reducible exact opcodesIn_atInstr _ _)
        | (with_reducible apply opcodesIn_buildLoad)
        | (with_reducible apply opcodesIn_buildConstant)
        | (with_reducible apply opcodesIn_buildPtrAdd)
        | (with_reducible apply opcodesIn_buildStore)
        | decide
        | (with_reducible exact List.mem_cons_self _ _)
        | (with_reducible apply List.mem_cons_of_mem))
    · intro M hM
      cases hM <;> simp [MachineInstr.setDesc, MachineInstr.setReg, MachineInstr.addOperand]

/-- The opcodes of what `legalizeVAStart` leaves. -/
theorem legalizeVAStart_opcodes (VarArgsStackIndex : Int) (MRI : MachineRegisterInfo) (MI : MachineInstr) :
    ∀ R, legalizeVAStart VarArgsStackIndex (MachineIRBuilder.atInstr MRI) MI = R →
      ∀ C, C ∈ R.insts → C.Opcode ∈ [Opcode.G_FRAME_INDEX, Opcode.G_STORE] := by
  unfold legalizeVAStart
  dsimp only
  all_goals
    intro R h
    subst h
    apply insts_opcodes
    · dsimp only
      repeat (first
        | (with_reducible exact opcodesIn_atInstr _ _)
        | (with_reducible apply opcodesIn_buildFrameIndex)
        | (with_reducible apply opcodesIn_buildStore)
        | decide
        | (with_reducible exact List.mem_cons_self _ _)
        | (with_reducible apply List.mem_cons_of_mem))
    · intro M hM
      cases hM <;> simp [MachineInstr.setDesc, MachineInstr.setReg, MachineInstr.addOperand]

/-- The opcodes of what `legalizeBSwap` leaves. -/
theorem legalizeBSwap_opcodes (MRI : MachineRegisterInfo) (MI : MachineInstr) :
    ∀ R, legalizeBSwap (MachineIRBuilder.atInstr MRI) MI = Except.ok R →
      ∀ C, C ∈ R.insts → C.Opcode ∈ [Opcode.COPY] := by
  unfold legalizeBSwap
  split_ifs
  all_goals
    intro R h
    first
    | exact False.elim h
    | exact Except.noConfusion h
    | exact Outcome.noConfusion h
    | exact Outcome.noConfusion (Except.ok.inj h)
    | (have h1 := Except.ok.inj h
       subst h1
       clear h
       apply insts_opcodes
       · dsimp only
         repeat (first
           | (with_reducible exact opcodesIn_atInstr _ _)
           | (with_reducible apply opcodesIn_buildCopy)
           | decide
           | (with_reducible exact List.mem_cons_self _ _)
           | (with_reducible apply List.mem_cons_of_mem))
       · intro M hM
         cases hM <;> simp [MachineInstr.setDesc, MachineInstr.setReg, MachineInstr.addOperand])

/-- The opcodes of what `legalizeBrCond` leaves. -/
theorem legalizeBrCond_opcodes (MRI : MachineRegisterInfo) (MI : MachineInstr) :
    ∀ R, legalizeBrCond (MachineIRBuilder.atInstr MRI) MI = R →
      ∀ C, C ∈ R.insts → C.Opcode ∈ [Opcode.G_BRCOND_IMM] := by
  unfold legalizeBrCond
  dsimp only
  all_goals
    intro R h
    subst h
    apply insts_opcodes
    · dsimp only
      repeat (first
        | (with_reducible exact opcodesIn_atInstr _ _)
        | (with_reducible apply opcodesIn_buildInstr)
        | (with_reducible apply opcodesIn_insert)
        | (with_reducible apply opcodesIn_mk)
        | decide
        | (with_reducible exact List.mem_cons_self _ _)
        | (with_reducible apply List.mem_cons_of_mem))
    · intro M hM
      cases hM <;> simp [MachineInstr.setDesc, MachineInstr.setReg, MachineInstr.addOperand]

/-- The opcodes of what `legalizeXor` leaves. -/
theorem legalizeXor_opcodes (MRI : MachineRegisterInfo) (MI : MachineInstr) :
    ∀ R, legalizeXor (MachineIRBuilder.atInstr MRI) MI = Except.ok (Outcome.rewritten R) →
      ∀ C, C ∈ R.insts → C.Opcode ∈ [Opcode.G_CONSTANT, Opcode.G_SELECT] := by
  unfold legalizeXor
  dsimp only
  repeat' split
  all_goals
    intro R h
    first
    | exact False.elim h
    | exact Except.noConfusion h
    | exact Outcome.noConfusion h
    | exact Outcome.noConfusion (Except.ok.inj h)
    | (have h1 := Outcome.rewritten.inj (Except.ok.inj h)
       subst h1
       clear h
       apply insts_opcodes
       · dsimp only
         repeat (first
           | (with_reducible exact opcodesIn_atInstr _ _)
           | (with_reducible apply opcodesIn_buildConstant)
           | (with_reducible apply opcodesIn_buildSelect)
           | (with_reducible apply opcodesIn_mk)
           | decide
           | (with_reducible exact List.mem_cons_self _ _)
           | (with_reducible apply List.mem_cons_of_mem))
       · intro M hM
         cases hM <;> simp [MachineInstr.setDesc, MachineInstr.setReg, MachineInstr.addOperand])

/-- The opcodes of what `legalizeLshrShl` leaves. -/
theorem legalizeLshrShl_opcodes (MRI : MachineRegisterInfo) (MI : MachineInstr) :
    ∀ R, legalizeLshrShl (MachineIRBuilder.atInstr MRI) MI = Except.ok (Outcome.rewritten R) →
      ∀ C, C ∈ R.insts → C.Opcode ∈ [Opcode.G_CONSTANT, Opcode.G_LSHRE, Opcode.G_SHLE, Opcode.G_UNMERGE_VALUES,
      Opcode.G_MERGE_VALUES] := by
  unfold legalizeLshrShl
  dsimp only
  repeat' split
  all_goals
    intro R h
    first
    | exact False.elim h
    | exact Except.noConfusion h
    | exact Outcome.noConfusion h
    | exact Outcome.noConfusion (Except.ok.inj h)
    | (have h1 := Outcome.rewritten.inj (Except.ok.inj h)
       subst h1
       clear h
       apply insts_opcodes
       · dsimp only
         repeat (first
           | (with_reducible exact opcodesIn_atInstr _ _)
           | (with_reducible apply opcodesIn_buildConstant)
           | (with_reducible apply opcodesIn_buildUnmerge)
           | (with_reducible apply opcodesIn_buildMerge)
           | (with_reducible apply opcodesIn_shiftChain_1)
           | (with_reducible apply opcodesIn_buildInstr)
           | decide
           | (with_reducible exact List.mem_cons_self _ _)
           | (with_reducible apply List.mem_cons_of_mem))
       · intro M hM
         cases hM <;> simp [MachineInstr.setDesc, MachineInstr.setReg, MachineInstr.addOperand])

/-- The opcodes of what `legalizeRotl` leaves. -/
theorem legalizeRotl_opcodes (MRI : MachineRegisterInfo) (MI : MachineInstr) :
    ∀ R, legalizeRotl (MachineIRBuilder.atInstr MRI) MI = Outcome.rewritten R →
      ∀ C, C ∈ R.insts → C.Opcode ∈ [Opcode.G_CONSTANT, Opcode.G_ROTR] := by
  unfold legalizeRotl
  dsimp only
  repeat' split
  all_goals
    intro R h
    first
    | exact False.elim h
    | exact Except.noConfusion h
    | exact Outcome.noConfusion h
    | exact Outcome.noConfusion (Except.ok.inj h)
    | (have h1 := Outcome.rewritten.inj h
       subst h1
       clear h
       apply insts_opcodes
       · dsimp only
         repeat (first
           | (with_reducible exact opcodesIn_atInstr _ _)
           | (with_reducible apply opcodesIn_buildConstant)
           | decide
           | (with_reducible exact List.mem_cons_self _ _)
           | (with_reducible apply List.mem_cons_of_mem))
       · intro M hM
         cases hM <;> simp [MachineInstr.setDesc, MachineInstr.setReg, MachineInstr.addOperand])

/-- The opcodes of what `legalizeRotr` leaves. -/
theorem legalizeRotr_opcodes (MRI : MachineRegisterInfo) (MI : MachineInstr) :
    ∀ R, legalizeRotr (MachineIRBuilder.atInstr MRI) MI = Outcome.rewritten R →
      ∀ C, C ∈ R.insts → C.Opcode ∈ [Opcode.G_IMPLICIT_DEF, Opcode.G_LSHRE] := by
  unfold legalizeRotr
  dsimp only
  repeat' split
  all_goals
    intro R h
    first
    | exact False.elim h
    | exact Except.noConfusion h
    | exact Outcome.noConfusion h
    | exact Outcome.noConfusion (Except.ok.inj h)
    | (have h1 := Outcome.rewritten.inj h
       subst h1
       clear h
       apply insts_opcodes
       · dsimp only
         repeat (first
           | (with_reducible exact opcodesIn_atInstr _ _)
           | (with_reducible apply opcodesIn_buildUndef)
           | (with_reducible apply opcodesIn_buildInstr)
           | decide
           | (with_reducible exact List.mem_cons_self _ _)
           | (with_reducible apply List.mem_cons_of_mem))
       · intro M hM
         cases hM <;> simp [MachineInstr.setDesc, MachineInstr.setReg, MachineInstr.addOperand])

/-- The opcodes of what `legalizePtrAdd` leaves. -/
theorem legalizePtrAdd_opcodes (MRI : MachineRegisterInfo) (MI : MachineInstr) :
    ∀ R, legalizePtrAdd (MachineIRBuilder.atInstr MRI) MI = R →
      ∀ C, C ∈ R.insts → C.Opcode ∈ [Opcode.G_GLOBAL_VALUE, Opcode.G_ZEXT, Opcode.G_INDEX, Opcode.G_CONSTANT,
      Opcode.G_PTRTOINT, Opcode.G_ADD, Opcode.G_INTTOPTR] := by
  unfold legalizePtrAdd
  dsimp only
  repeat' split
  all_goals
    intro R h
    subst h
    apply insts_opcodes
    · dsimp only
      repeat (first
        | (with_reducible exact opcodesIn_atInstr _ _)
        | (with_reducible apply opcodesIn_buildZExt)
        | (with_reducible apply opcodesIn_buildConstant)
        | (with_reducible apply opcodesIn_buildPtrToInt)
        | (with_reducible apply opcodesIn_buildAdd)
        | (with_reducible apply opcodesIn_buildIntToPtr)
        | (with_reducible apply opcodesIn_insert)
        | decide
        | (with_reducible exact List.mem_cons_self _ _)
        | (with_reducible apply List.mem_cons_of_mem))
    · intro M hM
      cases hM <;> simp [MachineInstr.setDesc, MachineInstr.setReg, MachineInstr.addOperand]

/-- The opcodes of what `legalizeDynStackAlloc` leaves. -/
theorem legalizeDynStackAlloc_opcodes (RS0 : Register) (MRI : MachineRegisterInfo) (MI : MachineInstr) :
    ∀ R, legalizeDynStackAlloc RS0 (MachineIRBuilder.atInstr MRI) MI = Except.ok R →
      ∀ C, C ∈ R.insts → C.Opcode ∈ [Opcode.COPY, Opcode.G_PTRTOINT, Opcode.G_INTTOPTR, Opcode.G_BITCAST, Opcode.G_SUB,
      Opcode.G_CONSTANT, Opcode.G_AND, Opcode.G_UNMERGE_VALUES, Opcode.SetSPHi,
      Opcode.SetSPLo] := by
  unfold legalizeDynStackAlloc
  dsimp only
  repeat' split
  all_goals
    intro R h
    first
    | exact False.elim h
    | exact Except.noConfusion h
    | exact Outcome.noConfusion h
    | exact Outcome.noConfusion (Except.ok.inj h)
    | (have h1 := Except.ok.inj h
       subst h1
       clear h
       apply insts_opcodes
       · dsimp only
         repeat (first
           | (with_reducible exact opcodesIn_atInstr _ _)
           | (with_reducible apply opcodesIn_buildCopy)
           | (with_reducible apply opcodesIn_buildCast)
           | (with_reducible apply opcodesIn_buildSub)
           | (with_reducible apply opcodesIn_buildConstant)
           | (with_reducible apply opcodesIn_buildAnd)
           | (with_reducible apply opcodesIn_buildUnmerge)
           | (with_reducible apply opcodesIn_buildInstr)
           | decide
           | (with_reducible exact List.mem_cons_self _ _)
           | (with_reducible apply List.mem_cons_of_mem))
       · intro M hM
         cases hM <;> simp [MachineInstr.setDesc, MachineInstr.setReg, MachineInstr.addOperand])

/-- The opcodes of what `legalizeAddSubO` leaves. -/
theorem legalizeAddSubO_opcodes (MRI : MachineRegisterInfo) (MI : MachineInstr) :
    ∀ R, legalizeAddSubO (MachineIRBuilder.atInstr MRI) MI = Except.ok R →
      ∀ C, C ∈ R.insts → C.Opcode ∈ [Opcode.G_CONSTANT, Opcode.G_UADDE, Opcode.G_SADDE,
        Opcode.G_USUBE, Opcode.G_SSUBE] := by
  unfold legalizeAddSubO
  dsimp only
  split
  · intro R h
    exact Except.noConfusion h
  · rename_i Opc heq
    have hOpc : Opc ∈ [Opcode.G_CONSTANT, Opcode.G_UADDE, Opcode.G_SADDE,
        Opcode.G_USUBE, Opcode.G_SSUBE] := by
      split at heq
      all_goals first
        | exact Except.noConfusion heq
        | (have h1 := Except.ok.inj heq
           subst h1
           decide)
    intro R h
    have h1 := Except.ok.inj h
    subst h1
    clear h
    apply insts_opcodes
    · dsimp only
      apply opcodesIn_buildInstr _ _ _ _ _ _ hOpc
      apply opcodesIn_buildConstant _ _ _ _ (opcodesIn_atInstr _ _)
      decide
    · intro M hM
      cases hM

/-- The rules of the table for a comparison. -/
theorem MOSLegalizerInfo_icmp :
    (MOSLegalizerInfo Opcode.G_ICMP).Rules =
      [⟨LegalityPredicate.typePairInSet 0 1 [(S1, P), (S1, S8)], LegalizeAction.Custom⟩,
       ⟨LegalityPredicate.scalarNarrowerThan 1 8, LegalizeAction.WidenScalar⟩,
       ⟨LegalityPredicate.notByteSized 1, LegalizeAction.WidenScalar⟩,
       ⟨LegalityPredicate.always, LegalizeAction.Custom⟩] := rfl

/-- The types for which the table gives a comparison the action `Custom`: the
compared operands are pointers or integers of whole bytes. -/
theorem getAction_custom_icmp (T0 T1 : LLT)
    (h : getAction Opcode.G_ICMP [T0, T1] = Except.ok LegalizeAction.Custom) :
    T1.isPointer = true ∨ ∃ N, 1 ≤ N ∧ T1 = LLT.scalar (8 * N) := by
  unfold getAction LegalizeRuleSet.apply at h
  rw [MOSLegalizerInfo_icmp] at h
  cases T1 with
  | invalid =>
    simp [LegalizeRuleSet.applyRules, LegalityPredicate.eval, LLT.isScalar, S1, S8, P,
      LLT.getSizeInBits] at h
  | pointer a n => exact Or.inl rfl
  | scalar n =>
    right
    by_cases h8 : n < 8
    · simp [LegalizeRuleSet.applyRules, LegalityPredicate.eval, LLT.isScalar, S1, S8, P,
        LLT.getSizeInBits, h8] at h
      split at h <;> simp_all
    · by_cases hm : n % 8 = 0
      · exact ⟨n / 8, by omega, by congr 1; omega⟩
      · simp [LegalizeRuleSet.applyRules, LegalityPredicate.eval, LLT.isScalar, S1, S8, P,
          LLT.getSizeInBits, LLT.isByteSized, h8, hm] at h
        have hb : (n % 8 == 0) = false := by simpa using hm
        rw [hb] at h
        split at h <;> simp_all

/-- The rules of the table for the opcodes whose pointers are made integers. -/
theorem MOSLegalizerInfo_pointer_rules :
    (MOSLegalizerInfo Opcode.G_SELECT).Rules =
      [⟨LegalityPredicate.typeInSet 0 [P], LegalizeAction.Custom⟩,
       ⟨LegalityPredicate.typeInSet 0 [S1, S8], LegalizeAction.Legal⟩,
       ⟨LegalityPredicate.sizeNotPow2 0, LegalizeAction.WidenScalar⟩,
       ⟨LegalityPredicate.scalarNarrowerThan 0 8, LegalizeAction.WidenScalar⟩,
       ⟨LegalityPredicate.scalarWiderThan 0 8, LegalizeAction.NarrowScalar⟩,
       ⟨LegalityPredicate.always, LegalizeAction.Unsupported⟩] ∧
    (MOSLegalizerInfo Opcode.G_PHI).Rules = (MOSLegalizerInfo Opcode.G_SELECT).Rules ∧
    (MOSLegalizerInfo Opcode.G_LOAD).Rules =
      [⟨LegalityPredicate.typePairInSet 0 1 [(S8, P)], LegalizeAction.Legal⟩,
       ⟨LegalityPredicate.typePairInSet 0 1 [(P, P)], LegalizeAction.Custom⟩,
       ⟨LegalityPredicate.scalarNarrowerThan 0 8, LegalizeAction.WidenScalar⟩,
       ⟨LegalityPredicate.scalarWiderThan 0 8, LegalizeAction.NarrowScalar⟩,
       ⟨LegalityPredicate.always, LegalizeAction.Unsupported⟩] ∧
    (MOSLegalizerInfo Opcode.G_STORE).Rules = (MOSLegalizerInfo Opcode.G_LOAD).Rules :=
  ⟨rfl, rfl, rfl, rfl⟩

/-- The table gives a select, a phi, a load or a store the action `Custom` only
if the type of its first operand is the pointer type. -/
theorem getAction_custom_pointer (Opc : Opcode) (T0 : LLT) (Ts : List LLT)
    (hOpc : Opc = Opcode.G_SELECT ∨ Opc = Opcode.G_PHI ∨ Opc = Opcode.G_LOAD ∨
      Opc = Opcode.G_STORE)
    (h : getAction Opc (T0 :: Ts) = Except.ok LegalizeAction.Custom) : T0 = P := by
  unfold getAction LegalizeRuleSet.apply at h
  obtain ⟨h1, h2, h3, h4⟩ := MOSLegalizerInfo_pointer_rules
  rcases hOpc with rfl | rfl | rfl | rfl
  · rw [h1] at h
    by_contra hn
    simp [LegalizeRuleSet.applyRules, LegalityPredicate.eval, hn] at h
    repeat' split at h
    all_goals simp_all
  · rw [h2, h1] at h
    by_contra hn
    simp [LegalizeRuleSet.applyRules, LegalityPredicate.eval, hn] at h
    repeat' split at h
    all_goals simp_all
  · rw [h3] at h
    by_contra hn
    simp [LegalizeRuleSet.applyRules, LegalityPredicate.eval, hn] at h
    repeat' split at h
    all_goals simp_all
  · rw [h4, h3] at h
    by_contra hn
    simp [LegalizeRuleSet.applyRules, LegalityPredicate.eval, hn] at h
    repeat' split at h
    all_goals simp_all
/-- An instruction that a routine leaves is one that it built or the
instruction that it kept. -/
theorem insts_cases (R : LegalizeResult) (L : List Opcode) (hB : R.B.OpcodesIn L) :
    ∀ C, C ∈ R.insts → C.Opcode ∈ L ∨ R.MI = some C := by
  intro C hC
  simp only [LegalizeResult.insts, List.mem_append, Option.mem_toList, Option.mem_def] at hC
  rcases hC with (hC | hC) | hC
  · exact Or.inl (hB C (List.mem_append_left _ hC))
  · exact Or.inr hC
  · exact Or.inl (hB C (List.mem_append_right _ hC))

theorem getReg_setReg_zero (MI : MachineInstr) (d Reg : Register) (Ops : List MachineOperand)
    (h : MI.Operands = MachineOperand.reg d :: Ops) : (MI.setReg 0 Reg).getReg 0 = Reg := by
  simp [MachineInstr.setReg, MachineInstr.getReg, MachineInstr.getOperand, h]

theorem operands_setReg_succ (MI : MachineInstr) (d Reg : Register) (Ops : List MachineOperand)
    (k : Nat) (h : MI.Operands = MachineOperand.reg d :: Ops) :
    (MI.setReg (k + 1) Reg).Operands =
      MachineOperand.reg d :: Ops.set k (MachineOperand.reg Reg) := by
  simp [MachineInstr.setReg, h]

/-- What `legalizeSelect` keeps of a select of pointers: casts around it, and
the select itself with an integer in the place of its first operand. -/
theorem legalizeSelect_kept (V : List LLT) (I : List MachineInstr) (MI : MachineInstr)
    (d : Register) (Ops : List MachineOperand)
    (hOps : MI.Operands = MachineOperand.reg d :: Ops) :
    ∀ R, legalizeSelect (MachineIRBuilder.atInstr ⟨V, I⟩) MI = Except.ok R →
      R.B.OpcodesIn [Opcode.G_PTRTOINT, Opcode.G_INTTOPTR] ∧
      ((MachineRegisterInfo.mk V I).getType (MI.getReg 0)).isPointer = true ∧
      ∃ M, R.MI = some M ∧ (R.B.MRI.getType (M.getReg 0)).isScalar = true := by
  unfold legalizeSelect
  dsimp only
  split_ifs with h0 h1 h2 h3
  all_goals
    intro R h
    first
    | exact False.elim h
    | exact Except.noConfusion h
    | (have h1 := Except.ok.inj h
       subst h1
       clear h
       refine ⟨?_, ?_, _, rfl, ?_⟩
       · dsimp only
         repeat (first
           | (with_reducible exact opcodesIn_atInstr _ _)
           | (with_reducible apply opcodesIn_setInsertPtNext)
           | (with_reducible apply opcodesIn_buildPtrToInt)
           | (with_reducible apply opcodesIn_buildIntToPtr)
           | (with_reducible apply opcodesIn_mk)
           | decide)
       · have h0 := not_not.mp h0
         simp only [MachineIRBuilder.atInstr] at h0
         rw [h0]
         rfl
       · rw [getReg_setReg_zero _ d _ _
           (by rw [operands_setReg_succ _ d _ _ 2
             (by rw [operands_setReg_succ _ d _ _ 1 hOps])])]
         simp [MachineIRBuilder.buildIntToPtr, MachineIRBuilder.buildInstr, DstOp.addDefs,
           DstOp.addDef,
           MachineIRBuilder.insert, MachineIRBuilder.setInsertPtNext,
           MachineRegisterInfo.createGenericVirtualRegister, MachineRegisterInfo.getType,
           S16, LLT.isScalar])

/-- What `legalizeLoad` keeps: a cast after the load, and the load itself with
an integer in the place of its first operand. -/
theorem legalizeLoad_kept (V : List LLT) (I : List MachineInstr) (MI : MachineInstr)
    (d : Register) (Ops : List MachineOperand)
    (hOps : MI.Operands = MachineOperand.reg d :: Ops) :
    (legalizeLoad (MachineIRBuilder.atInstr ⟨V, I⟩) MI).B.OpcodesIn [Opcode.G_INTTOPTR] ∧
    ∃ M, (legalizeLoad (MachineIRBuilder.atInstr ⟨V, I⟩) MI).MI = some M ∧
      ((legalizeLoad (MachineIRBuilder.atInstr ⟨V, I⟩) MI).B.MRI.getType
        (M.getReg 0)).isScalar = true := by
  unfold legalizeLoad
  dsimp only
  refine ⟨?_, _, rfl, ?_⟩
  · repeat (first
      | (with_reducible exact opcodesIn_atInstr _ _)
      | (with_reducible apply opcodesIn_setInsertPtNext)
      | (with_reducible apply opcodesIn_buildIntToPtr)
      | (with_reducible apply opcodesIn_mk)
      | decide)
  · rw [getReg_setReg_zero _ d _ _ hOps]
    simp [MachineIRBuilder.buildIntToPtr, MachineIRBuilder.buildInstr, DstOp.addDefs,
      DstOp.addDef, MachineIRBuilder.insert, MachineIRBuilder.setInsertPtNext,
      MachineIRBuilder.atInstr,
      MachineRegisterInfo.createGenericVirtualRegister, MachineRegisterInfo.getType,
      LLT.isScalar]

/-- What `legalizeStore` keeps: a cast before the store, and the store itself
with an integer in the place of its first operand. -/
theorem legalizeStore_kept (V : List LLT) (I : List MachineInstr) (MI : MachineInstr)
    (d : Register) (Ops : List MachineOperand)
    (hOps : MI.Operands = MachineOperand.reg d :: Ops) :
    (legalizeStore (MachineIRBuilder.atInstr ⟨V, I⟩) MI).B.OpcodesIn [Opcode.G_PTRTOINT] ∧
    ∃ M, (legalizeStore (MachineIRBuilder.atInstr ⟨V, I⟩) MI).MI = some M ∧
      ((legalizeStore (MachineIRBuilder.atInstr ⟨V, I⟩) MI).B.MRI.getType
        (M.getReg 0)).isScalar = true := by
  unfold legalizeStore
  dsimp only
  refine ⟨?_, _, rfl, ?_⟩
  · repeat (first
      | (with_reducible exact opcodesIn_atInstr _ _)
      | (with_reducible apply opcodesIn_buildPtrToInt)
      | (with_reducible apply opcodesIn_mk)
      | decide)
  · rw [getReg_setReg_zero _ d _ _ hOps]
    simp [MachineIRBuilder.buildPtrToInt, MachineIRBuilder.buildInstr, DstOp.addDefs,
      DstOp.addDef, MachineIRBuilder.insert, MachineIRBuilder.atInstr,
      MachineRegisterInfo.createGenericVirtualRegister, MachineRegisterInfo.getType,
      MachineInstr.getReg, MachineInstr.getOperand, LLT.isScalar]
/-- Every comparison that `legalizeICmp` leaves of a comparison of pointers or
of integers of whole bytes is smaller than it in the order `icmpLt`. -/
theorem legalizeICmp_decreases (V : List LLT) (I : List MachineInstr)
    (Dst LHS RHS : Nat) (p : Predicate) (Ty : LLT)
    (hTyL : (MachineRegisterInfo.mk V I).getType LHS = Ty)
    (hTyR : (MachineRegisterInfo.mk V I).getType RHS = Ty)
    (hTy : Ty.isPointer = true ∨ ∃ N, 1 ≤ N ∧ Ty = LLT.scalar (8 * N)) :
    ∃ R, legalizeICmp (MachineIRBuilder.atInstr ⟨V, I⟩) (mkICmp p Dst LHS RHS) =
        Except.ok R ∧
      ∀ C, C ∈ R.insts → C.Opcode = Opcode.G_ICMP → icmpLt (icmpKey R.B.MRI C) (Ty, p) := by
  have hL : LHS < V.length := by
    apply getType_lt_of_ne_invalid V I
    rw [hTyL]
    rcases hTy with h | ⟨N, -, rfl⟩
    · intro h0; rw [h0] at h; simp [LLT.isPointer] at h
    · simp
  have hcls : (p = Predicate.ICMP_NE ∨ p = Predicate.ICMP_ULT ∨ p = Predicate.ICMP_SGE) ∨
      (p = Predicate.ICMP_ULE ∨ p = Predicate.ICMP_UGT ∨ p = Predicate.ICMP_SLE ∨
        p = Predicate.ICMP_SGT) ∨
      (p = Predicate.ICMP_EQ ∨ p = Predicate.ICMP_UGE ∨ p = Predicate.ICMP_SLT) := by
    cases p <;> simp
  rcases hcls with hp | hp | hp
  · exact legalizeICmp_decreases_negate V I Dst LHS RHS p Ty hp hTyL hL
  · exact legalizeICmp_decreases_swap ⟨V, I⟩ Dst LHS RHS p Ty hp hTyR
  · rcases hTy with h | ⟨N, hN, rfl⟩
    · exact legalizeICmp_decreases_pointer V I Dst LHS RHS p Ty hp hTyL h
    · exact legalizeICmp_decreases_scalar V I Dst LHS RHS N p hN hp hTyL hTyR

/-- A comparison that `legalizeICmp` leaves at the operand widths of the
comparison it was given has a predicate of lower rank, or compares integers
where the given one compares pointers. -/
theorem legalizeICmp_changes (V : List LLT) (I : List MachineInstr) (MI : MachineInstr)
    (hWF : MI.wellFormed ⟨V, I⟩ = true) (hOpc : MI.Opcode = Opcode.G_ICMP)
    (hCustom : getAction Opcode.G_ICMP (getTypes ⟨V, I⟩ MI) = Except.ok LegalizeAction.Custom) :
    ∀ R, legalizeICmp (MachineIRBuilder.atInstr ⟨V, I⟩) MI = Except.ok R →
      ∀ C, C ∈ R.insts → C.Opcode = MI.Opcode →
        operandWidths R.B.MRI C = operandWidths ⟨V, I⟩ MI →
        ChangedInKind ⟨V, I⟩ MI R.B.MRI C := by
  obtain ⟨Opc, Ops⟩ := MI
  dsimp only at hOpc
  subst hOpc
  simp only [MachineInstr.wellFormed] at hWF
  split at hWF
  · rename_i d p a b
    have hab : (MachineRegisterInfo.mk V I).getType a = (MachineRegisterInfo.mk V I).getType b :=
      by simpa using hWF
    have hT : getTypes ⟨V, I⟩ ⟨Opcode.G_ICMP, [MachineOperand.reg d, MachineOperand.predicate p,
        MachineOperand.reg a, MachineOperand.reg b]⟩ =
        [(MachineRegisterInfo.mk V I).getType d, (MachineRegisterInfo.mk V I).getType a] := by
      simp [getTypes, MachineInstr.getReg, MachineInstr.getOperand]
    rw [hT] at hCustom
    have hTy := getAction_custom_icmp _ _ hCustom
    obtain ⟨R0, hR0, hdec⟩ := legalizeICmp_decreases V I d a b p _ rfl hab.symm hTy
    intro R hR C hC hop hw
    have hRR : R0 = R := Except.ok.inj (hR0.symm.trans hR)
    subst hRR
    dsimp only at hop
    have hlt := hdec C hC hop
    have hw2 : (R0.B.MRI.getType (C.getReg 2)).getSizeInBits =
        ((MachineRegisterInfo.mk V I).getType a).getSizeInBits := by
      have hTC : getTypes R0.B.MRI C =
          [R0.B.MRI.getType (C.getReg 0), R0.B.MRI.getType (C.getReg 2)] := by
        simp [getTypes, hop]
      simp only [operandWidths, hT, hTC, List.map_cons, List.map_nil, List.cons.injEq,
        and_true] at hw
      exact hw.2
    rcases hlt with ⟨hs, hlt⟩ | ⟨-, hlt⟩
    · rcases hlt with hptr | ⟨hsc, hbytes⟩
      · right
        exact ⟨2, by simpa [MachineInstr.getReg, MachineInstr.getOperand] using hptr, hs⟩
      · exfalso
        simp only [icmpKey] at hbytes
        unfold LLT.getSizeInBytes at hbytes
        rw [hw2] at hbytes
        exact absurd hbytes (lt_irrefl _)
    · left
      refine ⟨hop, ?_⟩
      simpa [icmpKey, MachineInstr.getPredicate, MachineInstr.getOperand] using hlt
  · exact absurd hWF (by simp)
/-- The instructions of a function of which one block is replaced. -/
theorem mem_flatMap_set (Bs : List MachineBasicBlock) (n : Nat) (NewB : MachineBasicBlock)
    (X : MachineInstr)
    (h : ∀ C, C ∈ NewB.Insts → C ∈ (Bs.getD n ⟨[]⟩).Insts ∨ C = X) :
    ∀ C, C ∈ (Bs.set n NewB).flatMap (fun MBB => MBB.Insts) →
      C ∈ Bs.flatMap (fun MBB => MBB.Insts) ∨ C = X := by
  intro C hC
  rw [List.mem_flatMap] at hC
  obtain ⟨MBB, hMBB, hCM⟩ := hC
  rcases List.mem_or_eq_of_mem_set hMBB with hM | hM
  · exact Or.inl (List.mem_flatMap.mpr ⟨MBB, hM, hCM⟩)
  · subst hM
    rcases h C hCM with h1 | h1
    · left
      by_cases hn : n < Bs.length
      · rw [List.getD_eq_getElem _ _ hn] at h1
        exact List.mem_flatMap.mpr ⟨Bs[n], List.getElem_mem _, h1⟩
      · rw [List.getD_eq_default _ _ (by omega)] at h1
        simp at h1
    · exact Or.inr h1

theorem mem_insertInBlock (Bs : List MachineBasicBlock) (Block Pos : Nat) (X : MachineInstr) :
    ∀ C, C ∈ (insertInBlock Bs Block Pos X).flatMap (fun MBB => MBB.Insts) →
      C ∈ Bs.flatMap (fun MBB => MBB.Insts) ∨ C = X := by
  unfold insertInBlock
  apply mem_flatMap_set
  intro C hC
  simp only [MachineBasicBlock.insert, List.mem_append, List.mem_cons] at hC
  rcases hC with hC | hC | hC
  · exact Or.inl (List.mem_of_mem_take hC)
  · exact Or.inr hC
  · exact Or.inl (List.mem_of_mem_drop hC)

/-- The loop of `legalizePhi` adds casts to integers to the function and keeps
the first operand of the phi. -/
theorem phiCast_foldl (Parent : Nat) (Old : List MachineInstr) (Ks : List Nat) :
    ∀ (S : MachineRegisterInfo × List MachineBasicBlock × Nat × MachineInstr),
      (∀ C, C ∈ S.2.1.flatMap (fun MBB => MBB.Insts) → C ∈ Old ∨ C.Opcode = Opcode.G_PTRTOINT) →
      (∃ d Ops, S.2.2.2.Operands = MachineOperand.reg d :: Ops) →
      (∀ C, C ∈ ((Ks.map (fun k => 2 * k + 1)).foldl (phiCast Parent) S).2.1.flatMap
          (fun MBB => MBB.Insts) → C ∈ Old ∨ C.Opcode = Opcode.G_PTRTOINT) ∧
      (∃ d Ops, ((Ks.map (fun k => 2 * k + 1)).foldl (phiCast Parent) S).2.2.2.Operands =
        MachineOperand.reg d :: Ops) := by
  induction Ks with
  | nil => intro S h1 h2; exact ⟨h1, h2⟩
  | cons k Ks ih =>
    intro S h1 h2
    rw [List.map_cons, List.foldl_cons]
    apply ih
    · intro C hC
      simp only [phiCast] at hC
      rcases mem_insertInBlock _ _ _ _ C hC with hC | hC
      · exact h1 C hC
      · right
        rw [hC]
        rfl
    · obtain ⟨d, Ops, hOps⟩ := h2
      exact ⟨d, _, operands_setReg_succ _ d _ Ops (2 * k) hOps⟩

/-- What `legalizePhi` leaves in the function: what was there, casts, and the
phi, whose first operand is a fresh integer. -/
theorem legalizePhi_kept (V : List LLT) (I : List MachineInstr)
    (Blocks : List MachineBasicBlock) (Parent Idx : Nat) (MI : MachineInstr)
    (d : Register) (Ops : List MachineOperand)
    (hOps : MI.Operands = MachineOperand.reg d :: Ops) :
    (∀ C, C ∈ (legalizePhi ⟨V, I⟩ Blocks Parent Idx MI).Blocks.flatMap (fun MBB => MBB.Insts) →
      C ∈ Blocks.flatMap (fun MBB => MBB.Insts) ∨ C.Opcode = Opcode.G_PTRTOINT ∨
        C.Opcode = Opcode.G_INTTOPTR ∨ C = (legalizePhi ⟨V, I⟩ Blocks Parent Idx MI).MI) ∧
    ((legalizePhi ⟨V, I⟩ Blocks Parent Idx MI).MRI.getType
      ((legalizePhi ⟨V, I⟩ Blocks Parent Idx MI).MI.getReg 0)).isScalar = true := by
  obtain ⟨hA, d1, Ops1, hB⟩ := phiCast_foldl Parent (Blocks.flatMap (fun MBB => MBB.Insts))
    (List.range (MI.getNumOperands / 2)) (⟨V, I⟩, Blocks, Idx, MI) (fun C hC => Or.inl hC)
    ⟨d, Ops, hOps⟩
  unfold legalizePhi
  dsimp only
  constructor
  · intro C hC
    rcases mem_flatMap_set _ _ _ _ (fun C hC => (List.mem_or_eq_of_mem_set hC)) C hC with hC | hC
    · rcases mem_insertInBlock _ _ _ _ C hC with hC | hC
      · rcases hA C hC with hC | hC
        · exact Or.inl hC
        · exact Or.inr (Or.inl hC)
      · right; right; left
        rw [hC]
        rfl
    · exact Or.inr (Or.inr (Or.inr hC))
  · rw [getReg_setReg_zero _ d1 _ Ops1 hB]
    simp [MachineIRBuilder.buildIntToPtr, MachineIRBuilder.buildInstr, DstOp.addDefs,
      DstOp.addDef, MachineIRBuilder.insert, MachineIRBuilder.atInstr,
      MachineRegisterInfo.createGenericVirtualRegister, MachineRegisterInfo.getType,
      S16, LLT.isScalar]
theorem wellFormed_first (MRI : MachineRegisterInfo) (MI : MachineInstr)
    (h : MI.wellFormed MRI = true) : ∃ d Ops, MI.Operands = MachineOperand.reg d :: Ops := by
  unfold MachineInstr.wellFormed at h
  split at h <;> split at h
  all_goals first
    | exact ⟨_, _, by assumption⟩
    | exact Bool.noConfusion h

/-! ## Dynamic stack allocation -/

theorem legalizeDynStackAlloc_aligned_insts (RS0 : Nat) (V : List LLT)
    (I : List MachineInstr) (Dst AllocSize : Nat) (Align : Int) (A : Nat)
    (hDst : (MachineRegisterInfo.mk V I).getType Dst = P)
    (hA : assumeAligned Align = Except.ok A) (h1 : 1 < A) :
    legalizeDynStackAlloc RS0 (MachineIRBuilder.atInstr ⟨V, I⟩)
        (mkDynStackAlloc Dst AllocSize Align) =
      Except.ok
        { B := { MRI := ⟨V ++ [P, S16, S16, S16, S16, P, S8, S8], I⟩
                 Before := dynStackAllocAligned RS0 Dst AllocSize V.length
                   (constantBits 16 (constantBits 16 (-(constantBits 16 A : Int)) : Int))
                 After := []
                 PastMI := false }
          MI := none
          Legalized := true } := by
  have hDst1 : V[Dst]?.getD LLT.invalid = LLT.pointer 0 16 := by
    simpa [MachineRegisterInfo.getType, List.getD_eq_getElem?_getD, P] using hDst
  simp [legalizeDynStackAlloc, mkDynStackAlloc, MachineInstr.getImm, hA, h1,
    MachineIRBuilder.atInstr, MachineIRBuilder.buildCopy, MachineIRBuilder.buildCast,
    MachineIRBuilder.buildSub, MachineIRBuilder.buildConstant, MachineIRBuilder.buildAnd,
    MachineIRBuilder.buildUnmerge,
    MachineIRBuilder.buildInstr, MachineIRBuilder.insert, DstOp.addDefs, DstOp.addDef,
    DstOp.getLLTTy,
    MachineRegisterInfo.createGenericVirtualRegister, MachineInstr.getReg,
    MachineInstr.getOperand, hDst1, dynStackAllocAligned,
    MachineRegisterInfo.getType, List.getD_eq_getElem?_getD, List.getElem?_append_right,
    List.getElem_append_right,
    P, S16, S8, LLT.getSizeInBits, LLT.isPointer, LLT.isScalar]

theorem legalizeDynStackAlloc_plain_insts (RS0 : Nat) (V : List LLT)
    (I : List MachineInstr) (Dst AllocSize : Nat) (Align : Int)
    (hDst : (MachineRegisterInfo.mk V I).getType Dst = P)
    (hA : assumeAligned Align = Except.ok 1) :
    legalizeDynStackAlloc RS0 (MachineIRBuilder.atInstr ⟨V, I⟩)
        (mkDynStackAlloc Dst AllocSize Align) =
      Except.ok
        { B := { MRI := ⟨V ++ [P, S16, S16, P, S8, S8], I⟩
                 Before := dynStackAllocPlain RS0 Dst AllocSize V.length
                 After := []
                 PastMI := false }
          MI := none
          Legalized := true } := by
  have hDst1 : V[Dst]?.getD LLT.invalid = LLT.pointer 0 16 := by
    simpa [MachineRegisterInfo.getType, List.getD_eq_getElem?_getD, P] using hDst
  simp [legalizeDynStackAlloc, mkDynStackAlloc, MachineInstr.getImm, hA,
    MachineIRBuilder.atInstr, MachineIRBuilder.buildCopy, MachineIRBuilder.buildCast,
    MachineIRBuilder.buildSub, MachineIRBuilder.buildUnmerge,
    MachineIRBuilder.buildInstr, MachineIRBuilder.insert, DstOp.addDefs, DstOp.addDef,
    DstOp.getLLTTy,
    MachineRegisterInfo.createGenericVirtualRegister, MachineInstr.getReg,
    MachineInstr.getOperand, hDst1, dynStackAllocPlain,
    MachineRegisterInfo.getType, List.getD_eq_getElem?_getD, List.getElem?_append_right,
    List.getElem_append_right,
    P, S16, S8, LLT.getSizeInBits, LLT.isPointer, LLT.isScalar]

theorem execStep_COPY (RS0 : Nat) (MRI : MachineRegisterInfo) (S : MachineState) (d s : Nat) :
    execStep RS0 MRI S ⟨Opcode.COPY, [.reg d, .reg s]⟩ =
      some { S with Regs := S.Regs.set d (S.Regs s) } := rfl

theorem execStep_PTRTOINT (RS0 : Nat) (MRI : MachineRegisterInfo) (S : MachineState)
    (d s : Nat) :
    execStep RS0 MRI S ⟨Opcode.G_PTRTOINT, [.reg d, .reg s]⟩ =
      some { S with Regs := S.Regs.set d (S.Regs s % 2 ^ (MRI.getType d).getSizeInBits) } := rfl

theorem execStep_INTTOPTR (RS0 : Nat) (MRI : MachineRegisterInfo) (S : MachineState)
    (d s : Nat) :
    execStep RS0 MRI S ⟨Opcode.G_INTTOPTR, [.reg d, .reg s]⟩ =
      some { S with Regs := S.Regs.set d (S.Regs s % 2 ^ (MRI.getType d).getSizeInBits) } := rfl

theorem execStep_SUB (RS0 : Nat) (MRI : MachineRegisterInfo) (S : MachineState)
    (d a b : Nat) :
    execStep RS0 MRI S ⟨Opcode.G_SUB, [.reg d, .reg a, .reg b]⟩ =
      some { S with Regs := S.Regs.set d ((((S.Regs a : Int) - (S.Regs b : Int)) %
        (2 : Int) ^ (MRI.getType d).getSizeInBits).toNat) } := rfl

theorem execStep_CONSTANT (RS0 : Nat) (MRI : MachineRegisterInfo) (S : MachineState)
    (d v : Nat) :
    execStep RS0 MRI S ⟨Opcode.G_CONSTANT, [.reg d, .cimm v]⟩ =
      some { S with Regs := S.Regs.set d v } := rfl

theorem execStep_AND (RS0 : Nat) (MRI : MachineRegisterInfo) (S : MachineState)
    (d a b : Nat) :
    execStep RS0 MRI S ⟨Opcode.G_AND, [.reg d, .reg a, .reg b]⟩ =
      some { S with Regs := S.Regs.set d ((S.Regs a &&& S.Regs b) %
        2 ^ (MRI.getType d).getSizeInBits) } := rfl

theorem execStep_UNMERGE_two (RS0 : Nat) (MRI : MachineRegisterInfo) (S : MachineState)
    (lo hi s : Nat) :
    execStep RS0 MRI S ⟨Opcode.G_UNMERGE_VALUES, [.reg lo, .reg hi, .reg s]⟩ =
      some ⟨(S.Regs.set lo (S.Regs s % 2 ^ (MRI.getType lo).getSizeInBits)).set hi
        (S.Regs s / 2 ^ (MRI.getType lo).getSizeInBits % 2 ^ (MRI.getType lo).getSizeInBits),
        S.Mem⟩ := rfl

theorem execStep_SetSPHi (RS0 : Nat) (MRI : MachineRegisterInfo) (S : MachineState) (h : Nat) :
    execStep RS0 MRI S ⟨Opcode.SetSPHi, [.reg h]⟩ =
      some { S with Regs := S.Regs.set RS0 (S.Regs h % 256 * 256 + S.Regs RS0 % 256) } := rfl

theorem execStep_SetSPLo (RS0 : Nat) (MRI : MachineRegisterInfo) (S : MachineState) (l : Nat) :
    execStep RS0 MRI S ⟨Opcode.SetSPLo, [.reg l]⟩ =
      some { S with Regs := S.Regs.set RS0 (S.Regs RS0 / 256 % 256 * 256 + S.Regs l % 256) } :=
  rfl

theorem execSteps_append (RS0 : Nat) (MRI : MachineRegisterInfo) (Is Js : List MachineInstr) :
    ∀ S, execSteps RS0 MRI S (Is ++ Js) =
      (execSteps RS0 MRI S Is).bind (fun S1 => execSteps RS0 MRI S1 Js) := by
  induction Is with
  | nil => intro S; rfl
  | cons X Is ih =>
    intro S
    simp only [List.cons_append, execSteps]
    cases execStep RS0 MRI S X with
    | none => rfl
    | some S1 => exact ih S1

theorem assumeAligned_zero : assumeAligned 0 = Except.ok 1 := rfl

theorem assumeAligned_pow (k : Nat) (hk : k < 64) :
    assumeAligned ((2 : Int) ^ k) = Except.ok (2 ^ k) := by
  have h1 : (((2 : Int) ^ k) % 2 ^ 64).toNat = 2 ^ k := by
    have h2 : (2 : Int) ^ k < 2 ^ 64 := by
      exact_mod_cast Nat.pow_lt_pow_right (by norm_num) hk
    rw [Int.emod_eq_of_lt (by positivity) h2]
    exact_mod_cast Int.toNat_natCast (2 ^ k)
  have h3 : (2 : Nat) ^ k ≠ 0 := by positivity
  have h4 : (2 : Nat) ^ k &&& (2 ^ k - 1) = 0 := by
    rw [Nat.and_pow_two_sub_one_eq_mod, Nat.mod_self]
  have h5 : isPowerOf2_64 (2 ^ k) = true := by simp [isPowerOf2_64, h4]
  unfold assumeAligned
  dsimp only
  rw [h1, if_neg h3, if_pos h5]

/-- The mask of `legalizeDynStackAlloc` for an alignment that is a power of 2. -/
theorem alignMask_eq (k : Nat) :
    constantBits 16 ((constantBits 16 (-((constantBits 16 (((2 : Nat) ^ k : Nat) : Int) : Nat) :
      Int)) : Nat) : Int) = 2 ^ 16 - 2 ^ k := by
  by_cases hk : k ≤ 16
  · interval_cases k <;> rfl
  · have h1 : (2 : Nat) ^ 16 ≤ 2 ^ k := Nat.pow_le_pow_right (by norm_num) (by omega)
    have h2 : constantBits 16 (((2 : Nat) ^ k : Nat) : Int) = 0 := by
      unfold constantBits
      have h3 : (((2 : Nat) ^ k : Nat) : Int) % (2 : Int) ^ 16 = 0 := by
        have : (2 : Nat) ^ k % 2 ^ 16 = 0 :=
          Nat.mod_eq_zero_of_dvd (Nat.pow_dvd_pow 2 (by omega))
        exact_mod_cast this
      rw [h3]
      rfl
    rw [h2, Nat.sub_eq_zero_of_le h1]
    rfl

theorem dvd_and_mask (X k : Nat) : 2 ^ k ∣ X &&& (2 ^ 16 - 2 ^ k) := by
  by_cases hk : k ≤ 16
  · have h1 : (2 : Nat) ^ 16 - 2 ^ k = 2 ^ k * (2 ^ (16 - k) - 1) := by
      rw [Nat.mul_sub, ← Nat.pow_add, Nat.mul_one]
      congr 2
      omega
    rw [h1]
    apply Nat.dvd_of_mod_eq_zero
    apply Nat.eq_of_testBit_eq
    intro i
    simp only [Nat.testBit_mod_two_pow, Nat.testBit_and, Nat.testBit_mul_pow_two,
      Nat.zero_testBit]
    by_cases hi : i < k
    · have : ¬ (k ≤ i) := by omega
      simp [hi, this]
    · simp [hi]
  · have h1 : (2 : Nat) ^ 16 ≤ 2 ^ k := Nat.pow_le_pow_right (by norm_num) (by omega)
    rw [Nat.sub_eq_zero_of_le h1, Nat.and_zero]
    exact dvd_zero _

theorem allocAsStated_lt (SP n A : Nat) : allocAsStated SP n A < 2 ^ 16 := by
  unfold allocAsStated
  have h1 : (((SP : Int) - (n : Int)) % (2 : Int) ^ 16).toNat < 2 ^ 16 := by
    have h2 := Int.emod_lt_of_pos ((SP : Int) - (n : Int)) (show (0 : Int) < 2 ^ 16 by norm_num)
    have h3 := Int.emod_nonneg ((SP : Int) - (n : Int)) (show (2 : Int) ^ 16 ≠ 0 by norm_num)
    omega
  exact lt_of_le_of_lt Nat.and_le_left h1

theorem allocAsStated_one (SP n : Nat) :
    allocAsStated SP n 1 = (((SP : Int) - (n : Int)) % (2 : Int) ^ 16).toNat := by
  unfold allocAsStated
  have h1 : (((SP : Int) - (n : Int)) % (2 : Int) ^ 16).toNat < 2 ^ 16 := by
    have h2 := Int.emod_lt_of_pos ((SP : Int) - (n : Int)) (show (0 : Int) < 2 ^ 16 by norm_num)
    have h3 := Int.emod_nonneg ((SP : Int) - (n : Int)) (show (2 : Int) ^ 16 ≠ 0 by norm_num)
    omega
  rw [Nat.and_pow_two_sub_one_eq_mod, Nat.mod_eq_of_lt h1]
/-- The last three instructions of the sequence: the two writes of the stack
pointer, the high byte first, and the copy to the destination. -/
theorem dynStackAlloc_tail_exec (RS0 Dst p lo hi : Nat) (MRI : MachineRegisterInfo)
    (S : MachineState) (F : Nat) (hp : S.Regs p = F) (hlo : S.Regs lo = F % 256)
    (hhi : S.Regs hi = F / 256 % 256) (hF : F < 2 ^ 16) (h1 : lo ≠ RS0) (h2 : p ≠ RS0)
    (h3 : Dst ≠ RS0) :
    ∃ Sm S2 S1,
      execStep RS0 MRI S ⟨Opcode.SetSPHi, [.reg hi]⟩ = some Sm ∧
      Sm.Regs RS0 = F / 256 * 256 + S.Regs RS0 % 256 ∧
      execStep RS0 MRI Sm ⟨Opcode.SetSPLo, [.reg lo]⟩ = some S2 ∧ S2.Regs RS0 = F ∧
      execStep RS0 MRI S2 ⟨Opcode.COPY, [.reg Dst, .reg p]⟩ = some S1 ∧
      S1.Regs RS0 = F ∧ S1.Regs Dst = F ∧ S1.Mem = S.Mem := by
  refine ⟨_, _, _, execStep_SetSPHi _ _ _ _, ?_, execStep_SetSPLo _ _ _ _, ?_,
    execStep_COPY _ _ _ _ _, ?_, ?_, rfl⟩
  · simp only [Env.set_eq, hhi]
    omega
  · simp only [Env.set_eq, Env.set_ne _ _ h1, hhi, hlo]
    omega
  · simp only [Env.set_eq, Env.set_ne _ _ h1, Env.set_ne _ _ h3.symm, hhi, hlo]
    omega
  · simp only [Env.set_eq, Env.set_ne _ _ h1, Env.set_ne _ _ h2, hp]
theorem sub16_lt (SP n : Nat) : (((SP : Int) - (n : Int)) % (2 : Int) ^ 16).toNat < 2 ^ 16 := by
  have h2 := Int.emod_lt_of_pos ((SP : Int) - (n : Int)) (show (0 : Int) < 2 ^ 16 by norm_num)
  have h3 := Int.emod_nonneg ((SP : Int) - (n : Int)) (show (2 : Int) ^ 16 ≠ 0 by norm_num)
  omega

/-- The instructions before the writes of the stack pointer, with a mask. -/
theorem dynStackAlloc_prefix_aligned (RS0 AllocSize c Mask : Nat) (MRI : MachineRegisterInfo)
    (S : MachineState)
    (hW1 : (MRI.getType (c + 1)).getSizeInBits = 16)
    (hW2 : (MRI.getType (c + 2)).getSizeInBits = 16)
    (hW4 : (MRI.getType (c + 4)).getSizeInBits = 16)
    (hW5 : (MRI.getType (c + 5)).getSizeInBits = 16)
    (hW6 : (MRI.getType (c + 6)).getSizeInBits = 8)
    (hRS0 : c + 8 ≤ RS0) (hSz : AllocSize < c) (hSP : S.Regs RS0 < 2 ^ 16) :
    ∃ S0, execSteps RS0 MRI S ((dynStackAllocAligned RS0 0 AllocSize c Mask).take 7) = some S0 ∧
      S0.Regs RS0 = S.Regs RS0 ∧
      S0.Regs (c + 5) =
        (((S.Regs RS0 : Int) - (S.Regs AllocSize : Int)) % (2 : Int) ^ 16).toNat &&& Mask ∧
      S0.Regs (c + 6) =
        ((((S.Regs RS0 : Int) - (S.Regs AllocSize : Int)) % (2 : Int) ^ 16).toNat &&& Mask) %
          256 ∧
      S0.Regs (c + 7) =
        ((((S.Regs RS0 : Int) - (S.Regs AllocSize : Int)) % (2 : Int) ^ 16).toNat &&& Mask) /
          256 % 256 ∧
      S0.Mem = S.Mem := by
  have hX := sub16_lt (S.Regs RS0) (S.Regs AllocSize)
  have hF : (((S.Regs RS0 : Int) - (S.Regs AllocSize : Int)) % (2 : Int) ^ 16).toNat &&& Mask <
      2 ^ 16 := lt_of_le_of_lt Nat.and_le_left hX
  refine ⟨_, rfl, ?_, ?_, ?_, ?_, ?_⟩
  · simp (disch := omega) only [unmergeInto, Env.set_ne]
  · simp (disch := omega) only [unmergeInto, Env.set_ne, Env.set_eq, hW1, hW2, hW4, hW5,
      Nat.mod_eq_of_lt hSP, Nat.mod_eq_of_lt hF]
  · simp (disch := omega) only [unmergeInto, Env.set_ne, Env.set_eq, hW1, hW2, hW4, hW5, hW6,
      Nat.mod_eq_of_lt hSP, Nat.mod_eq_of_lt hF]
    norm_num
    simp (disch := omega) only [Env.set_eq, Env.set_ne]
  · simp (disch := omega) only [unmergeInto, Env.set_ne, Env.set_eq, hW1, hW2, hW4, hW5, hW6,
      Nat.mod_eq_of_lt hSP, Nat.mod_eq_of_lt hF]
    norm_num
    simp (disch := omega) only [Env.set_eq, Env.set_ne]
  · rfl
/-- The instructions before the writes of the stack pointer, without a mask. -/
theorem dynStackAlloc_prefix_plain (RS0 AllocSize c : Nat) (MRI : MachineRegisterInfo)
    (S : MachineState)
    (hW1 : (MRI.getType (c + 1)).getSizeInBits = 16)
    (hW2 : (MRI.getType (c + 2)).getSizeInBits = 16)
    (hW3 : (MRI.getType (c + 3)).getSizeInBits = 16)
    (hW4 : (MRI.getType (c + 4)).getSizeInBits = 8)
    (hRS0 : c + 8 ≤ RS0) (hSz : AllocSize < c) (hSP : S.Regs RS0 < 2 ^ 16) :
    ∃ S0, execSteps RS0 MRI S ((dynStackAllocPlain RS0 0 AllocSize c).take 5) = some S0 ∧
      S0.Regs RS0 = S.Regs RS0 ∧
      S0.Regs (c + 3) =
        (((S.Regs RS0 : Int) - (S.Regs AllocSize : Int)) % (2 : Int) ^ 16).toNat ∧
      S0.Regs (c + 4) =
        (((S.Regs RS0 : Int) - (S.Regs AllocSize : Int)) % (2 : Int) ^ 16).toNat % 256 ∧
      S0.Regs (c + 5) =
        (((S.Regs RS0 : Int) - (S.Regs AllocSize : Int)) % (2 : Int) ^ 16).toNat / 256 % 256 ∧
      S0.Mem = S.Mem := by
  have hX := sub16_lt (S.Regs RS0) (S.Regs AllocSize)
  refine ⟨_, rfl, ?_, ?_, ?_, ?_, ?_⟩
  · simp (disch := omega) only [unmergeInto, Env.set_ne]
  · simp (disch := omega) only [unmergeInto, Env.set_ne, Env.set_eq, hW1, hW2, hW3,
      Nat.mod_eq_of_lt hSP, Nat.mod_eq_of_lt hX]
  · simp (disch := omega) only [unmergeInto, Env.set_ne, Env.set_eq, hW1, hW2, hW3, hW4,
      Nat.mod_eq_of_lt hSP, Nat.mod_eq_of_lt hX]
    norm_num
    simp (disch := omega) only [Env.set_eq, Env.set_ne]
  · simp (disch := omega) only [unmergeInto, Env.set_ne, Env.set_eq, hW1, hW2, hW3, hW4,
      Nat.mod_eq_of_lt hSP, Nat.mod_eq_of_lt hX]
    norm_num
    simp (disch := omega) only [Env.set_eq, Env.set_ne]
  · rfl

/-- What `legalizeDynStackAlloc` builds and what it computes: the instructions
before the two writes of the stack pointer leave the stack pointer alone, the
write of the high byte leaves the high byte of the new value over the low byte
of the old one, and the write of the low byte and the copy leave the new value
in the stack pointer and in the destination. -/
theorem legalizeDynStackAlloc_exec (RS0 : Nat) (V : List LLT) (I : List MachineInstr)
    (Dst AllocSize : Nat) (Align : Int) (k : Nat)
    (hDst : (MachineRegisterInfo.mk V I).getType Dst = P)
    (hSize : (MachineRegisterInfo.mk V I).getType AllocSize = S16)
    (hRS0 : V.length + 8 ≤ RS0)
    (hA : assumeAligned Align = Except.ok (2 ^ k)) :
    ∃ R Pre lo hi p,
      legalizeDynStackAlloc RS0 (MachineIRBuilder.atInstr ⟨V, I⟩)
        (mkDynStackAlloc Dst AllocSize Align) = Except.ok R ∧
      R.MI = none ∧
      R.insts = Pre ++ [⟨Opcode.SetSPHi, [.reg hi]⟩, ⟨Opcode.SetSPLo, [.reg lo]⟩,
        ⟨Opcode.COPY, [.reg Dst, .reg p]⟩] ∧
      (∀ C, C ∈ Pre → C.Opcode ≠ Opcode.SetSPHi ∧ C.Opcode ≠ Opcode.SetSPLo) ∧
      ∀ S : MachineState, S.Regs RS0 < 2 ^ 16 →
        ∃ S0 Sm S2 S1,
          execSteps RS0 R.B.MRI S Pre = some S0 ∧ S0.Regs RS0 = S.Regs RS0 ∧
          execStep RS0 R.B.MRI S0 ⟨Opcode.SetSPHi, [.reg hi]⟩ = some Sm ∧
          Sm.Regs RS0 = allocAsStated (S.Regs RS0) (S.Regs AllocSize) (2 ^ k) / 256 * 256 +
            S.Regs RS0 % 256 ∧
          execStep RS0 R.B.MRI Sm ⟨Opcode.SetSPLo, [.reg lo]⟩ = some S2 ∧
          S2.Regs RS0 = allocAsStated (S.Regs RS0) (S.Regs AllocSize) (2 ^ k) ∧
          execStep RS0 R.B.MRI S2 ⟨Opcode.COPY, [.reg Dst, .reg p]⟩ = some S1 ∧
          S1.Regs RS0 = allocAsStated (S.Regs RS0) (S.Regs AllocSize) (2 ^ k) ∧
          S1.Regs Dst = allocAsStated (S.Regs RS0) (S.Regs AllocSize) (2 ^ k) ∧
          S1.Mem = S.Mem := by
  have hD : Dst < V.length := by
    apply getType_lt_of_ne_invalid V I
    rw [hDst]
    decide
  have hS : AllocSize < V.length := by
    apply getType_lt_of_ne_invalid V I
    rw [hSize]
    decide
  by_cases hk : k = 0
  · subst hk
    refine ⟨_, (dynStackAllocPlain RS0 0 AllocSize V.length).take 5, V.length + 4,
      V.length + 5, V.length + 3,
      legalizeDynStackAlloc_plain_insts RS0 V I Dst AllocSize Align hDst hA, rfl, rfl, ?_, ?_⟩
    · intro C hC
      simp only [dynStackAllocPlain, List.take, List.mem_cons, List.mem_singleton,
        List.not_mem_nil, or_false] at hC
      rcases hC with rfl | rfl | rfl | rfl | rfl <;> simp
    · intro S hSP
      obtain ⟨S0, h0, h1, h2, h3, h4, h5⟩ := dynStackAlloc_prefix_plain RS0 AllocSize V.length
        ⟨V ++ [P, S16, S16, P, S8, S8], I⟩ S
        (by rw [getType_new]; rfl) (by rw [getType_new]; rfl) (by rw [getType_new]; rfl)
        (by rw [getType_new]; rfl) hRS0 hS hSP
      have hF : allocAsStated (S.Regs RS0) (S.Regs AllocSize) (2 ^ 0) =
          (((S.Regs RS0 : Int) - (S.Regs AllocSize : Int)) % (2 : Int) ^ 16).toNat :=
        allocAsStated_one _ _
      rw [hF]
      obtain ⟨Sm, S2, S1, t1, t2, t3, t4, t5, t6, t7, t8⟩ := dynStackAlloc_tail_exec RS0 Dst
        (V.length + 3) (V.length + 4) (V.length + 5) ⟨V ++ [P, S16, S16, P, S8, S8], I⟩ S0 _
        h2 h3 h4 (sub16_lt _ _) (by omega) (by omega) (by omega)
      exact ⟨S0, Sm, S2, S1, h0, h1, t1, by rw [t2, h1], t3, t4, t5, t6, t7, by rw [t8, h5]⟩
  · have h1 : 1 < 2 ^ k := Nat.one_lt_two_pow hk
    refine ⟨_, (dynStackAllocAligned RS0 0 AllocSize V.length
        (constantBits 16 (constantBits 16 (-(constantBits 16 ((2 ^ k : Nat) : Int) : Int)) : Int))).take 7,
      V.length + 6, V.length + 7, V.length + 5,
      legalizeDynStackAlloc_aligned_insts RS0 V I Dst AllocSize Align _ hDst hA h1, rfl, rfl,
      ?_, ?_⟩
    · intro C hC
      simp only [dynStackAllocAligned, List.take, List.mem_cons, List.mem_singleton,
        List.not_mem_nil, or_false] at hC
      rcases hC with rfl | rfl | rfl | rfl | rfl | rfl | rfl <;> simp
    · intro S hSP
      obtain ⟨S0, h0, h1, h2, h3, h4, h5⟩ := dynStackAlloc_prefix_aligned RS0 AllocSize V.length
        (constantBits 16 (constantBits 16 (-(constantBits 16 ((2 ^ k : Nat) : Int) : Int)) : Int))
        ⟨V ++ [P, S16, S16, S16, S16, P, S8, S8], I⟩ S
        (by rw [getType_new]; rfl) (by rw [getType_new]; rfl) (by rw [getType_new]; rfl)
        (by rw [getType_new]; rfl) (by rw [getType_new]; rfl) hRS0 hS hSP
      rw [alignMask_eq] at h2 h3 h4
      obtain ⟨Sm, S2, S1, t1, t2, t3, t4, t5, t6, t7, t8⟩ := dynStackAlloc_tail_exec RS0 Dst
        (V.length + 5) (V.length + 6) (V.length + 7)
        ⟨V ++ [P, S16, S16, S16, S16, P, S8, S8], I⟩ S0 _
        h2 h3 h4 (allocAsStated_lt _ _ _) (by omega) (by omega) (by omega)
      exact ⟨S0, Sm, S2, S1, h0, h1, t1, by rw [t2, h1]; rfl, t3, t4, t5, t6, t7,
        by rw [t8, h5]⟩
theorem execSteps_three (RS0 : Nat) (MRI : MachineRegisterInfo) (Pre : List MachineInstr)
    (X Y Z : MachineInstr) (S S0 Sm S2 S1 : MachineState)
    (h0 : execSteps RS0 MRI S Pre = some S0) (h1 : execStep RS0 MRI S0 X = some Sm)
    (h2 : execStep RS0 MRI Sm Y = some S2) (h3 : execStep RS0 MRI S2 Z = some S1) :
    execSteps RS0 MRI S (Pre ++ [X]) = some Sm ∧
    execSteps RS0 MRI S (Pre ++ [X, Y]) = some S2 ∧
    execSteps RS0 MRI S (Pre ++ [X, Y, Z]) = some S1 := by
  simp [execSteps_append, execSteps, h0, h1, h2, h3]

/-- C22: for a destination of the pointer type, a size of 16 bits, a stack
pointer register that is none of the virtual registers, and an alignment that
is a power of two below 2^64 (or is given as 0, which stands for 1),
`legalizeDynStackAlloc` erases the instruction, and what it builds computes,
from a stack pointer `SP` below 2^16 and a size `n`, the value
`((SP - n) mod 2^16) AND (2^16 - A)`: that value is in the stack pointer and
in the destination afterwards, it is a multiple of `A`, for `A = 1` it is
`(SP - n) mod 2^16`, and memory is as before. The difference `2^16 - A` is 0
for an alignment above 2^16, as is the mask of the code. -/
theorem legalizeDynStackAlloc_value_spec (RS0 : Nat) (V : List LLT) (I : List MachineInstr)
    (Dst AllocSize : Nat) (Align : Int) (k : Nat) (S : MachineState)
    (hDst : (MachineRegisterInfo.mk V I).getType Dst = P)
    (hSize : (MachineRegisterInfo.mk V I).getType AllocSize = S16)
    (hRS0 : V.length + 8 ≤ RS0)
    (hAlign : (Align = 0 ∧ k = 0) ∨ (k < 64 ∧ Align = (2 : Int) ^ k))
    (hSP : S.Regs RS0 < 2 ^ 16) :
    ∃ R S1,
      legalizeDynStackAlloc RS0 (MachineIRBuilder.atInstr ⟨V, I⟩)
        (mkDynStackAlloc Dst AllocSize Align) = Except.ok R ∧
      R.MI = none ∧
      execSteps RS0 R.B.MRI S R.insts = some S1 ∧
      S1.Regs RS0 = allocAsStated (S.Regs RS0) (S.Regs AllocSize) (2 ^ k) ∧
      S1.Regs Dst = allocAsStated (S.Regs RS0) (S.Regs AllocSize) (2 ^ k) ∧
      2 ^ k ∣ allocAsStated (S.Regs RS0) (S.Regs AllocSize) (2 ^ k) ∧
      (k = 0 → allocAsStated (S.Regs RS0) (S.Regs AllocSize) (2 ^ k) =
        (((S.Regs RS0 : Int) - (S.Regs AllocSize : Int)) % (2 : Int) ^ 16).toNat) ∧
      S1.Mem = S.Mem := by
  have hA : assumeAligned Align = Except.ok (2 ^ k) := by
    rcases hAlign with ⟨rfl, rfl⟩ | ⟨hk, rfl⟩
    · exact assumeAligned_zero
    · exact assumeAligned_pow k hk
  obtain ⟨R, Pre, lo, hi, p, hR, hMI, hI, -, hex⟩ :=
    legalizeDynStackAlloc_exec RS0 V I Dst AllocSize Align k hDst hSize hRS0 hA
  obtain ⟨S0, Sm, S2, S1, h0, -, h1, -, h2, -, h3, h4, h5, h6⟩ := hex S hSP
  refine ⟨R, S1, hR, hMI, ?_, h4, h5, dvd_and_mask _ k, ?_, h6⟩
  · rw [hI]
    exact (execSteps_three RS0 R.B.MRI Pre _ _ _ S S0 Sm S2 S1 h0 h1 h2 h3).2.2
  · intro hk
    subst hk
    exact allocAsStated_one _ _

theorem legalizeDynStackAlloc_value_spec_witness :
    (MachineRegisterInfo.mk [P, S16] []).getType 0 = P ∧
    (MachineRegisterInfo.mk [P, S16] []).getType 1 = S16 ∧
    ∃ R S1,
      legalizeDynStackAlloc 10 (MachineIRBuilder.atInstr ⟨[P, S16], []⟩)
        (mkDynStackAlloc 0 1 1) = Except.ok R ∧
      R.MI = none ∧
      execSteps 10 R.B.MRI ⟨fun r => if r = 10 then 0x1F40 else if r = 1 then 10 else 0,
        fun _ => 0⟩ R.insts = some S1 ∧
      S1.Regs 10 = 0x1F36 ∧ S1.Regs 0 = 0x1F36 := by
  obtain ⟨R, S1, h1, h2, h3, h4, h5, -⟩ :=
    legalizeDynStackAlloc_value_spec 10 [P, S16] [] 0 1 1 0
      ⟨fun r => if r = 10 then 0x1F40 else if r = 1 then 10 else 0, fun _ => 0⟩
      rfl rfl (by decide) (Or.inr ⟨by decide, rfl⟩) (by decide)
  have e : allocAsStated 0x1F40 10 (2 ^ 0) = 0x1F36 := by decide
  exact ⟨rfl, rfl, R, S1, h1, h2, h3, h4.trans e, h5.trans e⟩
/-- C23, as the code has it: `legalizeDynStackAlloc` builds the write of the
high byte of the stack pointer immediately before the write of its low byte,
and nothing else that it builds writes the stack pointer. For a stack pointer
`SP` below 2^16 and the new value `F`, the stack pointer between the two
writes is the high byte of `F` over the low byte of `SP`, and after the second
write it is `F`. The value between the writes is below `F` exactly if the low
byte of `SP` is below the low byte of `F`. -/
theorem legalizeDynStackAlloc_order_spec (RS0 : Nat) (V : List LLT) (I : List MachineInstr)
    (Dst AllocSize : Nat) (Align : Int) (k : Nat) (S : MachineState)
    (hDst : (MachineRegisterInfo.mk V I).getType Dst = P)
    (hSize : (MachineRegisterInfo.mk V I).getType AllocSize = S16)
    (hRS0 : V.length + 8 ≤ RS0)
    (hAlign : (Align = 0 ∧ k = 0) ∨ (k < 64 ∧ Align = (2 : Int) ^ k))
    (hSP : S.Regs RS0 < 2 ^ 16) :
    ∃ R Pre lo hi p Sm S2,
      legalizeDynStackAlloc RS0 (MachineIRBuilder.atInstr ⟨V, I⟩)
        (mkDynStackAlloc Dst AllocSize Align) = Except.ok R ∧
      R.insts = Pre ++ [⟨Opcode.SetSPHi, [.reg hi]⟩, ⟨Opcode.SetSPLo, [.reg lo]⟩,
        ⟨Opcode.COPY, [.reg Dst, .reg p]⟩] ∧
      (∀ C, C ∈ Pre → C.Opcode ≠ Opcode.SetSPHi ∧ C.Opcode ≠ Opcode.SetSPLo) ∧
      execSteps RS0 R.B.MRI S (Pre ++ [⟨Opcode.SetSPHi, [.reg hi]⟩]) = some Sm ∧
      Sm.Regs RS0 = allocAsStated (S.Regs RS0) (S.Regs AllocSize) (2 ^ k) / 256 * 256 +
        S.Regs RS0 % 256 ∧
      execSteps RS0 R.B.MRI S
        (Pre ++ [⟨Opcode.SetSPHi, [.reg hi]⟩, ⟨Opcode.SetSPLo, [.reg lo]⟩]) = some S2 ∧
      S2.Regs RS0 = allocAsStated (S.Regs RS0) (S.Regs AllocSize) (2 ^ k) ∧
      (Sm.Regs RS0 < S2.Regs RS0 ↔
        S.Regs RS0 % 256 < allocAsStated (S.Regs RS0) (S.Regs AllocSize) (2 ^ k) % 256) := by
  have hA : assumeAligned Align = Except.ok (2 ^ k) := by
    rcases hAlign with ⟨rfl, rfl⟩ | ⟨hk, rfl⟩
    · exact assumeAligned_zero
    · exact assumeAligned_pow k hk
  obtain ⟨R, Pre, lo, hi, p, hR, -, hI, hPre, hex⟩ :=
    legalizeDynStackAlloc_exec RS0 V I Dst AllocSize Align k hDst hSize hRS0 hA
  obtain ⟨S0, Sm, S2, S1, h0, -, h1, hm, h2, hf, h3, -, -, -⟩ := hex S hSP
  obtain ⟨e1, e2, -⟩ := execSteps_three RS0 R.B.MRI Pre _ _ _ S S0 Sm S2 S1 h0 h1 h2 h3
  refine ⟨R, Pre, lo, hi, p, Sm, S2, hR, hI, hPre, e1, hm, e2, hf, ?_⟩
  rw [hm, hf]
  omega

theorem legalizeDynStackAlloc_order_spec_witness :
    (MachineRegisterInfo.mk [P, S16] []).getType 0 = P ∧
    (MachineRegisterInfo.mk [P, S16] []).getType 1 = S16 ∧
    ∃ R Pre lo hi p Sm S2,
      legalizeDynStackAlloc 10 (MachineIRBuilder.atInstr ⟨[P, S16], []⟩)
        (mkDynStackAlloc 0 1 1) = Except.ok R ∧
      R.insts = Pre ++ [⟨Opcode.SetSPHi, [.reg hi]⟩, ⟨Opcode.SetSPLo, [.reg lo]⟩,
        ⟨Opcode.COPY, [.reg 0, .reg p]⟩] ∧
      execSteps 10 R.B.MRI ⟨fun r => if r = 10 then 0x1F40 else if r = 1 then 10 else 0,
        fun _ => 0⟩ (Pre ++ [⟨Opcode.SetSPHi, [.reg hi]⟩]) = some Sm ∧
      Sm.Regs 10 = 0x1F40 ∧
      execSteps 10 R.B.MRI ⟨fun r => if r = 10 then 0x1F40 else if r = 1 then 10 else 0,
        fun _ => 0⟩ (Pre ++ [⟨Opcode.SetSPHi, [.reg hi]⟩, ⟨Opcode.SetSPLo, [.reg lo]⟩]) =
          some S2 ∧
      S2.Regs 10 = 0x1F36 := by
  obtain ⟨R, Pre, lo, hi, p, Sm, S2, h1, h2, -, h4, h5, h6, h7, -⟩ :=
    legalizeDynStackAlloc_order_spec 10 [P, S16] [] 0 1 1 0
      ⟨fun r => if r = 10 then 0x1F40 else if r = 1 then 10 else 0, fun _ => 0⟩
      rfl rfl (by decide) (Or.inr ⟨by decide, rfl⟩) (by decide)
  have e : allocAsStated 0x1F40 10 (2 ^ 0) = 0x1F36 := by decide
  refine ⟨rfl, rfl, R, Pre, lo, hi, p, Sm, S2, h1, h2, h4, ?_, h6, h7.trans e⟩
  rw [h5]
  show allocAsStated 0x1F40 10 (2 ^ 0) / 256 * 256 + 0x1F40 % 256 = 0x1F40
  rw [e]

/-- C23, counterexample: from the stack pointer 0x1F40, an allocation of 0x50
bytes at alignment 1 leaves the stack pointer 0x1EF0; between the two writes
the stack pointer is 0x1E40, which is below 0x1EF0. -/
theorem legalizeDynStackAlloc_order_counterexample :
    ∃ R Pre hi Rest Sm S1,
      legalizeDynStackAlloc 10 (MachineIRBuilder.atInstr ⟨[P, S16], []⟩)
        (mkDynStackAlloc 0 1 1) = Except.ok R ∧
      R.insts = Pre ++ ⟨Opcode.SetSPHi, [.reg hi]⟩ :: Rest ∧
      execSteps 10 R.B.MRI ⟨fun r => if r = 10 then 0x1F40 else if r = 1 then 0x50 else 0,
        fun _ => 0⟩ (Pre ++ [⟨Opcode.SetSPHi, [.reg hi]⟩]) = some Sm ∧
      Sm.Regs 10 = 0x1E40 ∧
      execSteps 10 R.B.MRI ⟨fun r => if r = 10 then 0x1F40 else if r = 1 then 0x50 else 0,
        fun _ => 0⟩ R.insts = some S1 ∧
      S1.Regs 10 = 0x1EF0 ∧
      ¬ SPNeverBelowFinal 10 R.B.MRI
        ⟨fun r => if r = 10 then 0x1F40 else if r = 1 then 0x50 else 0, fun _ => 0⟩ R.insts := by
  obtain ⟨R, Pre, lo, hi, p, hR, -, hI, -, hex⟩ :=
    legalizeDynStackAlloc_exec 10 [P, S16] [] 0 1 1 0 rfl rfl (by decide) rfl
  obtain ⟨S0, Sm, S2, S1, h0, -, h1, hm, h2, -, h3, hf, -, -⟩ :=
    hex ⟨fun r => if r = 10 then 0x1F40 else if r = 1 then 0x50 else 0, fun _ => 0⟩
      (by decide)
  obtain ⟨e1, -, e3⟩ := execSteps_three 10 R.B.MRI Pre _ _ _ _ S0 Sm S2 S1 h0 h1 h2 h3
  have e : allocAsStated 0x1F40 0x50 (2 ^ 0) = 0x1EF0 := by decide
  have hm1 : Sm.Regs 10 = 0x1E40 := by
    rw [hm]
    show allocAsStated 0x1F40 0x50 (2 ^ 0) / 256 * 256 + 0x1F40 % 256 = 0x1E40
    rw [e]
  have hf1 : S1.Regs 10 = 0x1EF0 := hf.trans e
  rw [← hI] at e3
  refine ⟨R, Pre, hi, _, Sm, S1, hR, hI, e1, hm1, e3, hf1, ?_⟩
  intro hN
  have := hN Pre _ hi Sm S1 hI e1 e3
  rw [hm1, hf1] at this
  exact absurd this (by decide)

/-- C31: `legalizeDynStackAlloc` builds the write of the high byte of the stack
pointer immediately before the write of its low byte. For a stack pointer `SP`
below 2^16 and a new value `F` that is not above `SP`, which is the case
whenever the size is not above `SP`, the stack pointer between the two writes,
the high byte of `F` over the low byte of `SP`, is not above `SP`. -/
theorem legalizeDynStackAlloc_not_increased (RS0 : Nat) (V : List LLT)
    (I : List MachineInstr) (Dst AllocSize : Nat) (Align : Int) (k : Nat) (S : MachineState)
    (hDst : (MachineRegisterInfo.mk V I).getType Dst = P)
    (hSize : (MachineRegisterInfo.mk V I).getType AllocSize = S16)
    (hRS0 : V.length + 8 ≤ RS0)
    (hAlign : (Align = 0 ∧ k = 0) ∨ (k < 64 ∧ Align = (2 : Int) ^ k))
    (hSP : S.Regs RS0 < 2 ^ 16) :
    ∃ R Pre lo hi p Sm,
      legalizeDynStackAlloc RS0 (MachineIRBuilder.atInstr ⟨V, I⟩)
        (mkDynStackAlloc Dst AllocSize Align) = Except.ok R ∧
      R.insts = Pre ++ [⟨Opcode.SetSPHi, [.reg hi]⟩, ⟨Opcode.SetSPLo, [.reg lo]⟩,
        ⟨Opcode.COPY, [.reg Dst, .reg p]⟩] ∧
      (∀ C, C ∈ Pre → C.Opcode ≠ Opcode.SetSPHi ∧ C.Opcode ≠ Opcode.SetSPLo) ∧
      execSteps RS0 R.B.MRI S (Pre ++ [⟨Opcode.SetSPHi, [.reg hi]⟩]) = some Sm ∧
      Sm.Regs RS0 = allocAsStated (S.Regs RS0) (S.Regs AllocSize) (2 ^ k) / 256 * 256 +
        S.Regs RS0 % 256 ∧
      (S.Regs AllocSize ≤ S.Regs RS0 →
        allocAsStated (S.Regs RS0) (S.Regs AllocSize) (2 ^ k) ≤ S.Regs RS0) ∧
      (allocAsStated (S.Regs RS0) (S.Regs AllocSize) (2 ^ k) ≤ S.Regs RS0 →
        Sm.Regs RS0 ≤ S.Regs RS0) := by
  have hA : assumeAligned Align = Except.ok (2 ^ k) := by
    rcases hAlign with ⟨rfl, rfl⟩ | ⟨hk, rfl⟩
    · exact assumeAligned_zero
    · exact assumeAligned_pow k hk
  obtain ⟨R, Pre, lo, hi, p, hR, -, hI, hPre, hex⟩ :=
    legalizeDynStackAlloc_exec RS0 V I Dst AllocSize Align k hDst hSize hRS0 hA
  obtain ⟨S0, Sm, S2, S1, h0, -, h1, hm, h2, -, h3, -, -, -⟩ := hex S hSP
  obtain ⟨e1, -, -⟩ := execSteps_three RS0 R.B.MRI Pre _ _ _ S S0 Sm S2 S1 h0 h1 h2 h3
  refine ⟨R, Pre, lo, hi, p, Sm, hR, hI, hPre, e1, hm, ?_, ?_⟩
  · intro hn
    unfold allocAsStated
    refine le_trans Nat.and_le_left ?_
    have h5 : ((S.Regs RS0 : Int) - (S.Regs AllocSize : Int)) % (2 : Int) ^ 16 =
        (S.Regs RS0 : Int) - (S.Regs AllocSize : Int) :=
      Int.emod_eq_of_lt (by omega) (by omega)
    rw [h5]
    omega
  · intro hF
    rw [hm]
    omega

theorem legalizeDynStackAlloc_not_increased_witness :
    (MachineRegisterInfo.mk [P, S16] []).getType 0 = P ∧
    (MachineRegisterInfo.mk [P, S16] []).getType 1 = S16 ∧
    ∃ R Pre lo hi p Sm,
      legalizeDynStackAlloc 10 (MachineIRBuilder.atInstr ⟨[P, S16], []⟩)
        (mkDynStackAlloc 0 1 1) = Except.ok R ∧
      R.insts = Pre ++ [⟨Opcode.SetSPHi, [.reg hi]⟩, ⟨Opcode.SetSPLo, [.reg lo]⟩,
        ⟨Opcode.COPY, [.reg 0, .reg p]⟩] ∧
      execSteps 10 R.B.MRI ⟨fun r => if r = 10 then 0x1F40 else if r = 1 then 0x50 else 0,
        fun _ => 0⟩ (Pre ++ [⟨Opcode.SetSPHi, [.reg hi]⟩]) = some Sm ∧
      Sm.Regs 10 ≤ 0x1F40 := by
  obtain ⟨R, Pre, lo, hi, p, Sm, h1, h2, -, h4, -, h6, h7⟩ :=
    legalizeDynStackAlloc_not_increased 10 [P, S16] [] 0 1 1 0
      ⟨fun r => if r = 10 then 0x1F40 else if r = 1 then 0x50 else 0, fun _ => 0⟩
      rfl rfl (by decide) (Or.inr ⟨by decide, rfl⟩) (by decide)
  exact ⟨rfl, rfl, R, Pre, lo, hi, p, Sm, h1, h2, h4, h7 (h6 (by decide))⟩

/-! ## A sequence of variadic argument reads -/

theorem legalizeVAArg_insts (V : List LLT) (I : List MachineInstr) (Dst VaListPtr : Nat)
    (hD : Dst < V.length) :
    legalizeVAArg (MachineIRBuilder.atInstr ⟨V, I⟩) (mkVAArg Dst VaListPtr) =
      { B := { MRI := ⟨V ++ [P, S16, P], I⟩
               Before := vaArgInsts V.length Dst VaListPtr
                 ((MachineRegisterInfo.mk V I).getType Dst).getSizeInBytes
               After := []
               PastMI := false }
        MI := none
        Legalized := true } := by
  simp [legalizeVAArg, mkVAArg, vaArgInsts, MachineIRBuilder.atInstr,
      MachineIRBuilder.buildLoad, MachineIRBuilder.buildConstant, MachineIRBuilder.buildPtrAdd,
      MachineIRBuilder.buildStore, MachineIRBuilder.buildInstr, MachineIRBuilder.insert,
      DstOp.addDefs, DstOp.addDef, DstOp.getLLTTy,
      MachineRegisterInfo.createGenericVirtualRegister, MachineInstr.getReg,
      MachineInstr.getOperand, MachineMemOperand.toOperands, MachineMemOperand.MOLoad,
      MachineMemOperand.MOInvariant, MachineMemOperand.MOStore,
      MachineRegisterInfo.getType, List.getD_eq_getElem?_getD, List.getElem?_append_left hD,
    S16, LLT.getSizeInBits]

theorem execStep_LOAD (RS0 : Nat) (MRI : MachineRegisterInfo) (S : MachineState)
    (d a : Nat) (Flags : Int) (Size : Nat) :
    execStep RS0 MRI S ⟨Opcode.G_LOAD, [.reg d, .reg a, .imm Flags, .imm Size]⟩ =
      some ⟨S.Regs.set d (loadBytes S.Mem (S.Regs a) Size), S.Mem⟩ := rfl

theorem execStep_STORE (RS0 : Nat) (MRI : MachineRegisterInfo) (S : MachineState)
    (v a : Nat) (Flags : Int) (Size : Nat) :
    execStep RS0 MRI S ⟨Opcode.G_STORE, [.reg v, .reg a, .imm Flags, .imm Size]⟩ =
      some ⟨S.Regs, storeBytes S.Mem (S.Regs a) Size (S.Regs v)⟩ := rfl

theorem execStep_PTR_ADD (RS0 : Nat) (MRI : MachineRegisterInfo) (S : MachineState)
    (d a b : Nat) :
    execStep RS0 MRI S ⟨Opcode.G_PTR_ADD, [.reg d, .reg a, .reg b]⟩ =
      some ⟨S.Regs.set d ((S.Regs a + S.Regs b) % 2 ^ (MRI.getType d).getSizeInBits),
        S.Mem⟩ := rfl

/-- Two bytes that were stored are the two bytes that are loaded from the same
address. -/
theorem loadBytes_storeBytes_two (Mem : Nat → Nat) (a v : Nat) :
    loadBytes (storeBytes Mem a 2 v) a 2 = v % 2 ^ 16 := by
  have h1 : a % 2 ^ 16 ≠ (a + 1) % 2 ^ 16 := by omega
  simp only [loadBytes, storeBytes, if_pos, if_neg h1, ite_true]
  omega

theorem constantBits_natCast (W n : Nat) : constantBits W (n : Int) = n % 2 ^ W := by
  unfold constantBits
  have h : ((n : Int) % (2 : Int) ^ W) = ((n % 2 ^ W : Nat) : Int) := by
    push_cast
    rfl
  rw [h]
  exact Int.toNat_natCast _

/-- What `legalizeVAArg` builds does, on the registers there were and on
memory, what the specification states for one read, from any state that agrees
with the given one on those registers and on memory. -/
theorem vaArg_exec (RS0 c c0 Dst Va s : Nat) (MRI : MachineRegisterInfo)
    (S T : MachineState)
    (hW : (MRI.getType (c + 2)).getSizeInBits = 16) (hc : c0 ≤ c) (hD : Dst < c0)
    (hV : Va < c0) (hne : Dst ≠ Va)
    (hMem : S.Mem = T.Mem) (hRegs : ∀ r, r < c0 → S.Regs r = T.Regs r) :
    ∃ S1, execSteps RS0 MRI S (vaArgInsts c Dst Va s) = some S1 ∧
      S1.Mem = (vaArgAsStated Va T Dst s).Mem ∧
      ∀ r, r < c0 → S1.Regs r = (vaArgAsStated Va T Dst s).Regs r := by
  have hVa : S.Regs Va = T.Regs Va := hRegs Va hV
  have hcb : (loadBytes T.Mem (T.Regs Va) 2 + constantBits 16 (s : Int)) % 2 ^ 16 =
      (loadBytes T.Mem (T.Regs Va) 2 + s) % 2 ^ 16 := by
    rw [constantBits_natCast]
    omega
  have h2 : Int.toNat 2 = 2 := rfl
  refine ⟨_, rfl, ?_, ?_⟩
  · simp (disch := omega) only [vaArgAsStated, vaCursor, Env.set_eq, Env.set_ne, hW, hMem,
      hVa, h2, hcb]
  · intro r hr
    by_cases hrD : r = Dst
    · subst hrD
      simp (disch := omega) only [vaArgAsStated, vaCursor, Env.set_eq, Env.set_ne, hMem, hVa,
        h2, Int.toNat_natCast]
    · simp (disch := omega) only [vaArgAsStated, vaCursor, Env.set_eq, Env.set_ne, hMem, hVa,
        hRegs r hr, Env.set_ne _ _ hrD]

/-- The cursor after one read as the specification states it. -/
theorem vaCursor_vaArgAsStated (Va Dst s : Nat) (S : MachineState) (hne : Dst ≠ Va) :
    vaCursor Va (vaArgAsStated Va S Dst s) = (vaCursor Va S + s) % 2 ^ 16 ∧
    (vaArgAsStated Va S Dst s).Regs Va = S.Regs Va ∧
    (vaArgAsStated Va S Dst s).Regs Dst = loadBytes S.Mem (vaCursor Va S) s := by
  refine ⟨?_, ?_, ?_⟩
  · simp only [vaCursor, vaArgAsStated, Env.set_ne _ _ (Ne.symm hne),
      loadBytes_storeBytes_two]
    omega
  · simp only [vaArgAsStated, Env.set_ne _ _ (Ne.symm hne)]
  · simp only [vaArgAsStated, Env.set_eq]

/-- The registers that a sequence of reads is legalized with are kept. -/
theorem legalizeVAArgs_regs (Va : Nat) (I : List MachineInstr) (Ds : List Nat) :
    ∀ V : List LLT, (∀ D, D ∈ Ds → D < V.length) →
      ∃ Z, (legalizeVAArgs Va ⟨V, I⟩ Ds).1 = ⟨V ++ Z, I⟩ := by
  induction Ds with
  | nil => intro V _; exact ⟨[], by simp [legalizeVAArgs]⟩
  | cons D Rest ih =>
    intro V hDs
    have hD : D < V.length := hDs D (List.mem_cons_self _ _)
    obtain ⟨Z, hZ⟩ := ih (V ++ [P, S16, P]) (fun D1 h1 => by
      have := hDs D1 (List.mem_cons_of_mem _ h1)
      simp only [List.length_append]
      omega)
    refine ⟨[P, S16, P] ++ Z, ?_⟩
    simp only [legalizeVAArgs, legalizeVAArg_insts V I D Va hD, hZ, List.append_assoc]

/-- What is built for a sequence of reads does, on the registers there were and
on memory, what the specification states for the sequence. -/
theorem vaArgs_exec (RS0 Va c0 : Nat) (MRI0 MRI : MachineRegisterInfo)
    (I : List MachineInstr) (hVa : Va < c0) (Ds : List Nat) :
    ∀ (V : List LLT) (S T : MachineState),
      (∀ r, r < c0 → (MachineRegisterInfo.mk V I).getType r = MRI0.getType r) →
      c0 ≤ V.length → (∀ D, D ∈ Ds → D < c0 ∧ D ≠ Va) →
      (∀ r, V.length ≤ r → r < (legalizeVAArgs Va ⟨V, I⟩ Ds).1.VRegInfo.length →
        MRI.getType r = (legalizeVAArgs Va ⟨V, I⟩ Ds).1.getType r) →
      S.Mem = T.Mem → (∀ r, r < c0 → S.Regs r = T.Regs r) →
      ∃ S1, execSteps RS0 MRI S (legalizeVAArgs Va ⟨V, I⟩ Ds).2 = some S1 ∧
        S1.Mem = (vaArgsAsStated Va MRI0 T Ds).Mem ∧
        ∀ r, r < c0 → S1.Regs r = (vaArgsAsStated Va MRI0 T Ds).Regs r := by
  induction Ds with
  | nil =>
    intro V S T _ _ _ _ hMem hRegs
    exact ⟨S, rfl, hMem, hRegs⟩
  | cons D Rest ih =>
    intro V S T hV hc hDs hM hMem hRegs
    obtain ⟨hD, hne⟩ := hDs D (List.mem_cons_self _ _)
    have hDV : D < V.length := lt_of_lt_of_le hD hc
    obtain ⟨Z, hZ⟩ := legalizeVAArgs_regs Va I Rest (V ++ [P, S16, P]) (fun D1 h1 => by
      have := (hDs D1 (List.mem_cons_of_mem _ h1)).1
      simp only [List.length_append]
      omega)
    have hfin : (legalizeVAArgs Va ⟨V, I⟩ (D :: Rest)).1 = ⟨V ++ ([P, S16, P] ++ Z), I⟩ := by
      simp only [legalizeVAArgs, legalizeVAArg_insts V I D Va hDV, hZ, List.append_assoc]
    have hW : (MRI.getType (V.length + 2)).getSizeInBits = 16 := by
      rw [hM (V.length + 2) (by omega) (by rw [hfin]; simp), hfin, getType_new]
      rfl
    obtain ⟨S1, h1, h2, h3⟩ := vaArg_exec RS0 V.length c0 D Va
      ((MachineRegisterInfo.mk V I).getType D).getSizeInBytes MRI S T hW hc hD hVa hne hMem
      hRegs
    obtain ⟨S2, k1, k2, k3⟩ := ih (V ++ [P, S16, P]) S1
      (vaArgAsStated Va T D ((MachineRegisterInfo.mk V I).getType D).getSizeInBytes)
      (fun r hr => by rw [getType_old V I _ r (lt_of_lt_of_le hr hc)]; exact hV r hr)
      (by simp only [List.length_append]; omega)
      (fun D1 hD1 => hDs D1 (List.mem_cons_of_mem _ hD1))
      (fun r hr1 hr2 => by
        have e : (legalizeVAArgs Va ⟨V, I⟩ (D :: Rest)).1 =
            (legalizeVAArgs Va ⟨V ++ [P, S16, P], I⟩ Rest).1 := by
          simp only [legalizeVAArgs, legalizeVAArg_insts V I D Va hDV]
        rw [← e]
        exact hM r (by simp only [List.length_append] at hr1; omega) (by rw [e]; exact hr2))
      h2 h3
    refine ⟨S2, ?_, ?_, ?_⟩
    · simp only [legalizeVAArgs, legalizeVAArg_insts V I D Va hDV, LegalizeResult.insts,
        Option.toList, List.append_nil, execSteps_append, h1, Option.bind_some]
      exact k1
    · rw [k2]
      simp only [vaArgsAsStated, hV D hD]
    · intro r hr
      rw [k3 r hr]
      simp only [vaArgsAsStated, hV D hD]

/-- The cursor after a sequence of reads as the specification states it. -/
theorem vaCursor_vaArgsAsStated (Va : Nat) (MRI : MachineRegisterInfo) (Ds : List Nat) :
    ∀ S : MachineState, (∀ D, D ∈ Ds → D ≠ Va) →
      vaCursor Va (vaArgsAsStated Va MRI S Ds) =
        (vaCursor Va S + (Ds.map (fun D => (MRI.getType D).getSizeInBytes)).sum) % 2 ^ 16 := by
  induction Ds with
  | nil =>
    intro S _
    simp only [vaArgsAsStated, List.map_nil, List.sum_nil, Nat.add_zero]
    unfold vaCursor loadBytes loadBytes loadBytes
    omega
  | cons D Rest ih =>
    intro S hDs
    have hne := hDs D (List.mem_cons_self _ _)
    rw [vaArgsAsStated, ih _ (fun D1 h1 => hDs D1 (List.mem_cons_of_mem _ h1)),
      (vaCursor_vaArgAsStated Va D _ S hne).1, List.map_cons, List.sum_cons]
    omega

/-- C21: a sequence of `G_VAARG` instructions on one va-list pointer, with
destinations other than the pointer, is legalized one after the other by
`legalizeVAArg`, and what is built runs to the end and does what the
specification states on memory and on the registers there were: each read
loads the cursor from the cell of the va-list, loads the value of the byte
size of its destination from the address in the cursor, and stores the cursor
plus that size back in 16 bits. From a cursor `X`, the read after the first
`k` reads is at `X` plus the sizes of those `k`, in 16 bits, and that is the
cursor it finds; a first read is at `X`. -/
theorem legalizeVAArg_sequence_spec (RS0 Va : Nat) (V : List LLT) (I : List MachineInstr)
    (Ds : List Nat) (S : MachineState) (hVa : Va < V.length)
    (hDs : ∀ D, D ∈ Ds → D < V.length ∧ D ≠ Va) :
    ∃ S1, execSteps RS0 (legalizeVAArgs Va ⟨V, I⟩ Ds).1 S (legalizeVAArgs Va ⟨V, I⟩ Ds).2 =
        some S1 ∧
      S1.Mem = (vaArgsAsStated Va ⟨V, I⟩ S Ds).Mem ∧
      (∀ r, r < V.length → S1.Regs r = (vaArgsAsStated Va ⟨V, I⟩ S Ds).Regs r) ∧
      (∀ k, vaCursor Va (vaArgsAsStated Va ⟨V, I⟩ S (Ds.take k)) =
        (vaCursor Va S +
          ((Ds.take k).map (fun D => ((MachineRegisterInfo.mk V I).getType D).getSizeInBytes)).sum) %
          2 ^ 16) ∧
      (∀ k D, Ds.get? k = some D →
        (vaArgsAsStated Va ⟨V, I⟩ S (Ds.take (k + 1))).Regs D =
          loadBytes (vaArgsAsStated Va ⟨V, I⟩ S (Ds.take k)).Mem
            (vaCursor Va (vaArgsAsStated Va ⟨V, I⟩ S (Ds.take k)))
            ((MachineRegisterInfo.mk V I).getType D).getSizeInBytes) := by
  obtain ⟨S1, h1, h2, h3⟩ := vaArgs_exec RS0 Va V.length ⟨V, I⟩
    (legalizeVAArgs Va ⟨V, I⟩ Ds).1 I hVa Ds V S S (fun _ _ => rfl) (le_refl _) hDs
    (fun _ _ _ => rfl) rfl (fun _ _ => rfl)
  refine ⟨S1, h1, h2, h3, ?_, ?_⟩
  · intro k
    exact vaCursor_vaArgsAsStated Va ⟨V, I⟩ (Ds.take k) S
      (fun D hD => (hDs D (List.mem_of_mem_take hD)).2)
  · intro k D hk
    have hsplit : ∀ (Ds : List Nat) (T : MachineState) (k : Nat) (D : Nat),
        Ds.get? k = some D → (∀ D1, D1 ∈ Ds → D1 ≠ Va) →
        (vaArgsAsStated Va ⟨V, I⟩ T (Ds.take (k + 1))).Regs D =
          loadBytes (vaArgsAsStated Va ⟨V, I⟩ T (Ds.take k)).Mem
            (vaCursor Va (vaArgsAsStated Va ⟨V, I⟩ T (Ds.take k)))
            ((MachineRegisterInfo.mk V I).getType D).getSizeInBytes := by
      intro Ds
      induction Ds with
      | nil => intro T k D hk; simp at hk
      | cons D0 Rest ih =>
        intro T k D hk hne
        cases k with
        | zero =>
          simp only [List.get?_cons_zero, Option.some.injEq] at hk
          subst hk
          simp only [List.take_succ_cons, List.take_zero, vaArgsAsStated]
          exact (vaCursor_vaArgAsStated Va D0 _ T (hne D0 (List.mem_cons_self _ _))).2.2
        | succ k =>
          simp only [List.get?_cons_succ] at hk
          simp only [List.take_succ_cons, vaArgsAsStated]
          exact ih _ k D hk (fun D1 h1 => hne D1 (List.mem_cons_of_mem _ h1))
    exact hsplit Ds S k D hk (fun D1 h1 => (hDs D1 h1).2)

theorem legalizeVAArg_sequence_spec_witness :
    ∃ S1, execSteps 10 (legalizeVAArgs 0 ⟨[P, S8, S16], []⟩ [1, 2]).1
        ⟨fun r => if r = 0 then 0x100 else 0,
          fun a => if a = 0x101 then 0x02 else if a = 0x200 then 0xAA
            else if a = 0x201 then 0xBB else if a = 0x202 then 0xCC else 0⟩
        (legalizeVAArgs 0 ⟨[P, S8, S16], []⟩ [1, 2]).2 = some S1 ∧
      vaCursor 0 ⟨fun r => if r = 0 then 0x100 else 0,
          fun a => if a = 0x101 then 0x02 else if a = 0x200 then 0xAA
            else if a = 0x201 then 0xBB else if a = 0x202 then 0xCC else 0⟩ = 0x200 ∧
      S1.Regs 1 = 0xAA ∧ S1.Regs 2 = 0xCCBB ∧ vaCursor 0 S1 = 0x203 := by
  obtain ⟨S1, h1, h2, h3, -, -⟩ := legalizeVAArg_sequence_spec 10 0 [P, S8, S16] [] [1, 2]
    ⟨fun r => if r = 0 then 0x100 else 0,
      fun a => if a = 0x101 then 0x02 else if a = 0x200 then 0xAA
        else if a = 0x201 then 0xBB else if a = 0x202 then 0xCC else 0⟩
    (by decide) (by decide)
  refine ⟨S1, h1, by decide, ?_, ?_, ?_⟩
  · rw [h3 1 (by decide)]
    decide
  · rw [h3 2 (by decide)]
    decide
  · unfold vaCursor
    rw [h2, h3 0 (by decide)]
    decide

/-! ## A phi of pointers -/

theorem phiPairs_succ (n : Nat) (v b : Nat → Nat) :
    phiPairs (n + 1) v b = phiPairs n v b ++ [MachineOperand.reg (v n), MachineOperand.mbb (b n)] := by
  simp [phiPairs, List.range_succ, List.flatMap_append]

theorem phiPairs_length (n : Nat) (v b : Nat → Nat) : (phiPairs n v b).length = 2 * n := by
  induction n with
  | zero => rfl
  | succ n ih => rw [phiPairs_succ, List.length_append, ih]; simp; omega

theorem phiPairs_getElem? (n : Nat) (v b : Nat → Nat) (m : Nat) (hm : m < n) :
    (phiPairs n v b)[2 * m]? = some (MachineOperand.reg (v m)) ∧
    (phiPairs n v b)[2 * m + 1]? = some (MachineOperand.mbb (b m)) := by
  induction n with
  | zero => omega
  | succ n ih =>
    rw [phiPairs_succ]
    by_cases h : m < n
    · obtain ⟨h1, h2⟩ := ih h
      have hl := phiPairs_length n v b
      rw [List.getElem?_append_left (by omega), List.getElem?_append_left (by omega)]
      exact ⟨h1, h2⟩
    · have hmn : m = n := by omega
      subst hmn
      have hl := phiPairs_length m v b
      rw [List.getElem?_append_right (by omega), List.getElem?_append_right (by omega)]
      simp [hl]

theorem phiPairs_congr (n : Nat) (v v1 b : Nat → Nat) (h : ∀ k, k < n → v k = v1 k) :
    phiPairs n v b = phiPairs n v1 b := by
  induction n with
  | zero => rfl
  | succ n ih =>
    rw [phiPairs_succ, phiPairs_succ, ih (fun k hk => h k (by omega)), h n (by omega)]

theorem phiPairs_set (n : Nat) (v b : Nat → Nat) (m r : Nat) (hm : m < n) :
    (phiPairs n v b).set (2 * m) (MachineOperand.reg r) =
      phiPairs n (Function.update v m r) b := by
  induction n with
  | zero => omega
  | succ n ih =>
    rw [phiPairs_succ, phiPairs_succ]
    have hl := phiPairs_length n v b
    by_cases h : m < n
    · rw [List.set_append_left _ _ (by omega), ih h]
      have : Function.update v m r n = v n := Function.update_noteq (by omega) _ _
      rw [this]
    · have hmn : m = n := by omega
      subst hmn
      rw [List.set_append_right _ _ (by omega)]
      have e : 2 * m - (phiPairs m v b).length = 0 := by omega
      rw [e]
      simp only [List.set_cons_zero, Function.update_same]
      rw [phiPairs_congr m v (Function.update v m r) b
        (fun k hk => (Function.update_noteq (by omega) _ _).symm)]

theorem takeWhile_append_stop {α : Type} (p : α → Bool) (A B : List α) (c : α)
    (hA : ∀ x, x ∈ A → p x = true) (hc : p c = false) :
    (A ++ c :: B).takeWhile p = A := by
  induction A with
  | nil => simp [List.takeWhile, hc]
  | cons a A ih =>
    have ha := hA a (List.mem_cons_self _ _)
    rw [List.cons_append, List.takeWhile_cons, ha, if_pos rfl,
      ih (fun x hx => hA x (List.mem_cons_of_mem _ hx))]

theorem takeWhile_length_append_le {α : Type} (p : α → Bool) (A B : List α)
    (hB : ∀ x, x ∈ B → p x = false) : ((A ++ B).takeWhile p).length ≤ A.length := by
  induction A with
  | nil =>
    cases B with
    | nil => simp
    | cons b B => simp [List.takeWhile_cons, hB b (List.mem_cons_self _ _)]
  | cons a A ih =>
    rw [List.cons_append, List.takeWhile_cons]
    cases p a with
    | true => simp only [if_true, List.length_cons]; omega
    | false => simp

theorem take_takeWhile_length {α : Type} (p : α → Bool) (L : List α) :
    L.take (L.takeWhile p).length = L.takeWhile p := by
  induction L with
  | nil => rfl
  | cons a L ih =>
    rw [List.takeWhile_cons]
    cases p a with
    | true => simp only [if_true, List.length_cons, List.take_succ_cons, ih]
    | false => simp

theorem get?_append_cons {α : Type} (A B : List α) (c : α) :
    (A ++ c :: B).get? A.length = some c := by
  rw [List.get?_eq_getElem?, List.getElem?_append_right (le_refl _)]
  simp

theorem isPHI_not_terminator (M : MachineInstr) (h : M.isPHI = true) :
    M.isTerminator = false := by
  simp only [MachineInstr.isPHI, beq_iff_eq] at h
  simp [MachineInstr.isTerminator, h]

namespace MachineBasicBlock

theorem getFirstTerminator_le (X : MachineBasicBlock) : X.getFirstTerminator ≤ X.Insts.length :=
  Nat.sub_le _ _

theorem getFirstNonPHI_le (X : MachineBasicBlock) : X.getFirstNonPHI ≤ X.Insts.length :=
  (List.takeWhile_sublist _).length_le

/-- The instructions before the first non-phi position are phis. -/
theorem take_getFirstNonPHI (X : MachineBasicBlock) :
    ∀ M, M ∈ X.Insts.take X.getFirstNonPHI → M.isPHI = true := by
  intro M hM
  unfold getFirstNonPHI at hM
  rw [take_takeWhile_length] at hM
  exact (List.mem_takeWhile_imp hM)

/-- The instructions from the first terminator on are terminators. -/
theorem drop_getFirstTerminator (X : MachineBasicBlock) :
    ∀ M, M ∈ X.Insts.drop X.getFirstTerminator → M.isTerminator = true := by
  intro M hM
  have h1 : X.Insts.drop X.getFirstTerminator =
      (X.Insts.reverse.take (X.Insts.reverse.takeWhile MachineInstr.isTerminator).length).reverse := by
    unfold getFirstTerminator
    rw [List.reverse_take, List.reverse_reverse, List.length_reverse]
  rw [h1, take_takeWhile_length, List.mem_reverse] at hM
  exact List.mem_takeWhile_imp hM

/-- The phis at the head of a block are before its first terminator. -/
theorem getFirstNonPHI_le_getFirstTerminator (X : MachineBasicBlock) :
    X.getFirstNonPHI ≤ X.getFirstTerminator := by
  have h1 : X.Insts.reverse =
      (X.Insts.drop X.getFirstNonPHI).reverse ++ (X.Insts.take X.getFirstNonPHI).reverse := by
    rw [← List.reverse_append, List.take_append_drop]
  have h2 : (X.Insts.reverse.takeWhile MachineInstr.isTerminator).length ≤
      (X.Insts.drop X.getFirstNonPHI).reverse.length := by
    rw [h1]
    apply takeWhile_length_append_le
    intro M hM
    rw [List.mem_reverse] at hM
    exact isPHI_not_terminator M (take_getFirstNonPHI X M hM)
  have h3 := getFirstNonPHI_le X
  unfold getFirstTerminator
  rw [List.length_reverse, List.length_drop] at h2
  omega

/-- The first terminator of a block that ends in a non-terminator followed by
terminators. -/
theorem getFirstTerminator_of_suffix (Z : MachineBasicBlock) (A Post : List MachineInstr)
    (c : MachineInstr) (hZ : Z.Insts = A ++ c :: Post)
    (hPost : ∀ M, M ∈ Post → M.isTerminator = true) (hc : c.isTerminator = false) :
    Z.getFirstTerminator = A.length + 1 ∧ Z.Insts.get? A.length = some c := by
  constructor
  · unfold getFirstTerminator
    rw [hZ, List.reverse_append, List.reverse_cons, List.append_assoc, List.singleton_append,
      takeWhile_append_stop _ _ _ _ (fun x hx => hPost x (List.mem_reverse.mp hx)) hc]
    simp only [List.length_append, List.length_cons, List.length_reverse]
    omega
  · rw [hZ]
    exact get?_append_cons _ _ _

/-- The first non-phi position of a block that starts with phis followed by a
non-phi. -/
theorem getFirstNonPHI_of_prefix (Z : MachineBasicBlock) (Ph Rest : List MachineInstr)
    (c : MachineInstr) (hZ : Z.Insts = Ph ++ c :: Rest)
    (hPh : ∀ M, M ∈ Ph → M.isPHI = true) (hc : c.isPHI = false) :
    Z.getFirstNonPHI = Ph.length ∧ Z.Insts.get? Ph.length = some c := by
  constructor
  · unfold getFirstNonPHI
    rw [hZ, takeWhile_append_stop _ _ _ _ hPh hc]
  · rw [hZ]
    exact get?_append_cons _ _ _

end MachineBasicBlock

theorem mkPhi_getReg_odd (Dst n : Nat) (v b : Nat → Nat) (m : Nat) (hm : m < n) :
    (mkPhi Dst n v b).getReg (2 * m + 1) = v m ∧
    (mkPhi Dst n v b).getOperand (2 * m + 1 + 1) = MachineOperand.mbb (b m) := by
  obtain ⟨h1, h2⟩ := phiPairs_getElem? n v b m hm
  simp [mkPhi, MachineInstr.getReg, MachineInstr.getOperand, List.getD_eq_getElem?_getD, h1, h2]

theorem mkPhi_setReg_odd (Dst n : Nat) (v b : Nat → Nat) (m r : Nat) (hm : m < n) :
    (mkPhi Dst n v b).setReg (2 * m + 1) r = mkPhi Dst n (Function.update v m r) b := by
  simp [mkPhi, MachineInstr.setReg, phiPairs_set n v b m r hm]

theorem mkPhi_getNumOperands (Dst n : Nat) (v b : Nat → Nat) :
    (mkPhi Dst n v b).getNumOperands / 2 = n := by
  simp only [mkPhi, MachineInstr.getNumOperands, List.length_cons, phiPairs_length]
  omega

/-- One turn of the loop of `legalizePhi` on a phi whose operands are given by
functions. -/
theorem phiCast_mkPhi (Parent : Nat) (V : List LLT) (I : List MachineInstr)
    (Bs : List MachineBasicBlock) (Idx Dst n : Nat) (v b : Nat → Nat) (m : Nat) (hm : m < n) :
    phiCast Parent (⟨V, I⟩, Bs, Idx, mkPhi Dst n v b) (2 * m + 1) =
      (⟨V ++ [S16], I⟩,
        insertInBlock Bs (b m) (Bs.getD (b m) ⟨[]⟩).getFirstTerminator
          ⟨Opcode.G_PTRTOINT, [.reg V.length, .reg (v m)]⟩,
        (if b m = Parent ∧ (Bs.getD (b m) ⟨[]⟩).getFirstTerminator ≤ Idx then Idx + 1 else Idx),
        mkPhi Dst n (Function.update v m V.length) b) := by
  obtain ⟨h1, h2⟩ := mkPhi_getReg_odd Dst n v b m hm
  simp only [phiCast, h1, h2, mkPhi_setReg_odd Dst n v b m _ hm, MachineOperand.getMBB]
  simp [MachineIRBuilder.buildPtrToInt, MachineIRBuilder.buildInstr, MachineIRBuilder.atInstr,
    MachineIRBuilder.insert, DstOp.addDefs, DstOp.addDef,
    MachineRegisterInfo.createGenericVirtualRegister, MachineInstr.getReg,
    MachineInstr.getOperand]

theorem getD_set_eq {α : Type} (L : List α) (i : Nat) (x d : α) (h : i < L.length) :
    (L.set i x).getD i d = x := by
  simp [List.getD_eq_getElem?_getD, List.getElem?_set, h]

theorem getD_set_ne {α : Type} (L : List α) (i j : Nat) (x d : α) (h : i ≠ j) :
    (L.set i x).getD j d = L.getD j d := by
  simp [List.getD_eq_getElem?_getD, List.getElem?_set, h]

/-- The state after the first `m` turns of the loop of `legalizePhi`, for
incoming values from different blocks of the function: a fresh 16-bit register
for each of the first `m` values, in the place of the value in the phi; its
cast before the first terminator of the block of the value; every other block
as it was. -/
theorem phiCast_foldl_mkPhi (Parent : Nat) (V : List LLT) (I : List MachineInstr)
    (Blocks : List MachineBasicBlock) (Idx Dst n : Nat) (v b : Nat → Nat)
    (hb : ∀ k, k < n → b k < Blocks.length)
    (hinj : ∀ j k, j < n → k < n → b j = b k → j = k)
    (hIdx : Idx < (Blocks.getD Parent ⟨[]⟩).getFirstNonPHI) (m : Nat) (hm : m ≤ n) :
    ∃ Bs, ((List.range m).map (fun k => 2 * k + 1)).foldl (phiCast Parent)
        (⟨V, I⟩, Blocks, Idx, mkPhi Dst n v b) =
        (⟨V ++ List.replicate m S16, I⟩, Bs, Idx,
          mkPhi Dst n (fun k => if k < m then V.length + k else v k) b) ∧
      Bs.length = Blocks.length ∧
      (∀ B, (∀ k, k < m → b k ≠ B) → Bs.getD B ⟨[]⟩ = Blocks.getD B ⟨[]⟩) ∧
      (∀ k, k < m → Bs.getD (b k) ⟨[]⟩ =
        (Blocks.getD (b k) ⟨[]⟩).insert (Blocks.getD (b k) ⟨[]⟩).getFirstTerminator
          ⟨Opcode.G_PTRTOINT, [.reg (V.length + k), .reg (v k)]⟩) := by
  induction m with
  | zero =>
    refine ⟨Blocks, ?_, rfl, fun _ _ => rfl, fun k hk => absurd hk (Nat.not_lt_zero _)⟩
    simp
  | succ m ih =>
    obtain ⟨Bs, h1, h2, h3, h4⟩ := ih (by omega)
    have hmn : m < n := by omega
    have hfresh : Bs.getD (b m) ⟨[]⟩ = Blocks.getD (b m) ⟨[]⟩ :=
      h3 (b m) (fun k hk hbk => by have := hinj k m (by omega) hmn hbk; omega)
    have hIdx1 : ¬ (b m = Parent ∧ (Blocks.getD (b m) ⟨[]⟩).getFirstTerminator ≤ Idx) := by
      rintro ⟨hP, ht⟩
      rw [hP] at ht
      have := MachineBasicBlock.getFirstNonPHI_le_getFirstTerminator (Blocks.getD Parent ⟨[]⟩)
      omega
    refine ⟨insertInBlock Bs (b m) (Blocks.getD (b m) ⟨[]⟩).getFirstTerminator
      ⟨Opcode.G_PTRTOINT, [.reg (V.length + m), .reg (v m)]⟩, ?_, ?_, ?_, ?_⟩
    · rw [List.range_succ, List.map_append, List.foldl_append, h1]
      simp only [List.map_cons, List.map_nil, List.foldl_cons, List.foldl_nil]
      rw [phiCast_mkPhi Parent _ I Bs Idx Dst n _ b m hmn, hfresh, if_neg hIdx1]
      simp only [List.length_append, List.length_replicate, Nat.lt_irrefl, if_false,
        List.replicate_succ', List.append_assoc]
      congr 4
      funext k
      by_cases hk : k = m
      · subst hk
        simp
      · rw [Function.update_noteq hk]
        by_cases hk2 : k < m
        · simp [hk2, Nat.lt_succ_of_lt hk2]
        · have : ¬ k < m + 1 := by omega
          simp [hk2, this]
    · simp [insertInBlock, h2]
    · intro B hB
      have hne : b m ≠ B := hB m (by omega)
      unfold insertInBlock
      rw [getD_set_ne _ _ _ _ _ hne]
      exact h3 B (fun k hk => hB k (by omega))
    · intro k hk
      unfold insertInBlock
      by_cases hkm : k = m
      · subst hkm
        rw [getD_set_eq _ _ _ _ (by rw [h2]; exact hb k hmn), hfresh]
      · have hne : b m ≠ b k := fun e => hkm (hinj m k hmn (by omega) e).symm
        rw [getD_set_ne _ _ _ _ _ hne]
        exact h4 k (by omega)

theorem takeWhile_insert {α : Type} (p : α → Bool) (M : α) (hM : p M = false) (L : List α) :
    ∀ pos, (L.takeWhile p).length ≤ pos →
      (L.take pos ++ M :: L.drop pos).takeWhile p = L.takeWhile p := by
  induction L with
  | nil => intro pos _; simp [List.takeWhile_cons, hM]
  | cons a L ih =>
    intro pos hpos
    rw [List.takeWhile_cons] at hpos ⊢
    cases hpa : p a with
    | true =>
      rw [hpa] at hpos
      simp only [if_true, List.length_cons] at hpos
      obtain ⟨pos1, rfl⟩ : ∃ q, pos = q + 1 := ⟨pos - 1, by omega⟩
      simp only [List.take_succ_cons, List.drop_succ_cons, List.cons_append,
        List.takeWhile_cons, hpa, if_true]
      rw [ih pos1 (by omega)]
    | false =>
      cases pos with
      | zero => simp [List.takeWhile_cons, hM]
      | succ pos1 => simp [List.takeWhile_cons, hpa]

namespace MachineBasicBlock

/-- An instruction that is not a phi, inserted at or after the first non-phi
position, leaves that position where it is. -/
theorem getFirstNonPHI_insert (X : MachineBasicBlock) (pos : Nat) (M : MachineInstr)
    (hM : M.isPHI = false) (h : X.getFirstNonPHI ≤ pos) :
    (X.insert pos M).getFirstNonPHI = X.getFirstNonPHI := by
  unfold getFirstNonPHI insert
  dsimp only
  rw [takeWhile_insert _ M hM X.Insts pos h]

end MachineBasicBlock

/-- What `legalizePhi` returns for a phi whose incoming values come from
different blocks of the function, in terms of the blocks after the loop. -/
theorem legalizePhi_mkPhi (Parent : Nat) (V : List LLT) (I : List MachineInstr)
    (Blocks : List MachineBasicBlock) (Idx Dst n : Nat) (v b : Nat → Nat)
    (hb : ∀ k, k < n → b k < Blocks.length)
    (hinj : ∀ j k, j < n → k < n → b j = b k → j = k)
    (hIdx : Idx < (Blocks.getD Parent ⟨[]⟩).getFirstNonPHI) :
    ∃ Bs, legalizePhi ⟨V, I⟩ Blocks Parent Idx (mkPhi Dst n v b) =
        { MRI := ⟨V ++ List.replicate (n + 1) S16, I⟩
          Blocks := (insertInBlock Bs Parent (Blocks.getD Parent ⟨[]⟩).getFirstNonPHI
              ⟨Opcode.G_INTTOPTR, [.reg Dst, .reg (V.length + n)]⟩).set Parent
            ⟨((insertInBlock Bs Parent (Blocks.getD Parent ⟨[]⟩).getFirstNonPHI
              ⟨Opcode.G_INTTOPTR, [.reg Dst, .reg (V.length + n)]⟩).getD Parent ⟨[]⟩).Insts.set
                Idx (mkPhi (V.length + n) n (fun k => V.length + k) b)⟩
          MI := mkPhi (V.length + n) n (fun k => V.length + k) b
          Legalized := true } ∧
      Bs.length = Blocks.length ∧
      (Bs.getD Parent ⟨[]⟩).getFirstNonPHI = (Blocks.getD Parent ⟨[]⟩).getFirstNonPHI ∧
      (∀ B, (∀ k, k < n → b k ≠ B) → Bs.getD B ⟨[]⟩ = Blocks.getD B ⟨[]⟩) ∧
      (∀ k, k < n → Bs.getD (b k) ⟨[]⟩ =
        (Blocks.getD (b k) ⟨[]⟩).insert (Blocks.getD (b k) ⟨[]⟩).getFirstTerminator
          ⟨Opcode.G_PTRTOINT, [.reg (V.length + k), .reg (v k)]⟩) := by
  obtain ⟨Bs, h1, h2, h3, h4⟩ :=
    phiCast_foldl_mkPhi Parent V I Blocks Idx Dst n v b hb hinj hIdx n (le_refl _)
  have hq : (Bs.getD Parent ⟨[]⟩).getFirstNonPHI = (Blocks.getD Parent ⟨[]⟩).getFirstNonPHI := by
    by_cases hex : ∃ k, k < n ∧ b k = Parent
    · obtain ⟨k, hk, hbk⟩ := hex
      rw [← hbk, h4 k hk]
      exact MachineBasicBlock.getFirstNonPHI_insert _ _ _ rfl
        (MachineBasicBlock.getFirstNonPHI_le_getFirstTerminator _)
    · rw [h3 Parent (fun k hk hbk => hex ⟨k, hk, hbk⟩)]
  refine ⟨Bs, ?_, h2, hq, h3, h4⟩
  have hphi : mkPhi Dst n (fun k => if k < n then V.length + k else v k) b =
      mkPhi Dst n (fun k => V.length + k) b := by
    unfold mkPhi
    rw [phiPairs_congr n _ (fun k => V.length + k) b (fun k hk => by simp [hk])]
  unfold legalizePhi
  rw [mkPhi_getNumOperands, h1, hphi]
  dsimp only
  rw [hq, if_neg (by omega)]
  simp [MachineIRBuilder.buildIntToPtr, MachineIRBuilder.buildInstr, MachineIRBuilder.atInstr,
    MachineIRBuilder.insert, DstOp.addDefs, DstOp.addDef,
    MachineRegisterInfo.createGenericVirtualRegister, MachineInstr.getReg,
    MachineInstr.getOperand, MachineInstr.setReg, mkPhi, List.replicate_succ']

/-- C24: for a phi `%Dst = G_PHI %v0, %bb.b0, ...` at position `Idx` among the
phis at the head of block `Parent`, whose incoming values come from different
blocks of the function, `legalizePhi` leaves: a fresh 16-bit register for each
incoming value and one more for the phi; in the block of each incoming value
the cast `G_PTRTOINT` of the value to its fresh register as the instruction
immediately before the first terminator; the phi, in its place, with the same
number of pairs and the same blocks in the same order, the fresh registers as
values and the last fresh register as destination; the cast `G_INTTOPTR` of
that register to `%Dst` at the first non-phi position of block `Parent`; and
every block that is neither `Parent` nor the block of an incoming value as it
was. -/
theorem legalizePhi_spec (Parent : Nat) (V : List LLT) (I : List MachineInstr)
    (Blocks : List MachineBasicBlock) (Idx Dst n : Nat) (v b : Nat → Nat)
    (hb : ∀ k, k < n → b k < Blocks.length)
    (hinj : ∀ j k, j < n → k < n → b j = b k → j = k)
    (hIdx : Idx < (Blocks.getD Parent ⟨[]⟩).getFirstNonPHI) :
    (legalizePhi ⟨V, I⟩ Blocks Parent Idx (mkPhi Dst n v b)).MRI =
      ⟨V ++ List.replicate (n + 1) S16, I⟩ ∧
    (legalizePhi ⟨V, I⟩ Blocks Parent Idx (mkPhi Dst n v b)).MI =
      mkPhi (V.length + n) n (fun k => V.length + k) b ∧
    (legalizePhi ⟨V, I⟩ Blocks Parent Idx (mkPhi Dst n v b)).Legalized = true ∧
    (∀ k, k < n → ∃ p,
      ((legalizePhi ⟨V, I⟩ Blocks Parent Idx (mkPhi Dst n v b)).Blocks.getD (b k)
        ⟨[]⟩).getFirstTerminator = p + 1 ∧
      ((legalizePhi ⟨V, I⟩ Blocks Parent Idx (mkPhi Dst n v b)).Blocks.getD (b k)
        ⟨[]⟩).Insts.get? p =
        some ⟨Opcode.G_PTRTOINT, [.reg (V.length + k), .reg (v k)]⟩) ∧
    ((legalizePhi ⟨V, I⟩ Blocks Parent Idx (mkPhi Dst n v b)).Blocks.getD Parent
      ⟨[]⟩).Insts.get? Idx = some (mkPhi (V.length + n) n (fun k => V.length + k) b) ∧
    ((legalizePhi ⟨V, I⟩ Blocks Parent Idx (mkPhi Dst n v b)).Blocks.getD Parent
      ⟨[]⟩).Insts.get?
        ((legalizePhi ⟨V, I⟩ Blocks Parent Idx (mkPhi Dst n v b)).Blocks.getD Parent
          ⟨[]⟩).getFirstNonPHI =
      some ⟨Opcode.G_INTTOPTR, [.reg Dst, .reg (V.length + n)]⟩ ∧
    (∀ B, B ≠ Parent → (∀ k, k < n → b k ≠ B) →
      (legalizePhi ⟨V, I⟩ Blocks Parent Idx (mkPhi Dst n v b)).Blocks.getD B ⟨[]⟩ =
        Blocks.getD B ⟨[]⟩) := by
  obtain ⟨Bs, hR, hlen, hq, h3, h4⟩ :=
    legalizePhi_mkPhi Parent V I Blocks Idx Dst n v b hb hinj hIdx
  rw [hR]
  dsimp only
  have hPar : Parent < Blocks.length := by
    by_contra hn
    rw [List.getD_eq_default _ _ (by omega)] at hIdx
    simp [MachineBasicBlock.getFirstNonPHI] at hIdx
  have hPar1 : Parent < Bs.length := by rw [hlen]; exact hPar
  have hq0 := MachineBasicBlock.getFirstNonPHI_le (Bs.getD Parent ⟨[]⟩)
  rw [hq] at hq0
  -- the block `Parent` at the end
  have hF : ((insertInBlock Bs Parent (Blocks.getD Parent ⟨[]⟩).getFirstNonPHI
      ⟨Opcode.G_INTTOPTR, [.reg Dst, .reg (V.length + n)]⟩).getD Parent ⟨[]⟩).Insts.set Idx
        (mkPhi (V.length + n) n (fun k => V.length + k) b) =
      ((Bs.getD Parent ⟨[]⟩).Insts.take (Blocks.getD Parent ⟨[]⟩).getFirstNonPHI).set Idx
          (mkPhi (V.length + n) n (fun k => V.length + k) b) ++
        ⟨Opcode.G_INTTOPTR, [.reg Dst, .reg (V.length + n)]⟩ ::
          (Bs.getD Parent ⟨[]⟩).Insts.drop (Blocks.getD Parent ⟨[]⟩).getFirstNonPHI := by
    unfold insertInBlock
    rw [getD_set_eq _ _ _ _ hPar1]
    simp only [MachineBasicBlock.insert]
    rw [List.set_append_left _ _ (by rw [List.length_take]; omega)]
  have hParent : ∀ (L : List MachineBasicBlock), L.length = Blocks.length →
      ∀ X, (L.set Parent X).getD Parent ⟨[]⟩ = X :=
    fun L hL X => getD_set_eq _ _ _ _ (by rw [hL]; exact hPar)
  have hlen1 : (insertInBlock Bs Parent (Blocks.getD Parent ⟨[]⟩).getFirstNonPHI
      ⟨Opcode.G_INTTOPTR, [.reg Dst, .reg (V.length + n)]⟩).length = Blocks.length := by
    simp [insertInBlock, hlen]
  have hPh : ∀ M, M ∈ ((Bs.getD Parent ⟨[]⟩).Insts.take
      (Blocks.getD Parent ⟨[]⟩).getFirstNonPHI).set Idx
        (mkPhi (V.length + n) n (fun k => V.length + k) b) → M.isPHI = true := by
    intro M hM
    rcases List.mem_or_eq_of_mem_set hM with h | h
    · rw [← hq] at h
      exact MachineBasicBlock.take_getFirstNonPHI _ M h
    · rw [h]; rfl
  have hPhLen : (((Bs.getD Parent ⟨[]⟩).Insts.take
      (Blocks.getD Parent ⟨[]⟩).getFirstNonPHI).set Idx
        (mkPhi (V.length + n) n (fun k => V.length + k) b)).length =
      (Blocks.getD Parent ⟨[]⟩).getFirstNonPHI := by
    rw [List.length_set, List.length_take]
    omega
  refine ⟨rfl, rfl, rfl, ?_, ?_, ?_, ?_⟩
  · intro k hk
    by_cases hbk : b k = Parent
    · rw [hbk, hParent _ hlen1, hF]
      have hX := h4 k hk
      rw [hbk] at hX
      have ht := MachineBasicBlock.getFirstNonPHI_le_getFirstTerminator
        (Blocks.getD Parent ⟨[]⟩)
      have ht2 := MachineBasicBlock.getFirstTerminator_le (Blocks.getD Parent ⟨[]⟩)
      have hdrop : (Bs.getD Parent ⟨[]⟩).Insts.drop (Blocks.getD Parent ⟨[]⟩).getFirstNonPHI =
          ((Blocks.getD Parent ⟨[]⟩).Insts.take
              (Blocks.getD Parent ⟨[]⟩).getFirstTerminator).drop
            (Blocks.getD Parent ⟨[]⟩).getFirstNonPHI ++
          ⟨Opcode.G_PTRTOINT, [.reg (V.length + k), .reg (v k)]⟩ ::
            (Blocks.getD Parent ⟨[]⟩).Insts.drop
              (Blocks.getD Parent ⟨[]⟩).getFirstTerminator := by
        rw [hX]
        simp only [MachineBasicBlock.insert]
        rw [List.drop_append_of_le_length (by rw [List.length_take]; omega)]
      obtain ⟨e1, e2⟩ := MachineBasicBlock.getFirstTerminator_of_suffix
        ⟨((Bs.getD Parent ⟨[]⟩).Insts.take (Blocks.getD Parent ⟨[]⟩).getFirstNonPHI).set Idx
            (mkPhi (V.length + n) n (fun k => V.length + k) b) ++
          ⟨Opcode.G_INTTOPTR, [.reg Dst, .reg (V.length + n)]⟩ ::
            (Bs.getD Parent ⟨[]⟩).Insts.drop (Blocks.getD Parent ⟨[]⟩).getFirstNonPHI⟩
        (((Bs.getD Parent ⟨[]⟩).Insts.take (Blocks.getD Parent ⟨[]⟩).getFirstNonPHI).set Idx
            (mkPhi (V.length + n) n (fun k => V.length + k) b) ++
          ⟨Opcode.G_INTTOPTR, [.reg Dst, .reg (V.length + n)]⟩ ::
            ((Blocks.getD Parent ⟨[]⟩).Insts.take
              (Blocks.getD Parent ⟨[]⟩).getFirstTerminator).drop
            (Blocks.getD Parent ⟨[]⟩).getFirstNonPHI)
        ((Blocks.getD Parent ⟨[]⟩).Insts.drop (Blocks.getD Parent ⟨[]⟩).getFirstTerminator)
        ⟨Opcode.G_PTRTOINT, [.reg (V.length + k), .reg (v k)]⟩
        (by simp only [hdrop, List.append_assoc, List.cons_append])
        (MachineBasicBlock.drop_getFirstTerminator _) rfl
      exact ⟨_, e1, e2⟩
    · rw [getD_set_ne _ _ _ _ _ (Ne.symm hbk)]
      unfold insertInBlock
      rw [getD_set_ne _ _ _ _ _ (Ne.symm hbk), h4 k hk]
      obtain ⟨e1, e2⟩ := MachineBasicBlock.getFirstTerminator_of_suffix
        ((Blocks.getD (b k) ⟨[]⟩).insert (Blocks.getD (b k) ⟨[]⟩).getFirstTerminator
          ⟨Opcode.G_PTRTOINT, [.reg (V.length + k), .reg (v k)]⟩)
        ((Blocks.getD (b k) ⟨[]⟩).Insts.take (Blocks.getD (b k) ⟨[]⟩).getFirstTerminator)
        ((Blocks.getD (b k) ⟨[]⟩).Insts.drop (Blocks.getD (b k) ⟨[]⟩).getFirstTerminator)
        ⟨Opcode.G_PTRTOINT, [.reg (V.length + k), .reg (v k)]⟩ rfl
        (MachineBasicBlock.drop_getFirstTerminator _) rfl
      exact ⟨_, e1, e2⟩
  · rw [hParent _ hlen1, hF, List.get?_eq_getElem?,
      List.getElem?_append_left (by rw [hPhLen]; exact hIdx)]
    rw [List.getElem?_set_self (by rw [List.length_take]; omega)]
  · rw [hParent _ hlen1, hF]
    obtain ⟨e1, e2⟩ := MachineBasicBlock.getFirstNonPHI_of_prefix
      ⟨((Bs.getD Parent ⟨[]⟩).Insts.take (Blocks.getD Parent ⟨[]⟩).getFirstNonPHI).set Idx
          (mkPhi (V.length + n) n (fun k => V.length + k) b) ++
        ⟨Opcode.G_INTTOPTR, [.reg Dst, .reg (V.length + n)]⟩ ::
          (Bs.getD Parent ⟨[]⟩).Insts.drop (Blocks.getD Parent ⟨[]⟩).getFirstNonPHI⟩
      _ _ _ rfl hPh rfl
    rw [e1]
    exact e2
  · intro B hB hBk
    rw [getD_set_ne _ _ _ _ _ (Ne.symm hB)]
    unfold insertInBlock
    rw [getD_set_ne _ _ _ _ _ (Ne.symm hB)]
    exact h3 B hBk

theorem legalizePhi_spec_witness :
    (∀ k, k < 2 → (fun k : Nat => k) k < ([⟨[⟨Opcode.G_BR, [.mbb 2]⟩]⟩,
      ⟨[⟨Opcode.COPY, [.reg 2, .reg 1]⟩, ⟨Opcode.G_BR, [.mbb 2]⟩]⟩,
      ⟨[mkPhi 0 2 (fun k => k + 1) (fun k => k), ⟨Opcode.G_BR, [.mbb 2]⟩]⟩] :
        List MachineBasicBlock).length) ∧
    0 < (([⟨[⟨Opcode.G_BR, [.mbb 2]⟩]⟩,
      ⟨[⟨Opcode.COPY, [.reg 2, .reg 1]⟩, ⟨Opcode.G_BR, [.mbb 2]⟩]⟩,
      ⟨[mkPhi 0 2 (fun k => k + 1) (fun k => k), ⟨Opcode.G_BR, [.mbb 2]⟩]⟩] :
        List MachineBasicBlock).getD 2 ⟨[]⟩).getFirstNonPHI ∧
    (legalizePhi ⟨[P, P, P], []⟩ [⟨[⟨Opcode.G_BR, [.mbb 2]⟩]⟩,
      ⟨[⟨Opcode.COPY, [.reg 2, .reg 1]⟩, ⟨Opcode.G_BR, [.mbb 2]⟩]⟩,
      ⟨[mkPhi 0 2 (fun k => k + 1) (fun k => k), ⟨Opcode.G_BR, [.mbb 2]⟩]⟩] 2 0
      (mkPhi 0 2 (fun k => k + 1) (fun k => k))).MRI = ⟨[P, P, P, S16, S16, S16], []⟩ ∧
    (legalizePhi ⟨[P, P, P], []⟩ [⟨[⟨Opcode.G_BR, [.mbb 2]⟩]⟩,
      ⟨[⟨Opcode.COPY, [.reg 2, .reg 1]⟩, ⟨Opcode.G_BR, [.mbb 2]⟩]⟩,
      ⟨[mkPhi 0 2 (fun k => k + 1) (fun k => k), ⟨Opcode.G_BR, [.mbb 2]⟩]⟩] 2 0
      (mkPhi 0 2 (fun k => k + 1) (fun k => k))).MI =
        mkPhi 5 2 (fun k => 3 + k) (fun k => k) :=
  ⟨by decide, by decide,
    (legalizePhi_spec 2 [P, P, P] [] _ 0 0 2 (fun k => k + 1) (fun k => k) (by decide)
      (fun _ _ _ _ h => h) (by decide)).1,
    (legalizePhi_spec 2 [P, P, P] [] _ 0 0 2 (fun k => k + 1) (fun k => k) (by decide)
      (fun _ _ _ _ h => h) (by decide)).2.1⟩

/-! ## The assertions at the entry of the routines -/

/-- The rules of the table for the opcodes whose routines assert types. -/
theorem MOSLegalizerInfo_assert_rules :
    (MOSLegalizerInfo Opcode.G_ZEXT).Rules =
      [⟨LegalityPredicate.typeIs 1 S1, LegalizeAction.Custom⟩,
       ⟨LegalityPredicate.scalarWiderThan 0 8, LegalizeAction.NarrowScalar⟩,
       ⟨LegalityPredicate.always, LegalizeAction.Unsupported⟩] ∧
    (MOSLegalizerInfo Opcode.G_BSWAP).Rules =
      [⟨LegalityPredicate.typeInSet 0 [S8], LegalizeAction.Custom⟩,
       ⟨LegalityPredicate.scalarNarrowerThan 0 8, LegalizeAction.Unsupported⟩,
       ⟨LegalityPredicate.sizeNotPow2 0, LegalizeAction.WidenScalar⟩,
       ⟨LegalityPredicate.scalarWiderThan 0 8, LegalizeAction.NarrowScalar⟩] ∧
    (MOSLegalizerInfo Opcode.G_XOR).Rules =
      [⟨LegalityPredicate.typeInSet 0 [S8], LegalizeAction.Legal⟩,
       ⟨LegalityPredicate.typeInSet 0 [S1], LegalizeAction.Custom⟩,
       ⟨LegalityPredicate.sizeNotPow2 0, LegalizeAction.WidenScalar⟩,
       ⟨LegalityPredicate.scalarNarrowerThan 0 8, LegalizeAction.WidenScalar⟩,
       ⟨LegalityPredicate.scalarWiderThan 0 8, LegalizeAction.NarrowScalar⟩,
       ⟨LegalityPredicate.always, LegalizeAction.Unsupported⟩] ∧
    (MOSLegalizerInfo Opcode.G_LSHR).Rules =
      [⟨LegalityPredicate.sizeNotPow2 0, LegalizeAction.WidenScalar⟩,
       ⟨LegalityPredicate.scalarNarrowerThan 0 8, LegalizeAction.WidenScalar⟩,
       ⟨LegalityPredicate.scalarWiderThan 0 64, LegalizeAction.NarrowScalar⟩,
       ⟨LegalityPredicate.scalarWiderThan 1 8, LegalizeAction.NarrowScalar⟩,
       ⟨LegalityPredicate.always, LegalizeAction.Custom⟩] ∧
    (MOSLegalizerInfo Opcode.G_SHL).Rules = (MOSLegalizerInfo Opcode.G_LSHR).Rules :=
  ⟨rfl, rfl, rfl, rfl, rfl⟩

theorem isByteSized_of_pow2 (n : Nat) (h1 : isPowerOf2_32 n = true) (h2 : 8 ≤ n)
    (h3 : n ≤ 64) : n % 8 = 0 := by
  have h : ∀ m, m < 65 → isPowerOf2_32 m = true → 8 ≤ m → m % 8 = 0 := by decide
  exact h n (by omega) h1 h2

theorem getAction_custom_zext (T0 T1 : LLT)
    (h : getAction Opcode.G_ZEXT [T0, T1] = Except.ok LegalizeAction.Custom) : T1 = S1 := by
  unfold getAction LegalizeRuleSet.apply at h
  rw [MOSLegalizerInfo_assert_rules.1] at h
  by_contra hn
  simp [LegalizeRuleSet.applyRules, LegalityPredicate.eval, hn] at h
  repeat' split at h
  all_goals simp_all

theorem getAction_custom_bswap (T0 : LLT)
    (h : getAction Opcode.G_BSWAP [T0] = Except.ok LegalizeAction.Custom) : T0 = S8 := by
  unfold getAction LegalizeRuleSet.apply at h
  rw [MOSLegalizerInfo_assert_rules.2.1] at h
  by_contra hn
  simp [LegalizeRuleSet.applyRules, LegalityPredicate.eval, hn] at h
  repeat' split at h
  all_goals simp_all

theorem getAction_custom_xor (T0 : LLT)
    (h : getAction Opcode.G_XOR [T0] = Except.ok LegalizeAction.Custom) : T0 = S1 := by
  unfold getAction LegalizeRuleSet.apply at h
  rw [MOSLegalizerInfo_assert_rules.2.2.1] at h
  by_contra hn
  simp [LegalizeRuleSet.applyRules, LegalityPredicate.eval, hn] at h
  repeat' split at h
  all_goals simp_all

theorem getAction_custom_shift (Opc : Opcode) (n : Nat) (T1 : LLT)
    (hOpc : Opc = Opcode.G_LSHR ∨ Opc = Opcode.G_SHL)
    (h : getAction Opc [LLT.scalar n, T1] = Except.ok LegalizeAction.Custom) : n % 8 = 0 := by
  unfold getAction LegalizeRuleSet.apply at h
  obtain ⟨-, -, -, h4, h5⟩ := MOSLegalizerInfo_assert_rules
  have hR : (MOSLegalizerInfo Opc).Rules = (MOSLegalizerInfo Opcode.G_LSHR).Rules := by
    rcases hOpc with rfl | rfl
    · rfl
    · exact h5
  rw [hR, h4] at h
  by_cases hp : isPowerOf2_32 n = true
  · by_cases h8 : n < 8
    · simp [LegalizeRuleSet.applyRules, LegalityPredicate.eval, LLT.isScalar,
        LLT.getSizeInBits, S8, hp, h8] at h
    · by_cases h64 : 64 < n
      · simp [LegalizeRuleSet.applyRules, LegalityPredicate.eval, LLT.isScalar,
          LLT.getSizeInBits, S8, hp, h8, h64] at h
      · exact isByteSized_of_pow2 n hp (by omega) (by omega)
  · simp [LegalizeRuleSet.applyRules, LegalityPredicate.eval, LLT.isScalar,
      LLT.getSizeInBits, hp] at h

theorem foldNotIntoUses_error_entry (Dst Not : Nat) (V : List LLT)
    (Todo : List MachineInstr) :
    ∀ Done : List MachineInstr,
      foldNotIntoUses Dst Not V Done Todo ≠ Except.error "MRI.getType(Dst) == S1" := by
  induction Todo with
  | nil => intro Done; simp [foldNotIntoUses]
  | cons U Todo ih =>
    intro Done
    rw [foldNotIntoUses]
    split_ifs <;>
      first
      | exact ih _
      | exact fun hc => Except.noConfusion hc
      | exact fun hc => absurd (Except.error.inj hc) (by decide)

/-- The entry assertions that the table guards: for an instruction that the
table routes to a custom routine and whose operands of one type index have one
type, the type assertions at the entry of the routine hold, but for one: the
zero extension
has a source of 1 bit, the byte swap has two registers of 8 bits, the
destination of the xor is 1 bit, the destination and the two values of the
select are 16-bit pointers, and the result of the shift has the type of the
source and a whole number of bytes, so that these routines do not fail these
assertions. The table does not look at the test of a select: `legalizeSelect`
returns if the test is 1 bit and fails its assertion on the test otherwise. -/
theorem legalizeCustom_entry_assertions (MRI : MachineRegisterInfo) (MI : MachineInstr)
    (hCustom : getAction MI.Opcode (getTypes MRI MI) = Except.ok LegalizeAction.Custom)
    (hTypes : MI.typesAgree MRI = true) :
    (MI.Opcode = Opcode.G_ZEXT →
      MRI.getType (MI.getReg 1) = S1 ∧
      ∃ R, legalizeZExt (MachineIRBuilder.atInstr MRI) MI = Except.ok R) ∧
    (MI.Opcode = Opcode.G_BSWAP →
      MRI.getType (MI.getReg 0) = S8 ∧ MRI.getType (MI.getReg 1) = S8 ∧
      ∃ R, legalizeBSwap (MachineIRBuilder.atInstr MRI) MI = Except.ok R) ∧
    (MI.Opcode = Opcode.G_XOR →
      MRI.getType (MI.getReg 0) = S1 ∧
      legalizeXor (MachineIRBuilder.atInstr MRI) MI ≠
        Except.error "MRI.getType(Dst) == S1") ∧
    (MI.Opcode = Opcode.G_SELECT →
      MRI.getType (MI.getReg 0) = P ∧ MRI.getType (MI.getReg 2) = P ∧
      MRI.getType (MI.getReg 3) = P ∧
      (MRI.getType (MI.getReg 1) = LLT.scalar 1 →
        ∃ R, legalizeSelect (MachineIRBuilder.atInstr MRI) MI = Except.ok R) ∧
      (MRI.getType (MI.getReg 1) ≠ LLT.scalar 1 →
        legalizeSelect (MachineIRBuilder.atInstr MRI) MI =
          Except.error "MRI.getType(Test) == LLT::scalar(1)")) ∧
    (MI.Opcode = Opcode.G_LSHR ∨ MI.Opcode = Opcode.G_SHL →
      MRI.getType (MI.getReg 0) = MRI.getType (MI.getReg 1) ∧
      (MRI.getType (MI.getReg 0)).isByteSized = true ∧
      ∃ O, legalizeLshrShl (MachineIRBuilder.atInstr MRI) MI = Except.ok O) := by
  refine ⟨?_, ?_, ?_, ?_, ?_⟩
  · intro hOpc
    rw [hOpc] at hCustom
    have hT : getTypes MRI MI = [MRI.getType (MI.getReg 0), MRI.getType (MI.getReg 1)] := by
      simp [getTypes, hOpc]
    rw [hT] at hCustom
    have h1 := getAction_custom_zext _ _ hCustom
    refine ⟨h1, ?_⟩
    unfold legalizeZExt
    dsimp only [MachineIRBuilder.atInstr]
    rw [if_neg (by rw [h1]; exact fun h => h rfl)]
    exact ⟨_, rfl⟩
  · intro hOpc
    rw [hOpc] at hCustom
    have hT : getTypes MRI MI = [MRI.getType (MI.getReg 0)] := by
      simp [getTypes, hOpc]
    rw [hT] at hCustom
    have h0 := getAction_custom_bswap _ hCustom
    have h1 : MRI.getType (MI.getReg 1) = S8 := by
      simp only [MachineInstr.typesAgree, hOpc, beq_iff_eq] at hTypes
      rw [hTypes, h0]
    refine ⟨h0, h1, ?_⟩
    unfold legalizeBSwap
    dsimp only [MachineIRBuilder.atInstr]
    rw [if_neg (by rw [h0]; exact fun h => h rfl), if_neg (by rw [h1]; exact fun h => h rfl)]
    exact ⟨_, rfl⟩
  · intro hOpc
    rw [hOpc] at hCustom
    have hT : getTypes MRI MI = [MRI.getType (MI.getReg 0)] := by
      simp [getTypes, hOpc]
    rw [hT] at hCustom
    have h0 := getAction_custom_xor _ hCustom
    refine ⟨h0, ?_⟩
    unfold legalizeXor
    dsimp only [MachineIRBuilder.atInstr]
    rw [if_neg (by rw [h0]; exact fun h => h rfl)]
    repeat' split
    all_goals first
      | (simp; done)
      | (rename_i heq
         intro hc
         have he := Except.error.inj hc
         subst he
         exact foldNotIntoUses_error_entry _ _ _ _ _ heq)
  · intro hOpc
    rw [hOpc] at hCustom
    have hT : getTypes MRI MI = [MRI.getType (MI.getReg 0), MRI.getType (MI.getReg 1)] := by
      simp [getTypes, hOpc]
    rw [hT] at hCustom
    have h0 := getAction_custom_pointer Opcode.G_SELECT _ _ (Or.inl rfl) hCustom
    simp only [MachineInstr.typesAgree, hOpc, Bool.and_eq_true, beq_iff_eq] at hTypes
    have h2 : MRI.getType (MI.getReg 2) = P := by rw [hTypes.1, h0]
    have h3 : MRI.getType (MI.getReg 3) = P := by rw [hTypes.2, h0]
    refine ⟨h0, h2, h3, ?_, ?_⟩
    · intro h1
      unfold legalizeSelect
      dsimp only [MachineIRBuilder.atInstr]
      rw [if_neg (by rw [h0]; exact fun h => h rfl), if_neg (by rw [h1]; exact fun h => h rfl),
        if_neg (by rw [h2]; exact fun h => h rfl), if_neg (by rw [h3]; exact fun h => h rfl)]
      exact ⟨_, rfl⟩
    · intro h1
      unfold legalizeSelect
      dsimp only [MachineIRBuilder.atInstr]
      rw [if_neg (by rw [h0]; exact fun h => h rfl), if_pos h1]
  · intro hOpc
    have hT : getTypes MRI MI = [MRI.getType (MI.getReg 0), MRI.getType (MI.getReg 2)] := by
      rcases hOpc with h | h <;> simp [getTypes, h]
    rw [hT] at hCustom
    have hA : MRI.getType (MI.getReg 1) = MRI.getType (MI.getReg 0) ∧
        (MRI.getType (MI.getReg 0)).isScalar = true := by
      rcases hOpc with h | h <;>
        simpa [MachineInstr.typesAgree, h] using hTypes
    obtain ⟨n, hn⟩ : ∃ n, MRI.getType (MI.getReg 0) = LLT.scalar n := by
      cases hx : MRI.getType (MI.getReg 0) with
      | scalar n => exact ⟨n, rfl⟩
      | invalid => rw [hx] at hA; simp [LLT.isScalar] at hA
      | pointer a s => rw [hx] at hA; simp [LLT.isScalar] at hA
    rw [hn] at hCustom
    have hb := getAction_custom_shift MI.Opcode n _ hOpc hCustom
    have hBS : (MRI.getType (MI.getReg 0)).isByteSized = true := by
      rw [hn]
      simp [LLT.isByteSized, LLT.getSizeInBits, hb]
    refine ⟨hA.1.symm, hBS, ?_⟩
    unfold legalizeLshrShl
    dsimp only [MachineIRBuilder.atInstr]
    rw [if_neg (by rw [hA.1]; exact fun h => h rfl), if_neg (by rw [hBS]; simp)]
    repeat' split
    all_goals exact ⟨_, rfl⟩

theorem legalizeCustom_entry_assertions_witness :
    getAction Opcode.G_SELECT (getTypes ⟨[P, S1, P, P], []⟩
      ⟨Opcode.G_SELECT, [.reg 0, .reg 1, .reg 2, .reg 3]⟩) = Except.ok LegalizeAction.Custom ∧
    (MachineInstr.mk Opcode.G_SELECT [.reg 0, .reg 1, .reg 2, .reg 3]).typesAgree
      ⟨[P, S1, P, P], []⟩ = true ∧
    (∃ R, legalizeSelect (MachineIRBuilder.atInstr ⟨[P, S1, P, P], []⟩)
      ⟨Opcode.G_SELECT, [.reg 0, .reg 1, .reg 2, .reg 3]⟩ = Except.ok R) ∧
    getAction Opcode.G_SHL (getTypes ⟨[S16, S16, S8], []⟩
      ⟨Opcode.G_SHL, [.reg 0, .reg 1, .reg 2]⟩) = Except.ok LegalizeAction.Custom ∧
    (∃ O, legalizeLshrShl (MachineIRBuilder.atInstr ⟨[S16, S16, S8], []⟩)
      ⟨Opcode.G_SHL, [.reg 0, .reg 1, .reg 2]⟩ = Except.ok O) :=
  ⟨rfl, rfl,
    ((legalizeCustom_entry_assertions ⟨[P, S1, P, P], []⟩
      ⟨Opcode.G_SELECT, [.reg 0, .reg 1, .reg 2, .reg 3]⟩ rfl rfl).2.2.2.1 rfl).2.2.2.1 rfl,
    rfl,
    ((legalizeCustom_entry_assertions ⟨[S16, S16, S8], []⟩
      ⟨Opcode.G_SHL, [.reg 0, .reg 1, .reg 2]⟩ rfl rfl).2.2.2.2 (Or.inr rfl)).2.2⟩

/-- C33, failing input: the table routes the select of pointers
`%0:p = G_SELECT %1:s8, %2:p, %3:p`, whose test has 8 bits, to
`legalizeSelect`: its rule `customFor({P})` looks at the type of the result
alone. The assertion of the routine that the test is 1 bit fails. The rule of
the zero extension does look at the type that its routine asserts: a zero
extension from 8 bits is not routed to `legalizeZExt`. -/
theorem legalizeSelect_test_assertion_fails :
    getAction Opcode.G_SELECT (getTypes ⟨[P, S8, P, P], []⟩
      ⟨Opcode.G_SELECT, [.reg 0, .reg 1, .reg 2, .reg 3]⟩) = Except.ok LegalizeAction.Custom ∧
    (MachineInstr.mk Opcode.G_SELECT [.reg 0, .reg 1, .reg 2, .reg 3]).typesAgree
      ⟨[P, S8, P, P], []⟩ = true ∧
    (MachineRegisterInfo.mk [P, S8, P, P] []).getType 1 ≠ LLT.scalar 1 ∧
    legalizeCustom 0 0 [] 0 0 (MachineIRBuilder.atInstr ⟨[P, S8, P, P], []⟩)
      ⟨Opcode.G_SELECT, [.reg 0, .reg 1, .reg 2, .reg 3]⟩ =
        Except.error "MRI.getType(Test) == LLT::scalar(1)" ∧
    getAction Opcode.G_ZEXT (getTypes ⟨[S16, S8], []⟩
      ⟨Opcode.G_ZEXT, [.reg 0, .reg 1]⟩) = Except.ok LegalizeAction.NarrowScalar :=
  ⟨rfl, rfl, by decide, rfl, rfl⟩

/-- C32, failing input: the table routes `%0:s16 = G_SEXT %1:s12` to
`legalizeSExt`, which splits the 12-bit source into `12 / 8 = 1` piece of 8
bits and adds one fill byte, so the source piece covers 8 bits and not the 12
of the source; with the source value `0x800` the merged result is `0xFF00`,
while the sign extension is `0xF800`. For `%0:s12 = G_SEXT %1:s8` the two
merged pieces total 16 bits for a destination of 12. -/
theorem legalizeSExt_pieces_mismatch :
    getAction Opcode.G_SEXT (getTypes ⟨[S16, LLT.scalar 12], []⟩
      ⟨Opcode.G_SEXT, [.reg 0, .reg 1]⟩) = Except.ok LegalizeAction.Custom ∧
    legalizeSExt (MachineIRBuilder.atInstr ⟨[S16, LLT.scalar 12], []⟩)
        ⟨Opcode.G_SEXT, [.reg 0, .reg 1]⟩ =
      Except.ok
        { B := { MRI := ⟨[S16, LLT.scalar 12, LLT.scalar 12, LLT.scalar 12, LLT.scalar 12,
                   S1, S8, S8, S8, S8], []⟩
                 Before :=
                   [⟨Opcode.G_CONSTANT, [.reg 2, .cimm 0x800]⟩,
                    ⟨Opcode.G_AND, [.reg 3, .reg 1, .reg 2]⟩,
                    ⟨Opcode.G_CONSTANT, [.reg 4, .cimm 0]⟩,
                    ⟨Opcode.G_ICMP, [.reg 5, .predicate Predicate.ICMP_EQ, .reg 3, .reg 4]⟩,
                    ⟨Opcode.G_CONSTANT, [.reg 6, .cimm 255]⟩,
                    ⟨Opcode.G_CONSTANT, [.reg 7, .cimm 0]⟩,
                    ⟨Opcode.G_SELECT, [.reg 8, .reg 5, .reg 7, .reg 6]⟩,
                    ⟨Opcode.G_UNMERGE_VALUES, [.reg 9, .reg 1]⟩,
                    ⟨Opcode.G_MERGE_VALUES, [.reg 0, .reg 9, .reg 8]⟩]
                 After := []
                 PastMI := false }
          MI := none
          Legalized := true } ∧
    (execInstr ⟨[S16, LLT.scalar 12], []⟩ (envOf [0, 0x800])
        ⟨Opcode.G_SEXT, [.reg 0, .reg 1]⟩).map (fun e => e 0) = some 0xF800 ∧
    (execInstrs ⟨[S16, LLT.scalar 12, LLT.scalar 12, LLT.scalar 12, LLT.scalar 12,
          S1, S8, S8, S8, S8], []⟩ (envOf [0, 0x800])
        [⟨Opcode.G_CONSTANT, [.reg 2, .cimm 0x800]⟩,
         ⟨Opcode.G_AND, [.reg 3, .reg 1, .reg 2]⟩,
         ⟨Opcode.G_CONSTANT, [.reg 4, .cimm 0]⟩,
         ⟨Opcode.G_ICMP, [.reg 5, .predicate Predicate.ICMP_EQ, .reg 3, .reg 4]⟩,
         ⟨Opcode.G_CONSTANT, [.reg 6, .cimm 255]⟩,
         ⟨Opcode.G_CONSTANT, [.reg 7, .cimm 0]⟩,
         ⟨Opcode.G_SELECT, [.reg 8, .reg 5, .reg 7, .reg 6]⟩,
         ⟨Opcode.G_UNMERGE_VALUES, [.reg 9, .reg 1]⟩,
         ⟨Opcode.G_MERGE_VALUES, [.reg 0, .reg 9, .reg 8]⟩]).map (fun e => e 0) =
      some 0xFF00 ∧
    getAction Opcode.G_SEXT (getTypes ⟨[LLT.scalar 12, S8], []⟩
      ⟨Opcode.G_SEXT, [.reg 0, .reg 1]⟩) = Except.ok LegalizeAction.Custom ∧
    legalizeSExt (MachineIRBuilder.atInstr ⟨[LLT.scalar 12, S8], []⟩)
        ⟨Opcode.G_SEXT, [.reg 0, .reg 1]⟩ =
      Except.ok
        { B := { MRI := ⟨[LLT.scalar 12, S8, S8, S8, S8, S1, S8, S8, S8], []⟩
                 Before :=
                   [⟨Opcode.G_CONSTANT, [.reg 2, .cimm 0x80]⟩,
                    ⟨Opcode.G_AND, [.reg 3, .reg 1, .reg 2]⟩,
                    ⟨Opcode.G_CONSTANT, [.reg 4, .cimm 0]⟩,
                    ⟨Opcode.G_ICMP, [.reg 5, .predicate Predicate.ICMP_EQ, .reg 3, .reg 4]⟩,
                    ⟨Opcode.G_CONSTANT, [.reg 6, .cimm 255]⟩,
                    ⟨Opcode.G_CONSTANT, [.reg 7, .cimm 0]⟩,
                    ⟨Opcode.G_SELECT, [.reg 8, .reg 5, .reg 7, .reg 6]⟩,
                    ⟨Opcode.G_MERGE_VALUES, [.reg 0, .reg 1, .reg 8]⟩]
                 After := []
                 PastMI := false }
          MI := none
          Legalized := true } := by
  refine ⟨rfl, rfl, by decide, by decide, rfl, rfl⟩

/-- Neither guard of the last switch of `legalizeICmp` fails: the assertion on
the type and the unreachable default. -/
theorem legalizeICmp_guards (B : MachineIRBuilder) (MI : MachineInstr) :
    legalizeICmp B MI ≠ Except.error "Type == S8" ∧
    legalizeICmp B MI ≠ Except.error "Unexpected integer comparison type." := by
  unfold legalizeICmp
  generalize MI.getPredicate 1 = p
  cases p <;> dsimp only <;> (repeat' split) <;>
    first
    | (simp_all; done)
    | (rename_i heq
       split_ifs at heq <;>
        first
        | (simp at heq; done)
        | (have he := Except.error.inj heq; subst he
           exact ⟨fun hc => absurd (Except.error.inj hc) (by decide),
             fun hc => absurd (Except.error.inj hc) (by decide)⟩))
    | (rename_i heq hne
       exfalso
       split_ifs at heq with h1 h2 h3 <;> simp at heq
       · exact hne heq.2.1.symm
       · exact hne (heq.2.1.symm.trans (not_not.mp h1)))

/-- The seven predicates other than EQ, UGE and SLT return from the first
switch of `legalizeICmp`, with the comparison changed in place. -/
theorem legalizeICmp_first_switch (B : MachineIRBuilder) (MI : MachineInstr)
    (hp : MI.getPredicate 1 ∉ [Predicate.ICMP_EQ, Predicate.ICMP_UGE, Predicate.ICMP_SLT]) :
    legalizeICmp B MI = Except.ok
      { B := (negateInverseComparison B MI).1, MI := some (negateInverseComparison B MI).2,
        Legalized := true } ∨
    legalizeICmp B MI = Except.ok { B := B, MI := some (swapComparison MI), Legalized := true } := by
  unfold legalizeICmp
  generalize MI.getPredicate 1 = p at hp
  cases p <;> simp at hp <;> simp


/-- What `legalizeICmp` emits for signed less-than on a type that is neither a
pointer nor the 8-bit scalar and holds `N` whole bytes, at least one. -/
theorem legalizeICmp_wide_SLT_insts (V : List LLT) (I : List MachineInstr)
    (Dst LHS RHS N : Nat) (Ty : LLT) (hN : 1 ≤ N)
    (hR : RHS < V.length)
    (hTyL : (MachineRegisterInfo.mk V I).getType LHS = Ty)
    (hTyR : (MachineRegisterInfo.mk V I).getType RHS = Ty)
    (hne : Ty ≠ S8) (hptr : Ty.isPointer = false) (hdiv : Ty.getSizeInBits / 8 = N) :
    ∃ Out,
      legalizeICmp (MachineIRBuilder.atInstr ⟨V, I⟩)
        ⟨Opcode.G_ICMP, [.reg Dst, .predicate Predicate.ICMP_SLT, .reg LHS, .reg RHS]⟩ =
          Except.ok Out ∧
      Out.MI = none ∧
      Out.B.After = [] ∧
      Out.B.Before =
        [⟨Opcode.G_UNMERGE_VALUES,
            (List.range' V.length N).map MachineOperand.reg ++ [.reg LHS]⟩,
         ⟨Opcode.G_UNMERGE_VALUES,
            (List.range' (V.length + N) N).map MachineOperand.reg ++ [.reg RHS]⟩,
         ⟨Opcode.G_CONSTANT, [.reg (V.length + 2 * N), .cimm 1]⟩] ++
        chainInsts V.length (V.length + N) (V.length + 2 * N + 1) (V.length + 2 * N) (N - 1) ++
        (if mi_match_SpecificICst RHS ⟨V, I⟩ 0 = true then
          sltZeroInsts (V.length + 2 * N + 1 + 5 * (N - 1)) Dst (V.length + (N - 1))
            (V.length + N + (N - 1))
            (chainCarry (V.length + 2 * N + 1) (V.length + 2 * N) (N - 1))
         else
          sltFinalInsts (V.length + 2 * N + 1 + 5 * (N - 1)) Dst (V.length + (N - 1))
            (V.length + N + (N - 1))
            (chainCarry (V.length + 2 * N + 1) (V.length + 2 * N) (N - 1))) ∧
      Out.B.MRI = ⟨V ++ (List.replicate (N + N) S8 ++ (S1 :: (chainTypes (N - 1) ++
        (if mi_match_SpecificICst RHS ⟨V, I⟩ 0 = true then [S8, S1, S1, S1, S1]
         else [S8, S1, S1, S1, S1, S8, S8, S8, S1, S8, S8, S1, S1, S1])))), I⟩ := by
  have hne8 : ¬ Ty = LLT.scalar 8 := hne
  have hchain := sbcChain_eq
    ⟨Opcode.G_UNMERGE_VALUES, (List.range' V.length N).map MachineOperand.reg ++ [.reg LHS]⟩
    ⟨Opcode.G_UNMERGE_VALUES, (List.range' (V.length + N) N).map MachineOperand.reg ++
      [.reg RHS]⟩ V.length (V.length + N) (N - 1)
    (fun i hi => getOperand_unmerge _ _ _ _ _ (by omega))
    (fun i hi => getOperand_unmerge _ _ _ _ _ (by omega))
  have hgL := getReg_unmerge Opcode.G_UNMERGE_VALUES V.length N LHS (N - 1) (by omega)
  have hgR := getReg_unmerge Opcode.G_UNMERGE_VALUES (V.length + N) N RHS (N - 1) (by omega)
  have hs8 : (LLT.scalar 8).getSizeInBits = 8 := rfl
  have hs1 : (LLT.scalar 1).getSizeInBits = 1 := rfl
  have e80 : constantBits 8 128 = 128 := by decide
  have e0 : constantBits 8 0 = 0 := by decide
  have a1 : V.length + (N + N + 1) = V.length + 2 * N + 1 := by omega
  have a2 : V.length + (N + N) = V.length + 2 * N := by omega
  have a3 : ∀ j, V.length + (N + N + (5 * (N - 1) + j + 1)) =
      V.length + 2 * N + 1 + 5 * (N - 1) + j := by intro j; omega
  have a4 : V.length + (N + N + (5 * (N - 1) + 1)) = V.length + 2 * N + 1 + 5 * (N - 1) := by
    omega
  by_cases hz : mi_match_SpecificICst RHS ⟨V, I⟩ 0 = true
  · simp [legalizeICmp, MachineIRBuilder.atInstr, MachineInstr.getPredicate,
      MachineInstr.getOperand, getReg_cons_zero, getReg_cons_succ, hTyL, hTyR, hne8, hptr, hz,
      hs8, hs1, S1, S8, buildUnmerge_eq,
      getType_old _ _ _ _ hR, hdiv, getNumOperands_unmerge,
      MachineIRBuilder.buildConstant, DstOp.getLLTTy, constantBits_one_one,
      MachineIRBuilder.buildInstr, MachineIRBuilder.buildCopy, DstOp.addDefs, DstOp.addDef,
      MachineRegisterInfo.createGenericVirtualRegister, MachineIRBuilder.insert, hchain,
      hgL, hgR, if_neg (by omega : ¬ (N + 1 < 2)), sltZeroInsts, chainTypes_length,
      a1, a2, a3, a4]
  · have hzf : mi_match_SpecificICst RHS ⟨V, I⟩ 0 = false := by simpa using hz
    simp [legalizeICmp, MachineIRBuilder.atInstr, MachineInstr.getPredicate,
      MachineInstr.getOperand, getReg_cons_zero, getReg_cons_succ, hTyL, hTyR, hne8, hptr, hzf,
      hs8, hs1, S1, S8, buildUnmerge_eq,
      getType_old _ _ _ _ hR, hdiv, getNumOperands_unmerge,
      MachineIRBuilder.buildConstant, DstOp.getLLTTy, constantBits_one_one, e80, e0,
      MachineIRBuilder.buildInstr, MachineIRBuilder.buildCopy, MachineIRBuilder.buildXor,
      MachineIRBuilder.buildSelect, DstOp.addDefs, DstOp.addDef,
      MachineRegisterInfo.createGenericVirtualRegister, MachineIRBuilder.insert, hchain,
      hgL, hgR, if_neg (by omega : ¬ (N + 1 < 2)), sltFinalInsts, chainTypes_length,
      a1, a2, a3, a4]

/-- Signed less-than on a type of less than 8 bits: the unmerge has no piece,
and the routine takes an operand that is not there. -/
theorem legalizeICmp_narrow_SLT_error (V : List LLT) (I : List MachineInstr)
    (Dst LHS RHS : Nat) (Ty : LLT)
    (hTyL : (MachineRegisterInfo.mk V I).getType LHS = Ty)
    (hTyR : (MachineRegisterInfo.mk V I).getType RHS = Ty)
    (hptr : Ty.isPointer = false) (hdiv : Ty.getSizeInBits / 8 = 0) :
    legalizeICmp (MachineIRBuilder.atInstr ⟨V, I⟩)
        ⟨Opcode.G_ICMP, [.reg Dst, .predicate Predicate.ICMP_SLT, .reg LHS, .reg RHS]⟩ =
      Except.error "getOperand() out of range!" := by
  have hne8 : ¬ Ty = LLT.scalar 8 := by
    intro h
    rw [h] at hdiv
    exact absurd hdiv (by decide)
  have hs8 : (LLT.scalar 8).getSizeInBits = 8 := rfl
  simp [legalizeICmp, MachineIRBuilder.atInstr, MachineInstr.getPredicate,
    MachineInstr.getOperand, getReg_cons_zero, getReg_cons_succ, hTyL, hTyR, hne8, hptr,
    hs8, S8, buildUnmerge_eq, hdiv, MachineInstr.getNumOperands]


/-- A property of every inserted instruction stays true when an instruction
with the property is inserted. -/
theorem inserted_insert (Q : MachineInstr → Prop) (B : MachineIRBuilder) (X : MachineInstr)
    (h : ∀ C, C ∈ B.Before ++ B.After → Q C) (hX : Q X) :
    ∀ C, C ∈ (B.insert X).Before ++ (B.insert X).After → Q C := by
  intro C hC
  unfold MachineIRBuilder.insert at hC
  split_ifs at hC
  · simp only [List.mem_append, List.mem_singleton] at hC
    rcases hC with hC | hC | hC
    · exact h C (List.mem_append_left _ hC)
    · exact h C (List.mem_append_right _ hC)
    · rw [hC]; exact hX
  · simp only [List.mem_append, List.mem_singleton] at hC
    rcases hC with (hC | hC) | hC
    · exact h C (List.mem_append_left _ hC)
    · rw [hC]; exact hX
    · exact h C (List.mem_append_right _ hC)

theorem inserted_buildInstr (Q : MachineInstr → Prop) (B : MachineIRBuilder) (Opc : Opcode)
    (D : List DstOp) (S : List MachineOperand)
    (h : ∀ C, C ∈ B.Before ++ B.After → Q C) (hQ : ∀ Ops, Q ⟨Opc, Ops⟩) :
    ∀ C, C ∈ (B.buildInstr Opc D S).1.Before ++ (B.buildInstr Opc D S).1.After → Q C := by
  unfold MachineIRBuilder.buildInstr
  exact inserted_insert Q _ _ h (hQ _)

theorem inserted_buildICmp (Q : MachineInstr → Prop) (B : MachineIRBuilder) (Pred : Predicate)
    (Res : DstOp) (a b : Register)
    (h : ∀ C, C ∈ B.Before ++ B.After → Q C)
    (hQ : ∀ d, Q ⟨Opcode.G_ICMP, [.reg d, .predicate Pred, .reg a, .reg b]⟩) :
    ∀ C, C ∈ (B.buildICmp Pred Res a b).1.Before ++ (B.buildICmp Pred Res a b).1.After → Q C := by
  unfold MachineIRBuilder.buildICmp
  exact inserted_insert Q _ _ h (hQ _)

theorem inserted_buildConstant (Q : MachineInstr → Prop) (B : MachineIRBuilder) (Res : DstOp)
    (Val : Int) (h : ∀ C, C ∈ B.Before ++ B.After → Q C)
    (hQ : ∀ Ops, Q ⟨Opcode.G_CONSTANT, Ops⟩) :
    ∀ C, C ∈ (B.buildConstant Res Val).1.Before ++ (B.buildConstant Res Val).1.After → Q C :=
  inserted_buildInstr Q B _ _ _ h hQ

theorem inserted_buildSelect (Q : MachineInstr → Prop) (B : MachineIRBuilder) (Res : DstOp)
    (t a b : Register) (h : ∀ C, C ∈ B.Before ++ B.After → Q C)
    (hQ : ∀ Ops, Q ⟨Opcode.G_SELECT, Ops⟩) :
    ∀ C, C ∈ (B.buildSelect Res t a b).1.Before ++ (B.buildSelect Res t a b).1.After → Q C :=
  inserted_buildInstr Q B _ _ _ h hQ

theorem inserted_buildUnmerge (Q : MachineInstr → Prop) (B : MachineIRBuilder) (Res : LLT)
    (Op : Register) (h : ∀ C, C ∈ B.Before ++ B.After → Q C)
    (hQ : ∀ Ops, Q ⟨Opcode.G_UNMERGE_VALUES, Ops⟩) :
    ∀ C, C ∈ (B.buildUnmerge Res Op).1.Before ++ (B.buildUnmerge Res Op).1.After → Q C :=
  inserted_buildInstr Q B _ _ _ h hQ

theorem inserted_buildMerge (Q : MachineInstr → Prop) (B : MachineIRBuilder) (Res : DstOp)
    (Ops : List Register) (h : ∀ C, C ∈ B.Before ++ B.After → Q C)
    (hQ : ∀ Ops, Q ⟨Opcode.G_MERGE_VALUES, Ops⟩) :
    ∀ C, C ∈ (B.buildMerge Res Ops).1.Before ++ (B.buildMerge Res Ops).1.After → Q C :=
  inserted_buildInstr Q B _ _ _ h hQ

theorem inserted_splitHighRest (Q : MachineInstr → Prop) (B : MachineIRBuilder) (Reg : Register)
    (h : ∀ C, C ∈ B.Before ++ B.After → Q C)
    (hU : ∀ Ops, Q ⟨Opcode.G_UNMERGE_VALUES, Ops⟩)
    (hM : ∀ Ops, Q ⟨Opcode.G_MERGE_VALUES, Ops⟩) :
    ∀ C, C ∈ (splitHighRest Reg B).1.Before ++ (splitHighRest Reg B).1.After → Q C := by
  unfold splitHighRest
  dsimp only
  split_ifs
  · dsimp only
    exact inserted_buildMerge Q _ _ _ (inserted_buildUnmerge Q _ _ _ h hU) hM
  · dsimp only
    exact inserted_buildUnmerge Q _ _ _ h hU

/-- The branch of `legalizeICmp` for equality and unsigned greater-or-equal on a
type that is neither a pointer nor the 8-bit scalar: the comparison is erased,
no `G_SBC` is built, and every comparison built has the predicate EQ or the
predicate of the instruction. -/
theorem legalizeICmp_wide_flag_insts (B : MachineIRBuilder) (MI : MachineInstr)
    (hB : ∀ C, C ∈ B.Before ++ B.After → C.Opcode ≠ Opcode.G_SBC ∧ C.Opcode ≠ Opcode.G_ICMP)
    (hp : MI.getPredicate 1 = Predicate.ICMP_EQ ∨ MI.getPredicate 1 = Predicate.ICMP_UGE)
    (hne : B.MRI.getType (MI.getReg 2) ≠ S8)
    (hptr : (B.MRI.getType (MI.getReg 2)).isPointer = false) :
    ∃ R, legalizeICmp B MI = Except.ok R ∧ R.MI = none ∧
      ∀ C, C ∈ R.B.Before ++ R.B.After →
        C.Opcode ≠ Opcode.G_SBC ∧
        (C.Opcode = Opcode.G_ICMP →
          C.getPredicate 1 = Predicate.ICMP_EQ ∨ C.getPredicate 1 = MI.getPredicate 1) := by
  have hU : ∀ Ops, (MachineInstr.mk Opcode.G_UNMERGE_VALUES Ops).Opcode ≠ Opcode.G_SBC ∧
      ((MachineInstr.mk Opcode.G_UNMERGE_VALUES Ops).Opcode = Opcode.G_ICMP →
        (MachineInstr.mk Opcode.G_UNMERGE_VALUES Ops).getPredicate 1 = Predicate.ICMP_EQ ∨
        (MachineInstr.mk Opcode.G_UNMERGE_VALUES Ops).getPredicate 1 = MI.getPredicate 1) :=
    fun Ops => by simp
  have hM : ∀ Ops, (MachineInstr.mk Opcode.G_MERGE_VALUES Ops).Opcode ≠ Opcode.G_SBC ∧
      ((MachineInstr.mk Opcode.G_MERGE_VALUES Ops).Opcode = Opcode.G_ICMP →
        (MachineInstr.mk Opcode.G_MERGE_VALUES Ops).getPredicate 1 = Predicate.ICMP_EQ ∨
        (MachineInstr.mk Opcode.G_MERGE_VALUES Ops).getPredicate 1 = MI.getPredicate 1) :=
    fun Ops => by simp
  have hK : ∀ Ops, (MachineInstr.mk Opcode.G_CONSTANT Ops).Opcode ≠ Opcode.G_SBC ∧
      ((MachineInstr.mk Opcode.G_CONSTANT Ops).Opcode = Opcode.G_ICMP →
        (MachineInstr.mk Opcode.G_CONSTANT Ops).getPredicate 1 = Predicate.ICMP_EQ ∨
        (MachineInstr.mk Opcode.G_CONSTANT Ops).getPredicate 1 = MI.getPredicate 1) :=
    fun Ops => by simp
  have hS : ∀ Ops, (MachineInstr.mk Opcode.G_SELECT Ops).Opcode ≠ Opcode.G_SBC ∧
      ((MachineInstr.mk Opcode.G_SELECT Ops).Opcode = Opcode.G_ICMP →
        (MachineInstr.mk Opcode.G_SELECT Ops).getPredicate 1 = Predicate.ICMP_EQ ∨
        (MachineInstr.mk Opcode.G_SELECT Ops).getPredicate 1 = MI.getPredicate 1) :=
    fun Ops => by simp
  have hE : ∀ a b d, (MachineInstr.mk Opcode.G_ICMP [.reg d, .predicate Predicate.ICMP_EQ,
        .reg a, .reg b]).Opcode ≠ Opcode.G_SBC ∧
      ((MachineInstr.mk Opcode.G_ICMP [.reg d, .predicate Predicate.ICMP_EQ,
        .reg a, .reg b]).Opcode = Opcode.G_ICMP →
        (MachineInstr.mk Opcode.G_ICMP [.reg d, .predicate Predicate.ICMP_EQ,
          .reg a, .reg b]).getPredicate 1 = Predicate.ICMP_EQ ∨
        (MachineInstr.mk Opcode.G_ICMP [.reg d, .predicate Predicate.ICMP_EQ,
          .reg a, .reg b]).getPredicate 1 = MI.getPredicate 1) :=
    fun a b d => ⟨by simp, fun _ => Or.inl rfl⟩
  have hP : ∀ a b d, (MachineInstr.mk Opcode.G_ICMP [.reg d, .predicate (MI.getPredicate 1),
        .reg a, .reg b]).Opcode ≠ Opcode.G_SBC ∧
      ((MachineInstr.mk Opcode.G_ICMP [.reg d, .predicate (MI.getPredicate 1),
        .reg a, .reg b]).Opcode = Opcode.G_ICMP →
        (MachineInstr.mk Opcode.G_ICMP [.reg d, .predicate (MI.getPredicate 1),
          .reg a, .reg b]).getPredicate 1 = Predicate.ICMP_EQ ∨
        (MachineInstr.mk Opcode.G_ICMP [.reg d, .predicate (MI.getPredicate 1),
          .reg a, .reg b]).getPredicate 1 = MI.getPredicate 1) :=
    fun a b d => ⟨by simp, fun _ => Or.inr rfl⟩
  have hB' : ∀ C, C ∈ B.Before ++ B.After → C.Opcode ≠ Opcode.G_SBC ∧
      (C.Opcode = Opcode.G_ICMP →
        C.getPredicate 1 = Predicate.ICMP_EQ ∨ C.getPredicate 1 = MI.getPredicate 1) :=
    fun C hC => ⟨(hB C hC).1, fun h => absurd h (hB C hC).2⟩
  have h2 := inserted_splitHighRest _ _ (MI.getReg 3)
    (inserted_splitHighRest _ _ (MI.getReg 2) hB' hU hM) hU hM
  unfold legalizeICmp
  rcases hp with hp | hp
  · rw [hp] at h2 hK hS hE ⊢
    dsimp only
    rw [if_neg (by rw [hptr]; decide), if_pos ⟨hne, by decide⟩]
    refine ⟨_, rfl, rfl, ?_⟩
    simp only [CmpInst.isSigned, Bool.false_eq_true, if_false, if_true]
    exact inserted_buildSelect _ _ _ _ _ _ (inserted_buildICmp _ _ _ _ _ _
      (inserted_buildConstant _ _ _ _ (inserted_buildICmp _ _ _ _ _ _ h2 (hE _ _)) hK)
      (hE _ _)) hS
  · rw [hp] at h2 hK hS hE hP ⊢
    dsimp only
    rw [if_neg (by rw [hptr]; decide), if_pos ⟨hne, by decide⟩]
    refine ⟨_, rfl, rfl, ?_⟩
    simp only [CmpInst.isSigned, Bool.false_eq_true, if_false, if_true, reduceCtorEq]
    exact inserted_buildSelect _ _ _ _ _ _ (inserted_buildICmp _ _ _ _ _ _
      (inserted_buildICmp _ _ _ _ _ _ (inserted_buildICmp _ _ _ _ _ _ h2 (hE _ _)) (hP _ _))
      (hP _ _)) hS

/-- What the first switch of `legalizeICmp` leaves for the seven predicates
other than EQ, UGE and SLT: the comparison in place, and at most a constant
and an exclusive or. -/
theorem legalizeICmp_first_switch_insts (V : List LLT) (I : List MachineInstr)
    (Dst LHS RHS : Nat) (p : Predicate)
    (hp : p ≠ Predicate.ICMP_EQ ∧ p ≠ Predicate.ICMP_UGE ∧ p ≠ Predicate.ICMP_SLT) :
    ∃ R, legalizeICmp (MachineIRBuilder.atInstr ⟨V, I⟩) (mkICmp p Dst LHS RHS) = Except.ok R ∧
      R.MI ≠ none ∧
      ∀ C, C ∈ R.insts → C.Opcode ∈ [Opcode.G_ICMP, Opcode.G_CONSTANT, Opcode.G_XOR] := by
  obtain ⟨h1, h2, h3⟩ := hp
  cases p <;> first
    | exact absurd rfl h1
    | exact absurd rfl h2
    | exact absurd rfl h3
    | (refine ⟨_, rfl, ?_, ?_⟩
       · simp
       · intro C hC
         simp [LegalizeResult.insts, negateInverseComparison, swapComparison, mkICmp,
           MachineInstr.setReg, MachineInstr.setPredicate,
           MachineInstr.getPredicate, MachineInstr.getOperand, MachineInstr.getReg,
           MachineIRBuilder.atInstr, MachineRegisterInfo.createGenericVirtualRegister,
           MachineIRBuilder.buildNot, MachineIRBuilder.buildConstant,
           MachineIRBuilder.buildInstr, MachineIRBuilder.insert,
           MachineIRBuilder.setInsertPtNext, DstOp.addDefs, DstOp.addDef,
           DstOp.getLLTTy] at hC
         rcases hC with rfl | rfl | rfl <;> simp)

/-- The types of the registers behind the two unmerges, the constant and the
chain of the multi-byte signed less-than. -/
theorem getType_wide_final (V : List LLT) (I : List MachineInstr) (N j : Nat)
    (Last : List LLT) :
    (MachineRegisterInfo.mk (V ++ (List.replicate (N + N) S8 ++
      (S1 :: (chainTypes (N - 1) ++ Last)))) I).getType
        (V.length + 2 * N + 1 + 5 * (N - 1) + j) = Last.getD j LLT.invalid := by
  have h := getType_new (V ++ (List.replicate (N + N) S8 ++ (S1 :: chainTypes (N - 1)))) I Last j
  have hl : (V ++ (List.replicate (N + N) S8 ++ (S1 :: chainTypes (N - 1)))).length =
      V.length + 2 * N + 1 + 5 * (N - 1) := by
    simp [chainTypes_length]
    omega
  rw [hl] at h
  rw [← h]
  congr 2
  simp

/-- Every `G_SBC` that `legalizeICmp` builds subtracts two 8-bit registers,
and is built for EQ, UGE or SLT only. -/
theorem legalizeICmp_sbc_operands (V : List LLT) (I : List MachineInstr)
    (Dst LHS RHS : Nat) (p : Predicate)
    (hTy : (MachineRegisterInfo.mk V I).getType RHS = (MachineRegisterInfo.mk V I).getType LHS) :
    ∀ R, legalizeICmp (MachineIRBuilder.atInstr ⟨V, I⟩) (mkICmp p Dst LHS RHS) = Except.ok R →
      ∀ C, C ∈ R.insts → C.Opcode = Opcode.G_SBC →
        (p = Predicate.ICMP_EQ ∨ p = Predicate.ICMP_UGE ∨ p = Predicate.ICMP_SLT) ∧
        R.MI = none ∧
        R.B.MRI.getType (C.getReg 5) = S8 ∧ R.B.MRI.getType (C.getReg 6) = S8 := by
  intro R hR C hC hop
  by_cases hp : p = Predicate.ICMP_EQ ∨ p = Predicate.ICMP_UGE ∨ p = Predicate.ICMP_SLT
  swap
  · obtain ⟨R0, hR0, -, hops⟩ := legalizeICmp_first_switch_insts V I Dst LHS RHS p
      ⟨fun h => hp (Or.inl h), fun h => hp (Or.inr (Or.inl h)),
        fun h => hp (Or.inr (Or.inr h))⟩
    have hRR : R0 = R := Except.ok.inj (hR0.symm.trans hR)
    subst hRR
    have := hops C hC
    rw [hop] at this
    exact absurd this (by decide)
  refine ⟨hp, ?_⟩
  by_cases hptr : ((MachineRegisterInfo.mk V I).getType LHS).isPointer = true
  · have h := legalizeICmp_pointer_shape V I Dst LHS RHS p hp hptr
    have hRR := Except.ok.inj (h.symm.trans hR)
    subst hRR
    simp [LegalizeResult.insts, mkICmp] at hC
    rcases hC with rfl | rfl | rfl <;> simp at hop
  have hptrf : ((MachineRegisterInfo.mk V I).getType LHS).isPointer = false := by
    simpa using hptr
  by_cases hS8 : (MachineRegisterInfo.mk V I).getType LHS = S8
  · have hL : LHS < V.length := getType_eq_scalar_lt _ _ _ hS8
    have hRt : RHS < V.length := getType_eq_scalar_lt _ _ _ (hTy.trans hS8)
    have hS8R := hTy.trans hS8
    have hflag : ∀ q : Predicate × Nat,
        q ∈ [(Predicate.ICMP_EQ, 5), (Predicate.ICMP_UGE, 2)] → p = q.1 →
        R.MI = none ∧
        R.B.MRI.getType (C.getReg 5) = S8 ∧ R.B.MRI.getType (C.getReg 6) = S8 := by
      intro q hq hpq
      have h := legalizeICmp_S8_flag_insts V I Dst LHS RHS hS8 q hq
      rw [← hpq] at h
      have hRR := Except.ok.inj (h.symm.trans hR)
      subst hRR
      simp [LegalizeResult.insts] at hC
      rcases hC with rfl | rfl | rfl <;> simp at hop
      refine ⟨rfl, ?_, ?_⟩
      · simp only [getReg_cons_succ, getReg_cons_zero]
        rw [getType_old _ _ _ _ hL, hS8]
      · simp only [getReg_cons_succ, getReg_cons_zero]
        rw [getType_old _ _ _ _ hRt, hS8R]
    rcases hp with rfl | rfl | rfl
    · exact hflag (Predicate.ICMP_EQ, 5) (by simp) rfl
    · exact hflag (Predicate.ICMP_UGE, 2) (by simp) rfl
    · have h := legalizeICmp_S8_SLT_insts V I Dst LHS RHS hS8
      split_ifs at h
      · have hRR := Except.ok.inj (h.symm.trans hR)
        subst hRR
        simp [LegalizeResult.insts] at hC
        rcases hC with rfl | rfl | rfl <;> simp at hop
        refine ⟨rfl, ?_, ?_⟩
        · simp only [getReg_cons_succ, getReg_cons_zero]
          rw [getType_old _ _ _ _ hL, hS8]
        · simp only [getReg_cons_succ, getReg_cons_zero]
          rw [getType_old _ _ _ _ hRt, hS8R]
      · have hRR := Except.ok.inj (h.symm.trans hR)
        subst hRR
        simp [LegalizeResult.insts] at hC
        rcases hC with rfl | rfl | rfl | rfl | rfl | rfl | rfl | rfl <;> simp at hop
        · refine ⟨rfl, ?_, ?_⟩
          · simp only [getReg_cons_succ, getReg_cons_zero]
            rw [getType_old _ _ _ _ hL, hS8]
          · simp only [getReg_cons_succ, getReg_cons_zero]
            rw [getType_old _ _ _ _ hRt, hS8R]
        · refine ⟨rfl, ?_, ?_⟩
          · simp only [getReg_cons_succ, getReg_cons_zero]
            rw [getType_new]
            rfl
          · simp only [getReg_cons_succ, getReg_cons_zero]
            rw [getType_new]
            rfl
  rcases hp with rfl | rfl | rfl
  · obtain ⟨R0, hR0, hMI, hall⟩ := legalizeICmp_wide_flag_insts
      (MachineIRBuilder.atInstr ⟨V, I⟩) (mkICmp Predicate.ICMP_EQ Dst LHS RHS)
      (fun C hC => by simp [MachineIRBuilder.atInstr] at hC) (Or.inl rfl) hS8 hptrf
    have hRR : R0 = R := Except.ok.inj (hR0.symm.trans hR)
    subst hRR
    rw [LegalizeResult.insts, hMI, Option.toList, List.append_nil] at hC
    exact absurd hop (hall C hC).1
  · obtain ⟨R0, hR0, hMI, hall⟩ := legalizeICmp_wide_flag_insts
      (MachineIRBuilder.atInstr ⟨V, I⟩) (mkICmp Predicate.ICMP_UGE Dst LHS RHS)
      (fun C hC => by simp [MachineIRBuilder.atInstr] at hC) (Or.inr rfl) hS8 hptrf
    have hRR : R0 = R := Except.ok.inj (hR0.symm.trans hR)
    subst hRR
    rw [LegalizeResult.insts, hMI, Option.toList, List.append_nil] at hC
    exact absurd hop (hall C hC).1
  · by_cases hN : ((MachineRegisterInfo.mk V I).getType LHS).getSizeInBits / 8 = 0
    · have h := legalizeICmp_narrow_SLT_error V I Dst LHS RHS _ rfl hTy hptrf hN
      rw [mkICmp, h] at hR
      exact Except.noConfusion hR
    · have hRt : RHS < V.length := by
        apply getType_lt_of_ne_invalid V I
        rw [hTy]
        intro h0
        rw [h0] at hN
        exact hN rfl
      obtain ⟨R0, hR0, hMI, hAf, hBf, hMRI⟩ := legalizeICmp_wide_SLT_insts V I Dst LHS RHS
        (((MachineRegisterInfo.mk V I).getType LHS).getSizeInBits / 8) _
        (Nat.one_le_iff_ne_zero.mpr hN) hRt rfl hTy hS8 hptrf rfl
      have hRR : R0 = R := Except.ok.inj (hR0.symm.trans hR)
      subst hRR
      refine ⟨hMI, ?_⟩
      generalize ((MachineRegisterInfo.mk V I).getType LHS).getSizeInBits / 8 = N at *
      have hN1 : 1 ≤ N := Nat.one_le_iff_ne_zero.mpr hN
      have hb : ∀ i, i < N + N → R0.B.MRI.getType (V.length + i) = S8 := by
        intro i hi
        rw [hMRI]
        exact getType_new_replicate_left V I S8 (N + N) _ i hi
      simp only [LegalizeResult.insts, hMI, hAf, hBf, Option.toList, List.append_nil,
        List.mem_append, List.mem_cons, List.mem_singleton, List.not_mem_nil, or_false] at hC
      rcases hC with ((hC | hC | hC) | hC) | hC
      · subst hC; simp at hop
      · subst hC; simp at hop
      · subst hC; simp at hop
      · simp only [chainInsts, List.mem_map, List.mem_range] at hC
        obtain ⟨i, hi, rfl⟩ := hC
        simp only [chainInst, getReg_cons_succ, getReg_cons_zero]
        exact ⟨hb i (by omega), by rw [Nat.add_assoc]; exact hb (N + i) (by omega)⟩
      · split_ifs at hC hMRI
        · simp only [sltZeroInsts, List.mem_cons, List.mem_singleton, List.not_mem_nil,
            or_false] at hC
          rcases hC with rfl | rfl <;> simp at hop
          simp only [getReg_cons_succ, getReg_cons_zero]
          exact ⟨hb (N - 1) (by omega), by rw [Nat.add_assoc]; exact hb (N + (N - 1)) (by omega)⟩
        · simp only [sltFinalInsts, List.mem_cons, List.mem_singleton, List.not_mem_nil,
            or_false] at hC
          rcases hC with rfl | rfl | rfl | rfl | rfl | rfl | rfl <;> simp at hop
          · simp only [getReg_cons_succ, getReg_cons_zero]
            exact ⟨hb (N - 1) (by omega),
              by rw [Nat.add_assoc]; exact hb (N + (N - 1)) (by omega)⟩
          · simp only [getReg_cons_succ, getReg_cons_zero]
            rw [hMRI, getType_wide_final, getType_wide_final]
            exact ⟨rfl, rfl⟩

/-- Every comparison that `legalizeICmp` builds when it erases the given one
has the predicate EQ or the given predicate, which is not a signed one. -/
theorem legalizeICmp_icmp_predicates (V : List LLT) (I : List MachineInstr)
    (Dst LHS RHS : Nat) (p : Predicate)
    (hTy : (MachineRegisterInfo.mk V I).getType RHS = (MachineRegisterInfo.mk V I).getType LHS) :
    ∀ R, legalizeICmp (MachineIRBuilder.atInstr ⟨V, I⟩) (mkICmp p Dst LHS RHS) = Except.ok R →
      R.MI = none →
      ∀ C, C ∈ R.insts → C.Opcode = Opcode.G_ICMP →
        CmpInst.isSigned p = false ∧
        (C.getPredicate 1 = Predicate.ICMP_EQ ∨ C.getPredicate 1 = p) := by
  intro R hR hnone C hC hop
  by_cases hp : p = Predicate.ICMP_EQ ∨ p = Predicate.ICMP_UGE ∨ p = Predicate.ICMP_SLT
  swap
  · obtain ⟨R0, hR0, hsome, -⟩ := legalizeICmp_first_switch_insts V I Dst LHS RHS p
      ⟨fun h => hp (Or.inl h), fun h => hp (Or.inr (Or.inl h)),
        fun h => hp (Or.inr (Or.inr h))⟩
    have hRR : R0 = R := Except.ok.inj (hR0.symm.trans hR)
    subst hRR
    exact absurd hnone hsome
  by_cases hptr : ((MachineRegisterInfo.mk V I).getType LHS).isPointer = true
  · have h := legalizeICmp_pointer_shape V I Dst LHS RHS p hp hptr
    have hRR := Except.ok.inj (h.symm.trans hR)
    subst hRR
    simp at hnone
  have hptrf : ((MachineRegisterInfo.mk V I).getType LHS).isPointer = false := by
    simpa using hptr
  by_cases hS8 : (MachineRegisterInfo.mk V I).getType LHS = S8
  · have hflag : ∀ q : Predicate × Nat,
        q ∈ [(Predicate.ICMP_EQ, 5), (Predicate.ICMP_UGE, 2)] → p = q.1 → False := by
      intro q hq hpq
      have h := legalizeICmp_S8_flag_insts V I Dst LHS RHS hS8 q hq
      rw [← hpq] at h
      have hRR := Except.ok.inj (h.symm.trans hR)
      subst hRR
      simp [LegalizeResult.insts] at hC
      rcases hC with rfl | rfl | rfl <;> simp at hop
    rcases hp with rfl | rfl | rfl
    · exact (hflag (Predicate.ICMP_EQ, 5) (by simp) rfl).elim
    · exact (hflag (Predicate.ICMP_UGE, 2) (by simp) rfl).elim
    · have h := legalizeICmp_S8_SLT_insts V I Dst LHS RHS hS8
      split_ifs at h
      · have hRR := Except.ok.inj (h.symm.trans hR)
        subst hRR
        simp [LegalizeResult.insts] at hC
        rcases hC with rfl | rfl | rfl <;> simp at hop
      · have hRR := Except.ok.inj (h.symm.trans hR)
        subst hRR
        simp [LegalizeResult.insts] at hC
        rcases hC with rfl | rfl | rfl | rfl | rfl | rfl | rfl | rfl <;> simp at hop
  rcases hp with rfl | rfl | rfl
  · obtain ⟨R0, hR0, hMI, hall⟩ := legalizeICmp_wide_flag_insts
      (MachineIRBuilder.atInstr ⟨V, I⟩) (mkICmp Predicate.ICMP_EQ Dst LHS RHS)
      (fun C hC => by simp [MachineIRBuilder.atInstr] at hC) (Or.inl rfl) hS8 hptrf
    have hRR : R0 = R := Except.ok.inj (hR0.symm.trans hR)
    subst hRR
    rw [LegalizeResult.insts, hMI, Option.toList, List.append_nil] at hC
    exact ⟨rfl, (hall C hC).2 hop⟩
  · obtain ⟨R0, hR0, hMI, hall⟩ := legalizeICmp_wide_flag_insts
      (MachineIRBuilder.atInstr ⟨V, I⟩) (mkICmp Predicate.ICMP_UGE Dst LHS RHS)
      (fun C hC => by simp [MachineIRBuilder.atInstr] at hC) (Or.inr rfl) hS8 hptrf
    have hRR : R0 = R := Except.ok.inj (hR0.symm.trans hR)
    subst hRR
    rw [LegalizeResult.insts, hMI, Option.toList, List.append_nil] at hC
    exact ⟨rfl, (hall C hC).2 hop⟩
  · exfalso
    by_cases hN : ((MachineRegisterInfo.mk V I).getType LHS).getSizeInBits / 8 = 0
    · have h := legalizeICmp_narrow_SLT_error V I Dst LHS RHS _ rfl hTy hptrf hN
      rw [mkICmp, h] at hR
      exact Except.noConfusion hR
    · have hRt : RHS < V.length := by
        apply getType_lt_of_ne_invalid V I
        rw [hTy]
        intro h0
        rw [h0] at hN
        exact hN rfl
      obtain ⟨R0, hR0, hMI, hAf, hBf, -⟩ := legalizeICmp_wide_SLT_insts V I Dst LHS RHS
        (((MachineRegisterInfo.mk V I).getType LHS).getSizeInBits / 8) _
        (Nat.one_le_iff_ne_zero.mpr hN) hRt rfl hTy hS8 hptrf rfl
      have hRR : R0 = R := Except.ok.inj (hR0.symm.trans hR)
      subst hRR
      simp only [LegalizeResult.insts, hMI, hAf, hBf, Option.toList, List.append_nil,
        List.mem_append, List.mem_cons, List.mem_singleton, List.not_mem_nil, or_false] at hC
      rcases hC with ((hC | hC | hC) | hC) | hC
      · subst hC; simp at hop
      · subst hC; simp at hop
      · subst hC; simp at hop
      · exact absurd hop (chainInsts_not_icmp _ _ _ _ _ C hC)
      · split_ifs at hC
        · simp only [sltZeroInsts, List.mem_cons, List.mem_singleton, List.not_mem_nil,
            or_false] at hC
          rcases hC with rfl | rfl <;> simp at hop
        · simp only [sltFinalInsts, List.mem_cons, List.mem_singleton, List.not_mem_nil,
            or_false] at hC
          rcases hC with rfl | rfl | rfl | rfl | rfl | rfl | rfl <;> simp at hop

/-- C34: neither guard of the last switch of `legalizeICmp` ever fails, for any
builder state and instruction: not the assertion that the type is 8 bits, and
not the default branch `Unexpected integer comparison type`. The seven
predicates other than EQ, UGE and SLT return from the first switch with the
comparison kept. For a comparison of two registers of one type, whatever the
type, every `G_SBC` the routine builds (the last switch always builds one)
is built for EQ, UGE or SLT and subtracts two 8-bit registers; and every
comparison built on the way to erasing the given one, which happens in the
multi-byte branch only, carries EQ or the given predicate, which is not
signed, so the predicate for the rest is never converted. -/
theorem legalizeICmp_final_switch_spec (V : List LLT) (I : List MachineInstr)
    (Dst LHS RHS : Nat) (p : Predicate)
    (hTy : (MachineRegisterInfo.mk V I).getType RHS = (MachineRegisterInfo.mk V I).getType LHS) :
    (∀ B MI, legalizeICmp B MI ≠ Except.error "Type == S8" ∧
      legalizeICmp B MI ≠ Except.error "Unexpected integer comparison type.") ∧
    (∀ B MI,
      MI.getPredicate 1 ∉ [Predicate.ICMP_EQ, Predicate.ICMP_UGE, Predicate.ICMP_SLT] →
      legalizeICmp B MI = Except.ok
        { B := (negateInverseComparison B MI).1, MI := some (negateInverseComparison B MI).2,
          Legalized := true } ∨
      legalizeICmp B MI =
        Except.ok { B := B, MI := some (swapComparison MI), Legalized := true }) ∧
    (∀ R, legalizeICmp (MachineIRBuilder.atInstr ⟨V, I⟩) (mkICmp p Dst LHS RHS) = Except.ok R →
      ∀ C, C ∈ R.insts → C.Opcode = Opcode.G_SBC →
        (p = Predicate.ICMP_EQ ∨ p = Predicate.ICMP_UGE ∨ p = Predicate.ICMP_SLT) ∧
        R.MI = none ∧
        R.B.MRI.getType (C.getReg 5) = S8 ∧ R.B.MRI.getType (C.getReg 6) = S8) ∧
    (∀ R, legalizeICmp (MachineIRBuilder.atInstr ⟨V, I⟩) (mkICmp p Dst LHS RHS) = Except.ok R →
      R.MI = none →
      ∀ C, C ∈ R.insts → C.Opcode = Opcode.G_ICMP →
        CmpInst.isSigned p = false ∧
        (C.getPredicate 1 = Predicate.ICMP_EQ ∨ C.getPredicate 1 = p)) :=
  ⟨legalizeICmp_guards, legalizeICmp_first_switch,
    legalizeICmp_sbc_operands V I Dst LHS RHS p hTy,
    legalizeICmp_icmp_predicates V I Dst LHS RHS p hTy⟩

theorem legalizeICmp_final_switch_spec_witness :
    (MachineRegisterInfo.mk [S1, S16, S16] []).getType 2 =
      (MachineRegisterInfo.mk [S1, S16, S16] []).getType 1 ∧
    ((∀ B MI, legalizeICmp B MI ≠ Except.error "Type == S8" ∧
      legalizeICmp B MI ≠ Except.error "Unexpected integer comparison type.") ∧
    (∀ B MI,
      MI.getPredicate 1 ∉ [Predicate.ICMP_EQ, Predicate.ICMP_UGE, Predicate.ICMP_SLT] →
      legalizeICmp B MI = Except.ok
        { B := (negateInverseComparison B MI).1, MI := some (negateInverseComparison B MI).2,
          Legalized := true } ∨
      legalizeICmp B MI =
        Except.ok { B := B, MI := some (swapComparison MI), Legalized := true }) ∧
    (∀ R, legalizeICmp (MachineIRBuilder.atInstr ⟨[S1, S16, S16], []⟩)
        (mkICmp Predicate.ICMP_SLT 0 1 2) = Except.ok R →
      ∀ C, C ∈ R.insts → C.Opcode = Opcode.G_SBC →
        (Predicate.ICMP_SLT = Predicate.ICMP_EQ ∨ Predicate.ICMP_SLT = Predicate.ICMP_UGE ∨
          Predicate.ICMP_SLT = Predicate.ICMP_SLT) ∧
        R.MI = none ∧
        R.B.MRI.getType (C.getReg 5) = S8 ∧ R.B.MRI.getType (C.getReg 6) = S8) ∧
    (∀ R, legalizeICmp (MachineIRBuilder.atInstr ⟨[S1, S16, S16], []⟩)
        (mkICmp Predicate.ICMP_SLT 0 1 2) = Except.ok R →
      R.MI = none →
      ∀ C, C ∈ R.insts → C.Opcode = Opcode.G_ICMP →
        CmpInst.isSigned Predicate.ICMP_SLT = false ∧
        (C.getPredicate 1 = Predicate.ICMP_EQ ∨ C.getPredicate 1 = Predicate.ICMP_SLT))) ∧
    (legalizeICmp (MachineIRBuilder.atInstr ⟨[S1, S16, S16], []⟩)
        (mkICmp Predicate.ICMP_SLT 0 1 2)).map (fun R => R.insts.map (fun C => C.Opcode)) =
      Except.ok [Opcode.G_UNMERGE_VALUES, Opcode.G_UNMERGE_VALUES, Opcode.G_CONSTANT,
        Opcode.G_SBC, Opcode.G_SBC, Opcode.G_CONSTANT, Opcode.G_XOR, Opcode.G_CONSTANT,
        Opcode.G_CONSTANT, Opcode.G_SELECT, Opcode.G_SBC] :=
  ⟨rfl, legalizeICmp_final_switch_spec [S1, S16, S16] [] 0 1 2 Predicate.ICMP_SLT rfl, rfl⟩

/-- The first of the operand widths of an instruction is the width of its first
operand. -/
theorem operandWidths_head (MRI : MachineRegisterInfo) (MI : MachineInstr) :
    (operandWidths MRI MI).head? = some (MRI.getType (MI.getReg 0)).getSizeInBits := by
  unfold operandWidths getTypes
  dsimp only
  split <;> rfl

/-- The helper that `legalizeXor` calls, and the type of the result then. -/
theorem legalizeXor_helper (B : MachineIRBuilder) (MI : MachineInstr) (Call : HelperCall)
    (h : legalizeXor B MI = Except.ok (Outcome.helper Call)) :
    Call = HelperCall.widenScalar MI 0 (LLT.scalar 8) ∧ B.MRI.getType (MI.getReg 0) = S1 := by
  unfold legalizeXor at h
  dsimp only at h
  split at h
  · exact Except.noConfusion h
  · rename_i hS1
    refine ⟨?_, not_not.1 hS1⟩
    repeat' split at h
    all_goals first
      | exact Except.noConfusion h
      | exact Outcome.noConfusion (Except.ok.inj h)
      | exact (Outcome.helper.inj (Except.ok.inj h)).symm

/-- The helpers that `legalizeLshrShl` calls: the library call, or the
reduction to half the width of the result. -/
theorem legalizeLshrShl_helper (B : MachineIRBuilder) (MI : MachineInstr) (Call : HelperCall)
    (h : legalizeLshrShl B MI = Except.ok (Outcome.helper Call)) :
    (∃ Size Args, Call = HelperCall.createLibcall MI.Opcode Size (MI.getReg 0) Args) ∨
    ∃ Amt AmtTy, Call = HelperCall.narrowScalarShiftByConstant MI Amt
      (LLT.scalar ((B.MRI.getType (MI.getReg 0)).getSizeInBits / 2)) AmtTy := by
  unfold legalizeLshrShl at h
  dsimp only at h
  split at h
  · exact Except.noConfusion h
  · rename_i hTy
    have hTy2 := not_not.1 hTy
    repeat' split at h
    all_goals first
      | exact Except.noConfusion h
      | exact Outcome.noConfusion (Except.ok.inj h)
      | exact Or.inl ⟨_, _, (Outcome.helper.inj (Except.ok.inj h)).symm⟩
      | (rw [hTy2]
         exact Or.inr ⟨_, _, (Outcome.helper.inj (Except.ok.inj h)).symm⟩)

theorem legalizeRotl_helper (B : MachineIRBuilder) (MI : MachineInstr) (Call : HelperCall)
    (h : legalizeRotl B MI = Outcome.helper Call) : Call = HelperCall.lowerRotate MI := by
  unfold legalizeRotl at h
  dsimp only at h
  split at h
  · exact (Outcome.helper.inj h).symm
  · exact Outcome.noConfusion h

theorem legalizeRotr_helper (B : MachineIRBuilder) (MI : MachineInstr) (Call : HelperCall)
    (h : legalizeRotr B MI = Outcome.helper Call) : Call = HelperCall.lowerRotate MI := by
  unfold legalizeRotr at h
  dsimp only at h
  split at h
  · exact (Outcome.helper.inj h).symm
  · exact Outcome.noConfusion h

/-- The library call is one call instruction. -/
theorem createLibcall_opcodes (MRI : MachineRegisterInfo) (Result : Register)
    (Args : List (Register × Nat)) :
    ∀ C, C ∈ (createLibcall (MachineIRBuilder.atInstr MRI) Result Args).insts →
      C.Opcode = Opcode.LIBCALL := by
  intro C hC
  simp [createLibcall, LegalizeResult.insts, MachineIRBuilder.buildInstr, DstOp.addDefs,
    DstOp.addDef, MachineIRBuilder.insert, MachineIRBuilder.atInstr] at hC
  rw [hC]

/-- The generic rotate leaves no rotate in the direction of the instruction. -/
theorem lowerRotate_opcodes (MRI : MachineRegisterInfo) (MI : MachineInstr) :
    ∀ C, C ∈ (lowerRotate (MachineIRBuilder.atInstr MRI) MI).insts →
      C.Opcode ∈ [Opcode.G_CONSTANT, Opcode.G_SUB, Opcode.G_AND, Opcode.G_SHL, Opcode.G_LSHR,
        Opcode.G_OR, if MI.Opcode = Opcode.G_ROTL then Opcode.G_ROTR else Opcode.G_ROTL] := by
  intro C hC
  by_cases hL : MI.Opcode = Opcode.G_ROTL
  all_goals
    simp only [lowerRotate, hL, LegalizeResult.insts, MachineIRBuilder.buildConstant,
      MachineIRBuilder.buildAnd, MachineIRBuilder.buildInstr, DstOp.addDefs,
      DstOp.addDef, MachineIRBuilder.insert, MachineIRBuilder.atInstr,
      MachineRegisterInfo.createGenericVirtualRegister, Bool.false_eq_true, if_false, if_true,
      List.nil_append, List.append_nil, Option.toList, List.cons_append,
      List.map_cons, List.map_nil] at hC
    split at hC
    · simp at hC
      rcases hC with h1 | h1 | h1 <;> (rw [h1]; simp [hL])
    · simp at hC
      rcases hC with h1 | h1 | h1 | h1 | h1 | h1 | h1 | h1 <;> (rw [h1]; simp [hL])


/-- The destinations of an instruction are created after the registers that
are there. -/
theorem addDefs_append (Ops : List DstOp) :
    ∀ MRI : MachineRegisterInfo,
      ∃ L, (DstOp.addDefs Ops MRI).1 = ⟨MRI.VRegInfo ++ L, MRI.Insts⟩ := by
  induction Ops with
  | nil => intro MRI; exact ⟨[], by simp [DstOp.addDefs]⟩
  | cons Op Ops ih =>
    intro MRI
    cases Op with
    | ty Ty =>
      obtain ⟨L, hL⟩ := ih ⟨MRI.VRegInfo ++ [Ty], MRI.Insts⟩
      refine ⟨Ty :: L, ?_⟩
      simp only [DstOp.addDefs, DstOp.addDef, MachineRegisterInfo.createGenericVirtualRegister]
      rw [hL]
      simp
    | reg Reg =>
      obtain ⟨L, hL⟩ := ih MRI
      refine ⟨L, ?_⟩
      simp only [DstOp.addDefs, DstOp.addDef]
      exact hL

theorem shiftsAt_atInstr (Ty : LLT) (MRI : MachineRegisterInfo) :
    (MachineIRBuilder.atInstr MRI).ShiftsAt Ty := by
  intro C hC
  simp [MachineIRBuilder.atInstr] at hC

/-- An instruction that is no shift keeps the types of the shifts. -/
theorem shiftsAt_buildInstr_other (Ty : LLT) (B : MachineIRBuilder) (Opc : Opcode)
    (D : List DstOp) (S : List MachineOperand) (hne : Opc ≠ Opcode.G_SHL ∧ Opc ≠ Opcode.G_LSHR)
    (h : B.ShiftsAt Ty) : (B.buildInstr Opc D S).1.ShiftsAt Ty := by
  obtain ⟨L, hL⟩ := addDefs_append D B.MRI
  unfold MachineIRBuilder.buildInstr
  dsimp only
  intro C hC hop
  have hM : (MachineIRBuilder.insert { B with MRI := (DstOp.addDefs D B.MRI).1 }
      ⟨Opc, (DstOp.addDefs D B.MRI).2.map MachineOperand.reg ++ S⟩).MRI =
      (DstOp.addDefs D B.MRI).1 := by
    unfold MachineIRBuilder.insert
    split_ifs <;> rfl
  rw [hM, hL]
  refine inserted_insert
    (fun C => C.Opcode = Opcode.G_SHL ∨ C.Opcode = Opcode.G_LSHR →
      (B.MRI.VRegInfo ++ L)[C.getReg 0]? = some Ty) _ _ ?_ ?_ C hC hop
  · intro X hX hXop
    have h1 := h X hX hXop
    have hlt : X.getReg 0 < B.MRI.VRegInfo.length := by
      by_contra hge
      rw [List.getElem?_eq_none (Nat.le_of_not_lt hge)] at h1
      exact Option.noConfusion h1
    rw [List.getElem?_append_left hlt]
    exact h1
  · intro hXop
    rcases hXop with hXop | hXop
    · exact absurd hXop hne.1
    · exact absurd hXop hne.2

/-- A shift to a fresh register of the type keeps the types of the shifts. -/
theorem shiftsAt_buildInstr_ty (Ty : LLT) (B : MachineIRBuilder) (Opc : Opcode)
    (S : List MachineOperand) (h : B.ShiftsAt Ty) :
    (B.buildInstr Opc [DstOp.ty Ty] S).1.ShiftsAt Ty := by
  unfold MachineIRBuilder.buildInstr
  simp only [DstOp.addDefs, DstOp.addDef, MachineRegisterInfo.createGenericVirtualRegister]
  intro C hC hop
  have hM : (MachineIRBuilder.insert { B with MRI := ⟨B.MRI.VRegInfo ++ [Ty], B.MRI.Insts⟩ }
      ⟨Opc, [B.MRI.VRegInfo.length].map MachineOperand.reg ++ S⟩).MRI =
      ⟨B.MRI.VRegInfo ++ [Ty], B.MRI.Insts⟩ := by
    unfold MachineIRBuilder.insert
    split_ifs <;> rfl
  rw [hM]
  refine inserted_insert
    (fun C => C.Opcode = Opcode.G_SHL ∨ C.Opcode = Opcode.G_LSHR →
      (B.MRI.VRegInfo ++ [Ty])[C.getReg 0]? = some Ty) _ _ ?_ ?_ C hC hop
  · intro X hX hXop
    have h1 := h X hX hXop
    have hlt : X.getReg 0 < B.MRI.VRegInfo.length := by
      by_contra hge
      rw [List.getElem?_eq_none (Nat.le_of_not_lt hge)] at h1
      exact Option.noConfusion h1
    rw [List.getElem?_append_left hlt]
    exact h1
  · intro _
    simp [MachineInstr.getReg, MachineInstr.getOperand]

theorem shiftsAt_buildConstant (Ty : LLT) (B : MachineIRBuilder) (Res : DstOp) (Val : Int)
    (h : B.ShiftsAt Ty) : (B.buildConstant Res Val).1.ShiftsAt Ty :=
  shiftsAt_buildInstr_other Ty B _ _ _ (by decide) h

theorem shiftsAt_buildMerge (Ty : LLT) (B : MachineIRBuilder) (Res : DstOp)
    (Ops : List Register) (h : B.ShiftsAt Ty) : (B.buildMerge Res Ops).1.ShiftsAt Ty :=
  shiftsAt_buildInstr_other Ty B _ _ _ (by decide) h

theorem shiftsAt_buildShiftByConstant (Ty : LLT) (B : MachineIRBuilder) (Opc : Opcode)
    (AmtTy : LLT) (Src : Register) (Amt : Nat) (h : B.ShiftsAt Ty) :
    (B.buildShiftByConstant Opc Ty AmtTy Src Amt).1.ShiftsAt Ty := by
  unfold MachineIRBuilder.buildShiftByConstant
  exact shiftsAt_buildInstr_ty Ty _ _ _
    (shiftsAt_buildConstant Ty B (DstOp.ty AmtTy) (Int.ofNat Amt) h)

/-- Every shift that the reduction to half the width leaves is a shift at the
half type. -/
theorem narrowScalarShiftByConstant_shiftsAt (MRI : MachineRegisterInfo)
    (MI : MachineInstr) (Amt : Nat) (HalfTy AmtTy : LLT) :
    (narrowScalarShiftByConstant (MachineIRBuilder.atInstr MRI) MI Amt HalfTy
      AmtTy).B.ShiftsAt HalfTy := by
  unfold narrowScalarShiftByConstant
  dsimp only
  repeat' split
  all_goals
    dsimp only
    repeat (first
      | (with_reducible exact shiftsAt_atInstr _ _)
      | (with_reducible apply shiftsAt_buildMerge)
      | (with_reducible apply shiftsAt_buildShiftByConstant)
      | (with_reducible apply shiftsAt_buildConstant)
      | (with_reducible apply shiftsAt_buildInstr_ty)
      | (with_reducible apply shiftsAt_buildInstr_other _ _ _ _ _ (by decide)))


/-- Every shift that the reduction to half the width leaves has a result of
the half type. -/
theorem narrowScalarShiftByConstant_types (MRI : MachineRegisterInfo)
    (MI : MachineInstr) (Amt : Nat) (HalfTy AmtTy : LLT) :
    ∀ C, C ∈ (narrowScalarShiftByConstant (MachineIRBuilder.atInstr MRI) MI Amt HalfTy
        AmtTy).insts →
      C.Opcode = Opcode.G_SHL ∨ C.Opcode = Opcode.G_LSHR →
      (narrowScalarShiftByConstant (MachineIRBuilder.atInstr MRI) MI Amt HalfTy
        AmtTy).B.MRI.getType (C.getReg 0) = HalfTy := by
  intro C hC hop
  have hB := narrowScalarShiftByConstant_shiftsAt MRI MI Amt HalfTy AmtTy
  have hN : (narrowScalarShiftByConstant (MachineIRBuilder.atInstr MRI) MI Amt HalfTy
      AmtTy).MI = none := by
    unfold narrowScalarShiftByConstant
    dsimp only
    repeat' split
    all_goals rfl
  simp only [LegalizeResult.insts, hN, Option.toList, List.append_nil] at hC
  have h := hB C hC hop
  simp [MachineRegisterInfo.getType, List.getD_eq_getElem?_getD, h]

/-- The operation that the widening keeps has a result of the wide type. -/
theorem widenScalar_types (V : List LLT) (I : List MachineInstr) (MI : MachineInstr)
    (WideTy : LLT) (d : Register) (Ops : List MachineOperand)
    (hOps : MI.Operands = MachineOperand.reg d :: Ops) :
    ∀ C, C ∈ (widenScalar (MachineIRBuilder.atInstr ⟨V, I⟩) MI WideTy).insts →
      C.Opcode ∉ [Opcode.G_ANYEXT, Opcode.G_TRUNC] →
      (widenScalar (MachineIRBuilder.atInstr ⟨V, I⟩) MI WideTy).B.MRI.getType (C.getReg 0) =
        WideTy := by
  intro C hC hop
  simp only [widenScalar, LegalizeResult.insts, MachineIRBuilder.buildInstr, DstOp.addDefs,
    DstOp.addDef, MachineIRBuilder.insert, MachineIRBuilder.atInstr,
    MachineIRBuilder.setInsertPtNext,
    MachineRegisterInfo.createGenericVirtualRegister, Bool.false_eq_true, if_false, if_true,
    List.nil_append, List.append_nil, Option.toList, List.cons_append,
    List.map_cons, List.map_nil] at hC ⊢
  simp at hC
  rcases hC with rfl | rfl | rfl | rfl
  · exact absurd (by simp) hop
  · exact absurd (by simp) hop
  · have hR : (((MI.setReg 1 V.length).setReg 2 (V.length + 1)).setReg 0
        (V.length + 2)).getReg 0 = V.length + 2 := by
      simp [MachineInstr.setReg, MachineInstr.getReg, MachineInstr.getOperand, hOps]
    simp only [MachineInstr.getReg, MachineInstr.getOperand, List.getD_cons_zero] at hR ⊢
    rw [hR, List.append_assoc, List.append_assoc]
    exact getType_new V I [WideTy, WideTy, WideTy] 2
  · exact absurd (by simp) hop

/-- The table routes a shift of an integer to its routine only at a width that
is not zero. -/
theorem getAction_custom_shift_pos (Opc : Opcode) (n : Nat) (T1 : LLT)
    (hOpc : Opc = Opcode.G_LSHR ∨ Opc = Opcode.G_SHL)
    (h : getAction Opc [LLT.scalar n, T1] = Except.ok LegalizeAction.Custom) : 0 < n := by
  unfold getAction LegalizeRuleSet.apply at h
  obtain ⟨-, -, -, h4, h5⟩ := MOSLegalizerInfo_assert_rules
  have hR : (MOSLegalizerInfo Opc).Rules = (MOSLegalizerInfo Opcode.G_LSHR).Rules := by
    rcases hOpc with rfl | rfl
    · rfl
    · exact h5
  rw [hR, h4] at h
  by_cases hp : isPowerOf2_32 n = true
  · by_contra h0
    have h00 : n = 0 := by omega
    rw [h00] at hp
    exact absurd hp (by decide)
  · simp [LegalizeRuleSet.applyRules, LegalityPredicate.eval, LLT.isScalar,
      LLT.getSizeInBits, hp] at h

/-- What the helper that `legalizeXor` calls leaves has no exclusive or at
the width of the instruction. -/
theorem legalizeXor_helper_changes (V : List LLT) (I : List MachineInstr) (MI : MachineInstr)
    (Call : HelperCall) (hWF : MI.wellFormed ⟨V, I⟩ = true) (hOpc : MI.Opcode = Opcode.G_XOR)
    (hX : legalizeXor (MachineIRBuilder.atInstr ⟨V, I⟩) MI = Except.ok (Outcome.helper Call)) :
    ∀ C, C ∈ (Call.result ⟨V, I⟩).insts →
      ¬ (C.Opcode = MI.Opcode ∧
        operandWidths (Call.result ⟨V, I⟩).B.MRI C = operandWidths ⟨V, I⟩ MI) := by
  intro C hC hn
  obtain ⟨hop, hw⟩ := hn
  obtain ⟨d, Ops, hOps⟩ := wellFormed_first _ _ hWF
  obtain ⟨hCall, hS1⟩ := legalizeXor_helper _ MI Call hX
  subst hCall
  have hT := widenScalar_types V I MI (LLT.scalar 8) d Ops hOps C hC
    (by rw [hop, hOpc]; decide)
  have hh := congrArg List.head? hw
  rw [operandWidths_head, operandWidths_head] at hh
  have hh1 := Option.some.inj hh
  have hT1 : (HelperCall.result ⟨V, I⟩ (HelperCall.widenScalar MI 0 (LLT.scalar 8))).B.MRI.getType
      (C.getReg 0) = LLT.scalar 8 := hT
  have hS2 : (MachineRegisterInfo.mk V I).getType (MI.getReg 0) = S1 := hS1
  rw [hT1, hS2] at hh1
  exact absurd hh1 (by decide)

/-- What the helpers that `legalizeLshrShl` calls leave has no shift of the
opcode of the instruction at its width. -/
theorem legalizeLshrShl_helper_changes (V : List LLT) (I : List MachineInstr)
    (MI : MachineInstr) (Call : HelperCall) (hWF : MI.wellFormed ⟨V, I⟩ = true)
    (hOpc : MI.Opcode = Opcode.G_LSHR ∨ MI.Opcode = Opcode.G_SHL)
    (hCustom : getAction MI.Opcode (getTypes ⟨V, I⟩ MI) = Except.ok LegalizeAction.Custom)
    (hX : legalizeLshrShl (MachineIRBuilder.atInstr ⟨V, I⟩) MI =
      Except.ok (Outcome.helper Call)) :
    ∀ C, C ∈ (Call.result ⟨V, I⟩).insts →
      ¬ (C.Opcode = MI.Opcode ∧
        operandWidths (Call.result ⟨V, I⟩).B.MRI C = operandWidths ⟨V, I⟩ MI) := by
  intro C hC hn
  obtain ⟨hop, hw⟩ := hn
  rcases legalizeLshrShl_helper _ MI Call hX with ⟨Size, Args, hCall⟩ | ⟨Amt, AmtTy, hCall⟩
  · subst hCall
    have hL := createLibcall_opcodes ⟨V, I⟩ (MI.getReg 0) Args C hC
    rw [hop] at hL
    rcases hOpc with h | h <;> rw [h] at hL <;> exact Opcode.noConfusion hL
  · subst hCall
    have hT := narrowScalarShiftByConstant_types ⟨V, I⟩ MI Amt _ AmtTy C hC
      (by rw [hop]; exact hOpc.symm)
    have hh := congrArg List.head? hw
    rw [operandWidths_head, operandWidths_head] at hh
    have hh1 := Option.some.inj hh
    have hT1 : (HelperCall.result ⟨V, I⟩ (HelperCall.narrowScalarShiftByConstant MI Amt
        (LLT.scalar (((MachineIRBuilder.atInstr ⟨V, I⟩).MRI.getType
          (MI.getReg 0)).getSizeInBits / 2)) AmtTy)).B.MRI.getType (C.getReg 0) =
        LLT.scalar (((MachineRegisterInfo.mk V I).getType (MI.getReg 0)).getSizeInBits / 2) :=
      hT
    rw [hT1] at hh1
    have hSc : ((MachineRegisterInfo.mk V I).getType (MI.getReg 0)).isScalar = true := by
      unfold MachineInstr.wellFormed at hWF
      rcases hOpc with h | h
      all_goals
        rw [h] at hWF
        dsimp only at hWF
        split at hWF
        · rename_i Dst Rest hOps
          simpa [MachineInstr.getReg, MachineInstr.getOperand, hOps] using hWF
        · exact Bool.noConfusion hWF
    cases hTy : (MachineRegisterInfo.mk V I).getType (MI.getReg 0) with
    | invalid => rw [hTy] at hSc; exact Bool.noConfusion hSc
    | pointer a n => rw [hTy] at hSc; exact Bool.noConfusion hSc
    | scalar n =>
      have hQ : getTypes ⟨V, I⟩ MI = [(MachineRegisterInfo.mk V I).getType (MI.getReg 0),
          (MachineRegisterInfo.mk V I).getType (MI.getReg 2)] := by
        unfold getTypes
        rcases hOpc with h | h <;> rw [h]
      rw [hQ, hTy] at hCustom
      have hpos := getAction_custom_shift_pos MI.Opcode n _ hOpc hCustom
      rw [hTy] at hh1
      simp only [LLT.getSizeInBits] at hh1
      omega

/-- What a routine that may hand the instruction to a helper leaves. -/
theorem insts_map_atInstr (X : Except String Outcome) (O : CustomOutcome)
    (MRI : MachineRegisterInfo) (Blocks : List MachineBasicBlock)
    (Q : MachineRegisterInfo → MachineInstr → Prop)
    (h : X.map CustomOutcome.atInstr = Except.ok O)
    (hR : ∀ R, X = Except.ok (Outcome.rewritten R) → ∀ C, C ∈ R.insts → Q R.B.MRI C)
    (hH : ∀ Call, X = Except.ok (Outcome.helper Call) →
      ∀ C, C ∈ (Call.result MRI).insts → Q (Call.result MRI).B.MRI C) :
    ∀ C, C ∈ O.insts MRI Blocks → Q (O.regInfo MRI) C := by
  cases X with
  | error e => exact Except.noConfusion h
  | ok Out =>
    have h1 : CustomOutcome.atInstr Out = O := Except.ok.inj h
    subst h1
    cases Out with
    | rewritten R => exact hR R rfl
    | helper Call => exact hH Call rfl

/-- What a routine that returns a result or fails leaves. -/
theorem insts_map_rewritten (X : Except String LegalizeResult) (O : CustomOutcome)
    (MRI : MachineRegisterInfo) (Blocks : List MachineBasicBlock) (L : List Opcode)
    (h : X.map (fun R => CustomOutcome.atInstr (Outcome.rewritten R)) = Except.ok O)
    (hL : ∀ R, X = Except.ok R → ∀ C, C ∈ R.insts → C.Opcode ∈ L) :
    ∀ C, C ∈ O.insts MRI Blocks → C.Opcode ∈ L := by
  cases X with
  | error e => exact Except.noConfusion h
  | ok R =>
    have h1 : CustomOutcome.atInstr (Outcome.rewritten R) = O := Except.ok.inj h
    subst h1
    exact hL R rfl

/-- What a routine that does not fail leaves. -/
theorem insts_ok_atInstr (Out : Outcome) (O : CustomOutcome)
    (MRI : MachineRegisterInfo) (Blocks : List MachineBasicBlock)
    (Q : MachineRegisterInfo → MachineInstr → Prop)
    (h : Except.ok (CustomOutcome.atInstr Out) = (Except.ok O : Except String CustomOutcome))
    (hR : ∀ R, Out = Outcome.rewritten R → ∀ C, C ∈ R.insts → Q R.B.MRI C)
    (hH : ∀ Call, Out = Outcome.helper Call →
      ∀ C, C ∈ (Call.result MRI).insts → Q (Call.result MRI).B.MRI C) :
    ∀ C, C ∈ O.insts MRI Blocks → Q (O.regInfo MRI) C := by
  have h1 : CustomOutcome.atInstr Out = O := Except.ok.inj h
  subst h1
  cases Out with
  | rewritten R => exact hR R rfl
  | helper Call => exact hH Call rfl

/-- An instruction that a routine which keeps the instruction leaves with the
opcode of the instruction has an integer where the instruction has a pointer
as its first operand. -/
theorem kept_changes (MRI : MachineRegisterInfo) (MI : MachineInstr) (R : LegalizeResult)
    (L : List Opcode) (hB : R.B.OpcodesIn L) (hL : MI.Opcode ∉ L)
    (hPtr : (MRI.getType (MI.getReg 0)).isPointer = true)
    (hM : ∃ M, R.MI = some M ∧ (R.B.MRI.getType (M.getReg 0)).isScalar = true) :
    ∀ C, C ∈ R.insts → C.Opcode = MI.Opcode → ChangedInKind MRI MI R.B.MRI C := by
  intro C hC hop
  obtain ⟨M, hM1, hM2⟩ := hM
  rcases insts_cases R L hB C hC with h | h
  · rw [hop] at h
    exact absurd h hL
  · rw [hM1] at h
    have h1 : M = C := Option.some.inj h
    subst h1
    exact Or.inr ⟨0, hPtr, hM2⟩


/-- The opcodes of what a routine that rewrites the instruction itself
leaves. -/
theorem insts_ok_rewritten (R0 : LegalizeResult) (O : CustomOutcome)
    (MRI : MachineRegisterInfo) (Blocks : List MachineBasicBlock) (L : List Opcode)
    (h : Except.ok (CustomOutcome.atInstr (Outcome.rewritten R0)) =
      (Except.ok O : Except String CustomOutcome))
    (hL : ∀ R, Outcome.rewritten R0 = Outcome.rewritten R → ∀ C, C ∈ R.insts → C.Opcode ∈ L) :
    ∀ C, C ∈ O.insts MRI Blocks → C.Opcode ∈ L := by
  have h1 : CustomOutcome.atInstr (Outcome.rewritten R0) = O := Except.ok.inj h
  subst h1
  exact hL R0 rfl

/-- C26, as the code has it: whatever instruction a custom routine leaves in
the place of a well-formed instruction that the table routes to it, built or
kept or left by the helper that the routine hands the instruction to, with the
opcode of that instruction and the operand widths of that instruction, is
changed in kind: it is a comparison whose predicate has a lower rank (0 for EQ,
UGE, SLT, 1 for NE, ULT, SGE, ULE, SGT, 2 for UGT, SLE), or it has an integer
operand where the instruction has a pointer. Every routine but those of
comparisons, selects, loads, stores and phis leaves no instruction of the
opcode it was given at its operand widths: the library call is a call, the
generic rotate has no rotate in the same direction, and the shifts that the
reduction of a shift by whole bytes leaves and the exclusive or that the
widening keeps are at another width. -/
theorem legalizeCustom_changes (RS0 : Register) (VarArgsStackIndex : Int)
    (Blocks : List MachineBasicBlock) (Parent Idx : Nat)
    (V : List LLT) (I : List MachineInstr) (MI : MachineInstr) (O : CustomOutcome)
    (hWF : MI.wellFormed ⟨V, I⟩ = true)
    (hCustom : getAction MI.Opcode (getTypes ⟨V, I⟩ MI) = Except.ok LegalizeAction.Custom)
    (hO : legalizeCustom RS0 VarArgsStackIndex Blocks Parent Idx
      (MachineIRBuilder.atInstr ⟨V, I⟩) MI = Except.ok O) :
    ∀ C, C ∈ O.insts ⟨V, I⟩ Blocks → C.Opcode = MI.Opcode →
      operandWidths (O.regInfo ⟨V, I⟩) C = operandWidths ⟨V, I⟩ MI →
      ChangedInKind ⟨V, I⟩ MI (O.regInfo ⟨V, I⟩) C := by
  intro C hC hop hw
  have hcase := (getAction_custom_iff MI.Opcode).1 ⟨_, hCustom⟩
  obtain ⟨d, Ops, hOps⟩ := wellFormed_first _ _ hWF
  have hT0 : ∃ Ts, getTypes ⟨V, I⟩ MI =
      (MachineRegisterInfo.mk V I).getType (MI.getReg 0) :: Ts := by
    unfold getTypes
    dsimp only
    split <;> exact ⟨_, rfl⟩
  unfold legalizeCustom at hO
  simp only [customCases, List.mem_cons, List.mem_singleton, List.not_mem_nil, or_false] at hcase
  rcases hcase with h | h | h | h | h | h | h | h | h | h | h | h | h | h | h | h | h | h | h |
    h | h | h | h | h | h
  · rw [h] at hO hop
    dsimp only at hO
    have hmem := insts_map_rewritten _ O ⟨V, I⟩ Blocks _ hO (legalizeSExt_opcodes _ MI) C hC
    rw [hop] at hmem
    exact absurd hmem (by decide)
  · rw [h] at hO hop
    dsimp only at hO
    have hmem := insts_map_rewritten _ O ⟨V, I⟩ Blocks _ hO (legalizeZExt_opcodes _ MI) C hC
    rw [hop] at hmem
    exact absurd hmem (by decide)
  · rw [h] at hO hop
    dsimp only at hO
    have hmem := insts_map_rewritten _ O ⟨V, I⟩ Blocks _ hO (legalizeBSwap_opcodes _ MI) C hC
    rw [hop] at hmem
    exact absurd hmem (by decide)
  · rw [h] at hO
    dsimp only at hO
    exact absurd ⟨hop, hw⟩ (insts_map_atInstr _ O ⟨V, I⟩ Blocks
      (fun M C => ¬ (C.Opcode = MI.Opcode ∧ operandWidths M C = operandWidths ⟨V, I⟩ MI)) hO
      (fun R hR C hC hn => by
        have hm := legalizeXor_opcodes _ MI R hR C hC
        rw [hn.1, h] at hm
        exact absurd hm (by decide))
      (fun Call hX => legalizeXor_helper_changes V I MI Call hWF h hX) C hC)
  · rw [h] at hO
    dsimp only at hO
    exact absurd ⟨hop, hw⟩ (insts_map_atInstr _ O ⟨V, I⟩ Blocks
      (fun M C => ¬ (C.Opcode = MI.Opcode ∧ operandWidths M C = operandWidths ⟨V, I⟩ MI)) hO
      (fun R hR C hC hn => by
        have hm := legalizeLshrShl_opcodes _ MI R hR C hC
        rw [hn.1, h] at hm
        exact absurd hm (by decide))
      (fun Call hX => legalizeLshrShl_helper_changes V I MI Call hWF (Or.inl h) hCustom hX)
      C hC)
  · rw [h] at hO
    dsimp only at hO
    exact absurd ⟨hop, hw⟩ (insts_map_atInstr _ O ⟨V, I⟩ Blocks
      (fun M C => ¬ (C.Opcode = MI.Opcode ∧ operandWidths M C = operandWidths ⟨V, I⟩ MI)) hO
      (fun R hR C hC hn => by
        have hm := legalizeLshrShl_opcodes _ MI R hR C hC
        rw [hn.1, h] at hm
        exact absurd hm (by decide))
      (fun Call hX => legalizeLshrShl_helper_changes V I MI Call hWF (Or.inr h) hCustom hX)
      C hC)
  · rw [h] at hO
    dsimp only at hO
    have h1 : CustomOutcome.atInstr (shiftLibcall ⟨V, I⟩ MI) = O := Except.ok.inj hO
    subst h1
    have hL := createLibcall_opcodes ⟨V, I⟩ (MI.getReg 0) _ C hC
    rw [hop, h] at hL
    exact Opcode.noConfusion hL
  · rw [h] at hO
    dsimp only at hO
    exact absurd ⟨hop, hw⟩ (insts_ok_atInstr _ O ⟨V, I⟩ Blocks
      (fun M C => ¬ (C.Opcode = MI.Opcode ∧ operandWidths M C = operandWidths ⟨V, I⟩ MI)) hO
      (fun R hR C hC hn => by
        have hm := legalizeRotl_opcodes _ MI R hR C hC
        rw [hn.1, h] at hm
        exact absurd hm (by decide))
      (fun Call hX C hC hn => by
        have hc := legalizeRotl_helper _ MI Call hX
        subst hc
        have hm := lowerRotate_opcodes ⟨V, I⟩ MI C hC
        rw [hn.1, h] at hm
        simp at hm) C hC)
  · rw [h] at hO
    dsimp only at hO
    exact absurd ⟨hop, hw⟩ (insts_ok_atInstr _ O ⟨V, I⟩ Blocks
      (fun M C => ¬ (C.Opcode = MI.Opcode ∧ operandWidths M C = operandWidths ⟨V, I⟩ MI)) hO
      (fun R hR C hC hn => by
        have hm := legalizeRotr_opcodes _ MI R hR C hC
        rw [hn.1, h] at hm
        exact absurd hm (by decide))
      (fun Call hX C hC hn => by
        have hc := legalizeRotr_helper _ MI Call hX
        subst hc
        have hm := lowerRotate_opcodes ⟨V, I⟩ MI C hC
        rw [hn.1, h] at hm
        simp at hm) C hC)
  · rw [h] at hO
    dsimp only at hO
    cases hX : legalizeICmp (MachineIRBuilder.atInstr ⟨V, I⟩) MI with
    | error e => rw [hX] at hO; exact Except.noConfusion hO
    | ok R =>
      rw [hX] at hO
      have h1 : CustomOutcome.atInstr (Outcome.rewritten R) = O := Except.ok.inj hO
      subst h1
      rw [h] at hCustom
      exact legalizeICmp_changes V I MI hWF h hCustom R hX C hC hop hw
  · rw [h] at hO
    dsimp only at hO
    cases hX : legalizeSelect (MachineIRBuilder.atInstr ⟨V, I⟩) MI with
    | error e => rw [hX] at hO; exact Except.noConfusion hO
    | ok R =>
      rw [hX] at hO
      have h1 : CustomOutcome.atInstr (Outcome.rewritten R) = O := Except.ok.inj hO
      subst h1
      obtain ⟨hB, hPtr, hM⟩ := legalizeSelect_kept V I MI d Ops hOps R hX
      exact kept_changes ⟨V, I⟩ MI R _ hB (by rw [h]; decide) hPtr hM C hC hop
  · rw [h] at hO hop
    dsimp only at hO
    have hmem := insts_ok_rewritten _ O ⟨V, I⟩ Blocks _ hO
      (fun R hR => legalizePtrAdd_opcodes _ MI R (Outcome.rewritten.inj hR)) C hC
    rw [hop] at hmem
    exact absurd hmem (by decide)
  · rw [h] at hO hop
    dsimp only at hO
    have hmem := insts_map_rewritten _ O ⟨V, I⟩ Blocks _ hO (legalizeAddSubO_opcodes _ MI) C hC
    rw [hop] at hmem
    exact absurd hmem (by decide)
  · rw [h] at hO hop
    dsimp only at hO
    have hmem := insts_map_rewritten _ O ⟨V, I⟩ Blocks _ hO (legalizeAddSubO_opcodes _ MI) C hC
    rw [hop] at hmem
    exact absurd hmem (by decide)
  · rw [h] at hO hop
    dsimp only at hO
    have hmem := insts_map_rewritten _ O ⟨V, I⟩ Blocks _ hO (legalizeAddSubO_opcodes _ MI) C hC
    rw [hop] at hmem
    exact absurd hmem (by decide)
  · rw [h] at hO hop
    dsimp only at hO
    have hmem := insts_map_rewritten _ O ⟨V, I⟩ Blocks _ hO (legalizeAddSubO_opcodes _ MI) C hC
    rw [hop] at hmem
    exact absurd hmem (by decide)
  · rw [h] at hO hop
    dsimp only at hO
    have hmem := insts_map_rewritten _ O ⟨V, I⟩ Blocks _ hO (legalizeSubE_opcodes _ MI) C hC
    rw [hop] at hmem
    exact absurd hmem (by decide)
  · rw [h] at hO hop
    dsimp only at hO
    have hmem := insts_map_rewritten _ O ⟨V, I⟩ Blocks _ hO (legalizeSubE_opcodes _ MI) C hC
    rw [hop] at hmem
    exact absurd hmem (by decide)
  · rw [h] at hO
    dsimp only at hO
    have h1 : CustomOutcome.atInstr (Outcome.rewritten
        (legalizeLoad (MachineIRBuilder.atInstr ⟨V, I⟩) MI)) = O := Except.ok.inj hO
    subst h1
    obtain ⟨hB, hM⟩ := legalizeLoad_kept V I MI d Ops hOps
    obtain ⟨Ts, hTs⟩ := hT0
    rw [hTs] at hCustom
    have hP := getAction_custom_pointer MI.Opcode _ Ts (Or.inr (Or.inr (Or.inl h))) hCustom
    exact kept_changes ⟨V, I⟩ MI _ _ hB (by rw [h]; decide) (by rw [hP]; rfl) hM C hC hop
  · rw [h] at hO
    dsimp only at hO
    have h1 : CustomOutcome.atInstr (Outcome.rewritten
        (legalizeStore (MachineIRBuilder.atInstr ⟨V, I⟩) MI)) = O := Except.ok.inj hO
    subst h1
    obtain ⟨hB, hM⟩ := legalizeStore_kept V I MI d Ops hOps
    obtain ⟨Ts, hTs⟩ := hT0
    rw [hTs] at hCustom
    have hP := getAction_custom_pointer MI.Opcode _ Ts (Or.inr (Or.inr (Or.inr h))) hCustom
    exact kept_changes ⟨V, I⟩ MI _ _ hB (by rw [h]; decide) (by rw [hP]; rfl) hM C hC hop
  · rw [h] at hO
    dsimp only at hO
    have h1 : CustomOutcome.inFunction (legalizePhi ⟨V, I⟩ Blocks Parent Idx MI) = O :=
      Except.ok.inj hO
    subst h1
    obtain ⟨hK, hS⟩ := legalizePhi_kept V I Blocks Parent Idx MI d Ops hOps
    obtain ⟨Ts, hTs⟩ := hT0
    rw [hTs] at hCustom
    have hP := getAction_custom_pointer MI.Opcode _ Ts (Or.inr (Or.inl h)) hCustom
    simp only [CustomOutcome.insts, List.mem_filter, Bool.not_eq_true',
      contains_false_iff] at hC
    rcases hK C hC.1 with hk | hk | hk | hk
    · exact absurd hk hC.2
    · rw [hop, h] at hk
      exact absurd hk (by decide)
    · rw [hop, h] at hk
      exact absurd hk (by decide)
    · subst hk
      exact Or.inr ⟨0, by rw [hP]; rfl, hS⟩
  · rw [h] at hO hop
    dsimp only at hO
    have hmem := insts_ok_rewritten _ O ⟨V, I⟩ Blocks _ hO
      (fun R hR => legalizeBrCond_opcodes _ MI R (Outcome.rewritten.inj hR)) C hC
    rw [hop] at hmem
    exact absurd hmem (by decide)
  · rw [h] at hO hop
    dsimp only at hO
    have hmem := insts_ok_rewritten _ O ⟨V, I⟩ Blocks _ hO
      (fun R hR => legalizeVAArg_opcodes _ MI R (Outcome.rewritten.inj hR)) C hC
    rw [hop] at hmem
    exact absurd hmem (by decide)
  · rw [h] at hO hop
    dsimp only at hO
    have hmem := insts_ok_rewritten _ O ⟨V, I⟩ Blocks _ hO
      (fun R hR => legalizeVAStart_opcodes VarArgsStackIndex _ MI R (Outcome.rewritten.inj hR)) C hC
    rw [hop] at hmem
    exact absurd hmem (by decide)
  · rw [h] at hO hop
    dsimp only at hO
    have hmem := insts_map_rewritten _ O ⟨V, I⟩ Blocks _ hO (legalizeDynStackAlloc_opcodes RS0 _ MI) C hC
    rw [hop] at hmem
    exact absurd hmem (by decide)

theorem legalizeCustom_changes_witness :
    ((mkICmp Predicate.ICMP_ULE 0 1 2).wellFormed ⟨[S1, S8, S8], []⟩ = true ∧
      getAction (mkICmp Predicate.ICMP_ULE 0 1 2).Opcode
        (getTypes ⟨[S1, S8, S8], []⟩ (mkICmp Predicate.ICMP_ULE 0 1 2)) =
        Except.ok LegalizeAction.Custom ∧
      ∃ O, legalizeCustom 0 0 [] 0 0 (MachineIRBuilder.atInstr ⟨[S1, S8, S8], []⟩)
          (mkICmp Predicate.ICMP_ULE 0 1 2) = Except.ok O ∧
        ∀ C, C ∈ O.insts ⟨[S1, S8, S8], []⟩ [] →
          C.Opcode = (mkICmp Predicate.ICMP_ULE 0 1 2).Opcode →
          operandWidths (O.regInfo ⟨[S1, S8, S8], []⟩) C =
            operandWidths ⟨[S1, S8, S8], []⟩ (mkICmp Predicate.ICMP_ULE 0 1 2) →
          ChangedInKind ⟨[S1, S8, S8], []⟩ (mkICmp Predicate.ICMP_ULE 0 1 2)
            (O.regInfo ⟨[S1, S8, S8], []⟩) C) ∧
    ((⟨Opcode.G_SHL, [.reg 0, .reg 1, .reg 2]⟩ : MachineInstr).wellFormed
        ⟨[LLT.scalar 32, LLT.scalar 32, S8], [⟨Opcode.G_CONSTANT, [.reg 2, .cimm 8]⟩]⟩ = true ∧
      getAction Opcode.G_SHL
        (getTypes ⟨[LLT.scalar 32, LLT.scalar 32, S8], [⟨Opcode.G_CONSTANT, [.reg 2, .cimm 8]⟩]⟩
          ⟨Opcode.G_SHL, [.reg 0, .reg 1, .reg 2]⟩) = Except.ok LegalizeAction.Custom ∧
      ∃ O, legalizeCustom 0 0 [] 0 0
          (MachineIRBuilder.atInstr
            ⟨[LLT.scalar 32, LLT.scalar 32, S8], [⟨Opcode.G_CONSTANT, [.reg 2, .cimm 8]⟩]⟩)
          ⟨Opcode.G_SHL, [.reg 0, .reg 1, .reg 2]⟩ = Except.ok O ∧
        O.insts ⟨[LLT.scalar 32, LLT.scalar 32, S8], [⟨Opcode.G_CONSTANT, [.reg 2, .cimm 8]⟩]⟩ [] =
          [⟨Opcode.G_UNMERGE_VALUES, [.reg 3, .reg 4, .reg 1]⟩,
           ⟨Opcode.G_CONSTANT, [.reg 5, .cimm 8]⟩,
           ⟨Opcode.G_SHL, [.reg 6, .reg 3, .reg 5]⟩,
           ⟨Opcode.G_CONSTANT, [.reg 7, .cimm 8]⟩,
           ⟨Opcode.G_SHL, [.reg 8, .reg 4, .reg 7]⟩,
           ⟨Opcode.G_CONSTANT, [.reg 9, .cimm 8]⟩,
           ⟨Opcode.G_LSHR, [.reg 10, .reg 3, .reg 9]⟩,
           ⟨Opcode.G_OR, [.reg 11, .reg 8, .reg 10]⟩,
           ⟨Opcode.G_MERGE_VALUES, [.reg 0, .reg 6, .reg 11]⟩] ∧
        (O.regInfo
          ⟨[LLT.scalar 32, LLT.scalar 32, S8], [⟨Opcode.G_CONSTANT, [.reg 2, .cimm 8]⟩]⟩).VRegInfo =
          [LLT.scalar 32, LLT.scalar 32, S8, S16, S16, S8, S16, S8, S16, S8, S16, S16] ∧
        ∀ C, C ∈ O.insts
            ⟨[LLT.scalar 32, LLT.scalar 32, S8], [⟨Opcode.G_CONSTANT, [.reg 2, .cimm 8]⟩]⟩ [] →
          C.Opcode = Opcode.G_SHL →
          operandWidths (O.regInfo
            ⟨[LLT.scalar 32, LLT.scalar 32, S8], [⟨Opcode.G_CONSTANT, [.reg 2, .cimm 8]⟩]⟩) C =
            operandWidths
              ⟨[LLT.scalar 32, LLT.scalar 32, S8], [⟨Opcode.G_CONSTANT, [.reg 2, .cimm 8]⟩]⟩
              ⟨Opcode.G_SHL, [.reg 0, .reg 1, .reg 2]⟩ →
          ChangedInKind
            ⟨[LLT.scalar 32, LLT.scalar 32, S8], [⟨Opcode.G_CONSTANT, [.reg 2, .cimm 8]⟩]⟩
            ⟨Opcode.G_SHL, [.reg 0, .reg 1, .reg 2]⟩
            (O.regInfo
              ⟨[LLT.scalar 32, LLT.scalar 32, S8], [⟨Opcode.G_CONSTANT, [.reg 2, .cimm 8]⟩]⟩) C) :=
  ⟨⟨by decide, rfl, _, rfl,
    legalizeCustom_changes 0 0 [] 0 0 [S1, S8, S8] [] (mkICmp Predicate.ICMP_ULE 0 1 2) _
      (by decide) rfl rfl⟩,
   ⟨by decide, rfl, _, rfl, rfl, rfl,
    legalizeCustom_changes 0 0 [] 0 0 [LLT.scalar 32, LLT.scalar 32, S8]
      [⟨Opcode.G_CONSTANT, [.reg 2, .cimm 8]⟩] ⟨Opcode.G_SHL, [.reg 0, .reg 1, .reg 2]⟩ _
      (by decide) rfl rfl⟩⟩

/-- C26, counterexample: the table routes the comparison `%0:s1 = G_ICMP ule
%1:s8, %2:s8` and the select of pointers `%0:p = G_SELECT %1:s1, %2:p, %3:p`
to their routines, and each routine leaves an instruction of the same opcode at
the same operand widths: the comparison `%0 = G_ICMP uge %2, %1`, and a select
on 16-bit integers. -/
theorem legalizeCustom_changes_counterexample :
    (getAction Opcode.G_ICMP (getTypes ⟨[S1, S8, S8], []⟩ (mkICmp Predicate.ICMP_ULE 0 1 2)) =
        Except.ok LegalizeAction.Custom ∧
      ∃ O, legalizeCustom 0 0 [] 0 0 (MachineIRBuilder.atInstr ⟨[S1, S8, S8], []⟩)
          (mkICmp Predicate.ICMP_ULE 0 1 2) = Except.ok O ∧
        mkICmp Predicate.ICMP_UGE 0 2 1 ∈ O.insts ⟨[S1, S8, S8], []⟩ [] ∧
        ¬ LeavesNoSameOperation ⟨[S1, S8, S8], []⟩ (mkICmp Predicate.ICMP_ULE 0 1 2) [] O) ∧
    (getAction Opcode.G_SELECT (getTypes ⟨[P, S1, P, P], []⟩
        ⟨Opcode.G_SELECT, [MachineOperand.reg 0, MachineOperand.reg 1, MachineOperand.reg 2,
          MachineOperand.reg 3]⟩) = Except.ok LegalizeAction.Custom ∧
      ∃ O, legalizeCustom 0 0 [] 0 0 (MachineIRBuilder.atInstr ⟨[P, S1, P, P], []⟩)
          ⟨Opcode.G_SELECT, [MachineOperand.reg 0, MachineOperand.reg 1, MachineOperand.reg 2,
            MachineOperand.reg 3]⟩ = Except.ok O ∧
        O.regInfo ⟨[P, S1, P, P], []⟩ = ⟨[P, S1, P, P, S16, S16, S16], []⟩ ∧
        (⟨Opcode.G_SELECT, [MachineOperand.reg 6, MachineOperand.reg 1, MachineOperand.reg 4,
          MachineOperand.reg 5]⟩ : MachineInstr) ∈ O.insts ⟨[P, S1, P, P], []⟩ [] ∧
        ¬ LeavesNoSameOperation ⟨[P, S1, P, P], []⟩
          ⟨Opcode.G_SELECT, [MachineOperand.reg 0, MachineOperand.reg 1, MachineOperand.reg 2,
            MachineOperand.reg 3]⟩ [] O) := by
  refine ⟨⟨rfl, _, rfl, by decide, ?_⟩, ⟨rfl, _, rfl, by decide, by decide, ?_⟩⟩
  · intro hL
    exact hL (mkICmp Predicate.ICMP_UGE 0 2 1) (by decide) ⟨rfl, by decide⟩
  · intro hL
    exact hL ⟨Opcode.G_SELECT, [MachineOperand.reg 6, MachineOperand.reg 1,
      MachineOperand.reg 4, MachineOperand.reg 5]⟩ (by decide) ⟨rfl, by decide⟩

end MOS
